import Mathlib

/-!
Onyx parser: a shallow embedding of `src/src/onyxparser.c`.

The parser of the Onyx front-end is a recursive-descent parser over a pre-lexed
token array.  It allocates AST nodes from an arena and links them by pointer,
mutating nodes that are already part of the tree (the operator stack of
`parse_expression`, the `next` threading of `parse_block`).

The embedding keeps that shape:

* the token array is a list, token pointers are indices into it;
* the arena is a list of nodes (`OnyxParser.heap`), node pointers are `NodePtr`;
* every C function is a function in the state monad `P` over `OnyxParser`;
* a read outside the token array, a dereference of `NULL` and a failed `assert`
  are faults (`Fault`), which end the run;
* recursion and `while` loops are driven by a fuel argument that decreases at
  every call; running out of fuel is the fault `Fault.out_of_fuel`.
-/

namespace Onyx

/-! ## Tokens -/

/-- Modelled from the spec: the token type tag of `onyxlex.h` (not under src).
A tag is a single ASCII character for punctuators, or a named enumerant for
multi-character operators, keywords, literals, comments and end-of-stream. -/
inductive TokenType where
  | ascii (c : Char)
  | Token_Type_Comment
  | Token_Type_End_Stream
  | Token_Type_Symbol
  | Token_Type_Literal_String
  | Token_Type_Literal_Numeric
  | Token_Type_Literal_True
  | Token_Type_Literal_False
  | Token_Type_Keyword_If
  | Token_Type_Keyword_Elseif
  | Token_Type_Keyword_Else
  | Token_Type_Keyword_While
  | Token_Type_Keyword_Return
  | Token_Type_Keyword_Break
  | Token_Type_Keyword_Continue
  | Token_Type_Keyword_Cast
  | Token_Type_Keyword_Proc
  | Token_Type_Keyword_Global
  | Token_Type_Keyword_Use
  | Token_Type_Right_Arrow
  | Token_Type_Empty_Block
  | Token_Type_Equal_Equal
  | Token_Type_Not_Equal
  | Token_Type_Less_Equal
  | Token_Type_Greater_Equal
  | Token_Type_Plus_Equal
  | Token_Type_Minus_Equal
  | Token_Type_Star_Equal
  | Token_Type_Fslash_Equal
  | Token_Type_Percent_Equal
  deriving DecidableEq, Repr

open TokenType

/-- Modelled from the spec: a source position (the `pos` field of a token). -/
structure OnyxFilePos where
  line : Nat
  column : Nat
  deriving DecidableEq, Repr

/-- Modelled from the spec: a token of `onyxlex.h`: type tag, source position
and text slice (`text`, `length`); the slice is kept as its list of characters. -/
structure OnyxToken where
  type : TokenType
  text : List Char
  pos : OnyxFilePos
  deriving DecidableEq, Repr

/-! ## Diagnostics -/

/-- Modelled from the spec: the diagnostic kinds of `onyxmsgs.h` that the parser posts. -/
inductive OnyxMessageType where
  | ONYX_MESSAGE_TYPE_EXPECTED_TOKEN
  | ONYX_MESSAGE_TYPE_UNEXPECTED_TOKEN
  | ONYX_MESSAGE_TYPE_EXPECTED_EXPRESSION
  | ONYX_MESSAGE_TYPE_UNKNOWN_DIRECTIVE
  deriving DecidableEq, Repr

open OnyxMessageType

/-- One variadic argument of `onyx_message_add`: the name of a token type
(`token_name(t)`) or a piece of source text. -/
inductive MsgArg where
  | token_name (t : TokenType)
  | text (s : List Char)
  deriving DecidableEq, Repr

/-- A posted diagnostic: kind, position and the variadic arguments. -/
structure OnyxMessage where
  type : OnyxMessageType
  pos : OnyxFilePos
  args : List MsgArg
  deriving DecidableEq, Repr

/-! ## AST nodes -/

/-- Modelled from the spec: the node kind tag of `astnodes.h`, restricted to the kinds the parser uses. -/
inductive AstKind where
  | Ast_Kind_Error
  | Ast_Kind_Basic_Type
  | Ast_Kind_Literal
  | Ast_Kind_Symbol
  | Ast_Kind_Unary_Op
  | Ast_Kind_Binary_Op
  | Ast_Kind_Call
  | Ast_Kind_Argument
  | Ast_Kind_Assignment
  | Ast_Kind_If
  | Ast_Kind_While
  | Ast_Kind_Return
  | Ast_Kind_Break
  | Ast_Kind_Block
  | Ast_Kind_Local_Group
  | Ast_Kind_Local
  | Ast_Kind_Param
  | Ast_Kind_Pointer_Type
  | Ast_Kind_Function_Type
  | Ast_Kind_Function
  | Ast_Kind_Global
  | Ast_Kind_Use
  | Ast_Kind_Binding
  deriving DecidableEq, Repr

open AstKind

/-- The binary operators of `parse_expression`. -/
inductive BinaryOp where
  | Binary_Op_Add
  | Binary_Op_Minus
  | Binary_Op_Multiply
  | Binary_Op_Divide
  | Binary_Op_Modulus
  | Binary_Op_Equal
  | Binary_Op_Not_Equal
  | Binary_Op_Less
  | Binary_Op_Less_Equal
  | Binary_Op_Greater
  | Binary_Op_Greater_Equal
  deriving DecidableEq, Repr

open BinaryOp

/-- The unary operators of `parse_factor`. -/
inductive UnaryOp where
  | Unary_Op_Negate
  | Unary_Op_Not
  | Unary_Op_Cast
  deriving DecidableEq, Repr

open UnaryOp

/-- The basic types that have a static singleton node (`basic_type_i32`, ...). -/
inductive BasicKind where
  | Basic_Kind_Void
  | Basic_Kind_Bool
  | Basic_Kind_I8
  | Basic_Kind_U8
  | Basic_Kind_I16
  | Basic_Kind_U16
  | Basic_Kind_I32
  | Basic_Kind_U32
  | Basic_Kind_I64
  | Basic_Kind_U64
  | Basic_Kind_F32
  | Basic_Kind_F64
  | Basic_Kind_Rawptr
  deriving DecidableEq, Repr

open BasicKind

/-- A pointer to an AST node: `NULL`, a node of the arena, the address of the
static `error_node`, or the address of one of the static basic-type nodes. -/
inductive NodePtr where
  | null
  | node (i : Nat)
  | error_node
  | basic (k : BasicKind)
  deriving DecidableEq, Repr

/-- Modelled from the spec: the flag bitset of a node (section 3.2), one
boolean per flag; `pointer` is `Basic_Flag_Pointer`, which `parse_type` ors
into the same word. -/
structure AstFlags where
  comptime : Bool := false
  lval : Bool := false
  const : Bool := false
  exported : Bool := false
  foreign : Bool := false
  intrinsic : Bool := false
  inline : Bool := false
  pointer : Bool := false
  deriving DecidableEq, Repr

/-- The `value` union of a numeric literal.  The integer members hold the
integer; for the float members the literal text handed to `strtof` / `strtod`
is kept uninterpreted. -/
inductive NumLitValue where
  | l (v : Int)
  | i (v : Int)
  | f (text : List Char)
  | d (text : List Char)
  deriving DecidableEq, Repr

/-- Modelled from the spec: an AST node of `astnodes.h`.  The C structs share
the prefix `kind, flags, token, type_node, next`; the remaining fields are those
of the variants the parser writes (a node of one kind only uses its own).
`operation` is the `operation` of an `AstBinaryOp`, `unary_operation` that of an
`AstUnaryOp`; their zero-initialised state is taken to be the first member of
the enumeration (the parser writes both before any read).  `arg_value` is the `value`
of an `AstArgument`, `type_params` the `params[]` of an `AstFunctionType`.
`base_indeterminate` marks a node obtained from `bh_alloc` without the
`memset`, whose unwritten fields hold indeterminate values.  `type_undefined` marks a
literal whose `type_node` was chosen by a comparison that C leaves undefined: the field
then holds one of the two candidate types, and which one is not determined. -/
structure AstNode where
  kind : AstKind
  flags : AstFlags := {}
  token : Option Nat := none
  type_node : NodePtr := NodePtr.null
  next : NodePtr := NodePtr.null
  operation : BinaryOp := BinaryOp.Binary_Op_Add
  left : NodePtr := NodePtr.null
  right : NodePtr := NodePtr.null
  unary_operation : UnaryOp := UnaryOp.Unary_Op_Negate
  expr : NodePtr := NodePtr.null
  value : NumLitValue := NumLitValue.l 0
  callee : NodePtr := NodePtr.null
  arguments : NodePtr := NodePtr.null
  arg_value : NodePtr := NodePtr.null
  lval : NodePtr := NodePtr.null
  cond : NodePtr := NodePtr.null
  true_block : NodePtr := NodePtr.null
  false_block : NodePtr := NodePtr.null
  body : NodePtr := NodePtr.null
  locals : NodePtr := NodePtr.null
  elem : NodePtr := NodePtr.null
  params : NodePtr := NodePtr.null
  intrinsic_name : Option Nat := none
  foreign_module : Option Nat := none
  foreign_name : Option Nat := none
  exported_name : Option Nat := none
  param_count : Nat := 0
  return_type : NodePtr := NodePtr.null
  type_params : List NodePtr := []
  filename : Option Nat := none
  node : NodePtr := NodePtr.null
  base_indeterminate : Bool := false
  type_undefined : Bool := false
  deriving DecidableEq, Repr

/-- The static node behind `&basic_type_*`. -/
def basic_type_node (_k : BasicKind) : AstNode :=
  { kind := Ast_Kind_Basic_Type }

/-! ## Parser state -/

/-- The `ParseResults` bundle: uses, bindings and the nodes pending later phases. -/
structure ParseResults where
  uses : List NodePtr := []
  bindings : List NodePtr := []
  nodes_to_process : List NodePtr := []
  deriving DecidableEq, Repr

/-- The parser state: the token array with the `curr` and `prev` cursors (as
indices; `prev` is `none` for `NULL`), the diagnostics posted so far, the arena,
the contents of the static `error_node`, and the results bundle. -/
structure OnyxParser where
  tokens : List OnyxToken
  curr : Nat := 0
  prev : Option Int := none
  msgs : List OnyxMessage := []
  heap : List AstNode := []
  error_node : AstNode := { kind := Ast_Kind_Error }
  results : ParseResults := {}
  deriving DecidableEq, Repr

/-- What ends a run abnormally. -/
inductive Fault where
  | out_of_bounds
  | null_deref
  | assertion
  | out_of_fuel
  deriving DecidableEq, Repr

/-- The outcome of running a parser function from a state. -/
inductive Res (α : Type) where
  | ok (a : α) (s : OnyxParser)
  | fault (f : Fault)
  deriving DecidableEq, Repr

/-- The parser monad: state passing with faults. -/
def P (α : Type) : Type := OnyxParser → Res α

/-- Sequencing in `P`: a fault of the first computation ends the run. -/
def P.bind {α β : Type} (m : P α) (f : α → P β) : P β := fun s =>
  match m s with
  | Res.ok a s1 => f a s1
  | Res.fault e => Res.fault e

instance : Monad P where
  pure a := fun s => Res.ok a s
  bind := P.bind

/-- End the run with a fault. -/
def raise {α : Type} (f : Fault) : P α := fun _ => Res.fault f

/-! ## Arena access -/

/-- The macro `make_node` / `onyx_ast_node_new`: a fresh zeroed node of the given kind. -/
def make_node (kind : AstKind) : P NodePtr := fun s =>
  Res.ok (NodePtr.node s.heap.length) { s with heap := s.heap ++ [{ kind := kind }] }

/-- A read through a node pointer (`p->...`). -/
def read_node (p : NodePtr) : P AstNode := fun s =>
  match p with
  | NodePtr.null => Res.fault Fault.null_deref
  | NodePtr.node i =>
    match s.heap[i]? with
    | some n => Res.ok n s
    | none => Res.fault Fault.out_of_bounds
  | NodePtr.error_node => Res.ok s.error_node s
  | NodePtr.basic k => Res.ok (basic_type_node k) s

/-- A write through a node pointer (`p->field = ...`), given as the update of the node.
No path of the parser writes through a basic-type pointer; such a write is a fault here. -/
def modify_node (p : NodePtr) (f : AstNode → AstNode) : P Unit := fun s =>
  match p with
  | NodePtr.null => Res.fault Fault.null_deref
  | NodePtr.node i =>
    match s.heap[i]? with
    | some n => Res.ok () { s with heap := s.heap.set i (f n) }
    | none => Res.fault Fault.out_of_bounds
  | NodePtr.error_node => Res.ok () { s with error_node := f s.error_node }
  | NodePtr.basic _ => Res.fault Fault.out_of_bounds

/-- The call `onyx_message_add(parser->msgs, type, pos, args...)`. -/
def onyx_message_add (type : OnyxMessageType) (pos : OnyxFilePos) (args : List MsgArg) : P Unit :=
  fun s => Res.ok () { s with msgs := s.msgs ++ [{ type := type, pos := pos, args := args }] }

/-! ## Token view -/

/-- A read through a token pointer (`token->...`). -/
def read_token (t : Option Nat) : P OnyxToken := fun s =>
  match t with
  | none => Res.fault Fault.null_deref
  | some i =>
    match s.tokens[i]? with
    | some tok => Res.ok tok s
    | none => Res.fault Fault.out_of_bounds

/-- The pointer `parser->curr`. -/
def curr_ptr : P (Option Nat) := fun s => Res.ok (some s.curr) s

/-- The token `*parser->curr`. -/
def curr_token : P OnyxToken := fun s =>
  match s.tokens[s.curr]? with
  | some tok => Res.ok tok s
  | none => Res.fault Fault.out_of_bounds

/-- The tag `parser->curr->type`. -/
def curr_type : P TokenType := fun s =>
  match s.tokens[s.curr]? with
  | some tok => Res.ok tok.type s
  | none => Res.fault Fault.out_of_bounds

/-- The loop `while (parser->curr->type == Token_Type_Comment) parser->curr++;`
run over the tokens from index `i` on (`rest` is the token array from `i`):
the index of the first token that is not a comment, `none` when the scan reads
past the end of the array. -/
def skip_comments : List OnyxToken → Nat → Option Nat
  | [], _ => none
  | t :: rest, i => if t.type = Token_Type_Comment then skip_comments rest (i + 1) else some i

/-- The function `consume_token`. -/
def consume_token : P Unit := fun s =>
  match skip_comments (s.tokens.drop (s.curr + 1)) (s.curr + 1) with
  | some c => Res.ok () { s with prev := some (s.curr : Int), curr := c }
  | none => Res.fault Fault.out_of_bounds

/-- The loop `while (parser->prev->type == Token_Type_Comment) parser->prev--;`
from index `i` downwards: the index of the first token that is not a comment,
`none` when the scan reads outside the array. -/
def rewind_comments (tokens : List OnyxToken) : Nat → Option Nat
  | 0 =>
    match tokens[0]? with
    | some t => if t.type = Token_Type_Comment then none else some 0
    | none => none
  | i + 1 =>
    match tokens[i + 1]? with
    | some t => if t.type = Token_Type_Comment then rewind_comments tokens i else some (i + 1)
    | none => none

/-- The function `unconsume_token`. -/
def unconsume_token : P Unit := fun s =>
  match s.prev with
  | none => Res.fault Fault.null_deref
  | some (Int.negSucc _) => Res.fault Fault.out_of_bounds
  | some (Int.ofNat p) =>
    match rewind_comments s.tokens p with
    | some q => Res.ok () { s with curr := q, prev := some ((q : Int) - 1) }
    | none => Res.fault Fault.out_of_bounds

/-- The function `is_terminating_token`. -/
def is_terminating_token (token_type : TokenType) : Bool :=
  token_type = ascii ';' || token_type = ascii '}' || token_type = ascii '{'
    || token_type = Token_Type_End_Stream

/-- The function `find_token`; one unit of fuel per loop iteration. -/
def find_token : Nat → TokenType → P Unit
  | 0, _ => raise Fault.out_of_fuel
  | fuel + 1, token_type => do
    let t ← curr_type
    if t ≠ token_type ∧ ¬ is_terminating_token t then do
      consume_token
      find_token fuel token_type
    else pure ()

/-- The function `expect_token`: advances no matter what; returns the token, or
`NULL` after posting an Expected-Token diagnostic. -/
def expect_token (token_type : TokenType) : P (Option Nat) := do
  let token ← curr_ptr
  consume_token
  let tok ← read_token token
  if tok.type ≠ token_type then do
    onyx_message_add ONYX_MESSAGE_TYPE_EXPECTED_TOKEN tok.pos
      [MsgArg.token_name token_type, MsgArg.token_name tok.type]
    pure none
  else pure token

/-- The helper `token_toggle_end(token)`: it writes the terminating NUL of the
token text and restores it; in the embedding only its dereference is visible. -/
def token_toggle_end (t : Option Nat) : P Unit := do
  let _ ← read_token t
  pure ()

/-! ## Numeric literals -/

/-- The value of a character as a digit (`0-9`, `a-z`, `A-Z`), if it is one. -/
def digit_value (c : Char) : Option Nat :=
  if 48 ≤ c.toNat ∧ c.toNat ≤ 57 then some (c.toNat - 48)
  else if 97 ≤ c.toNat ∧ c.toNat ≤ 122 then some (c.toNat - 97 + 10)
  else if 65 ≤ c.toNat ∧ c.toNat ≤ 90 then some (c.toNat - 65 + 10)
  else none

/-- The longest run of digits of the base, accumulated from the left. -/
def strtoll_digits (base : Nat) : List Char → Nat → Nat
  | [], acc => acc
  | c :: cs, acc =>
    match digit_value c with
    | some d => if d < base then strtoll_digits base cs (acc * base + d) else acc
    | none => acc

/-- Whether the character is a hexadecimal digit. -/
def is_hex_digit (c : Char) : Bool :=
  match digit_value c with
  | some d => decide (d < 16)
  | none => false

/-- The magnitude read by `strtoll` in base 0 after the optional sign: `0x` /
`0X` followed by a hexadecimal digit selects base 16, another leading `0` base 8,
anything else base 10. -/
def strtoll_magnitude : List Char → Nat
  | [] => 0
  | c0 :: rest =>
    if c0 = '0' then
      match rest with
      | [] => 0
      | c1 :: rest1 =>
        if c1 = 'x' ∨ c1 = 'X' then
          match rest1 with
          | [] => 0
          | c2 :: _ => if is_hex_digit c2 then strtoll_digits 16 rest1 0 else 0
        else strtoll_digits 8 rest 0
    else strtoll_digits 10 (c0 :: rest) 0

/-- The white space skipped by `strtoll`. -/
def c_isspace (c : Char) : Bool :=
  c.toNat = 32 || (9 ≤ c.toNat && c.toNat ≤ 13)

/-- Modelled from the spec: `strtoll(text, NULL, 0)` of the C library, the
signed 64-bit value of the text in auto-base (leading `0x` / `0` / decimal),
saturating at the ends of the 64-bit range. -/
def strtoll (text : List Char) : Int :=
  match text.dropWhile c_isspace with
  | [] => 0
  | c :: cs =>
    if c = '-' then max (-(2 : Int) ^ 63) (-(strtoll_magnitude cs : Int))
    else if c = '+' then min ((2 : Int) ^ 63 - 1) (strtoll_magnitude cs : Int)
    else min ((2 : Int) ^ 63 - 1) (strtoll_magnitude (c :: cs) : Int)

/-- Modelled from the spec: the macro `bh_abs` of `bh.h`, `x < 0 ? -x : x`, on a signed
64-bit value.  The negation of the least value `-2^63` overflows, which C leaves undefined:
the macro has no result there (`none`). -/
def bh_abs (x : Int) : Option Int :=
  if x < 0 then (if x = -(2 : Int) ^ 63 then none else some (-x)) else some x

/-- The conversion of a signed 64-bit value to `u64`. -/
def to_u64 (v : Int) : Nat := (v % 2 ^ 64).toNat

/-- The helper `charset_contains(tok, '.')`, which behaves like a string search for the character. -/
def charset_contains (text : List Char) (c : Char) : Bool := text.contains c

/-- The function `parse_numeric_literal`.  Where `bh_abs(value)` is undefined (the value
`-2^63`), the test `bh_abs(value) < ((u64) 1 << 32)` that selects between `i32` and `i64`
has no determined outcome: the run goes on, and the node is marked `type_undefined` in
place of the write of one of the two types. -/
def parse_numeric_literal : P NodePtr := do
  let lit_node ← make_node Ast_Kind_Literal
  let token ← expect_token Token_Type_Literal_Numeric
  modify_node lit_node (fun n => { n with token := token })
  modify_node lit_node (fun n => { n with flags := { n.flags with comptime := true } })
  modify_node lit_node (fun n => { n with value := NumLitValue.l 0 })
  token_toggle_end token
  let tok ← read_token token
  if charset_contains tok.text '.' then do
    if tok.text.getLast? = some 'f' then do
      modify_node lit_node (fun n => { n with value := NumLitValue.f tok.text })
      modify_node lit_node (fun n => { n with type_node := NodePtr.basic Basic_Kind_F32 })
    else do
      modify_node lit_node (fun n => { n with value := NumLitValue.d tok.text })
      modify_node lit_node (fun n => { n with type_node := NodePtr.basic Basic_Kind_F64 })
    token_toggle_end token
    pure lit_node
  else do
    let value := strtoll tok.text
    modify_node lit_node (fun n => { n with value := NumLitValue.l value })
    match bh_abs value with
    | some a =>
      if to_u64 a < 2 ^ 32 then
        modify_node lit_node (fun n => { n with type_node := NodePtr.basic Basic_Kind_I32 })
      else
        modify_node lit_node (fun n => { n with type_node := NodePtr.basic Basic_Kind_I64 })
    | none => modify_node lit_node (fun n => { n with type_undefined := true })
    token_toggle_end token
    pure lit_node

/-! ## Type expressions -/

/-- Where the `AstType** next_insertion` of `parse_type` points: at the local
`root`, at the `elem` field of a pointer-type node, or nowhere (`NULL`). -/
inductive TypeSlot where
  | root
  | elem (p : NodePtr)
  deriving DecidableEq, Repr

/-- The loop of `parse_type`, with the locals `root` and `next_insertion`; one
unit of fuel per iteration. -/
def parse_type_loop : Nat → NodePtr → TypeSlot → P NodePtr
  | 0, _, _ => raise Fault.out_of_fuel
  | fuel + 1, root, next_insertion => do
    let t ← curr_type
    if t = ascii '^' then do
      consume_token
      let new ← make_node Ast_Kind_Pointer_Type
      modify_node new (fun n => { n with flags := { n.flags with pointer := true } })
      match next_insertion with
      | TypeSlot.root => parse_type_loop fuel new (TypeSlot.elem new)
      | TypeSlot.elem p => do
        modify_node p (fun n => { n with elem := new })
        parse_type_loop fuel root (TypeSlot.elem new)
    else if t = Token_Type_Symbol then do
      let symbol_node ← make_node Ast_Kind_Symbol
      let token ← expect_token Token_Type_Symbol
      modify_node symbol_node (fun n => { n with token := token })
      match next_insertion with
      | TypeSlot.root => pure symbol_node
      | TypeSlot.elem p => do
        modify_node p (fun n => { n with elem := symbol_node })
        pure root
    else do
      let c ← curr_ptr
      token_toggle_end c
      let tok ← curr_token
      onyx_message_add ONYX_MESSAGE_TYPE_UNEXPECTED_TOKEN tok.pos [MsgArg.text tok.text]
      token_toggle_end c
      consume_token
      pure root

/-- The function `parse_type`. -/
def parse_type (fuel : Nat) : P NodePtr :=
  parse_type_loop fuel NodePtr.null TypeSlot.root

/-! ## Expressions -/

/-- The function `get_precedence`. -/
def get_precedence (kind : BinaryOp) : Int :=
  match kind with
  | Binary_Op_Equal => 3
  | Binary_Op_Not_Equal => 3
  | Binary_Op_Less_Equal => 4
  | Binary_Op_Less => 4
  | Binary_Op_Greater_Equal => 4
  | Binary_Op_Greater => 4
  | Binary_Op_Add => 5
  | Binary_Op_Minus => 5
  | Binary_Op_Multiply => 6
  | Binary_Op_Divide => 6
  | Binary_Op_Modulus => 7

/-- The operator switch at the head of the loop of `parse_expression`: the
operator of a token type, `none` for the `default` label. -/
def binary_op_of_token (t : TokenType) : Option BinaryOp :=
  if t = Token_Type_Equal_Equal then some Binary_Op_Equal
  else if t = Token_Type_Not_Equal then some Binary_Op_Not_Equal
  else if t = Token_Type_Less_Equal then some Binary_Op_Less_Equal
  else if t = Token_Type_Greater_Equal then some Binary_Op_Greater_Equal
  else if t = ascii '<' then some Binary_Op_Less
  else if t = ascii '>' then some Binary_Op_Greater
  else if t = ascii '+' then some Binary_Op_Add
  else if t = ascii '-' then some Binary_Op_Minus
  else if t = ascii '*' then some Binary_Op_Multiply
  else if t = ascii '/' then some Binary_Op_Divide
  else if t = ascii '%' then some Binary_Op_Modulus
  else none

/-- The cast loop that ends `parse_factor`:
`while (parser->curr->type == Token_Type_Keyword_Cast) ...`. -/
def parse_factor_casts : Nat → NodePtr → P NodePtr
  | 0, _ => raise Fault.out_of_fuel
  | fuel + 1, retval => do
    let t ← curr_type
    if t = Token_Type_Keyword_Cast then do
      consume_token
      let cast_node ← make_node Ast_Kind_Unary_Op
      let ty ← parse_type fuel
      modify_node cast_node (fun n => { n with type_node := ty })
      modify_node cast_node (fun n => { n with unary_operation := Unary_Op_Cast })
      modify_node cast_node (fun n => { n with expr := retval })
      parse_factor_casts fuel cast_node
    else pure retval

/-- The pop loop of `parse_expression`:
`while (!empty(stack) && get_precedence(last(stack)->operation) >= get_precedence(kind)) pop`.
The stack is a list with its top (`bh_arr_last`) at the head. -/
def pop_tree_stack (bin_op_kind : BinaryOp) : List NodePtr → P (List NodePtr)
  | [] => pure []
  | top :: rest => do
    let n ← read_node top
    if get_precedence n.operation ≥ get_precedence bin_op_kind then
      pop_tree_stack bin_op_kind rest
    else pure (top :: rest)

/-- Where an `AstNode**` of the statement and call parsers points: at the
`arguments` field of a call, the `body` field of a block, or the `next` field of a node. -/
inductive NodeSlot where
  | arguments (p : NodePtr)
  | body (p : NodePtr)
  | next (p : NodePtr)
  deriving DecidableEq, Repr

/-- The write `*slot = v`. -/
def write_slot (slot : NodeSlot) (v : NodePtr) : P Unit :=
  match slot with
  | NodeSlot.arguments p => modify_node p (fun n => { n with arguments := v })
  | NodeSlot.body p => modify_node p (fun n => { n with body := v })
  | NodeSlot.next p => modify_node p (fun n => { n with next := v })

mutual

/-- The function `parse_factor`.  Every `break` of the switch continues with the
cast loop; the two `return` statements inside the switch leave directly. -/
def parse_factor : Nat → P NodePtr
  | 0 => raise Fault.out_of_fuel
  | fuel + 1 => do
    let t ← curr_type
    if t = ascii '(' then do
      consume_token
      let expr ← parse_expression fuel
      let _ ← expect_token (ascii ')')
      parse_factor_casts fuel expr
    else if t = ascii '-' then do
      consume_token
      let factor ← parse_factor fuel
      let negate_node ← make_node Ast_Kind_Unary_Op
      modify_node negate_node (fun n => { n with unary_operation := Unary_Op_Negate })
      modify_node negate_node (fun n => { n with expr := factor })
      let f ← read_node factor
      if f.flags.comptime then
        modify_node negate_node (fun n => { n with flags := { n.flags with comptime := true } })
      parse_factor_casts fuel negate_node
    else if t = ascii '!' then do
      let not_node ← make_node Ast_Kind_Unary_Op
      modify_node not_node (fun n => { n with unary_operation := Unary_Op_Not })
      let token ← expect_token (ascii '!')
      modify_node not_node (fun n => { n with token := token })
      let factor ← parse_factor fuel
      modify_node not_node (fun n => { n with expr := factor })
      let nn ← read_node not_node
      let f ← read_node nn.expr
      if f.flags.comptime then
        modify_node not_node (fun n => { n with flags := { n.flags with comptime := true } })
      parse_factor_casts fuel not_node
    else if t = Token_Type_Symbol then do
      let sym_token ← expect_token Token_Type_Symbol
      let sym_node ← make_node Ast_Kind_Symbol
      modify_node sym_node (fun n => { n with token := sym_token })
      let t1 ← curr_type
      if t1 ≠ ascii '(' then
        parse_factor_casts fuel sym_node
      else do
        let call_node ← make_node Ast_Kind_Call
        let token ← expect_token (ascii '(')
        modify_node call_node (fun n => { n with token := token })
        modify_node call_node (fun n => { n with callee := sym_node })
        let completed ← parse_call_arguments fuel (NodeSlot.arguments call_node)
        if completed then do
          consume_token
          parse_factor_casts fuel call_node
        else pure NodePtr.error_node
    else if t = Token_Type_Literal_Numeric then do
      let lit ← parse_numeric_literal
      parse_factor_casts fuel lit
    else if t = Token_Type_Literal_True then do
      let bool_node ← make_node Ast_Kind_Literal
      modify_node bool_node (fun n => { n with type_node := NodePtr.basic Basic_Kind_Bool })
      let token ← expect_token Token_Type_Literal_True
      modify_node bool_node (fun n => { n with token := token })
      modify_node bool_node (fun n => { n with value := NumLitValue.i 1 })
      parse_factor_casts fuel bool_node
    else if t = Token_Type_Literal_False then do
      let bool_node ← make_node Ast_Kind_Literal
      modify_node bool_node (fun n => { n with type_node := NodePtr.basic Basic_Kind_Bool })
      let token ← expect_token Token_Type_Literal_False
      modify_node bool_node (fun n => { n with token := token })
      modify_node bool_node (fun n => { n with value := NumLitValue.i 0 })
      parse_factor_casts fuel bool_node
    else do
      let tok ← curr_token
      onyx_message_add ONYX_MESSAGE_TYPE_UNEXPECTED_TOKEN tok.pos [MsgArg.token_name tok.type]
      pure NodePtr.null

/-- The argument loop of a call in `parse_factor`, `while (parser->curr->type != ')')`,
with the local `prev`.  The result is `true` when the loop is left normally or by
`break`, `false` when it is left by `return (AstTyped *) &error_node`. -/
def parse_call_arguments : Nat → NodeSlot → P Bool
  | 0, _ => raise Fault.out_of_fuel
  | fuel + 1, prev => do
    let t ← curr_type
    if t ≠ ascii ')' then do
      let curr ← make_node Ast_Kind_Argument
      let c ← curr_ptr
      modify_node curr (fun n => { n with token := c })
      let value ← parse_expression fuel
      modify_node curr (fun n => { n with arg_value := value })
      let cn ← read_node curr
      let prev1 ← (if cn.kind ≠ Ast_Kind_Error then do
          write_slot prev curr
          pure (NodeSlot.next curr)
        else pure prev)
      let t1 ← curr_type
      if t1 = ascii ')' then pure true
      else if t1 ≠ ascii ',' then do
        let tok ← curr_token
        onyx_message_add ONYX_MESSAGE_TYPE_EXPECTED_TOKEN tok.pos
          [MsgArg.token_name (ascii ','), MsgArg.token_name tok.type]
        pure false
      else do
        consume_token
        parse_call_arguments fuel prev1
    else pure true

/-- The function `parse_expression`: the first factor, then the operator loop. -/
def parse_expression : Nat → P NodePtr
  | 0 => raise Fault.out_of_fuel
  | fuel + 1 => do
    let left ← parse_factor fuel
    parse_expression_loop fuel left left []

/-- The loop `while (1)` of `parse_expression`, with the locals `left` (the
first factor, never reassigned), `root` and `tree_stack`; one unit of fuel per iteration. -/
def parse_expression_loop : Nat → NodePtr → NodePtr → List NodePtr → P NodePtr
  | 0, _, _, _ => raise Fault.out_of_fuel
  | fuel + 1, left, root, tree_stack => do
    let t ← curr_type
    match binary_op_of_token t with
    | none => pure root
    | some bin_op_kind => do
      let bin_op_tok ← curr_ptr
      consume_token
      let bin_op ← make_node Ast_Kind_Binary_Op
      modify_node bin_op (fun n => { n with operation := bin_op_kind })
      modify_node bin_op (fun n => { n with token := bin_op_tok })
      let tree_stack1 ← pop_tree_stack bin_op_kind tree_stack
      let root1 ← (match tree_stack1 with
        | [] => do
          modify_node bin_op (fun n => { n with left := root })
          pure bin_op
        | top :: _ => do
          let tn ← read_node top
          modify_node bin_op (fun n => { n with left := tn.right })
          modify_node top (fun n => { n with right := bin_op })
          pure root)
      let right ← parse_factor fuel
      modify_node bin_op (fun n => { n with right := right })
      let l ← read_node left
      if l.flags.comptime then do
        let r ← read_node right
        if r.flags.comptime then
          modify_node bin_op (fun n => { n with flags := { n.flags with comptime := true } })
      parse_expression_loop fuel left root1 (bin_op :: tree_stack1)

end

/-! ## Statements -/

/-- The two results of `parse_symbol_statement`: the returned `b32` and the
contents of `*ret` afterwards. -/
structure SymbolStatement where
  result : Bool
  ret : NodePtr
  deriving DecidableEq, Repr

/-- The operator of a compound assignment token (the `if` chain of `parse_symbol_statement`). -/
def compound_assign_op (t : TokenType) : Option BinaryOp :=
  if t = Token_Type_Plus_Equal then some Binary_Op_Add
  else if t = Token_Type_Minus_Equal then some Binary_Op_Minus
  else if t = Token_Type_Star_Equal then some Binary_Op_Multiply
  else if t = Token_Type_Fslash_Equal then some Binary_Op_Divide
  else if t = Token_Type_Percent_Equal then some Binary_Op_Modulus
  else none

/-- The function `parse_symbol_statement`; `ret` is the contents of `*ret` on entry. -/
def parse_symbol_statement (fuel : Nat) (ret : NodePtr) : P SymbolStatement := do
  let t ← curr_type
  if t ≠ Token_Type_Symbol then pure { result := false, ret := ret }
  else do
    let symbol ← expect_token Token_Type_Symbol
    let t1 ← curr_type
    if t1 = ascii ':' then do
      consume_token
      let t2 ← curr_type
      let type_node ← (if t2 ≠ ascii ':' ∧ t2 ≠ ascii '=' then parse_type fuel else pure NodePtr.null)
      let local_node ← make_node Ast_Kind_Local
      modify_node local_node (fun n => { n with token := symbol })
      modify_node local_node (fun n => { n with type_node := type_node })
      modify_node local_node (fun n => { n with flags := { n.flags with lval := true } })
      let t3 ← curr_type
      if t3 = ascii '=' ∨ t3 = ascii ':' then do
        if t3 = ascii ':' then
          modify_node local_node (fun n => { n with flags := { n.flags with const := true } })
        let assignment ← make_node Ast_Kind_Assignment
        modify_node local_node (fun n => { n with next := assignment })
        let c ← curr_ptr
        modify_node assignment (fun n => { n with token := c })
        consume_token
        let expr ← parse_expression fuel
        if expr = NodePtr.null then do
          let c1 ← curr_ptr
          token_toggle_end c1
          let an ← read_node assignment
          let atok ← read_token an.token
          let ctok ← curr_token
          onyx_message_add ONYX_MESSAGE_TYPE_EXPECTED_EXPRESSION atok.pos [MsgArg.text ctok.text]
          token_toggle_end c1
          pure { result := true, ret := local_node }
        else do
          modify_node assignment (fun n => { n with expr := expr })
          let left_symbol ← make_node Ast_Kind_Symbol
          modify_node left_symbol (fun n => { n with token := symbol })
          modify_node assignment (fun n => { n with lval := left_symbol })
          pure { result := true, ret := local_node }
      else pure { result := true, ret := local_node }
    else if t1 = ascii '=' then do
      let assignment ← make_node Ast_Kind_Assignment
      let c ← curr_ptr
      modify_node assignment (fun n => { n with token := c })
      consume_token
      let lval ← make_node Ast_Kind_Symbol
      modify_node lval (fun n => { n with token := symbol })
      let rval ← parse_expression fuel
      modify_node assignment (fun n => { n with expr := rval })
      modify_node assignment (fun n => { n with lval := lval })
      pure { result := true, ret := assignment }
    else
      match compound_assign_op t1 with
      | some bin_op => do
        let bin_op_node ← make_node Ast_Kind_Binary_Op
        modify_node bin_op_node (fun n => { n with operation := bin_op })
        let c ← curr_ptr
        modify_node bin_op_node (fun n => { n with token := c })
        consume_token
        let expr ← parse_expression fuel
        let bin_op_left ← make_node Ast_Kind_Symbol
        modify_node bin_op_left (fun n => { n with token := symbol })
        modify_node bin_op_node (fun n => { n with left := bin_op_left })
        modify_node bin_op_node (fun n => { n with right := expr })
        let assign_node ← make_node Ast_Kind_Assignment
        let bn ← read_node bin_op_node
        modify_node assign_node (fun n => { n with token := bn.token })
        let lval ← make_node Ast_Kind_Symbol
        modify_node lval (fun n => { n with token := symbol })
        modify_node assign_node (fun n => { n with lval := lval })
        modify_node assign_node (fun n => { n with expr := bin_op_node })
        pure { result := true, ret := assign_node }
      | none => do
        unconsume_token
        pure { result := false, ret := ret }

/-- The function `parse_return_statement`. -/
def parse_return_statement (fuel : Nat) : P NodePtr := do
  let return_node ← make_node Ast_Kind_Return
  let token ← expect_token Token_Type_Keyword_Return
  modify_node return_node (fun n => { n with token := token })
  let t ← curr_type
  if t ≠ ascii ';' then do
    let expr ← parse_expression fuel
    if expr = NodePtr.null ∨ expr = NodePtr.error_node then
      pure NodePtr.error_node
    else do
      modify_node return_node (fun n => { n with expr := expr })
      pure return_node
  else pure return_node

/-- The tail of `parse_statement`, after the switch:
`if (needs_semicolon) { if (curr->type != ';') { message; find_token(';'); } consume_token(); }`. -/
def parse_statement_semicolon (fuel : Nat) (needs_semicolon : Bool) : P Unit := do
  if needs_semicolon then do
    let t ← curr_type
    if t ≠ ascii ';' then do
      let tok ← curr_token
      onyx_message_add ONYX_MESSAGE_TYPE_EXPECTED_TOKEN tok.pos
        [MsgArg.token_name (ascii ';'), MsgArg.token_name tok.type]
      find_token fuel (ascii ';')
    consume_token

/-- The loop `while (stmt->next != NULL) stmt = stmt->next;` of `parse_block`. -/
def last_in_chain : Nat → NodePtr → P NodePtr
  | 0, _ => raise Fault.out_of_fuel
  | fuel + 1, stmt => do
    let n ← read_node stmt
    if n.next ≠ NodePtr.null then last_in_chain fuel n.next else pure stmt

/-- The locals `needs_semicolon` and `retval` of `parse_statement` after its switch. -/
structure StatementSwitch where
  needs_semicolon : Bool
  retval : NodePtr
  deriving DecidableEq, Repr

mutual

/-- The function `parse_if_stmt`. -/
def parse_if_stmt : Nat → P NodePtr
  | 0 => raise Fault.out_of_fuel
  | fuel + 1 => do
    let _ ← expect_token Token_Type_Keyword_If
    let cond ← parse_expression fuel
    let true_block ← parse_block fuel
    let if_node ← make_node Ast_Kind_If
    modify_node if_node (fun n => { n with cond := cond })
    if true_block ≠ NodePtr.null then
      modify_node if_node (fun n => { n with true_block := true_block })
    let last_if ← parse_if_elseifs fuel if_node
    let t ← curr_type
    if t = Token_Type_Keyword_Else then do
      consume_token
      let false_block ← parse_block fuel
      if false_block ≠ NodePtr.null then
        modify_node last_if (fun n => { n with false_block := false_block })
    pure if_node

/-- The loop `while (parser->curr->type == Token_Type_Keyword_Elseif)` of
`parse_if_stmt`, with the local `if_node`; the result is `if_node` after the loop. -/
def parse_if_elseifs : Nat → NodePtr → P NodePtr
  | 0, _ => raise Fault.out_of_fuel
  | fuel + 1, if_node => do
    let t ← curr_type
    if t = Token_Type_Keyword_Elseif then do
      consume_token
      let elseif_node ← make_node Ast_Kind_If
      let cond ← parse_expression fuel
      let true_block ← parse_block fuel
      modify_node elseif_node (fun n => { n with cond := cond })
      if true_block ≠ NodePtr.null then
        modify_node elseif_node (fun n => { n with true_block := true_block })
      modify_node if_node (fun n => { n with false_block := elseif_node })
      parse_if_elseifs fuel elseif_node
    else pure if_node

/-- The function `parse_while_stmt`. -/
def parse_while_stmt : Nat → P NodePtr
  | 0 => raise Fault.out_of_fuel
  | fuel + 1 => do
    let while_token ← expect_token Token_Type_Keyword_While
    let cond ← parse_expression fuel
    let body ← parse_block fuel
    let while_node ← make_node Ast_Kind_While
    modify_node while_node (fun n => { n with token := while_token })
    modify_node while_node (fun n => { n with cond := cond })
    modify_node while_node (fun n => { n with body := body })
    pure while_node

/-- The switch of `parse_statement`: the statement proper, with the values it
leaves in `needs_semicolon` and `retval`. -/
def parse_statement_switch : Nat → P StatementSwitch
  | 0 => raise Fault.out_of_fuel
  | fuel + 1 => do
    let t ← curr_type
    if t = Token_Type_Keyword_Return then do
      let r ← parse_return_statement fuel
      pure { needs_semicolon := true, retval := r }
    else if t = ascii '{' then do
      let r ← parse_block fuel
      pure { needs_semicolon := false, retval := r }
    else if t = Token_Type_Symbol then do
      let ss ← parse_symbol_statement fuel NodePtr.null
      if ss.result then pure { needs_semicolon := true, retval := ss.ret }
      else do
        let r ← parse_expression fuel
        pure { needs_semicolon := true, retval := r }
    else if t = ascii '(' ∨ t = ascii '+' ∨ t = ascii '-' ∨ t = ascii '!'
        ∨ t = Token_Type_Literal_Numeric ∨ t = Token_Type_Literal_String then do
      let r ← parse_expression fuel
      pure { needs_semicolon := true, retval := r }
    else if t = Token_Type_Keyword_If then do
      let r ← parse_if_stmt fuel
      pure { needs_semicolon := false, retval := r }
    else if t = Token_Type_Keyword_While then do
      let r ← parse_while_stmt fuel
      pure { needs_semicolon := false, retval := r }
    else if t = Token_Type_Keyword_Break then do
      let retval ← make_node Ast_Kind_Break
      let token ← expect_token Token_Type_Keyword_Break
      modify_node retval (fun n => { n with token := token })
      pure { needs_semicolon := true, retval := retval }
    else if t = Token_Type_Keyword_Continue then do
      let retval ← make_node Ast_Kind_Break
      let token ← expect_token Token_Type_Keyword_Continue
      modify_node retval (fun n => { n with token := token })
      pure { needs_semicolon := true, retval := retval }
    else pure { needs_semicolon := true, retval := NodePtr.null }

/-- The function `parse_statement`: the switch, then the semicolon tail. -/
def parse_statement : Nat → P NodePtr
  | 0 => raise Fault.out_of_fuel
  | fuel + 1 => do
    let sw ← parse_statement_switch fuel
    parse_statement_semicolon fuel sw.needs_semicolon
    pure sw.retval

/-- The function `parse_block`. -/
def parse_block : Nat → P NodePtr
  | 0 => raise Fault.out_of_fuel
  | fuel + 1 => do
    let block ← make_node Ast_Kind_Block
    let lg ← make_node Ast_Kind_Local_Group
    modify_node block (fun n => { n with locals := lg })
    let t ← curr_type
    if t = Token_Type_Empty_Block then do
      let _ ← expect_token Token_Type_Empty_Block
      pure block
    else do
      let _ ← expect_token (ascii '{')
      parse_block_loop fuel (NodeSlot.body block)
      let _ ← expect_token (ascii '}')
      pure block

/-- The loop `while (parser->curr->type != '}')` of `parse_block`, with the local `next`. -/
def parse_block_loop : Nat → NodeSlot → P Unit
  | 0, _ => raise Fault.out_of_fuel
  | fuel + 1, next => do
    let t ← curr_type
    if t ≠ ascii '}' then do
      let stmt ← parse_statement fuel
      if stmt ≠ NodePtr.null then do
        let sn ← read_node stmt
        if sn.kind ≠ Ast_Kind_Error then do
          write_slot next stmt
          let last ← last_in_chain fuel stmt
          parse_block_loop fuel (NodeSlot.next last)
        else parse_block_loop fuel next
      else parse_block_loop fuel next
    else pure ()

end

/-! ## Top level -/

/-- The loop `while (parser->curr->type != ')')` of `parse_function_params`,
with the locals `first_param` and `trailer`; returns `first_param`. -/
def parse_function_params_loop : Nat → NodePtr → NodePtr → P NodePtr
  | 0, _, _ => raise Fault.out_of_fuel
  | fuel + 1, first_param, trailer => do
    let t ← curr_type
    if t ≠ ascii ')' then do
      if t = ascii ',' then consume_token
      let symbol ← expect_token Token_Type_Symbol
      let _ ← expect_token (ascii ':')
      let curr_param ← make_node Ast_Kind_Param
      modify_node curr_param (fun n => { n with token := symbol })
      modify_node curr_param (fun n => { n with flags := { n.flags with const := true } })
      let ty ← parse_type fuel
      modify_node curr_param (fun n => { n with type_node := ty })
      let first_param1 := if first_param = NodePtr.null then curr_param else first_param
      modify_node curr_param (fun n => { n with next := NodePtr.null })
      if trailer ≠ NodePtr.null then
        modify_node trailer (fun n => { n with next := curr_param })
      parse_function_params_loop fuel first_param1 curr_param
    else pure first_param

/-- The function `parse_function_params`. -/
def parse_function_params (fuel : Nat) : P NodePtr := do
  let t ← curr_type
  if t ≠ ascii '(' then pure NodePtr.null
  else do
    let _ ← expect_token (ascii '(')
    let t1 ← curr_type
    if t1 = ascii ')' then do
      consume_token
      pure NodePtr.null
    else do
      let first_param ← parse_function_params_loop fuel NodePtr.null NodePtr.null
      consume_token
      pure first_param

/-- The function `parse_possible_directive`; `dir` is the directive name. -/
def parse_possible_directive (dir : List Char) : P Bool := do
  let t ← curr_type
  if t ≠ ascii '#' then pure false
  else do
    let _ ← expect_token (ascii '#')
    let sym ← expect_token Token_Type_Symbol
    let symtok ← read_token sym
    let is_match : Bool := decide (dir = symtok.text)
    if ¬ is_match then do
      unconsume_token
      unconsume_token
    pure is_match

/-- The parameter walk `for (param = params; param != NULL; param = param->base.next)`
of `parse_function_definition`: the `type_node` of every parameter, in order. -/
def collect_param_types : Nat → NodePtr → P (List NodePtr)
  | 0, _ => raise Fault.out_of_fuel
  | fuel + 1, param =>
    if param = NodePtr.null then pure []
    else do
      let n ← read_node param
      let rest ← collect_param_types fuel n.next
      pure (n.type_node :: rest)

/-- The directive loop `while (parser->curr->type == '#')` of `parse_function_definition`. -/
def parse_function_directives : Nat → NodePtr → P Unit
  | 0, _ => raise Fault.out_of_fuel
  | fuel + 1, func_def => do
    let t ← curr_type
    if t = ascii '#' then do
      let is_intrinsic ← parse_possible_directive (String.toList "intrinsic")
      if is_intrinsic then do
        modify_node func_def (fun n => { n with flags := { n.flags with intrinsic := true } })
        let t1 ← curr_type
        if t1 = Token_Type_Literal_String then do
          let str_token ← expect_token Token_Type_Literal_String
          modify_node func_def (fun n => { n with intrinsic_name := str_token })
      else do
        let is_inline ← parse_possible_directive (String.toList "inline")
        if is_inline then
          modify_node func_def (fun n => { n with flags := { n.flags with inline := true } })
        else do
          let is_foreign ← parse_possible_directive (String.toList "foreign")
          if is_foreign then do
            let foreign_module ← expect_token Token_Type_Literal_String
            modify_node func_def (fun n => { n with foreign_module := foreign_module })
            let foreign_name ← expect_token Token_Type_Literal_String
            modify_node func_def (fun n => { n with foreign_name := foreign_name })
            modify_node func_def (fun n => { n with flags := { n.flags with foreign := true } })
          else do
            let is_export ← parse_possible_directive (String.toList "export")
            if is_export then do
              modify_node func_def (fun n => { n with flags := { n.flags with exported := true } })
              let t1 ← curr_type
              if t1 = Token_Type_Literal_String then do
                let str_token ← expect_token Token_Type_Literal_String
                modify_node func_def (fun n => { n with exported_name := str_token })
            else do
              let directive_token ← expect_token (ascii '#')
              let symbol_token ← expect_token Token_Type_Symbol
              let dtok ← read_token directive_token
              let stok ← read_token symbol_token
              onyx_message_add ONYX_MESSAGE_TYPE_UNKNOWN_DIRECTIVE dtok.pos [MsgArg.text stok.text]
      parse_function_directives fuel func_def
    else pure ()

/-- The allocation `bh_alloc(parser->allocator, sizeof(AstFunctionType) + ...)` of
`parse_function_definition` with the writes that follow it: no `memset`, the
fields `kind`, `param_count`, `return_type` and `params[]` are written. -/
def make_function_type (param_types : List NodePtr) (return_type : NodePtr) : P NodePtr := fun s =>
  Res.ok (NodePtr.node s.heap.length)
    { s with heap := s.heap ++ [{ kind := Ast_Kind_Function_Type, param_count := param_types.length,
                                  return_type := return_type, type_params := param_types,
                                  base_indeterminate := true }] }

/-- The call `bh_arr_push(parser->results.nodes_to_process, node)`. -/
def push_node_to_process (p : NodePtr) : P Unit := fun s =>
  Res.ok () { s with results := { s.results with nodes_to_process := s.results.nodes_to_process ++ [p] } }

/-- The function `parse_function_definition`. -/
def parse_function_definition (fuel : Nat) : P NodePtr := do
  let func_def ← make_node Ast_Kind_Function
  let token ← expect_token Token_Type_Keyword_Proc
  modify_node func_def (fun n => { n with token := token })
  parse_function_directives fuel func_def
  let params ← parse_function_params fuel
  modify_node func_def (fun n => { n with params := params })
  let t ← curr_type
  let return_type ← (if t = Token_Type_Right_Arrow then do
      let _ ← expect_token Token_Type_Right_Arrow
      parse_type fuel
    else pure (NodePtr.basic Basic_Kind_Void))
  let param_types ← collect_param_types fuel params
  let type_node ← make_function_type param_types return_type
  modify_node func_def (fun n => { n with type_node := type_node })
  let body ← parse_block fuel
  modify_node func_def (fun n => { n with body := body })
  pure func_def

/-- The directive loop `while (parser->curr->type == '#')` of `parse_global_declaration`. -/
def parse_global_directives : Nat → NodePtr → P Unit
  | 0, _ => raise Fault.out_of_fuel
  | fuel + 1, global_node => do
    let t ← curr_type
    if t = ascii '#' then do
      let is_foreign ← parse_possible_directive (String.toList "foreign")
      if is_foreign then do
        let foreign_module ← expect_token Token_Type_Literal_String
        modify_node global_node (fun n => { n with foreign_module := foreign_module })
        let foreign_name ← expect_token Token_Type_Literal_String
        modify_node global_node (fun n => { n with foreign_name := foreign_name })
        modify_node global_node (fun n => { n with flags := { n.flags with foreign := true } })
      else do
        let is_export ← parse_possible_directive (String.toList "export")
        if is_export then do
          modify_node global_node (fun n => { n with flags := { n.flags with exported := true } })
          let t1 ← curr_type
          if t1 = Token_Type_Literal_String then do
            let str_token ← expect_token Token_Type_Literal_String
            modify_node global_node (fun n => { n with exported_name := str_token })
        else do
          let directive_token ← expect_token (ascii '#')
          let symbol_token ← expect_token Token_Type_Symbol
          let dtok ← read_token directive_token
          let stok ← read_token symbol_token
          onyx_message_add ONYX_MESSAGE_TYPE_UNKNOWN_DIRECTIVE dtok.pos [MsgArg.text stok.text]
      parse_global_directives fuel global_node
    else pure ()

/-- The function `parse_global_declaration`. -/
def parse_global_declaration (fuel : Nat) : P NodePtr := do
  let global_node ← make_node Ast_Kind_Global
  let token ← expect_token Token_Type_Keyword_Global
  modify_node global_node (fun n => { n with token := token })
  parse_global_directives fuel global_node
  let ty ← parse_type fuel
  modify_node global_node (fun n => { n with type_node := ty })
  modify_node global_node (fun n => { n with flags := { n.flags with lval := true } })
  push_node_to_process global_node
  pure global_node

/-- The function `parse_top_level_expression`. -/
def parse_top_level_expression (fuel : Nat) : P NodePtr := do
  let t ← curr_type
  if t = Token_Type_Keyword_Proc then do
    let func_node ← parse_function_definition fuel
    push_node_to_process func_node
    pure func_node
  else if t = Token_Type_Keyword_Global then
    parse_global_declaration fuel
  else
    parse_expression fuel

/-- The function `parse_top_level_statement`. -/
def parse_top_level_statement (fuel : Nat) : P NodePtr := do
  let t ← curr_type
  if t = Token_Type_Keyword_Use then do
    let use_node ← make_node Ast_Kind_Use
    let token ← expect_token Token_Type_Keyword_Use
    modify_node use_node (fun n => { n with token := token })
    let filename ← expect_token Token_Type_Literal_String
    modify_node use_node (fun n => { n with filename := filename })
    pure use_node
  else if t = Token_Type_Symbol then do
    let symbol ← curr_ptr
    consume_token
    let _ ← expect_token (ascii ':')
    let _ ← expect_token (ascii ':')
    let node ← parse_top_level_expression fuel
    let nn ← read_node node
    if nn.kind = Ast_Kind_Function then do
      if nn.exported_name = none then
        modify_node node (fun n => { n with exported_name := symbol })
    else if nn.kind = Ast_Kind_Global then do
      if nn.exported_name = none then
        modify_node node (fun n => { n with exported_name := symbol })
    else
      push_node_to_process node
    let binding ← make_node Ast_Kind_Binding
    modify_node binding (fun n => { n with token := symbol })
    modify_node binding (fun n => { n with node := node })
    pure binding
  else do
    consume_token
    pure NodePtr.null

/-- The inner loop `while (curr_stmt != NULL)` of `onyx_parse`: files every
node of the `next` chain under uses or bindings; any other kind fails the `assert`. -/
def file_top_level_nodes : Nat → NodePtr → P Unit
  | 0, _ => raise Fault.out_of_fuel
  | fuel + 1, curr_stmt =>
    if curr_stmt = NodePtr.null then pure ()
    else do
      let n ← read_node curr_stmt
      if n.kind = Ast_Kind_Use then
        (fun s => Res.ok () { s with results := { s.results with uses := s.results.uses ++ [curr_stmt] } })
      else if n.kind = Ast_Kind_Binding then
        (fun s => Res.ok () { s with results := { s.results with bindings := s.results.bindings ++ [curr_stmt] } })
      else raise Fault.assertion
      file_top_level_nodes fuel n.next

/-- The function `onyx_parse`: the loop `while (parser->curr->type != Token_Type_End_Stream)`. -/
def onyx_parse : Nat → P ParseResults
  | 0 => raise Fault.out_of_fuel
  | fuel + 1 => do
    let t ← curr_type
    if t ≠ Token_Type_End_Stream then do
      let curr_stmt ← parse_top_level_statement fuel
      if curr_stmt ≠ NodePtr.null ∧ curr_stmt ≠ NodePtr.error_node then
        file_top_level_nodes fuel curr_stmt
      onyx_parse fuel
    else (fun s => Res.ok s.results s)

/-- The function `onyx_parser_create`: the cursor at the first token, `prev` null, empty results. -/
def onyx_parser_create (tokens : List OnyxToken) : OnyxParser :=
  { tokens := tokens }

end Onyx

/-! # Expression trees

The tree that `parse_expression` leaves in the arena, read back as a value, and
the operator-stack loop of `parse_expression` written on such values. -/

namespace Onyx

open TokenType AstKind BinaryOp UnaryOp BasicKind OnyxMessageType

/-- An expression tree read back from the arena: a BinaryOp node with its
operator, the index of its operator token and its two operands, or any other
node (a factor) with its kind and the index of its token. -/
inductive ExprTree where
  | factor (kind : AstKind) (token : Nat)
  | binary (op : BinaryOp) (token : Nat) (left right : ExprTree)
  deriving DecidableEq, Repr

/-- The token index at the root of a tree. -/
def ExprTree.token : ExprTree → Nat
  | ExprTree.factor _ t => t
  | ExprTree.binary _ t _ _ => t

/-- The in-order traversal of a tree, as the list of token indices. -/
def ExprTree.inorder : ExprTree → List Nat
  | ExprTree.factor _ t => [t]
  | ExprTree.binary _ t l r => l.inorder ++ t :: r.inorder

/-- The number of nodes on the longest path of a tree. -/
def ExprTree.depth : ExprTree → Nat
  | ExprTree.factor _ _ => 1
  | ExprTree.binary _ _ l r => max l.depth r.depth + 1

/-- Reading the tree under a node pointer back from the arena: a node of kind
BinaryOp is read with its `operation`, `token`, `left` and `right`; any other
node is a factor.  `none` when a pointer on the way is not an arena node, a
token pointer is null, or the fuel runs out. -/
def read_expr : Nat → List AstNode → NodePtr → Option ExprTree
  | 0, _, _ => none
  | fuel + 1, heap, p =>
    match p with
    | NodePtr.node i =>
      match heap[i]? with
      | none => none
      | some n =>
        match n.token with
        | none => none
        | some t =>
          if n.kind = Ast_Kind_Binary_Op then
            match read_expr fuel heap n.left, read_expr fuel heap n.right with
            | some l, some r => some (ExprTree.binary n.operation t l r)
            | _, _ => none
          else some (ExprTree.factor n.kind t)
    | _ => none

/-- The precedence of the operator at the root of a tree, if the root is a BinaryOp. -/
def ExprTree.root_precedence : ExprTree → Option Int
  | ExprTree.factor _ _ => none
  | ExprTree.binary op _ _ _ => some (get_precedence op)

/-- Condition (2) and (3) of C2 on a tree: at every BinaryOp, a right child that
is a BinaryOp has strictly higher precedence, a left child that is a BinaryOp has
a precedence greater than or equal. -/
def ExprTree.precedence_ordered : ExprTree → Prop
  | ExprTree.factor _ _ => True
  | ExprTree.binary op _ l r =>
    (∀ pl, l.root_precedence = some pl → get_precedence op ≤ pl) ∧
    (∀ pr, r.root_precedence = some pr → get_precedence op < pr) ∧
    l.precedence_ordered ∧ r.precedence_ordered

/-- The operators of a tree in in-order, each with its token index. -/
def ExprTree.operators : ExprTree → List (Nat × BinaryOp)
  | ExprTree.factor _ _ => []
  | ExprTree.binary op t l r => l.operators ++ (t, op) :: r.operators

/-- The labels of a tree in in-order: for a factor its token index and kind, for
a BinaryOp its token index and operator. -/
def ExprTree.labels : ExprTree → List (Nat × (AstKind ⊕ BinaryOp))
  | ExprTree.factor k t => [(t, Sum.inl k)]
  | ExprTree.binary op t l r => l.labels ++ (t, Sum.inr op) :: r.labels

/-- An entry of the operator stack as a value: the operator and token of the
in-flight BinaryOp node and its left operand. -/
structure Frame where
  op : BinaryOp
  token : Nat
  left : ExprTree
  deriving DecidableEq, Repr

/-- The tree that a stack (top first) and the right operand of its top stand for:
each entry is the right operand of the entry below it. -/
def fold_frames : List Frame → ExprTree → ExprTree
  | [], r => r
  | f :: fs, r => fold_frames fs (ExprTree.binary f.op f.token f.left r)

/-- The pop loop of `parse_expression` on values: entries whose precedence is
greater than or equal to that of the new operator leave the stack and are
folded into the right operand. -/
def pop_frames (op : BinaryOp) : List Frame → ExprTree → List Frame × ExprTree
  | [], r => ([], r)
  | f :: fs, r =>
    if get_precedence f.op ≥ get_precedence op then
      pop_frames op fs (ExprTree.binary f.op f.token f.left r)
    else (f :: fs, r)

/-- The operator loop of `parse_expression` on values.  The input is the list of
(operator, kind of the factor after it); `i` is the token index of the next
operator; the new node takes the popped right operand as its left operand and
the next factor as its right operand. -/
def shunt : List (BinaryOp × AstKind) → Nat → List Frame → ExprTree → ExprTree
  | [], _, fs, r => fold_frames fs r
  | (op, k) :: rest, i, fs, r =>
    shunt rest (i + 2) ({ op := op, token := i, left := (pop_frames op fs r).2 } :: (pop_frames op fs r).1)
      (ExprTree.factor k (i + 1))

/-- The tokens that `parse_factor` turns into a single node: a symbol, a numeric
literal, `true`, `false`. -/
def is_leaf_factor (t : TokenType) : Bool :=
  t = Token_Type_Symbol || t = Token_Type_Literal_Numeric || t = Token_Type_Literal_True
    || t = Token_Type_Literal_False

/-- The node that `parse_numeric_literal` builds for a numeric literal token at index `i`. -/
def numeric_literal_node (tok : OnyxToken) (i : Nat) : AstNode :=
  if charset_contains tok.text '.' then
    if tok.text.getLast? = some 'f' then
      { kind := Ast_Kind_Literal, token := some i, flags := { comptime := true },
        value := NumLitValue.f tok.text, type_node := NodePtr.basic Basic_Kind_F32 }
    else
      { kind := Ast_Kind_Literal, token := some i, flags := { comptime := true },
        value := NumLitValue.d tok.text, type_node := NodePtr.basic Basic_Kind_F64 }
  else
    match bh_abs (strtoll tok.text) with
    | some a =>
      { kind := Ast_Kind_Literal, token := some i, flags := { comptime := true },
        value := NumLitValue.l (strtoll tok.text),
        type_node := if to_u64 a < 2 ^ 32 then NodePtr.basic Basic_Kind_I32
                     else NodePtr.basic Basic_Kind_I64 }
    | none =>
      { kind := Ast_Kind_Literal, token := some i, flags := { comptime := true },
        value := NumLitValue.l (strtoll tok.text), type_undefined := true }

/-- The node that `parse_factor` builds for a single-token factor at index `i`. -/
def leaf_factor_node (tok : OnyxToken) (i : Nat) : AstNode :=
  if tok.type = Token_Type_Symbol then { kind := Ast_Kind_Symbol, token := some i }
  else if tok.type = Token_Type_Literal_Numeric then numeric_literal_node tok i
  else if tok.type = Token_Type_Literal_True then
    { kind := Ast_Kind_Literal, token := some i, type_node := NodePtr.basic Basic_Kind_Bool,
      value := NumLitValue.i 1 }
  else
    { kind := Ast_Kind_Literal, token := some i, type_node := NodePtr.basic Basic_Kind_Bool,
      value := NumLitValue.i 0 }

/-- The kind of the node of a single-token factor. -/
def leaf_factor_kind (t : TokenType) : AstKind :=
  if t = Token_Type_Symbol then Ast_Kind_Symbol else Ast_Kind_Literal

/-- The token sequence `op1 f1 ... opn fn` of a list of (operator token, factor token) pairs. -/
def flatten_pairs : List (OnyxToken × OnyxToken) → List OnyxToken
  | [] => []
  | (o, f) :: rest => o :: f :: flatten_pairs rest

/-- The operator of an operator token (`Binary_Op_Add` for any other token). -/
def token_op (t : TokenType) : BinaryOp :=
  match binary_op_of_token t with
  | some op => op
  | none => Binary_Op_Add

/-- The (operator, factor kind) list of a list of (operator token, factor token) pairs. -/
def pair_ops (rest : List (OnyxToken × OnyxToken)) : List (BinaryOp × AstKind) :=
  rest.map (fun p => (token_op p.1.type, leaf_factor_kind p.2.type))

/-- Whether the token can follow a complete expression `f0 op1 f1 ... opn fn`
without extending it: not an operator, not `cast`, not `(`, not a comment. -/
def ends_expression (t : TokenType) : Bool :=
  (binary_op_of_token t).isNone && t ≠ Token_Type_Keyword_Cast && t ≠ ascii '('
    && t ≠ Token_Type_Comment

/-- The arena address of the node built for the token at index `i`, when the
node of token `tb` sits at address `h0` and every token builds one node. -/
def node_addr (h0 tb i : Nat) : Nat := h0 + (i - tb)

/-- The tree `t` is laid out in the arena: the node of every token of the tree
sits at its address, with the kind, operator, token and operand pointers of the tree. -/
def tree_in_heap (heap : List AstNode) (h0 tb : Nat) : ExprTree → Prop
  | ExprTree.factor k t =>
    ∃ n, heap[node_addr h0 tb t]? = some n ∧ n.kind = k ∧ k ≠ Ast_Kind_Binary_Op ∧ n.token = some t
  | ExprTree.binary op t l r =>
    ∃ n, heap[node_addr h0 tb t]? = some n ∧ n.kind = Ast_Kind_Binary_Op ∧ n.operation = op
      ∧ n.token = some t
      ∧ n.left = NodePtr.node (node_addr h0 tb l.token)
      ∧ n.right = NodePtr.node (node_addr h0 tb r.token)
      ∧ tree_in_heap heap h0 tb l ∧ tree_in_heap heap h0 tb r

/-- Every node of the tree carries what its token says: a factor has the kind of
the single-token factor at its token index, a BinaryOp the operator of the
operator token at its token index. -/
def ExprTree.matches_tokens (toks : List OnyxToken) : ExprTree → Prop
  | ExprTree.factor k i =>
    ∃ t, toks[i]? = some t ∧ is_leaf_factor t.type = true ∧ k = leaf_factor_kind t.type
  | ExprTree.binary op i l r =>
    ∃ t, toks[i]? = some t ∧ binary_op_of_token t.type = some op
      ∧ l.matches_tokens toks ∧ r.matches_tokens toks

/-- The stack is ordered: every left operand is ordered and does not bind less
tightly than its entry, and the precedences strictly increase from the bottom
of the stack to its top. -/
def frames_ordered : List Frame → Prop
  | [] => True
  | f :: fs =>
    f.left.precedence_ordered ∧
    (∀ pl, f.left.root_precedence = some pl → get_precedence f.op ≤ pl) ∧
    (∀ g, fs.head? = some g → get_precedence g.op < get_precedence f.op) ∧
    frames_ordered fs

/-- The right operand of the top of the stack binds strictly tighter than the top. -/
def above_top (fs : List Frame) (r : ExprTree) : Prop :=
  ∀ f, fs.head? = some f → ∀ pr, r.root_precedence = some pr → get_precedence f.op < pr

/-- Every entry of the stack carries the operator of its token, and its left
operand matches the tokens. -/
def frames_match (toks : List OnyxToken) (fs : List Frame) : Prop :=
  ∀ f ∈ fs, (∃ t, toks[f.token]? = some t ∧ binary_op_of_token t.type = some f.op)
    ∧ f.left.matches_tokens toks

/-- The token indices below a stack, bottom entry first: for every entry the
tokens of its left operand, then its own token. -/
def frames_inorder : List Frame → List Nat
  | [] => []
  | f :: fs => frames_inorder fs ++ (f.left.inorder ++ [f.token])

/-- The stack of node pointers that stands for a stack of frames. -/
def frame_ptrs (h0 tb : Nat) (fs : List Frame) : List NodePtr :=
  fs.map (fun f => NodePtr.node (node_addr h0 tb f.token))

/-- The invariant of the operator loop of `parse_expression` at the loop head,
after `m` tokens of the expression have been turned into `m` nodes: the arena
holds the tree that the frames `fs` and the right operand `r` stand for, `root`
points at its root, `tree_stack` is the stack of the frames, and the in-order
traversal of the tree is the `m` tokens from `tb` on. -/
structure LoopInv (s : OnyxParser) (h0 tb m : Nat) (root : NodePtr) (tree_stack : List NodePtr)
    (fs : List Frame) (r : ExprTree) : Prop where
  heap_length : s.heap.length = h0 + m
  curr_eq : s.curr = tb + m
  tree : tree_in_heap s.heap h0 tb (fold_frames fs r)
  root_eq : root = NodePtr.node (node_addr h0 tb (fold_frames fs r).token)
  stack_eq : tree_stack = frame_ptrs h0 tb fs
  inorder_eq : (fold_frames fs r).inorder = List.range' tb m

/-! # Frame conditions

The expression functions only write to nodes they allocated themselves; the statement
functions also write the `next` field of the last node of a statement chain, which can
be an older node.  `Good v b m` states this for a run of `m` relative to an arena
address `b` and a view `v` of the nodes (the identity, or `AstNode.clear_next`): the
nodes below `b` look the same through `v`, the token array stays as it is, and the
result of the run does not point at an arena node below `b`. -/

/-- The pointer does not point at an arena node below `b`. -/
def safe_ptr (b : Nat) (p : NodePtr) : Prop := ∀ j, p = NodePtr.node j → b ≤ j

/-- What a value returned by a parsing function may point at, relative to the address `b`. -/
class Safe (α : Type) where
  safe : Nat → α → Prop

instance : Safe Unit := ⟨fun _ _ => True⟩
instance : Safe Bool := ⟨fun _ _ => True⟩
instance : Safe TokenType := ⟨fun _ _ => True⟩
instance : Safe OnyxToken := ⟨fun _ _ => True⟩
instance : Safe (Option Nat) := ⟨fun _ _ => True⟩
instance : Safe NodePtr := ⟨safe_ptr⟩
instance : Safe AstNode := ⟨fun _ _ => True⟩
instance : Safe (List NodePtr) := ⟨fun b l => ∀ p ∈ l, safe_ptr b p⟩
instance : Safe SymbolStatement := ⟨fun b r => safe_ptr b r.ret⟩
instance : Safe StatementSwitch := ⟨fun b r => safe_ptr b r.retval⟩

/-- The node a slot belongs to. -/
def NodeSlot.owner : NodeSlot → NodePtr
  | NodeSlot.arguments p => p
  | NodeSlot.body p => p
  | NodeSlot.next p => p

instance : Safe NodeSlot := ⟨fun b sl => safe_ptr b sl.owner⟩

/-- The node a type slot belongs to (`NULL` for the local `root`). -/
def TypeSlot.owner : TypeSlot → NodePtr
  | TypeSlot.root => NodePtr.null
  | TypeSlot.elem p => p

instance : Safe TypeSlot := ⟨fun b sl => safe_ptr b sl.owner⟩

/-- The node with its `next` field cleared: what remains of a node when its place in a
statement chain is disregarded. -/
def AstNode.clear_next (n : AstNode) : AstNode := { n with next := NodePtr.null }

/-- A slot that may be written without touching anything but `next` fields below `b`. -/
def slot_free (b : Nat) (slot : NodeSlot) : Prop :=
  match slot with
  | NodeSlot.next _ => True
  | NodeSlot.body p => safe_ptr b p
  | NodeSlot.arguments p => safe_ptr b p

/-- The frame condition of a run of `m` relative to the address `b` and the view `v` of a
node: the arena only grows, the nodes below `b` look the same through `v`, the tokens are
the same and the result does not point below `b`. -/
structure Good (v : AstNode → AstNode) (b : Nat) {α : Type} [Safe α] (m : P α) : Prop where
  run : ∀ (s : OnyxParser) (r : α) (s' : OnyxParser), b ≤ s.heap.length →
    m s = Res.ok r s' →
    s.heap.length ≤ s'.heap.length ∧
      (∀ i, i < b → (s'.heap[i]?).map v = (s.heap[i]?).map v) ∧
      s'.tokens = s.tokens ∧ Safe.safe b r

/-- Every result of `m1` is a result of `m2`: used for a function and the same function
with more fuel. -/
structure Mono {α : Type} (m1 m2 : P α) : Prop where
  run : ∀ (s : OnyxParser) (r : α) (s' : OnyxParser), m1 s = Res.ok r s' → m2 s = Res.ok r s'

/-! # Sample inputs and observations used by the theorems -/

/-- The token stream `0xFFFFFFFF ;` used for C5. -/
def literal_ffffffff_stream : List OnyxToken :=
  [⟨Token_Type_Literal_Numeric, String.toList "0xFFFFFFFF", ⟨1, 1⟩⟩, ⟨ascii ';', [], ⟨1, 11⟩⟩]

/-- The value returned by a run, if it ended normally. -/
def Res.value {α : Type} (r : Res α) : Option α :=
  match r with
  | Res.ok a _ => some a
  | Res.fault _ => none

/-- The state a run ended in, if it ended normally. -/
def Res.final {α : Type} (r : Res α) : Option OnyxParser :=
  match r with
  | Res.ok _ s => some s
  | Res.fault _ => none

/-- What the claims on expressions observe of a node: kind, operator, the two
operand pointers and the Compile-time flag. -/
def operator_view (n : AstNode) : AstKind × BinaryOp × NodePtr × NodePtr × Bool :=
  (n.kind, n.operation, n.left, n.right, n.flags.comptime)

/-- A token with no text at line 1 (used in sample streams). -/
def plain_token (t : TokenType) (column : Nat) : OnyxToken :=
  { type := t, text := [], pos := { line := 1, column := column } }

/-- A symbol token with the given one-letter name. -/
def symbol_token (name : Char) (column : Nat) : OnyxToken :=
  { type := Token_Type_Symbol, text := [name], pos := { line := 1, column := column } }

/-- The token stream `a + b * c ;`. -/
def a_plus_b_times_c : List OnyxToken :=
  [symbol_token 'a' 1, plain_token (ascii '+') 3, symbol_token 'b' 5, plain_token (ascii '*') 7,
   symbol_token 'c' 9, plain_token (ascii ';') 10]

/-- The token stream `a * b + c ;`. -/
def a_times_b_plus_c : List OnyxToken :=
  [symbol_token 'a' 1, plain_token (ascii '*') 3, symbol_token 'b' 5, plain_token (ascii '+') 7,
   symbol_token 'c' 9, plain_token (ascii ';') 10]

/-- The token stream `a == b < c ;`. -/
def a_equal_b_less_c : List OnyxToken :=
  [symbol_token 'a' 1, plain_token Token_Type_Equal_Equal 3, symbol_token 'b' 6,
   plain_token (ascii '<') 8, symbol_token 'c' 10, plain_token (ascii ';') 11]

/-- The token stream `a - b - c ;`. -/
def a_minus_b_minus_c : List OnyxToken :=
  [symbol_token 'a' 1, plain_token (ascii '-') 3, symbol_token 'b' 5, plain_token (ascii '-') 7,
   symbol_token 'c' 9, plain_token (ascii ';') 10]

/-- The tree read back after `parse_expression` has run on a token stream from
its first token, with the given fuel for the run and for the reading. -/
def parsed_tree (fuel : Nat) (tokens : List OnyxToken) : Option ExprTree :=
  match parse_expression fuel (onyx_parser_create tokens) with
  | Res.ok root s => read_expr fuel s.heap root
  | Res.fault _ => none

/-- The token stream `1 + x * 2 ;`. -/
def one_plus_x_times_two : List OnyxToken :=
  [⟨Token_Type_Literal_Numeric, ['1'], ⟨1, 1⟩⟩, plain_token (ascii '+') 3,
   ⟨Token_Type_Symbol, ['x'], ⟨1, 5⟩⟩, plain_token (ascii '*') 7,
   ⟨Token_Type_Literal_Numeric, ['2'], ⟨1, 9⟩⟩, plain_token (ascii ';') 10]

/-- The token stream `x + 1 * 2 ;`. -/
def x_plus_one_times_two : List OnyxToken :=
  [⟨Token_Type_Symbol, ['x'], ⟨1, 1⟩⟩, plain_token (ascii '+') 3,
   ⟨Token_Type_Literal_Numeric, ['1'], ⟨1, 5⟩⟩, plain_token (ascii '*') 7,
   ⟨Token_Type_Literal_Numeric, ['2'], ⟨1, 9⟩⟩, plain_token (ascii ';') 10]

/-- The token stream of a top-level symbol directly followed by end-of-stream. -/
def symbol_then_end : List OnyxToken :=
  [⟨Token_Type_Symbol, ['x'], ⟨1, 1⟩⟩, plain_token Token_Type_End_Stream 2]

/-- The token stream `f :: proc ( ) {` followed by end-of-stream: an unclosed block. -/
def unclosed_block : List OnyxToken :=
  [⟨Token_Type_Symbol, ['f'], ⟨1, 1⟩⟩, plain_token (ascii ':') 3, plain_token (ascii ':') 4,
   plain_token Token_Type_Keyword_Proc 6, plain_token (ascii '(') 11, plain_token (ascii ')') 12,
   plain_token (ascii '{') 14, plain_token Token_Type_End_Stream 15]

/-- A statement tree with the token texts in place of the token pointers, so that
the trees of two different token streams can be compared. -/
inductive ShapeTree where
  | leaf (kind : AstKind) (text : List Char)
  | binary (op : BinaryOp) (left right : ShapeTree)
  | assign (lval expr : ShapeTree)
  deriving DecidableEq, Repr

/-- Reading the shape under a node pointer back from the arena: a BinaryOp with its
operator and operands, an Assignment with its `lval` and `expr`, any other node with
its kind and the text of its token. -/
def read_shape : Nat → List OnyxToken → List AstNode → NodePtr → Option ShapeTree
  | 0, _, _, _ => none
  | fuel + 1, tokens, heap, p =>
    match p with
    | NodePtr.node i =>
      match heap[i]? with
      | none => none
      | some n =>
        if n.kind = Ast_Kind_Binary_Op then
          match read_shape fuel tokens heap n.left, read_shape fuel tokens heap n.right with
          | some l, some r => some (ShapeTree.binary n.operation l r)
          | _, _ => none
        else if n.kind = Ast_Kind_Assignment then
          match read_shape fuel tokens heap n.lval, read_shape fuel tokens heap n.expr with
          | some l, some r => some (ShapeTree.assign l r)
          | _, _ => none
        else
          match n.token with
          | none => none
          | some t =>
            match tokens[t]? with
            | some tok => some (ShapeTree.leaf n.kind tok.text)
            | none => none
    | _ => none

/-- The shape of the statement that `parse_symbol_statement` makes of a token stream. -/
def statement_shape (fuel : Nat) (tokens : List OnyxToken) : Option ShapeTree :=
  match parse_symbol_statement fuel NodePtr.null (onyx_parser_create tokens) with
  | Res.ok r s => if r.result then read_shape fuel s.tokens s.heap r.ret else none
  | Res.fault _ => none

/-- The token stream `x op= a + b ;` for the compound assignment token `t`. -/
def compound_assignment_stream (t : TokenType) : List OnyxToken :=
  [symbol_token 'x' 1, plain_token t 3, symbol_token 'a' 6, plain_token (ascii '+') 8,
   symbol_token 'b' 10, plain_token (ascii ';') 11]

/-- The token stream `x = x op ( a + b ) ;` for the operator token `t`. -/
def plain_assignment_stream (t : TokenType) : List OnyxToken :=
  [symbol_token 'x' 1, plain_token (ascii '=') 3, symbol_token 'x' 5, plain_token t 7,
   plain_token (ascii '(') 9, symbol_token 'a' 10, plain_token (ascii '+') 12,
   symbol_token 'b' 14, plain_token (ascii ')') 15, plain_token (ascii ';') 16]

/-- The shape `x = x op (a + b)`. -/
def desugared_shape (op : BinaryOp) : ShapeTree :=
  ShapeTree.assign (ShapeTree.leaf Ast_Kind_Symbol ['x'])
    (ShapeTree.binary op (ShapeTree.leaf Ast_Kind_Symbol ['x'])
      (ShapeTree.binary Binary_Op_Add (ShapeTree.leaf Ast_Kind_Symbol ['a'])
        (ShapeTree.leaf Ast_Kind_Symbol ['b'])))

/-- The token stream `x : t : a ;` (a constant with a type). -/
def typed_constant_stream : List OnyxToken :=
  [symbol_token 'x' 1, plain_token (ascii ':') 3, symbol_token 't' 5, plain_token (ascii ':') 7,
   symbol_token 'a' 9, plain_token (ascii ';') 10]

/-! # If chains -/

/-- One clause `cond block` of an if statement as the parser goes through it: the state
in which the condition is parsed, the node of the condition, the state between condition
and block, the node of the block, the state after the block. -/
structure IfClause where
  start : OnyxParser
  cond : NodePtr
  mid : OnyxParser
  block : NodePtr
  stop : OnyxParser

/-- The two sub-parser runs of a clause: `parse_expression` from `start` gives `cond`
and ends in `mid`, `parse_block` from `mid` gives `block` and ends in `stop`. -/
@[reducible] def IfClause.parsed (fuel : Nat) (c : IfClause) : Prop :=
  parse_expression fuel c.start = Res.ok c.cond c.mid ∧
  parse_block fuel c.mid = Res.ok c.block c.stop

/-- The writes `if_node->cond = cond; if (true_block != NULL) if_node->true_block.as_block
= true_block;` on a node. -/
def AstNode.with_clause (n : AstNode) (cond block : NodePtr) : AstNode :=
  { n with cond := cond, true_block := if block ≠ NodePtr.null then block else n.true_block }

/-- The arena after a write to the node at address `i`. -/
def update_node (heap : List AstNode) (i : Nat) (f : AstNode → AstNode) : List AstNode :=
  match heap[i]? with
  | some n => heap.set i (f n)
  | none => heap

/-- The state in which `parse_if_stmt` enters its elseif loop: after the first clause the
root If node has been allocated and has received the condition and the block. -/
def IfClause.root_state (c : IfClause) : OnyxParser :=
  { c.stop with heap :=
      c.stop.heap ++ [({ kind := Ast_Kind_If } : AstNode).with_clause c.cond c.block] }

/-- The state at the end of an iteration of the elseif loop: the If node of the clause, at
address `n`, has received the condition and the block, and the previous If node, at address
`m`, has received the node `n` as false branch. -/
def IfClause.linked_state (c : IfClause) (m n : Nat) : OnyxParser :=
  { c.stop with heap :=
      (update_node (update_node c.stop.heap n (fun x => x.with_clause c.cond c.block)) m
        (fun x => { x with false_block := NodePtr.node n })) }

/-- The elseif clauses `cs` follow one another from the state `L` at the head of the elseif
loop, where the last If node so far is at address `m`: for each clause the current token
is `elseif`, the clause starts behind that token with a new If node allocated, its two
sub-parser runs succeed, and the next clause follows from the state in which the clause
has been linked. -/
def elseif_clauses (fuel : Nat) : Nat → OnyxParser → List IfClause → Prop
  | _, _, [] => True
  | m, L, c :: cs =>
    (L.tokens[L.curr]?).map (fun t => t.type) = some Token_Type_Keyword_Elseif ∧
    skip_comments (L.tokens.drop (L.curr + 1)) (L.curr + 1) = some c.start.curr ∧
    c.start = { L with prev := some (L.curr : Int), curr := c.start.curr,
                       heap := L.heap ++ [{ kind := Ast_Kind_If }] } ∧
    c.parsed fuel ∧
    elseif_clauses fuel L.heap.length (c.linked_state m L.heap.length) cs

/-- The address of the last If node and the state at the head of the elseif loop after
the clauses `cs`. -/
def elseif_exit : Nat → OnyxParser → List IfClause → Nat × OnyxParser
  | m, L, [] => (m, L)
  | m, L, c :: cs => elseif_exit L.heap.length (c.linked_state m L.heap.length) cs

/-- Walking an If chain in the arena: from the node `p`, following `false_block` `k`
times; the kind, the condition and the true branch of each of the `k + 1` nodes met, and
the false branch of the last one. -/
def if_chain_view : Nat → List AstNode → NodePtr →
    Option (List (AstKind × NodePtr × NodePtr) × NodePtr)
  | 0, heap, p =>
    match p with
    | NodePtr.node i =>
      match heap[i]? with
      | some n => some ([(n.kind, n.cond, n.true_block)], n.false_block)
      | none => none
    | _ => none
  | k + 1, heap, p =>
    match p with
    | NodePtr.node i =>
      match heap[i]? with
      | some n =>
        match if_chain_view k heap n.false_block with
        | some (l, e) => some ((n.kind, n.cond, n.true_block) :: l, e)
        | none => none
      | none => none
    | _ => none

/-- The clause that the two sub-parsers make from the state `start` (used to write down
sample runs). -/
def run_clause (fuel : Nat) (start : OnyxParser) : IfClause :=
  match parse_expression fuel start with
  | Res.ok cond mid =>
    match parse_block fuel mid with
    | Res.ok block stop => ⟨start, cond, mid, block, stop⟩
    | Res.fault _ => ⟨start, cond, mid, NodePtr.null, mid⟩
  | Res.fault _ => ⟨start, NodePtr.null, start, NodePtr.null, start⟩

/-- The statements of `parse_if_stmt` behind its elseif loop: the optional else block,
written to the last If node of the chain, and the return of the root If node. -/
def parse_if_else_tail (fuel : Nat) (if_node last_if : NodePtr) : P NodePtr := do
  let t ← curr_type
  if t = Token_Type_Keyword_Else then do
    consume_token
    let false_block ← parse_block fuel
    if false_block ≠ NodePtr.null then
      modify_node last_if (fun n => { n with false_block := false_block })
  pure if_node

/-- The token stream `if a { } elseif b { } else { } ;`. -/
def if_elseif_else_stream : List OnyxToken :=
  [plain_token Token_Type_Keyword_If 1, symbol_token 'a' 4, plain_token (ascii '{') 6,
   plain_token (ascii '}') 8, plain_token Token_Type_Keyword_Elseif 10, symbol_token 'b' 17,
   plain_token (ascii '{') 19, plain_token (ascii '}') 21, plain_token Token_Type_Keyword_Else 23,
   plain_token (ascii '{') 28, plain_token (ascii '}') 30, plain_token (ascii ';') 31]

/-- The clause `a { }` of the sample stream, parsed behind the `if`. -/
def sample_if_clause : IfClause :=
  run_clause 6 { tokens := if_elseif_else_stream, curr := 1, prev := some 0 }

/-- The clause `b { }` of the sample stream, parsed behind the `elseif`. -/
def sample_elseif_clause : IfClause :=
  run_clause 6 { sample_if_clause.root_state with
    prev := some 4, curr := 5, heap := sample_if_clause.root_state.heap ++ [{ kind := Ast_Kind_If }] }

/-- The state of the sample run behind the else block. -/
def sample_else_state : OnyxParser :=
  match parse_block 6 { sample_elseif_clause.linked_state 3 4 with prev := some 8, curr := 9 } with
  | Res.ok _ s => s
  | Res.fault _ => sample_elseif_clause.linked_state 3 4

/-! ## Calls -/

/-- The token stream `f ( a , ) ;`. -/
def call_trailing_comma_stream : List OnyxToken :=
  [symbol_token 'f' 1, plain_token (ascii '(') 2, symbol_token 'a' 3, plain_token (ascii ',') 4,
   plain_token (ascii ')') 5, plain_token (ascii ';') 6]

/-- The token stream `f ( a ) ;`. -/
def call_one_argument_stream : List OnyxToken :=
  [symbol_token 'f' 1, plain_token (ascii '(') 2, symbol_token 'a' 3,
   plain_token (ascii ')') 4, plain_token (ascii ';') 5]

/-- The field update that the write `*slot = v` makes in the node the slot belongs to. -/
def NodeSlot.put (slot : NodeSlot) (v : NodePtr) (n : AstNode) : AstNode :=
  match slot with
  | NodeSlot.arguments _ => { n with arguments := v }
  | NodeSlot.body _ => { n with body := v }
  | NodeSlot.next _ => { n with next := v }

/-- The state in which `parse_factor` enters the argument loop on `f ( a , ) ;`: the Symbol
node of `f` and the Call node are allocated, the cursor is on `a`. -/
def call_loop_state : OnyxParser :=
  { onyx_parser_create call_trailing_comma_stream with
    curr := 2, prev := some 1,
    heap := [{ kind := Ast_Kind_Symbol, token := some 0 },
             { kind := Ast_Kind_Call, token := some 1, callee := NodePtr.node 0 }] }

/-- The state after the argument `a` of `f ( a , ) ;` has been parsed: the Argument node
and the Symbol node of `a` are allocated, the cursor is on the comma. -/
def call_argument_state : OnyxParser :=
  { onyx_parser_create call_trailing_comma_stream with
    curr := 3, prev := some 2,
    heap := [{ kind := Ast_Kind_Symbol, token := some 0 },
             { kind := Ast_Kind_Call, token := some 1, callee := NodePtr.node 0 },
             { kind := Ast_Kind_Argument, token := some 2 },
             { kind := Ast_Kind_Symbol, token := some 2 }] }

/-- The arena after `parse_factor` has run on `f ( a , ) ;` or on `f ( a ) ;`: the Call
node with its one Argument. -/
def call_one_argument_heap : List AstNode :=
  [{ kind := Ast_Kind_Symbol, token := some 0 },
   { kind := Ast_Kind_Call, token := some 1, callee := NodePtr.node 0,
     arguments := NodePtr.node 2 },
   { kind := Ast_Kind_Argument, token := some 2, arg_value := NodePtr.node 3 },
   { kind := Ast_Kind_Symbol, token := some 2 }]

/-! ## Directives -/

/-- A directive as it stands in the token stream: the `#`, the symbol and the string
tokens that belong to it. -/
structure DirectiveUse where
  hash : OnyxToken
  sym : OnyxToken
  strings : List OnyxToken
  deriving DecidableEq, Repr

/-- The tokens of a directive, in order. -/
def DirectiveUse.tokens (d : DirectiveUse) : List OnyxToken :=
  d.hash :: d.sym :: d.strings

/-- The tokens of a sequence of directives. -/
def directive_tokens : List DirectiveUse → List OnyxToken
  | [] => []
  | d :: ds => d.tokens ++ directive_tokens ds

/-- Whether the directive has the given name. -/
def DirectiveUse.named (d : DirectiveUse) (name : String) : Bool :=
  decide (d.sym.text = name.toList)

/-- The tokens of the directive have the types `#`, symbol and string. -/
def DirectiveUse.shaped (d : DirectiveUse) : Bool :=
  decide (d.hash.type = ascii '#') && decide (d.sym.type = Token_Type_Symbol)
    && d.strings.all (fun t => decide (t.type = Token_Type_Literal_String))

/-- A directive that `parse_function_definition` recognizes: `#intrinsic` with or without
a string, `#inline`, `#foreign` with two strings, `#export` with or without a string. -/
def DirectiveUse.of_function (d : DirectiveUse) : Bool :=
  d.shaped
    && ((d.named "intrinsic" && decide (d.strings.length ≤ 1))
        || (d.named "inline" && decide (d.strings.length = 0))
        || (d.named "foreign" && decide (d.strings.length = 2))
        || (d.named "export" && decide (d.strings.length ≤ 1)))

/-- A directive that `parse_global_declaration` recognizes: `#foreign` with two strings,
`#export` with or without a string. -/
def DirectiveUse.of_global (d : DirectiveUse) : Bool :=
  d.shaped
    && ((d.named "foreign" && decide (d.strings.length = 2))
        || (d.named "export" && decide (d.strings.length ≤ 1)))

/-- What a recognized directive whose `#` is the token `i` records in the Function or
Global node: its flag, and the string tokens that follow the symbol. -/
def DirectiveUse.apply (d : DirectiveUse) (i : Nat) (n : AstNode) : AstNode :=
  if d.named "intrinsic" then
    { n with flags := { n.flags with intrinsic := true },
             intrinsic_name := if d.strings.length = 0 then n.intrinsic_name else some (i + 2) }
  else if d.named "inline" then
    { n with flags := { n.flags with inline := true } }
  else if d.named "foreign" then
    { n with flags := { n.flags with foreign := true },
             foreign_module := some (i + 2), foreign_name := some (i + 3) }
  else if d.named "export" then
    { n with flags := { n.flags with exported := true },
             exported_name := if d.strings.length = 0 then n.exported_name else some (i + 2) }
  else n

/-- What a sequence of directives that starts at the token `i` records in the node. -/
def apply_directives : List DirectiveUse → Nat → AstNode → AstNode
  | [], _, n => n
  | d :: ds, i, n => apply_directives ds (i + d.tokens.length) (d.apply i n)

/-- The exported name that a sequence of directives starting at the token `i` records:
the string token of the last `#export` that has one. -/
def directive_export_name : List DirectiveUse → Nat → Option Nat → Option Nat
  | [], _, name => name
  | d :: ds, i, name =>
    directive_export_name ds (i + d.tokens.length)
      (if d.named "export" && decide (d.strings.length ≠ 0) then some (i + 2) else name)

/-- The state in which a directive loop ends: the cursor has passed the directives, the
node at the address `f` has received what they record. -/
def after_directives (s : OnyxParser) (f : Nat) (ds : List DirectiveUse) (n : AstNode) :
    OnyxParser :=
  match ds with
  | [] => s
  | _ :: _ =>
    { s with curr := s.curr + (directive_tokens ds).length,
             prev := some ((s.curr + (directive_tokens ds).length - 1 : Nat) : Int),
             heap := s.heap.set f (apply_directives ds s.curr n) }

/-- The statements of `parse_function_definition` after the directive loop, up to the
`return`: parameters, return type, the FunctionType, the body. -/
def parse_function_rest (fuel : Nat) (func_def : NodePtr) : P Unit := do
  let params ← parse_function_params fuel
  modify_node func_def (fun n => { n with params := params })
  let t ← curr_type
  let return_type ← (if t = Token_Type_Right_Arrow then do
      let _ ← expect_token Token_Type_Right_Arrow
      parse_type fuel
    else pure (NodePtr.basic Basic_Kind_Void))
  let param_types ← collect_param_types fuel params
  let type_node ← make_function_type param_types return_type
  modify_node func_def (fun n => { n with type_node := type_node })
  let body ← parse_block fuel
  modify_node func_def (fun n => { n with body := body })

/-- What the directives of a Function or Global node are read from: kind, flags, token and
the four name tokens. -/
def directive_view (n : AstNode) : AstNode :=
  { kind := n.kind, flags := n.flags, token := n.token, intrinsic_name := n.intrinsic_name,
    foreign_module := n.foreign_module, foreign_name := n.foreign_name,
    exported_name := n.exported_name }

/-- The state after the keyword `proc` or `global` of a definition: the node of the given
kind is allocated with the keyword as token, the cursor is on the next token. -/
def keyword_state (s : OnyxParser) (kind : AstKind) : OnyxParser :=
  { s with curr := s.curr + 1, prev := some (s.curr : Int),
           heap := s.heap ++ [{ kind := kind, token := some s.curr }] }

/-- The token stream `global #foreign "env" "x" i32 ;`. -/
def global_foreign_stream : List OnyxToken :=
  [plain_token Token_Type_Keyword_Global 1, plain_token (ascii '#') 8,
   ⟨Token_Type_Symbol, String.toList "foreign", ⟨1, 9⟩⟩,
   ⟨Token_Type_Literal_String, String.toList "env", ⟨1, 17⟩⟩,
   ⟨Token_Type_Literal_String, String.toList "x", ⟨1, 23⟩⟩,
   ⟨Token_Type_Symbol, String.toList "i32", ⟨1, 27⟩⟩, plain_token (ascii ';') 30]

/-- The directive `#foreign "env" "x"` of `global_foreign_stream`. -/
def foreign_env_x : DirectiveUse :=
  { hash := plain_token (ascii '#') 8,
    sym := ⟨Token_Type_Symbol, String.toList "foreign", ⟨1, 9⟩⟩,
    strings := [⟨Token_Type_Literal_String, String.toList "env", ⟨1, 17⟩⟩,
                ⟨Token_Type_Literal_String, String.toList "x", ⟨1, 23⟩⟩] }

/-- The state after `parse_type` has read `i32` in `global_foreign_stream`. -/
def global_foreign_typed : OnyxParser :=
  { onyx_parser_create global_foreign_stream with
    curr := 6, prev := some 5,
    heap := [{ kind := Ast_Kind_Global, token := some 0, flags := { foreign := true },
               foreign_module := some 3, foreign_name := some 4 },
             { kind := Ast_Kind_Symbol, token := some 5 }] }

/-- The state after the `name ::` of a top-level statement: the cursor is on the fourth
token. -/
def binding_state (s : OnyxParser) : OnyxParser :=
  { s with curr := s.curr + 3, prev := some ((s.curr + 2 : Nat) : Int) }

/-- The Global node of a declaration whose keyword is the token `i`, with the directives
`ds` and the type node `ty`: what the directives record, the type node, the L-value flag. -/
def declared_global (ds : List DirectiveUse) (i : Nat) (ty : NodePtr) : AstNode :=
  { apply_directives ds (i + 1) { kind := Ast_Kind_Global, token := some i } with
    type_node := ty,
    flags := { (apply_directives ds (i + 1) { kind := Ast_Kind_Global, token := some i }).flags
               with lval := true } }

/-- The token stream `main :: proc #export "entry" () { a := 1 + 2; }`. -/
def main_entry_stream : List OnyxToken :=
  [⟨Token_Type_Symbol, String.toList "main", ⟨1, 1⟩⟩, plain_token (ascii ':') 6,
   plain_token (ascii ':') 7, plain_token Token_Type_Keyword_Proc 9, plain_token (ascii '#') 14,
   ⟨Token_Type_Symbol, String.toList "export", ⟨1, 15⟩⟩,
   ⟨Token_Type_Literal_String, String.toList "entry", ⟨1, 22⟩⟩,
   plain_token (ascii '(') 30, plain_token (ascii ')') 31, plain_token (ascii '{') 33,
   symbol_token 'a' 35, plain_token (ascii ':') 37, plain_token (ascii '=') 38,
   ⟨Token_Type_Literal_Numeric, ['1'], ⟨1, 40⟩⟩, plain_token (ascii '+') 42,
   ⟨Token_Type_Literal_Numeric, ['2'], ⟨1, 44⟩⟩, plain_token (ascii ';') 45,
   plain_token (ascii '}') 47, plain_token Token_Type_End_Stream 48]

/-- The token stream `add :: proc (a: i32, b: i32) -> i32 { return a + b; }`. -/
def add_stream : List OnyxToken :=
  [⟨Token_Type_Symbol, String.toList "add", ⟨1, 1⟩⟩, plain_token (ascii ':') 5,
   plain_token (ascii ':') 6, plain_token Token_Type_Keyword_Proc 8, plain_token (ascii '(') 13,
   symbol_token 'a' 14, plain_token (ascii ':') 15,
   ⟨Token_Type_Symbol, String.toList "i32", ⟨1, 17⟩⟩, plain_token (ascii ',') 20,
   symbol_token 'b' 22, plain_token (ascii ':') 23,
   ⟨Token_Type_Symbol, String.toList "i32", ⟨1, 25⟩⟩, plain_token (ascii ')') 28,
   plain_token Token_Type_Right_Arrow 30, ⟨Token_Type_Symbol, String.toList "i32", ⟨1, 33⟩⟩,
   plain_token (ascii '{') 37, plain_token Token_Type_Keyword_Return 39, symbol_token 'a' 46,
   plain_token (ascii '+') 48, symbol_token 'b' 50, plain_token (ascii ';') 51,
   plain_token (ascii '}') 53, plain_token Token_Type_End_Stream 54]

/-- The directive `#export "entry"` of `main_entry_stream`. -/
def export_entry : DirectiveUse :=
  { hash := plain_token (ascii '#') 14,
    sym := ⟨Token_Type_Symbol, String.toList "export", ⟨1, 15⟩⟩,
    strings := [⟨Token_Type_Literal_String, String.toList "entry", ⟨1, 22⟩⟩] }

/-- The state a run ended in, or the given state if the run ended with a fault. -/
def Res.final_or {α : Type} (r : Res α) (s : OnyxParser) : OnyxParser :=
  match r with
  | Res.ok _ s1 => s1
  | Res.fault _ => s

/-- What the claims on bindings observe after `parse_top_level_statement`: the kind, the
token and the node of the node returned, and of that node the kind, the Exported flag and
the text of the exported-name token. -/
structure BindingView where
  kind : AstKind
  token : Option Nat
  node : NodePtr
  node_kind : AstKind
  exported : Bool
  exported_name : Option (List Char)
  deriving DecidableEq, Repr

/-- The observation of a run of `parse_top_level_statement`. -/
def binding_view (r : Res NodePtr) : Option BindingView :=
  match r with
  | Res.fault _ => none
  | Res.ok b s =>
    match read_node b s with
    | Res.fault _ => none
    | Res.ok bn _ =>
      match read_node bn.node s with
      | Res.fault _ => none
      | Res.ok xn _ =>
        some { kind := bn.kind, token := bn.token, node := bn.node, node_kind := xn.kind,
               exported := xn.flags.exported,
               exported_name :=
                 match xn.exported_name with
                 | none => none
                 | some e => (s.tokens[e]?).map (fun tok => tok.text) }

/-- The state after `parse_function_rest` has run on `main_entry_stream` from the token
`(` on. -/
def main_entry_parsed : OnyxParser :=
  (parse_function_rest 10 (NodePtr.node 0)
    (after_directives
      (keyword_state (binding_state (onyx_parser_create main_entry_stream)) Ast_Kind_Function)
      0 [export_entry] { kind := Ast_Kind_Function, token := some 3 })).final_or
    (onyx_parser_create [])

/-! # A strict frame condition

The frame `Good AstNode.clear_next` of the statement level leaves the `next` fields below
the address `b` open, because `parse_block` walks a statement chain to its end and writes
there.  The walk stays above `b` when no `next` field of a node above `b`, nor that of the
static error node, points below `b`; under this condition nothing below `b` changes. -/

/-- No `next` field of a node at or above the address `b`, nor that of the static error
node, points below `b`. -/
def Closed (b : Nat) (s : OnyxParser) : Prop :=
  (∀ j n, s.heap[j]? = some n → b ≤ j → safe_ptr b n.next) ∧ safe_ptr b s.error_node.next

/-- The strict frame condition of a run of `m` relative to the address `b`: from a state
closed above `b`, the arena only grows, the nodes below `b` are the same, the state is
closed above `b` again and the result does not point below `b`. -/
structure Tight (b : Nat) {α : Type} [Safe α] (m : P α) : Prop where
  run : ∀ (s : OnyxParser) (r : α) (s' : OnyxParser), b ≤ s.heap.length → Closed b s →
    m s = Res.ok r s' →
    s.heap.length ≤ s'.heap.length ∧
      (∀ i, i < b → s'.heap[i]? = s.heap[i]?) ∧
      Closed b s' ∧ Safe.safe b r

/-- The static error node is the same after every run of `m`. -/
structure Keeps {α : Type} (m : P α) : Prop where
  run : ∀ (s : OnyxParser) (r : α) (s' : OnyxParser), m s = Res.ok r s' →
    s'.error_node = s.error_node

/-! # Parameter lists -/

/-- One parameter `name : type` of a parameter list as `parse_function_params` reads it:
whether a comma precedes the name, the index of the name token, the type node that
`parse_type` returned and the state in which it returned. -/
structure ParamUse where
  comma : Bool
  name : Nat
  type_node : NodePtr
  stop : OnyxParser

/-- The Param node of `parse_function_params` before its type is parsed: the name as
token and the Const flag. -/
def param_cell (name : Nat) : AstNode :=
  { kind := Ast_Kind_Param, token := some name, flags := { const := true } }

/-- The state in which `parse_type` is called for a parameter met at the loop head `L`: the
cursor has passed the name and the colon, the Param node is allocated. -/
def ParamUse.start (p : ParamUse) (L : OnyxParser) : OnyxParser :=
  { L with curr := p.name + 2, prev := some ((p.name + 1 : Nat) : Int),
           heap := L.heap ++ [param_cell p.name] }

/-- The arena after `trailer->base.next = curr_param`, for a trailer that is `NULL` or a
node of the arena. -/
def link_trailer (heap : List AstNode) (trailer : NodePtr) (a : Nat) : List AstNode :=
  match trailer with
  | NodePtr.node m => update_node heap m (fun n => { n with next := NodePtr.node a })
  | _ => heap

/-- The state at the next loop head of `parse_function_params`: the Param node allocated at
the loop head `L` has received its type node and a null `next`, and the trailer points at it. -/
def ParamUse.linked (p : ParamUse) (L : OnyxParser) (trailer : NodePtr) : OnyxParser :=
  { p.stop with heap :=
      (link_trailer
        (update_node p.stop.heap L.heap.length
          (fun n => { n with type_node := p.type_node, next := NodePtr.null }))
        trailer L.heap.length) }

/-- The parameters `ps` are what the loop of `parse_function_params` meets from the loop
head `L` with the given trailer: each starts with a comma or directly with its name, a
Symbol followed by a colon and by the first token of the type; `parse_type` returns its
type node; the next parameter follows from the state in which this one has been linked. -/
def param_uses (fuel : Nat) : NodePtr → OnyxParser → List ParamUse → Prop
  | _, _, [] => True
  | trailer, L, p :: ps =>
    (L.tokens[L.curr]?).map (fun t => t.type)
      = some (if p.comma then ascii ',' else Token_Type_Symbol) ∧
    p.name = L.curr + (if p.comma then 1 else 0) ∧
    (L.tokens[p.name]?).map (fun t => t.type) = some Token_Type_Symbol ∧
    (L.tokens[p.name + 1]?).map (fun t => t.type) = some (ascii ':') ∧
    (∃ t, L.tokens[p.name + 2]? = some t ∧ t.type ≠ Token_Type_Comment) ∧
    parse_type fuel (p.start L) = Res.ok p.type_node p.stop ∧
    param_uses fuel (NodePtr.node L.heap.length) (p.linked L trailer) ps

/-- The state at the head of the loop of `parse_function_params` after the parameters `ps`. -/
def param_exit : NodePtr → OnyxParser → List ParamUse → OnyxParser
  | _, L, [] => L
  | trailer, L, p :: ps => param_exit (NodePtr.node L.heap.length) (p.linked L trailer) ps

/-- What the claims on parameters observe of a Param node: kind, token and type node. -/
structure ParamView where
  kind : AstKind
  token : Option Nat
  type_node : NodePtr
  deriving DecidableEq, Repr

/-- The view that a parameter of the source is expected to leave. -/
def ParamUse.view (p : ParamUse) : ParamView :=
  { kind := Ast_Kind_Param, token := some p.name, type_node := p.type_node }

/-- Walking a parameter chain in the arena: from `p` through `next` up to `NULL`, the view
of each node met; `none` if the chain leaves the arena or does not end within the fuel. -/
def read_params : Nat → List AstNode → NodePtr → Option (List ParamView)
  | 0, _, _ => none
  | fuel + 1, heap, p =>
    match p with
    | NodePtr.null => some []
    | NodePtr.node a =>
      match heap[a]? with
      | some n =>
        (read_params fuel heap n.next).map
          (fun l => { kind := n.kind, token := n.token, type_node := n.type_node } :: l)
      | none => none
    | _ => none

/-- A parameter chain in the arena with the addresses of its nodes. -/
def chained (heap : List AstNode) : NodePtr → List (Nat × ParamView) → Prop
  | p, [] => p = NodePtr.null
  | p, (a, v) :: rest =>
    p = NodePtr.node a ∧ ∃ n, heap[a]? = some n ∧ n.kind = v.kind ∧ n.token = v.token ∧
      n.type_node = v.type_node ∧ chained heap n.next rest

/-- The statements of `parse_function_definition` that give the local `return_type` its
value: `&basic_type_void`, or the type parsed after `->`. -/
def parse_return_type (fuel : Nat) : P NodePtr := do
  let t ← curr_type
  if t = Token_Type_Right_Arrow then do
    let _ ← expect_token Token_Type_Right_Arrow
    parse_type fuel
  else pure (NodePtr.basic Basic_Kind_Void)

/-- The node that `make_function_type` allocates. -/
def function_type_cell (param_types : List NodePtr) (return_type : NodePtr) : AstNode :=
  { kind := Ast_Kind_Function_Type, param_count := param_types.length,
    return_type := return_type, type_params := param_types, base_indeterminate := true }

/-- The state behind a parenthesis that is the current token. -/
def paren_state (s : OnyxParser) : OnyxParser :=
  { s with curr := s.curr + 1, prev := some (s.curr : Int) }

/-- The state at the first loop head of `parse_function_params`: behind the `(` that
follows the keyword `proc` and the directives `ds`. -/
def params_start (s : OnyxParser) (ds : List DirectiveUse) : OnyxParser :=
  paren_state (after_directives (keyword_state s Ast_Kind_Function) s.heap.length ds
    { kind := Ast_Kind_Function, token := some s.curr })

/-- The first parameter of the list: the Param node allocated first, `NULL` for an empty list. -/
def first_param (L : OnyxParser) (ps : List ParamUse) : NodePtr :=
  match ps with
  | [] => NodePtr.null
  | _ :: _ => NodePtr.node L.heap.length

/-- The state after a write of `params` to the node at the address `f`. -/
def with_params (s : OnyxParser) (f : Nat) (params : NodePtr) : OnyxParser :=
  { s with heap := update_node s.heap f (fun n => { n with params := params }) }

/-- The state in which `parse_function_definition` looks for `->`: the cursor is behind the
`)` of the parameter list, the Function node has received `params`. -/
def params_stop (s : OnyxParser) (ds : List DirectiveUse) (ps : List ParamUse) : OnyxParser :=
  with_params (paren_state (param_exit NodePtr.null (params_start s ds) ps)) s.heap.length
    (first_param (params_start s ds) ps)

/-- The state in which `parse_function_definition` parses the body: the FunctionType is
allocated and the Function node at the address `f` points at it. -/
def function_typed (s : OnyxParser) (f : Nat) (param_types : List NodePtr)
    (return_type : NodePtr) : OnyxParser :=
  { s with heap :=
      (update_node (s.heap ++ [function_type_cell param_types return_type]) f
        (fun n => { n with type_node := NodePtr.node s.heap.length })) }

/-- The state after a write of `body` to the node at the address `f`. -/
def with_body (s : OnyxParser) (f : Nat) (body : NodePtr) : OnyxParser :=
  { s with heap := update_node s.heap f (fun n => { n with body := body }) }

/-- The parameter that the loop of `parse_function_params` reads at the loop head `L`, found
by running `parse_type`. -/
def run_param (fuel : Nat) (comma : Bool) (L : OnyxParser) : ParamUse :=
  match parse_type fuel
      (ParamUse.start { comma := comma, name := L.curr + (if comma then 1 else 0),
                        type_node := NodePtr.null, stop := L } L) with
  | Res.ok ty stop =>
    { comma := comma, name := L.curr + (if comma then 1 else 0), type_node := ty, stop := stop }
  | Res.fault _ =>
    { comma := comma, name := L.curr + (if comma then 1 else 0), type_node := NodePtr.null,
      stop := L }

/-- The state in which `proc` of `add_stream` is the current token. -/
def add_proc_state : OnyxParser :=
  { onyx_parser_create add_stream with curr := 3, prev := some 2 }

/-- The two parameters `a: i32` and `, b: i32` of `add_stream`. -/
def add_params : List ParamUse :=
  [run_param 4 false (params_start add_proc_state []),
   run_param 4 true
     ((run_param 4 false (params_start add_proc_state [])).linked
       (params_start add_proc_state []) NodePtr.null)]

/-- The state of `add_stream` in which the return type has been read. -/
def add_return_state : OnyxParser :=
  (parse_return_type 8 (params_stop add_proc_state [] add_params)).final_or (onyx_parser_create [])

/-- The state of `add_stream` in which the body has been parsed. -/
def add_body_state : OnyxParser :=
  (parse_block 8 (function_typed add_return_state 0 (add_params.map (fun p => p.type_node))
    (NodePtr.node 5))).final_or (onyx_parser_create [])

/-! ## Sample streams with comments -/

/-- A comment token. -/
def comment_token (column : Nat) : OnyxToken :=
  { type := Token_Type_Comment, text := "// c".toList, pos := { line := 1, column := column } }

/-- The token stream `# /* */ e /* */ x` followed by end-of-stream: a directive with
comments between and behind its two tokens. -/
def commented_directive_stream : List OnyxToken :=
  [plain_token (ascii '#') 1, comment_token 3, symbol_token 'e' 8, comment_token 10,
   symbol_token 'x' 15, plain_token Token_Type_End_Stream 16]

/-- The token stream of a comment followed by end-of-stream. -/
def leading_comment_stream : List OnyxToken :=
  [comment_token 1, plain_token Token_Type_End_Stream 6]

/-! ## The origin of a node -/

/-- The origin of a node: its kind and its originating token. -/
def AstNode.origin (n : AstNode) : AstKind × Option Nat := (n.kind, n.token)

/-- The run of `m` from a state with at least `b` nodes keeps the origin of every node
below the address `b`; the arena only grows. -/
structure Stamp (b : Nat) {α : Type} (m : P α) : Prop where
  run : ∀ (s : OnyxParser) (r : α) (s' : OnyxParser), b ≤ s.heap.length →
    m s = Res.ok r s' →
    s.heap.length ≤ s'.heap.length ∧
      ∀ i, i < b → (s'.heap[i]?).map AstNode.origin = (s.heap[i]?).map AstNode.origin

/-- The token stream `f :: proc ( ) { if a { } }` followed by end-of-stream. -/
def if_block_stream : List OnyxToken :=
  [symbol_token 'f' 1, plain_token (ascii ':') 3, plain_token (ascii ':') 4,
   plain_token Token_Type_Keyword_Proc 6, plain_token (ascii '(') 11, plain_token (ascii ')') 12,
   plain_token (ascii '{') 14, plain_token Token_Type_Keyword_If 16, symbol_token 'a' 19,
   plain_token (ascii '{') 21, plain_token (ascii '}') 23, plain_token (ascii '}') 25,
   plain_token Token_Type_End_Stream 26]

/-- The token stream `x :: - 1 cast T` followed by end-of-stream. -/
def negate_cast_stream : List OnyxToken :=
  [symbol_token 'x' 1, plain_token (ascii ':') 3, plain_token (ascii ':') 4,
   plain_token (ascii '-') 6, ⟨Token_Type_Literal_Numeric, ['1'], ⟨1, 7⟩⟩,
   plain_token Token_Type_Keyword_Cast 9, symbol_token 'T' 14,
   plain_token Token_Type_End_Stream 15]

/-- The origins of the nodes of the arena after `onyx_parse` has run on a token stream,
the empty list if the run ends with a fault. -/
def parsed_origins (fuel : Nat) (tokens : List OnyxToken) : List (AstKind × Option Nat) :=
  match onyx_parse fuel (onyx_parser_create tokens) with
  | Res.ok _ s => s.heap.map AstNode.origin
  | Res.fault _ => []

/-! ## The static error node and the list links -/

/-- The list links of a node: the fields through which the parser chains statements,
arguments and parameters (`next`) and the heads of these chains (`body`, `arguments`,
`params`). -/
def AstNode.links (n : AstNode) : List NodePtr := [n.next, n.body, n.arguments, n.params]

/-- A pointer that is not the address of the static error node. -/
structure Clean (p : NodePtr) : Prop where
  ne : p ≠ NodePtr.error_node

/-- A list of pointers none of which is the address of the static error node. -/
structure CleanList (l : List NodePtr) : Prop where
  all : ∀ p ∈ l, Clean p

/-- What a test of the kind of the node `n` read through `p` tells about `p`. -/
structure Guard (n : AstNode) (p : NodePtr) : Prop where
  ne : n.kind ≠ Ast_Kind_Error → Clean p

/-- A parser state in which the static error node has its initial contents, no list link
of a node of the arena is the address of the error node, and neither is an element of the
bindings or of the uses. -/
def Sound (s : OnyxParser) : Prop :=
  s.error_node = { kind := Ast_Kind_Error }
  ∧ (∀ (j : Nat) (n : AstNode), s.heap[j]? = some n → NodePtr.error_node ∉ n.links)
  ∧ NodePtr.error_node ∉ s.results.bindings
  ∧ NodePtr.error_node ∉ s.results.uses

/-- Every run of `m` from a sound state ends in a sound state. -/
structure Sealed {α : Type} (m : P α) : Prop where
  run : ∀ (s : OnyxParser) (r : α) (s' : OnyxParser), Sound s → m s = Res.ok r s' → Sound s'

/-- Every result of a run of `m` has the property `Q`. -/
structure Yields {α : Type} (Q : α → Prop) (m : P α) : Prop where
  run : ∀ (s : OnyxParser) (r : α) (s' : OnyxParser), m s = Res.ok r s' → Q r

/-- The token stream `x :: 1 + f ( 1 2 )` followed by end-of-stream: the comma between
the two arguments is missing. -/
def error_operand_stream : List OnyxToken :=
  [symbol_token 'x' 1, plain_token (ascii ':') 3, plain_token (ascii ':') 4,
   ⟨Token_Type_Literal_Numeric, ['1'], ⟨1, 6⟩⟩, plain_token (ascii '+') 8,
   symbol_token 'f' 10, plain_token (ascii '(') 11, ⟨Token_Type_Literal_Numeric, ['1'], ⟨1, 12⟩⟩,
   ⟨Token_Type_Literal_Numeric, ['2'], ⟨1, 14⟩⟩, plain_token (ascii ')') 15,
   plain_token Token_Type_End_Stream 16]

/-- The state at the `{` of the function body in `if_block_stream`, with an empty arena. -/
def if_block_start : OnyxParser :=
  { onyx_parser_create if_block_stream with curr := 6 }

/-- The state after `parse_block` has run from `if_block_start`. -/
def if_block_final : OnyxParser :=
  match parse_block 8 if_block_start with
  | Res.ok _ s => s
  | Res.fault _ => if_block_start

/-- The state after `onyx_parse` has run on `error_operand_stream`. -/
def error_operand_final : OnyxParser :=
  match onyx_parse 20 (onyx_parser_create error_operand_stream) with
  | Res.ok _ s => s
  | Res.fault _ => onyx_parser_create error_operand_stream

end Onyx
namespace Onyx

open TokenType AstKind BinaryOp UnaryOp BasicKind OnyxMessageType

/-- The token stream `{ x } y ; }` followed by end-of-stream: in the block `{ x }` the
statement `x` lacks its `;`. -/
def unterminated_block_stream : List OnyxToken :=
  [plain_token (ascii '{') 1, symbol_token 'x' 3, plain_token (ascii '}') 5,
   symbol_token 'y' 7, plain_token (ascii ';') 8, plain_token (ascii '}') 10,
   plain_token Token_Type_End_Stream 11]

/-- The state at the statement `x` of `unterminated_block_stream`, with an empty arena. -/
def unterminated_block_statement : OnyxParser :=
  { onyx_parser_create unterminated_block_stream with curr := 1, prev := some 0 }

end Onyx
namespace Onyx

open TokenType AstKind BinaryOp UnaryOp BasicKind OnyxMessageType

/-! # Unary operators -/

/-- In the state `s` the pointer `operand` points at the node `f`, and the node at the
arena address `at_node` is a UnaryOp of the operation `op` over `operand` whose
Compile-time flag is that of `f`. -/
def unary_made (s : OnyxParser) (at_node : Nat) (op : UnaryOp) (operand : NodePtr)
    (f : AstNode) : Prop :=
  read_node operand s = Res.ok f s ∧
  (s.heap[at_node]?).map (fun u => (u.kind, u.unary_operation, u.expr, u.flags.comptime))
    = some (Ast_Kind_Unary_Op, op, operand, f.flags.comptime)

/-- The token stream `- 1 ;`. -/
def negate_literal_stream : List OnyxToken :=
  [plain_token (ascii '-') 1, ⟨Token_Type_Literal_Numeric, ['1'], ⟨1, 3⟩⟩,
   plain_token (ascii ';') 4]

/-- The token stream `! x ;`. -/
def not_symbol_stream : List OnyxToken :=
  [plain_token (ascii '!') 1, symbol_token 'x' 3, plain_token (ascii ';') 4]

/-- The state in which the operand `1` of `- 1 ;` has been parsed. -/
def negate_literal_operand : OnyxParser :=
  match parse_factor 2
      { onyx_parser_create negate_literal_stream with prev := some 0, curr := 1 } with
  | Res.ok _ s => s
  | Res.fault _ => onyx_parser_create negate_literal_stream

/-- The state in which the operand `x` of `! x ;` has been parsed. -/
def not_symbol_operand : OnyxParser :=
  match parse_factor 2
      { onyx_parser_create not_symbol_stream with
        heap := [{ kind := Ast_Kind_Unary_Op, unary_operation := Unary_Op_Not, token := some 0 }],
        prev := some 0, curr := 1 } with
  | Res.ok _ s => s
  | Res.fault _ => onyx_parser_create not_symbol_stream

end Onyx
namespace Onyx

open TokenType AstKind BinaryOp UnaryOp BasicKind OnyxMessageType

/-! # The operator stack of `parse_expression` -/

/-- The locals `root`, `bin_op` and `tree_stack` of the operator loop of
`parse_expression` after `bh_arr_push(tree_stack, bin_op)`; the stack has its top
(`bh_arr_last`) at the head. -/
structure PushedOperator where
  root : NodePtr
  bin_op : NodePtr
  tree_stack : List NodePtr
  deriving DecidableEq, Repr

/-- The first part of an iteration of the operator loop of `parse_expression`: from the
operator switch to `bh_arr_push(tree_stack, bin_op)`.  The result is `none` for the
`default` label of the switch. -/
def push_operator (root : NodePtr) (tree_stack : List NodePtr) : P (Option PushedOperator) := do
  let t ← curr_type
  match binary_op_of_token t with
  | none => pure none
  | some bin_op_kind => do
    let bin_op_tok ← curr_ptr
    consume_token
    let bin_op ← make_node Ast_Kind_Binary_Op
    modify_node bin_op (fun n => { n with operation := bin_op_kind })
    modify_node bin_op (fun n => { n with token := bin_op_tok })
    let tree_stack1 ← pop_tree_stack bin_op_kind tree_stack
    let root1 ← (match tree_stack1 with
      | [] => do
        modify_node bin_op (fun n => { n with left := root })
        pure bin_op
      | top :: _ => do
        let tn ← read_node top
        modify_node bin_op (fun n => { n with left := tn.right })
        modify_node top (fun n => { n with right := bin_op })
        pure root)
    pure (some { root := root1, bin_op := bin_op, tree_stack := bin_op :: tree_stack1 })

/-- The second part of an iteration of the operator loop of `parse_expression`: from
`right = parse_factor(parser)` to the end of the loop body. -/
def parse_operand (fuel : Nat) (left bin_op : NodePtr) : P Unit := do
  let right ← parse_factor fuel
  modify_node bin_op (fun n => { n with right := right })
  let l ← read_node left
  if l.flags.comptime then do
    let r ← read_node right
    if r.flags.comptime then
      modify_node bin_op (fun n => { n with flags := { n.flags with comptime := true } })

/-- The precedence of the operation of the arena node behind a pointer. -/
def node_precedence (s : OnyxParser) (p : NodePtr) : Option Int :=
  match p with
  | NodePtr.node j => (s.heap[j]?).map (fun n => get_precedence n.operation)
  | _ => none

/-- The precedences of the entries of a stack, top first; `none` when an entry is not a
node of the arena. -/
def stack_precedences (s : OnyxParser) : List NodePtr → Option (List Int)
  | [] => some []
  | p :: rest =>
    match node_precedence s p, stack_precedences s rest with
    | some x, some xs => some (x :: xs)
    | _, _ => none

/-- The precedences of the stack, top first, after the push of each iteration of the
operator loop that starts with the locals `left`, `root`, `tree_stack` in the state `s`. -/
def stack_trace : Nat → NodePtr → NodePtr → List NodePtr → OnyxParser → List (Option (List Int))
  | 0, _, _, _, _ => []
  | fuel + 1, left, root, tree_stack, s =>
    match push_operator root tree_stack s with
    | Res.ok (some p) s1 =>
      stack_precedences s1 p.tree_stack ::
        (match parse_operand fuel left p.bin_op s1 with
         | Res.ok _ s2 => stack_trace fuel left p.root p.tree_stack s2
         | Res.fault _ => [])
    | _ => []

/-- Precedences of a stack, top first, that decrease from bottom to top: of every two
adjacent entries the lower one has a precedence greater than or equal to that of the one
above it. -/
def decreasing_to_top (ps : List Int) : Prop :=
  List.Chain' (fun above below => above ≤ below) ps

/-- Precedences of a stack, top first, that increase strictly from bottom to top: of every
two adjacent entries the lower one has a precedence less than that of the one above it. -/
def increasing_to_top (ps : List Int) : Prop :=
  List.Chain' (fun above below => below < above) ps

/-- Every node of the arena of `s` is a node of the arena of `s1` with the same operation. -/
@[reducible] def OpKept (s s1 : OnyxParser) : Prop :=
  ∀ (j : Nat) (n : AstNode), s.heap[j]? = some n →
    ∃ n1 : AstNode, s1.heap[j]? = some n1 ∧ n1.operation = n.operation

/-- The state in which the first factor `a` of `a + b * c ;` has been parsed. -/
def a_plus_b_times_c_head : OnyxParser :=
  match parse_factor 4 (onyx_parser_create a_plus_b_times_c) with
  | Res.ok _ s => s
  | Res.fault _ => onyx_parser_create a_plus_b_times_c

end Onyx
namespace Onyx

open TokenType AstKind BinaryOp UnaryOp BasicKind OnyxMessageType

/-! # Sample inputs for the sentinel and for the originating tokens -/

/-- The token stream `x :: f ( 1 2 )` followed by end-of-stream: the comma between the two
arguments is missing, and the call is the whole bound expression. -/
def error_binding_stream : List OnyxToken :=
  [symbol_token 'x' 1, plain_token (ascii ':') 3, plain_token (ascii ':') 4,
   symbol_token 'f' 6, plain_token (ascii '(') 7, ⟨Token_Type_Literal_Numeric, ['1'], ⟨1, 8⟩⟩,
   ⟨Token_Type_Literal_Numeric, ['2'], ⟨1, 10⟩⟩, plain_token (ascii ')') 11,
   plain_token Token_Type_End_Stream 12]

/-- The token stream `f :: proc ( ) { while a { } }` followed by end-of-stream. -/
def while_block_stream : List OnyxToken :=
  [symbol_token 'f' 1, plain_token (ascii ':') 3, plain_token (ascii ':') 4,
   plain_token Token_Type_Keyword_Proc 6, plain_token (ascii '(') 11, plain_token (ascii ')') 12,
   plain_token (ascii '{') 14, plain_token Token_Type_Keyword_While 16, symbol_token 'a' 22,
   plain_token (ascii '{') 24, plain_token (ascii '}') 26, plain_token (ascii '}') 28,
   plain_token Token_Type_End_Stream 29]

/-- The token stream `x :: ! 1` followed by end-of-stream. -/
def not_literal_stream : List OnyxToken :=
  [symbol_token 'x' 1, plain_token (ascii ':') 3, plain_token (ascii ':') 4,
   plain_token (ascii '!') 6, ⟨Token_Type_Literal_Numeric, ['1'], ⟨1, 7⟩⟩,
   plain_token Token_Type_End_Stream 8]

end Onyx
/-! # The debug value walker: a shallow embedding of `debug_runtime_values.c`

The walker reads a debug type table, the register file and the linear memory of the
virtual machine, keeps a cursor (a base and an iteration) and appends renderings to an
output buffer.  The headers `ovm_debug.h` and `vm.h` are not part of the sources at hand;
the records below have the fields that `debug_runtime_values.c` reads and writes.

* `u32` fields are natural numbers; sums and increments are reduced modulo `2 ^ 32`;
* a register value (`ovm_value_t`, a union) is the natural number of its 64 bits, its
  narrower members are the low bits;
* the linear memory is a list of bytes, read in little-endian order;
* a read outside the type table, a member array, the register file or the memory is a
  fault, as is running out of fuel. -/

namespace Onyx

/-- Modelled from the spec: the tag of a debug type descriptor (`debug_type_kind_*`);
`other` stands for a tag outside the six variants, which the `default` branches of the
renderers anticipate. -/
inductive debug_type_kind_t where
  | debug_type_kind_primitive
  | debug_type_kind_modifier
  | debug_type_kind_structure
  | debug_type_kind_array
  | debug_type_kind_alias
  | debug_type_kind_function
  | other (tag : Nat)
  deriving DecidableEq, Repr

/-- Modelled from the spec: the kind of a primitive type (`debug_type_primitive_kind_*`);
`other` stands for a value that only the `default` branch matches. -/
inductive debug_type_primitive_kind_t where
  | debug_type_primitive_kind_void
  | debug_type_primitive_kind_signed_integer
  | debug_type_primitive_kind_unsigned_integer
  | debug_type_primitive_kind_float
  | debug_type_primitive_kind_boolean
  | other (tag : Nat)
  deriving DecidableEq, Repr

/-- Modelled from the spec: the kind of a modifier type; the code only distinguishes
`debug_type_modifier_kind_pointer` from the rest. -/
inductive debug_type_modifier_kind_t where
  | debug_type_modifier_kind_pointer
  | other (tag : Nat)
  deriving DecidableEq, Repr

/-- Modelled from the spec: the location kind of a symbol (`debug_sym_loc_*`). -/
inductive debug_sym_loc_kind_t where
  | debug_sym_loc_register
  | debug_sym_loc_stack
  | debug_sym_loc_global
  | debug_sym_loc_unknown
  deriving DecidableEq, Repr

open debug_type_kind_t debug_type_primitive_kind_t debug_type_modifier_kind_t
  debug_sym_loc_kind_t

/-- Modelled from the spec: a member of a structure type (`debug_type_structure_member_t`),
with the fields `name`, `offset` and `type` that the walker reads. -/
structure debug_type_structure_member_t where
  name : List Char
  offset : Nat
  type : Nat
  deriving DecidableEq, Repr

/-- Modelled from the spec: a debug type descriptor (`debug_type_info_t`).  The C struct
has one union member per kind; here every field the walker reads is a field of its own:
`primitive.primitive_kind`, `modifier.modifier_kind`, `modifier.modified_type`,
`structure.member_count`, `structure.members`, `array.type`, `array.count`,
`alias.aliased_type`. -/
structure debug_type_info_t where
  id : Nat := 0
  kind : debug_type_kind_t
  size : Nat := 0
  primitive_kind : debug_type_primitive_kind_t := debug_type_primitive_kind_void
  modifier_kind : debug_type_modifier_kind_t := debug_type_modifier_kind_t.other 0
  modified_type : Nat := 0
  member_count : Nat := 0
  members : List debug_type_structure_member_t := []
  array_type : Nat := 0
  array_count : Nat := 0
  aliased_type : Nat := 0
  deriving DecidableEq, Repr

/-- Modelled from the spec: a stack frame of the virtual machine (`ovm_stack_frame_t`),
with the one field that `lookup_register_in_frame` reads. -/
structure ovm_stack_frame_t where
  value_number_base : Nat
  deriving DecidableEq, Repr

/-- Modelled from the spec: the state of the virtual machine (`ovm_state_t`) as far as
`lookup_register_in_frame` reads it; a numbered value is the natural number of its 64 bits. -/
structure ovm_state_t where
  stack_frames : List ovm_stack_frame_t := []
  numbered_values : List Nat := []
  value_number_offset : Nat := 0
  deriving DecidableEq, Repr

/-- Modelled from the spec: the builder (`debug_runtime_value_builder_t`).  `info_types` is
`builder->info->types`, `ovm_frame` is the index of `builder->ovm_frame` in the array of
stack frames, `stack_ptr_idx` is `builder->func_info.stack_ptr_idx`, `memory` is
`builder->state->ovm_engine->memory`, `output` is the contents of the buffer
`builder->output`; the other fields are the cursor. -/
structure debug_runtime_value_builder_t where
  info_types : List debug_type_info_t := []
  ovm_state : ovm_state_t := {}
  ovm_frame : Nat := 0
  stack_ptr_idx : Nat := 0
  memory : List Nat := []
  output : List Char := []
  base_loc_kind : debug_sym_loc_kind_t := debug_sym_loc_unknown
  base_loc : Nat := 0
  base_type : Nat := 0
  max_index : Nat := 0
  it_index : Nat := 0
  it_name : List Char := []
  it_loc : Nat := 0
  it_type : Nat := 0
  it_loc_kind : debug_sym_loc_kind_t := debug_sym_loc_unknown
  it_has_children : Bool := false
  deriving DecidableEq, Repr

/-- What ends a run of the walker abnormally: a read outside an array, the end of
`get_subvalues_for_type` reached without a `return`, or no fuel left. -/
inductive WalkerFault where
  | out_of_bounds
  | no_return
  | out_of_fuel
  deriving DecidableEq, Repr

/-- The outcome of a walker function. -/
inductive DbgRes (α : Type) where
  | ok (a : α)
  | fault (f : WalkerFault)
  deriving DecidableEq, Repr

/-- Sequencing of walker functions: a fault ends the run. -/
def DbgRes.bind {α β : Type} (m : DbgRes α) (f : α → DbgRes β) : DbgRes β :=
  match m with
  | DbgRes.ok a => f a
  | DbgRes.fault e => DbgRes.fault e

instance : Monad DbgRes where
  pure := DbgRes.ok
  bind := DbgRes.bind

/-- The C library's conversion `%f` of `snprintf`, for a `float` and for a `double` given
by their bits.  The library is not part of the sources; the renderers take it as a
parameter. -/
structure Libc where
  format_f32 : Nat → List Char
  format_f64 : Nat → List Char

/-! ## Output -/

/-- The macro `WRITE(str)`: `bh_buffer_write_string(&builder->output, str)`. -/
def WRITE (builder : debug_runtime_value_builder_t) (str : List Char) :
    DbgRes debug_runtime_value_builder_t :=
  DbgRes.ok { builder with output := builder.output ++ str }

/-- The macro `WRITE_FORMAT(format, ...)`, given the text that the format produces:
`snprintf` writes at most 4095 characters and a NUL into the static `write_buf` and
returns the full length `len`; `bh_buffer_append` then copies `len` bytes from
`write_buf`, which is a read outside the buffer when `len` exceeds 4096. -/
def WRITE_FORMAT (builder : debug_runtime_value_builder_t) (text : List Char) :
    DbgRes debug_runtime_value_builder_t :=
  if text.length < 4096 then DbgRes.ok { builder with output := builder.output ++ text }
  else if text.length = 4096 then
    DbgRes.ok { builder with output := builder.output ++ (text.take 4095 ++ [Char.ofNat 0]) }
  else DbgRes.fault WalkerFault.out_of_bounds

/-- The conversions `%hhd`, `%hd`, `%d`, `%ld`: the decimal text of the low `bits` bits
read as a two's-complement number. -/
def format_signed (bits : Nat) (raw : Nat) : List Char :=
  if raw % 2 ^ bits < 2 ^ (bits - 1) then Nat.toDigits 10 (raw % 2 ^ bits)
  else '-' :: Nat.toDigits 10 (2 ^ bits - raw % 2 ^ bits)

/-- The conversions `%hhu`, `%hu`, `%u`, `%lu`: the decimal text of the low `bits` bits. -/
def format_unsigned (bits : Nat) (raw : Nat) : List Char :=
  Nat.toDigits 10 (raw % 2 ^ bits)

/-- The conversions `%x`, `%lx`: the hexadecimal text of the low `bits` bits. -/
def format_hex (bits : Nat) (raw : Nat) : List Char :=
  Nat.toDigits 16 (raw % 2 ^ bits)

/-! ## Registers and memory -/

/-- The function `lookup_register_in_frame`; it always returns `true`, the result here is
the value written to `*out`. -/
def lookup_register_in_frame (state : ovm_state_t) (frame : Nat) (reg : Nat) : DbgRes Nat :=
  let val_num_base : DbgRes Nat :=
    if frame + 1 = state.stack_frames.length then DbgRes.ok state.value_number_offset
    else
      match state.stack_frames[frame + 1]? with
      | some next_frame => DbgRes.ok next_frame.value_number_base
      | none => DbgRes.fault WalkerFault.out_of_bounds
  match val_num_base with
  | DbgRes.ok base =>
    match state.numbered_values[(base + reg) % 2 ^ 32]? with
    | some value => DbgRes.ok value
    | none => DbgRes.fault WalkerFault.out_of_bounds
  | DbgRes.fault e => DbgRes.fault e

/-- The function `lookup_stack_pointer`: the member `u32` of the stack pointer register. -/
def lookup_stack_pointer (builder : debug_runtime_value_builder_t) : DbgRes Nat := do
  let stack_ptr ← lookup_register_in_frame builder.ovm_state builder.ovm_frame builder.stack_ptr_idx
  pure (stack_ptr % 2 ^ 32)

/-- The `n` bytes of the memory from the address `addr` on, as a little-endian number:
the reads `*(u8 *) base`, `*(u16 *) base`, `*(u32 *) base`, `*(u64 *) base`. -/
def read_memory (memory : List Nat) (addr : Nat) : Nat → DbgRes Nat
  | 0 => DbgRes.ok 0
  | n + 1 =>
    match memory[addr]? with
    | some byte =>
      match read_memory memory (addr + 1) n with
      | DbgRes.ok rest => DbgRes.ok (byte % 256 + 256 * rest)
      | DbgRes.fault e => DbgRes.fault e
    | none => DbgRes.fault WalkerFault.out_of_bounds

/-- The bound `(i32) count` of a `fori` loop that starts at 0: a count of `2 ^ 31` or more
is negative as an `i32`, and the loop body does not run. -/
def loop_bound (count : Nat) : Nat :=
  if count % 2 ^ 32 < 2 ^ 31 then count % 2 ^ 32 else 0

end Onyx
namespace Onyx

open debug_type_kind_t debug_type_primitive_kind_t debug_type_modifier_kind_t
  debug_sym_loc_kind_t

/-! ## Rendering -/

mutual

/-- The function `append_value_from_memory_with_type`; `base` is the address in the
linear memory that the pointer `base` of the C function points at. -/
def append_value_from_memory_with_type (libc : Libc) :
    Nat → debug_runtime_value_builder_t → Nat → Nat → DbgRes debug_runtime_value_builder_t
  | 0, _, _, _ => DbgRes.fault WalkerFault.out_of_fuel
  | fuel + 1, builder, base, type_id =>
    match builder.info_types[type_id]? with
    | none => DbgRes.fault WalkerFault.out_of_bounds
    | some type =>
      match type.kind with
      | debug_type_kind_primitive =>
        match type.primitive_kind with
        | debug_type_primitive_kind_void => WRITE builder "void".toList
        | debug_type_primitive_kind_signed_integer =>
          if type.size = 1 then do
            let v ← read_memory builder.memory base 1
            WRITE_FORMAT builder (format_signed 8 v)
          else if type.size = 2 then do
            let v ← read_memory builder.memory base 2
            WRITE_FORMAT builder (format_signed 16 v)
          else if type.size = 4 then do
            let v ← read_memory builder.memory base 4
            WRITE_FORMAT builder (format_signed 32 v)
          else if type.size = 8 then do
            let v ← read_memory builder.memory base 8
            WRITE_FORMAT builder (format_signed 64 v)
          else WRITE builder "(err)".toList
        | debug_type_primitive_kind_unsigned_integer =>
          if type.size = 1 then do
            let v ← read_memory builder.memory base 1
            WRITE_FORMAT builder (format_unsigned 8 v)
          else if type.size = 2 then do
            let v ← read_memory builder.memory base 2
            WRITE_FORMAT builder (format_unsigned 16 v)
          else if type.size = 4 then do
            let v ← read_memory builder.memory base 4
            WRITE_FORMAT builder (format_unsigned 32 v)
          else if type.size = 8 then do
            let v ← read_memory builder.memory base 8
            WRITE_FORMAT builder (format_unsigned 64 v)
          else WRITE builder "(err)".toList
        | debug_type_primitive_kind_float =>
          if type.size = 4 then do
            let v ← read_memory builder.memory base 4
            WRITE_FORMAT builder (libc.format_f32 v)
          else if type.size = 8 then do
            let v ← read_memory builder.memory base 8
            WRITE_FORMAT builder (libc.format_f64 v)
          else WRITE builder "(err)".toList
        | debug_type_primitive_kind_boolean => do
          let v ← read_memory builder.memory base 1
          if v ≠ 0 then WRITE builder "true".toList else WRITE builder "false".toList
        | debug_type_primitive_kind_t.other _ => WRITE builder "(err)".toList
      | debug_type_kind_modifier =>
        match type.modifier_kind with
        | debug_type_modifier_kind_pointer =>
          if type.size = 4 then do
            let v ← read_memory builder.memory base 4
            WRITE_FORMAT builder ("0x".toList ++ format_hex 32 v)
          else if type.size = 8 then do
            let v ← read_memory builder.memory base 8
            WRITE_FORMAT builder ("0x".toList ++ format_hex 64 v)
          else WRITE builder "(err)".toList
        | debug_type_modifier_kind_t.other _ =>
          append_value_from_memory_with_type libc fuel builder base type.modified_type
      | debug_type_kind_alias =>
        append_value_from_memory_with_type libc fuel builder base type.aliased_type
      | debug_type_kind_function => do
        let v ← read_memory builder.memory base 4
        WRITE_FORMAT builder ("func[".toList ++ format_signed 32 v ++ "]".toList)
      | debug_type_kind_structure => do
        let b1 ← WRITE builder "\x7b ".toList
        let b2 ← append_members_from_memory libc fuel b1 base type 0
        WRITE b2 " \x7d".toList
      | debug_type_kind_array => do
        let b1 ← WRITE builder "[".toList
        match b1.info_types[type.array_type]? with
        | none => DbgRes.fault WalkerFault.out_of_bounds
        | some elem_type => do
          let b2 ← append_elements_from_memory libc fuel b1 base type elem_type 0
          WRITE b2 "]".toList
      | debug_type_kind_t.other _ => WRITE builder "(unknown)".toList

/-- The loop `fori (i, 0, (i32) type->structure.member_count)` of the structure case of
`append_value_from_memory_with_type`, from the index `i` on. -/
def append_members_from_memory (libc : Libc) :
    Nat → debug_runtime_value_builder_t → Nat → debug_type_info_t → Nat →
      DbgRes debug_runtime_value_builder_t
  | 0, _, _, _, _ => DbgRes.fault WalkerFault.out_of_fuel
  | fuel + 1, builder, base, type, i =>
    if i < loop_bound type.member_count then do
      let b1 ← (if i ≠ 0 then WRITE builder ", ".toList else DbgRes.ok builder)
      match type.members[i]? with
      | none => DbgRes.fault WalkerFault.out_of_bounds
      | some mem => do
        let b2 ← WRITE_FORMAT b1 (mem.name ++ "=".toList)
        let b3 ← append_value_from_memory_with_type libc fuel b2 (base + mem.offset) mem.type
        append_members_from_memory libc fuel b3 base type (i + 1)
    else DbgRes.ok builder

/-- The loop `fori (i, 0, (i32) type->array.count)` of the array case of
`append_value_from_memory_with_type`, from the index `i` on. -/
def append_elements_from_memory (libc : Libc) :
    Nat → debug_runtime_value_builder_t → Nat → debug_type_info_t → debug_type_info_t → Nat →
      DbgRes debug_runtime_value_builder_t
  | 0, _, _, _, _, _ => DbgRes.fault WalkerFault.out_of_fuel
  | fuel + 1, builder, base, type, elem_type, i =>
    if i < loop_bound type.array_count then do
      let b1 ← (if i ≠ 0 then WRITE builder ", ".toList else DbgRes.ok builder)
      let b2 ← append_value_from_memory_with_type libc fuel b1 (base + i * elem_type.size)
        elem_type.id
      append_elements_from_memory libc fuel b2 base type elem_type (i + 1)
    else DbgRes.ok builder

end

/-- The function `append_ovm_value_with_type`; `value` is the register value. -/
def append_ovm_value_with_type (libc : Libc) :
    Nat → debug_runtime_value_builder_t → Nat → Nat → DbgRes debug_runtime_value_builder_t
  | 0, _, _, _ => DbgRes.fault WalkerFault.out_of_fuel
  | fuel + 1, builder, value, type_id =>
    match builder.info_types[type_id]? with
    | none => DbgRes.fault WalkerFault.out_of_bounds
    | some type =>
      match type.kind with
      | debug_type_kind_primitive =>
        match type.primitive_kind with
        | debug_type_primitive_kind_void => WRITE builder "void".toList
        | debug_type_primitive_kind_signed_integer =>
          if type.size = 1 then WRITE_FORMAT builder (format_signed 8 value)
          else if type.size = 2 then WRITE_FORMAT builder (format_signed 16 value)
          else if type.size = 4 then WRITE_FORMAT builder (format_signed 32 value)
          else if type.size = 8 then WRITE_FORMAT builder (format_signed 64 value)
          else WRITE builder "(err)".toList
        | debug_type_primitive_kind_unsigned_integer =>
          if type.size = 1 then WRITE_FORMAT builder (format_unsigned 8 value)
          else if type.size = 2 then WRITE_FORMAT builder (format_unsigned 16 value)
          else if type.size = 4 then WRITE_FORMAT builder (format_unsigned 32 value)
          else if type.size = 8 then WRITE_FORMAT builder (format_unsigned 64 value)
          else WRITE builder "(err)".toList
        | debug_type_primitive_kind_float =>
          if type.size = 4 then WRITE_FORMAT builder (libc.format_f32 (value % 2 ^ 32))
          else if type.size = 8 then WRITE_FORMAT builder (libc.format_f64 (value % 2 ^ 64))
          else WRITE builder "(err)".toList
        | debug_type_primitive_kind_boolean =>
          if value % 2 ^ 64 ≠ 0 then WRITE builder "true".toList
          else WRITE builder "false".toList
        | debug_type_primitive_kind_t.other _ => WRITE builder "(err)".toList
      | debug_type_kind_modifier =>
        match type.modifier_kind with
        | debug_type_modifier_kind_pointer =>
          if type.size = 4 then WRITE_FORMAT builder ("0x".toList ++ format_hex 32 value)
          else if type.size = 8 then WRITE_FORMAT builder ("0x".toList ++ format_hex 64 value)
          else WRITE builder "(err)".toList
        | debug_type_modifier_kind_t.other _ =>
          append_ovm_value_with_type libc fuel builder value type.modified_type
      | debug_type_kind_alias =>
        append_ovm_value_with_type libc fuel builder value type.aliased_type
      | debug_type_kind_function =>
        WRITE_FORMAT builder ("func[".toList ++ format_signed 32 value ++ "]".toList)
      | debug_type_kind_array =>
        append_value_from_memory_with_type libc fuel builder (value % 2 ^ 32) type_id
      | debug_type_kind_structure =>
        match type.members[0]? with
        | none => DbgRes.fault WalkerFault.out_of_bounds
        | some mem => append_ovm_value_with_type libc fuel builder value mem.type
      | debug_type_kind_t.other _ => WRITE builder "(unknown)".toList

/-- The function `append_value_from_stack`.  `lookup_stack_pointer` never returns
`false`, so the branch that writes `(no stack ptr)` is not reached. -/
def append_value_from_stack (libc : Libc) (fuel : Nat) (builder : debug_runtime_value_builder_t)
    (offset : Nat) (type_id : Nat) : DbgRes debug_runtime_value_builder_t := do
  let stack_ptr ← lookup_stack_pointer builder
  append_value_from_memory_with_type libc fuel builder ((stack_ptr + offset) % 2 ^ 32) type_id

/-- The loop `fori (i, 0, (i32) type->structure.member_count)` of
`append_value_from_register`, from the index `i` on. -/
def append_members_from_registers (libc : Libc) :
    Nat → debug_runtime_value_builder_t → Nat → debug_type_info_t → Nat →
      DbgRes debug_runtime_value_builder_t
  | 0, _, _, _, _ => DbgRes.fault WalkerFault.out_of_fuel
  | fuel + 1, builder, reg, type, i =>
    if i < loop_bound type.member_count then do
      let b1 ← (if i ≠ 0 then WRITE builder ", ".toList else DbgRes.ok builder)
      match type.members[i]? with
      | none => DbgRes.fault WalkerFault.out_of_bounds
      | some mem => do
        let b2 ← WRITE_FORMAT b1 (mem.name ++ "=".toList)
        let value ← lookup_register_in_frame b2.ovm_state b2.ovm_frame ((reg + i) % 2 ^ 32)
        let b3 ← append_ovm_value_with_type libc fuel b2 value mem.type
        append_members_from_registers libc fuel b3 reg type (i + 1)
    else DbgRes.ok builder

/-- The function `append_value_from_register`. -/
def append_value_from_register (libc : Libc) (fuel : Nat)
    (builder : debug_runtime_value_builder_t) (reg : Nat) (type_id : Nat) :
    DbgRes debug_runtime_value_builder_t :=
  match builder.info_types[type_id]? with
  | none => DbgRes.fault WalkerFault.out_of_bounds
  | some type =>
    if type.kind = debug_type_kind_structure then do
      let b1 ← WRITE builder "\x7b ".toList
      let b2 ← append_members_from_registers libc fuel b1 reg type 0
      WRITE b2 " \x7d".toList
    else do
      let value ← lookup_register_in_frame builder.ovm_state builder.ovm_frame reg
      append_ovm_value_with_type libc fuel builder value type_id

/-! ## The cursor -/

/-- The function `get_subvalues_for_type`.  The `switch` has no `default`: for a kind
outside the six variants the end of the function is reached without a `return`. -/
def get_subvalues_for_type : Nat → debug_runtime_value_builder_t → Nat → DbgRes Nat
  | 0, _, _ => DbgRes.fault WalkerFault.out_of_fuel
  | fuel + 1, builder, type =>
    match builder.info_types[type]? with
    | none => DbgRes.fault WalkerFault.out_of_bounds
    | some t =>
      match t.kind with
      | debug_type_kind_primitive => DbgRes.ok 0
      | debug_type_kind_function => DbgRes.ok 0
      | debug_type_kind_modifier =>
        if t.modifier_kind = debug_type_modifier_kind_pointer then DbgRes.ok 1 else DbgRes.ok 0
      | debug_type_kind_alias => get_subvalues_for_type fuel builder t.aliased_type
      | debug_type_kind_structure => DbgRes.ok t.member_count
      | debug_type_kind_array => DbgRes.ok 0
      | debug_type_kind_t.other _ => DbgRes.fault WalkerFault.no_return

/-- The function `debug_runtime_value_build_set_location`. -/
def debug_runtime_value_build_set_location (fuel : Nat) (builder : debug_runtime_value_builder_t)
    (loc_kind : debug_sym_loc_kind_t) (loc : Nat) (type : Nat) (name : List Char) :
    DbgRes debug_runtime_value_builder_t := do
  let b1 := { builder with base_loc_kind := loc_kind, base_loc := loc, base_type := type }
  let max_index ← get_subvalues_for_type fuel b1 type
  pure { b1 with max_index := max_index, it_index := 0, it_name := name, it_loc := loc,
                 it_type := type, it_loc_kind := loc_kind,
                 it_has_children := decide (max_index > 0) }

/-- The label `bad_case` of `debug_runtime_value_build_descend`. -/
def descend_bad_case (builder : debug_runtime_value_builder_t) : debug_runtime_value_builder_t :=
  { builder with base_loc_kind := debug_sym_loc_unknown }

/-- The function `debug_runtime_value_build_descend`.  `lookup_register_in_frame` and
`lookup_stack_pointer` never return `false`, so their `goto bad_case` is not reached. -/
def debug_runtime_value_build_descend (fuel : Nat) (builder : debug_runtime_value_builder_t)
    (index : Nat) : DbgRes debug_runtime_value_builder_t :=
  let b0 := { builder with it_index := 0 }
  match b0.info_types[b0.base_type]? with
  | none => DbgRes.fault WalkerFault.out_of_bounds
  | some type =>
    if type.kind = debug_type_kind_modifier ∧ type.modifier_kind = debug_type_modifier_kind_pointer
    then
      if index > 0 then pure (descend_bad_case b0)
      else
        do
        let b1 := { b0 with base_type := type.modified_type }
        let max_index ← get_subvalues_for_type fuel b1 b1.base_type
        let b2 := { b1 with max_index := max_index, it_index := 0 }
        if b2.base_loc_kind = debug_sym_loc_register then do
          let value ← lookup_register_in_frame b2.ovm_state b2.ovm_frame b2.base_loc
          pure { b2 with base_loc_kind := debug_sym_loc_global, base_loc := value % 2 ^ 32 }
        else if b2.base_loc_kind = debug_sym_loc_stack then do
          let stack_ptr ← lookup_stack_pointer b2
          let ptr ← read_memory b2.memory ((stack_ptr + b2.base_loc) % 2 ^ 32) 4
          pure { b2 with base_loc := ptr, base_loc_kind := debug_sym_loc_global }
        else if b2.base_loc_kind = debug_sym_loc_global then do
          let ptr ← read_memory b2.memory b2.base_loc 4
          pure { b2 with base_loc := ptr }
        else pure b2
    else if type.kind = debug_type_kind_structure then
      if index ≥ type.member_count then pure (descend_bad_case b0)
      else
        match type.members[index]? with
        | none => DbgRes.fault WalkerFault.out_of_bounds
        | some mem => do
          let b1 := { b0 with base_type := mem.type }
          let max_index ← get_subvalues_for_type fuel b1 b1.base_type
          let b2 := { b1 with max_index := max_index, it_name := mem.name }
          if b2.base_loc_kind = debug_sym_loc_register then
            pure { b2 with base_loc := (b2.base_loc + index) % 2 ^ 32 }
          else if b2.base_loc_kind = debug_sym_loc_stack
              ∨ b2.base_loc_kind = debug_sym_loc_global then
            pure { b2 with base_loc := (b2.base_loc + mem.offset) % 2 ^ 32 }
          else pure b2
    else pure (descend_bad_case b0)

/-- The two static buffers of `debug_runtime_value_build_step`, 2048 bytes each:
`snprintf(tmp_buffer, 2048, "*%s", name)` keeps at most 2047 characters, and `strncpy`
copies them to `name_buffer`. -/
def pointer_child_name (name : List Char) : List Char :=
  ('*' :: name).take 2047

/-- The three `if` statements at the end of the structure case of
`debug_runtime_value_build_step`.  They test `base_loc_kind`, which none of them writes,
against three different constants, so at most one of them runs. -/
def step_member_location (builder : debug_runtime_value_builder_t)
    (mem : debug_type_structure_member_t) : debug_runtime_value_builder_t :=
  match builder.base_loc_kind with
  | debug_sym_loc_register =>
    { builder with it_loc_kind := debug_sym_loc_register,
                   it_loc := (builder.base_loc + builder.it_index) % 2 ^ 32 }
  | debug_sym_loc_stack =>
    { builder with it_loc_kind := debug_sym_loc_stack,
                   it_loc := (builder.base_loc + mem.offset) % 2 ^ 32 }
  | debug_sym_loc_global =>
    { builder with it_loc_kind := debug_sym_loc_global,
                   it_loc := (builder.base_loc + mem.offset) % 2 ^ 32 }
  | debug_sym_loc_unknown => builder

/-- The function `debug_runtime_value_build_step`; the result is the returned `bool` and
the builder. -/
def debug_runtime_value_build_step (fuel : Nat) (builder : debug_runtime_value_builder_t) :
    DbgRes (Bool × debug_runtime_value_builder_t) :=
  if builder.it_index ≥ builder.max_index then pure (false, builder)
  else
    match builder.info_types[builder.base_type]? with
    | none => DbgRes.fault WalkerFault.out_of_bounds
    | some type => do
      let b1 ← (if type.kind = debug_type_kind_modifier
            ∧ type.modifier_kind = debug_type_modifier_kind_pointer then do
          let b := { builder with it_loc_kind := builder.base_loc_kind, it_loc := builder.base_loc,
                                  it_name := pointer_child_name builder.it_name,
                                  it_type := type.modified_type }
          let n ← get_subvalues_for_type fuel b b.it_type
          pure { b with it_has_children := decide (n > 0) }
        else pure builder)
      let b2 ← (if type.kind = debug_type_kind_structure then
          match type.members[b1.it_index]? with
          | none => DbgRes.fault WalkerFault.out_of_bounds
          | some mem => do
            let b := { b1 with it_name := mem.name }
            let n ← get_subvalues_for_type fuel b mem.type
            let b := { b with it_has_children := decide (n > 0), it_type := mem.type }
            pure (step_member_location b mem)
        else pure b1)
      pure (true, { b2 with it_index := (b2.it_index + 1) % 2 ^ 32 })

/-- The function `debug_runtime_value_build_string`. -/
def debug_runtime_value_build_string (libc : Libc) (fuel : Nat)
    (builder : debug_runtime_value_builder_t) : DbgRes debug_runtime_value_builder_t :=
  if builder.it_loc_kind = debug_sym_loc_register then
    append_value_from_register libc fuel builder builder.it_loc builder.it_type
  else if builder.it_loc_kind = debug_sym_loc_stack then
    append_value_from_stack libc fuel builder builder.it_loc builder.it_type
  else if builder.it_loc_kind = debug_sym_loc_global then
    append_value_from_memory_with_type libc fuel builder builder.it_loc builder.it_type
  else WRITE builder "(location unknown)".toList

/-- The function `debug_runtime_value_build_clear`. -/
def debug_runtime_value_build_clear (builder : debug_runtime_value_builder_t) :
    debug_runtime_value_builder_t :=
  { builder with output := [] }

end Onyx
namespace Onyx

open debug_type_kind_t debug_type_primitive_kind_t debug_type_modifier_kind_t
  debug_sym_loc_kind_t

/-! ## Runs of the cursor and well-formed type tables -/

/-- Whether a walker function returned. -/
def DbgRes.isOk {α : Type} : DbgRes α → Bool
  | DbgRes.ok _ => true
  | DbgRes.fault _ => false

/-- A type table the cursor can walk: member counts are `u32` values, a structure has
at least `member_count` members, and the subvalue count of every member type and of every
modified type is defined (the type is in the table, a chain of aliases ends within `fuel`
links, at one of the six kinds). -/
def table_ok (fuel : Nat) (builder : debug_runtime_value_builder_t) : Bool :=
  builder.info_types.all (fun ty =>
    decide (ty.member_count < 2 ^ 32)
    && (!(decide (ty.kind = debug_type_kind_structure))
        || (decide (ty.member_count ≤ ty.members.length)
            && ty.members.all (fun mem => (get_subvalues_for_type fuel builder mem.type).isOk)))
    && (!(decide (ty.kind = debug_type_kind_modifier))
        || (get_subvalues_for_type fuel builder ty.modified_type).isOk))

/-- The walker states that calls of `set_location`, `descend` and `step` lead to. -/
inductive Reachable : debug_runtime_value_builder_t → Prop
  | set_location (fuel : Nat) (builder : debug_runtime_value_builder_t)
      (loc_kind : debug_sym_loc_kind_t) (loc type : Nat) (name : List Char)
      (b : debug_runtime_value_builder_t) :
      debug_runtime_value_build_set_location fuel builder loc_kind loc type name = DbgRes.ok b →
      Reachable b
  | descend (fuel : Nat) (builder : debug_runtime_value_builder_t) (index : Nat)
      (b : debug_runtime_value_builder_t) :
      Reachable builder →
      debug_runtime_value_build_descend fuel builder index = DbgRes.ok b →
      Reachable b
  | step (fuel : Nat) (builder : debug_runtime_value_builder_t) (r : Bool)
      (b : debug_runtime_value_builder_t) :
      Reachable builder →
      debug_runtime_value_build_step fuel builder = DbgRes.ok (r, b) →
      Reachable b

/-- The results of `count` calls of `step()` in a row, and the builder after them. -/
def step_times (fuel : Nat) :
    Nat → debug_runtime_value_builder_t → DbgRes (List Bool × debug_runtime_value_builder_t)
  | 0, builder => DbgRes.ok ([], builder)
  | count + 1, builder =>
    match debug_runtime_value_build_step fuel builder with
    | DbgRes.fault e => DbgRes.fault e
    | DbgRes.ok (r, b1) =>
      match step_times fuel count b1 with
      | DbgRes.fault e => DbgRes.fault e
      | DbgRes.ok (rs, b2) => DbgRes.ok (r :: rs, b2)

/-- The builder `b1` has the type table, the machine state, the output and the base of
`b0`; only the iteration may differ. -/
def same_base (b0 b1 : debug_runtime_value_builder_t) : Prop :=
  b1.info_types = b0.info_types ∧ b1.ovm_state = b0.ovm_state ∧ b1.ovm_frame = b0.ovm_frame
  ∧ b1.stack_ptr_idx = b0.stack_ptr_idx ∧ b1.memory = b0.memory ∧ b1.output = b0.output
  ∧ b1.base_loc_kind = b0.base_loc_kind ∧ b1.base_loc = b0.base_loc
  ∧ b1.base_type = b0.base_type ∧ b1.max_index = b0.max_index

/-- The builder `b1` has the type table and the machine state of `b0`. -/
def same_machine (b0 b1 : debug_runtime_value_builder_t) : Prop :=
  b1.info_types = b0.info_types ∧ b1.ovm_state = b0.ovm_state ∧ b1.ovm_frame = b0.ovm_frame
  ∧ b1.stack_ptr_idx = b0.stack_ptr_idx ∧ b1.memory = b0.memory

/-- Two outcomes of a renderer, on `b0` and on `b1`, agree: both appended the same text
and changed nothing else, or both ended with the same fault. -/
def same_render (b0 b1 : debug_runtime_value_builder_t) :
    DbgRes debug_runtime_value_builder_t → DbgRes debug_runtime_value_builder_t → Prop
  | DbgRes.ok c0, DbgRes.ok c1 =>
    ∃ text, c0 = { b0 with output := b0.output ++ text }
      ∧ c1 = { b1 with output := b1.output ++ text }
  | DbgRes.fault e0, DbgRes.fault e1 => e0 = e1
  | _, _ => False

/-- The cursor part of a builder after `set_location(loc_kind, loc, type, name)` when the
subvalue count of `type` is `max_index`. -/
def located (builder : debug_runtime_value_builder_t) (loc_kind : debug_sym_loc_kind_t)
    (loc type : Nat) (name : List Char) (max_index : Nat) : debug_runtime_value_builder_t :=
  { builder with base_loc_kind := loc_kind, base_loc := loc, base_type := type,
                 max_index := max_index, it_index := 0, it_name := name, it_loc := loc,
                 it_type := type, it_loc_kind := loc_kind,
                 it_has_children := decide (max_index > 0) }

/-! ## A sample debug session -/

/-- A type table: `T0` is `u32`, `T1` is `^u32`, `T2` is a structure of two `u32` members
`x` and `y`, `T3` is an alias of `T2`, `T4` is a pointer to `T2`. -/
def sample_types : List debug_type_info_t :=
  [ { id := 0, kind := debug_type_kind_primitive, size := 4,
      primitive_kind := debug_type_primitive_kind_unsigned_integer },
    { id := 1, kind := debug_type_kind_modifier, size := 4,
      modifier_kind := debug_type_modifier_kind_pointer, modified_type := 0 },
    { id := 2, kind := debug_type_kind_structure, size := 8, member_count := 2,
      members := [ { name := "x".toList, offset := 0, type := 0 },
                   { name := "y".toList, offset := 4, type := 0 } ] },
    { id := 3, kind := debug_type_kind_alias, size := 8, aliased_type := 2 },
    { id := 4, kind := debug_type_kind_modifier, size := 4,
      modifier_kind := debug_type_modifier_kind_pointer, modified_type := 2 } ]

/-- A builder over `sample_types`: one stack frame with the registers 0 to 5, register 0
is the stack pointer (8), register 3 holds 16, and 32 bytes of memory. -/
def sample_builder : debug_runtime_value_builder_t :=
  { info_types := sample_types,
    ovm_state := { stack_frames := [ { value_number_base := 0 } ],
                   numbered_values := [8, 1, 2, 16, 4, 5],
                   value_number_offset := 0 },
    ovm_frame := 0,
    stack_ptr_idx := 0,
    memory := [0, 1, 2, 3, 4, 5, 6, 7, 12, 0, 0, 0, 77, 0, 0, 0,
               20, 0, 0, 0, 42, 0, 0, 0, 7, 0, 0, 0, 9, 0, 0, 0] }

/-- A name of 2047 characters. -/
def long_name : List Char := List.replicate 2047 'a'

/-- The C library conversion `%f` left out: the sample values are integers. -/
def sample_libc : Libc := { format_f32 := fun _ => [], format_f64 := fun _ => [] }

/-! ## The texts that the claims on rendering speak of -/

/-- Every result of `m1` is a result of `m2`: used for a renderer and the same renderer
with more fuel. -/
structure fuel_mono {α : Type} (m1 m2 : DbgRes α) : Prop where
  run : ∀ a, m1 = DbgRes.ok a → m2 = DbgRes.ok a

/-- The integer that the low `bits` bits of `raw` stand for in two's complement. -/
def twos_complement (bits raw : Nat) : Int :=
  if raw % 2 ^ bits < 2 ^ (bits - 1) then ((raw % 2 ^ bits : Nat) : Int)
  else ((raw % 2 ^ bits : Nat) : Int) - ((2 ^ bits : Nat) : Int)

/-- The decimal representation of an integer: the digits, after a minus sign for a
negative number. -/
def decimal : Int → List Char
  | Int.ofNat m => Nat.toDigits 10 m
  | Int.negSucc m => '-' :: Nat.toDigits 10 (m + 1)

/-- The text of an integer of `size` bytes in the words of the specification: the decimal
representation of the low `size` bytes, read as a two's-complement number for a signed
type and as a natural number for an unsigned one. -/
def integer_text (signed : Bool) (size raw : Nat) : List Char :=
  if signed then decimal (twos_complement (8 * size) raw)
  else decimal (((raw % 2 ^ (8 * size) : Nat) : Int))

/-- The sizes for which the integer renderers have a conversion. -/
def integer_size (size : Nat) : Bool :=
  decide (size = 1) || decide (size = 2) || decide (size = 4) || decide (size = 8)

/-- The text that `append_value_from_memory_with_type` appends for the type `type` at the
address `base`, `none` if the run ends with a fault. -/
def memory_text (libc : Libc) (fuel : Nat) (builder : debug_runtime_value_builder_t)
    (base type : Nat) : Option (List Char) :=
  match append_value_from_memory_with_type libc fuel { builder with output := [] } base type with
  | DbgRes.ok c => some c.output
  | DbgRes.fault _ => none

/-- The rendering of a structure in the words of the specification: the items `name=text`
in order, separated by a comma and a blank, between a brace with a blank and a blank with
a brace. -/
def structure_text (items : List (List Char × List Char)) : List Char :=
  "\x7b ".toList
    ++ List.intercalate ", ".toList (items.map (fun it => it.1 ++ "=".toList ++ it.2))
    ++ " \x7d".toList

/-- The rendering of an array in the words of the specification: the items in order,
separated by a comma and a blank, between brackets. -/
def array_text (items : List (List Char)) : List Char :=
  "[".toList ++ List.intercalate ", ".toList items ++ "]".toList

/-! ## A second sample session: the scenarios of the specification -/

/-- A type table: `u32`, a function type, `u8`, the array of three `u8`, the structure
`T0` of two `u32` members `a` and `b`, and an alias of `T0`. -/
def render_types : List debug_type_info_t :=
  [ { id := 0, kind := debug_type_kind_primitive, size := 4,
      primitive_kind := debug_type_primitive_kind_unsigned_integer },
    { id := 1, kind := debug_type_kind_function, size := 4 },
    { id := 2, kind := debug_type_kind_primitive, size := 1,
      primitive_kind := debug_type_primitive_kind_unsigned_integer },
    { id := 3, kind := debug_type_kind_array, size := 3, array_type := 2, array_count := 3 },
    { id := 4, kind := debug_type_kind_structure, size := 8, member_count := 2,
      members := [ { name := "a".toList, offset := 0, type := 0 },
                   { name := "b".toList, offset := 4, type := 0 } ] },
    { id := 5, kind := debug_type_kind_alias, size := 8, aliased_type := 4 } ]

/-- The linear memory of the scenarios: the bytes 1 0 0 0 2 0 0 0 at the address 1040, the
bytes 0x41 0x42 0x43 at the address 2048, four bytes 0xff behind them, zero elsewhere. -/
def render_memory : List Nat :=
  List.replicate 1040 0 ++ [1, 0, 0, 0, 2, 0, 0, 0] ++ List.replicate 1000 0
    ++ [65, 66, 67, 255, 255, 255, 255]

/-- A builder over `render_types`: one stack frame, the register 0 holds 2048, the
register 1 is the stack pointer with the value 1024, the register 2 holds `2 ^ 32 - 1`, the
registers 3 and 4 hold 1 and 2. -/
def render_builder : debug_runtime_value_builder_t :=
  { info_types := render_types,
    ovm_state := { stack_frames := [ { value_number_base := 0 } ],
                   numbered_values := [2048, 1024, 4294967295, 1, 2],
                   value_number_offset := 0 },
    ovm_frame := 0,
    stack_ptr_idx := 1,
    memory := render_memory }

end Onyx
namespace Onyx

open debug_type_kind_t debug_type_primitive_kind_t debug_type_modifier_kind_t
  debug_sym_loc_kind_t

/-! ## A third sample session: a pointer to a structure, a boolean -/

/-- The type table `render_types` with two more types: type 6 is a pointer to the
structure `T0` (type 4), type 7 is the boolean. -/
def pointer_types : List debug_type_info_t :=
  render_types ++
    [ { id := 6, kind := debug_type_kind_modifier, size := 4,
        modifier_kind := debug_type_modifier_kind_pointer, modified_type := 4 },
      { id := 7, kind := debug_type_kind_primitive, size := 1,
        primitive_kind := debug_type_primitive_kind_boolean } ]

/-- A builder over `pointer_types` with the memory of `render_builder`: the register 1 is
the stack pointer with the value 1024, the register 3 holds the address 1040 of the
structure, the register 4 holds 7, the register 5 holds 256. -/
def pointer_builder : debug_runtime_value_builder_t :=
  { info_types := pointer_types,
    ovm_state := { stack_frames := [ { value_number_base := 0 } ],
                   numbered_values := [2048, 1024, 4294967295, 1040, 7, 256],
                   value_number_offset := 0 },
    ovm_frame := 0,
    stack_ptr_idx := 1,
    memory := render_memory }

/-- The eight bytes of the little-endian encoding of a 64-bit value. -/
def le_bytes (v : Nat) : List Nat :=
  (List.range 8).map (fun i => v / 256 ^ i % 256)

/-- The builder `pointer_builder` with the memory replaced by the given bytes. -/
def with_memory (bytes : List Nat) : debug_runtime_value_builder_t :=
  { pointer_builder with memory := bytes }

/-- The output of a run of `set_location`, `step()` and `build_string()`, `none` when one
of them ends with a fault. -/
def step_then_string (libc : Libc) (fuel : Nat) (builder : debug_runtime_value_builder_t)
    (loc_kind : debug_sym_loc_kind_t) (loc type : Nat) (name : List Char) :
    Option (Bool × List Char) :=
  match debug_runtime_value_build_set_location fuel builder loc_kind loc type name with
  | DbgRes.ok b0 =>
    match debug_runtime_value_build_step fuel b0 with
    | DbgRes.ok (r, b1) =>
      match debug_runtime_value_build_string libc fuel b1 with
      | DbgRes.ok b2 => some (r, b2.output)
      | DbgRes.fault _ => none
    | DbgRes.fault _ => none
  | DbgRes.fault _ => none

end Onyx
namespace Onyx

open debug_type_kind_t debug_type_primitive_kind_t debug_type_modifier_kind_t
  debug_sym_loc_kind_t

/-! ## A fourth sample session: the bounds of the renderers -/

/-- A name of 4095 characters. -/
def buffer_name : List Char := List.replicate 4095 'a'

/-- A type table: `u32`, a structure of one `u32` member whose name has 4095 characters,
`u8`, and an array of `2 ^ 31` elements of type `u8`. -/
def bound_types : List debug_type_info_t :=
  [ { id := 0, kind := debug_type_kind_primitive, size := 4,
      primitive_kind := debug_type_primitive_kind_unsigned_integer },
    { id := 1, kind := debug_type_kind_structure, size := 4, member_count := 1,
      members := [ { name := buffer_name, offset := 0, type := 0 } ] },
    { id := 2, kind := debug_type_kind_primitive, size := 1,
      primitive_kind := debug_type_primitive_kind_unsigned_integer },
    { id := 3, kind := debug_type_kind_array, size := 2147483648, array_type := 2,
      array_count := 2147483648 } ]

/-- The builder `render_builder` over `bound_types`. -/
def bound_builder : debug_runtime_value_builder_t :=
  { render_builder with info_types := bound_types }

end Onyx

/-! # Verification -/

namespace Onyx

open TokenType AstKind BinaryOp UnaryOp BasicKind OnyxMessageType

/-! ## Running the monad -/

@[simp] theorem bind_run {α β : Type} (m : P α) (f : α → P β) (s : OnyxParser) :
    (m >>= f) s = (match m s with
      | Res.ok a s1 => f a s1
      | Res.fault e => Res.fault e) := rfl

@[simp] theorem pure_run {α : Type} (a : α) (s : OnyxParser) : (pure a : P α) s = Res.ok a s := rfl

@[simp] theorem raise_run {α : Type} (f : Fault) (s : OnyxParser) : (raise f : P α) s = Res.fault f := rfl

theorem ite_run {α : Type} (c : Prop) [Decidable c] (m1 m2 : P α) (s : OnyxParser) :
    (if c then m1 else m2) s = if c then m1 s else m2 s := by
  split_ifs <;> rfl

theorem bind_ok {α β : Type} {m : P α} {f : α → P β} {s : OnyxParser} {r : β} {s' : OnyxParser} :
    (m >>= f) s = Res.ok r s' ↔ ∃ a s1, m s = Res.ok a s1 ∧ f a s1 = Res.ok r s' := by
  rw [bind_run]
  cases hm : m s with
  | ok a s1 =>
    constructor
    · intro h
      exact ⟨a, s1, rfl, h⟩
    · rintro ⟨a', s1', heq, h⟩
      injection heq with h1 h2
      subst h1 h2
      exact h
  | fault e =>
    constructor
    · intro h
      exact Res.noConfusion h
    · rintro ⟨a', s1', heq, _⟩
      exact Res.noConfusion heq

/-! ## Token view -/

theorem consume_token_run (s : OnyxParser) (c : Nat)
    (h : skip_comments (s.tokens.drop (s.curr + 1)) (s.curr + 1) = some c) :
    consume_token s = Res.ok () { s with prev := some (s.curr : Int), curr := c } := by
  simp only [consume_token, h]

theorem skip_comments_next (tokens : List OnyxToken) (i : Nat) (t : OnyxToken)
    (h : tokens[i]? = some t) (hc : t.type ≠ Token_Type_Comment) :
    skip_comments (tokens.drop i) i = some i := by
  have hlt : i < tokens.length := by
    by_contra hn
    rw [List.getElem?_eq_none (by omega)] at h
    exact Option.noConfusion h
  rw [List.drop_eq_getElem_cons hlt]
  have := List.getElem?_eq_getElem hlt
  rw [this] at h
  injection h with h
  rw [h]
  simp [skip_comments, hc]

theorem consume_token_next (s : OnyxParser) (t : OnyxToken)
    (h : s.tokens[s.curr + 1]? = some t) (hc : t.type ≠ Token_Type_Comment) :
    consume_token s = Res.ok () { s with prev := some (s.curr : Int), curr := s.curr + 1 } :=
  consume_token_run s _ (skip_comments_next _ _ t h hc)

theorem curr_type_run (s : OnyxParser) (t : OnyxToken) (h : s.tokens[s.curr]? = some t) :
    curr_type s = Res.ok t.type s := by
  simp [curr_type, h]

theorem curr_type_ok {s s' : OnyxParser} {ty : TokenType} (h : curr_type s = Res.ok ty s') :
    s' = s ∧ ∃ t, s.tokens[s.curr]? = some t ∧ t.type = ty := by
  unfold curr_type at h
  cases ht : s.tokens[s.curr]? with
  | none => simp [ht] at h
  | some t =>
    simp only [ht, Res.ok.injEq] at h
    exact ⟨h.2.symm, t, rfl, h.1⟩

theorem expect_token_run (s : OnyxParser) (t : OnyxToken) (ty : TokenType) (c : Nat)
    (h : s.tokens[s.curr]? = some t) (hty : t.type = ty)
    (h1 : skip_comments (s.tokens.drop (s.curr + 1)) (s.curr + 1) = some c) :
    expect_token ty s = Res.ok (some s.curr) { s with prev := some (s.curr : Int), curr := c } := by
  simp [expect_token, curr_ptr, consume_token_run s c h1, read_token, h, hty]

theorem expect_token_next (s : OnyxParser) (t t1 : OnyxToken) (ty : TokenType)
    (h : s.tokens[s.curr]? = some t) (hty : t.type = ty)
    (h1 : s.tokens[s.curr + 1]? = some t1) (hc : t1.type ≠ Token_Type_Comment) :
    expect_token ty s = Res.ok (some s.curr) { s with prev := some (s.curr : Int), curr := s.curr + 1 } :=
  expect_token_run s t ty _ h hty (skip_comments_next _ _ t1 h1 hc)

/-! ## Arena -/

theorem make_node_run (k : AstKind) (s : OnyxParser) :
    make_node k s = Res.ok (NodePtr.node s.heap.length) { s with heap := s.heap ++ [{ kind := k }] } := rfl

/-! ## Numeric literals -/

theorem strtoll_range (text : List Char) :
    -(2 : Int) ^ 63 ≤ strtoll text ∧ strtoll text ≤ 2 ^ 63 - 1 := by
  unfold strtoll
  split
  · norm_num
  · split_ifs <;> constructor <;> omega

/-- Away from the least value `bh_abs` is the absolute value. -/
theorem bh_abs_defined (v : Int) (hmin : v ≠ -(2 : Int) ^ 63) : bh_abs v = some |v| := by
  unfold bh_abs
  by_cases h : v < 0
  · simp only [h, hmin, if_true, if_false, abs_of_neg h]
  · simp only [h, if_false, abs_of_nonneg (not_lt.1 h)]

/-- At the least value `bh_abs` is undefined. -/
theorem bh_abs_undefined : bh_abs (-(2 : Int) ^ 63) = none := by
  decide

theorem to_u64_abs_lt (v : Int) (hlo : -(2 : Int) ^ 63 ≤ v) (hhi : v ≤ 2 ^ 63 - 1) :
    to_u64 |v| < 2 ^ 32 ↔ |v| < 2 ^ 32 := by
  have h0 := abs_nonneg v
  have h1 : |v| ≤ 2 ^ 63 := abs_le.2 ⟨by omega, by omega⟩
  unfold to_u64
  generalize |v| = a at *
  omega

/-- The integer branch of `parse_numeric_literal`, as one step on the state, for a value
other than `-2^63`. -/
theorem parse_numeric_literal_int_run (s : OnyxParser) (t : OnyxToken) (c : Nat)
    (h : s.tokens[s.curr]? = some t) (hty : t.type = Token_Type_Literal_Numeric)
    (hdot : charset_contains t.text '.' = false)
    (hmin : strtoll t.text ≠ -(2 : Int) ^ 63)
    (h1 : skip_comments (s.tokens.drop (s.curr + 1)) (s.curr + 1) = some c) :
    parse_numeric_literal s = Res.ok (NodePtr.node s.heap.length)
      { s with
        prev := some (s.curr : Int), curr := c,
        heap := s.heap ++ [{ kind := Ast_Kind_Literal, token := some s.curr,
                             flags := { comptime := true },
                             value := NumLitValue.l (strtoll t.text),
                             type_node := if |strtoll t.text| < 2 ^ 32 then NodePtr.basic Basic_Kind_I32
                                          else NodePtr.basic Basic_Kind_I64 }] } := by
  have hr := strtoll_range t.text
  have hu := to_u64_abs_lt (strtoll t.text) hr.1 hr.2
  have habs := bh_abs_defined (strtoll t.text) hmin
  have h1' : skip_comments (({ s with heap := s.heap ++ [{ kind := Ast_Kind_Literal }] } : OnyxParser).tokens.drop
      (({ s with heap := s.heap ++ [{ kind := Ast_Kind_Literal }] } : OnyxParser).curr + 1))
      (({ s with heap := s.heap ++ [{ kind := Ast_Kind_Literal }] } : OnyxParser).curr + 1) = some c := h1
  have h' : ({ s with heap := s.heap ++ [{ kind := Ast_Kind_Literal }] } : OnyxParser).tokens[
      ({ s with heap := s.heap ++ [{ kind := Ast_Kind_Literal }] } : OnyxParser).curr]? = some t := h
  have hpow : (2 : Nat) ^ 32 = 4294967296 := by norm_num
  have hpowi : (2 : Int) ^ 32 = 4294967296 := by norm_num
  rw [hpow] at hu
  rw [hpowi] at hu ⊢
  simp only [parse_numeric_literal, bind_run, make_node_run, expect_token_run _ t _ c h' hty h1']
  by_cases hlt : |strtoll t.text| < 4294967296
  · have := hu.2 hlt
    simp [modify_node, token_toggle_end, read_token, h, hdot, List.set_append, hlt, this, ite_run,
      habs]
  · have : ¬ to_u64 |strtoll t.text| < 4294967296 := fun hh => hlt (hu.1 hh)
    simp [modify_node, token_toggle_end, read_token, h, hdot, List.set_append, hlt, this, ite_run,
      habs]

/-- The integer branch of `parse_numeric_literal`, as one step on the state, for the value
`-2^63`: the node is marked, and no type is written. -/
theorem parse_numeric_literal_min_run (s : OnyxParser) (t : OnyxToken) (c : Nat)
    (h : s.tokens[s.curr]? = some t) (hty : t.type = Token_Type_Literal_Numeric)
    (hdot : charset_contains t.text '.' = false)
    (hmin : strtoll t.text = -(2 : Int) ^ 63)
    (h1 : skip_comments (s.tokens.drop (s.curr + 1)) (s.curr + 1) = some c) :
    parse_numeric_literal s = Res.ok (NodePtr.node s.heap.length)
      { s with
        prev := some (s.curr : Int), curr := c,
        heap := s.heap ++ [{ kind := Ast_Kind_Literal, token := some s.curr,
                             flags := { comptime := true },
                             value := NumLitValue.l (strtoll t.text),
                             type_undefined := true }] } := by
  have habs : bh_abs (strtoll t.text) = none := by rw [hmin]; exact bh_abs_undefined
  have h1' : skip_comments (({ s with heap := s.heap ++ [{ kind := Ast_Kind_Literal }] } : OnyxParser).tokens.drop
      (({ s with heap := s.heap ++ [{ kind := Ast_Kind_Literal }] } : OnyxParser).curr + 1))
      (({ s with heap := s.heap ++ [{ kind := Ast_Kind_Literal }] } : OnyxParser).curr + 1) = some c := h1
  have h' : ({ s with heap := s.heap ++ [{ kind := Ast_Kind_Literal }] } : OnyxParser).tokens[
      ({ s with heap := s.heap ++ [{ kind := Ast_Kind_Literal }] } : OnyxParser).curr]? = some t := h
  simp only [parse_numeric_literal, bind_run, make_node_run, expect_token_run _ t _ c h' hty h1']
  simp [modify_node, token_toggle_end, read_token, h, hdot, List.set_append, ite_run, habs]

/-! ## Claims on numeric literals -/

/-- The rule of C4 away from the least value: for every integer literal text (no `.` in
it) whose auto-base signed 64-bit value `v` is not `-2^63`, `parse_numeric_literal` returns
a fresh Literal node with stored value `v`, with the i32 basic type if `|v| < 2^32` and the
i64 basic type otherwise, and with the Compile-time flag set. -/
theorem numeric_literal_integer_type (s : OnyxParser) (tok : OnyxToken) (c : Nat) (v : Int)
    (hcur : s.tokens[s.curr]? = some tok) (hty : tok.type = Token_Type_Literal_Numeric)
    (hdot : charset_contains tok.text '.' = false) (hv : strtoll tok.text = v)
    (hmin : v ≠ -(2 : Int) ^ 63)
    (hnext : skip_comments (s.tokens.drop (s.curr + 1)) (s.curr + 1) = some c) :
    ∃ s' lit, parse_numeric_literal s = Res.ok (NodePtr.node s.heap.length) s' ∧
      s'.heap = s.heap ++ [lit] ∧ s'.curr = c ∧ s'.msgs = s.msgs ∧
      lit.kind = Ast_Kind_Literal ∧ lit.token = some s.curr ∧
      lit.value = NumLitValue.l v ∧
      lit.type_node = (if |v| < 2 ^ 32 then NodePtr.basic Basic_Kind_I32
                       else NodePtr.basic Basic_Kind_I64) ∧
      lit.flags.comptime = true ∧ lit.type_undefined = false := by
  subst hv
  exact ⟨_, _, parse_numeric_literal_int_run s tok c hcur hty hdot hmin hnext,
    rfl, rfl, rfl, rfl, rfl, rfl, rfl, rfl, rfl⟩

/-- An instance of the rule: the literal `4294967296` (2^32) followed by `;`. -/
theorem numeric_literal_integer_type_witness :
    ∃ s' lit, parse_numeric_literal
        (onyx_parser_create [⟨Token_Type_Literal_Numeric, String.toList "4294967296", ⟨1, 1⟩⟩,
                             ⟨ascii ';', [], ⟨1, 11⟩⟩]) = Res.ok (NodePtr.node 0) s' ∧
      s'.heap = [] ++ [lit] ∧ s'.curr = 1 ∧ s'.msgs = [] ∧
      lit.kind = Ast_Kind_Literal ∧ lit.token = some 0 ∧
      lit.value = NumLitValue.l 4294967296 ∧
      lit.type_node = (if |(4294967296 : Int)| < 2 ^ 32 then NodePtr.basic Basic_Kind_I32
                       else NodePtr.basic Basic_Kind_I64) ∧
      lit.flags.comptime = true ∧ lit.type_undefined = false :=
  numeric_literal_integer_type
    (onyx_parser_create [⟨Token_Type_Literal_Numeric, String.toList "4294967296", ⟨1, 1⟩⟩,
                         ⟨ascii ';', [], ⟨1, 11⟩⟩])
    ⟨Token_Type_Literal_Numeric, String.toList "4294967296", ⟨1, 1⟩⟩ 1 4294967296
    (by decide) (by decide) (by decide) (by decide!) (by decide) (by decide)

/-- Counterexample to C5 as stated: on the literal `0xFFFFFFFF` the node built by
`parse_numeric_literal` holds 4294967295 and carries the i32 basic type, not i64. -/
theorem literal_ffffffff_not_i64 :
    ¬ ∃ s' lit, parse_numeric_literal (onyx_parser_create literal_ffffffff_stream)
          = Res.ok (NodePtr.node 0) s' ∧ s'.heap = [lit] ∧
        lit.type_node = NodePtr.basic Basic_Kind_I64 := by
  have hrun := parse_numeric_literal_int_run (onyx_parser_create literal_ffffffff_stream)
    ⟨Token_Type_Literal_Numeric, String.toList "0xFFFFFFFF", ⟨1, 1⟩⟩ 1
    (by decide) (by decide) (by decide) (by decide!) (by decide)
  rintro ⟨s', lit, hs, hheap, hty⟩
  rw [hrun] at hs
  injection hs with _ hs
  subst hs
  simp only [onyx_parser_create, List.nil_append, List.cons.injEq, and_true] at hheap
  subst hheap
  exact absurd hty (by decide!)

/-- C5 (amended): every numeric literal token with the text `0xFFFFFFFF` (value
4294967295, below 2^32) is given the type i32 by `parse_numeric_literal`. -/
theorem literal_ffffffff_is_i32 (s : OnyxParser) (tok : OnyxToken) (c : Nat)
    (hcur : s.tokens[s.curr]? = some tok) (hty : tok.type = Token_Type_Literal_Numeric)
    (htext : tok.text = String.toList "0xFFFFFFFF")
    (hnext : skip_comments (s.tokens.drop (s.curr + 1)) (s.curr + 1) = some c) :
    ∃ s' lit, parse_numeric_literal s = Res.ok (NodePtr.node s.heap.length) s' ∧
      s'.heap = s.heap ++ [lit] ∧ lit.value = NumLitValue.l 4294967295 ∧
      lit.type_node = NodePtr.basic Basic_Kind_I32 := by
  have hv : strtoll tok.text = 4294967295 := by rw [htext]; decide!
  have hdot : charset_contains tok.text '.' = false := by rw [htext]; decide
  have hmin : strtoll tok.text ≠ -(2 : Int) ^ 63 := by rw [hv]; norm_num
  refine ⟨_, _, parse_numeric_literal_int_run s tok c hcur hty hdot hmin hnext, rfl, ?_, ?_⟩
  · simp [hv]
  · simp [hv]

/-- Witness of C5 (amended): the stream `0xFFFFFFFF ;`. -/
theorem literal_ffffffff_is_i32_witness :
    ∃ s' lit, parse_numeric_literal (onyx_parser_create literal_ffffffff_stream)
        = Res.ok (NodePtr.node 0) s' ∧
      s'.heap = [] ++ [lit] ∧ lit.value = NumLitValue.l 4294967295 ∧
      lit.type_node = NodePtr.basic Basic_Kind_I32 :=
  literal_ffffffff_is_i32 (onyx_parser_create literal_ffffffff_stream)
    ⟨Token_Type_Literal_Numeric, String.toList "0xFFFFFFFF", ⟨1, 1⟩⟩ 1
    (by decide) (by decide) (by decide) (by decide)

end Onyx

namespace Onyx

open TokenType AstKind BinaryOp UnaryOp BasicKind OnyxMessageType

/-! ## Claims settled by running the parser on an input -/

/-- C3 at the failing input `1 + x * 2`: `parse_expression` returns the `+` node
(arena index 1); the `*` node (index 3) has the operands `x` (index 2, flag
clear) and `2` (index 4, flag set) and nevertheless carries the Compile-time
flag, because the flag test reads `left`, the first factor `1` of the whole
expression, in place of the left operand of the new node. -/
theorem comptime_flag_set_with_runtime_operand :
    (parse_expression 10 (onyx_parser_create one_plus_x_times_two)).value = some (NodePtr.node 1) ∧
    ((parse_expression 10 (onyx_parser_create one_plus_x_times_two)).final.map
        (fun s => s.heap.map operator_view)) =
      some [(Ast_Kind_Literal, Binary_Op_Add, NodePtr.null, NodePtr.null, true),
            (Ast_Kind_Binary_Op, Binary_Op_Add, NodePtr.node 0, NodePtr.node 3, false),
            (Ast_Kind_Symbol, Binary_Op_Add, NodePtr.null, NodePtr.null, false),
            (Ast_Kind_Binary_Op, Binary_Op_Multiply, NodePtr.node 2, NodePtr.node 4, true),
            (Ast_Kind_Literal, Binary_Op_Add, NodePtr.null, NodePtr.null, true)] := by
  decide!

/-- The converse failure of C3, at `x + 1 * 2`: both operands of the `*` node
(index 3) are literals with the Compile-time flag, and the `*` node does not carry it. -/
theorem comptime_flag_clear_with_comptime_operands :
    (parse_expression 10 (onyx_parser_create x_plus_one_times_two)).value = some (NodePtr.node 1) ∧
    ((parse_expression 10 (onyx_parser_create x_plus_one_times_two)).final.map
        (fun s => s.heap.map operator_view)) =
      some [(Ast_Kind_Symbol, Binary_Op_Add, NodePtr.null, NodePtr.null, false),
            (Ast_Kind_Binary_Op, Binary_Op_Add, NodePtr.node 0, NodePtr.node 3, false),
            (Ast_Kind_Literal, Binary_Op_Add, NodePtr.null, NodePtr.null, true),
            (Ast_Kind_Binary_Op, Binary_Op_Multiply, NodePtr.node 2, NodePtr.node 4, false),
            (Ast_Kind_Literal, Binary_Op_Add, NodePtr.null, NodePtr.null, true)] := by
  decide!

/-- C6 at the failing input `x <end-of-stream>`: with any fuel, `onyx_parse`
ends in an out-of-bounds read.  `parse_top_level_statement` consumes the symbol,
and the `expect_token` that follows advances the cursor past the end-of-stream
token and reads the type of the token behind it. -/
theorem onyx_parse_reads_past_end (n : Nat) :
    onyx_parse (n + 1) (onyx_parser_create symbol_then_end) = Res.fault Fault.out_of_bounds := by
  rfl

/-- C6 on an unclosed block, `f :: proc ( ) {` then end-of-stream: the statement
loop of `parse_block` does not stop at end-of-stream, and the semicolon recovery
of `parse_statement` consumes it; the run ends in an out-of-bounds read. -/
theorem onyx_parse_unclosed_block_reads_past_end :
    onyx_parse 20 (onyx_parser_create unclosed_block) = Res.fault Fault.out_of_bounds := by
  decide!

end Onyx
namespace Onyx

open TokenType AstKind BinaryOp UnaryOp BasicKind OnyxMessageType

/-- `parse_numeric_literal`, as one step on the state. -/
theorem parse_numeric_literal_run (s : OnyxParser) (t : OnyxToken) (c : Nat)
    (h : s.tokens[s.curr]? = some t) (hty : t.type = Token_Type_Literal_Numeric)
    (h1 : skip_comments (s.tokens.drop (s.curr + 1)) (s.curr + 1) = some c) :
    parse_numeric_literal s = Res.ok (NodePtr.node s.heap.length)
      { s with prev := some (s.curr : Int), curr := c,
               heap := s.heap ++ [numeric_literal_node t s.curr] } := by
  have h1' : skip_comments (({ s with heap := s.heap ++ [{ kind := Ast_Kind_Literal }] } : OnyxParser).tokens.drop
      (({ s with heap := s.heap ++ [{ kind := Ast_Kind_Literal }] } : OnyxParser).curr + 1))
      (({ s with heap := s.heap ++ [{ kind := Ast_Kind_Literal }] } : OnyxParser).curr + 1) = some c := h1
  have h' : ({ s with heap := s.heap ++ [{ kind := Ast_Kind_Literal }] } : OnyxParser).tokens[
      ({ s with heap := s.heap ++ [{ kind := Ast_Kind_Literal }] } : OnyxParser).curr]? = some t := h
  simp only [parse_numeric_literal, bind_run, make_node_run, expect_token_run _ t _ c h' hty h1']
  clear h1' h'
  unfold numeric_literal_node
  by_cases hdot : charset_contains t.text '.' = true
  · by_cases hf : t.text.getLast? = some 'f'
    · simp [modify_node, token_toggle_end, read_token, h, hdot, hf, List.set_append, ite_run]
    · simp [modify_node, token_toggle_end, read_token, h, hdot, hf, List.set_append, ite_run]
  · have hpow : (2 : Nat) ^ 32 = 4294967296 := by norm_num
    rw [hpow]
    cases habs : bh_abs (strtoll t.text) with
    | none =>
      simp [modify_node, token_toggle_end, read_token, h, hdot, List.set_append, ite_run, habs]
    | some a =>
      by_cases hlt : to_u64 a < 4294967296
      · simp [modify_node, token_toggle_end, read_token, h, hdot, hlt, List.set_append, ite_run,
          habs]
      · simp [modify_node, token_toggle_end, read_token, h, hdot, hlt, List.set_append, ite_run,
          habs]

theorem parse_factor_casts_skip (fuel : Nat) (retval : NodePtr) (s : OnyxParser) (t : OnyxToken)
    (h : s.tokens[s.curr]? = some t) (hty : t.type ≠ Token_Type_Keyword_Cast) :
    parse_factor_casts (fuel + 1) retval s = Res.ok retval s := by
  simp [parse_factor_casts, curr_type_run s t h, hty, ite_run]

/-- `parse_factor` on a single-token factor: one node is allocated and one token consumed. -/
theorem parse_factor_leaf (fuel : Nat) (s : OnyxParser) (t t1 : OnyxToken)
    (h : s.tokens[s.curr]? = some t) (hleaf : is_leaf_factor t.type = true)
    (h1 : s.tokens[s.curr + 1]? = some t1)
    (hc : t1.type ≠ Token_Type_Comment) (hcast : t1.type ≠ Token_Type_Keyword_Cast)
    (hparen : t1.type ≠ ascii '(') :
    parse_factor (fuel + 2) s = Res.ok (NodePtr.node s.heap.length)
      { s with prev := some (s.curr : Int), curr := s.curr + 1,
               heap := s.heap ++ [leaf_factor_node t s.curr] } := by
  have hskip := skip_comments_next s.tokens (s.curr + 1) t1 h1 hc
  rw [parse_factor]
  simp only [bind_run, curr_type_run s t h]
  unfold is_leaf_factor at hleaf
  simp only [Bool.or_eq_true, decide_eq_true_eq] at hleaf
  unfold leaf_factor_node
  rcases hleaf with ((hty | hty) | hty) | hty
  · -- symbol
    simp only [hty, ite_run]
    simp [expect_token_run s t _ _ h hty hskip, make_node_run, modify_node, List.set_append,
      curr_type, h1, hparen, parse_factor_casts, hcast, ite_run]
  · -- numeric literal
    simp only [hty, ite_run]
    simp [parse_numeric_literal_run s t _ h hty hskip, parse_factor_casts, curr_type, h1, hcast, ite_run]
  · simp only [hty, ite_run]
    simp [expect_token, curr_ptr, consume_token, hskip, read_token, h, hty, make_node_run,
      modify_node, List.set_append, curr_type, h1, parse_factor_casts, hcast, ite_run]
  · simp only [hty, ite_run]
    simp [expect_token, curr_ptr, consume_token, hskip, read_token, h, hty, make_node_run,
      modify_node, List.set_append, curr_type, h1, parse_factor_casts, hcast, ite_run]

end Onyx
namespace Onyx

open TokenType AstKind BinaryOp UnaryOp BasicKind OnyxMessageType

/-! ## Trees and frames -/

theorem fold_frames_pop (op : BinaryOp) (fs : List Frame) (r : ExprTree) :
    fold_frames (pop_frames op fs r).1 (pop_frames op fs r).2 = fold_frames fs r := by
  induction fs generalizing r with
  | nil => rfl
  | cons f fs ih =>
    unfold pop_frames
    split_ifs with h
    · rw [ih]; rfl
    · rfl

theorem inorder_fold_frames (fs : List Frame) (r : ExprTree) :
    (fold_frames fs r).inorder = frames_inorder fs ++ r.inorder := by
  induction fs generalizing r with
  | nil => rfl
  | cons f fs ih =>
    simp [fold_frames, ih, frames_inorder, ExprTree.inorder]

theorem token_mem_inorder (t : ExprTree) : t.token ∈ t.inorder := by
  cases t <;> simp [ExprTree.token, ExprTree.inorder]

theorem tree_in_heap_congr (H H' : List AstNode) (h0 tb : Nat) (t : ExprTree)
    (hagree : ∀ i ∈ t.inorder, H'[node_addr h0 tb i]? = H[node_addr h0 tb i]?)
    (h : tree_in_heap H h0 tb t) : tree_in_heap H' h0 tb t := by
  induction t with
  | factor k i =>
    obtain ⟨n, hn, hrest⟩ := h
    exact ⟨n, by rw [hagree i (by simp [ExprTree.inorder])]; exact hn, hrest⟩
  | binary op i l r ihl ihr =>
    obtain ⟨n, hn, hk, hop, htok, hl, hr, htl, htr⟩ := h
    refine ⟨n, ?_, hk, hop, htok, hl, hr, ?_, ?_⟩
    · rw [hagree i (by simp [ExprTree.inorder])]; exact hn
    · exact ihl (fun j hj => hagree j (by simp [ExprTree.inorder, hj])) htl
    · exact ihr (fun j hj => hagree j (by simp [ExprTree.inorder, hj])) htr

theorem tree_in_heap_of_fold (H : List AstNode) (h0 tb : Nat) (fs : List Frame) (x : ExprTree)
    (h : tree_in_heap H h0 tb (fold_frames fs x)) : tree_in_heap H h0 tb x := by
  induction fs generalizing x with
  | nil => exact h
  | cons f fs ih =>
    have := ih _ h
    obtain ⟨n, _, _, _, _, _, _, _, htr⟩ := this
    exact htr

/-- Replacing the right operand of the top of a stack: the frames below and
their left operands are untouched, the new operand is laid out, and it keeps
the token (hence the address) of the old one. -/
theorem tree_in_heap_fold_replace (H H' : List AstNode) (h0 tb : Nat) (fs : List Frame)
    (x y : ExprTree) (htok : x.token = y.token)
    (h : tree_in_heap H h0 tb (fold_frames fs x)) (hy : tree_in_heap H' h0 tb y)
    (hagree : ∀ i ∈ frames_inorder fs, H'[node_addr h0 tb i]? = H[node_addr h0 tb i]?) :
    tree_in_heap H' h0 tb (fold_frames fs y) := by
  induction fs generalizing x y with
  | nil => exact hy
  | cons f fs ih =>
    have hx1 := tree_in_heap_of_fold H h0 tb fs _ h
    obtain ⟨n, hn, hk, hop, htk, hl, hr, htl, _⟩ := hx1
    refine ih (ExprTree.binary f.op f.token f.left x) (ExprTree.binary f.op f.token f.left y)
      rfl h ?_ ?_
    · refine ⟨n, ?_, hk, hop, htk, hl, ?_, ?_, hy⟩
      · rw [hagree f.token (by simp [frames_inorder])]; exact hn
      · rw [← htok]; exact hr
      · exact tree_in_heap_congr H H' h0 tb f.left
          (fun j hj => hagree j (by simp [frames_inorder, hj])) htl
    · intro i hi
      exact hagree i (by simp [frames_inorder, hi])

theorem token_fold_frames_cons (f : Frame) (fs : List Frame) (x y : ExprTree) :
    (fold_frames (f :: fs) x).token = (fold_frames (f :: fs) y).token := by
  induction fs generalizing f x y with
  | nil => rfl
  | cons g gs ih =>
    show (fold_frames (g :: gs) _).token = (fold_frames (g :: gs) _).token
    exact ih g _ _

end Onyx
namespace Onyx

open TokenType AstKind BinaryOp UnaryOp BasicKind OnyxMessageType

theorem tree_in_heap_append (H : List AstNode) (extra : List AstNode) (h0 tb : Nat) (t : ExprTree)
    (h : tree_in_heap H h0 tb t) : tree_in_heap (H ++ extra) h0 tb t := by
  induction t with
  | factor k i =>
    obtain ⟨n, hn, hrest⟩ := h
    exact ⟨n, by rw [List.getElem?_append_left (by
      by_contra hlt; rw [List.getElem?_eq_none (by omega)] at hn; exact Option.noConfusion hn)]; exact hn, hrest⟩
  | binary op i l r ihl ihr =>
    obtain ⟨n, hn, hk, hop, htok, hl, hr, htl, htr⟩ := h
    refine ⟨n, ?_, hk, hop, htok, hl, hr, ihl htl, ihr htr⟩
    rw [List.getElem?_append_left (by
      by_contra hlt; rw [List.getElem?_eq_none (by omega)] at hn; exact Option.noConfusion hn)]
    exact hn

/-- The pop loop on the arena follows the pop loop on values; it leaves the state as it is. -/
theorem pop_tree_stack_run (op : BinaryOp) (fs : List Frame) (r : ExprTree) (s : OnyxParser)
    (h0 tb : Nat) (h : tree_in_heap s.heap h0 tb (fold_frames fs r)) :
    pop_tree_stack op (frame_ptrs h0 tb fs) s = Res.ok (frame_ptrs h0 tb (pop_frames op fs r).1) s := by
  induction fs generalizing r with
  | nil => rfl
  | cons f fs ih =>
    have hx := tree_in_heap_of_fold s.heap h0 tb fs _ h
    obtain ⟨n, hn, _, hop, _⟩ := hx
    simp only [frame_ptrs, List.map_cons, pop_tree_stack, bind_run, read_node, hn, hop, pop_frames]
    by_cases hp : get_precedence f.op ≥ get_precedence op
    · simp only [hp, ite_run, if_true]
      exact ih _ h
    · simp only [hp, ite_run, if_false, pure_run, frame_ptrs, List.map_cons]

end Onyx
namespace Onyx

open TokenType AstKind BinaryOp UnaryOp BasicKind OnyxMessageType

theorem is_leaf_factor_not_comment {t : TokenType} (h : is_leaf_factor t = true) :
    t ≠ Token_Type_Comment := by
  intro hc; subst hc; simp [is_leaf_factor] at h

theorem leaf_factor_kind_ne_binary (t : TokenType) : leaf_factor_kind t ≠ Ast_Kind_Binary_Op := by
  unfold leaf_factor_kind; split_ifs <;> simp

theorem numeric_literal_node_kind (tok : OnyxToken) (i : Nat) :
    (numeric_literal_node tok i).kind = Ast_Kind_Literal ∧ (numeric_literal_node tok i).token = some i := by
  unfold numeric_literal_node; split_ifs <;> (try split) <;> simp

theorem leaf_factor_node_kind (tok : OnyxToken) (i : Nat) :
    (leaf_factor_node tok i).kind = leaf_factor_kind tok.type ∧ (leaf_factor_node tok i).token = some i := by
  unfold leaf_factor_node leaf_factor_kind
  have := numeric_literal_node_kind tok i
  split_ifs with h1 h2 h3 <;> simp_all

theorem node_addr_lt {h0 tb m i : Nat} (hi : i ∈ List.range' tb m) : node_addr h0 tb i < h0 + m := by
  simp only [List.mem_range'_1] at hi
  unfold node_addr; omega

theorem node_addr_ne {h0 tb m i j : Nat} (hi : i ∈ List.range' tb m) (hj : j ∈ List.range' tb m)
    (hne : i ≠ j) : node_addr h0 tb i ≠ node_addr h0 tb j := by
  simp only [List.mem_range'_1] at hi hj
  unfold node_addr; omega

theorem getElem?_append_pair_fst {α : Type} (A : List α) (x y : α) (n : Nat) (h : A.length = n) :
    (A ++ [x, y])[n]? = some x := by
  subst h
  rw [List.getElem?_append_right (Nat.le_refl _), Nat.sub_self]
  rfl

theorem getElem?_append_pair_snd {α : Type} (A : List α) (x y : α) (n : Nat) (h : A.length = n) :
    (A ++ [x, y])[n + 1]? = some y := by
  subst h
  rw [List.getElem?_append_right (Nat.le_succ _)]
  have : A.length + 1 - A.length = 1 := by omega
  rw [this]
  rfl

theorem not_mem_of_nodup_middle (A B C : List Nat) (g : Nat)
    (h : (A ++ (B ++ [g]) ++ C).Nodup) : g ∉ A ∧ g ∉ B ∧ g ∉ C := by
  have h1 : A ++ (B ++ [g]) ++ C = (A ++ B) ++ g :: C := by simp
  rw [h1, List.nodup_middle, List.nodup_cons] at h
  simp only [List.mem_append, not_or] at h
  exact ⟨h.1.1.1, h.1.1.2, h.1.2⟩

/-- The arena after an iteration that emptied the stack: the new node `n` takes
the old tree as its left operand and the new factor `fn` as its right operand. -/
theorem tree_in_heap_push_root (H : List AstNode) (h0 tb m : Nat) (r1 : ExprTree) (op : BinaryOp)
    (k : AstKind) (n fn : AstNode)
    (hlen : H.length = h0 + m) (htree : tree_in_heap H h0 tb r1)
    (hnk : n.kind = Ast_Kind_Binary_Op) (hnop : n.operation = op) (hnt : n.token = some (tb + m))
    (hnl : n.left = NodePtr.node (node_addr h0 tb r1.token))
    (hnr : n.right = NodePtr.node (H.length + 1))
    (hfk : fn.kind = k) (hk : k ≠ Ast_Kind_Binary_Op) (hft : fn.token = some (tb + m + 1)) :
    tree_in_heap (H ++ [n, fn]) h0 tb
      (ExprTree.binary op (tb + m) r1 (ExprTree.factor k (tb + m + 1))) := by
  have ha : node_addr h0 tb (tb + m) = H.length := by unfold node_addr; omega
  have hb : node_addr h0 tb (tb + m + 1) = H.length + 1 := by unfold node_addr; omega
  refine ⟨n, ?_, hnk, hnop, hnt, hnl, ?_, tree_in_heap_append H _ h0 tb r1 htree, ?_⟩
  · rw [ha]; exact getElem?_append_pair_fst H n fn _ rfl
  · rw [hnr]; simp only [ExprTree.token, hb]
  · refine ⟨fn, ?_, hfk, hk, hft⟩
    rw [hb]; exact getElem?_append_pair_snd H n fn _ rfl

/-- The arena after an iteration that left the frame `g` on top of the stack:
the `right` of the node of `g` now points at the new node `n`, whose left
operand is the old right operand of `g`. -/
theorem tree_in_heap_push_under (H : List AstNode) (h0 tb m : Nat) (g : Frame) (gs : List Frame)
    (r1 : ExprTree) (op : BinaryOp) (k : AstKind) (ng n fn : AstNode)
    (hlen : H.length = h0 + m) (htree : tree_in_heap H h0 tb (fold_frames (g :: gs) r1))
    (hin : (fold_frames (g :: gs) r1).inorder = List.range' tb m)
    (hng : H[node_addr h0 tb g.token]? = some ng)
    (hnk : n.kind = Ast_Kind_Binary_Op) (hnop : n.operation = op) (hnt : n.token = some (tb + m))
    (hnl : n.left = ng.right)
    (hnr : n.right = NodePtr.node (H.length + 1))
    (hfk : fn.kind = k) (hk : k ≠ Ast_Kind_Binary_Op) (hft : fn.token = some (tb + m + 1)) :
    tree_in_heap
      (H.set (node_addr h0 tb g.token) { ng with right := NodePtr.node H.length } ++ [n, fn]) h0 tb
      (fold_frames (g :: gs) (ExprTree.binary op (tb + m) r1 (ExprTree.factor k (tb + m + 1)))) := by
  have ha : node_addr h0 tb (tb + m) = H.length := by unfold node_addr; omega
  have hb : node_addr h0 tb (tb + m + 1) = H.length + 1 := by unfold node_addr; omega
  have hx := tree_in_heap_of_fold H h0 tb gs _ htree
  obtain ⟨n1, hn1, hk1, hop1, htk1, hl1, hr1, htl1, htr1⟩ := hx
  rw [hng] at hn1
  injection hn1 with hn1
  subst hn1
  -- all the tokens of the old tree, and their distinctness
  have hall : frames_inorder gs ++ (g.left.inorder ++ [g.token]) ++ r1.inorder = List.range' tb m := by
    rw [← hin, inorder_fold_frames]; simp [frames_inorder]
  have hnodup : (frames_inorder gs ++ (g.left.inorder ++ [g.token]) ++ r1.inorder).Nodup := by
    rw [hall]; exact List.nodup_range' tb m
  have hgmem : g.token ∈ List.range' tb m := by rw [← hall]; simp
  obtain ⟨hg1, hg2, hg3⟩ := not_mem_of_nodup_middle _ _ _ _ hnodup
  set H' := H.set (node_addr h0 tb g.token) { ng with right := NodePtr.node H.length } ++ [n, fn] with hH'
  have hagree : ∀ i, i ∈ List.range' tb m → i ≠ g.token →
      H'[node_addr h0 tb i]? = H[node_addr h0 tb i]? := by
    intro i hi hne
    have hlt := @node_addr_lt h0 tb m i hi
    rw [hH', List.getElem?_append_left (by simp; omega),
      List.getElem?_set_ne (fun h => node_addr_ne hi hgmem hne h.symm)]
  have hglt : node_addr h0 tb g.token < H.length := by
    rw [hlen]; exact node_addr_lt hgmem
  show tree_in_heap H' h0 tb
    (fold_frames gs (ExprTree.binary g.op g.token g.left
      (ExprTree.binary op (tb + m) r1 (ExprTree.factor k (tb + m + 1)))))
  refine tree_in_heap_fold_replace H H' h0 tb gs
    (ExprTree.binary g.op g.token g.left r1) _ rfl htree ?_ ?_
  · refine ⟨{ ng with right := NodePtr.node H.length }, ?_, hk1, hop1, htk1, hl1, ?_, ?_, ?_⟩
    · rw [hH', List.getElem?_append_left (by simp; omega)]
      simp [List.getElem?_set, hglt]
    · simp only [ExprTree.token, ha]
    · refine tree_in_heap_congr H H' h0 tb g.left (fun i hi => ?_) htl1
      have hi' : i ∈ List.range' tb m := by rw [← hall]; simp [hi]
      refine hagree i hi' ?_
      rintro rfl
      exact hg2 hi
    · refine ⟨n, ?_, hnk, hnop, hnt, ?_, ?_, ?_, ?_⟩
      · rw [ha, hH']; exact getElem?_append_pair_fst _ n fn _ (by simp)
      · rw [hnl, hr1]
      · rw [hnr]; simp only [ExprTree.token, hb]
      · refine tree_in_heap_congr H H' h0 tb r1 (fun i hi => ?_) htr1
        have hi' : i ∈ List.range' tb m := by rw [← hall]; simp [hi]
        refine hagree i hi' ?_
        rintro rfl
        exact hg3 hi
      · refine ⟨fn, ?_, hfk, hk, hft⟩
        rw [hb, hH']; exact getElem?_append_pair_snd _ n fn _ (by simp)
  · intro i hi
    have hi' : i ∈ List.range' tb m := by rw [← hall]; simp [hi]
    refine hagree i hi' ?_
    rintro rfl
    exact hg1 hi

end Onyx
namespace Onyx

open TokenType AstKind BinaryOp UnaryOp BasicKind OnyxMessageType

theorem parse_factor_leaf_mk (fuel : Nat) (toks : List OnyxToken) (cur : Nat) (prev : Option Int)
    (msgs : List OnyxMessage) (H : List AstNode) (en : AstNode) (res : ParseResults)
    (t t1 : OnyxToken)
    (h : toks[cur]? = some t) (hleaf : is_leaf_factor t.type = true)
    (h1 : toks[cur + 1]? = some t1)
    (hc : t1.type ≠ Token_Type_Comment) (hcast : t1.type ≠ Token_Type_Keyword_Cast)
    (hparen : t1.type ≠ ascii '(') :
    parse_factor (fuel + 2)
        { tokens := toks, curr := cur, prev := prev, msgs := msgs, heap := H, error_node := en,
          results := res } =
      Res.ok (NodePtr.node H.length)
        { tokens := toks, curr := cur + 1, prev := some (cur : Int), msgs := msgs,
          heap := H ++ [leaf_factor_node t cur], error_node := en, results := res } :=
  parse_factor_leaf fuel _ t t1 h hleaf h1 hc hcast hparen

theorem range'_append_two (tb m : Nat) :
    List.range' tb m ++ [tb + m, tb + m + 1] = List.range' tb (m + 2) := by
  have h1 : List.range' tb (m + 2) = List.range' tb m ++ List.range' (tb + m) 2 := by
    rw [show m + 2 = 2 + m by omega, ← List.range'_append_1]
  rw [h1]
  rfl

/-- The loop invariant after an iteration that emptied the stack. -/
theorem loop_inv_push_root (toks : List OnyxToken) (cur : Nat) (prev : Option Int)
    (msgs : List OnyxMessage) (H : List AstNode) (en : AstNode) (res : ParseResults)
    (h0 tb m : Nat) (r1 : ExprTree) (op : BinaryOp) (k : AstKind) (n fn : AstNode)
    (hcur : cur = tb + (m + 2))
    (hlen : H.length = h0 + m) (htree : tree_in_heap H h0 tb r1)
    (hin : r1.inorder = List.range' tb m)
    (hnk : n.kind = Ast_Kind_Binary_Op) (hnop : n.operation = op) (hnt : n.token = some (tb + m))
    (hnl : n.left = NodePtr.node (node_addr h0 tb r1.token))
    (hnr : n.right = NodePtr.node (H.length + 1))
    (hfk : fn.kind = k) (hk : k ≠ Ast_Kind_Binary_Op) (hft : fn.token = some (tb + m + 1)) :
    LoopInv { tokens := toks, curr := cur, prev := prev, msgs := msgs, heap := H ++ [n, fn],
              error_node := en, results := res } h0 tb (m + 2)
      (NodePtr.node H.length) [NodePtr.node H.length]
      [{ op := op, token := tb + m, left := r1 }] (ExprTree.factor k (tb + m + 1)) := by
  have ha : node_addr h0 tb (tb + m) = H.length := by unfold node_addr; omega
  refine ⟨?_, hcur, ?_, ?_, ?_, ?_⟩
  · simp; omega
  · exact tree_in_heap_push_root H h0 tb m r1 op k n fn hlen htree hnk hnop hnt hnl hnr hfk hk hft
  · simp [fold_frames, ExprTree.token, ha]
  · simp [frame_ptrs, ha]
  · simp only [fold_frames, ExprTree.inorder, hin]
    exact range'_append_two tb m

/-- The loop invariant after an iteration that left the frame `g` on top of the stack. -/
theorem loop_inv_push_under (toks : List OnyxToken) (cur : Nat) (prev : Option Int)
    (msgs : List OnyxMessage) (H : List AstNode) (en : AstNode) (res : ParseResults)
    (h0 tb m : Nat) (g : Frame) (gs : List Frame)
    (r1 : ExprTree) (op : BinaryOp) (k : AstKind) (ng n fn : AstNode)
    (hcur : cur = tb + (m + 2))
    (hlen : H.length = h0 + m) (htree : tree_in_heap H h0 tb (fold_frames (g :: gs) r1))
    (hin : (fold_frames (g :: gs) r1).inorder = List.range' tb m)
    (hng : H[node_addr h0 tb g.token]? = some ng)
    (hnk : n.kind = Ast_Kind_Binary_Op) (hnop : n.operation = op) (hnt : n.token = some (tb + m))
    (hnl : n.left = ng.right)
    (hnr : n.right = NodePtr.node (H.length + 1))
    (hfk : fn.kind = k) (hk : k ≠ Ast_Kind_Binary_Op) (hft : fn.token = some (tb + m + 1)) :
    LoopInv { tokens := toks, curr := cur, prev := prev, msgs := msgs,
              heap := H.set (node_addr h0 tb g.token) { ng with right := NodePtr.node H.length } ++ [n, fn],
              error_node := en, results := res } h0 tb (m + 2)
      (NodePtr.node (node_addr h0 tb (fold_frames (g :: gs) r1).token))
      (NodePtr.node H.length :: frame_ptrs h0 tb (g :: gs))
      ({ op := op, token := tb + m, left := r1 } :: g :: gs) (ExprTree.factor k (tb + m + 1)) := by
  have ha : node_addr h0 tb (tb + m) = H.length := by unfold node_addr; omega
  refine ⟨?_, hcur, ?_, ?_, ?_, ?_⟩
  · simp; omega
  · exact tree_in_heap_push_under H h0 tb m g gs r1 op k ng n fn hlen htree hin hng hnk hnop hnt hnl
      hnr hfk hk hft
  · show _ = NodePtr.node (node_addr h0 tb (fold_frames (g :: gs) _).token)
    rw [token_fold_frames_cons g gs r1]
  · simp [frame_ptrs, ha]
  · show (fold_frames (g :: gs) _).inorder = _
    rw [inorder_fold_frames] at hin ⊢
    simp only [ExprTree.inorder]
    rw [← List.append_assoc, hin]
    exact range'_append_two tb m

theorem loop_step (fuel : Nat) (s : OnyxParser) (h0 tb m : Nat) (root : NodePtr)
    (st : List NodePtr) (fs : List Frame) (r : ExprTree) (o f t2 : OnyxToken) (op : BinaryOp)
    (inv : LoopInv s h0 tb m root st fs r) (hm : 1 ≤ m)
    (ho : s.tokens[tb + m]? = some o) (hop : binary_op_of_token o.type = some op)
    (hf : s.tokens[tb + m + 1]? = some f) (hleaf : is_leaf_factor f.type = true)
    (ht2 : s.tokens[tb + m + 2]? = some t2) (hc : t2.type ≠ Token_Type_Comment)
    (hcast : t2.type ≠ Token_Type_Keyword_Cast) (hparen : t2.type ≠ ascii '(') :
    ∃ s' root' st', parse_expression_loop (fuel + 3) (NodePtr.node h0) root st s
        = parse_expression_loop (fuel + 2) (NodePtr.node h0) root' st' s' ∧
      s'.tokens = s.tokens ∧ s'.msgs = s.msgs ∧ s'.error_node = s.error_node ∧
      s'.results = s.results ∧ (∀ i, i < h0 → s'.heap[i]? = s.heap[i]?) ∧
      LoopInv s' h0 tb (m + 2) root' st'
        ({ op := op, token := tb + m, left := (pop_frames op fs r).2 } :: (pop_frames op fs r).1)
        (ExprTree.factor (leaf_factor_kind f.type) (tb + m + 1)) := by
  obtain ⟨hlen, hcur, htree, hroot, hstack, hin⟩ := inv
  subst hstack hroot
  obtain ⟨toks, cur, prev, msgs, H, en, res⟩ := s
  simp only at hlen hcur ho hf ht2 htree
  subst hcur
  have hpopfold := fold_frames_pop op fs r
  rw [← hpopfold] at htree hin
  rw [← hpopfold]
  have hpop := fun X => pop_tree_stack_run op fs r
    { tokens := toks, curr := tb + m + 1, prev := some ((tb + m : Nat) : Int), msgs := msgs,
      heap := H ++ X, error_node := en, results := res } h0 tb
    (tree_in_heap_append H X h0 tb _ (by rw [hpopfold] at htree; exact htree))
  have hh0 : h0 < H.length := by omega
  obtain ⟨l, hl⟩ : ∃ l, H[h0]? = some l := ⟨H[h0], List.getElem?_eq_getElem hh0⟩
  have hget0 : ∀ X : List AstNode, (H ++ X)[h0]? = some l := fun X => by
    rw [List.getElem?_append_left hh0]; exact hl
  have hFk := leaf_factor_node_kind f (tb + m + 1)
  rw [parse_expression_loop]
  simp only [bind_run, curr_type, ho, hop, curr_ptr, consume_token,
    skip_comments_next toks (tb + m + 1) f hf (is_leaf_factor_not_comment hleaf), make_node,
    modify_node, List.getElem?_concat_length, List.set_append, Nat.lt_irrefl, if_false,
    Nat.sub_self, List.set_cons_zero, List.length_append, List.length_singleton, hpop]
  generalize (pop_frames op fs r).1 = fs1 at *
  generalize (pop_frames op fs r).2 = r1 at *
  cases fs1 with
  | nil =>
    simp only [frame_ptrs, List.map_nil, bind_run, modify_node, List.getElem?_concat_length,
      List.set_append, Nat.lt_irrefl, if_false, Nat.sub_self, List.set_cons_zero, pure_run,
      List.length_append, List.length_singleton]
    rw [parse_factor_leaf_mk fuel toks (tb + m + 1) _ _ _ _ _ f t2 hf hleaf ht2 hc hcast hparen]
    simp only [List.length_append, List.length_singleton, List.append_assoc, List.singleton_append,
      getElem?_append_pair_fst H _ _ _ rfl, List.set_append, Nat.lt_irrefl, if_false, Nat.sub_self,
      List.set_cons_zero, read_node, hget0]
    have hcur' : tb + m + 1 + 1 = tb + (m + 2) := by omega
    have hframe : ∀ (X : List AstNode) (i : Nat), i < h0 → (H ++ X)[i]? = H[i]? := fun X i hi => by
      rw [List.getElem?_append_left (by omega)]
    simp only [fold_frames] at htree hin ⊢
    by_cases hlc : l.flags.comptime = true
    · by_cases hrc : (leaf_factor_node f (tb + m + 1)).flags.comptime = true
      · simp only [hlc, hrc, if_true, bind_run, read_node, modify_node,
          getElem?_append_pair_snd H _ _ _ rfl, getElem?_append_pair_fst H _ _ _ rfl,
          List.set_append, Nat.lt_irrefl, if_false, Nat.sub_self, List.set_cons_zero]
        exact ⟨_, _, _, rfl, rfl, rfl, rfl, rfl, hframe _,
          loop_inv_push_root toks _ _ msgs H en res h0 tb m r1 op _ _ _ hcur' hlen htree hin
            rfl rfl rfl rfl rfl hFk.1 (leaf_factor_kind_ne_binary _) hFk.2⟩
      · simp only [hlc, hrc, if_true, if_false, bind_run, read_node, pure_run,
          getElem?_append_pair_snd H _ _ _ rfl]
        exact ⟨_, _, _, rfl, rfl, rfl, rfl, rfl, hframe _,
          loop_inv_push_root toks _ _ msgs H en res h0 tb m r1 op _ _ _ hcur' hlen htree hin
            rfl rfl rfl rfl rfl hFk.1 (leaf_factor_kind_ne_binary _) hFk.2⟩
    · simp only [hlc, if_false, bind_run, pure_run]
      exact ⟨_, _, _, rfl, rfl, rfl, rfl, rfl, hframe _,
        loop_inv_push_root toks _ _ msgs H en res h0 tb m r1 op _ _ _ hcur' hlen htree hin
          rfl rfl rfl rfl rfl hFk.1 (leaf_factor_kind_ne_binary _) hFk.2⟩
  | cons g gs =>
    have hcur' : tb + m + 1 + 1 = tb + (m + 2) := by omega
    obtain ⟨ng, hng, -, -, -, -, hngr, -, -⟩ := tree_in_heap_of_fold H h0 tb gs _ htree
    have hgmem : g.token ∈ List.range' tb m := by
      rw [← hin, inorder_fold_frames]; simp [frames_inorder]
    have hglt : node_addr h0 tb g.token < H.length := by
      rw [hlen]; exact node_addr_lt hgmem
    have hgetg : ∀ X : List AstNode, (H ++ X)[node_addr h0 tb g.token]? = some ng := fun X => by
      rw [List.getElem?_append_left hglt]; exact hng
    have hh0' : h0 < (H.set (node_addr h0 tb g.token)
        { ng with right := NodePtr.node H.length }).length := by simp; exact hh0
    obtain ⟨l2, hl2⟩ : ∃ l2, (H.set (node_addr h0 tb g.token)
        { ng with right := NodePtr.node H.length })[h0]? = some l2 :=
      ⟨_, List.getElem?_eq_getElem hh0'⟩
    have hget2 : ∀ X : List AstNode, (H.set (node_addr h0 tb g.token)
        { ng with right := NodePtr.node H.length } ++ X)[h0]? = some l2 := fun X => by
      rw [List.getElem?_append_left hh0']; exact hl2
    have hframe : ∀ (X : List AstNode) (i : Nat), i < h0 → (H.set (node_addr h0 tb g.token)
        { ng with right := NodePtr.node H.length } ++ X)[i]? = H[i]? := fun X i hi => by
      rw [List.getElem?_append_left (by simp; omega),
        List.getElem?_set_ne (by unfold node_addr; omega)]
    simp only [frame_ptrs, List.map_cons, bind_run, read_node, modify_node, hgetg,
      List.getElem?_concat_length, List.set_append, Nat.lt_irrefl, if_false, Nat.sub_self,
      List.set_cons_zero, pure_run, List.length_append, List.length_singleton, hglt, if_true]
    rw [parse_factor_leaf_mk fuel toks (tb + m + 1) _ _ _ _ _ f t2 hf hleaf ht2 hc hcast hparen]
    simp only [List.length_append, List.length_singleton, List.append_assoc, List.singleton_append,
      List.length_set, getElem?_append_pair_fst _ _ _ H.length (List.length_set _ _ _),
      List.set_append, Nat.lt_irrefl, if_false, Nat.sub_self,
      List.set_cons_zero, read_node, hget2]
    have hset : (H.set (node_addr h0 tb g.token) { ng with right := NodePtr.node H.length }).length
        = H.length := List.length_set _ _ _
    by_cases hlc : l2.flags.comptime = true
    · by_cases hrc : (leaf_factor_node f (tb + m + 1)).flags.comptime = true
      · simp only [hlc, hrc, if_true, bind_run, read_node, modify_node,
          getElem?_append_pair_snd _ _ _ H.length hset, getElem?_append_pair_fst _ _ _ H.length hset,
          List.set_append, List.length_set, Nat.lt_irrefl, if_false, Nat.sub_self, List.set_cons_zero]
        exact ⟨_, _, _, rfl, rfl, rfl, rfl, rfl, hframe _,
          loop_inv_push_under toks _ _ msgs H en res h0 tb m g gs r1 op _ ng _ _ hcur' hlen htree hin
            hng rfl rfl rfl rfl rfl hFk.1 (leaf_factor_kind_ne_binary _) hFk.2⟩
      · simp only [hlc, hrc, if_true, if_false, bind_run, read_node, pure_run,
          getElem?_append_pair_snd _ _ _ H.length hset]
        exact ⟨_, _, _, rfl, rfl, rfl, rfl, rfl, hframe _,
          loop_inv_push_under toks _ _ msgs H en res h0 tb m g gs r1 op _ ng _ _ hcur' hlen htree hin
            hng rfl rfl rfl rfl rfl hFk.1 (leaf_factor_kind_ne_binary _) hFk.2⟩
    · simp only [hlc, if_false, bind_run, pure_run]
      exact ⟨_, _, _, rfl, rfl, rfl, rfl, rfl, hframe _,
        loop_inv_push_under toks _ _ msgs H en res h0 tb m g gs r1 op _ ng _ _ hcur' hlen htree hin
          hng rfl rfl rfl rfl rfl hFk.1 (leaf_factor_kind_ne_binary _) hFk.2⟩

end Onyx
namespace Onyx

open TokenType AstKind BinaryOp UnaryOp BasicKind OnyxMessageType

theorem drop_eq_cons_cons {α : Type} (l : List α) (n : Nat) (a b : α) (tl : List α)
    (h : l.drop n = a :: b :: tl) :
    l[n]? = some a ∧ l[n + 1]? = some b ∧ l.drop (n + 2) = tl := by
  have h0 : (l.drop n)[0]? = some a := by rw [h]; simp
  have h1 : (l.drop n)[1]? = some b := by rw [h]; simp
  rw [List.getElem?_drop] at h0 h1
  refine ⟨by simpa using h0, h1, ?_⟩
  have : l.drop (n + 2) = (l.drop n).drop 2 := by rw [List.drop_drop]
  rw [this, h]; rfl

theorem drop_eq_cons {α : Type} (l : List α) (n : Nat) (a : α) (tl : List α)
    (h : l.drop n = a :: tl) : l[n]? = some a := by
  have h0 : (l.drop n)[0]? = some a := by rw [h]; simp
  rw [List.getElem?_drop] at h0
  simpa using h0

theorem binary_op_token_not_special {t : TokenType} {op : BinaryOp}
    (h : binary_op_of_token t = some op) :
    t ≠ Token_Type_Comment ∧ t ≠ Token_Type_Keyword_Cast ∧ t ≠ ascii '(' := by
  refine ⟨?_, ?_, ?_⟩ <;> (rintro rfl; simp [binary_op_of_token] at h)

theorem ends_expression_iff {t : TokenType} (h : ends_expression t = true) :
    binary_op_of_token t = none ∧ t ≠ Token_Type_Comment ∧ t ≠ Token_Type_Keyword_Cast
      ∧ t ≠ ascii '(' := by
  unfold ends_expression at h
  simp only [Bool.and_eq_true, Option.isNone_iff_eq_none, decide_eq_true_eq, ne_eq,
    decide_not, Bool.not_eq_true', decide_eq_false_iff_not] at h
  exact ⟨h.1.1.1, h.2, h.1.1.2, h.1.2⟩

theorem token_op_eq {t : TokenType} {op : BinaryOp} (h : binary_op_of_token t = some op) :
    token_op t = op := by
  simp [token_op, h]

/-- The operator loop of `parse_expression` on `op1 f1 ... opn fn` followed by a
token that ends the expression: it returns, and the arena then holds the tree
computed by `shunt`. -/
theorem parse_expression_loop_run (rest : List (OnyxToken × OnyxToken)) :
    ∀ (fuel : Nat) (s : OnyxParser) (h0 tb m : Nat) (root : NodePtr) (st : List NodePtr)
      (fs : List Frame) (r : ExprTree) (t : OnyxToken) (post : List OnyxToken),
      LoopInv s h0 tb m root st fs r → 1 ≤ m →
      s.tokens.drop (tb + m) = flatten_pairs rest ++ t :: post →
      (∀ p ∈ rest, (binary_op_of_token p.1.type).isSome = true ∧ is_leaf_factor p.2.type = true) →
      ends_expression t.type = true →
      rest.length + 2 ≤ fuel →
      ∃ s' root' st' fs' r', parse_expression_loop fuel (NodePtr.node h0) root st s = Res.ok root' s' ∧
        s'.tokens = s.tokens ∧ s'.msgs = s.msgs ∧ s'.error_node = s.error_node ∧
        s'.results = s.results ∧ (∀ i, i < h0 → s'.heap[i]? = s.heap[i]?) ∧
        LoopInv s' h0 tb (m + 2 * rest.length) root' st' fs' r' ∧
        fold_frames fs' r' = shunt (pair_ops rest) (tb + m) fs r := by
  induction rest with
  | nil =>
    intro fuel s h0 tb m root st fs r t post inv hm htoks _ hend hfuel
    obtain ⟨hnone, -, -, -⟩ := ends_expression_iff hend
    have ht := drop_eq_cons _ _ _ _ htoks
    obtain ⟨k, rfl⟩ : ∃ k, fuel = k + 1 := ⟨fuel - 1, by simp at hfuel; omega⟩
    refine ⟨s, root, st, fs, r, ?_, rfl, rfl, rfl, rfl, fun _ _ => rfl, inv, rfl⟩
    rw [parse_expression_loop]
    rw [← inv.curr_eq] at ht
    simp only [bind_run, curr_type_run s t ht, hnone, pure_run]
  | cons p rest ih =>
    intro fuel s h0 tb m root st fs r t post inv hm htoks hall hend hfuel
    obtain ⟨o, f⟩ := p
    have hof := hall (o, f) (by simp)
    obtain ⟨op, hop⟩ := Option.isSome_iff_exists.1 hof.1
    have hleaf := hof.2
    simp only [flatten_pairs, List.cons_append] at htoks
    obtain ⟨ho, hf, hdrop⟩ := drop_eq_cons_cons _ _ _ _ _ htoks
    -- the token after the factor
    obtain ⟨t2, ht2, hc, hcast, hparen⟩ : ∃ t2, s.tokens[tb + m + 2]? = some t2 ∧
        t2.type ≠ Token_Type_Comment ∧ t2.type ≠ Token_Type_Keyword_Cast ∧ t2.type ≠ ascii '(' := by
      cases rest with
      | nil =>
        simp only [flatten_pairs, List.nil_append] at hdrop
        obtain ⟨-, h2, h3, h4⟩ := ends_expression_iff hend
        exact ⟨t, drop_eq_cons _ _ _ _ hdrop, h2, h3, h4⟩
      | cons q rest' =>
        obtain ⟨o', f'⟩ := q
        simp only [flatten_pairs, List.cons_append] at hdrop
        have hq := hall (o', f') (by simp)
        obtain ⟨op', hop'⟩ := Option.isSome_iff_exists.1 hq.1
        obtain ⟨h2, h3, h4⟩ := binary_op_token_not_special hop'
        exact ⟨o', drop_eq_cons _ _ _ _ hdrop, h2, h3, h4⟩
    obtain ⟨k, rfl⟩ : ∃ k, fuel = k + 3 := ⟨fuel - 3, by simp at hfuel; omega⟩
    obtain ⟨s1, root1, st1, hstep, htok1, hmsg1, hen1, hres1, hfr1, inv1⟩ :=
      loop_step k s h0 tb m root st fs r o f t2 op inv hm ho hop hf hleaf ht2 hc hcast hparen
    have hdrop1 : s1.tokens.drop (tb + (m + 2)) = flatten_pairs rest ++ t :: post := by
      rw [htok1, ← hdrop]; congr 1
    obtain ⟨s', root', st', fs', r', hrun, htok', hmsg', hen', hres', hfr', inv', hshunt⟩ :=
      ih (k + 2) s1 h0 tb (m + 2) root1 st1 _ _ t post inv1 (by omega) hdrop1
        (fun q hq => hall q (by simp [hq])) hend (by simp at hfuel ⊢; omega)
    refine ⟨s', root', st', fs', r', ?_, ?_, ?_, ?_, ?_, ?_, ?_, ?_⟩
    · rw [hstep, hrun]
    · rw [htok', htok1]
    · rw [hmsg', hmsg1]
    · rw [hen', hen1]
    · rw [hres', hres1]
    · intro i hi; rw [hfr' i hi, hfr1 i hi]
    · have : m + 2 * (List.length ((o, f) :: rest)) = m + 2 + 2 * rest.length := by
        simp only [List.length_cons]; omega
      rw [this]; exact inv'
    · rw [hshunt]
      simp only [pair_ops, List.map_cons, shunt, token_op_eq hop]
      congr 1

end Onyx
namespace Onyx

open TokenType AstKind BinaryOp UnaryOp BasicKind OnyxMessageType

/-- Reading back a tree that is laid out in the arena gives the tree. -/
theorem read_expr_of_tree_in_heap (H : List AstNode) (h0 tb : Nat) (t : ExprTree)
    (h : tree_in_heap H h0 tb t) :
    ∀ fuel, t.depth ≤ fuel → read_expr fuel H (NodePtr.node (node_addr h0 tb t.token)) = some t := by
  induction t with
  | factor k i =>
    intro fuel hfuel
    obtain ⟨n, hn, hk, hkb, htok⟩ := h
    obtain ⟨f, rfl⟩ : ∃ f, fuel = f + 1 := ⟨fuel - 1, by simp [ExprTree.depth] at hfuel; omega⟩
    simp [read_expr, ExprTree.token, hn, htok, hk, hkb]
  | binary op i l r ihl ihr =>
    intro fuel hfuel
    obtain ⟨n, hn, hk, hop, htok, hl, hr, htl, htr⟩ := h
    obtain ⟨f, rfl⟩ : ∃ f, fuel = f + 1 := ⟨fuel - 1, by simp [ExprTree.depth] at hfuel; omega⟩
    simp only [ExprTree.depth] at hfuel
    have h1 := ihl htl f (by omega)
    have h2 := ihr htr f (by omega)
    show read_expr (f + 1) H (NodePtr.node (node_addr h0 tb i)) = _
    simp only [read_expr, hn, htok, hk, hop, hl, hr, h1, h2, if_true]

theorem depth_le_length (t : ExprTree) : t.depth ≤ t.inorder.length := by
  induction t with
  | factor k i => simp [ExprTree.depth, ExprTree.inorder]
  | binary op i l r ihl ihr =>
    simp only [ExprTree.depth, ExprTree.inorder, List.length_append, List.length_cons]
    omega

/-- `parse_expression` on `f0 op1 f1 ... opn fn` followed by a token that ends
the expression: with enough fuel it returns, having consumed exactly the
expression and allocated one node per token; the arena then holds the tree
computed by `shunt`, and the returned pointer is its root. -/
theorem parse_expression_run (s : OnyxParser) (f0 : OnyxToken) (rest : List (OnyxToken × OnyxToken))
    (t : OnyxToken) (post : List OnyxToken) (fuel : Nat)
    (htoks : s.tokens.drop s.curr = f0 :: (flatten_pairs rest ++ t :: post))
    (hf0 : is_leaf_factor f0.type = true)
    (hall : ∀ p ∈ rest, (binary_op_of_token p.1.type).isSome = true ∧ is_leaf_factor p.2.type = true)
    (hend : ends_expression t.type = true) (hfuel : rest.length + 3 ≤ fuel) :
    ∃ s' root, parse_expression fuel s = Res.ok root s' ∧
      s'.tokens = s.tokens ∧ s'.msgs = s.msgs ∧ s'.error_node = s.error_node ∧
      s'.results = s.results ∧ (∀ i, i < s.heap.length → s'.heap[i]? = s.heap[i]?) ∧
      s'.curr = s.curr + 1 + 2 * rest.length ∧
      s'.heap.length = s.heap.length + 1 + 2 * rest.length ∧
      tree_in_heap s'.heap s.heap.length s.curr
        (shunt (pair_ops rest) (s.curr + 1) [] (ExprTree.factor (leaf_factor_kind f0.type) s.curr)) ∧
      root = NodePtr.node (node_addr s.heap.length s.curr
        (shunt (pair_ops rest) (s.curr + 1) [] (ExprTree.factor (leaf_factor_kind f0.type) s.curr)).token) ∧
      (shunt (pair_ops rest) (s.curr + 1) [] (ExprTree.factor (leaf_factor_kind f0.type) s.curr)).inorder
        = List.range' s.curr (1 + 2 * rest.length) := by
  obtain ⟨k, rfl⟩ : ∃ k, fuel = k + 3 := ⟨fuel - 3, by omega⟩
  have hf0' := drop_eq_cons _ _ _ _ htoks
  -- the token after the first factor
  obtain ⟨t1, ht1, hc, hcast, hparen⟩ : ∃ t1, s.tokens[s.curr + 1]? = some t1 ∧
      t1.type ≠ Token_Type_Comment ∧ t1.type ≠ Token_Type_Keyword_Cast ∧ t1.type ≠ ascii '(' := by
    have hd : s.tokens.drop (s.curr + 1) = flatten_pairs rest ++ t :: post := by
      have : s.tokens.drop (s.curr + 1) = (s.tokens.drop s.curr).drop 1 := by rw [List.drop_drop]
      rw [this, htoks]; rfl
    cases rest with
    | nil =>
      simp only [flatten_pairs, List.nil_append] at hd
      obtain ⟨-, h2, h3, h4⟩ := ends_expression_iff hend
      exact ⟨t, drop_eq_cons _ _ _ _ hd, h2, h3, h4⟩
    | cons q rest' =>
      obtain ⟨o', f'⟩ := q
      simp only [flatten_pairs, List.cons_append] at hd
      have hq := hall (o', f') (by simp)
      obtain ⟨op', hop'⟩ := Option.isSome_iff_exists.1 hq.1
      obtain ⟨h2, h3, h4⟩ := binary_op_token_not_special hop'
      exact ⟨o', drop_eq_cons _ _ _ _ hd, h2, h3, h4⟩
  have hfac := parse_factor_leaf k s f0 t1 hf0' hf0 ht1 hc hcast hparen
  have hFk := leaf_factor_node_kind f0 s.curr
  have inv0 : LoopInv { s with prev := some (s.curr : Int), curr := s.curr + 1,
                               heap := s.heap ++ [leaf_factor_node f0 s.curr] }
      s.heap.length s.curr 1 (NodePtr.node s.heap.length) [] []
      (ExprTree.factor (leaf_factor_kind f0.type) s.curr) := by
    refine ⟨by simp, rfl, ?_, ?_, rfl, rfl⟩
    · refine ⟨leaf_factor_node f0 s.curr, ?_, hFk.1, leaf_factor_kind_ne_binary _, hFk.2⟩
      simp [node_addr]
    · simp [fold_frames, ExprTree.token, node_addr]
  have hd1 : ({ s with prev := some (s.curr : Int), curr := s.curr + 1,
                       heap := s.heap ++ [leaf_factor_node f0 s.curr] } : OnyxParser).tokens.drop
      (s.curr + 1) = flatten_pairs rest ++ t :: post := by
    have : s.tokens.drop (s.curr + 1) = (s.tokens.drop s.curr).drop 1 := by rw [List.drop_drop]
    show s.tokens.drop (s.curr + 1) = _
    rw [this, htoks]; rfl
  obtain ⟨s', root', st', fs', r', hrun, htok', hmsg', hen', hres', hfr', inv', hshunt⟩ :=
    parse_expression_loop_run rest (k + 2) _ s.heap.length s.curr 1 _ [] [] _ t post inv0
      (Nat.le_refl 1) hd1 hall hend (by omega)
  refine ⟨s', root', ?_, htok', hmsg', hen', hres', ?_, ?_, ?_, ?_, ?_, ?_⟩
  · rw [parse_expression]
    simp only [bind_run, hfac]
    exact hrun
  · intro i hi
    rw [hfr' i hi]
    show (s.heap ++ _)[i]? = _
    rw [List.getElem?_append_left hi]
  · rw [inv'.curr_eq]; omega
  · rw [inv'.heap_length]; omega
  · rw [← hshunt]; exact inv'.tree
  · rw [← hshunt]; exact inv'.root_eq
  · rw [← hshunt]; exact inv'.inorder_eq

end Onyx
namespace Onyx

open TokenType AstKind BinaryOp UnaryOp BasicKind OnyxMessageType

/-! ## The shape of the tree computed by `shunt` -/

theorem fold_frames_ordered (fs : List Frame) (r : ExprTree)
    (hfs : frames_ordered fs) (hr : r.precedence_ordered) (htop : above_top fs r) :
    (fold_frames fs r).precedence_ordered := by
  induction fs generalizing r with
  | nil => exact hr
  | cons f fs ih =>
    obtain ⟨hl, hlp, hnext, hrest⟩ := hfs
    refine ih _ hrest ⟨hlp, fun pr hpr => htop f rfl pr hpr, hl, hr⟩ ?_
    intro g hg pr hpr
    simp only [ExprTree.root_precedence, Option.some.injEq] at hpr
    rw [← hpr]
    exact hnext g hg

theorem pop_frames_ordered (op : BinaryOp) (fs : List Frame) (r : ExprTree)
    (hfs : frames_ordered fs) (hr : r.precedence_ordered) (htop : above_top fs r)
    (hrp : ∀ pr, r.root_precedence = some pr → get_precedence op ≤ pr) :
    frames_ordered (pop_frames op fs r).1 ∧ (pop_frames op fs r).2.precedence_ordered ∧
      (∀ pr, (pop_frames op fs r).2.root_precedence = some pr → get_precedence op ≤ pr) ∧
      (∀ g, (pop_frames op fs r).1.head? = some g → get_precedence g.op < get_precedence op) := by
  induction fs generalizing r with
  | nil =>
    refine ⟨trivial, hr, hrp, ?_⟩
    intro g hg
    simp [pop_frames] at hg
  | cons f fs ih =>
    obtain ⟨hl, hlp, hnext, hrest⟩ := hfs
    unfold pop_frames
    split_ifs with h
    · refine ih _ hrest ⟨hlp, fun pr hpr => htop f rfl pr hpr, hl, hr⟩ ?_ ?_
      · intro g hg pr hpr
        simp only [ExprTree.root_precedence, Option.some.injEq] at hpr
        rw [← hpr]
        exact hnext g hg
      · intro pr hpr
        simp only [ExprTree.root_precedence, Option.some.injEq] at hpr
        rw [← hpr]
        exact h
    · refine ⟨⟨hl, hlp, hnext, hrest⟩, hr, hrp, ?_⟩
      intro g hg
      simp only [List.head?_cons, Option.some.injEq] at hg
      subst hg
      exact lt_of_not_ge h

theorem shunt_ordered (ops : List (BinaryOp × AstKind)) :
    ∀ (i : Nat) (fs : List Frame) (r : ExprTree), frames_ordered fs → r.precedence_ordered →
      above_top fs r → r.root_precedence = none →
      (shunt ops i fs r).precedence_ordered := by
  induction ops with
  | nil =>
    intro i fs r hfs hr htop _
    exact fold_frames_ordered fs r hfs hr htop
  | cons p ops ih =>
    intro i fs r hfs hr htop hnone
    obtain ⟨op, k⟩ := p
    obtain ⟨h1, h2, h3, h4⟩ := pop_frames_ordered op fs r hfs hr htop
      (fun pr hpr => by rw [hnone] at hpr; exact Option.noConfusion hpr)
    refine ih _ _ _ ⟨h2, h3, h4, h1⟩ trivial ?_ rfl
    intro f _ pr hpr
    exact Option.noConfusion hpr

theorem fold_frames_matches (toks : List OnyxToken) (fs : List Frame) (r : ExprTree)
    (hfs : frames_match toks fs) (hr : r.matches_tokens toks) :
    (fold_frames fs r).matches_tokens toks := by
  induction fs generalizing r with
  | nil => exact hr
  | cons f fs ih =>
    obtain ⟨⟨t, ht, hop⟩, hl⟩ := hfs f (by simp)
    exact ih _ (fun g hg => hfs g (by simp [hg])) ⟨t, ht, hop, hl, hr⟩

theorem pop_frames_matches (toks : List OnyxToken) (op : BinaryOp) (fs : List Frame) (r : ExprTree)
    (hfs : frames_match toks fs) (hr : r.matches_tokens toks) :
    frames_match toks (pop_frames op fs r).1 ∧ (pop_frames op fs r).2.matches_tokens toks := by
  induction fs generalizing r with
  | nil => exact ⟨hfs, hr⟩
  | cons f fs ih =>
    unfold pop_frames
    split_ifs with h
    · obtain ⟨⟨t, ht, hop⟩, hl⟩ := hfs f (by simp)
      exact ih _ (fun g hg => hfs g (by simp [hg])) ⟨t, ht, hop, hl, hr⟩
    · exact ⟨hfs, hr⟩

theorem shunt_matches (toks : List OnyxToken) (rest : List (OnyxToken × OnyxToken)) :
    ∀ (i : Nat) (fs : List Frame) (r : ExprTree) (tail : List OnyxToken),
      toks.drop i = flatten_pairs rest ++ tail →
      (∀ p ∈ rest, (binary_op_of_token p.1.type).isSome = true ∧ is_leaf_factor p.2.type = true) →
      frames_match toks fs → r.matches_tokens toks →
      (shunt (pair_ops rest) i fs r).matches_tokens toks := by
  induction rest with
  | nil =>
    intro i fs r tail _ _ hfs hr
    exact fold_frames_matches toks fs r hfs hr
  | cons p rest ih =>
    intro i fs r tail hdrop hall hfs hr
    obtain ⟨o, f⟩ := p
    have hof := hall (o, f) (by simp)
    obtain ⟨op, hop⟩ := Option.isSome_iff_exists.1 hof.1
    simp only [flatten_pairs, List.cons_append] at hdrop
    obtain ⟨ho, hf, hdrop'⟩ := drop_eq_cons_cons _ _ _ _ _ hdrop
    obtain ⟨h1, h2⟩ := pop_frames_matches toks op fs r hfs hr
    simp only [pair_ops, List.map_cons, shunt, token_op_eq hop]
    refine ih (i + 2) _ _ tail hdrop' (fun q hq => hall q (by simp [hq])) ?_ ⟨f, hf, hof.2, rfl⟩
    intro g hg
    simp only [List.mem_cons] at hg
    rcases hg with rfl | hg
    · exact ⟨⟨o, ho, hop⟩, h2⟩
    · exact h1 g hg

/-- The tree of `a op1 b op2 c`. -/
theorem shunt_two (op1 op2 : BinaryOp) (ka kb kc : AstKind) (i : Nat) :
    shunt [(op1, kb), (op2, kc)] (i + 1) [] (ExprTree.factor ka i) =
      if get_precedence op2 > get_precedence op1 then
        ExprTree.binary op1 (i + 1) (ExprTree.factor ka i)
          (ExprTree.binary op2 (i + 3) (ExprTree.factor kb (i + 2)) (ExprTree.factor kc (i + 4)))
      else
        ExprTree.binary op2 (i + 3)
          (ExprTree.binary op1 (i + 1) (ExprTree.factor ka i) (ExprTree.factor kb (i + 2)))
          (ExprTree.factor kc (i + 4)) := by
  simp only [shunt, pop_frames, fold_frames]
  split_ifs with h1 h2 h2
  · exact absurd h1 (not_le.2 h2)
  · rfl
  · rfl
  · exact absurd (le_of_not_gt h2) h1

end Onyx
namespace Onyx

open TokenType AstKind BinaryOp UnaryOp BasicKind OnyxMessageType

/-! ## Uniqueness of the ordered tree over a token sequence -/

theorem operators_nil_of_root_none (t : ExprTree) (h : t.root_precedence = none) :
    t.operators = [] := by
  cases t with
  | factor k i => rfl
  | binary op i l r => simp [ExprTree.root_precedence] at h

/-- In an ordered tree no operator binds less tightly than the root. -/
theorem operators_ge_root (t : ExprTree) (h : t.precedence_ordered) :
    ∀ p, t.root_precedence = some p → ∀ q ∈ t.operators, p ≤ get_precedence q.2 := by
  induction t with
  | factor k i =>
    intro p hp
    simp [ExprTree.root_precedence] at hp
  | binary op i l r ihl ihr =>
    intro p hp q hq
    simp only [ExprTree.root_precedence, Option.some.injEq] at hp
    subst hp
    obtain ⟨hl, hr, hol, hor⟩ := h
    simp only [ExprTree.operators, List.mem_append, List.mem_cons] at hq
    rcases hq with hq | rfl | hq
    · cases hpl : l.root_precedence with
      | none => rw [operators_nil_of_root_none l hpl] at hq; simp at hq
      | some pl => exact le_trans (hl pl hpl) (ihl hol pl hpl q hq)
    · exact le_refl _
    · cases hpr : r.root_precedence with
      | none => rw [operators_nil_of_root_none r hpr] at hq; simp at hq
      | some pr => exact le_of_lt (lt_of_lt_of_le (hr pr hpr) (ihr hor pr hpr q hq))

theorem operators_left_ge (op : BinaryOp) (i : Nat) (l r : ExprTree)
    (h : (ExprTree.binary op i l r).precedence_ordered) :
    ∀ q ∈ l.operators, get_precedence op ≤ get_precedence q.2 := by
  intro q hq
  obtain ⟨hl, _, hol, _⟩ := h
  cases hpl : l.root_precedence with
  | none => rw [operators_nil_of_root_none l hpl] at hq; simp at hq
  | some pl => exact le_trans (hl pl hpl) (operators_ge_root l hol pl hpl q hq)

theorem operators_right_gt (op : BinaryOp) (i : Nat) (l r : ExprTree)
    (h : (ExprTree.binary op i l r).precedence_ordered) :
    ∀ q ∈ r.operators, get_precedence op < get_precedence q.2 := by
  intro q hq
  obtain ⟨_, hr, _, hor⟩ := h
  cases hpr : r.root_precedence with
  | none => rw [operators_nil_of_root_none r hpr] at hq; simp at hq
  | some pr => exact lt_of_lt_of_le (hr pr hpr) (operators_ge_root r hor pr hpr q hq)

theorem leaf_factor_not_operator {t : TokenType} (h : is_leaf_factor t = true) :
    binary_op_of_token t = none := by
  unfold is_leaf_factor at h
  simp only [Bool.or_eq_true, decide_eq_true_eq] at h
  rcases h with ((h | h) | h) | h <;> subst h <;> rfl

/-- An operator token inside a tree that matches the tokens is one of its operators. -/
theorem operator_mem_of_matches (toks : List OnyxToken) (t : ExprTree)
    (hm : t.matches_tokens toks) (j : Nat) (tk : OnyxToken) (oj : BinaryOp)
    (hj : j ∈ t.inorder) (htk : toks[j]? = some tk) (hop : binary_op_of_token tk.type = some oj) :
    (j, oj) ∈ t.operators := by
  induction t with
  | factor k i =>
    simp only [ExprTree.inorder, List.mem_singleton] at hj
    subst hj
    obtain ⟨t', ht', hleaf, _⟩ := hm
    rw [htk] at ht'
    injection ht' with ht'
    subst ht'
    rw [leaf_factor_not_operator hleaf] at hop
    exact Option.noConfusion hop
  | binary op i l r ihl ihr =>
    obtain ⟨t', ht', hop', hml, hmr⟩ := hm
    simp only [ExprTree.inorder, List.mem_append, List.mem_cons] at hj
    simp only [ExprTree.operators, List.mem_append, List.mem_cons]
    rcases hj with hj | rfl | hj
    · exact Or.inl (ihl hml hj)
    · rw [htk] at ht'
      injection ht' with ht'
      subst ht'
      rw [hop] at hop'
      injection hop' with hop'
      subst hop'
      exact Or.inr (Or.inl rfl)
    · exact Or.inr (Or.inr (ihr hmr hj))

theorem inorder_ne_nil (t : ExprTree) : t.inorder ≠ [] := by
  cases t <;> simp [ExprTree.inorder]

/-- Two ordered trees that match the tokens and have the same in-order traversal
(without repetition) are equal. -/
theorem ordered_tree_unique (toks : List OnyxToken) (t : ExprTree) :
    ∀ t' : ExprTree, t.inorder = t'.inorder → t.inorder.Nodup →
      t.matches_tokens toks → t'.matches_tokens toks →
      t.precedence_ordered → t'.precedence_ordered → t = t' := by
  induction t with
  | factor k i =>
    intro t' hin _ hm hm' _ _
    cases t' with
    | factor k' i' =>
      simp only [ExprTree.inorder, List.cons.injEq, and_true] at hin
      subst hin
      obtain ⟨t1, ht1, _, hk⟩ := hm
      obtain ⟨t2, ht2, _, hk'⟩ := hm'
      rw [ht1] at ht2
      injection ht2 with ht2
      subst ht2
      rw [hk, hk']
    | binary op' i' l' r' =>
      exfalso
      have h1 := congrArg List.length hin
      simp only [ExprTree.inorder, List.length_cons, List.length_nil, List.length_append] at h1
      have := List.length_pos_of_ne_nil (inorder_ne_nil l')
      omega
  | binary op i l r ihl ihr =>
    intro t' hin hnd hm hm' ho ho'
    cases t' with
    | factor k' i' =>
      exfalso
      have h1 := congrArg List.length hin
      simp only [ExprTree.inorder, List.length_cons, List.length_nil, List.length_append] at h1
      have := List.length_pos_of_ne_nil (inorder_ne_nil l)
      omega
    | binary op' i' l' r' =>
      obtain ⟨tk, htk, hop, hml, hmr⟩ := id hm
      obtain ⟨tk', htk', hop', hml', hmr'⟩ := id hm'
      simp only [ExprTree.inorder] at hin hnd
      have hnd' : (l'.inorder ++ i' :: r'.inorder).Nodup := hin ▸ hnd
      rcases List.append_eq_append_iff.1 hin with ⟨c, hc1, hc2⟩ | ⟨c, hc1, hc2⟩
      · cases c with
        | nil =>
          simp only [List.append_nil, List.nil_append, List.cons.injEq] at hc1 hc2
          obtain ⟨hi, hr⟩ := hc2
          subst hi
          rw [htk] at htk'
          injection htk' with htk'
          subst htk'
          rw [hop] at hop'
          injection hop' with hop'
          subst hop'
          have hndl : l.inorder.Nodup := (List.nodup_append.1 hnd).1
          have hndr : r.inorder.Nodup := (List.nodup_cons.1 (List.nodup_append.1 hnd).2.1).2
          rw [ihl l' hc1.symm hndl hml hml' ho.2.2.1 ho'.2.2.1,
            ihr r' hr hndr hmr hmr' ho.2.2.2 ho'.2.2.2]
        | cons x c' =>
          exfalso
          simp only [List.cons_append, List.cons.injEq] at hc2
          obtain ⟨hx, hr⟩ := hc2
          subst hx
          -- i is in l', i' is in r
          have hi' : i' ∈ r.inorder := by rw [hr]; simp
          have hi : i ∈ l'.inorder := by rw [hc1]; simp
          have h1 := operators_right_gt op i l r ho (i', op')
            (operator_mem_of_matches toks r hmr i' tk' op' hi' htk' hop')
          have h2 := operators_left_ge op' i' l' r' ho' (i, op)
            (operator_mem_of_matches toks l' hml' i tk op hi htk hop)
          simp only at h1 h2
          omega
      · cases c with
        | nil =>
          simp only [List.append_nil, List.nil_append, List.cons.injEq] at hc1 hc2
          obtain ⟨hi, hr⟩ := hc2
          subst hi
          rw [htk] at htk'
          injection htk' with htk'
          subst htk'
          rw [hop] at hop'
          injection hop' with hop'
          subst hop'
          have hndl : l.inorder.Nodup := (List.nodup_append.1 hnd).1
          have hndr : r.inorder.Nodup := (List.nodup_cons.1 (List.nodup_append.1 hnd).2.1).2
          rw [ihl l' hc1 hndl hml hml' ho.2.2.1 ho'.2.2.1,
            ihr r' hr.symm hndr hmr hmr' ho.2.2.2 ho'.2.2.2]
        | cons x c' =>
          exfalso
          simp only [List.cons_append, List.cons.injEq] at hc2
          obtain ⟨hx, hr⟩ := hc2
          subst hx
          -- i' is in l, i is in r'
          have hi' : i' ∈ l.inorder := by rw [hc1]; simp
          have hi : i ∈ r'.inorder := by rw [hr]; simp
          have h1 := operators_left_ge op i l r ho (i', op')
            (operator_mem_of_matches toks l hml i' tk' op' hi' htk' hop')
          have h2 := operators_right_gt op' i' l' r' ho' (i, op)
            (operator_mem_of_matches toks r' hmr' i tk op hi htk hop)
          simp only at h1 h2
          omega

end Onyx
namespace Onyx

open TokenType AstKind BinaryOp UnaryOp BasicKind OnyxMessageType

/-! ## Claims on operator precedence -/

/-- C1: for all single-token factors `a`, `b`, `c` and all binary operators
`op1`, `op2`, `parse_expression` on `a op1 b op2 c` returns the tree
`op1(a, op2(b, c))` when `op2` has the higher precedence and `op2(op1(a, b), c)`
otherwise; the precedences are `%` 7, `*` `/` 6, `+` `-` 5, `<` `<=` `>` `>=` 4,
`==` `!=` 3. -/
theorem parse_expression_three_factors (s : OnyxParser) (a o1 b o2 c t : OnyxToken)
    (post : List OnyxToken) (op1 op2 : BinaryOp) (fuel : Nat)
    (htoks : s.tokens.drop s.curr = a :: o1 :: b :: o2 :: c :: t :: post)
    (ha : is_leaf_factor a.type = true) (hb : is_leaf_factor b.type = true)
    (hc : is_leaf_factor c.type = true)
    (ho1 : binary_op_of_token o1.type = some op1) (ho2 : binary_op_of_token o2.type = some op2)
    (hend : ends_expression t.type = true) (hfuel : 5 ≤ fuel) :
    (∃ s' root, parse_expression fuel s = Res.ok root s' ∧ s'.curr = s.curr + 5 ∧
      s'.msgs = s.msgs ∧
      read_expr 5 s'.heap root = some
        (if get_precedence op2 > get_precedence op1 then
          ExprTree.binary op1 (s.curr + 1) (ExprTree.factor (leaf_factor_kind a.type) s.curr)
            (ExprTree.binary op2 (s.curr + 3) (ExprTree.factor (leaf_factor_kind b.type) (s.curr + 2))
              (ExprTree.factor (leaf_factor_kind c.type) (s.curr + 4)))
        else
          ExprTree.binary op2 (s.curr + 3)
            (ExprTree.binary op1 (s.curr + 1) (ExprTree.factor (leaf_factor_kind a.type) s.curr)
              (ExprTree.factor (leaf_factor_kind b.type) (s.curr + 2)))
            (ExprTree.factor (leaf_factor_kind c.type) (s.curr + 4)))) ∧
    (binary_op_of_token (ascii '%') = some Binary_Op_Modulus ∧ get_precedence Binary_Op_Modulus = 7) ∧
    (binary_op_of_token (ascii '*') = some Binary_Op_Multiply ∧ get_precedence Binary_Op_Multiply = 6) ∧
    (binary_op_of_token (ascii '/') = some Binary_Op_Divide ∧ get_precedence Binary_Op_Divide = 6) ∧
    (binary_op_of_token (ascii '+') = some Binary_Op_Add ∧ get_precedence Binary_Op_Add = 5) ∧
    (binary_op_of_token (ascii '-') = some Binary_Op_Minus ∧ get_precedence Binary_Op_Minus = 5) ∧
    (binary_op_of_token (ascii '<') = some Binary_Op_Less ∧ get_precedence Binary_Op_Less = 4) ∧
    (binary_op_of_token Token_Type_Less_Equal = some Binary_Op_Less_Equal
      ∧ get_precedence Binary_Op_Less_Equal = 4) ∧
    (binary_op_of_token (ascii '>') = some Binary_Op_Greater ∧ get_precedence Binary_Op_Greater = 4) ∧
    (binary_op_of_token Token_Type_Greater_Equal = some Binary_Op_Greater_Equal
      ∧ get_precedence Binary_Op_Greater_Equal = 4) ∧
    (binary_op_of_token Token_Type_Equal_Equal = some Binary_Op_Equal
      ∧ get_precedence Binary_Op_Equal = 3) ∧
    (binary_op_of_token Token_Type_Not_Equal = some Binary_Op_Not_Equal
      ∧ get_precedence Binary_Op_Not_Equal = 3) := by
  refine ⟨?_, ⟨rfl, rfl⟩, ⟨rfl, rfl⟩, ⟨rfl, rfl⟩, ⟨rfl, rfl⟩, ⟨rfl, rfl⟩, ⟨rfl, rfl⟩, ⟨rfl, rfl⟩,
    ⟨rfl, rfl⟩, ⟨rfl, rfl⟩, ⟨rfl, rfl⟩, ⟨rfl, rfl⟩⟩
  have hall : ∀ p ∈ [(o1, b), (o2, c)],
      (binary_op_of_token p.1.type).isSome = true ∧ is_leaf_factor p.2.type = true := by
    intro p hp
    simp only [List.mem_cons, List.mem_singleton, List.not_mem_nil, or_false] at hp
    rcases hp with rfl | rfl
    · exact ⟨by simp [ho1], hb⟩
    · exact ⟨by simp [ho2], hc⟩
  obtain ⟨s', root, hrun, -, hmsg, -, -, -, hcurr, -, htree, hroot, -⟩ :=
    parse_expression_run s a [(o1, b), (o2, c)] t post fuel htoks ha hall hend hfuel
  have hsh := shunt_two op1 op2 (leaf_factor_kind a.type) (leaf_factor_kind b.type)
    (leaf_factor_kind c.type) s.curr
  simp only [pair_ops, List.map_cons, List.map_nil, token_op_eq ho1, token_op_eq ho2, hsh]
    at htree hroot
  refine ⟨s', root, hrun, hcurr, hmsg, ?_⟩
  rw [hroot]
  refine read_expr_of_tree_in_heap s'.heap _ _ _ htree 5 ?_
  split_ifs <;> simp [ExprTree.depth]

/-- Witness of C1: the stream `a + b * c ;`. -/
theorem parse_expression_three_factors_witness :
    ∃ s' root, parse_expression 5 (onyx_parser_create a_plus_b_times_c) = Res.ok root s' ∧
      s'.curr = 0 + 5 ∧ s'.msgs = [] ∧
      read_expr 5 s'.heap root = some
        (if get_precedence Binary_Op_Multiply > get_precedence Binary_Op_Add then
          ExprTree.binary Binary_Op_Add (0 + 1) (ExprTree.factor Ast_Kind_Symbol 0)
            (ExprTree.binary Binary_Op_Multiply (0 + 3) (ExprTree.factor Ast_Kind_Symbol (0 + 2))
              (ExprTree.factor Ast_Kind_Symbol (0 + 4)))
        else
          ExprTree.binary Binary_Op_Multiply (0 + 3)
            (ExprTree.binary Binary_Op_Add (0 + 1) (ExprTree.factor Ast_Kind_Symbol 0)
              (ExprTree.factor Ast_Kind_Symbol (0 + 2)))
            (ExprTree.factor Ast_Kind_Symbol (0 + 4))) :=
  (parse_expression_three_factors (onyx_parser_create a_plus_b_times_c)
    (symbol_token 'a' 1) (plain_token (ascii '+') 3) (symbol_token 'b' 5)
    (plain_token (ascii '*') 7) (symbol_token 'c' 9) (plain_token (ascii ';') 10) []
    Binary_Op_Add Binary_Op_Multiply 5 (by decide) (by decide) (by decide) (by decide)
    (by decide) (by decide) (by decide) (by decide)).1

/-- The four instances named in C1, by running the parser:
`a + b * c` gives `+(a, *(b, c))`, `a * b + c` gives `+(*(a, b), c)`,
`a == b < c` gives `==(a, <(b, c))`, `a - b - c` gives `-(-(a, b), c)`. -/
theorem precedence_and_associativity_examples :
    parsed_tree 5 a_plus_b_times_c = some
      (ExprTree.binary Binary_Op_Add 1 (ExprTree.factor Ast_Kind_Symbol 0)
        (ExprTree.binary Binary_Op_Multiply 3 (ExprTree.factor Ast_Kind_Symbol 2)
          (ExprTree.factor Ast_Kind_Symbol 4))) ∧
    parsed_tree 5 a_times_b_plus_c = some
      (ExprTree.binary Binary_Op_Add 3
        (ExprTree.binary Binary_Op_Multiply 1 (ExprTree.factor Ast_Kind_Symbol 0)
          (ExprTree.factor Ast_Kind_Symbol 2))
        (ExprTree.factor Ast_Kind_Symbol 4)) ∧
    parsed_tree 5 a_equal_b_less_c = some
      (ExprTree.binary Binary_Op_Equal 1 (ExprTree.factor Ast_Kind_Symbol 0)
        (ExprTree.binary Binary_Op_Less 3 (ExprTree.factor Ast_Kind_Symbol 2)
          (ExprTree.factor Ast_Kind_Symbol 4))) ∧
    parsed_tree 5 a_minus_b_minus_c = some
      (ExprTree.binary Binary_Op_Minus 3
        (ExprTree.binary Binary_Op_Minus 1 (ExprTree.factor Ast_Kind_Symbol 0)
          (ExprTree.factor Ast_Kind_Symbol 2))
        (ExprTree.factor Ast_Kind_Symbol 4)) := by
  decide!

/-- C2: for every token sequence `f0 op1 f1 ... opn fn` of single-token factors
and binary operators (followed by a token that ends the expression),
`parse_expression` returns a tree whose in-order traversal is exactly the
sequence, in which every BinaryOp that is a right child has strictly higher
precedence than its parent and every BinaryOp that is a left child has a
precedence greater than or equal to its parent's; and it is the only such tree. -/
theorem parse_expression_precedence_tree (s : OnyxParser) (f0 : OnyxToken)
    (rest : List (OnyxToken × OnyxToken)) (t : OnyxToken) (post : List OnyxToken) (fuel : Nat)
    (htoks : s.tokens.drop s.curr = f0 :: (flatten_pairs rest ++ t :: post))
    (hf0 : is_leaf_factor f0.type = true)
    (hall : ∀ p ∈ rest, (binary_op_of_token p.1.type).isSome = true ∧ is_leaf_factor p.2.type = true)
    (hend : ends_expression t.type = true) (hfuel : rest.length + 3 ≤ fuel) :
    ∃ s' root tree, parse_expression fuel s = Res.ok root s' ∧
      s'.curr = s.curr + 1 + 2 * rest.length ∧ s'.msgs = s.msgs ∧
      read_expr (1 + 2 * rest.length) s'.heap root = some tree ∧
      tree.inorder = List.range' s.curr (1 + 2 * rest.length) ∧
      tree.matches_tokens s.tokens ∧
      tree.precedence_ordered ∧
      ∀ tree' : ExprTree, tree'.inorder = List.range' s.curr (1 + 2 * rest.length) →
        tree'.matches_tokens s.tokens → tree'.precedence_ordered → tree' = tree := by
  obtain ⟨s', root, hrun, -, hmsg, -, -, -, hcurr, -, htree, hroot, hin⟩ :=
    parse_expression_run s f0 rest t post fuel htoks hf0 hall hend hfuel
  have hf0' := drop_eq_cons _ _ _ _ htoks
  have hd : s.tokens.drop (s.curr + 1) = flatten_pairs rest ++ t :: post := by
    have : s.tokens.drop (s.curr + 1) = (s.tokens.drop s.curr).drop 1 := by rw [List.drop_drop]
    rw [this, htoks]; rfl
  have hmatch := shunt_matches s.tokens rest (s.curr + 1) []
    (ExprTree.factor (leaf_factor_kind f0.type) s.curr) (t :: post) hd hall
    (fun f hf => by simp at hf) ⟨f0, hf0', hf0, rfl⟩
  have hord := shunt_ordered (pair_ops rest) (s.curr + 1) []
    (ExprTree.factor (leaf_factor_kind f0.type) s.curr) trivial trivial
    (fun f hf => by simp at hf) rfl
  refine ⟨s', root, _, hrun, hcurr, hmsg, ?_, hin, hmatch, hord, ?_⟩
  · rw [hroot]
    refine read_expr_of_tree_in_heap s'.heap _ _ _ htree _ ?_
    have := depth_le_length (shunt (pair_ops rest) (s.curr + 1) []
      (ExprTree.factor (leaf_factor_kind f0.type) s.curr))
    rw [hin, List.length_range'] at this
    exact this
  · intro tree' hin' hm' ho'
    refine ordered_tree_unique s.tokens tree' _ (hin'.trans hin.symm) ?_ hm' hmatch ho' hord
    rw [hin']
    exact List.nodup_range' _ _

/-- Witness of C2: the stream `a + b * c ;`. -/
theorem parse_expression_precedence_tree_witness :
    ∃ s' root tree, parse_expression 5 (onyx_parser_create a_plus_b_times_c) = Res.ok root s' ∧
      s'.curr = 0 + 1 + 2 * 2 ∧ s'.msgs = [] ∧
      read_expr (1 + 2 * 2) s'.heap root = some tree ∧
      tree.inorder = List.range' 0 (1 + 2 * 2) ∧
      tree.matches_tokens a_plus_b_times_c ∧
      tree.precedence_ordered ∧
      ∀ tree' : ExprTree, tree'.inorder = List.range' 0 (1 + 2 * 2) →
        tree'.matches_tokens a_plus_b_times_c → tree'.precedence_ordered → tree' = tree :=
  parse_expression_precedence_tree (onyx_parser_create a_plus_b_times_c)
    (symbol_token 'a' 1)
    [(plain_token (ascii '+') 3, symbol_token 'b' 5), (plain_token (ascii '*') 7, symbol_token 'c' 9)]
    (plain_token (ascii ';') 10) [] 5 (by decide) (by decide) (by decide) (by decide) (by decide)

end Onyx
namespace Onyx

open TokenType AstKind BinaryOp UnaryOp BasicKind OnyxMessageType

/-! ## The semicolon rule of `parse_statement` -/

end Onyx
namespace Onyx

open TokenType AstKind BinaryOp UnaryOp BasicKind OnyxMessageType

end Onyx
namespace Onyx

open TokenType AstKind BinaryOp UnaryOp BasicKind OnyxMessageType

end Onyx
namespace Onyx

open TokenType AstKind BinaryOp UnaryOp BasicKind OnyxMessageType

/-! ## Frame conditions: the rules -/

theorem good_pure {α : Type} [Safe α] (v : AstNode → AstNode) (b : Nat) (a : α)
    (h : Safe.safe b a) : Good v b (pure a : P α) := by
  constructor
  intro s r s' _ hrun
  simp only [pure_run, Res.ok.injEq] at hrun
  obtain ⟨rfl, rfl⟩ := hrun
  exact ⟨le_refl _, fun _ _ => rfl, rfl, h⟩

theorem good_raise {α : Type} [Safe α] (v : AstNode → AstNode) (b : Nat) (f : Fault) :
    Good v b (raise f : P α) := by
  constructor
  intro s r s' _ hrun
  exact Res.noConfusion hrun

theorem good_bind {α β : Type} [Safe α] [Safe β] (v : AstNode → AstNode) (b : Nat) (m : P α)
    (f : α → P β) (hm : Good v b m) (hf : ∀ a, Safe.safe b a → Good v b (f a)) :
    Good v b (m >>= f) := by
  constructor
  intro s r s' hb hrun
  obtain ⟨a, s1, h1, h2⟩ := bind_ok.1 hrun
  obtain ⟨hl1, hfr1, htok1, hsafe1⟩ := hm.run s a s1 hb h1
  obtain ⟨hl2, hfr2, htok2, hsafe2⟩ := (hf a hsafe1).run s1 r s' (le_trans hb hl1) h2
  exact ⟨le_trans hl1 hl2, fun i hi => (hfr2 i hi).trans (hfr1 i hi), htok2.trans htok1, hsafe2⟩

theorem good_ite {α : Type} [Safe α] (v : AstNode → AstNode) (b : Nat) (c : Prop) [Decidable c]
    (m1 m2 : P α) (h1 : Good v b m1) (h2 : Good v b m2) : Good v b (if c then m1 else m2) := by
  split_ifs
  · exact h1
  · exact h2

/-- A run that leaves the arena and the tokens as they are. -/
theorem good_of_heap_unchanged {α : Type} [Safe α] (v : AstNode → AstNode) (b : Nat) (m : P α)
    (h : ∀ s r s', m s = Res.ok r s' →
      s'.heap = s.heap ∧ s'.tokens = s.tokens ∧ Safe.safe b r) :
    Good v b m := by
  constructor
  intro s r s' _ hrun
  obtain ⟨h1, h3, h4⟩ := h s r s' hrun
  exact ⟨by rw [h1], fun i _ => by rw [h1], h3, h4⟩

theorem good_curr_type (v : AstNode → AstNode) (b : Nat) : Good v b curr_type := by
  apply good_of_heap_unchanged
  intro s r s' h
  obtain ⟨rfl, _⟩ := curr_type_ok h
  exact ⟨rfl, rfl, trivial⟩

theorem good_curr_token (v : AstNode → AstNode) (b : Nat) : Good v b curr_token := by
  apply good_of_heap_unchanged
  intro s r s' h
  unfold curr_token at h
  split at h
  · injection h with _ h; subst h; exact ⟨rfl, rfl, trivial⟩
  · exact Res.noConfusion h

theorem good_curr_ptr (v : AstNode → AstNode) (b : Nat) : Good v b curr_ptr := by
  apply good_of_heap_unchanged
  intro s r s' h
  injection h with _ h; subst h; exact ⟨rfl, rfl, trivial⟩

theorem good_read_token (v : AstNode → AstNode) (b : Nat) (t : Option Nat) :
    Good v b (read_token t) := by
  apply good_of_heap_unchanged
  intro s r s' h
  unfold read_token at h
  split at h
  · exact Res.noConfusion h
  · split at h
    · injection h with _ h; subst h; exact ⟨rfl, rfl, trivial⟩
    · exact Res.noConfusion h

theorem good_consume_token (v : AstNode → AstNode) (b : Nat) : Good v b consume_token := by
  apply good_of_heap_unchanged
  intro s r s' h
  unfold consume_token at h
  split at h
  · injection h with _ h; subst h; exact ⟨rfl, rfl, trivial⟩
  · exact Res.noConfusion h

theorem good_unconsume_token (v : AstNode → AstNode) (b : Nat) : Good v b unconsume_token := by
  apply good_of_heap_unchanged
  intro s r s' h
  unfold unconsume_token at h
  split at h
  · exact Res.noConfusion h
  · exact Res.noConfusion h
  · split at h
    · injection h with _ h; subst h; exact ⟨rfl, rfl, trivial⟩
    · exact Res.noConfusion h

theorem good_onyx_message_add (v : AstNode → AstNode) (b : Nat) (ty : OnyxMessageType)
    (pos : OnyxFilePos) (args : List MsgArg) : Good v b (onyx_message_add ty pos args) := by
  apply good_of_heap_unchanged
  intro s r s' h
  injection h with _ h; subst h; exact ⟨rfl, rfl, trivial⟩

theorem good_make_node (v : AstNode → AstNode) (b : Nat) (k : AstKind) :
    Good v b (make_node k) := by
  constructor
  intro s r s' hb hrun
  rw [make_node_run] at hrun
  injection hrun with h1 h2
  subst h1 h2
  refine ⟨by simp, fun i hi => ?_, rfl, ?_⟩
  · show ((s.heap ++ _)[i]?).map v = _
    rw [List.getElem?_append_left (by omega)]
  · intro j hj
    injection hj with hj
    omega

theorem good_read_node (v : AstNode → AstNode) (b : Nat) (p : NodePtr) :
    Good v b (read_node p) := by
  apply good_of_heap_unchanged
  intro s r s' hrun
  unfold read_node at hrun
  cases p with
  | null => exact Res.noConfusion hrun
  | node i =>
    simp only at hrun
    split at hrun
    · injection hrun with h1 h2
      subst h2
      exact ⟨rfl, rfl, trivial⟩
    · exact Res.noConfusion hrun
  | error_node =>
    injection hrun with h1 h2
    subst h2
    exact ⟨rfl, rfl, trivial⟩
  | basic k =>
    injection hrun with h1 h2
    subst h2
    exact ⟨rfl, rfl, trivial⟩

/-- A write through a pointer that does not point below `b`. -/
theorem good_modify_node (v : AstNode → AstNode) (b : Nat) (p : NodePtr) (f : AstNode → AstNode)
    (hp : safe_ptr b p) : Good v b (modify_node p f) := by
  constructor
  intro s r s' hb hrun
  unfold modify_node at hrun
  cases p with
  | null => exact Res.noConfusion hrun
  | node i =>
    simp only at hrun
    split at hrun
    · rename_i n hn
      injection hrun with h1 h2
      subst h2
      have hbi := hp i rfl
      refine ⟨by simp, fun j hj => ?_, rfl, trivial⟩
      show ((s.heap.set i (f n))[j]?).map v = _
      rw [List.getElem?_set_ne (by omega)]
    · exact Res.noConfusion hrun
  | error_node =>
    injection hrun with h1 h2
    subst h2
    exact ⟨le_refl _, fun _ _ => rfl, rfl, trivial⟩
  | basic k => exact Res.noConfusion hrun

/-- A write that the view does not see. -/
theorem good_modify_view (v : AstNode → AstNode) (b : Nat) (p : NodePtr) (f : AstNode → AstNode)
    (hf : ∀ n, v (f n) = v n) : Good v b (modify_node p f) := by
  constructor
  intro s r s' hb hrun
  unfold modify_node at hrun
  cases p with
  | null => exact Res.noConfusion hrun
  | node i =>
    simp only at hrun
    split at hrun
    · rename_i n hn
      injection hrun with h1 h2
      subst h2
      refine ⟨by simp, fun j hj => ?_, rfl, trivial⟩
      show ((s.heap.set i (f n))[j]?).map v = _
      by_cases hij : i = j
      · subst hij
        have hlt : i < s.heap.length := by
          by_contra hlt
          rw [List.getElem?_eq_none (by omega)] at hn
          exact Option.noConfusion hn
        rw [List.getElem?_set_self hlt, hn]
        simp only [Option.map_some', hf]
      · rw [List.getElem?_set_ne hij]
    · exact Res.noConfusion hrun
  | error_node =>
    injection hrun with h1 h2
    subst h2
    exact ⟨le_refl _, fun _ _ => rfl, rfl, trivial⟩
  | basic k => exact Res.noConfusion hrun

/-- The walk to the end of a statement chain, followed by anything that keeps the frame. -/
theorem good_last_in_chain_bind {β : Type} [Safe β] (v : AstNode → AstNode) (b : Nat)
    (f : NodePtr → P β) (hf : ∀ a, Good v b (f a)) :
    ∀ fuel stmt, Good v b (last_in_chain fuel stmt >>= f) := by
  have hwalk : ∀ fuel stmt s r s', last_in_chain fuel stmt s = Res.ok r s' → s' = s := by
    intro fuel
    induction fuel with
    | zero => intro stmt s r s' h; exact Res.noConfusion h
    | succ n ih =>
      intro stmt s r s' h
      rw [last_in_chain] at h
      obtain ⟨m, s1, h1, h2⟩ := bind_ok.1 h
      have hs1 : s1 = s := by
        unfold read_node at h1
        cases stmt with
        | null => exact Res.noConfusion h1
        | node i =>
          simp only at h1
          split at h1
          · injection h1 with _ h1; exact h1.symm
          · exact Res.noConfusion h1
        | error_node => injection h1 with _ h1; exact h1.symm
        | basic k => injection h1 with _ h1; exact h1.symm
      subst hs1
      rw [ite_run] at h2
      split_ifs at h2
      · exact ih _ _ _ _ h2
      · simp only [pure_run, Res.ok.injEq] at h2
        exact h2.2.symm
  intro fuel stmt
  constructor
  intro s r s' hb hrun
  obtain ⟨a, s1, h1, h2⟩ := bind_ok.1 hrun
  have hs1 := hwalk fuel stmt s a s1 h1
  subst hs1
  exact (hf a).run s1 r s' hb h2

end Onyx

namespace Onyx

open TokenType AstKind BinaryOp UnaryOp BasicKind OnyxMessageType

/-! ## Frame conditions: the parsing functions -/

set_option linter.unusedTactic false
set_option linter.unreachableTactic false

theorem safe_ptr_null (b : Nat) : safe_ptr b NodePtr.null := fun _ h => NodePtr.noConfusion h

theorem safe_ptr_error (b : Nat) : safe_ptr b NodePtr.error_node := fun _ h => NodePtr.noConfusion h

theorem safe_ptr_basic (b : Nat) (k : BasicKind) : safe_ptr b (NodePtr.basic k) :=
  fun _ h => NodePtr.noConfusion h

theorem safe_list_nil (b : Nat) : Safe.safe b ([] : List NodePtr) := fun _ h => by simp at h

theorem safe_list_cons (b : Nat) (p : NodePtr) (l : List NodePtr) (hp : Safe.safe b p)
    (hl : Safe.safe b l) : Safe.safe b (p :: l) := by
  intro q hq
  simp only [List.mem_cons] at hq
  rcases hq with rfl | hq
  · exact hp
  · exact hl q hq

theorem safe_list_head (b : Nat) (p : NodePtr) (l : List NodePtr) (h : Safe.safe b (p :: l)) :
    safe_ptr b p := h p (by simp)

theorem safe_list_tail (b : Nat) (p : NodePtr) (l : List NodePtr) (h : Safe.safe b (p :: l)) :
    Safe.safe b l := fun q hq => h q (by simp [hq])

theorem good_expect_token (v : AstNode → AstNode) (b : Nat) (ty : TokenType) : Good v b (expect_token ty) := by
  unfold expect_token
  repeat' first
      | assumption
      | exact trivial
      | exact safe_ptr_null _
      | exact safe_ptr_error _
      | exact safe_ptr_basic _ _
      | exact safe_list_nil _
      | (apply safe_list_cons <;> assumption)
      | (apply safe_list_head <;> assumption)
      | (apply safe_list_tail <;> assumption)
      | apply good_curr_type
      | apply good_curr_token
      | apply good_curr_ptr
      | apply good_read_token
      | apply good_consume_token
      | apply good_unconsume_token
      | apply good_onyx_message_add
      | apply good_make_node
      | apply good_read_node
      | apply good_modify_node
      | apply good_bind
      | apply good_ite
      | apply good_pure
      | apply good_raise
      | intro _
      | split

theorem good_token_toggle_end (v : AstNode → AstNode) (b : Nat) (t : Option Nat) : Good v b (token_toggle_end t) := by
  unfold token_toggle_end
  repeat' first
      | assumption
      | exact trivial
      | exact safe_ptr_null _
      | exact safe_ptr_error _
      | exact safe_ptr_basic _ _
      | exact safe_list_nil _
      | (apply safe_list_cons <;> assumption)
      | (apply safe_list_head <;> assumption)
      | (apply safe_list_tail <;> assumption)
      | apply good_curr_type
      | apply good_curr_token
      | apply good_curr_ptr
      | apply good_read_token
      | apply good_consume_token
      | apply good_unconsume_token
      | apply good_onyx_message_add
      | apply good_make_node
      | apply good_read_node
      | apply good_modify_node
      | apply good_bind
      | apply good_ite
      | apply good_pure
      | apply good_raise
      | intro _
      | split

theorem good_find_token (v : AstNode → AstNode) (b : Nat) (ty : TokenType) : ∀ fuel, Good v b (find_token fuel ty) := by
  intro fuel
  induction fuel with
  | zero => exact good_raise v b _
  | succ n ih =>
    rw [find_token]
    repeat' first
        | assumption
        | exact trivial
        | exact safe_ptr_null _
        | exact safe_ptr_error _
        | exact safe_ptr_basic _ _
        | exact safe_list_nil _
        | (apply safe_list_cons <;> assumption)
        | (apply safe_list_head <;> assumption)
        | (apply safe_list_tail <;> assumption)
        | apply good_curr_type
        | apply good_curr_token
        | apply good_curr_ptr
        | apply good_read_token
        | apply good_consume_token
        | apply good_unconsume_token
        | apply good_onyx_message_add
        | apply good_make_node
        | apply good_read_node
        | apply good_modify_node
        | apply good_expect_token
        | apply good_token_toggle_end
        | apply ih
        | apply good_bind
        | apply good_ite
        | apply good_pure
        | apply good_raise
        | intro _
        | split

theorem good_write_slot (v : AstNode → AstNode) (b : Nat) (slot : NodeSlot) (p : NodePtr) (hs : Safe.safe b slot) :
    Good v b (write_slot slot p) := by
  cases slot <;> unfold write_slot <;> exact good_modify_node v b _ _ hs

theorem good_parse_numeric_literal (v : AstNode → AstNode) (b : Nat) : Good v b parse_numeric_literal := by
  unfold parse_numeric_literal
  repeat' first
      | assumption
      | exact trivial
      | exact safe_ptr_null _
      | exact safe_ptr_error _
      | exact safe_ptr_basic _ _
      | exact safe_list_nil _
      | (apply safe_list_cons <;> assumption)
      | (apply safe_list_head <;> assumption)
      | (apply safe_list_tail <;> assumption)
      | apply good_curr_type
      | apply good_curr_token
      | apply good_curr_ptr
      | apply good_read_token
      | apply good_consume_token
      | apply good_unconsume_token
      | apply good_onyx_message_add
      | apply good_make_node
      | apply good_read_node
      | apply good_modify_node
      | apply good_expect_token
      | apply good_token_toggle_end
      | apply good_bind
      | apply good_ite
      | apply good_pure
      | apply good_raise
      | intro _
      | split

theorem good_parse_type_loop (v : AstNode → AstNode) (b : Nat) : ∀ fuel root slot, Safe.safe b root → Safe.safe b slot →
    Good v b (parse_type_loop fuel root slot) := by
  intro fuel
  induction fuel with
  | zero => intro _ _ _ _; exact good_raise v b _
  | succ n ih =>
    intro root slot hroot hslot
    rw [parse_type_loop]
    cases slot with
    | root =>
      repeat' first
          | assumption
          | exact trivial
          | exact safe_ptr_null _
          | exact safe_ptr_error _
          | exact safe_ptr_basic _ _
          | exact safe_list_nil _
          | (apply safe_list_cons <;> assumption)
          | (apply safe_list_head <;> assumption)
          | (apply safe_list_tail <;> assumption)
          | apply good_curr_type
          | apply good_curr_token
          | apply good_curr_ptr
          | apply good_read_token
          | apply good_consume_token
          | apply good_unconsume_token
          | apply good_onyx_message_add
          | apply good_make_node
          | apply good_read_node
          | apply good_modify_node
          | apply good_expect_token
          | apply good_token_toggle_end
          | apply ih
          | apply good_bind
          | apply good_ite
          | apply good_pure
          | apply good_raise
          | intro _
          | split
    | elem p =>
      have hp : safe_ptr b p := hslot
      repeat' first
          | assumption
          | exact trivial
          | exact safe_ptr_null _
          | exact safe_ptr_error _
          | exact safe_ptr_basic _ _
          | exact safe_list_nil _
          | (apply safe_list_cons <;> assumption)
          | (apply safe_list_head <;> assumption)
          | (apply safe_list_tail <;> assumption)
          | apply good_curr_type
          | apply good_curr_token
          | apply good_curr_ptr
          | apply good_read_token
          | apply good_consume_token
          | apply good_unconsume_token
          | apply good_onyx_message_add
          | apply good_make_node
          | apply good_read_node
          | apply good_modify_node
          | apply good_expect_token
          | apply good_token_toggle_end
          | apply ih
          | apply good_bind
          | apply good_ite
          | apply good_pure
          | apply good_raise
          | intro _
          | split

theorem good_parse_type (v : AstNode → AstNode) (b : Nat) (fuel : Nat) : Good v b (parse_type fuel) :=
  good_parse_type_loop v b fuel _ _ (safe_ptr_null b) (safe_ptr_null b)

theorem good_parse_factor_casts (v : AstNode → AstNode) (b : Nat) : ∀ fuel retval, Safe.safe b retval →
    Good v b (parse_factor_casts fuel retval) := by
  intro fuel
  induction fuel with
  | zero => intro _ _; exact good_raise v b _
  | succ n ih =>
    intro retval hret
    rw [parse_factor_casts]
    repeat' first
        | assumption
        | exact trivial
        | exact safe_ptr_null _
        | exact safe_ptr_error _
        | exact safe_ptr_basic _ _
        | exact safe_list_nil _
        | (apply safe_list_cons <;> assumption)
        | (apply safe_list_head <;> assumption)
        | (apply safe_list_tail <;> assumption)
        | apply good_curr_type
        | apply good_curr_token
        | apply good_curr_ptr
        | apply good_read_token
        | apply good_consume_token
        | apply good_unconsume_token
        | apply good_onyx_message_add
        | apply good_make_node
        | apply good_read_node
        | apply good_modify_node
        | apply good_expect_token
        | apply good_token_toggle_end
        | apply good_parse_type
        | apply ih
        | apply good_bind
        | apply good_ite
        | apply good_pure
        | apply good_raise
        | intro _
        | split

theorem good_pop_tree_stack (v : AstNode → AstNode) (b : Nat) (op : BinaryOp) : ∀ st : List NodePtr, Safe.safe b st →
    Good v b (pop_tree_stack op st) := by
  intro st
  induction st with
  | nil => intro _; exact good_pure v b _ (safe_list_nil b)
  | cons top rest ih =>
    intro hst
    rw [pop_tree_stack]
    have hrest := safe_list_tail b top rest hst
    repeat' first
        | assumption
        | exact trivial
        | exact safe_ptr_null _
        | exact safe_ptr_error _
        | exact safe_ptr_basic _ _
        | exact safe_list_nil _
        | (apply safe_list_cons <;> assumption)
        | (apply safe_list_head <;> assumption)
        | (apply safe_list_tail <;> assumption)
        | apply good_curr_type
        | apply good_curr_token
        | apply good_curr_ptr
        | apply good_read_token
        | apply good_consume_token
        | apply good_unconsume_token
        | apply good_onyx_message_add
        | apply good_make_node
        | apply good_read_node
        | apply good_modify_node
        | apply good_expect_token
        | apply good_token_toggle_end
        | apply ih
        | apply good_bind
        | apply good_ite
        | apply good_pure
        | apply good_raise
        | intro _
        | split

/-- The frame condition of the four mutually recursive expression functions. -/
theorem good_expression_level (fuel : Nat) :
    (∀ v b, Good v b (parse_factor fuel)) ∧
    (∀ v b slot, Safe.safe b slot → Good v b (parse_call_arguments fuel slot)) ∧
    (∀ v b, Good v b (parse_expression fuel)) ∧
    (∀ v b left root st, Safe.safe b root → Safe.safe b st →
      Good v b (parse_expression_loop fuel left root st)) := by
  induction fuel with
  | zero =>
    refine ⟨fun v b => ?_, fun v b _ _ => ?_, fun v b => ?_, fun v b _ _ _ _ _ => ?_⟩
    · rw [parse_factor]; exact good_raise v b _
    · rw [parse_call_arguments]; exact good_raise v b _
    · rw [parse_expression]; exact good_raise v b _
    · rw [parse_expression_loop]; exact good_raise v b _
  | succ n ih =>
    obtain ⟨ihf, iha, ihe, ihl⟩ := ih
    refine ⟨fun v b => ?_, fun v b slot hslot => ?_, fun v b => ?_, fun v b left root st hroot hst => ?_⟩
    · rw [parse_factor]
      repeat' first
          | assumption
          | exact trivial
          | exact safe_ptr_null _
          | exact safe_ptr_error _
          | exact safe_ptr_basic _ _
          | exact safe_list_nil _
          | (apply safe_list_cons <;> assumption)
          | (apply safe_list_head <;> assumption)
          | (apply safe_list_tail <;> assumption)
          | apply good_curr_type
          | apply good_curr_token
          | apply good_curr_ptr
          | apply good_read_token
          | apply good_consume_token
          | apply good_unconsume_token
          | apply good_onyx_message_add
          | apply good_make_node
          | apply good_read_node
          | apply good_modify_node
          | apply good_expect_token
          | apply good_token_toggle_end
          | apply good_parse_type
          | apply good_parse_factor_casts
          | apply good_pop_tree_stack
          | apply good_parse_numeric_literal
          | apply good_write_slot
          | apply ihf
          | apply iha
          | apply ihe
          | apply ihl
          | apply good_bind
          | apply good_ite
          | apply good_pure
          | apply good_raise
          | intro _
          | split
    · rw [parse_call_arguments]
      repeat' first
          | assumption
          | exact trivial
          | exact safe_ptr_null _
          | exact safe_ptr_error _
          | exact safe_ptr_basic _ _
          | exact safe_list_nil _
          | (apply safe_list_cons <;> assumption)
          | (apply safe_list_head <;> assumption)
          | (apply safe_list_tail <;> assumption)
          | apply good_curr_type
          | apply good_curr_token
          | apply good_curr_ptr
          | apply good_read_token
          | apply good_consume_token
          | apply good_unconsume_token
          | apply good_onyx_message_add
          | apply good_make_node
          | apply good_read_node
          | apply good_modify_node
          | apply good_expect_token
          | apply good_token_toggle_end
          | apply good_parse_type
          | apply good_parse_factor_casts
          | apply good_pop_tree_stack
          | apply good_parse_numeric_literal
          | apply good_write_slot
          | apply ihf
          | apply iha
          | apply ihe
          | apply ihl
          | apply good_bind
          | apply good_ite
          | apply good_pure
          | apply good_raise
          | intro _
          | split
    · rw [parse_expression]
      repeat' first
          | assumption
          | exact trivial
          | exact safe_ptr_null _
          | exact safe_ptr_error _
          | exact safe_ptr_basic _ _
          | exact safe_list_nil _
          | (apply safe_list_cons <;> assumption)
          | (apply safe_list_head <;> assumption)
          | (apply safe_list_tail <;> assumption)
          | apply good_curr_type
          | apply good_curr_token
          | apply good_curr_ptr
          | apply good_read_token
          | apply good_consume_token
          | apply good_unconsume_token
          | apply good_onyx_message_add
          | apply good_make_node
          | apply good_read_node
          | apply good_modify_node
          | apply good_expect_token
          | apply good_token_toggle_end
          | apply good_parse_type
          | apply good_parse_factor_casts
          | apply good_pop_tree_stack
          | apply good_parse_numeric_literal
          | apply good_write_slot
          | apply ihf
          | apply iha
          | apply ihe
          | apply ihl
          | apply good_bind
          | apply good_ite
          | apply good_pure
          | apply good_raise
          | intro _
          | split
    · rw [parse_expression_loop]
      repeat' first
          | assumption
          | exact trivial
          | exact safe_ptr_null _
          | exact safe_ptr_error _
          | exact safe_ptr_basic _ _
          | exact safe_list_nil _
          | (apply safe_list_cons <;> assumption)
          | (apply safe_list_head <;> assumption)
          | (apply safe_list_tail <;> assumption)
          | apply good_curr_type
          | apply good_curr_token
          | apply good_curr_ptr
          | apply good_read_token
          | apply good_consume_token
          | apply good_unconsume_token
          | apply good_onyx_message_add
          | apply good_make_node
          | apply good_read_node
          | apply good_modify_node
          | apply good_expect_token
          | apply good_token_toggle_end
          | apply good_parse_type
          | apply good_parse_factor_casts
          | apply good_pop_tree_stack
          | apply good_parse_numeric_literal
          | apply good_write_slot
          | apply ihf
          | apply iha
          | apply ihe
          | apply ihl
          | apply good_bind
          | apply good_ite
          | apply good_pure
          | apply good_raise
          | intro _
          | split

theorem good_parse_expression (v : AstNode → AstNode) (b fuel : Nat) :
    Good v b (parse_expression fuel) :=
  (good_expression_level fuel).2.2.1 v b

theorem good_parse_symbol_statement (v : AstNode → AstNode) (b fuel : Nat) (ret : NodePtr)
    (hret : Safe.safe b ret) : Good v b (parse_symbol_statement fuel ret) := by
  unfold parse_symbol_statement
  repeat' first
      | assumption
      | exact trivial
      | exact safe_ptr_null _
      | exact safe_ptr_error _
      | exact safe_ptr_basic _ _
      | exact safe_list_nil _
      | (apply safe_list_cons <;> assumption)
      | (apply safe_list_head <;> assumption)
      | (apply safe_list_tail <;> assumption)
      | apply good_curr_type
      | apply good_curr_token
      | apply good_curr_ptr
      | apply good_read_token
      | apply good_consume_token
      | apply good_unconsume_token
      | apply good_onyx_message_add
      | apply good_make_node
      | apply good_read_node
      | apply good_modify_node
      | apply good_expect_token
      | apply good_token_toggle_end
      | apply good_parse_type
      | apply good_parse_factor_casts
      | apply good_pop_tree_stack
      | apply good_parse_numeric_literal
      | apply good_write_slot
      | apply good_parse_expression
      | apply good_bind
      | apply good_ite
      | apply good_pure
      | apply good_raise
      | intro _
      | split

theorem good_parse_return_statement (v : AstNode → AstNode) (b fuel : Nat) :
    Good v b (parse_return_statement fuel) := by
  unfold parse_return_statement
  repeat' first
      | assumption
      | exact trivial
      | exact safe_ptr_null _
      | exact safe_ptr_error _
      | exact safe_ptr_basic _ _
      | exact safe_list_nil _
      | (apply safe_list_cons <;> assumption)
      | (apply safe_list_head <;> assumption)
      | (apply safe_list_tail <;> assumption)
      | apply good_curr_type
      | apply good_curr_token
      | apply good_curr_ptr
      | apply good_read_token
      | apply good_consume_token
      | apply good_unconsume_token
      | apply good_onyx_message_add
      | apply good_make_node
      | apply good_read_node
      | apply good_modify_node
      | apply good_expect_token
      | apply good_token_toggle_end
      | apply good_parse_type
      | apply good_parse_factor_casts
      | apply good_pop_tree_stack
      | apply good_parse_numeric_literal
      | apply good_write_slot
      | apply good_parse_expression
      | apply good_bind
      | apply good_ite
      | apply good_pure
      | apply good_raise
      | intro _
      | split

theorem good_parse_statement_semicolon (v : AstNode → AstNode) (b fuel : Nat)
    (needs_semicolon : Bool) : Good v b (parse_statement_semicolon fuel needs_semicolon) := by
  unfold parse_statement_semicolon
  repeat' first
      | assumption
      | exact trivial
      | exact safe_ptr_null _
      | exact safe_ptr_error _
      | exact safe_ptr_basic _ _
      | exact safe_list_nil _
      | (apply safe_list_cons <;> assumption)
      | (apply safe_list_head <;> assumption)
      | (apply safe_list_tail <;> assumption)
      | apply good_curr_type
      | apply good_curr_token
      | apply good_curr_ptr
      | apply good_read_token
      | apply good_consume_token
      | apply good_unconsume_token
      | apply good_onyx_message_add
      | apply good_make_node
      | apply good_read_node
      | apply good_modify_node
      | apply good_expect_token
      | apply good_token_toggle_end
      | apply good_parse_type
      | apply good_parse_factor_casts
      | apply good_pop_tree_stack
      | apply good_parse_numeric_literal
      | apply good_write_slot
      | apply good_find_token
      | apply good_bind
      | apply good_ite
      | apply good_pure
      | apply good_raise
      | intro _
      | split

/-- A write through a slot that is free: only a `next` field below `b` can change. -/
theorem good_write_slot_next (b : Nat) (slot : NodeSlot) (p : NodePtr) (hs : slot_free b slot) :
    Good AstNode.clear_next b (write_slot slot p) := by
  cases slot with
  | arguments q => exact good_modify_node _ b _ _ hs
  | body q => exact good_modify_node _ b _ _ hs
  | next q => exact good_modify_view _ b _ _ (fun _ => rfl)

set_option maxHeartbeats 4000000 in
/-- The frame condition of the mutually recursive statement functions: below the address
`b` nothing but `next` fields can change. -/
theorem good_statement_level (fuel : Nat) :
    (∀ b, Good AstNode.clear_next b (parse_if_stmt fuel)) ∧
    (∀ b if_node, Safe.safe b if_node → Good AstNode.clear_next b (parse_if_elseifs fuel if_node)) ∧
    (∀ b, Good AstNode.clear_next b (parse_while_stmt fuel)) ∧
    (∀ b, Good AstNode.clear_next b (parse_statement_switch fuel)) ∧
    (∀ b, Good AstNode.clear_next b (parse_statement fuel)) ∧
    (∀ b, Good AstNode.clear_next b (parse_block fuel)) ∧
    (∀ b next, slot_free b next → Good AstNode.clear_next b (parse_block_loop fuel next)) := by
  induction fuel with
  | zero =>
    refine ⟨fun b => ?_, fun b _ _ => ?_, fun b => ?_, fun b => ?_, fun b => ?_, fun b => ?_,
      fun b _ _ => ?_⟩
    · rw [parse_if_stmt]; exact good_raise _ b _
    · rw [parse_if_elseifs]; exact good_raise _ b _
    · rw [parse_while_stmt]; exact good_raise _ b _
    · rw [parse_statement_switch]; exact good_raise _ b _
    · rw [parse_statement]; exact good_raise _ b _
    · rw [parse_block]; exact good_raise _ b _
    · rw [parse_block_loop]; exact good_raise _ b _
  | succ n ih =>
    obtain ⟨ihif, ihelse, ihwhile, ihswitch, ihstmt, ihblock, ihloop⟩ := ih
    refine ⟨fun b => ?_, fun b if_node hif => ?_, fun b => ?_, fun b => ?_, fun b => ?_,
      fun b => ?_, fun b next hnext => ?_⟩
    · rw [parse_if_stmt]
      repeat' first
          | assumption
          | exact trivial
          | exact safe_ptr_null _
          | exact safe_ptr_error _
          | exact safe_ptr_basic _ _
          | exact safe_list_nil _
          | (apply safe_list_cons <;> assumption)
          | (apply safe_list_head <;> assumption)
          | (apply safe_list_tail <;> assumption)
          | apply good_curr_type
          | apply good_curr_token
          | apply good_curr_ptr
          | apply good_read_token
          | apply good_consume_token
          | apply good_unconsume_token
          | apply good_onyx_message_add
          | apply good_make_node
          | apply good_read_node
          | apply good_modify_node
          | apply good_expect_token
          | apply good_token_toggle_end
          | apply good_parse_type
          | apply good_parse_factor_casts
          | apply good_pop_tree_stack
          | apply good_parse_numeric_literal
          | apply good_parse_expression
          | apply good_find_token
          | apply good_write_slot_next
          | apply good_last_in_chain_bind
          | apply good_parse_symbol_statement
          | apply good_parse_return_statement
          | apply good_parse_statement_semicolon
          | apply ihif
          | apply ihelse
          | apply ihwhile
          | apply ihswitch
          | apply ihstmt
          | apply ihblock
          | apply ihloop
          | apply good_bind
          | apply good_ite
          | apply good_pure
          | apply good_raise
          | intro _
          | split
    · rw [parse_if_elseifs]
      repeat' first
          | assumption
          | exact trivial
          | exact safe_ptr_null _
          | exact safe_ptr_error _
          | exact safe_ptr_basic _ _
          | exact safe_list_nil _
          | (apply safe_list_cons <;> assumption)
          | (apply safe_list_head <;> assumption)
          | (apply safe_list_tail <;> assumption)
          | apply good_curr_type
          | apply good_curr_token
          | apply good_curr_ptr
          | apply good_read_token
          | apply good_consume_token
          | apply good_unconsume_token
          | apply good_onyx_message_add
          | apply good_make_node
          | apply good_read_node
          | apply good_modify_node
          | apply good_expect_token
          | apply good_token_toggle_end
          | apply good_parse_type
          | apply good_parse_factor_casts
          | apply good_pop_tree_stack
          | apply good_parse_numeric_literal
          | apply good_parse_expression
          | apply good_find_token
          | apply good_write_slot_next
          | apply good_last_in_chain_bind
          | apply good_parse_symbol_statement
          | apply good_parse_return_statement
          | apply good_parse_statement_semicolon
          | apply ihif
          | apply ihelse
          | apply ihwhile
          | apply ihswitch
          | apply ihstmt
          | apply ihblock
          | apply ihloop
          | apply good_bind
          | apply good_ite
          | apply good_pure
          | apply good_raise
          | intro _
          | split
    · rw [parse_while_stmt]
      repeat' first
          | assumption
          | exact trivial
          | exact safe_ptr_null _
          | exact safe_ptr_error _
          | exact safe_ptr_basic _ _
          | exact safe_list_nil _
          | (apply safe_list_cons <;> assumption)
          | (apply safe_list_head <;> assumption)
          | (apply safe_list_tail <;> assumption)
          | apply good_curr_type
          | apply good_curr_token
          | apply good_curr_ptr
          | apply good_read_token
          | apply good_consume_token
          | apply good_unconsume_token
          | apply good_onyx_message_add
          | apply good_make_node
          | apply good_read_node
          | apply good_modify_node
          | apply good_expect_token
          | apply good_token_toggle_end
          | apply good_parse_type
          | apply good_parse_factor_casts
          | apply good_pop_tree_stack
          | apply good_parse_numeric_literal
          | apply good_parse_expression
          | apply good_find_token
          | apply good_write_slot_next
          | apply good_last_in_chain_bind
          | apply good_parse_symbol_statement
          | apply good_parse_return_statement
          | apply good_parse_statement_semicolon
          | apply ihif
          | apply ihelse
          | apply ihwhile
          | apply ihswitch
          | apply ihstmt
          | apply ihblock
          | apply ihloop
          | apply good_bind
          | apply good_ite
          | apply good_pure
          | apply good_raise
          | intro _
          | split
    · rw [parse_statement_switch]
      repeat' first
          | assumption
          | exact trivial
          | exact safe_ptr_null _
          | exact safe_ptr_error _
          | exact safe_ptr_basic _ _
          | exact safe_list_nil _
          | (apply safe_list_cons <;> assumption)
          | (apply safe_list_head <;> assumption)
          | (apply safe_list_tail <;> assumption)
          | apply good_curr_type
          | apply good_curr_token
          | apply good_curr_ptr
          | apply good_read_token
          | apply good_consume_token
          | apply good_unconsume_token
          | apply good_onyx_message_add
          | apply good_make_node
          | apply good_read_node
          | apply good_modify_node
          | apply good_expect_token
          | apply good_token_toggle_end
          | apply good_parse_type
          | apply good_parse_factor_casts
          | apply good_pop_tree_stack
          | apply good_parse_numeric_literal
          | apply good_parse_expression
          | apply good_find_token
          | apply good_write_slot_next
          | apply good_last_in_chain_bind
          | apply good_parse_symbol_statement
          | apply good_parse_return_statement
          | apply good_parse_statement_semicolon
          | apply ihif
          | apply ihelse
          | apply ihwhile
          | apply ihswitch
          | apply ihstmt
          | apply ihblock
          | apply ihloop
          | apply good_bind
          | apply good_ite
          | apply good_pure
          | apply good_raise
          | intro _
          | split
    · rw [parse_statement]
      repeat' first
          | assumption
          | exact trivial
          | exact safe_ptr_null _
          | exact safe_ptr_error _
          | exact safe_ptr_basic _ _
          | exact safe_list_nil _
          | (apply safe_list_cons <;> assumption)
          | (apply safe_list_head <;> assumption)
          | (apply safe_list_tail <;> assumption)
          | apply good_curr_type
          | apply good_curr_token
          | apply good_curr_ptr
          | apply good_read_token
          | apply good_consume_token
          | apply good_unconsume_token
          | apply good_onyx_message_add
          | apply good_make_node
          | apply good_read_node
          | apply good_modify_node
          | apply good_expect_token
          | apply good_token_toggle_end
          | apply good_parse_type
          | apply good_parse_factor_casts
          | apply good_pop_tree_stack
          | apply good_parse_numeric_literal
          | apply good_parse_expression
          | apply good_find_token
          | apply good_write_slot_next
          | apply good_last_in_chain_bind
          | apply good_parse_symbol_statement
          | apply good_parse_return_statement
          | apply good_parse_statement_semicolon
          | apply ihif
          | apply ihelse
          | apply ihwhile
          | apply ihswitch
          | apply ihstmt
          | apply ihblock
          | apply ihloop
          | apply good_bind
          | apply good_ite
          | apply good_pure
          | apply good_raise
          | intro _
          | split
    · rw [parse_block]
      repeat' first
          | assumption
          | exact trivial
          | exact safe_ptr_null _
          | exact safe_ptr_error _
          | exact safe_ptr_basic _ _
          | exact safe_list_nil _
          | (apply safe_list_cons <;> assumption)
          | (apply safe_list_head <;> assumption)
          | (apply safe_list_tail <;> assumption)
          | apply good_curr_type
          | apply good_curr_token
          | apply good_curr_ptr
          | apply good_read_token
          | apply good_consume_token
          | apply good_unconsume_token
          | apply good_onyx_message_add
          | apply good_make_node
          | apply good_read_node
          | apply good_modify_node
          | apply good_expect_token
          | apply good_token_toggle_end
          | apply good_parse_type
          | apply good_parse_factor_casts
          | apply good_pop_tree_stack
          | apply good_parse_numeric_literal
          | apply good_parse_expression
          | apply good_find_token
          | apply good_write_slot_next
          | apply good_last_in_chain_bind
          | apply good_parse_symbol_statement
          | apply good_parse_return_statement
          | apply good_parse_statement_semicolon
          | apply ihif
          | apply ihelse
          | apply ihwhile
          | apply ihswitch
          | apply ihstmt
          | apply ihblock
          | apply ihloop
          | apply good_bind
          | apply good_ite
          | apply good_pure
          | apply good_raise
          | intro _
          | split
    · rw [parse_block_loop]
      repeat' first
          | assumption
          | exact trivial
          | exact safe_ptr_null _
          | exact safe_ptr_error _
          | exact safe_ptr_basic _ _
          | exact safe_list_nil _
          | (apply safe_list_cons <;> assumption)
          | (apply safe_list_head <;> assumption)
          | (apply safe_list_tail <;> assumption)
          | apply good_curr_type
          | apply good_curr_token
          | apply good_curr_ptr
          | apply good_read_token
          | apply good_consume_token
          | apply good_unconsume_token
          | apply good_onyx_message_add
          | apply good_make_node
          | apply good_read_node
          | apply good_modify_node
          | apply good_expect_token
          | apply good_token_toggle_end
          | apply good_parse_type
          | apply good_parse_factor_casts
          | apply good_pop_tree_stack
          | apply good_parse_numeric_literal
          | apply good_parse_expression
          | apply good_find_token
          | apply good_write_slot_next
          | apply good_last_in_chain_bind
          | apply good_parse_symbol_statement
          | apply good_parse_return_statement
          | apply good_parse_statement_semicolon
          | apply ihif
          | apply ihelse
          | apply ihwhile
          | apply ihswitch
          | apply ihstmt
          | apply ihblock
          | apply ihloop
          | apply good_bind
          | apply good_ite
          | apply good_pure
          | apply good_raise
          | intro _
          | split

theorem good_parse_block (b fuel : Nat) : Good AstNode.clear_next b (parse_block fuel) :=
  (good_statement_level fuel).2.2.2.2.2.1 b

theorem good_parse_if_elseifs (b fuel : Nat) (if_node : NodePtr) (h : Safe.safe b if_node) :
    Good AstNode.clear_next b (parse_if_elseifs fuel if_node) :=
  (good_statement_level fuel).2.1 b if_node h

end Onyx

namespace Onyx

open TokenType AstKind BinaryOp UnaryOp BasicKind OnyxMessageType

/-! ## More fuel does not change a result -/

set_option linter.unusedTactic false
set_option linter.unreachableTactic false

theorem mono_refl {α : Type} (m : P α) : Mono m m := ⟨fun _ _ _ h => h⟩

theorem mono_raise {α : Type} (f : Fault) (m : P α) : Mono (raise f) m :=
  ⟨fun _ _ _ h => Res.noConfusion h⟩

theorem mono_bind {α β : Type} (m1 m2 : P α) (f1 f2 : α → P β) (hm : Mono m1 m2)
    (hf : ∀ a, Mono (f1 a) (f2 a)) : Mono (m1 >>= f1) (m2 >>= f2) := by
  constructor
  intro s r s' h
  obtain ⟨a, s1, h1, h2⟩ := bind_ok.1 h
  exact bind_ok.2 ⟨a, s1, hm.run _ _ _ h1, (hf a).run _ _ _ h2⟩

theorem mono_ite {α : Type} (c : Prop) [Decidable c] (a1 a2 b1 b2 : P α) (h1 : Mono a1 a2)
    (h2 : Mono b1 b2) : Mono (if c then a1 else b1) (if c then a2 else b2) := by
  split_ifs
  · exact h1
  · exact h2

theorem mono_of_eq {α : Type} {m1 m2 m1' m2' : P α} (h1 : m1 = m1') (h2 : m2 = m2')
    (h : Mono m1' m2') : Mono m1 m2 := by
  rw [h1, h2]; exact h

theorem mono_trans {α : Type} {m1 m2 m3 : P α} (h1 : Mono m1 m2) (h2 : Mono m2 m3) :
    Mono m1 m3 := ⟨fun s r s' h => h2.run s r s' (h1.run s r s' h)⟩

/-- From one more unit of fuel to any larger amount. -/
theorem mono_le {α : Type} (f : Nat → P α) (h : ∀ n, Mono (f n) (f (n + 1))) (n m : Nat)
    (hnm : n ≤ m) : Mono (f n) (f m) := by
  induction m with
  | zero =>
    have : n = 0 := by omega
    subst this
    exact mono_refl _
  | succ k ih =>
    by_cases hk : n ≤ k
    · exact mono_trans (ih hk) (h k)
    · have : n = k + 1 := by omega
      subst this
      exact mono_refl _

theorem mono_find_token : ∀ (n : Nat) (ty : TokenType), Mono (find_token n ty) (find_token (n + 1) ty) := by
  intro n
  induction n with
  | zero =>
    intros
    exact mono_of_eq (by rw [find_token]) rfl (mono_raise _ _)
  | succ n ih =>
    intros
    refine mono_of_eq (by rw [find_token]) (by rw [find_token]) ?_
    repeat' first
        | apply ih
        | apply mono_bind
        | apply mono_ite
        | intro _
        | exact mono_refl _
        | split

theorem mono_parse_type_loop : ∀ (n : Nat) (root : NodePtr) (slot : TypeSlot), Mono (parse_type_loop n root slot) (parse_type_loop (n + 1) root slot) := by
  intro n
  induction n with
  | zero =>
    intros
    exact mono_of_eq (by rw [parse_type_loop]) rfl (mono_raise _ _)
  | succ n ih =>
    intros
    refine mono_of_eq (by rw [parse_type_loop]) (by rw [parse_type_loop]) ?_
    repeat' first
        | apply ih
        | apply mono_bind
        | apply mono_ite
        | intro _
        | exact mono_refl _
        | split

theorem mono_parse_type (n : Nat) : Mono (parse_type n) (parse_type (n + 1)) :=
  mono_parse_type_loop n _ _

theorem mono_parse_factor_casts : ∀ (n : Nat) (retval : NodePtr), Mono (parse_factor_casts n retval) (parse_factor_casts (n + 1) retval) := by
  intro n
  induction n with
  | zero =>
    intros
    exact mono_of_eq (by rw [parse_factor_casts]) rfl (mono_raise _ _)
  | succ n ih =>
    intros
    refine mono_of_eq (by rw [parse_factor_casts]) (by rw [parse_factor_casts]) ?_
    repeat' first
        | apply mono_parse_type
        | apply ih
        | apply mono_bind
        | apply mono_ite
        | intro _
        | exact mono_refl _
        | split

theorem mono_last_in_chain : ∀ (n : Nat) (stmt : NodePtr), Mono (last_in_chain n stmt) (last_in_chain (n + 1) stmt) := by
  intro n
  induction n with
  | zero =>
    intros
    exact mono_of_eq (by rw [last_in_chain]) rfl (mono_raise _ _)
  | succ n ih =>
    intros
    refine mono_of_eq (by rw [last_in_chain]) (by rw [last_in_chain]) ?_
    repeat' first
        | apply ih
        | apply mono_bind
        | apply mono_ite
        | intro _
        | exact mono_refl _
        | split

set_option maxHeartbeats 4000000 in
/-- One more unit of fuel for the expression functions. -/
theorem mono_expression_level (n : Nat) :
    Mono (parse_factor n) (parse_factor (n + 1)) ∧
    (∀ (slot : NodeSlot), Mono (parse_call_arguments n slot) (parse_call_arguments (n + 1) slot)) ∧
    Mono (parse_expression n) (parse_expression (n + 1)) ∧
    (∀ (left root : NodePtr) (st : List NodePtr), Mono (parse_expression_loop n left root st) (parse_expression_loop (n + 1) left root st)) := by
  induction n with
  | zero =>
    refine ⟨?_, ?_, ?_, ?_⟩
    · intros; exact mono_of_eq (by rw [parse_factor]) rfl (mono_raise _ _)
    · intros; exact mono_of_eq (by rw [parse_call_arguments]) rfl (mono_raise _ _)
    · intros; exact mono_of_eq (by rw [parse_expression]) rfl (mono_raise _ _)
    · intros; exact mono_of_eq (by rw [parse_expression_loop]) rfl (mono_raise _ _)
  | succ n ih =>
    obtain ⟨ih0, ih1, ih2, ih3⟩ := ih
    refine ⟨?_, ?_, ?_, ?_⟩
    · intros
      refine mono_of_eq (by rw [parse_factor]) (by rw [parse_factor]) ?_
      repeat' first
          | apply mono_parse_type
          | apply mono_parse_factor_casts
          | apply ih0
          | apply ih1
          | apply ih2
          | apply ih3
          | apply mono_bind
          | apply mono_ite
          | intro _
          | exact mono_refl _
          | split
    · intros
      refine mono_of_eq (by rw [parse_call_arguments]) (by rw [parse_call_arguments]) ?_
      repeat' first
          | apply mono_parse_type
          | apply mono_parse_factor_casts
          | apply ih0
          | apply ih1
          | apply ih2
          | apply ih3
          | apply mono_bind
          | apply mono_ite
          | intro _
          | exact mono_refl _
          | split
    · intros
      refine mono_of_eq (by rw [parse_expression]) (by rw [parse_expression]) ?_
      repeat' first
          | apply mono_parse_type
          | apply mono_parse_factor_casts
          | apply ih0
          | apply ih1
          | apply ih2
          | apply ih3
          | apply mono_bind
          | apply mono_ite
          | intro _
          | exact mono_refl _
          | split
    · intros
      refine mono_of_eq (by rw [parse_expression_loop]) (by rw [parse_expression_loop]) ?_
      repeat' first
          | apply mono_parse_type
          | apply mono_parse_factor_casts
          | apply ih0
          | apply ih1
          | apply ih2
          | apply ih3
          | apply mono_bind
          | apply mono_ite
          | intro _
          | exact mono_refl _
          | split

theorem mono_parse_expression (n : Nat) : Mono (parse_expression n) (parse_expression (n + 1)) :=
  (mono_expression_level n).2.2.1

set_option maxHeartbeats 4000000 in
theorem mono_parse_symbol_statement (n : Nat) (ret : NodePtr) : Mono (parse_symbol_statement n ret) (parse_symbol_statement (n + 1) ret) := by
  unfold parse_symbol_statement
  repeat' first
      | apply mono_parse_type
      | apply mono_parse_factor_casts
      | apply mono_parse_expression
      | apply mono_find_token
      | apply mono_last_in_chain
      | apply mono_bind
      | apply mono_ite
      | intro _
      | exact mono_refl _
      | split

set_option maxHeartbeats 4000000 in
theorem mono_parse_return_statement (n : Nat) : Mono (parse_return_statement n) (parse_return_statement (n + 1)) := by
  unfold parse_return_statement
  repeat' first
      | apply mono_parse_type
      | apply mono_parse_factor_casts
      | apply mono_parse_expression
      | apply mono_find_token
      | apply mono_last_in_chain
      | apply mono_bind
      | apply mono_ite
      | intro _
      | exact mono_refl _
      | split

set_option maxHeartbeats 4000000 in
theorem mono_parse_statement_semicolon (n : Nat) (ns : Bool) : Mono (parse_statement_semicolon n ns) (parse_statement_semicolon (n + 1) ns) := by
  unfold parse_statement_semicolon
  repeat' first
      | apply mono_parse_type
      | apply mono_parse_factor_casts
      | apply mono_parse_expression
      | apply mono_find_token
      | apply mono_last_in_chain
      | apply mono_bind
      | apply mono_ite
      | intro _
      | exact mono_refl _
      | split

set_option maxHeartbeats 4000000 in
/-- One more unit of fuel for the statement functions. -/
theorem mono_statement_level (n : Nat) :
    Mono (parse_if_stmt n) (parse_if_stmt (n + 1)) ∧
    (∀ (if_node : NodePtr), Mono (parse_if_elseifs n if_node) (parse_if_elseifs (n + 1) if_node)) ∧
    Mono (parse_while_stmt n) (parse_while_stmt (n + 1)) ∧
    Mono (parse_statement_switch n) (parse_statement_switch (n + 1)) ∧
    Mono (parse_statement n) (parse_statement (n + 1)) ∧
    Mono (parse_block n) (parse_block (n + 1)) ∧
    (∀ (next : NodeSlot), Mono (parse_block_loop n next) (parse_block_loop (n + 1) next)) := by
  induction n with
  | zero =>
    refine ⟨?_, ?_, ?_, ?_, ?_, ?_, ?_⟩
    · intros; exact mono_of_eq (by rw [parse_if_stmt]) rfl (mono_raise _ _)
    · intros; exact mono_of_eq (by rw [parse_if_elseifs]) rfl (mono_raise _ _)
    · intros; exact mono_of_eq (by rw [parse_while_stmt]) rfl (mono_raise _ _)
    · intros; exact mono_of_eq (by rw [parse_statement_switch]) rfl (mono_raise _ _)
    · intros; exact mono_of_eq (by rw [parse_statement]) rfl (mono_raise _ _)
    · intros; exact mono_of_eq (by rw [parse_block]) rfl (mono_raise _ _)
    · intros; exact mono_of_eq (by rw [parse_block_loop]) rfl (mono_raise _ _)
  | succ n ih =>
    obtain ⟨ih0, ih1, ih2, ih3, ih4, ih5, ih6⟩ := ih
    refine ⟨?_, ?_, ?_, ?_, ?_, ?_, ?_⟩
    · intros
      refine mono_of_eq (by rw [parse_if_stmt]) (by rw [parse_if_stmt]) ?_
      repeat' first
          | apply mono_parse_type
          | apply mono_parse_factor_casts
          | apply mono_parse_expression
          | apply mono_find_token
          | apply mono_last_in_chain
          | apply mono_parse_symbol_statement
          | apply mono_parse_return_statement
          | apply mono_parse_statement_semicolon
          | apply ih0
          | apply ih1
          | apply ih2
          | apply ih3
          | apply ih4
          | apply ih5
          | apply ih6
          | apply mono_bind
          | apply mono_ite
          | intro _
          | exact mono_refl _
          | split
    · intros
      refine mono_of_eq (by rw [parse_if_elseifs]) (by rw [parse_if_elseifs]) ?_
      repeat' first
          | apply mono_parse_type
          | apply mono_parse_factor_casts
          | apply mono_parse_expression
          | apply mono_find_token
          | apply mono_last_in_chain
          | apply mono_parse_symbol_statement
          | apply mono_parse_return_statement
          | apply mono_parse_statement_semicolon
          | apply ih0
          | apply ih1
          | apply ih2
          | apply ih3
          | apply ih4
          | apply ih5
          | apply ih6
          | apply mono_bind
          | apply mono_ite
          | intro _
          | exact mono_refl _
          | split
    · intros
      refine mono_of_eq (by rw [parse_while_stmt]) (by rw [parse_while_stmt]) ?_
      repeat' first
          | apply mono_parse_type
          | apply mono_parse_factor_casts
          | apply mono_parse_expression
          | apply mono_find_token
          | apply mono_last_in_chain
          | apply mono_parse_symbol_statement
          | apply mono_parse_return_statement
          | apply mono_parse_statement_semicolon
          | apply ih0
          | apply ih1
          | apply ih2
          | apply ih3
          | apply ih4
          | apply ih5
          | apply ih6
          | apply mono_bind
          | apply mono_ite
          | intro _
          | exact mono_refl _
          | split
    · intros
      refine mono_of_eq (by rw [parse_statement_switch]) (by rw [parse_statement_switch]) ?_
      repeat' first
          | apply mono_parse_type
          | apply mono_parse_factor_casts
          | apply mono_parse_expression
          | apply mono_find_token
          | apply mono_last_in_chain
          | apply mono_parse_symbol_statement
          | apply mono_parse_return_statement
          | apply mono_parse_statement_semicolon
          | apply ih0
          | apply ih1
          | apply ih2
          | apply ih3
          | apply ih4
          | apply ih5
          | apply ih6
          | apply mono_bind
          | apply mono_ite
          | intro _
          | exact mono_refl _
          | split
    · intros
      refine mono_of_eq (by rw [parse_statement]) (by rw [parse_statement]) ?_
      repeat' first
          | apply mono_parse_type
          | apply mono_parse_factor_casts
          | apply mono_parse_expression
          | apply mono_find_token
          | apply mono_last_in_chain
          | apply mono_parse_symbol_statement
          | apply mono_parse_return_statement
          | apply mono_parse_statement_semicolon
          | apply ih0
          | apply ih1
          | apply ih2
          | apply ih3
          | apply ih4
          | apply ih5
          | apply ih6
          | apply mono_bind
          | apply mono_ite
          | intro _
          | exact mono_refl _
          | split
    · intros
      refine mono_of_eq (by rw [parse_block]) (by rw [parse_block]) ?_
      repeat' first
          | apply mono_parse_type
          | apply mono_parse_factor_casts
          | apply mono_parse_expression
          | apply mono_find_token
          | apply mono_last_in_chain
          | apply mono_parse_symbol_statement
          | apply mono_parse_return_statement
          | apply mono_parse_statement_semicolon
          | apply ih0
          | apply ih1
          | apply ih2
          | apply ih3
          | apply ih4
          | apply ih5
          | apply ih6
          | apply mono_bind
          | apply mono_ite
          | intro _
          | exact mono_refl _
          | split
    · intros
      refine mono_of_eq (by rw [parse_block_loop]) (by rw [parse_block_loop]) ?_
      repeat' first
          | apply mono_parse_type
          | apply mono_parse_factor_casts
          | apply mono_parse_expression
          | apply mono_find_token
          | apply mono_last_in_chain
          | apply mono_parse_symbol_statement
          | apply mono_parse_return_statement
          | apply mono_parse_statement_semicolon
          | apply ih0
          | apply ih1
          | apply ih2
          | apply ih3
          | apply ih4
          | apply ih5
          | apply ih6
          | apply mono_bind
          | apply mono_ite
          | intro _
          | exact mono_refl _
          | split

/-- A result of `parse_expression` is its result with any larger fuel. -/
theorem parse_expression_fuel {n m : Nat} (hnm : n ≤ m) {s s' : OnyxParser} {r : NodePtr}
    (h : parse_expression n s = Res.ok r s') : parse_expression m s = Res.ok r s' :=
  (mono_le parse_expression mono_parse_expression n m hnm).run s r s' h

/-- A result of `parse_block` is its result with any larger fuel. -/
theorem parse_block_fuel {n m : Nat} (hnm : n ≤ m) {s s' : OnyxParser} {r : NodePtr}
    (h : parse_block n s = Res.ok r s') : parse_block m s = Res.ok r s' :=
  (mono_le parse_block (fun k => (mono_statement_level k).2.2.2.2.2.1) n m hnm).run s r s' h

end Onyx
namespace Onyx

open TokenType AstKind BinaryOp UnaryOp BasicKind OnyxMessageType

/-! ## Frame conditions: the top-level functions -/

set_option linter.unusedTactic false
set_option linter.unreachableTactic false

/-- A frame condition holds for every view that sees no more than the given one. -/
theorem good_coarsen {α : Type} [Safe α] (v w : AstNode → AstNode) (b : Nat) (m : P α)
    (hvw : ∀ x y, v x = v y → w x = w y) (h : Good v b m) : Good w b m := by
  constructor
  intro s r s' hb hrun
  obtain ⟨h1, h2, h3, h4⟩ := h.run s r s' hb hrun
  refine ⟨h1, ?_, h3, h4⟩
  intro i hi
  have h := h2 i hi
  cases hx : s'.heap[i]? with
  | none =>
    rw [hx] at h
    cases hy : s.heap[i]? with
    | none => rfl
    | some y => rw [hy] at h; exact Option.noConfusion h
  | some x =>
    rw [hx] at h
    cases hy : s.heap[i]? with
    | none => rw [hy] at h; exact Option.noConfusion h
    | some y =>
      rw [hy] at h
      simp only [Option.map_some', Option.some.injEq] at h ⊢
      exact hvw x y h

theorem safe_ptr_ite (b : Nat) (c : Prop) [Decidable c] (x y : NodePtr) (hx : safe_ptr b x)
    (hy : safe_ptr b y) : safe_ptr b (if c then x else y) := by
  split <;> assumption

theorem good_parse_function_params_loop (v : AstNode → AstNode) (b : Nat) :
    ∀ fuel first trailer, Safe.safe b first → Safe.safe b trailer →
      Good v b (parse_function_params_loop fuel first trailer) := by
  intro fuel
  induction fuel with
  | zero => intro _ _ _ _; exact good_raise v b _
  | succ n ih =>
    intro first trailer hfirst htrailer
    rw [parse_function_params_loop]
    repeat' first
        | assumption
        | exact trivial
        | exact safe_ptr_null _
        | exact safe_ptr_error _
        | exact safe_ptr_basic _ _
        | exact safe_list_nil _
        | (apply safe_ptr_ite <;> assumption)
        | apply good_curr_type
        | apply good_curr_token
        | apply good_curr_ptr
        | apply good_read_token
        | apply good_consume_token
        | apply good_unconsume_token
        | apply good_onyx_message_add
        | apply good_make_node
        | apply good_read_node
        | apply good_modify_node
        | apply good_expect_token
        | apply good_token_toggle_end
        | apply good_parse_type
        | apply ih
        | apply good_bind
        | apply good_ite
        | apply good_pure
        | apply good_raise
        | intro _
        | split

theorem good_parse_function_params (v : AstNode → AstNode) (b fuel : Nat) :
    Good v b (parse_function_params fuel) := by
  unfold parse_function_params
  repeat' first
      | assumption
      | exact trivial
      | exact safe_ptr_null _
      | exact safe_ptr_error _
      | exact safe_ptr_basic _ _
      | exact safe_list_nil _
      | apply good_curr_type
      | apply good_curr_token
      | apply good_curr_ptr
      | apply good_read_token
      | apply good_consume_token
      | apply good_unconsume_token
      | apply good_onyx_message_add
      | apply good_make_node
      | apply good_read_node
      | apply good_modify_node
      | apply good_expect_token
      | apply good_token_toggle_end
      | apply good_parse_function_params_loop
      | apply good_bind
      | apply good_ite
      | apply good_pure
      | apply good_raise
      | intro _
      | split

theorem good_parse_possible_directive (v : AstNode → AstNode) (b : Nat) (dir : List Char) :
    Good v b (parse_possible_directive dir) := by
  unfold parse_possible_directive
  repeat' first
      | assumption
      | exact trivial
      | exact safe_ptr_null _
      | exact safe_ptr_error _
      | exact safe_ptr_basic _ _
      | exact safe_list_nil _
      | apply good_curr_type
      | apply good_curr_token
      | apply good_curr_ptr
      | apply good_read_token
      | apply good_consume_token
      | apply good_unconsume_token
      | apply good_onyx_message_add
      | apply good_make_node
      | apply good_read_node
      | apply good_modify_node
      | apply good_expect_token
      | apply good_token_toggle_end
      | apply good_bind
      | apply good_ite
      | apply good_pure
      | apply good_raise
      | intro _
      | split

theorem good_make_function_type (v : AstNode → AstNode) (b : Nat) (param_types : List NodePtr)
    (return_type : NodePtr) : Good v b (make_function_type param_types return_type) := by
  constructor
  intro s r s' hb hrun
  unfold make_function_type at hrun
  injection hrun with h1 h2
  subst h1 h2
  refine ⟨by simp, ?_, rfl, ?_⟩
  · intro i hi
    rw [List.getElem?_append_left (by omega)]
  · intro j hj
    injection hj with hj
    omega

theorem collect_param_types_state (fuel : Nat) :
    ∀ (p : NodePtr) (s : OnyxParser) (r : List NodePtr) (s' : OnyxParser),
      collect_param_types fuel p s = Res.ok r s' → s' = s := by
  induction fuel with
  | zero => intro p s r s' h; exact Res.noConfusion h
  | succ n ih =>
    intro p s r s' h
    rw [collect_param_types] at h
    split_ifs at h
    · simp only [pure_run, Res.ok.injEq] at h
      exact h.2.symm
    · obtain ⟨m, s1, h1, h2⟩ := bind_ok.1 h
      have hs1 : s1 = s := by
        unfold read_node at h1
        cases p with
        | null => exact Res.noConfusion h1
        | node i =>
          simp only at h1
          split at h1
          · injection h1 with _ h1; exact h1.symm
          · exact Res.noConfusion h1
        | error_node => injection h1 with _ h1; exact h1.symm
        | basic k => injection h1 with _ h1; exact h1.symm
      subst hs1
      obtain ⟨rest, s2, h3, h4⟩ := bind_ok.1 h2
      have hs2 := ih _ _ _ _ h3
      subst hs2
      simp only [pure_run, Res.ok.injEq] at h4
      exact h4.2.symm

theorem good_collect_param_types_bind {β : Type} [Safe β] (v : AstNode → AstNode) (b : Nat)
    (f : List NodePtr → P β) (hf : ∀ a, Good v b (f a)) (fuel : Nat) (p : NodePtr) :
    Good v b (collect_param_types fuel p >>= f) := by
  constructor
  intro s r s' hb hrun
  obtain ⟨a, s1, h1, h2⟩ := bind_ok.1 hrun
  have hs1 := collect_param_types_state fuel p s a s1 h1
  subst hs1
  exact (hf a).run s1 r s' hb h2

theorem directive_view_of_clear_next (x y : AstNode) (h : x.clear_next = y.clear_next) :
    directive_view x = directive_view y := by
  have h1 : x.clear_next.kind = y.clear_next.kind := congrArg AstNode.kind h
  have h2 : x.clear_next.flags = y.clear_next.flags := congrArg AstNode.flags h
  have h3 : x.clear_next.token = y.clear_next.token := congrArg AstNode.token h
  have h4 : x.clear_next.intrinsic_name = y.clear_next.intrinsic_name :=
    congrArg AstNode.intrinsic_name h
  have h5 : x.clear_next.foreign_module = y.clear_next.foreign_module :=
    congrArg AstNode.foreign_module h
  have h6 : x.clear_next.foreign_name = y.clear_next.foreign_name :=
    congrArg AstNode.foreign_name h
  have h7 : x.clear_next.exported_name = y.clear_next.exported_name :=
    congrArg AstNode.exported_name h
  simp only [AstNode.clear_next] at h1 h2 h3 h4 h5 h6 h7
  simp only [directive_view, h1, h2, h3, h4, h5, h6, h7]

theorem good_parse_block_directive_view (b fuel : Nat) :
    Good directive_view b (parse_block fuel) :=
  good_coarsen AstNode.clear_next directive_view b _ directive_view_of_clear_next
    (good_parse_block b fuel)

/-- The part of `parse_function_definition` after the directive loop leaves what the
directives have recorded in the Function node, and the nodes before it, as they are. -/
theorem good_parse_function_rest (b fuel : Nat) (func_def : NodePtr) :
    Good directive_view b (parse_function_rest fuel func_def) := by
  unfold parse_function_rest
  repeat' first
      | assumption
      | exact trivial
      | exact safe_ptr_null _
      | exact safe_ptr_error _
      | exact safe_ptr_basic _ _
      | exact safe_list_nil _
      | exact good_modify_view _ _ _ _ (fun _ => rfl)
      | apply good_curr_type
      | apply good_curr_token
      | apply good_curr_ptr
      | apply good_read_token
      | apply good_consume_token
      | apply good_unconsume_token
      | apply good_onyx_message_add
      | apply good_make_node
      | apply good_read_node
      | apply good_modify_node
      | apply good_expect_token
      | apply good_token_toggle_end
      | apply good_parse_function_params
      | apply good_parse_type
      | apply good_make_function_type
      | apply good_parse_block_directive_view
      | apply good_collect_param_types_bind
      | apply good_bind
      | apply good_ite
      | apply good_pure
      | apply good_raise
      | intro _
      | split

end Onyx
namespace Onyx

open TokenType AstKind BinaryOp UnaryOp BasicKind OnyxMessageType

/-! ## Claims on `parse_symbol_statement` -/

theorem getElem?_concat_eq {α : Type} (l : List α) (a : α) (n : Nat) (h : n = l.length) :
    (l ++ [a])[n]? = some a := by
  subst h
  exact List.getElem?_concat_length l a

/-- C8: for a statement starting `name :`, with `ty` the node that `parse_type` returns
after the colon (no type is parsed and `ty` is null when the next token is `:` or `=`),
`parse_symbol_statement` returns 1 and yields a Local node whose token is `name`, whose
type node is `ty` and whose flags include L-value.  When no `=` or `:` follows, the
Local has no `next` and no Const flag.  When `=` or `:` follows and `parse_expression`
returns a node `e` that is not null for what comes after it, the `next` of the Local is
an Assignment whose `lval` is a new Symbol node of `name` and whose `expr` is `e`, and
the Local has the Const flag if and only if the token was `:`. -/
theorem local_declaration (fuel : Nat) (s st : OnyxParser) (name colon t2 t3 : OnyxToken)
    (c1 c2 : Nat) (ty : NodePtr)
    (hname : s.tokens[s.curr]? = some name) (hsym : name.type = Token_Type_Symbol)
    (hc1 : skip_comments (s.tokens.drop (s.curr + 1)) (s.curr + 1) = some c1)
    (hcolon : s.tokens[c1]? = some colon) (hcol : colon.type = ascii ':')
    (hc2 : skip_comments (s.tokens.drop (c1 + 1)) (c1 + 1) = some c2)
    (ht2 : s.tokens[c2]? = some t2)
    (htype : if t2.type = ascii ':' ∨ t2.type = ascii '='
      then ty = NodePtr.null ∧ st = { s with prev := some (c1 : Int), curr := c2 }
      else parse_type fuel { s with prev := some (c1 : Int), curr := c2 } = Res.ok ty st)
    (ht3 : st.tokens[st.curr]? = some t3) :
    (t3.type ≠ ascii '=' → t3.type ≠ ascii ':' →
      parse_symbol_statement fuel NodePtr.null s
        = Res.ok { result := true, ret := NodePtr.node st.heap.length }
          { st with heap := st.heap ++
              [{ kind := Ast_Kind_Local, token := some s.curr, type_node := ty,
                 flags := { lval := true }, next := NodePtr.null }] }) ∧
    (∀ (c4 : Nat) (e : NodePtr) (se : OnyxParser),
      t3.type = ascii '=' ∨ t3.type = ascii ':' →
      skip_comments (st.tokens.drop (st.curr + 1)) (st.curr + 1) = some c4 →
      parse_expression fuel
        { st with prev := some (st.curr : Int), curr := c4,
                  heap := st.heap ++
                    [{ kind := Ast_Kind_Local, token := some s.curr, type_node := ty,
                       flags := { lval := true, const := decide (t3.type = ascii ':') },
                       next := NodePtr.node (st.heap.length + 1) },
                     { kind := Ast_Kind_Assignment, token := some st.curr }] }
        = Res.ok e se →
      e ≠ NodePtr.null →
      parse_symbol_statement fuel NodePtr.null s
        = Res.ok { result := true, ret := NodePtr.node st.heap.length }
          { se with heap :=
              (se.heap.set (st.heap.length + 1)
                ({ kind := Ast_Kind_Assignment, token := some st.curr,
                   lval := NodePtr.node se.heap.length, expr := e } : AstNode))
              ++ [{ kind := Ast_Kind_Symbol, token := some s.curr }] } ∧
      st.heap.length + 1 < se.heap.length ∧
      se.heap[st.heap.length]? = some
        { kind := Ast_Kind_Local, token := some s.curr, type_node := ty,
          flags := { lval := true, const := decide (t3.type = ascii ':') },
          next := NodePtr.node (st.heap.length + 1) }) := by
  have hrun : (if t2.type ≠ ascii ':' ∧ t2.type ≠ ascii '=' then parse_type fuel
      else pure NodePtr.null) { s with prev := some (c1 : Int), curr := c2 } = Res.ok ty st := by
    by_cases hcase : t2.type = ascii ':' ∨ t2.type = ascii '='
    · rw [if_pos hcase] at htype
      obtain ⟨rfl, rfl⟩ := htype
      rw [if_neg (by tauto)]
      rfl
    · rw [if_neg hcase] at htype
      rw [if_pos (by tauto)]
      exact htype
  obtain ⟨toks, cur, prev, msgs, H, en, res⟩ := st
  simp only at ht3
  constructor
  · intro h1 h2
    simp only [parse_symbol_statement, bind_run, hname, hsym, ne_eq, pure_run,
      not_true_eq_false, ite_false, ↓reduceIte, expect_token_run s name _ c1 hname hsym hc1,
      curr_type, hcolon, hcol, consume_token, hc2, ht2, hrun, make_node_run, modify_node,
      List.getElem?_concat_length, List.set_append, Nat.lt_irrefl, if_false, Nat.sub_self,
      List.set_cons_zero, ht3, h1, h2, or_self]
  · intro c4 e se h3 hc4 he hne
    obtain ⟨hlen, hfr, -, -⟩ := (good_parse_expression id (H.length + 2) fuel).run _ e se
      (by simp) he
    have hcell0 := hfr H.length (by omega)
    have hcell1 := hfr (H.length + 1) (by omega)
    simp only [List.length_append, List.length_cons, List.length_nil] at hlen
    simp only [Option.map_id_fun, id_eq] at hcell0 hcell1
    rw [List.getElem?_append_right (by omega)] at hcell0 hcell1
    simp only [Nat.sub_self, Nat.add_sub_cancel_left, List.getElem?_cons_zero,
      List.getElem?_cons_succ] at hcell0 hcell1
    have hlt0 : H.length + 1 < se.heap.length := by omega
    refine ⟨?_, hlt0, hcell0⟩
    obtain ⟨tokse, cure, preve, msgse, He, ene, rese⟩ := se
    simp only at hcell0 hcell1 hlen hc4
    have hlt : H.length + 1 < He.length := by omega
    have hlt1 : H.length + 1 < He.length + 1 := by omega
    have hk : ascii '=' ≠ ascii ':' := by decide
    have happ : ∀ (a b : AstNode), H ++ [a, b] = H ++ [a] ++ [b] := by intro a b; simp
    have hd : decide (ascii '=' = ascii ':') = false := by decide
    have hd1 : decide (ascii ':' = ascii ':') = true := by decide
    rcases h3 with h3 | h3
    · have h4 : t3.type ≠ ascii ':' := by rw [h3]; decide
      simp only [h3, hd, happ] at he
      simp only [parse_symbol_statement, bind_run, hname, hsym, ne_eq, pure_run,
        not_true_eq_false, ite_false, ↓reduceIte, expect_token_run s name _ c1 hname hsym hc1,
        curr_type, hcolon, hcol, consume_token, hc2, ht2, hrun, make_node_run, modify_node,
        List.getElem?_concat_length, List.set_append, Nat.lt_irrefl, if_false, Nat.sub_self,
        List.set_cons_zero, ht3, h3, h4, hk, true_or, or_true, List.length_append,
        List.length_singleton, Nat.lt_add_one, if_true, curr_ptr, hc4, getElem?_concat_eq,
        he, hne, hcell1, hlt, hlt1,
        List.getElem?_append_left, List.length_set, List.getElem?_set_self, List.set_set]
    · simp only [h3, hd1, happ, decide_True] at he
      simp only [parse_symbol_statement, bind_run, hname, hsym, ne_eq, pure_run,
        not_true_eq_false, ite_false, ↓reduceIte, expect_token_run s name _ c1 hname hsym hc1,
        curr_type, hcolon, hcol, consume_token, hc2, ht2, hrun, make_node_run, modify_node,
        List.getElem?_concat_length, List.set_append, Nat.lt_irrefl, if_false, Nat.sub_self,
        List.set_cons_zero, ht3, h3, hk, true_or, or_true, List.length_append,
        List.length_singleton, Nat.lt_add_one, if_true, curr_ptr, hc4, getElem?_concat_eq,
        he, hne, hcell1, hlt, hlt1,
        List.getElem?_append_left, List.length_set, List.getElem?_set_self, List.set_set]

/-- Witness of C8: the statement `x : t : a ;`. -/
theorem local_declaration_witness :
    parse_symbol_statement 5 NodePtr.null (onyx_parser_create typed_constant_stream)
        = Res.ok { result := true, ret := NodePtr.node 1 }
          { tokens := typed_constant_stream, curr := 5, prev := some 4,
            heap :=
              [{ kind := Ast_Kind_Symbol, token := some 2 },
               { kind := Ast_Kind_Local, token := some 0, type_node := NodePtr.node 0,
                 flags := { lval := true, const := true }, next := NodePtr.node 2 },
               { kind := Ast_Kind_Assignment, token := some 3, lval := NodePtr.node 4,
                 expr := NodePtr.node 3 },
               { kind := Ast_Kind_Symbol, token := some 4 },
               { kind := Ast_Kind_Symbol, token := some 0 }] } :=
  ((local_declaration 5 (onyx_parser_create typed_constant_stream)
    { tokens := typed_constant_stream, curr := 3, prev := some 2,
      heap := [{ kind := Ast_Kind_Symbol, token := some 2 }] }
    (symbol_token 'x' 1) (plain_token (ascii ':') 3) (symbol_token 't' 5)
    (plain_token (ascii ':') 7) 1 2 (NodePtr.node 0)
    (by decide) (by decide) (by decide) (by decide) (by decide) (by decide) (by decide)
    (by decide!) (by decide)).2 4 (NodePtr.node 3)
    { tokens := typed_constant_stream, curr := 5, prev := some 4,
      heap :=
        [{ kind := Ast_Kind_Symbol, token := some 2 },
         { kind := Ast_Kind_Local, token := some 0, type_node := NodePtr.node 0,
           flags := { lval := true, const := true }, next := NodePtr.node 2 },
         { kind := Ast_Kind_Assignment, token := some 3 },
         { kind := Ast_Kind_Symbol, token := some 4 }] }
    (by decide) (by decide) (by decide!) (by decide)).1

/-- C9: for a compound assignment `name op= e` (`op=` one of `+=`, `-=`, `*=`, `/=`,
`%=`), with `e` the node that `parse_expression` returns after the operator token,
`parse_symbol_statement` returns 1 and yields an Assignment (at the address after the
first node allocated behind `e`) whose `lval` is a Symbol node of `name` and whose `expr`
is the BinaryOp node allocated before `e`, with the operator Add, Minus, Multiply,
Divide, Modulus respectively, a Symbol node of `name` as left operand and `e` as right
operand; nothing else in the arena that `parse_expression` left changes.  On
`x op= a + b` this is the shape of the plain assignment `x = x op (a + b)`. -/
theorem compound_assignment_desugars (fuel : Nat) (s s3 : OnyxParser) (name opt : OnyxToken)
    (c1 c2 : Nat) (op : BinaryOp) (e : NodePtr)
    (hname : s.tokens[s.curr]? = some name) (hsym : name.type = Token_Type_Symbol)
    (hc1 : skip_comments (s.tokens.drop (s.curr + 1)) (s.curr + 1) = some c1)
    (hopt : s.tokens[c1]? = some opt) (hop : compound_assign_op opt.type = some op)
    (hc2 : skip_comments (s.tokens.drop (c1 + 1)) (c1 + 1) = some c2)
    (he : parse_expression fuel
        { s with prev := some (c1 : Int), curr := c2,
                 heap := s.heap ++ [{ kind := Ast_Kind_Binary_Op, operation := op, token := some c1 }] }
      = Res.ok e s3) :
    (parse_symbol_statement fuel NodePtr.null s
        = Res.ok { result := true, ret := NodePtr.node (s3.heap.length + 1) }
          { s3 with heap :=
              (s3.heap.set s.heap.length
                ({ kind := Ast_Kind_Binary_Op, operation := op, token := some c1,
                   left := NodePtr.node s3.heap.length, right := e } : AstNode))
              ++ [{ kind := Ast_Kind_Symbol, token := some s.curr },
                  { kind := Ast_Kind_Assignment, token := some c1,
                    lval := NodePtr.node (s3.heap.length + 2),
                    expr := NodePtr.node s.heap.length },
                  { kind := Ast_Kind_Symbol, token := some s.curr }] } ∧
      s.heap.length < s3.heap.length ∧ e ≠ NodePtr.node s.heap.length) ∧
    (compound_assign_op Token_Type_Plus_Equal = some Binary_Op_Add ∧
      compound_assign_op Token_Type_Minus_Equal = some Binary_Op_Minus ∧
      compound_assign_op Token_Type_Star_Equal = some Binary_Op_Multiply ∧
      compound_assign_op Token_Type_Fslash_Equal = some Binary_Op_Divide ∧
      compound_assign_op Token_Type_Percent_Equal = some Binary_Op_Modulus) ∧
    (statement_shape 8 (compound_assignment_stream Token_Type_Plus_Equal)
        = statement_shape 8 (plain_assignment_stream (ascii '+')) ∧
      statement_shape 8 (compound_assignment_stream Token_Type_Minus_Equal)
        = statement_shape 8 (plain_assignment_stream (ascii '-')) ∧
      statement_shape 8 (compound_assignment_stream Token_Type_Star_Equal)
        = statement_shape 8 (plain_assignment_stream (ascii '*')) ∧
      statement_shape 8 (compound_assignment_stream Token_Type_Fslash_Equal)
        = statement_shape 8 (plain_assignment_stream (ascii '/')) ∧
      statement_shape 8 (compound_assignment_stream Token_Type_Percent_Equal)
        = statement_shape 8 (plain_assignment_stream (ascii '%')) ∧
      statement_shape 8 (compound_assignment_stream Token_Type_Star_Equal)
        = some (desugared_shape Binary_Op_Multiply)) := by
  refine ⟨?_, ⟨rfl, rfl, rfl, rfl, rfl⟩, by decide!⟩
  obtain ⟨hlen, hfr, -, hsafe⟩ := (good_parse_expression id (s.heap.length + 1) fuel).run _ e s3
    (by simp) he
  have hcell := hfr s.heap.length (by omega)
  simp only [Option.map_id_fun, id_eq, List.getElem?_concat_length] at hcell
  simp only [List.length_append, List.length_singleton] at hlen
  have hne1 : opt.type ≠ ascii ':' := by
    intro h; rw [h] at hop; simp [compound_assign_op] at hop
  have hne2 : opt.type ≠ ascii '=' := by
    intro h; rw [h] at hop; simp [compound_assign_op] at hop
  refine ⟨?_, by omega, ?_⟩
  · obtain ⟨toks3, cur3, prev3, msgs3, H3, en3, res3⟩ := s3
    simp only at hcell hlen hfr
    have hlt : s.heap.length < H3.length := by omega
    have hlt1 : s.heap.length < H3.length + 1 := by omega
    have hlt2 : s.heap.length < H3.length + 1 + 1 := by omega
    have hlt3 : s.heap.length < H3.length + 1 + 1 + 1 := by omega
    simp only [parse_symbol_statement, bind_run, hname, hsym, ne_eq, pure_run,
      not_true_eq_false, ite_false, ↓reduceIte, expect_token_run s name _ c1 hname hsym hc1,
      curr_type, hopt, hne1, hne2, hop, make_node_run, modify_node, List.getElem?_concat_length,
      curr_ptr, consume_token, hc2, List.set_append, Nat.lt_irrefl, if_false, Nat.sub_self,
      List.set_cons_zero, he, hlt, hlt1, hlt2, hlt3, if_true, List.length_set, List.getElem?_append_left,
      List.getElem?_set_self, List.set_set, hcell, read_node, List.length_append,
      List.length_singleton, getElem?_concat_eq, Nat.lt_add_one]
    simp only [List.append_assoc, List.singleton_append, List.cons_append, List.nil_append]
  · intro h
    have := hsafe s.heap.length h
    omega

/-- Witness of C9: the statement `x *= a + b ;`. -/
theorem compound_assignment_desugars_witness :
    parse_symbol_statement 5 NodePtr.null
        (onyx_parser_create (compound_assignment_stream Token_Type_Star_Equal))
      = Res.ok { result := true, ret := NodePtr.node (4 + 1) }
        { tokens := compound_assignment_stream Token_Type_Star_Equal, curr := 5, prev := some 4,
          heap :=
            [{ kind := Ast_Kind_Binary_Op, operation := Binary_Op_Multiply, token := some 1,
               left := NodePtr.node 4, right := NodePtr.node 2 },
             { kind := Ast_Kind_Symbol, token := some 2 },
             { kind := Ast_Kind_Binary_Op, operation := Binary_Op_Add, token := some 3,
               left := NodePtr.node 1, right := NodePtr.node 3 },
             { kind := Ast_Kind_Symbol, token := some 4 },
             { kind := Ast_Kind_Symbol, token := some 0 },
             { kind := Ast_Kind_Assignment, token := some 1, lval := NodePtr.node (4 + 2),
               expr := NodePtr.node 0 },
             { kind := Ast_Kind_Symbol, token := some 0 }] } :=
  (compound_assignment_desugars 5 (onyx_parser_create (compound_assignment_stream Token_Type_Star_Equal))
    { tokens := compound_assignment_stream Token_Type_Star_Equal, curr := 5, prev := some 4,
      heap :=
        [{ kind := Ast_Kind_Binary_Op, operation := Binary_Op_Multiply, token := some 1 },
         { kind := Ast_Kind_Symbol, token := some 2 },
         { kind := Ast_Kind_Binary_Op, operation := Binary_Op_Add, token := some 3,
           left := NodePtr.node 1, right := NodePtr.node 3 },
         { kind := Ast_Kind_Symbol, token := some 4 }] }
    (symbol_token 'x' 1) (plain_token Token_Type_Star_Equal 3) 1 2 Binary_Op_Multiply
    (NodePtr.node 2) (by decide) (by decide) (by decide) (by decide) (by decide) (by decide)
    (by decide!)).1.1

end Onyx
namespace Onyx

open TokenType AstKind BinaryOp UnaryOp BasicKind OnyxMessageType

/-! ## Claims on if chains -/

theorem view_cell {H H' : List AstNode} {i : Nat} {x : AstNode}
    (h : (H'[i]?).map AstNode.clear_next = (H[i]?).map AstNode.clear_next)
    (hx : H[i]? = some x) :
    ∃ y, H'[i]? = some y ∧ y.kind = x.kind ∧ y.cond = x.cond ∧ y.true_block = x.true_block ∧
      y.false_block = x.false_block := by
  rw [hx] at h
  cases hy : H'[i]? with
  | none => rw [hy] at h; exact Option.noConfusion h
  | some y =>
    rw [hy] at h
    simp only [Option.map_some', Option.some.injEq] at h
    have h1 : y.clear_next.kind = x.clear_next.kind := congrArg AstNode.kind h
    have h2 : y.clear_next.cond = x.clear_next.cond := congrArg AstNode.cond h
    have h3 : y.clear_next.true_block = x.clear_next.true_block := congrArg AstNode.true_block h
    have h4 : y.clear_next.false_block = x.clear_next.false_block :=
      congrArg AstNode.false_block h
    exact ⟨y, rfl, h1, h2, h3, h4⟩

theorem update_node_eq {H : List AstNode} {i : Nat} {n : AstNode} (f : AstNode → AstNode)
    (h : H[i]? = some n) : update_node H i f = H.set i (f n) := by
  simp only [update_node, h]

/-- One iteration of the elseif loop, given the two sub-parser runs. -/
theorem parse_if_elseifs_step (F m k : Nat) (L mid stop : OnyxParser) (t : OnyxToken)
    (cond block : NodePtr) (z x : AstNode)
    (htok : L.tokens[L.curr]? = some t) (hty : t.type = Token_Type_Keyword_Elseif)
    (hskip : skip_comments (L.tokens.drop (L.curr + 1)) (L.curr + 1) = some k)
    (hpe : parse_expression F
      { L with prev := some (L.curr : Int), curr := k, heap := L.heap ++ [{ kind := Ast_Kind_If }] }
      = Res.ok cond mid)
    (hpb : parse_block F mid = Res.ok block stop)
    (hz : stop.heap[L.heap.length]? = some z) (hx : stop.heap[m]? = some x)
    (hm : m ≠ L.heap.length) :
    parse_if_elseifs (F + 1) (NodePtr.node m) L
      = parse_if_elseifs F (NodePtr.node L.heap.length)
          { stop with heap :=
              (update_node (update_node stop.heap L.heap.length (fun q => q.with_clause cond block)) m
                (fun q => { q with false_block := NodePtr.node L.heap.length })) } := by
  have hzlt : L.heap.length < stop.heap.length := by
    by_contra hn
    rw [List.getElem?_eq_none (by omega)] at hz
    exact Option.noConfusion hz
  have hmlt : m < stop.heap.length := by
    by_contra hn
    rw [List.getElem?_eq_none (by omega)] at hx
    exact Option.noConfusion hx
  rw [parse_if_elseifs]
  obtain ⟨toks, cur, prev, msgs, H, en, res⟩ := stop
  simp only at hz hx hzlt hmlt
  have hx1 : ∀ q, (H.set L.heap.length q)[m]? = some x := by
    intro q
    rw [List.getElem?_set_ne (Ne.symm hm)]
    exact hx
  by_cases hb : block = NodePtr.null
  · subst hb
    simp only [bind_run, curr_type, htok, hty, if_true, consume_token, hskip, make_node_run,
      hpe, hpb, modify_node, hz, ne_eq, not_true_eq_false, if_false, pure_run, hx1,
      update_node, AstNode.with_clause, List.getElem?_set_self hzlt, List.set_set]
  · simp only [bind_run, curr_type, htok, hty, if_true, consume_token, hskip, make_node_run,
      hpe, hpb, modify_node, hz, ne_eq, hb, not_false_eq_true, pure_run, hx1,
      update_node, AstNode.with_clause, List.getElem?_set_self hzlt, List.set_set]

theorem getElem?_lt_length {α : Type} {l : List α} {i : Nat} {a : α} (h : l[i]? = some a) :
    i < l.length := by
  by_contra hn
  rw [List.getElem?_eq_none (by omega)] at h
  exact Option.noConfusion h

/-- The elseif loop followed by a continuation `K` that keeps the frame: the loop goes
through the clauses `cs`, and the chain that starts at the If node `m` holds the clauses
in their order. -/
theorem elseif_loop (fuel : Nat) (K : NodePtr → P NodePtr)
    (hK : ∀ (b : Nat) (last : NodePtr) (s : OnyxParser) (r : NodePtr) (s' : OnyxParser),
      safe_ptr b last → b ≤ s.heap.length → K last s = Res.ok r s' →
      ∀ i, i < b → (s'.heap[i]?).map AstNode.clear_next = (s.heap[i]?).map AstNode.clear_next) :
    ∀ (cs : List IfClause) (F m : Nat) (L : OnyxParser) (x : AstNode) (r : NodePtr)
      (s' : OnyxParser) (fin : NodePtr),
      fuel + cs.length + 1 ≤ F →
      elseif_clauses fuel m L cs →
      L.heap[m]? = some x → x.kind = Ast_Kind_If → x.false_block = NodePtr.null →
      (∃ t, (elseif_exit m L cs).2.tokens[(elseif_exit m L cs).2.curr]? = some t ∧
        t.type ≠ Token_Type_Keyword_Elseif) →
      (∀ y, (elseif_exit m L cs).2.heap[(elseif_exit m L cs).1]? = some y →
        y.kind = Ast_Kind_If → y.false_block = NodePtr.null →
        K (NodePtr.node (elseif_exit m L cs).1) (elseif_exit m L cs).2 = Res.ok r s' ∧
        ∃ y', s'.heap[(elseif_exit m L cs).1]? = some y' ∧ y'.kind = Ast_Kind_If ∧
          y'.cond = y.cond ∧ y'.true_block = y.true_block ∧ y'.false_block = fin) →
      (parse_if_elseifs F (NodePtr.node m) >>= K) L = Res.ok r s' ∧
      if_chain_view cs.length s'.heap (NodePtr.node m)
        = some ((Ast_Kind_If, x.cond, x.true_block)
            :: cs.map (fun c => (Ast_Kind_If, c.cond, c.block)), fin) := by
  intro cs
  induction cs with
  | nil =>
    intro F m L x r s' fin hF _ hx hk hfb hexit hfinal
    simp only [elseif_exit] at hexit hfinal
    obtain ⟨t, ht, hty⟩ := hexit
    obtain ⟨hrun, y', hy', hk', hc', htb', hfin⟩ := hfinal x hx hk hfb
    obtain ⟨F', rfl⟩ : ∃ F', F = F' + 1 := ⟨F - 1, by omega⟩
    constructor
    · rw [bind_run, parse_if_elseifs]
      simp only [bind_run, curr_type, ht, hty, if_false, pure_run]
      exact hrun
    · simp only [List.length_nil, if_chain_view, hy', hk', hc', htb', hfin, List.map_nil]
  | cons c cs ih =>
    intro F m L x r s' fin hF hcl hx hk hfb hexit hfinal
    simp only [elseif_clauses] at hcl
    obtain ⟨htok, hskip, hstart, ⟨hpe, hpb⟩, hrest⟩ := hcl
    simp only [elseif_exit] at hexit hfinal
    have hmlt : m < L.heap.length := getElem?_lt_length hx
    have hlen0 : c.start.heap.length = L.heap.length + 1 := by rw [hstart]; simp
    have hcn : c.start.heap[L.heap.length]? = some { kind := Ast_Kind_If } := by
      rw [hstart]; exact List.getElem?_concat_length _ _
    have hcm : c.start.heap[m]? = some x := by
      rw [hstart]
      show (L.heap ++ _)[m]? = _
      rw [List.getElem?_append_left hmlt]
      exact hx
    obtain ⟨hl1, hf1, -, -⟩ := (good_parse_expression AstNode.clear_next (L.heap.length + 1)
      fuel).run c.start c.cond c.mid (by omega) hpe
    obtain ⟨hl2, hf2, -, -⟩ := (good_parse_block (L.heap.length + 1) fuel).run c.mid c.block
      c.stop (by omega) hpb
    obtain ⟨z, hz, hzk, hzc, hzt, hzf⟩ := view_cell
      ((hf2 L.heap.length (by omega)).trans (hf1 L.heap.length (by omega))) hcn
    obtain ⟨x', hx', hxk, hxc, hxt, hxf⟩ := view_cell
      ((hf2 m (by omega)).trans (hf1 m (by omega))) hcm
    obtain ⟨F', rfl⟩ : ∃ F', F = F' + 1 := ⟨F - 1, by simp only [List.length_cons] at hF; omega⟩
    simp only [List.length_cons] at hF
    obtain ⟨t, ht, hty⟩ : ∃ t, L.tokens[L.curr]? = some t ∧ t.type = Token_Type_Keyword_Elseif := by
      cases h : L.tokens[L.curr]? with
      | none => rw [h] at htok; exact Option.noConfusion htok
      | some t =>
        rw [h] at htok
        simp only [Option.map_some', Option.some.injEq] at htok
        exact ⟨t, rfl, htok⟩
    have hne : m ≠ L.heap.length := by omega
    have hstep := parse_if_elseifs_step F' m c.start.curr L c.mid c.stop t c.cond c.block z x'
      ht hty hskip (by rw [← hstart]; exact parse_expression_fuel (by omega) hpe)
      (parse_block_fuel (by omega) hpb) hz hx' hne
    have hzlt : L.heap.length < c.stop.heap.length := getElem?_lt_length hz
    have hmlt' : m < c.stop.heap.length := getElem?_lt_length hx'
    have hheap : (c.linked_state m L.heap.length).heap
        = (c.stop.heap.set L.heap.length (z.with_clause c.cond c.block)).set m
            { x' with false_block := NodePtr.node L.heap.length } := by
      have h1 : (c.stop.heap.set L.heap.length (z.with_clause c.cond c.block))[m]? = some x' := by
        rw [List.getElem?_set_ne (Ne.symm hne)]; exact hx'
      simp only [IfClause.linked_state, update_node_eq _ hz, update_node_eq _ h1]
    have hcelln : (c.linked_state m L.heap.length).heap[L.heap.length]?
        = some (z.with_clause c.cond c.block) := by
      rw [hheap, List.getElem?_set_ne hne, List.getElem?_set_self hzlt]
    have hcellm : (c.linked_state m L.heap.length).heap[m]?
        = some { x' with false_block := NodePtr.node L.heap.length } := by
      rw [hheap, List.getElem?_set_self (by rw [List.length_set]; exact hmlt')]
    have hlenL : (c.linked_state m L.heap.length).heap.length = c.stop.heap.length := by
      rw [hheap, List.length_set, List.length_set]
    obtain ⟨hrun', hchain'⟩ := ih F' L.heap.length (c.linked_state m L.heap.length)
      (z.with_clause c.cond c.block) r s' fin (by omega) hrest hcelln hzk hzf hexit hfinal
    have hrun : (parse_if_elseifs (F' + 1) (NodePtr.node m) >>= K) L = Res.ok r s' := by
      rw [bind_run, hstep, ← bind_run]
      exact hrun'
    refine ⟨hrun, ?_⟩
    obtain ⟨last, sE, hloop, hKrun⟩ := bind_ok.1 hrun'
    obtain ⟨hl3, hf3, -, hsafe⟩ := (good_parse_if_elseifs L.heap.length F'
      (NodePtr.node L.heap.length) (by intro j hj; injection hj with hj; omega)).run _ last sE
      (by rw [hlenL]; omega) hloop
    have hf4 := hK L.heap.length last sE r s' hsafe (by rw [hlenL] at hl3; omega) hKrun
    obtain ⟨w, hw, hwk, hwc, hwt, hwf⟩ := view_cell ((hf4 m hmlt).trans (hf3 m hmlt)) hcellm
    have htb : (z.with_clause c.cond c.block).true_block = c.block := by
      simp only [AstNode.with_clause]
      by_cases hb : c.block = NodePtr.null
      · rw [hb]; simp only [ne_eq, not_true_eq_false, if_false]; exact hzt
      · simp only [ne_eq, hb, not_false_eq_true, if_true]
    have hcd : (z.with_clause c.cond c.block).cond = c.cond := rfl
    rw [htb, hcd] at hchain'
    simp only [List.length_cons, if_chain_view, hw, hwf, hchain', List.map_cons, hwk, hwc, hwt,
      hxk, hxc, hxt, hk]

/-- The function `parse_if_stmt` up to its elseif loop, given the runs of the first clause. -/
theorem parse_if_stmt_head (F : Nat) (s : OnyxParser) (tif : OnyxToken) (c0 : IfClause)
    (hif : s.tokens[s.curr]? = some tif) (hift : tif.type = Token_Type_Keyword_If)
    (hskip : skip_comments (s.tokens.drop (s.curr + 1)) (s.curr + 1) = some c0.start.curr)
    (hstart : c0.start = { s with prev := some (s.curr : Int), curr := c0.start.curr })
    (h0 : c0.parsed F) :
    parse_if_stmt (F + 1) s
      = (parse_if_elseifs F (NodePtr.node c0.stop.heap.length)
          >>= parse_if_else_tail F (NodePtr.node c0.stop.heap.length)) c0.root_state := by
  obtain ⟨hpe, hpb⟩ := h0
  rw [hstart] at hpe
  rw [parse_if_stmt]
  obtain ⟨start, cond, mid, block, stop⟩ := c0
  simp only at hpe hpb hskip hstart ⊢
  by_cases hb : block = NodePtr.null
  · subst hb
    simp only [bind_run, expect_token_run s tif _ _ hif hift hskip, hpe, hpb, make_node_run,
      modify_node, List.getElem?_concat_length, List.set_append, Nat.lt_irrefl, if_false,
      Nat.sub_self, List.set_cons_zero, ne_eq, not_true_eq_false, pure_run, ite_run,
      IfClause.root_state, AstNode.with_clause, parse_if_else_tail]
  · simp only [bind_run, expect_token_run s tif _ _ hif hift hskip, hpe, hpb, make_node_run,
      modify_node, List.getElem?_concat_length, List.set_append, Nat.lt_irrefl, if_false,
      Nat.sub_self, List.set_cons_zero, ne_eq, hb, not_false_eq_true, if_true, pure_run, ite_run,
      IfClause.root_state, AstNode.with_clause, parse_if_else_tail]

theorem parse_if_else_tail_frame (F : Nat) (root : NodePtr) (b : Nat) (last : NodePtr)
    (s : OnyxParser) (r : NodePtr) (s' : OnyxParser) (hlast : safe_ptr b last)
    (hb : b ≤ s.heap.length) (h : parse_if_else_tail F root last s = Res.ok r s') :
    ∀ i, i < b → (s'.heap[i]?).map AstNode.clear_next = (s.heap[i]?).map AstNode.clear_next := by
  unfold parse_if_else_tail at h
  obtain ⟨t, s1, h1, h2⟩ := bind_ok.1 h
  obtain ⟨rfl, -⟩ := curr_type_ok h1
  by_cases ht : t = Token_Type_Keyword_Else
  · simp only [ht, if_true] at h2
    obtain ⟨u, s2, h3, h4⟩ := bind_ok.1 h2
    obtain ⟨hl3, hf3, -, -⟩ := (good_consume_token AstNode.clear_next b).run _ _ _ hb h3
    obtain ⟨fb, s3, h5, h6⟩ := bind_ok.1 h4
    obtain ⟨hl5, hf5, -, -⟩ := (good_parse_block b F).run _ _ _ (by omega) h5
    by_cases hfb : fb = NodePtr.null
    · simp only [hfb, ne_eq, not_true_eq_false, if_false, bind_run, pure_run,
        Res.ok.injEq] at h6
      obtain ⟨-, rfl⟩ := h6
      intro i hi
      exact (hf5 i hi).trans (hf3 i hi)
    · simp only [ne_eq, hfb, not_false_eq_true, if_true] at h6
      obtain ⟨v, s4, h7, h8⟩ := bind_ok.1 h6
      obtain ⟨-, hf7, -, -⟩ := (good_modify_node AstNode.clear_next b last _ hlast).run _ _ _
        (by omega) h7
      simp only [pure_run, Res.ok.injEq] at h8
      obtain ⟨-, rfl⟩ := h8
      intro i hi
      exact ((hf7 i hi).trans (hf5 i hi)).trans (hf3 i hi)
  · simp only [ht, if_false, bind_run, pure_run, Res.ok.injEq] at h2
    obtain ⟨-, rfl⟩ := h2
    intro i _
    rfl

/-- C7: for a statement `if c0 B0 (elseif ci Bi)* (else E)?` whose clauses are the runs
`c0 :: cs` of `parse_expression` and `parse_block` (each with the fuel `fuel`),
`parse_if_stmt` returns the If node allocated behind the first clause; walking
`false_block` from it `cs.length` times meets If nodes that hold the conditions and the
blocks of the clauses in their order; and the false branch of the last If node met is
null when no `else` follows, and the node that `parse_block` returns behind `else`
otherwise. -/
theorem if_chain_in_source_order (fuel : Nat) (s : OnyxParser) (tif texit : OnyxToken)
    (c0 : IfClause) (cs : List IfClause) (last : Nat) (E : OnyxParser)
    (hif : s.tokens[s.curr]? = some tif) (hift : tif.type = Token_Type_Keyword_If)
    (hskip : skip_comments (s.tokens.drop (s.curr + 1)) (s.curr + 1) = some c0.start.curr)
    (hstart : c0.start = { s with prev := some (s.curr : Int), curr := c0.start.curr })
    (h0 : c0.parsed fuel)
    (hcs : elseif_clauses fuel c0.stop.heap.length c0.root_state cs)
    (hE : elseif_exit c0.stop.heap.length c0.root_state cs = (last, E))
    (hexit : E.tokens[E.curr]? = some texit)
    (hnel : texit.type ≠ Token_Type_Keyword_Elseif) :
    (texit.type ≠ Token_Type_Keyword_Else →
      parse_if_stmt (fuel + cs.length + 2) s = Res.ok (NodePtr.node c0.stop.heap.length) E ∧
      if_chain_view cs.length E.heap (NodePtr.node c0.stop.heap.length)
        = some ((c0 :: cs).map (fun c => (Ast_Kind_If, c.cond, c.block)), NodePtr.null)) ∧
    (∀ (k : Nat) (eb : NodePtr) (se : OnyxParser),
      texit.type = Token_Type_Keyword_Else →
      skip_comments (E.tokens.drop (E.curr + 1)) (E.curr + 1) = some k →
      parse_block fuel { E with prev := some (E.curr : Int), curr := k } = Res.ok eb se →
      ∃ s', parse_if_stmt (fuel + cs.length + 2) s
          = Res.ok (NodePtr.node c0.stop.heap.length) s' ∧
        if_chain_view cs.length s'.heap (NodePtr.node c0.stop.heap.length)
          = some ((c0 :: cs).map (fun c => (Ast_Kind_If, c.cond, c.block)), eb) ∧
        s'.curr = se.curr ∧ s'.msgs = se.msgs ∧ s'.tokens = se.tokens) := by
  have hpre := parse_if_stmt_head (fuel + cs.length + 1) s tif c0 hif hift hskip hstart
    ⟨parse_expression_fuel (by omega) h0.1, parse_block_fuel (by omega) h0.2⟩
  have hK := fun (b : Nat) (lst : NodePtr) (s1 : OnyxParser) (r : NodePtr) (s2 : OnyxParser)
    (h1 : safe_ptr b lst) (h2 : b ≤ s1.heap.length)
    (h3 : parse_if_else_tail (fuel + cs.length + 1) (NodePtr.node c0.stop.heap.length) lst s1
      = Res.ok r s2) =>
    parse_if_else_tail_frame (fuel + cs.length + 1) (NodePtr.node c0.stop.heap.length) b lst s1 r
      s2 h1 h2 h3
  have hroot : c0.root_state.heap[c0.stop.heap.length]?
      = some (({ kind := Ast_Kind_If } : AstNode).with_clause c0.cond c0.block) :=
    List.getElem?_concat_length _ _
  have htb : (({ kind := Ast_Kind_If } : AstNode).with_clause c0.cond c0.block).true_block
      = c0.block := by
    simp only [AstNode.with_clause]
    by_cases hb : c0.block = NodePtr.null
    · rw [hb]; simp
    · simp [hb]
  have hEl : (elseif_exit c0.stop.heap.length c0.root_state cs).1 = last := by rw [hE]
  have hEs : (elseif_exit c0.stop.heap.length c0.root_state cs).2 = E := by rw [hE]
  constructor
  · intro hne
    obtain ⟨hrun, hchain⟩ := elseif_loop fuel _ hK cs (fuel + cs.length + 1) c0.stop.heap.length
      c0.root_state _ (NodePtr.node c0.stop.heap.length) E NodePtr.null (le_refl _) hcs hroot rfl
      rfl (by rw [hEs]; exact ⟨texit, hexit, hnel⟩)
      (by
        rw [hEs, hEl]
        intro y hy hyk hyf
        refine ⟨?_, y, hy, hyk, rfl, rfl, hyf⟩
        simp only [parse_if_else_tail, bind_run, curr_type, hexit, hne, if_false, pure_run])
    rw [htb] at hchain
    exact ⟨hpre.trans hrun, hchain⟩
  · intro k eb se helse hk hpb
    have hpbF : parse_block (fuel + cs.length + 1)
        { E with prev := some (E.curr : Int), curr := k } = Res.ok eb se :=
      parse_block_fuel (by omega) hpb
    have hcell : ∀ y, E.heap[last]? = some y → ∃ y2, se.heap[last]? = some y2 ∧
        y2.kind = y.kind ∧ y2.cond = y.cond ∧ y2.true_block = y.true_block ∧
        y2.false_block = y.false_block := by
      intro y hy
      have hlt := getElem?_lt_length hy
      obtain ⟨-, hf, -, -⟩ := (good_parse_block (last + 1) (fuel + cs.length + 1)).run _ eb se
        (by simp only; omega) hpbF
      exact view_cell (hf last (by omega)) hy
    by_cases heb : eb = NodePtr.null
    · obtain ⟨hrun, hchain⟩ := elseif_loop fuel _ hK cs (fuel + cs.length + 1)
        c0.stop.heap.length c0.root_state _ (NodePtr.node c0.stop.heap.length) se eb (le_refl _)
        hcs hroot rfl rfl (by rw [hEs]; exact ⟨texit, hexit, hnel⟩)
        (by
          rw [hEs, hEl]
          intro y hy hyk hyf
          obtain ⟨y2, hy2, h1, h2, h3, h4⟩ := hcell y hy
          refine ⟨?_, y2, hy2, h1.trans hyk, h2, h3, by rw [h4, hyf, heb]⟩
          simp only [parse_if_else_tail, bind_run, curr_type, hexit, helse, if_true,
            consume_token, hk, hpbF, heb, ne_eq, not_true_eq_false, if_false, pure_run])
      rw [htb] at hchain
      exact ⟨se, hpre.trans hrun, hchain, rfl, rfl, rfl⟩
    · obtain ⟨hrun, hchain⟩ := elseif_loop fuel _ hK cs (fuel + cs.length + 1)
        c0.stop.heap.length c0.root_state _ (NodePtr.node c0.stop.heap.length)
        { se with heap := update_node se.heap last (fun n => { n with false_block := eb }) } eb
        (le_refl _) hcs hroot rfl rfl (by rw [hEs]; exact ⟨texit, hexit, hnel⟩)
        (by
          rw [hEs, hEl]
          intro y hy hyk hyf
          obtain ⟨y2, hy2, h1, h2, h3, h4⟩ := hcell y hy
          refine ⟨?_, { y2 with false_block := eb }, ?_, h1.trans hyk, h2, h3, rfl⟩
          · simp only [parse_if_else_tail, bind_run, curr_type, hexit, helse, if_true,
              consume_token, hk, hpbF, heb, ne_eq, not_false_eq_true, pure_run, modify_node, hy2,
              update_node_eq _ hy2]
          · simp only [update_node_eq _ hy2]
            exact List.getElem?_set_self (getElem?_lt_length hy2))
      rw [htb] at hchain
      exact ⟨_, hpre.trans hrun, hchain, rfl, rfl, rfl⟩

/-- Witness of C7: the statement `if a { } elseif b { } else { }`.  The root If node is
at address 3 (behind `a`, its block and the block's local group), the elseif node at
address 4, the else block at address 8. -/
theorem if_chain_in_source_order_witness :
    ∃ s', parse_if_stmt (6 + 1 + 2) (onyx_parser_create if_elseif_else_stream)
        = Res.ok (NodePtr.node 3) s' ∧
      if_chain_view 1 s'.heap (NodePtr.node 3)
        = some ([(Ast_Kind_If, NodePtr.node 0, NodePtr.node 1),
                 (Ast_Kind_If, NodePtr.node 5, NodePtr.node 6)], NodePtr.node 8) ∧
      s'.curr = 11 := by
  have h := (if_chain_in_source_order 6 (onyx_parser_create if_elseif_else_stream)
    (plain_token Token_Type_Keyword_If 1) (plain_token Token_Type_Keyword_Else 23)
    sample_if_clause [sample_elseif_clause] 4 (sample_elseif_clause.linked_state 3 4)
    (by decide) (by decide) (by decide!) (by decide!) (by decide!)
    (show _ ∧ _ ∧ _ ∧ _ ∧ True from ⟨by decide!, by decide!, by decide!, by decide!, trivial⟩)
    (by decide!) (by decide!) (by decide)).2 9 (NodePtr.node 8) sample_else_state
    (by decide) (by decide!) (by decide!)
  have e1 : sample_if_clause.stop.heap.length = 3 := by decide!
  have e2 : (sample_if_clause :: [sample_elseif_clause]).map
      (fun c => (Ast_Kind_If, c.cond, c.block))
      = [(Ast_Kind_If, NodePtr.node 0, NodePtr.node 1),
         (Ast_Kind_If, NodePtr.node 5, NodePtr.node 6)] := by decide!
  have e3 : sample_else_state.curr = 11 := by decide!
  rw [e1, e2, e3] at h
  obtain ⟨s', h1, h2, h3, -, -⟩ := h
  exact ⟨s', h1, h2, h3⟩

end Onyx
namespace Onyx

open TokenType AstKind BinaryOp UnaryOp BasicKind OnyxMessageType

/-! ## Claims on call arguments -/

theorem write_slot_run (slot : NodeSlot) (v : NodePtr) (p : Nat) (s : OnyxParser)
    (hown : slot.owner = NodePtr.node p) :
    write_slot slot v s = (match s.heap[p]? with
      | some n => Res.ok () { s with heap := s.heap.set p (slot.put v n) }
      | none => Res.fault Fault.out_of_bounds) := by
  cases slot <;> simp only [NodeSlot.owner] at hown <;> subst hown <;>
    simp only [write_slot, modify_node, NodeSlot.put] <;> cases s.heap[p]? <;> rfl

/-- The last iteration of the argument loop of a call: the arena after the argument
`value` has been parsed, stored in the Argument node and linked through `prev`. -/
theorem call_last_argument_run (fuel : Nat) (prev : NodeSlot) (p : Nat) (s s1 : OnyxParser)
    (t0 tc tp : OnyxToken) (value : NodePtr)
    (hown : prev.owner = NodePtr.node p) (hp : p < s.heap.length)
    (h0 : s.tokens[s.curr]? = some t0) (hn0 : t0.type ≠ ascii ')')
    (hrun : parse_expression (fuel + 1)
      { s with heap := s.heap ++ [{ kind := Ast_Kind_Argument, token := some s.curr }] }
      = Res.ok value s1)
    (hc : s1.tokens[s1.curr]? = some tc)
    (hp1 : s1.tokens[s1.curr + 1]? = some tp) (hpt : tp.type = ascii ')') :
    (tc.type = ascii ')' →
      parse_call_arguments (fuel + 2) prev s
        = Res.ok true { s1 with heap :=
            (update_node (update_node s1.heap s.heap.length
                (fun n => { n with arg_value := value })) p
              (prev.put (NodePtr.node s.heap.length))) })
    ∧ (tc.type = ascii ',' →
      parse_call_arguments (fuel + 2) prev s
        = Res.ok true { s1 with prev := some (s1.curr : Int), curr := s1.curr + 1, heap :=
            (update_node (update_node s1.heap s.heap.length
                (fun n => { n with arg_value := value })) p
              (prev.put (NodePtr.node s.heap.length))) }) := by
  obtain ⟨hlen, hfr, -, -⟩ := (good_parse_expression id (s.heap.length + 1) (fuel + 1)).run _
    value s1 (by simp) hrun
  have ha := hfr s.heap.length (Nat.lt_succ_self _)
  simp only [List.getElem?_concat_length, Option.map_id, id_eq] at ha
  have hpc := hfr p (by omega)
  simp only [Option.map_id, id_eq] at hpc
  rw [List.getElem?_append_left hp] at hpc
  have hpn : ∃ n, s.heap[p]? = some n := ⟨s.heap[p], List.getElem?_eq_getElem hp⟩
  obtain ⟨n, hn⟩ := hpn
  rw [hn] at hpc
  simp only [List.length_append, List.length_singleton] at hlen
  obtain ⟨toks, cur, prv, msgs, H, en, res⟩ := s1
  simp only at ha hpc hc hp1 hlen
  have hne : p ≠ s.heap.length := by omega
  have hpc1 : ∀ q, (H.set s.heap.length q)[p]? = some n := by
    intro q
    rw [List.getElem?_set_ne (Ne.symm hne)]
    exact hpc
  have halt : s.heap.length < H.length := by omega
  have hcomment : tp.type ≠ Token_Type_Comment := by rw [hpt]; decide
  have hskip := skip_comments_next toks (cur + 1) tp hp1 hcomment
  have hkind : Ast_Kind_Argument ≠ Ast_Kind_Error := by decide
  constructor
  · intro hct
    simp only [parse_call_arguments, bind_run, curr_type, h0, hn0, ne_eq, not_false_eq_true,
      if_true, make_node_run, curr_ptr, modify_node, List.getElem?_concat_length,
      List.set_append, Nat.lt_irrefl, if_false, Nat.sub_self, List.set_cons_zero, hrun, ha,
      read_node, List.getElem?_set_self halt, hkind, pure_run,
      write_slot_run prev _ p _ hown, hc, hct, update_node, hpc1]
  · intro hct
    have hcp : ascii ',' ≠ ascii ')' := by decide
    simp only [parse_call_arguments, bind_run, curr_type, h0, hn0, ne_eq, not_false_eq_true,
      if_true, make_node_run, curr_ptr, modify_node, List.getElem?_concat_length,
      List.set_append, Nat.lt_irrefl, if_false, Nat.sub_self, List.set_cons_zero, hrun, ha,
      read_node, List.getElem?_set_self halt, hkind, pure_run,
      write_slot_run prev _ p _ hown, hc, hct, hcp, not_true_eq_false,
      consume_token, hskip, hp1, hpt, update_node, hpc1]

/-- C14 as stated fails: on `f ( a , ) ;` `parse_factor` posts no diagnostic and returns
the Call node with the one argument `a`, with the arena that it builds for `f ( a ) ;`. -/
theorem trailing_comma_is_accepted :
    parse_factor 8 (onyx_parser_create call_trailing_comma_stream)
      = Res.ok (NodePtr.node 1)
          { onyx_parser_create call_trailing_comma_stream with
            curr := 5, prev := some 4, msgs := [], heap := call_one_argument_heap }
    ∧ parse_factor 8 (onyx_parser_create call_one_argument_stream)
      = Res.ok (NodePtr.node 1)
          { onyx_parser_create call_one_argument_stream with
            curr := 4, prev := some 3, msgs := [], heap := call_one_argument_heap } := by
  constructor <;> decide!

/-- C14, amended: a trailing comma in a call argument list is accepted.  In the argument
loop of `parse_factor`, at any slot `prev` of an earlier node, when the argument expression
is followed by `,` and then `)`, the loop consumes the comma and ends normally (the result
`true`, not the return of the error node) without posting a diagnostic: the arena and the
messages are those of the case where `)` follows the argument directly, and the cursor is
on `)`. -/
theorem call_trailing_comma (fuel : Nat) (prev : NodeSlot) (p : Nat) (s s1 : OnyxParser)
    (t0 tc tp : OnyxToken) (value : NodePtr)
    (hown : prev.owner = NodePtr.node p) (hp : p < s.heap.length)
    (h0 : s.tokens[s.curr]? = some t0) (hn0 : t0.type ≠ ascii ')')
    (hrun : parse_expression (fuel + 1)
      { s with heap := s.heap ++ [{ kind := Ast_Kind_Argument, token := some s.curr }] }
      = Res.ok value s1)
    (hc : s1.tokens[s1.curr]? = some tc)
    (hp1 : s1.tokens[s1.curr + 1]? = some tp) (hpt : tp.type = ascii ')') :
    (tc.type = ascii ')' →
      parse_call_arguments (fuel + 2) prev s
        = Res.ok true { s1 with heap :=
            (update_node (update_node s1.heap s.heap.length
                (fun n => { n with arg_value := value })) p
              (prev.put (NodePtr.node s.heap.length))) })
    ∧ (tc.type = ascii ',' →
      parse_call_arguments (fuel + 2) prev s
        = Res.ok true { s1 with prev := some (s1.curr : Int), curr := s1.curr + 1, heap :=
            (update_node (update_node s1.heap s.heap.length
                (fun n => { n with arg_value := value })) p
              (prev.put (NodePtr.node s.heap.length))) }) :=
  call_last_argument_run fuel prev p s s1 t0 tc tp value hown hp h0 hn0 hrun hc hp1 hpt

/-- An instance of C14: the argument loop on `f ( a , ) ;`. -/
theorem call_trailing_comma_witness :
    parse_call_arguments (4 + 2) (NodeSlot.arguments (NodePtr.node 1)) call_loop_state
      = Res.ok true { call_argument_state with
          prev := some (3 : Int), curr := 3 + 1,
          heap := (update_node (update_node call_argument_state.heap 2
                (fun n => { n with arg_value := NodePtr.node 3 })) 1
              ((NodeSlot.arguments (NodePtr.node 1)).put (NodePtr.node 2))) } :=
  (call_trailing_comma 4 (NodeSlot.arguments (NodePtr.node 1)) 1 call_loop_state
    call_argument_state (symbol_token 'a' 3) (plain_token (ascii ',') 4)
    (plain_token (ascii ')') 5) (NodePtr.node 3) rfl (by decide) (by decide) (by decide)
    (by decide!) (by decide) (by decide) (by decide)).2 (by decide)

end Onyx
namespace Onyx

open TokenType AstKind BinaryOp UnaryOp BasicKind OnyxMessageType

/-! ## Directives and the top level -/

theorem rewind_comments_self (tokens : List OnyxToken) (p : Nat) (t : OnyxToken)
    (ht : tokens[p]? = some t) (hc : t.type ≠ Token_Type_Comment) :
    rewind_comments tokens p = some p := by
  cases p with
  | zero => simp only [rewind_comments, ht, hc, if_false]
  | succ p => simp only [rewind_comments, ht, hc, if_false]

theorem unconsume_token_run (s : OnyxParser) (p : Nat) (t : OnyxToken)
    (hprev : s.prev = some (p : Int)) (ht : s.tokens[p]? = some t)
    (hc : t.type ≠ Token_Type_Comment) :
    unconsume_token s = Res.ok () { s with curr := p, prev := some ((p : Int) - 1) } := by
  have h : s.prev = some (Int.ofNat p) := hprev
  simp only [unconsume_token, h, rewind_comments_self s.tokens p t ht hc]

/-- A directive that is the one asked for: the cursor passes `#` and the symbol. -/
theorem parse_possible_directive_match (dir : List Char) (s : OnyxParser)
    (hash sym r : OnyxToken)
    (h0 : s.tokens[s.curr]? = some hash) (hh : hash.type = ascii '#')
    (h1 : s.tokens[s.curr + 1]? = some sym) (hs : sym.type = Token_Type_Symbol)
    (h2 : s.tokens[s.curr + 2]? = some r) (hr : r.type ≠ Token_Type_Comment)
    (hd : sym.text = dir) :
    parse_possible_directive dir s
      = Res.ok true { s with curr := s.curr + 2, prev := some ((s.curr + 1 : Nat) : Int) } := by
  have hsc : sym.type ≠ Token_Type_Comment := by rw [hs]; decide
  obtain ⟨toks, cur, prev, msgs, H, en, res⟩ := s
  simp only at h0 h1 h2
  have e1 := expect_token_next ⟨toks, cur, prev, msgs, H, en, res⟩ hash sym (ascii '#') h0 hh h1 hsc
  have e2 := expect_token_next ⟨toks, cur + 1, some (cur : Int), msgs, H, en, res⟩ sym r
    Token_Type_Symbol h1 hs h2 hr
  simp only [parse_possible_directive, bind_run, curr_type, h0, hh, ne_eq, not_true_eq_false,
    if_false, e1, e2, read_token, h1, hd, decide_True, pure_run, Bool.not_true,
    Bool.false_eq_true]

/-- A directive that is not the one asked for: the cursor is on the `#` again. -/
theorem parse_possible_directive_mismatch (dir : List Char) (s : OnyxParser)
    (hash sym r : OnyxToken)
    (h0 : s.tokens[s.curr]? = some hash) (hh : hash.type = ascii '#')
    (h1 : s.tokens[s.curr + 1]? = some sym) (hs : sym.type = Token_Type_Symbol)
    (h2 : s.tokens[s.curr + 2]? = some r) (hr : r.type ≠ Token_Type_Comment)
    (hd : sym.text ≠ dir) :
    parse_possible_directive dir s
      = Res.ok false { s with prev := some ((s.curr : Int) - 1) } := by
  have hsc : sym.type ≠ Token_Type_Comment := by rw [hs]; decide
  have hhc : hash.type ≠ Token_Type_Comment := by rw [hh]; decide
  obtain ⟨toks, cur, prev, msgs, H, en, res⟩ := s
  simp only at h0 h1 h2
  have e1 := expect_token_next ⟨toks, cur, prev, msgs, H, en, res⟩ hash sym (ascii '#') h0 hh h1 hsc
  have e2 := expect_token_next ⟨toks, cur + 1, some (cur : Int), msgs, H, en, res⟩ sym r
    Token_Type_Symbol h1 hs h2 hr
  have u1 := unconsume_token_run ⟨toks, cur + 1 + 1, some ((cur + 1 : Nat) : Int), msgs, H, en, res⟩
    (cur + 1) sym rfl h1 hsc
  have hcast : ((cur + 1 : Nat) : Int) - 1 = (cur : Int) := by omega
  have u2 := unconsume_token_run ⟨toks, cur + 1, some (cur : Int), msgs, H, en, res⟩
    cur hash rfl h0 hhc
  have hd1 : ¬ dir = sym.text := fun h => hd h.symm
  simp only [hcast] at u1
  simp only [parse_possible_directive, bind_run, curr_type, h0, hh, ne_eq, not_true_eq_false,
    if_false, e1, e2, read_token, h1, hd1, decide_False, pure_run, Bool.not_false, if_true,
    u1, u2, Bool.false_eq_true, not_false_eq_true]

theorem drop_cons_getElem? {α : Type} (l : List α) (i : Nat) (a : α) (rest : List α)
    (h : l.drop i = a :: rest) : l[i]? = some a ∧ l.drop (i + 1) = rest := by
  have h1 : l[i]? = some a := by
    have := congrArg (fun x => x[0]?) h
    simp only [List.getElem?_drop, Nat.add_zero, List.getElem?_cons_zero] at this
    exact this
  refine ⟨h1, ?_⟩
  have h2 : l.drop (i + 1) = (l.drop i).drop 1 := by
    rw [List.drop_drop]
  rw [h2, h]
  rfl

theorem drop_three {α : Type} (l : List α) (i : Nat) (a b c : α) (rest : List α)
    (h : l.drop i = a :: b :: c :: rest) :
    l[i]? = some a ∧ l[i + 1]? = some b ∧ l[i + 2]? = some c
      ∧ l.drop (i + 2) = c :: rest := by
  obtain ⟨h0, h⟩ := drop_cons_getElem? l i a _ h
  obtain ⟨h1, h⟩ := drop_cons_getElem? l (i + 1) b _ h
  obtain ⟨h2, _⟩ := drop_cons_getElem? l (i + 2) c _ h
  exact ⟨h0, h1, h2, h⟩

set_option maxHeartbeats 1000000 in
/-- One iteration of the directive loop of `parse_function_definition` on a recognized
directive. -/
theorem function_directive_step (fuel : Nat) (s : OnyxParser) (f : Nat) (n : AstNode)
    (d : DirectiveUse) (r : OnyxToken) (rest : List OnyxToken)
    (hd : d.of_function = true)
    (htoks : s.tokens.drop s.curr = d.tokens ++ r :: rest)
    (hr : r.type ≠ Token_Type_Comment) (hrs : r.type ≠ Token_Type_Literal_String)
    (hn : s.heap[f]? = some n) :
    parse_function_directives (fuel + 1) (NodePtr.node f) s
      = parse_function_directives fuel (NodePtr.node f)
          { s with curr := s.curr + d.tokens.length,
                   prev := some ((s.curr + d.tokens.length - 1 : Nat) : Int),
                   heap := s.heap.set f (d.apply s.curr n) } := by
  obtain ⟨hash, sym, strings⟩ := d
  obtain ⟨toks, cur, prev, msgs, H, en, res⟩ := s
  simp only [DirectiveUse.of_function, DirectiveUse.shaped, DirectiveUse.named,
    Bool.and_eq_true, Bool.or_eq_true, decide_eq_true_eq, List.all_eq_true] at hd
  obtain ⟨⟨⟨hh, hs⟩, hstr⟩, hkind⟩ := hd
  simp only [DirectiveUse.tokens] at htoks ⊢
  simp only at hn
  have hflt : f < H.length := by
    by_contra hc
    rw [List.getElem?_eq_none (by omega)] at hn
    exact Option.noConfusion hn
  have hsc : sym.type ≠ Token_Type_Comment := by rw [hs]; decide
  have hset : ∀ q : AstNode, (H.set f q)[f]? = some q := fun q => List.getElem?_set_self hflt
  have pm : ∀ (dir : List Char) (pv : Option Int) (x : OnyxToken), toks[cur]? = some hash →
      toks[cur + 1]? = some sym → toks[cur + 2]? = some x → x.type ≠ Token_Type_Comment →
      sym.text ≠ dir →
      parse_possible_directive dir ⟨toks, cur, pv, msgs, H, en, res⟩
        = Res.ok false ⟨toks, cur, some ((cur : Int) - 1), msgs, H, en, res⟩ :=
    fun dir pv x h0 h1 h2 hx hne =>
      parse_possible_directive_mismatch dir ⟨toks, cur, pv, msgs, H, en, res⟩ hash sym x
        h0 hh h1 hs h2 hx hne
  have pk : ∀ (pv : Option Int) (x : OnyxToken), toks[cur]? = some hash →
      toks[cur + 1]? = some sym → toks[cur + 2]? = some x → x.type ≠ Token_Type_Comment →
      parse_possible_directive sym.text ⟨toks, cur, pv, msgs, H, en, res⟩
        = Res.ok true ⟨toks, cur + 2, some ((cur + 1 : Nat) : Int), msgs, H, en, res⟩ :=
    fun pv x h0 h1 h2 hx =>
      parse_possible_directive_match sym.text ⟨toks, cur, pv, msgs, H, en, res⟩ hash sym x
        h0 hh h1 hs h2 hx rfl
  have hstring : Token_Type_Literal_String ≠ Token_Type_Comment := by decide
  have q1 : ¬ ("intrinsic".toList = "inline".toList) := by decide
  have q2 : ¬ ("intrinsic".toList = "foreign".toList) := by decide
  have q3 : ¬ ("intrinsic".toList = "export".toList) := by decide
  have q4 : ¬ ("inline".toList = "intrinsic".toList) := by decide
  have q5 : ¬ ("inline".toList = "foreign".toList) := by decide
  have q6 : ¬ ("inline".toList = "export".toList) := by decide
  have q7 : ¬ ("foreign".toList = "intrinsic".toList) := by decide
  have q8 : ¬ ("foreign".toList = "inline".toList) := by decide
  have q9 : ¬ ("foreign".toList = "export".toList) := by decide
  have q10 : ¬ ("export".toList = "intrinsic".toList) := by decide
  have q11 : ¬ ("export".toList = "inline".toList) := by decide
  have q12 : ¬ ("export".toList = "foreign".toList) := by decide
  rcases hkind with ((⟨hname, hlen⟩ | ⟨hname, hlen⟩) | ⟨hname, hlen⟩) | ⟨hname, hlen⟩
  · -- intrinsic
    match strings, hstr, hlen, htoks with
    | [], _, _, htoks =>
      obtain ⟨h0, h1, h2, -⟩ := drop_three toks cur hash sym r rest htoks
      have e := pk prev r h0 h1 h2 hr
      rw [hname] at e
      simp only [parse_function_directives, bind_run, curr_type, h0, hh, if_true, e,
        modify_node, hn, h2, hrs, if_false, pure_run, DirectiveUse.apply, DirectiveUse.named,
        hname, decide_True, List.length_nil, List.length_cons, Nat.add_zero,
        Nat.add_one_sub_one, Nat.reduceAdd]
    | [a], hstr, _, htoks =>
      have ha : a.type = Token_Type_Literal_String := hstr a (by simp)
      have hac : a.type ≠ Token_Type_Comment := by rw [ha]; decide
      obtain ⟨h0, h1, h2, h⟩ := drop_three toks cur hash sym a (r :: rest) htoks
      obtain ⟨-, h⟩ := drop_cons_getElem? toks (cur + 2) a _ h
      obtain ⟨h3, -⟩ := drop_cons_getElem? toks (cur + 2 + 1) r _ h
      have e := pk prev a h0 h1 h2 hac
      rw [hname] at e
      have e3 := expect_token_next ⟨toks, cur + 2, some ((cur + 1 : Nat) : Int), msgs,
        H.set f { n with flags := { n.flags with intrinsic := true } }, en, res⟩ a r
        Token_Type_Literal_String h2 ha h3 hr
      simp only [parse_function_directives, bind_run, curr_type, h0, hh, if_true, e,
        modify_node, hn, h2, ha, e3, hset, List.set_set, pure_run, DirectiveUse.apply,
        DirectiveUse.named, hname, decide_True, List.length_cons, List.length_nil]
      rfl
    | _ :: _ :: _, _, hlen, _ => simp at hlen
  · -- inline
    have hl : strings = [] := List.length_eq_zero.mp hlen
    subst hl
    obtain ⟨h0, h1, h2, -⟩ := drop_three toks cur hash sym r rest htoks
    have n1 : sym.text ≠ "intrinsic".toList := by rw [hname]; decide
    have m1 := pm "intrinsic".toList prev r h0 h1 h2 hr n1
    have e := pk (some ((cur : Int) - 1)) r h0 h1 h2 hr
    rw [hname] at e
    simp only [parse_function_directives, bind_run, curr_type, h0, hh, if_true, m1, e,
      modify_node, hn, pure_run, DirectiveUse.apply, DirectiveUse.named,
      hname, q1, q2, q3, q4, q5, q6, q7, q8, q9, q10, q11, q12, decide_True, decide_False, List.length_nil, List.length_cons, Nat.add_zero,
      Nat.add_one_sub_one, Nat.reduceAdd, Bool.false_eq_true, if_false]
  · -- foreign
    match strings, hstr, hlen, htoks with
    | [a, b], hstr, _, htoks =>
      have ha : a.type = Token_Type_Literal_String := hstr a (by simp)
      have hb : b.type = Token_Type_Literal_String := hstr b (by simp)
      have hac : a.type ≠ Token_Type_Comment := by rw [ha]; decide
      have hbc : b.type ≠ Token_Type_Comment := by rw [hb]; decide
      obtain ⟨h0, h1, h2, h⟩ := drop_three toks cur hash sym a (b :: r :: rest) htoks
      obtain ⟨-, h⟩ := drop_cons_getElem? toks (cur + 2) a _ h
      obtain ⟨h3, h⟩ := drop_cons_getElem? toks (cur + 2 + 1) b _ h
      obtain ⟨h4, -⟩ := drop_cons_getElem? toks (cur + 2 + 1 + 1) r _ h
      have n1 : sym.text ≠ "intrinsic".toList := by rw [hname]; decide
      have n2 : sym.text ≠ "inline".toList := by rw [hname]; decide
      have m1 := pm "intrinsic".toList prev a h0 h1 h2 hac n1
      have m2 := pm "inline".toList (some ((cur : Int) - 1)) a h0 h1 h2 hac n2
      have e := pk (some ((cur : Int) - 1)) a h0 h1 h2 hac
      rw [hname] at e
      have e3 := expect_token_next ⟨toks, cur + 2, some ((cur + 1 : Nat) : Int), msgs,
        H, en, res⟩ a b Token_Type_Literal_String h2 ha h3 hbc
      have e4 := fun H1 => expect_token_next ⟨toks, cur + 2 + 1, some ((cur + 2 : Nat) : Int),
        msgs, H1, en, res⟩ b r Token_Type_Literal_String h3 hb h4 hr
      simp only [parse_function_directives, bind_run, curr_type, h0, hh, if_true, m1, m2, e,
        modify_node, hn, e3, e4, hset, List.set_set, pure_run, DirectiveUse.apply,
        DirectiveUse.named, hname, q1, q2, q3, q4, q5, q6, q7, q8, q9, q10, q11, q12,
        decide_True, decide_False, List.length_cons,
        List.length_nil, Bool.false_eq_true, if_false]
      rfl
    | [], _, hlen, _ => simp at hlen
    | [_], _, hlen, _ => simp at hlen
    | _ :: _ :: _ :: _, _, hlen, _ => simp at hlen
  · -- export
    have n1 : sym.text ≠ "intrinsic".toList := by rw [hname]; decide
    have n2 : sym.text ≠ "inline".toList := by rw [hname]; decide
    have n3 : sym.text ≠ "foreign".toList := by rw [hname]; decide
    match strings, hstr, hlen, htoks with
    | [], _, _, htoks =>
      obtain ⟨h0, h1, h2, -⟩ := drop_three toks cur hash sym r rest htoks
      have m1 := pm "intrinsic".toList prev r h0 h1 h2 hr n1
      have m2 := pm "inline".toList (some ((cur : Int) - 1)) r h0 h1 h2 hr n2
      have m3 := pm "foreign".toList (some ((cur : Int) - 1)) r h0 h1 h2 hr n3
      have e := pk (some ((cur : Int) - 1)) r h0 h1 h2 hr
      rw [hname] at e
      simp only [parse_function_directives, bind_run, curr_type, h0, hh, if_true, m1, m2, m3,
        e, modify_node, hn, h2, hrs, if_false, pure_run, DirectiveUse.apply,
        DirectiveUse.named, hname, q1, q2, q3, q4, q5, q6, q7, q8, q9, q10, q11, q12, decide_True, decide_False, List.length_nil,
        List.length_cons, Nat.add_zero, Nat.add_one_sub_one, Nat.reduceAdd,
        Bool.false_eq_true]
    | [a], hstr, _, htoks =>
      have ha : a.type = Token_Type_Literal_String := hstr a (by simp)
      have hac : a.type ≠ Token_Type_Comment := by rw [ha]; decide
      obtain ⟨h0, h1, h2, h⟩ := drop_three toks cur hash sym a (r :: rest) htoks
      obtain ⟨-, h⟩ := drop_cons_getElem? toks (cur + 2) a _ h
      obtain ⟨h3, -⟩ := drop_cons_getElem? toks (cur + 2 + 1) r _ h
      have m1 := pm "intrinsic".toList prev a h0 h1 h2 hac n1
      have m2 := pm "inline".toList (some ((cur : Int) - 1)) a h0 h1 h2 hac n2
      have m3 := pm "foreign".toList (some ((cur : Int) - 1)) a h0 h1 h2 hac n3
      have e := pk (some ((cur : Int) - 1)) a h0 h1 h2 hac
      rw [hname] at e
      have e3 := expect_token_next ⟨toks, cur + 2, some ((cur + 1 : Nat) : Int), msgs,
        H.set f { n with flags := { n.flags with exported := true } }, en, res⟩ a r
        Token_Type_Literal_String h2 ha h3 hr
      simp only [parse_function_directives, bind_run, curr_type, h0, hh, if_true, m1, m2, m3,
        e, modify_node, hn, h2, ha, e3, hset, List.set_set, pure_run, DirectiveUse.apply,
        DirectiveUse.named, hname, q1, q2, q3, q4, q5, q6, q7, q8, q9, q10, q11, q12,
        decide_True, decide_False, List.length_cons,
        List.length_nil, Bool.false_eq_true, if_false]
      rfl
    | _ :: _ :: _, _, hlen, _ => simp at hlen

set_option maxHeartbeats 1000000 in
/-- One iteration of the directive loop of `parse_global_declaration` on a recognized
directive. -/
theorem global_directive_step (fuel : Nat) (s : OnyxParser) (f : Nat) (n : AstNode)
    (d : DirectiveUse) (r : OnyxToken) (rest : List OnyxToken)
    (hd : d.of_global = true)
    (htoks : s.tokens.drop s.curr = d.tokens ++ r :: rest)
    (hr : r.type ≠ Token_Type_Comment) (hrs : r.type ≠ Token_Type_Literal_String)
    (hn : s.heap[f]? = some n) :
    parse_global_directives (fuel + 1) (NodePtr.node f) s
      = parse_global_directives fuel (NodePtr.node f)
          { s with curr := s.curr + d.tokens.length,
                   prev := some ((s.curr + d.tokens.length - 1 : Nat) : Int),
                   heap := s.heap.set f (d.apply s.curr n) } := by
  obtain ⟨hash, sym, strings⟩ := d
  obtain ⟨toks, cur, prev, msgs, H, en, res⟩ := s
  simp only [DirectiveUse.of_global, DirectiveUse.shaped, DirectiveUse.named,
    Bool.and_eq_true, Bool.or_eq_true, decide_eq_true_eq, List.all_eq_true] at hd
  obtain ⟨⟨⟨hh, hs⟩, hstr⟩, hkind⟩ := hd
  simp only [DirectiveUse.tokens] at htoks ⊢
  simp only at hn
  have hflt : f < H.length := by
    by_contra hc
    rw [List.getElem?_eq_none (by omega)] at hn
    exact Option.noConfusion hn
  have hsc : sym.type ≠ Token_Type_Comment := by rw [hs]; decide
  have hset : ∀ q : AstNode, (H.set f q)[f]? = some q := fun q => List.getElem?_set_self hflt
  have pm : ∀ (dir : List Char) (pv : Option Int) (x : OnyxToken), toks[cur]? = some hash →
      toks[cur + 1]? = some sym → toks[cur + 2]? = some x → x.type ≠ Token_Type_Comment →
      sym.text ≠ dir →
      parse_possible_directive dir ⟨toks, cur, pv, msgs, H, en, res⟩
        = Res.ok false ⟨toks, cur, some ((cur : Int) - 1), msgs, H, en, res⟩ :=
    fun dir pv x h0 h1 h2 hx hne =>
      parse_possible_directive_mismatch dir ⟨toks, cur, pv, msgs, H, en, res⟩ hash sym x
        h0 hh h1 hs h2 hx hne
  have pk : ∀ (pv : Option Int) (x : OnyxToken), toks[cur]? = some hash →
      toks[cur + 1]? = some sym → toks[cur + 2]? = some x → x.type ≠ Token_Type_Comment →
      parse_possible_directive sym.text ⟨toks, cur, pv, msgs, H, en, res⟩
        = Res.ok true ⟨toks, cur + 2, some ((cur + 1 : Nat) : Int), msgs, H, en, res⟩ :=
    fun pv x h0 h1 h2 hx =>
      parse_possible_directive_match sym.text ⟨toks, cur, pv, msgs, H, en, res⟩ hash sym x
        h0 hh h1 hs h2 hx rfl
  have hstring : Token_Type_Literal_String ≠ Token_Type_Comment := by decide
  have q1 : ¬ ("intrinsic".toList = "inline".toList) := by decide
  have q2 : ¬ ("intrinsic".toList = "foreign".toList) := by decide
  have q3 : ¬ ("intrinsic".toList = "export".toList) := by decide
  have q4 : ¬ ("inline".toList = "intrinsic".toList) := by decide
  have q5 : ¬ ("inline".toList = "foreign".toList) := by decide
  have q6 : ¬ ("inline".toList = "export".toList) := by decide
  have q7 : ¬ ("foreign".toList = "intrinsic".toList) := by decide
  have q8 : ¬ ("foreign".toList = "inline".toList) := by decide
  have q9 : ¬ ("foreign".toList = "export".toList) := by decide
  have q10 : ¬ ("export".toList = "intrinsic".toList) := by decide
  have q11 : ¬ ("export".toList = "inline".toList) := by decide
  have q12 : ¬ ("export".toList = "foreign".toList) := by decide
  rcases hkind with ⟨hname, hlen⟩ | ⟨hname, hlen⟩
  · -- foreign
    match strings, hstr, hlen, htoks with
    | [a, b], hstr, _, htoks =>
      have ha : a.type = Token_Type_Literal_String := hstr a (by simp)
      have hb : b.type = Token_Type_Literal_String := hstr b (by simp)
      have hac : a.type ≠ Token_Type_Comment := by rw [ha]; decide
      have hbc : b.type ≠ Token_Type_Comment := by rw [hb]; decide
      obtain ⟨h0, h1, h2, h⟩ := drop_three toks cur hash sym a (b :: r :: rest) htoks
      obtain ⟨-, h⟩ := drop_cons_getElem? toks (cur + 2) a _ h
      obtain ⟨h3, h⟩ := drop_cons_getElem? toks (cur + 2 + 1) b _ h
      obtain ⟨h4, -⟩ := drop_cons_getElem? toks (cur + 2 + 1 + 1) r _ h
      have e := pk prev a h0 h1 h2 hac
      rw [hname] at e
      have e3 := expect_token_next ⟨toks, cur + 2, some ((cur + 1 : Nat) : Int), msgs,
        H, en, res⟩ a b Token_Type_Literal_String h2 ha h3 hbc
      have e4 := fun H1 => expect_token_next ⟨toks, cur + 2 + 1, some ((cur + 2 : Nat) : Int),
        msgs, H1, en, res⟩ b r Token_Type_Literal_String h3 hb h4 hr
      simp only [parse_global_directives, bind_run, curr_type, h0, hh, if_true, e,
        modify_node, hn, e3, e4, hset, List.set_set, pure_run, DirectiveUse.apply,
        DirectiveUse.named, hname, q1, q2, q3, q4, q5, q6, q7, q8, q9, q10, q11, q12,
        decide_True, decide_False, List.length_cons,
        List.length_nil, Bool.false_eq_true, if_false]
      rfl
    | [], _, hlen, _ => simp at hlen
    | [_], _, hlen, _ => simp at hlen
    | _ :: _ :: _ :: _, _, hlen, _ => simp at hlen
  · -- export
    have n3 : sym.text ≠ "foreign".toList := by rw [hname]; decide
    match strings, hstr, hlen, htoks with
    | [], _, _, htoks =>
      obtain ⟨h0, h1, h2, -⟩ := drop_three toks cur hash sym r rest htoks
      have m3 := pm "foreign".toList prev r h0 h1 h2 hr n3
      have e := pk (some ((cur : Int) - 1)) r h0 h1 h2 hr
      rw [hname] at e
      simp only [parse_global_directives, bind_run, curr_type, h0, hh, if_true, m3,
        e, modify_node, hn, h2, hrs, if_false, pure_run, DirectiveUse.apply,
        DirectiveUse.named, hname, q1, q2, q3, q4, q5, q6, q7, q8, q9, q10, q11, q12,
        decide_True, decide_False, List.length_nil,
        List.length_cons, Nat.add_zero, Nat.add_one_sub_one, Nat.reduceAdd,
        Bool.false_eq_true]
    | [a], hstr, _, htoks =>
      have ha : a.type = Token_Type_Literal_String := hstr a (by simp)
      have hac : a.type ≠ Token_Type_Comment := by rw [ha]; decide
      obtain ⟨h0, h1, h2, h⟩ := drop_three toks cur hash sym a (r :: rest) htoks
      obtain ⟨-, h⟩ := drop_cons_getElem? toks (cur + 2) a _ h
      obtain ⟨h3, -⟩ := drop_cons_getElem? toks (cur + 2 + 1) r _ h
      have m3 := pm "foreign".toList prev a h0 h1 h2 hac n3
      have e := pk (some ((cur : Int) - 1)) a h0 h1 h2 hac
      rw [hname] at e
      have e3 := expect_token_next ⟨toks, cur + 2, some ((cur + 1 : Nat) : Int), msgs,
        H.set f { n with flags := { n.flags with exported := true } }, en, res⟩ a r
        Token_Type_Literal_String h2 ha h3 hr
      simp only [parse_global_directives, bind_run, curr_type, h0, hh, if_true, m3,
        e, modify_node, hn, h2, ha, e3, hset, List.set_set, pure_run, DirectiveUse.apply,
        DirectiveUse.named, hname, q1, q2, q3, q4, q5, q6, q7, q8, q9, q10, q11, q12,
        decide_True, decide_False, List.length_cons,
        List.length_nil, Bool.false_eq_true, if_false]
      rfl
    | _ :: _ :: _, _, hlen, _ => simp at hlen

theorem directive_tokens_length_pos (d : DirectiveUse) : 2 ≤ d.tokens.length := by
  simp [DirectiveUse.tokens]

/-- The first token after a directive, when more directives or the token `t` follow. -/
theorem directive_follower (ds : List DirectiveUse) (t : OnyxToken) (post : List OnyxToken)
    (hds : ∀ d ∈ ds, d.shaped = true)
    (ht : t.type ≠ Token_Type_Comment) (hts : t.type ≠ Token_Type_Literal_String) :
    ∃ r rest, directive_tokens ds ++ t :: post = r :: rest
      ∧ r.type ≠ Token_Type_Comment ∧ r.type ≠ Token_Type_Literal_String := by
  cases ds with
  | nil => exact ⟨t, post, rfl, ht, hts⟩
  | cons d ds =>
    have h := hds d (by simp)
    simp only [DirectiveUse.shaped, Bool.and_eq_true, decide_eq_true_eq] at h
    refine ⟨d.hash, d.sym :: d.strings ++ (directive_tokens ds ++ t :: post), ?_, ?_, ?_⟩
    · simp [directive_tokens, DirectiveUse.tokens]
    · rw [h.1.1]; decide
    · rw [h.1.1]; decide

theorem of_function_shaped (d : DirectiveUse) (h : d.of_function = true) : d.shaped = true := by
  simp only [DirectiveUse.of_function, Bool.and_eq_true] at h
  exact h.1

theorem of_global_shaped (d : DirectiveUse) (h : d.of_global = true) : d.shaped = true := by
  simp only [DirectiveUse.of_global, Bool.and_eq_true] at h
  exact h.1

/-- The directive loop of `parse_function_definition` ends at a token that is not `#`. -/
theorem function_directives_exit (fuel : Nat) (s : OnyxParser) (p : NodePtr) (t : OnyxToken)
    (h0 : s.tokens[s.curr]? = some t) (ht : t.type ≠ ascii '#') :
    parse_function_directives (fuel + 1) p s = Res.ok () s := by
  simp only [parse_function_directives, bind_run, curr_type, h0, ht, if_false, pure_run]

/-- After one directive, the state of the rest of the directives. -/
theorem after_directives_cons (s : OnyxParser) (f : Nat) (d : DirectiveUse)
    (ds : List DirectiveUse) (n : AstNode) :
    after_directives
        { s with curr := s.curr + d.tokens.length,
                 prev := some ((s.curr + d.tokens.length - 1 : Nat) : Int),
                 heap := s.heap.set f (d.apply s.curr n) } f ds (d.apply s.curr n)
      = after_directives s f (d :: ds) n := by
  cases ds with
  | nil =>
    simp only [after_directives, directive_tokens, List.append_nil, apply_directives]
  | cons d1 ds =>
    have h2 := directive_tokens_length_pos d
    simp only [after_directives, directive_tokens, List.length_append, apply_directives,
      List.set_set, Nat.add_assoc]

/-- The directive loop of `parse_function_definition` on a sequence of recognized
directives. -/
theorem function_directives_run (ds : List DirectiveUse) :
    ∀ (fuel : Nat) (s : OnyxParser) (f : Nat) (n : AstNode) (t : OnyxToken)
      (post : List OnyxToken),
      (∀ d ∈ ds, d.of_function = true) →
      s.tokens.drop s.curr = directive_tokens ds ++ t :: post →
      t.type ≠ ascii '#' → t.type ≠ Token_Type_Comment → t.type ≠ Token_Type_Literal_String →
      s.heap[f]? = some n →
      parse_function_directives (fuel + ds.length + 1) (NodePtr.node f) s
        = Res.ok () (after_directives s f ds n) := by
  induction ds with
  | nil =>
    intro fuel s f n t post _ htoks ht _ _ _
    obtain ⟨h0, -⟩ := drop_cons_getElem? _ _ _ _ htoks
    exact function_directives_exit _ s _ t h0 ht
  | cons d ds ih =>
    intro fuel s f n t post hds htoks ht htc hts hn
    have hd := hds d (by simp)
    have hds1 : ∀ d1 ∈ ds, d1.of_function = true := fun d1 h1 => hds d1 (by simp [h1])
    obtain ⟨r, rest, hr, hrc, hrs⟩ := directive_follower ds t post
      (fun d1 h1 => of_function_shaped d1 (hds1 d1 h1)) htc hts
    have htoks1 : s.tokens.drop s.curr = d.tokens ++ r :: rest := by
      rw [htoks, ← hr]; simp [directive_tokens]
    have e : fuel + (d :: ds).length + 1 = (fuel + ds.length + 1) + 1 := by
      simp only [List.length_cons]; omega
    rw [e, function_directive_step _ s f n d r rest hd htoks1 hrc hrs hn]
    have hflt : f < s.heap.length := by
      by_contra hc
      rw [List.getElem?_eq_none (by omega)] at hn
      exact Option.noConfusion hn
    have htoks2 : (s.tokens.drop (s.curr + d.tokens.length))
        = directive_tokens ds ++ t :: post := by
      have h1 := congrArg (List.drop d.tokens.length) htoks
      rw [List.drop_drop] at h1
      have h2 : d.tokens.length + s.curr = s.curr + d.tokens.length := Nat.add_comm _ _
      first
        | rw [h2] at h1
        | skip
      rw [h1]
      simp [directive_tokens]
    rw [ih fuel _ f (d.apply s.curr n) t post hds1 htoks2 ht htc hts
      (List.getElem?_set_self hflt)]
    rw [after_directives_cons]

/-- The directive loop of `parse_global_declaration` ends at a token that is not `#`. -/
theorem global_directives_exit (fuel : Nat) (s : OnyxParser) (p : NodePtr) (t : OnyxToken)
    (h0 : s.tokens[s.curr]? = some t) (ht : t.type ≠ ascii '#') :
    parse_global_directives (fuel + 1) p s = Res.ok () s := by
  simp only [parse_global_directives, bind_run, curr_type, h0, ht, if_false, pure_run]

/-- The directive loop of `parse_global_declaration` on a sequence of recognized
directives. -/
theorem global_directives_run (ds : List DirectiveUse) :
    ∀ (fuel : Nat) (s : OnyxParser) (f : Nat) (n : AstNode) (t : OnyxToken)
      (post : List OnyxToken),
      (∀ d ∈ ds, d.of_global = true) →
      s.tokens.drop s.curr = directive_tokens ds ++ t :: post →
      t.type ≠ ascii '#' → t.type ≠ Token_Type_Comment → t.type ≠ Token_Type_Literal_String →
      s.heap[f]? = some n →
      parse_global_directives (fuel + ds.length + 1) (NodePtr.node f) s
        = Res.ok () (after_directives s f ds n) := by
  induction ds with
  | nil =>
    intro fuel s f n t post _ htoks ht _ _ _
    obtain ⟨h0, -⟩ := drop_cons_getElem? _ _ _ _ htoks
    exact global_directives_exit _ s _ t h0 ht
  | cons d ds ih =>
    intro fuel s f n t post hds htoks ht htc hts hn
    have hd := hds d (by simp)
    have hds1 : ∀ d1 ∈ ds, d1.of_global = true := fun d1 h1 => hds d1 (by simp [h1])
    obtain ⟨r, rest, hr, hrc, hrs⟩ := directive_follower ds t post
      (fun d1 h1 => of_global_shaped d1 (hds1 d1 h1)) htc hts
    have htoks1 : s.tokens.drop s.curr = d.tokens ++ r :: rest := by
      rw [htoks, ← hr]; simp [directive_tokens]
    have e : fuel + (d :: ds).length + 1 = (fuel + ds.length + 1) + 1 := by
      simp only [List.length_cons]; omega
    rw [e, global_directive_step _ s f n d r rest hd htoks1 hrc hrs hn]
    have hflt : f < s.heap.length := by
      by_contra hc
      rw [List.getElem?_eq_none (by omega)] at hn
      exact Option.noConfusion hn
    have htoks2 : (s.tokens.drop (s.curr + d.tokens.length))
        = directive_tokens ds ++ t :: post := by
      have h1 := congrArg (List.drop d.tokens.length) htoks
      rw [List.drop_drop] at h1
      have h2 : d.tokens.length + s.curr = s.curr + d.tokens.length := Nat.add_comm _ _
      first
        | rw [h2] at h1
        | skip
      rw [h1]
      simp [directive_tokens]
    rw [ih fuel _ f (d.apply s.curr n) t post hds1 htoks2 ht htc hts
      (List.getElem?_set_self hflt)]
    rw [after_directives_cons]

theorem P_bind_assoc {α β γ : Type} (m : P α) (f : α → P β) (g : β → P γ) :
    ((m >>= f) >>= g) = (m >>= fun a => f a >>= g) := by
  funext s
  simp only [bind_run]
  cases m s <;> rfl

theorem P_bind_pure_unit (m : P Unit) : (m >>= fun _ => (pure () : P Unit)) = m := by
  funext s
  simp only [bind_run, pure_run]
  cases m s <;> rfl

/-- The function `parse_function_definition` is its head, the directive loop and
`parse_function_rest`. -/
theorem parse_function_definition_split (fuel : Nat) :
    parse_function_definition fuel = (do
      let func_def ← make_node Ast_Kind_Function
      let token ← expect_token Token_Type_Keyword_Proc
      modify_node func_def (fun n => { n with token := token })
      parse_function_directives fuel func_def
      parse_function_rest fuel func_def
      pure func_def) := by
  unfold parse_function_definition parse_function_rest
  simp only [P_bind_assoc]

end Onyx
namespace Onyx

open TokenType AstKind BinaryOp UnaryOp BasicKind OnyxMessageType

/-! ## What the directives record -/

/-- The four directive names are different. -/
theorem directive_names_distinct :
    ¬ ("intrinsic".toList = "inline".toList) ∧
    ¬ ("intrinsic".toList = "foreign".toList) ∧
    ¬ ("intrinsic".toList = "export".toList) ∧
    ¬ ("inline".toList = "intrinsic".toList) ∧
    ¬ ("inline".toList = "foreign".toList) ∧
    ¬ ("inline".toList = "export".toList) ∧
    ¬ ("foreign".toList = "intrinsic".toList) ∧
    ¬ ("foreign".toList = "inline".toList) ∧
    ¬ ("foreign".toList = "export".toList) ∧
    ¬ ("export".toList = "intrinsic".toList) ∧
    ¬ ("export".toList = "inline".toList) ∧
    ¬ ("export".toList = "foreign".toList) := by
  decide

/-- The flags that one directive sets. -/
theorem apply_flags (d : DirectiveUse) (i : Nat) (n : AstNode) :
    (d.apply i n).flags = { n.flags with
      intrinsic := n.flags.intrinsic || d.named "intrinsic",
      inline := n.flags.inline || d.named "inline",
      foreign := n.flags.foreign || d.named "foreign",
      exported := n.flags.exported || d.named "export" } := by
  obtain ⟨q1, q2, q3, q4, q5, q6, q7, q8, q9, q10, q11, q12⟩ := directive_names_distinct
  unfold DirectiveUse.apply DirectiveUse.named
  by_cases h1 : d.sym.text = "intrinsic".toList
  · simp only [h1, q1, q2, q3, q4, q5, q6, q7, q8, q9, q10, q11, q12, decide_True, decide_False, if_true, Bool.or_true, Bool.or_false]
  · by_cases h2 : d.sym.text = "inline".toList
    · simp only [h1, h2, q1, q2, q3, q4, q5, q6, q7, q8, q9, q10, q11, q12, decide_True, decide_False, if_true, if_false,
        Bool.false_eq_true, Bool.or_true, Bool.or_false]
    · by_cases h3 : d.sym.text = "foreign".toList
      · simp only [h1, h2, h3, q1, q2, q3, q4, q5, q6, q7, q8, q9, q10, q11, q12, decide_True, decide_False, if_true, if_false,
          Bool.false_eq_true, Bool.or_true, Bool.or_false]
      · by_cases h4 : d.sym.text = "export".toList
        · simp only [h1, h2, h3, h4, q1, q2, q3, q4, q5, q6, q7, q8, q9, q10, q11, q12, decide_True, decide_False, if_true, if_false,
            Bool.false_eq_true, Bool.or_true, Bool.or_false]
        · simp only [h1, h2, h3, h4, decide_False, if_false, Bool.false_eq_true,
            Bool.or_false]

/-- A directive leaves the kind and the token of the node. -/
theorem apply_kind_token (d : DirectiveUse) (i : Nat) (n : AstNode) :
    (d.apply i n).kind = n.kind ∧ (d.apply i n).token = n.token := by
  unfold DirectiveUse.apply
  split_ifs <;> exact ⟨rfl, rfl⟩

/-- The flags that a sequence of directives sets. -/
theorem apply_directives_flags (ds : List DirectiveUse) :
    ∀ (i : Nat) (n : AstNode), (apply_directives ds i n).flags = { n.flags with
      intrinsic := n.flags.intrinsic || ds.any (fun d => d.named "intrinsic"),
      inline := n.flags.inline || ds.any (fun d => d.named "inline"),
      foreign := n.flags.foreign || ds.any (fun d => d.named "foreign"),
      exported := n.flags.exported || ds.any (fun d => d.named "export") } := by
  induction ds with
  | nil => intro i n; simp [apply_directives]
  | cons d ds ih =>
    intro i n
    rw [apply_directives, ih, apply_flags]
    simp [List.any_cons, Bool.or_assoc]

theorem apply_directives_kind_token (ds : List DirectiveUse) :
    ∀ (i : Nat) (n : AstNode), (apply_directives ds i n).kind = n.kind
      ∧ (apply_directives ds i n).token = n.token := by
  induction ds with
  | nil => intro i n; exact ⟨rfl, rfl⟩
  | cons d ds ih =>
    intro i n
    rw [apply_directives]
    obtain ⟨h1, h2⟩ := ih (i + d.tokens.length) (d.apply i n)
    obtain ⟨h3, h4⟩ := apply_kind_token d i n
    exact ⟨h1.trans h3, h2.trans h4⟩

/-- Directives other than `#foreign` leave the foreign tokens. -/
theorem apply_directives_no_foreign (ds : List DirectiveUse) :
    ∀ (i : Nat) (n : AstNode), (∀ d ∈ ds, d.named "foreign" = false) →
      (apply_directives ds i n).foreign_module = n.foreign_module
      ∧ (apply_directives ds i n).foreign_name = n.foreign_name := by
  induction ds with
  | nil => intro i n _; exact ⟨rfl, rfl⟩
  | cons d ds ih =>
    intro i n h
    rw [apply_directives]
    obtain ⟨h1, h2⟩ := ih (i + d.tokens.length) (d.apply i n) (fun d1 h1 => h d1 (by simp [h1]))
    have hd := h d (by simp)
    have h3 : (d.apply i n).foreign_module = n.foreign_module
        ∧ (d.apply i n).foreign_name = n.foreign_name := by
      unfold DirectiveUse.apply
      simp only [hd, Bool.false_eq_true, if_false]
      split_ifs <;> exact ⟨rfl, rfl⟩
    exact ⟨h1.trans h3.1, h2.trans h3.2⟩

theorem directive_tokens_append (pre post : List DirectiveUse) :
    directive_tokens (pre ++ post) = directive_tokens pre ++ directive_tokens post := by
  induction pre with
  | nil => rfl
  | cons d pre ih => simp [directive_tokens, ih]

theorem apply_directives_append (pre : List DirectiveUse) :
    ∀ (post : List DirectiveUse) (i : Nat) (n : AstNode),
      apply_directives (pre ++ post) i n
        = apply_directives post (i + (directive_tokens pre).length) (apply_directives pre i n) := by
  induction pre with
  | nil => intro post i n; rfl
  | cons d pre ih =>
    intro post i n
    show apply_directives (pre ++ post) (i + d.tokens.length) (d.apply i n) = _
    rw [ih]
    simp only [apply_directives, directive_tokens, List.length_append, Nat.add_assoc]

/-- The foreign tokens after a sequence of directives are the two tokens that follow the
symbol of the last `#foreign`. -/
theorem apply_directives_foreign (pre post : List DirectiveUse) (d : DirectiveUse) (i : Nat)
    (n : AstNode) (hd : d.named "foreign" = true)
    (hpost : ∀ d1 ∈ post, d1.named "foreign" = false) :
    (apply_directives (pre ++ d :: post) i n).foreign_module
        = some (i + (directive_tokens pre).length + 2)
    ∧ (apply_directives (pre ++ d :: post) i n).foreign_name
        = some (i + (directive_tokens pre).length + 3) := by
  rw [apply_directives_append, apply_directives]
  obtain ⟨h1, h2⟩ := apply_directives_no_foreign post
    (i + (directive_tokens pre).length + d.tokens.length)
    (d.apply (i + (directive_tokens pre).length) (apply_directives pre i n)) hpost
  rw [h1, h2]
  obtain ⟨q1, q2, q3, q4, q5, q6, q7, q8, q9, q10, q11, q12⟩ := directive_names_distinct
  simp only [DirectiveUse.named, decide_eq_true_eq] at hd
  simp only [DirectiveUse.apply, DirectiveUse.named, hd, q1, q2, q3, q4, q5, q6, q7, q8, q9, q10, q11, q12, decide_False, decide_True,
    Bool.false_eq_true, if_false, if_true, and_self]

/-- The exported name after a sequence of directives. -/
theorem apply_directives_exported_name (ds : List DirectiveUse) :
    ∀ (i : Nat) (n : AstNode),
      (apply_directives ds i n).exported_name = directive_export_name ds i n.exported_name := by
  induction ds with
  | nil => intro i n; rfl
  | cons d ds ih =>
    intro i n
    rw [apply_directives, ih, directive_export_name]
    congr 1
    obtain ⟨q1, q2, q3, q4, q5, q6, q7, q8, q9, q10, q11, q12⟩ := directive_names_distinct
    unfold DirectiveUse.apply DirectiveUse.named
    by_cases h4 : d.sym.text = "export".toList
    · by_cases h5 : d.strings.length = 0
      · simp only [h4, h5, q1, q2, q3, q4, q5, q6, q7, q8, q9, q10, q11, q12, decide_True,
          decide_False, if_true, if_false, Bool.false_eq_true, ne_eq, not_true_eq_false,
          Bool.and_false]
      · simp only [h4, h5, q1, q2, q3, q4, q5, q6, q7, q8, q9, q10, q11, q12, decide_True,
          decide_False, if_true, if_false, Bool.false_eq_true, ne_eq, not_false_eq_true,
          Bool.and_true]
    · simp only [h4, decide_False, Bool.false_and, Bool.false_eq_true, if_false]
      split_ifs <;> rfl

/-- The tokens of a directive in the stream. -/
theorem directive_token_at (tokens : List OnyxToken) (i : Nat) (pre post : List DirectiveUse)
    (d : DirectiveUse) (rest : List OnyxToken)
    (h : tokens.drop i = directive_tokens (pre ++ d :: post) ++ rest) (k : Nat)
    (hk : k < d.tokens.length) :
    tokens[i + (directive_tokens pre).length + k]? = d.tokens[k]? := by
  have h1 : tokens[i + (directive_tokens pre).length + k]?
      = (tokens.drop i)[(directive_tokens pre).length + k]? := by
    rw [List.getElem?_drop, Nat.add_assoc]
  rw [h1, h, directive_tokens_append, directive_tokens, List.append_assoc, List.append_assoc,
    List.getElem?_append_right (by omega)]
  have h2 : (directive_tokens pre).length + k - (directive_tokens pre).length = k := by omega
  rw [h2, List.getElem?_append_left hk]

/-- The node that the directives have written, in the state after the directive loop. -/
theorem after_directives_node (s : OnyxParser) (f : Nat) (ds : List DirectiveUse)
    (n : AstNode) (hn : s.heap[f]? = some n) :
    (after_directives s f ds n).heap[f]? = some (apply_directives ds s.curr n)
    ∧ (after_directives s f ds n).heap.length = s.heap.length
    ∧ (after_directives s f ds n).tokens = s.tokens
    ∧ (after_directives s f ds n).msgs = s.msgs
    ∧ (after_directives s f ds n).results = s.results := by
  have hflt : f < s.heap.length := by
    by_contra hc
    rw [List.getElem?_eq_none (by omega)] at hn
    exact Option.noConfusion hn
  cases ds with
  | nil => exact ⟨hn, rfl, rfl, rfl, rfl⟩
  | cons d ds =>
    refine ⟨List.getElem?_set_self hflt, ?_, rfl, rfl, rfl⟩
    simp only [after_directives, List.length_set]

/-- The function `parse_function_definition` on `proc`, a sequence of recognized
directives and the rest of the definition. -/
theorem function_definition_run (fuel : Nat) (s s1 : OnyxParser) (kw t : OnyxToken)
    (ds : List DirectiveUse) (post : List OnyxToken)
    (htoks : s.tokens.drop s.curr = kw :: (directive_tokens ds ++ t :: post))
    (hkw : kw.type = Token_Type_Keyword_Proc)
    (hds : ∀ d ∈ ds, d.of_function = true)
    (ht1 : t.type ≠ ascii '#') (ht2 : t.type ≠ Token_Type_Comment)
    (ht3 : t.type ≠ Token_Type_Literal_String)
    (hrest : parse_function_rest (fuel + ds.length + 1) (NodePtr.node s.heap.length)
      (after_directives
        (keyword_state s Ast_Kind_Function)
        s.heap.length ds { kind := Ast_Kind_Function, token := some s.curr })
      = Res.ok () s1) :
    parse_function_definition (fuel + ds.length + 1) s = Res.ok (NodePtr.node s.heap.length) s1
    ∧ ∃ n, s1.heap[s.heap.length]? = some n
      ∧ directive_view n = directive_view
          (apply_directives ds (s.curr + 1) { kind := Ast_Kind_Function, token := some s.curr })
      ∧ s1.tokens = s.tokens := by
  obtain ⟨h0, htoks1⟩ := drop_cons_getElem? _ _ _ _ htoks
  obtain ⟨r, rest, hr, hrc, -⟩ := directive_follower ds t post
    (fun d1 h1 => of_function_shaped d1 (hds d1 h1)) ht2 ht3
  rw [hr] at htoks1
  obtain ⟨h1, -⟩ := drop_cons_getElem? _ _ _ _ htoks1
  rw [← hr] at htoks1
  have e1 := expect_token_next
    ({ s with heap := (s.heap ++ [{ kind := Ast_Kind_Function }]) } : OnyxParser) kw r
    Token_Type_Keyword_Proc
    h0 hkw h1 hrc
  have hcell : (keyword_state s Ast_Kind_Function).heap[s.heap.length]?
      = some { kind := Ast_Kind_Function, token := some s.curr } :=
    List.getElem?_concat_length _ _
  have hdir := function_directives_run ds fuel
    (keyword_state s Ast_Kind_Function)
    s.heap.length { kind := Ast_Kind_Function, token := some s.curr } t post hds htoks1
    ht1 ht2 ht3 hcell
  obtain ⟨hnode, hlen, htk, -, -⟩ := after_directives_node
    (keyword_state s Ast_Kind_Function)
    s.heap.length ds { kind := Ast_Kind_Function, token := some s.curr } hcell
  obtain ⟨-, hfr, htk1, -⟩ := (good_parse_function_rest (s.heap.length + 1) _ _).run _ _ _
    (by rw [hlen]; simp [keyword_state]) hrest
  have hfr1 := hfr s.heap.length (Nat.lt_succ_self _)
  rw [hnode] at hfr1
  constructor
  · rw [parse_function_definition_split]
    simp only [keyword_state] at hdir hrest
    simp only [bind_run, make_node_run, e1, modify_node, List.getElem?_concat_length,
      List.set_append, Nat.lt_irrefl, if_false, Nat.sub_self, List.set_cons_zero, hdir, hrest,
      pure_run, keyword_state]
  · cases hx : s1.heap[s.heap.length]? with
    | none => rw [hx] at hfr1; exact Option.noConfusion hfr1
    | some n =>
      rw [hx] at hfr1
      simp only [Option.map_some', Option.some.injEq] at hfr1
      exact ⟨n, rfl, hfr1, htk1.trans htk⟩

/-- The function `parse_global_declaration` on `global`, a sequence of recognized
directives and a type. -/
theorem global_declaration_run (fuel : Nat) (s s1 : OnyxParser) (kw t : OnyxToken)
    (ds : List DirectiveUse) (post : List OnyxToken) (ty : NodePtr)
    (htoks : s.tokens.drop s.curr = kw :: (directive_tokens ds ++ t :: post))
    (hkw : kw.type = Token_Type_Keyword_Global)
    (hds : ∀ d ∈ ds, d.of_global = true)
    (ht1 : t.type ≠ ascii '#') (ht2 : t.type ≠ Token_Type_Comment)
    (ht3 : t.type ≠ Token_Type_Literal_String)
    (hty : parse_type (fuel + ds.length + 1)
      (after_directives
        (keyword_state s Ast_Kind_Global)
        s.heap.length ds { kind := Ast_Kind_Global, token := some s.curr })
      = Res.ok ty s1) :
    parse_global_declaration (fuel + ds.length + 1) s
      = Res.ok (NodePtr.node s.heap.length)
          { s1 with
            heap := s1.heap.set s.heap.length (declared_global ds s.curr ty),
            results := { s1.results with
              nodes_to_process := s1.results.nodes_to_process ++ [NodePtr.node s.heap.length] } }
    ∧ s1.tokens = s.tokens := by
  obtain ⟨h0, htoks1⟩ := drop_cons_getElem? _ _ _ _ htoks
  obtain ⟨r, rest, hr, hrc, -⟩ := directive_follower ds t post
    (fun d1 h1 => of_global_shaped d1 (hds d1 h1)) ht2 ht3
  rw [hr] at htoks1
  obtain ⟨h1, -⟩ := drop_cons_getElem? _ _ _ _ htoks1
  rw [← hr] at htoks1
  have e1 := expect_token_next
    ({ s with heap := (s.heap ++ [{ kind := Ast_Kind_Global }]) } : OnyxParser) kw r
    Token_Type_Keyword_Global
    h0 hkw h1 hrc
  have hcell : (keyword_state s Ast_Kind_Global).heap[s.heap.length]?
      = some { kind := Ast_Kind_Global, token := some s.curr } :=
    List.getElem?_concat_length _ _
  have hdir := global_directives_run ds fuel
    (keyword_state s Ast_Kind_Global)
    s.heap.length { kind := Ast_Kind_Global, token := some s.curr } t post hds htoks1
    ht1 ht2 ht3 hcell
  obtain ⟨hnode, hlen, htk, -, -⟩ := after_directives_node
    (keyword_state s Ast_Kind_Global)
    s.heap.length ds { kind := Ast_Kind_Global, token := some s.curr } hcell
  obtain ⟨hl1, hfr, htk1, -⟩ := (good_parse_type id (s.heap.length + 1) _).run _ _ _
    (by rw [hlen]; simp [keyword_state]) hty
  have hfr1 := hfr s.heap.length (Nat.lt_succ_self _)
  rw [hnode] at hfr1
  simp only [Option.map_id, id_eq] at hfr1
  refine ⟨?_, htk1.trans htk⟩
  have hlt : s.heap.length < s1.heap.length := by
    rw [hlen] at hl1
    simp only [keyword_state, List.length_append, List.length_singleton] at hl1
    omega
  obtain ⟨toks, cur, prev, msgs, H, en, res⟩ := s1
  simp only at hfr1 hlt
  simp only [keyword_state] at hdir hty
  simp only [parse_global_declaration, bind_run, make_node_run, e1, modify_node,
    List.getElem?_concat_length, List.set_append, Nat.lt_irrefl, if_false, Nat.sub_self,
    List.set_cons_zero, hdir, hty, hfr1, List.getElem?_set_self hlt, List.set_set,
    push_node_to_process, pure_run, keyword_state, declared_global]

theorem directive_view_fields (x y : AstNode) (h : directive_view x = directive_view y) :
    x.kind = y.kind ∧ x.flags = y.flags ∧ x.token = y.token
    ∧ x.intrinsic_name = y.intrinsic_name ∧ x.foreign_module = y.foreign_module
    ∧ x.foreign_name = y.foreign_name ∧ x.exported_name = y.exported_name := by
  have h1 : (directive_view x).kind = (directive_view y).kind := congrArg AstNode.kind h
  have h2 : (directive_view x).flags = (directive_view y).flags := congrArg AstNode.flags h
  have h3 : (directive_view x).token = (directive_view y).token := congrArg AstNode.token h
  have h4 : (directive_view x).intrinsic_name = (directive_view y).intrinsic_name :=
    congrArg AstNode.intrinsic_name h
  have h5 : (directive_view x).foreign_module = (directive_view y).foreign_module :=
    congrArg AstNode.foreign_module h
  have h6 : (directive_view x).foreign_name = (directive_view y).foreign_name :=
    congrArg AstNode.foreign_name h
  have h7 : (directive_view x).exported_name = (directive_view y).exported_name :=
    congrArg AstNode.exported_name h
  exact ⟨h1, h2, h3, h4, h5, h6, h7⟩

theorem of_function_foreign (d : DirectiveUse) (h : d.of_function = true)
    (hf : d.named "foreign" = true) : d.strings.length = 2 := by
  obtain ⟨q1, q2, q3, q4, q5, q6, q7, q8, q9, q10, q11, q12⟩ := directive_names_distinct
  simp only [DirectiveUse.named, decide_eq_true_eq] at hf
  simp only [DirectiveUse.of_function, DirectiveUse.named, hf, Bool.and_eq_true,
    Bool.or_eq_true, decide_eq_true_eq, q7, q8, q9, false_and, false_or, or_false,
    true_and] at h
  exact h.2

theorem of_global_foreign (d : DirectiveUse) (h : d.of_global = true)
    (hf : d.named "foreign" = true) : d.strings.length = 2 := by
  obtain ⟨q1, q2, q3, q4, q5, q6, q7, q8, q9, q10, q11, q12⟩ := directive_names_distinct
  simp only [DirectiveUse.named, decide_eq_true_eq] at hf
  simp only [DirectiveUse.of_global, DirectiveUse.named, hf, Bool.and_eq_true,
    Bool.or_eq_true, decide_eq_true_eq, q7, q8, q9, false_and, false_or, or_false,
    true_and] at h
  exact h.2

/-- C12: for `proc` (or `global`) followed by a sequence `ds` of recognized directives,
the Function (or Global) node that `parse_function_definition` (or
`parse_global_declaration`) returns has the Intrinsic, Inline, Foreign or Exported flag
exactly when a directive of that name is in `ds`; its foreign-module and foreign-name
tokens are the two string tokens of the last `#foreign` of `ds`; and the Global node has the
L-value flag and as type node the node that `parse_type` returns. -/
theorem directives_set_flags (fuel : Nat) (s : OnyxParser) (kw t : OnyxToken)
    (ds : List DirectiveUse) (post : List OnyxToken)
    (htoks : s.tokens.drop s.curr = kw :: (directive_tokens ds ++ t :: post))
    (ht1 : t.type ≠ ascii '#') (ht2 : t.type ≠ Token_Type_Comment)
    (ht3 : t.type ≠ Token_Type_Literal_String) :
    (kw.type = Token_Type_Keyword_Proc → (∀ d ∈ ds, d.of_function = true) →
      ∀ s1, parse_function_rest (fuel + ds.length + 1) (NodePtr.node s.heap.length)
          (after_directives (keyword_state s Ast_Kind_Function) s.heap.length ds
            { kind := Ast_Kind_Function, token := some s.curr }) = Res.ok () s1 →
      parse_function_definition (fuel + ds.length + 1) s
        = Res.ok (NodePtr.node s.heap.length) s1
      ∧ ∃ n, s1.heap[s.heap.length]? = some n ∧ n.kind = Ast_Kind_Function
        ∧ n.flags.intrinsic = ds.any (fun d => d.named "intrinsic")
        ∧ n.flags.inline = ds.any (fun d => d.named "inline")
        ∧ n.flags.foreign = ds.any (fun d => d.named "foreign")
        ∧ n.flags.exported = ds.any (fun d => d.named "export")
        ∧ ∀ pre d rest, ds = pre ++ d :: rest → d.named "foreign" = true →
            (∀ d1 ∈ rest, d1.named "foreign" = false) →
            n.foreign_module = some (s.curr + 1 + (directive_tokens pre).length + 2)
            ∧ n.foreign_name = some (s.curr + 1 + (directive_tokens pre).length + 3)
            ∧ s1.tokens[s.curr + 1 + (directive_tokens pre).length + 2]? = d.strings[0]?
            ∧ s1.tokens[s.curr + 1 + (directive_tokens pre).length + 3]? = d.strings[1]?)
    ∧ (kw.type = Token_Type_Keyword_Global → (∀ d ∈ ds, d.of_global = true) →
      ∀ ty s1, parse_type (fuel + ds.length + 1)
          (after_directives (keyword_state s Ast_Kind_Global) s.heap.length ds
            { kind := Ast_Kind_Global, token := some s.curr }) = Res.ok ty s1 →
      ∃ n, parse_global_declaration (fuel + ds.length + 1) s
          = Res.ok (NodePtr.node s.heap.length)
              { s1 with
                heap := s1.heap.set s.heap.length n,
                results := { s1.results with
                  nodes_to_process :=
                    s1.results.nodes_to_process ++ [NodePtr.node s.heap.length] } }
        ∧ n.kind = Ast_Kind_Global ∧ n.type_node = ty ∧ n.flags.lval = true
        ∧ n.flags.foreign = ds.any (fun d => d.named "foreign")
        ∧ n.flags.exported = ds.any (fun d => d.named "export")
        ∧ ∀ pre d rest, ds = pre ++ d :: rest → d.named "foreign" = true →
            (∀ d1 ∈ rest, d1.named "foreign" = false) →
            n.foreign_module = some (s.curr + 1 + (directive_tokens pre).length + 2)
            ∧ n.foreign_name = some (s.curr + 1 + (directive_tokens pre).length + 3)
            ∧ s1.tokens[s.curr + 1 + (directive_tokens pre).length + 2]? = d.strings[0]?
            ∧ s1.tokens[s.curr + 1 + (directive_tokens pre).length + 3]? = d.strings[1]?) := by
  obtain ⟨-, htoks1⟩ := drop_cons_getElem? _ _ _ _ htoks
  have hstr : ∀ (tokens : List OnyxToken), tokens = s.tokens →
      ∀ pre d rest, ds = pre ++ d :: rest → d.strings.length = 2 →
      tokens[s.curr + 1 + (directive_tokens pre).length + 2]? = d.strings[0]?
      ∧ tokens[s.curr + 1 + (directive_tokens pre).length + 3]? = d.strings[1]? := by
    intro tokens htk pre d rest hds hlen
    rw [hds] at htoks1
    rw [htk]
    have h4 : d.tokens.length = 4 := by simp [DirectiveUse.tokens, hlen]
    rw [directive_token_at s.tokens (s.curr + 1) pre rest d (t :: post) htoks1 2 (by omega),
      directive_token_at s.tokens (s.curr + 1) pre rest d (t :: post) htoks1 3 (by omega)]
    have e2 : d.tokens[2]? = d.strings[0]? := by
      simp only [DirectiveUse.tokens, List.getElem?_cons_succ]
    have e3 : d.tokens[3]? = d.strings[1]? := by
      simp only [DirectiveUse.tokens, List.getElem?_cons_succ]
    exact ⟨e2, e3⟩
  constructor
  · intro hkw hds s1 hrest
    obtain ⟨hrun, n, hn, hview, htk⟩ := function_definition_run fuel s s1 kw t ds post htoks hkw
      hds ht1 ht2 ht3 hrest
    refine ⟨hrun, n, hn, ?_⟩
    obtain ⟨hkind, hflags, -, -, hfm, hfn, -⟩ := directive_view_fields _ _ hview
    rw [apply_directives_flags] at hflags
    rw [(apply_directives_kind_token ds _ _).1] at hkind
    refine ⟨hkind, by rw [hflags]; rfl, by rw [hflags]; rfl, by rw [hflags]; rfl,
      by rw [hflags]; rfl, ?_⟩
    intro pre d rest hsplit hd hrest1
    have hof := hds d (by rw [hsplit]; simp)
    have hlen := of_function_foreign d hof hd
    obtain ⟨h1, h2⟩ := apply_directives_foreign pre rest d (s.curr + 1)
      { kind := Ast_Kind_Function, token := some s.curr } hd hrest1
    rw [← hsplit] at h1 h2
    obtain ⟨h3, h4⟩ := hstr s1.tokens htk pre d rest hsplit hlen
    exact ⟨hfm.trans h1, hfn.trans h2, h3, h4⟩
  · intro hkw hds ty s1 hty
    obtain ⟨hrun, htk⟩ := global_declaration_run fuel s s1 kw t ds post ty htoks hkw
      hds ht1 ht2 ht3 hty
    refine ⟨declared_global ds s.curr ty, hrun, ?_, rfl, rfl, ?_, ?_, ?_⟩
    · exact (apply_directives_kind_token ds _ _).1
    · show (apply_directives ds (s.curr + 1) _).flags.foreign = _
      rw [apply_directives_flags]; rfl
    · show (apply_directives ds (s.curr + 1) _).flags.exported = _
      rw [apply_directives_flags]; rfl
    · intro pre d rest hsplit hd hrest1
      have hof := hds d (by rw [hsplit]; simp)
      have hlen := of_global_foreign d hof hd
      obtain ⟨h1, h2⟩ := apply_directives_foreign pre rest d (s.curr + 1)
        { kind := Ast_Kind_Global, token := some s.curr } hd hrest1
      rw [← hsplit] at h1 h2
      obtain ⟨h3, h4⟩ := hstr s1.tokens htk pre d rest hsplit hlen
      exact ⟨h1, h2, h3, h4⟩

/-- An instance of C12: `global #foreign "env" "x" i32` gives a Global node with the Foreign
and L-value flags, the foreign tokens `"env"` and `"x"`, and the Symbol node of `i32` as
type node. -/
theorem directives_set_flags_witness :
    ∃ n, parse_global_declaration (0 + [foreign_env_x].length + 1)
        (onyx_parser_create global_foreign_stream)
        = Res.ok (NodePtr.node (onyx_parser_create global_foreign_stream).heap.length)
            { global_foreign_typed with
              heap := global_foreign_typed.heap.set
                (onyx_parser_create global_foreign_stream).heap.length n,
              results := { global_foreign_typed.results with
                nodes_to_process := global_foreign_typed.results.nodes_to_process
                  ++ [NodePtr.node (onyx_parser_create global_foreign_stream).heap.length] } }
      ∧ n.kind = Ast_Kind_Global ∧ n.type_node = NodePtr.node 1 ∧ n.flags.lval = true
      ∧ n.flags.foreign = [foreign_env_x].any (fun d => d.named "foreign")
      ∧ n.flags.exported = [foreign_env_x].any (fun d => d.named "export")
      ∧ ∀ pre d rest, [foreign_env_x] = pre ++ d :: rest → d.named "foreign" = true →
          (∀ d1 ∈ rest, d1.named "foreign" = false) →
          n.foreign_module
            = some ((onyx_parser_create global_foreign_stream).curr + 1
                + (directive_tokens pre).length + 2)
          ∧ n.foreign_name
            = some ((onyx_parser_create global_foreign_stream).curr + 1
                + (directive_tokens pre).length + 3)
          ∧ global_foreign_typed.tokens[(onyx_parser_create global_foreign_stream).curr + 1
                + (directive_tokens pre).length + 2]? = d.strings[0]?
          ∧ global_foreign_typed.tokens[(onyx_parser_create global_foreign_stream).curr + 1
                + (directive_tokens pre).length + 3]? = d.strings[1]? :=
  (directives_set_flags 0 (onyx_parser_create global_foreign_stream)
    (plain_token Token_Type_Keyword_Global 1) ⟨Token_Type_Symbol, String.toList "i32", ⟨1, 27⟩⟩
    [foreign_env_x] [plain_token (ascii ';') 30] (by decide) (by decide) (by decide)
    (by decide)).2 (by decide) (by decide) (NodePtr.node 1) global_foreign_typed (by decide!)

end Onyx
namespace Onyx

open TokenType AstKind BinaryOp UnaryOp BasicKind OnyxMessageType

/-! ## Bindings -/

theorem set_same {α : Type} (l : List α) :
    ∀ (i : Nat) (a : α), l[i]? = some a → l.set i a = l := by
  induction l with
  | nil => intro i a h; rfl
  | cons x l ih =>
    intro i a h
    cases i with
    | zero =>
      simp only [List.getElem?_cons_zero, Option.some.injEq] at h
      rw [List.set_cons_zero, h]
    | succ i =>
      simp only [List.getElem?_cons_succ] at h
      rw [List.set_cons_succ, ih i a h]

/-- The function `parse_top_level_statement` on `name :: X`, given the run of
`parse_top_level_expression` on `X` and the Function or Global node it returns. -/
theorem top_level_binding_run (fuel : Nat) (s s4 : OnyxParser) (name c1 c2 t3 : OnyxToken)
    (post : List OnyxToken) (x : Nat) (nx : AstNode)
    (htoks : s.tokens.drop s.curr = name :: c1 :: c2 :: t3 :: post)
    (hname : name.type = Token_Type_Symbol)
    (hc1 : c1.type = ascii ':') (hc2 : c2.type = ascii ':')
    (ht3 : t3.type ≠ Token_Type_Comment)
    (hx : parse_top_level_expression fuel
      { s with curr := s.curr + 3, prev := some ((s.curr + 2 : Nat) : Int) }
      = Res.ok (NodePtr.node x) s4)
    (hnx : s4.heap[x]? = some nx)
    (hkind : nx.kind = Ast_Kind_Function ∨ nx.kind = Ast_Kind_Global) :
    parse_top_level_statement fuel s
      = Res.ok (NodePtr.node s4.heap.length)
          { s4 with heap :=
              (s4.heap.set x { nx with exported_name :=
                  (if nx.exported_name = none then some s.curr else nx.exported_name) })
              ++ [{ kind := Ast_Kind_Binding, token := some s.curr, node := NodePtr.node x }] } := by
  obtain ⟨h0, h⟩ := drop_cons_getElem? _ _ _ _ htoks
  obtain ⟨h1, h⟩ := drop_cons_getElem? _ _ _ _ h
  obtain ⟨h2, h⟩ := drop_cons_getElem? _ _ _ _ h
  obtain ⟨h3, -⟩ := drop_cons_getElem? _ _ _ _ h
  have hc1c : c1.type ≠ Token_Type_Comment := by rw [hc1]; decide
  have hc2c : c2.type ≠ Token_Type_Comment := by rw [hc2]; decide
  have hsu : Token_Type_Symbol ≠ Token_Type_Keyword_Use := by decide
  have e0 := consume_token_next s c1 h1 hc1c
  have e1 := expect_token_next
    ({ s with prev := some (s.curr : Int), curr := s.curr + 1 } : OnyxParser) c1 c2 (ascii ':')
    h1 hc1 h2 hc2c
  have e2 := expect_token_next
    ({ s with prev := some ((s.curr + 1 : Nat) : Int), curr := s.curr + 1 + 1 } : OnyxParser)
    c2 t3 (ascii ':') h2 hc2 h3 ht3
  have hxlt : x < s4.heap.length := by
    by_contra hc
    rw [List.getElem?_eq_none (by omega)] at hnx
    exact Option.noConfusion hnx
  obtain ⟨toks, cur, prev, msgs, H, en, res⟩ := s4
  simp only at hnx hxlt
  have hlen : ∀ q : AstNode, (H.set x q).length = H.length := fun q => List.length_set _ _ _
  have hgf : Ast_Kind_Global ≠ Ast_Kind_Function := by decide
  have hcat : ∀ (q b : AstNode), (H.set x q ++ [b])[H.length]? = some b :=
    fun q b => getElem?_concat_eq (H.set x q) b H.length (hlen q).symm
  by_cases hnone : nx.exported_name = none
  · rcases hkind with hk | hk
    · simp only [parse_top_level_statement, bind_run, curr_type, h0, hname, hsu, if_false,
        if_true, curr_ptr, e0, e1, e2, hx, read_node, hnx, hk, hnone, modify_node, make_node_run,
        List.getElem?_concat_length, List.set_append, Nat.lt_irrefl, Nat.sub_self,
        List.set_cons_zero, pure_run, hlen, hcat]
    · simp only [parse_top_level_statement, bind_run, curr_type, h0, hname, hsu, if_false,
        if_true, curr_ptr, e0, e1, e2, hx, read_node, hnx, hk, hgf, hnone, modify_node,
        make_node_run, List.getElem?_concat_length, List.set_append, Nat.lt_irrefl,
        Nat.sub_self, List.set_cons_zero, pure_run, hlen, hcat]
  · have hs : H.set x { nx with exported_name :=
        (if nx.exported_name = none then some s.curr else nx.exported_name) } = H := by
      rw [if_neg hnone]
      exact set_same H x nx hnx
    simp only [hs]
    rcases hkind with hk | hk
    · simp only [parse_top_level_statement, bind_run, curr_type, h0, hname, hsu, if_false,
        if_true, curr_ptr, e0, e1, e2, hx, read_node, hnx, hk, hnone, modify_node, make_node_run,
        List.getElem?_concat_length, List.set_append, Nat.lt_irrefl, Nat.sub_self,
        List.set_cons_zero, pure_run, hlen, hs]
    · simp only [parse_top_level_statement, bind_run, curr_type, h0, hname, hsu, if_false,
        if_true, curr_ptr, e0, e1, e2, hx, read_node, hnx, hk, hgf, hnone, modify_node,
        make_node_run, List.getElem?_concat_length, List.set_append, Nat.lt_irrefl,
        Nat.sub_self, List.set_cons_zero, pure_run, hlen, hs]

/-- Without an `#export` that has a string the exported name is left as it is. -/
theorem directive_export_name_none (ds : List DirectiveUse) :
    ∀ (i : Nat) (e : Option Nat),
      (∀ d ∈ ds, (d.named "export" && decide (d.strings.length ≠ 0)) = false) →
      directive_export_name ds i e = e := by
  induction ds with
  | nil => intro i e _; rfl
  | cons d ds ih =>
    intro i e h
    rw [directive_export_name, h d (by simp)]
    simp only [Bool.false_eq_true, if_false]
    exact ih _ _ (fun d1 h1 => h d1 (by simp [h1]))

theorem directive_export_name_append (pre : List DirectiveUse) :
    ∀ (post : List DirectiveUse) (i : Nat) (e : Option Nat),
      directive_export_name (pre ++ post) i e
        = directive_export_name post (i + (directive_tokens pre).length)
            (directive_export_name pre i e) := by
  induction pre with
  | nil => intro post i e; rfl
  | cons d pre ih =>
    intro post i e
    show directive_export_name (pre ++ post) (i + d.tokens.length) _ = _
    rw [ih]
    simp only [directive_export_name, directive_tokens, List.length_append, Nat.add_assoc]

/-- The exported name is the string token of the last `#export` that has one. -/
theorem directive_export_name_last (pre rest : List DirectiveUse) (d : DirectiveUse) (i : Nat)
    (e : Option Nat) (hd : (d.named "export" && decide (d.strings.length ≠ 0)) = true)
    (hrest : ∀ d1 ∈ rest, (d1.named "export" && decide (d1.strings.length ≠ 0)) = false) :
    directive_export_name (pre ++ d :: rest) i e
      = some (i + (directive_tokens pre).length + 2) := by
  rw [directive_export_name_append, directive_export_name, hd,
    directive_export_name_none rest _ _ hrest]
  rfl

/-- The function `parse_top_level_expression` on a function definition. -/
theorem top_level_function_run (fuel : Nat) (s s1 : OnyxParser) (kw : OnyxToken) (f : NodePtr)
    (h0 : s.tokens[s.curr]? = some kw) (hkw : kw.type = Token_Type_Keyword_Proc)
    (hrun : parse_function_definition fuel s = Res.ok f s1) :
    parse_top_level_expression fuel s
      = Res.ok f { s1 with results := { s1.results with
          nodes_to_process := s1.results.nodes_to_process ++ [f] } } := by
  simp only [parse_top_level_expression, bind_run, curr_type, h0, hkw, if_true, hrun,
    push_node_to_process, pure_run]

/-- The function `parse_top_level_expression` on a global declaration. -/
theorem top_level_global_run (fuel : Nat) (s : OnyxParser) (kw : OnyxToken)
    (h0 : s.tokens[s.curr]? = some kw) (hkw : kw.type = Token_Type_Keyword_Global) :
    parse_top_level_expression fuel s = parse_global_declaration fuel s := by
  have h : Token_Type_Keyword_Global ≠ Token_Type_Keyword_Proc := by decide
  simp only [parse_top_level_expression, bind_run, curr_type, h0, hkw, h, if_true, if_false]

theorem exported_name_choice (name : Nat) (recorded : Option Nat) :
    ∃ e, (if recorded = none then some name else recorded) = some e
      ∧ (recorded = none → e = name) ∧ (∀ v, recorded = some v → e = v) := by
  cases recorded with
  | none => exact ⟨name, rfl, fun _ => rfl, fun v h => Option.noConfusion h⟩
  | some v =>
    refine ⟨v, rfl, fun h => Option.noConfusion h, fun w h => ?_⟩
    injection h

/-- C13: for a top-level statement `name :: X` where `X` is `proc` or `global` with a
sequence `ds` of recognized directives, `parse_top_level_statement` returns a Binding whose
token is `name` and whose node is `X`, and the exported name of `X` is the string token of
the last `#export` of `ds` that has a string, and the token `name` when there is none. -/
theorem binding_exported_name (fuel : Nat) (s : OnyxParser) (name c1 c2 kw t : OnyxToken)
    (ds : List DirectiveUse) (post : List OnyxToken)
    (htoks : s.tokens.drop s.curr
      = name :: c1 :: c2 :: kw :: (directive_tokens ds ++ t :: post))
    (hname : name.type = Token_Type_Symbol)
    (hc1 : c1.type = ascii ':') (hc2 : c2.type = ascii ':')
    (ht1 : t.type ≠ ascii '#') (ht2 : t.type ≠ Token_Type_Comment)
    (ht3 : t.type ≠ Token_Type_Literal_String) :
    (kw.type = Token_Type_Keyword_Proc → (∀ d ∈ ds, d.of_function = true) →
      ∀ s1, parse_function_rest (fuel + ds.length + 1) (NodePtr.node s.heap.length)
          (after_directives (keyword_state (binding_state s) Ast_Kind_Function) s.heap.length ds
            { kind := Ast_Kind_Function, token := some (s.curr + 3) }) = Res.ok () s1 →
      ∃ (nx : AstNode) (e : Nat), parse_top_level_statement (fuel + ds.length + 1) s
          = Res.ok (NodePtr.node s1.heap.length)
              { s1 with
                heap := (s1.heap.set s.heap.length { nx with exported_name := some e })
                  ++ [{ kind := Ast_Kind_Binding, token := some s.curr,
                        node := NodePtr.node s.heap.length }],
                results := { s1.results with
                  nodes_to_process :=
                    s1.results.nodes_to_process ++ [NodePtr.node s.heap.length] } }
        ∧ s1.heap[s.heap.length]? = some nx ∧ nx.kind = Ast_Kind_Function
        ∧ nx.flags.exported = ds.any (fun d => d.named "export")
        ∧ ((∀ d ∈ ds, (d.named "export" && decide (d.strings.length ≠ 0)) = false) →
            e = s.curr)
        ∧ ∀ pre d rest, ds = pre ++ d :: rest →
            (d.named "export" && decide (d.strings.length ≠ 0)) = true →
            (∀ d1 ∈ rest, (d1.named "export" && decide (d1.strings.length ≠ 0)) = false) →
            e = s.curr + 4 + (directive_tokens pre).length + 2
            ∧ s1.tokens[s.curr + 4 + (directive_tokens pre).length + 2]? = d.strings[0]?)
    ∧ (kw.type = Token_Type_Keyword_Global → (∀ d ∈ ds, d.of_global = true) →
      ∀ ty s1, parse_type (fuel + ds.length + 1)
          (after_directives (keyword_state (binding_state s) Ast_Kind_Global) s.heap.length ds
            { kind := Ast_Kind_Global, token := some (s.curr + 3) }) = Res.ok ty s1 →
      ∃ (nx : AstNode) (e : Nat), parse_top_level_statement (fuel + ds.length + 1) s
          = Res.ok (NodePtr.node s1.heap.length)
              { s1 with
                heap := (s1.heap.set s.heap.length { nx with exported_name := some e })
                  ++ [{ kind := Ast_Kind_Binding, token := some s.curr,
                        node := NodePtr.node s.heap.length }],
                results := { s1.results with
                  nodes_to_process :=
                    s1.results.nodes_to_process ++ [NodePtr.node s.heap.length] } }
        ∧ nx.kind = Ast_Kind_Global ∧ nx.type_node = ty
        ∧ nx.flags.exported = ds.any (fun d => d.named "export")
        ∧ ((∀ d ∈ ds, (d.named "export" && decide (d.strings.length ≠ 0)) = false) →
            e = s.curr)
        ∧ ∀ pre d rest, ds = pre ++ d :: rest →
            (d.named "export" && decide (d.strings.length ≠ 0)) = true →
            (∀ d1 ∈ rest, (d1.named "export" && decide (d1.strings.length ≠ 0)) = false) →
            e = s.curr + 4 + (directive_tokens pre).length + 2
            ∧ s1.tokens[s.curr + 4 + (directive_tokens pre).length + 2]? = d.strings[0]?) := by
  obtain ⟨-, h⟩ := drop_cons_getElem? _ _ _ _ htoks
  obtain ⟨-, h⟩ := drop_cons_getElem? _ _ _ _ h
  obtain ⟨-, h⟩ := drop_cons_getElem? _ _ _ _ h
  have htoks3 : (binding_state s).tokens.drop (binding_state s).curr
      = kw :: (directive_tokens ds ++ t :: post) := h
  obtain ⟨hkw0, htoks4⟩ := drop_cons_getElem? _ _ _ _ h
  have hstr : ∀ (tokens : List OnyxToken), tokens = s.tokens →
      ∀ pre d rest, ds = pre ++ d :: rest → d.strings.length ≠ 0 →
      tokens[s.curr + 4 + (directive_tokens pre).length + 2]? = d.strings[0]? := by
    intro tokens htk pre d rest hds hlen
    rw [hds] at htoks4
    rw [htk]
    have h4 : 2 < d.tokens.length := by
      simp only [DirectiveUse.tokens, List.length_cons]; omega
    rw [directive_token_at s.tokens (s.curr + 4) pre rest d (t :: post) htoks4 2 h4]
    simp only [DirectiveUse.tokens, List.getElem?_cons_succ]
  have hname_of : ∀ (recorded : Option Nat) (e : Nat),
      recorded = directive_export_name ds (s.curr + 4) none →
      (recorded = none → e = s.curr) → (∀ v, recorded = some v → e = v) →
      ((∀ d ∈ ds, (d.named "export" && decide (d.strings.length ≠ 0)) = false) → e = s.curr)
      ∧ ∀ pre d rest, ds = pre ++ d :: rest →
          (d.named "export" && decide (d.strings.length ≠ 0)) = true →
          (∀ d1 ∈ rest, (d1.named "export" && decide (d1.strings.length ≠ 0)) = false) →
          e = s.curr + 4 + (directive_tokens pre).length + 2 := by
    intro recorded e hrec hnone hsome
    constructor
    · intro hno
      rw [directive_export_name_none ds _ _ hno] at hrec
      exact hnone hrec
    · intro pre d rest hsplit hd hrest
      rw [hsplit, directive_export_name_last pre rest d _ _ hd hrest] at hrec
      exact hsome _ hrec
  constructor
  · intro hkw hds s1 hrest
    obtain ⟨hrun, n, hn, hview, htk⟩ := function_definition_run fuel (binding_state s) s1 kw t
      ds post htoks3 hkw hds ht1 ht2 ht3 hrest
    have hx := top_level_function_run _ (binding_state s) s1 kw _ hkw0 hkw hrun
    have hkc : kw.type ≠ Token_Type_Comment := by rw [hkw]; decide
    obtain ⟨hkind, hflags, -, -, -, -, hen⟩ := directive_view_fields _ _ hview
    rw [(apply_directives_kind_token ds _ _).1] at hkind
    rw [apply_directives_flags] at hflags
    rw [apply_directives_exported_name] at hen
    have hfinal := top_level_binding_run _ s _ name c1 c2 kw _ s.heap.length n htoks hname hc1
      hc2 hkc hx hn (Or.inl hkind)
    obtain ⟨e, he, hnone, hsome⟩ := exported_name_choice s.curr n.exported_name
    rw [he] at hfinal
    obtain ⟨hc, hl⟩ := hname_of n.exported_name e hen hnone hsome
    refine ⟨n, e, hfinal, hn, hkind, by rw [hflags]; rfl, hc, ?_⟩
    intro pre d rest hsplit hd hrest1
    refine ⟨hl pre d rest hsplit hd hrest1, ?_⟩
    simp only [Bool.and_eq_true, decide_eq_true_eq] at hd
    exact hstr s1.tokens htk pre d rest hsplit hd.2
  · intro hkw hds ty s1 hty
    obtain ⟨hrun, htk⟩ := global_declaration_run fuel (binding_state s) s1 kw t ds post ty
      htoks3 hkw hds ht1 ht2 ht3 hty
    have hx := (top_level_global_run _ (binding_state s) kw hkw0 hkw).trans hrun
    have hkc : kw.type ≠ Token_Type_Comment := by rw [hkw]; decide
    obtain ⟨hl1, -, -, -⟩ := (good_parse_type id (s.heap.length + 1) _).run _ _ _
      (by rw [(after_directives_node _ s.heap.length ds _
        (List.getElem?_concat_length _ _)).2.1]; simp [keyword_state, binding_state]) hty
    have hlt : s.heap.length < s1.heap.length := by
      rw [(after_directives_node (keyword_state (binding_state s) Ast_Kind_Global)
        s.heap.length ds { kind := Ast_Kind_Global, token := some (s.curr + 3) }
        (List.getElem?_concat_length _ _)).2.1] at hl1
      simp only [keyword_state, binding_state, List.length_append, List.length_singleton]
        at hl1
      omega
    have hfinal := top_level_binding_run _ s _ name c1 c2 kw _ s.heap.length
      (declared_global ds (s.curr + 3) ty) htoks hname hc1
      hc2 hkc hx (List.getElem?_set_self hlt)
      (Or.inr (apply_directives_kind_token ds _ _).1)
    obtain ⟨e, he, hnone, hsome⟩ := exported_name_choice s.curr
      (declared_global ds (s.curr + 3) ty).exported_name
    obtain ⟨hc, hl⟩ := hname_of _ e (apply_directives_exported_name ds _ _) hnone hsome
    refine ⟨declared_global ds (s.curr + 3) ty, e, ?_, (apply_directives_kind_token ds _ _).1,
      rfl, ?_, hc, ?_⟩
    · rw [hfinal, he]
      simp only [binding_state, List.set_set, List.length_set]
    · show (apply_directives ds _ _).flags.exported = _
      rw [apply_directives_flags]; rfl
    · intro pre d rest hsplit hd hrest1
      refine ⟨hl pre d rest hsplit hd hrest1, ?_⟩
      simp only [Bool.and_eq_true, decide_eq_true_eq] at hd
      exact hstr s1.tokens htk pre d rest hsplit hd.2

/-- An instance of C13: in `main :: proc #export "entry" () { a := 1 + 2; }` the exported
name of the Function is the token 6, the string `"entry"`. -/
theorem binding_exported_name_witness :
    ∃ (nx : AstNode) (e : Nat),
      parse_top_level_statement (8 + [export_entry].length + 1)
          (onyx_parser_create main_entry_stream)
        = Res.ok (NodePtr.node main_entry_parsed.heap.length)
            { main_entry_parsed with
              heap := (main_entry_parsed.heap.set
                  (onyx_parser_create main_entry_stream).heap.length
                  { nx with exported_name := some e })
                ++ [{ kind := Ast_Kind_Binding,
                      token := some (onyx_parser_create main_entry_stream).curr,
                      node := NodePtr.node (onyx_parser_create main_entry_stream).heap.length }],
              results := { main_entry_parsed.results with
                nodes_to_process := main_entry_parsed.results.nodes_to_process
                  ++ [NodePtr.node (onyx_parser_create main_entry_stream).heap.length] } }
      ∧ nx.kind = Ast_Kind_Function
      ∧ nx.flags.exported = [export_entry].any (fun d => d.named "export")
      ∧ e = 6 :=
  match (binding_exported_name 8 (onyx_parser_create main_entry_stream)
      ⟨Token_Type_Symbol, String.toList "main", ⟨1, 1⟩⟩ (plain_token (ascii ':') 6)
      (plain_token (ascii ':') 7) (plain_token Token_Type_Keyword_Proc 9)
      (plain_token (ascii '(') 30) [export_entry]
      (main_entry_stream.drop 8) (by decide) (by decide) (by decide) (by decide) (by decide)
      (by decide) (by decide)).1 (by decide) (by decide) main_entry_parsed (by decide!) with
  | ⟨nx, e, h1, _, h3, h4, _, h6⟩ =>
    ⟨nx, e, h1, h3, h4, (h6 [] export_entry [] rfl (by decide) (by decide)).1⟩

/-- The two instances named in C13, by running the parser: for
`main :: proc #export "entry" () { a := 1 + 2; }` the Binding has the token `main`, its
node is a Function with the Exported flag and the exported name `entry`; for
`add :: proc (a: i32, b: i32) -> i32 { return a + b; }` the exported name is `add`. -/
theorem binding_examples :
    binding_view (parse_top_level_statement 10 (onyx_parser_create main_entry_stream))
      = some { kind := Ast_Kind_Binding, token := some 0, node := NodePtr.node 0,
               node_kind := Ast_Kind_Function, exported := true,
               exported_name := some (String.toList "entry") }
    ∧ binding_view (parse_top_level_statement 10 (onyx_parser_create add_stream))
      = some { kind := Ast_Kind_Binding, token := some 0, node := NodePtr.node 0,
               node_kind := Ast_Kind_Function, exported := false,
               exported_name := some (String.toList "add") } := by
  constructor <;> decide!

end Onyx
namespace Onyx

open TokenType AstKind BinaryOp UnaryOp BasicKind OnyxMessageType

/-! ## The strict frame condition: the rules -/

theorem tight_pure {α : Type} [Safe α] (b : Nat) (a : α)
    (h : Safe.safe b a) : Tight b (pure a : P α) := by
  constructor
  intro s r s' _ hc hrun
  simp only [pure_run, Res.ok.injEq] at hrun
  obtain ⟨rfl, rfl⟩ := hrun
  exact ⟨le_refl _, fun _ _ => rfl, hc, h⟩

theorem tight_raise {α : Type} [Safe α] (b : Nat) (f : Fault) :
    Tight b (raise f : P α) := by
  constructor
  intro s r s' _ _ hrun
  exact Res.noConfusion hrun

theorem tight_bind {α β : Type} [Safe α] [Safe β] (b : Nat) (m : P α)
    (f : α → P β) (hm : Tight b m) (hf : ∀ a, Safe.safe b a → Tight b (f a)) :
    Tight b (m >>= f) := by
  constructor
  intro s r s' hb hc hrun
  obtain ⟨a, s1, h1, h2⟩ := bind_ok.1 hrun
  obtain ⟨hl1, hfr1, hc1, hsafe1⟩ := hm.run s a s1 hb hc h1
  obtain ⟨hl2, hfr2, hc2, hsafe2⟩ := (hf a hsafe1).run s1 r s' (le_trans hb hl1) hc1 h2
  exact ⟨le_trans hl1 hl2, fun i hi => (hfr2 i hi).trans (hfr1 i hi), hc2, hsafe2⟩

theorem tight_ite {α : Type} [Safe α] (b : Nat) (c : Prop) [Decidable c]
    (m1 m2 : P α) (h1 : Tight b m1) (h2 : Tight b m2) : Tight b (if c then m1 else m2) := by
  split_ifs
  · exact h1
  · exact h2

/-- A run that leaves the arena and the error node as they are. -/
theorem tight_of_heap_unchanged {α : Type} [Safe α] (b : Nat) (m : P α)
    (h : ∀ s r s', m s = Res.ok r s' →
      s'.heap = s.heap ∧ s'.error_node = s.error_node ∧ Safe.safe b r) :
    Tight b m := by
  constructor
  intro s r s' _ hc hrun
  obtain ⟨h1, h3, h4⟩ := h s r s' hrun
  refine ⟨by rw [h1], fun i _ => by rw [h1], ?_, h4⟩
  unfold Closed
  rw [h1, h3]
  exact hc

theorem tight_curr_type (b : Nat) : Tight b curr_type := by
  apply tight_of_heap_unchanged
  intro s r s' h
  obtain ⟨rfl, _⟩ := curr_type_ok h
  exact ⟨rfl, rfl, trivial⟩

theorem tight_curr_token (b : Nat) : Tight b curr_token := by
  apply tight_of_heap_unchanged
  intro s r s' h
  unfold curr_token at h
  split at h
  · injection h with _ h; subst h; exact ⟨rfl, rfl, trivial⟩
  · exact Res.noConfusion h

theorem tight_curr_ptr (b : Nat) : Tight b curr_ptr := by
  apply tight_of_heap_unchanged
  intro s r s' h
  injection h with _ h; subst h; exact ⟨rfl, rfl, trivial⟩

theorem tight_read_token (b : Nat) (t : Option Nat) : Tight b (read_token t) := by
  apply tight_of_heap_unchanged
  intro s r s' h
  unfold read_token at h
  split at h
  · exact Res.noConfusion h
  · split at h
    · injection h with _ h; subst h; exact ⟨rfl, rfl, trivial⟩
    · exact Res.noConfusion h

theorem tight_consume_token (b : Nat) : Tight b consume_token := by
  apply tight_of_heap_unchanged
  intro s r s' h
  unfold consume_token at h
  split at h
  · injection h with _ h; subst h; exact ⟨rfl, rfl, trivial⟩
  · exact Res.noConfusion h

theorem tight_unconsume_token (b : Nat) : Tight b unconsume_token := by
  apply tight_of_heap_unchanged
  intro s r s' h
  unfold unconsume_token at h
  split at h
  · exact Res.noConfusion h
  · exact Res.noConfusion h
  · split at h
    · injection h with _ h; subst h; exact ⟨rfl, rfl, trivial⟩
    · exact Res.noConfusion h

theorem tight_onyx_message_add (b : Nat) (ty : OnyxMessageType)
    (pos : OnyxFilePos) (args : List MsgArg) : Tight b (onyx_message_add ty pos args) := by
  apply tight_of_heap_unchanged
  intro s r s' h
  injection h with _ h; subst h; exact ⟨rfl, rfl, trivial⟩

theorem tight_make_node (b : Nat) (k : AstKind) : Tight b (make_node k) := by
  constructor
  intro s r s' hb hc hrun
  rw [make_node_run] at hrun
  injection hrun with h1 h2
  subst h1 h2
  refine ⟨by simp, fun i hi => ?_, ⟨?_, hc.2⟩, ?_⟩
  · show (s.heap ++ _)[i]? = _
    rw [List.getElem?_append_left (by omega)]
  · intro j n hn hj
    show safe_ptr b n.next
    by_cases hlt : j < s.heap.length
    · have hn1 : (s.heap ++ [({ kind := k } : AstNode)])[j]? = some n := hn
      rw [List.getElem?_append_left hlt] at hn1
      exact hc.1 j n hn1 hj
    · have hn1 : (s.heap ++ [({ kind := k } : AstNode)])[j]? = some n := hn
      have hlen := getElem?_lt_length hn1
      simp only [List.length_append, List.length_singleton] at hlen
      have hj1 : j = s.heap.length := by omega
      rw [getElem?_concat_eq _ _ _ hj1] at hn1
      injection hn1 with hn1
      subst hn1
      exact fun _ h => NodePtr.noConfusion h
  · intro j hj
    injection hj with hj
    omega

theorem tight_read_node (b : Nat) (p : NodePtr) : Tight b (read_node p) := by
  apply tight_of_heap_unchanged
  intro s r s' hrun
  unfold read_node at hrun
  cases p with
  | null => exact Res.noConfusion hrun
  | node i =>
    simp only at hrun
    split at hrun
    · injection hrun with h1 h2
      subst h2
      exact ⟨rfl, rfl, trivial⟩
    · exact Res.noConfusion hrun
  | error_node =>
    injection hrun with h1 h2
    subst h2
    exact ⟨rfl, rfl, trivial⟩
  | basic k =>
    injection hrun with h1 h2
    subst h2
    exact ⟨rfl, rfl, trivial⟩

/-- A write through a pointer that does not point below `b`, of a node whose `next` field
does not point below `b` afterwards. -/
theorem tight_modify_node (b : Nat) (p : NodePtr) (f : AstNode → AstNode)
    (hp : safe_ptr b p) (hf : ∀ n, safe_ptr b n.next → safe_ptr b (f n).next) :
    Tight b (modify_node p f) := by
  constructor
  intro s r s' hb hc hrun
  unfold modify_node at hrun
  cases p with
  | null => exact Res.noConfusion hrun
  | node i =>
    simp only at hrun
    split at hrun
    · rename_i n hn
      injection hrun with h1 h2
      subst h2
      have hbi := hp i rfl
      refine ⟨by simp, fun j hj => ?_, ⟨?_, hc.2⟩, trivial⟩
      · show (s.heap.set i (f n))[j]? = _
        rw [List.getElem?_set_ne (by omega)]
      · intro j m hm hj
        have hm1 : (s.heap.set i (f n))[j]? = some m := hm
        by_cases hij : i = j
        · subst hij
          rw [List.getElem?_set_self (getElem?_lt_length hn)] at hm1
          injection hm1 with hm1
          subst hm1
          exact hf n (hc.1 i n hn hj)
        · rw [List.getElem?_set_ne hij] at hm1
          exact hc.1 j m hm1 hj
    · exact Res.noConfusion hrun
  | error_node =>
    injection hrun with h1 h2
    subst h2
    exact ⟨le_refl _, fun _ _ => rfl, ⟨hc.1, hf _ hc.2⟩, trivial⟩
  | basic k => exact Res.noConfusion hrun

/-- The walk to the end of a statement chain from a node that is not below `b`, followed
by anything that keeps the frame: the walk ends at a node that is not below `b`. -/
theorem tight_last_in_chain_bind {β : Type} [Safe β] (b : Nat)
    (f : NodePtr → P β) (hf : ∀ a, Safe.safe b a → Tight b (f a)) :
    ∀ fuel stmt, Safe.safe b stmt → Tight b (last_in_chain fuel stmt >>= f) := by
  have hwalk : ∀ fuel stmt s r s', b ≤ s.heap.length → Closed b s → safe_ptr b stmt →
      last_in_chain fuel stmt s = Res.ok r s' → s' = s ∧ safe_ptr b r := by
    intro fuel
    induction fuel with
    | zero => intro stmt s r s' _ _ _ h; exact Res.noConfusion h
    | succ n ih =>
      intro stmt s r s' hb hc hstmt h
      rw [last_in_chain] at h
      obtain ⟨m, s1, h1, h2⟩ := bind_ok.1 h
      have hs1 : s1 = s ∧ safe_ptr b m.next := by
        unfold read_node at h1
        cases stmt with
        | null => exact Res.noConfusion h1
        | node i =>
          simp only at h1
          split at h1
          · rename_i x hx
            injection h1 with h0 h1
            subst h0
            exact ⟨h1.symm, hc.1 i x hx (hstmt i rfl)⟩
          · exact Res.noConfusion h1
        | error_node =>
          injection h1 with h0 h1
          subst h0
          exact ⟨h1.symm, hc.2⟩
        | basic k =>
          injection h1 with h0 h1
          subst h0
          exact ⟨h1.symm, fun _ hh => NodePtr.noConfusion hh⟩
      obtain ⟨hs1, hnext⟩ := hs1
      subst hs1
      rw [ite_run] at h2
      split_ifs at h2
      · exact ih _ _ _ _ hb hc hnext h2
      · simp only [pure_run, Res.ok.injEq] at h2
        exact ⟨h2.2.symm, h2.1 ▸ hstmt⟩
  intro fuel stmt hstmt
  constructor
  intro s r s' hb hc hrun
  obtain ⟨a, s1, h1, h2⟩ := bind_ok.1 hrun
  obtain ⟨hs1, ha⟩ := hwalk fuel stmt s a s1 hb hc hstmt h1
  subst hs1
  exact (hf a ha).run s1 r s' hb hc h2

end Onyx

namespace Onyx

open TokenType AstKind BinaryOp UnaryOp BasicKind OnyxMessageType

/-! ## The strict frame condition: the parsing functions -/

set_option linter.unusedTactic false
set_option linter.unreachableTactic false


theorem tight_expect_token (b : Nat) (ty : TokenType) : Tight b (expect_token ty) := by
  unfold expect_token
  repeat' first
      | assumption
      | exact trivial
      | exact safe_ptr_null _
      | exact safe_ptr_error _
      | exact safe_ptr_basic _ _
      | exact safe_list_nil _
      | (apply safe_list_cons <;> assumption)
      | (apply safe_list_head <;> assumption)
      | (apply safe_list_tail <;> assumption)
      | apply tight_curr_type
      | apply tight_curr_token
      | apply tight_curr_ptr
      | apply tight_read_token
      | apply tight_consume_token
      | apply tight_unconsume_token
      | apply tight_onyx_message_add
      | apply tight_make_node
      | apply tight_read_node
      | apply tight_modify_node
      | apply tight_bind
      | apply tight_ite
      | apply tight_pure
      | apply tight_raise
      | intro _
      | split

theorem tight_token_toggle_end (b : Nat) (t : Option Nat) : Tight b (token_toggle_end t) := by
  unfold token_toggle_end
  repeat' first
      | assumption
      | exact trivial
      | exact safe_ptr_null _
      | exact safe_ptr_error _
      | exact safe_ptr_basic _ _
      | exact safe_list_nil _
      | (apply safe_list_cons <;> assumption)
      | (apply safe_list_head <;> assumption)
      | (apply safe_list_tail <;> assumption)
      | apply tight_curr_type
      | apply tight_curr_token
      | apply tight_curr_ptr
      | apply tight_read_token
      | apply tight_consume_token
      | apply tight_unconsume_token
      | apply tight_onyx_message_add
      | apply tight_make_node
      | apply tight_read_node
      | apply tight_modify_node
      | apply tight_bind
      | apply tight_ite
      | apply tight_pure
      | apply tight_raise
      | intro _
      | split

theorem tight_find_token (b : Nat) (ty : TokenType) : ∀ fuel, Tight b (find_token fuel ty) := by
  intro fuel
  induction fuel with
  | zero => exact tight_raise b _
  | succ n ih =>
    rw [find_token]
    repeat' first
        | assumption
        | exact trivial
        | exact safe_ptr_null _
        | exact safe_ptr_error _
        | exact safe_ptr_basic _ _
        | exact safe_list_nil _
        | (apply safe_list_cons <;> assumption)
        | (apply safe_list_head <;> assumption)
        | (apply safe_list_tail <;> assumption)
        | apply tight_curr_type
        | apply tight_curr_token
        | apply tight_curr_ptr
        | apply tight_read_token
        | apply tight_consume_token
        | apply tight_unconsume_token
        | apply tight_onyx_message_add
        | apply tight_make_node
        | apply tight_read_node
        | apply tight_modify_node
        | apply tight_expect_token
        | apply tight_token_toggle_end
        | apply ih
        | apply tight_bind
        | apply tight_ite
        | apply tight_pure
        | apply tight_raise
        | intro _
        | split

theorem tight_write_slot (b : Nat) (slot : NodeSlot) (p : NodePtr) (hs : Safe.safe b slot)
    (hp : Safe.safe b p) : Tight b (write_slot slot p) := by
  cases slot with
  | arguments q => exact tight_modify_node b _ _ hs (fun _ h => h)
  | body q => exact tight_modify_node b _ _ hs (fun _ h => h)
  | next q => exact tight_modify_node b _ _ hs (fun _ _ => hp)

theorem tight_parse_numeric_literal (b : Nat) : Tight b parse_numeric_literal := by
  unfold parse_numeric_literal
  repeat' first
      | assumption
      | exact trivial
      | exact safe_ptr_null _
      | exact safe_ptr_error _
      | exact safe_ptr_basic _ _
      | exact safe_list_nil _
      | (apply safe_list_cons <;> assumption)
      | (apply safe_list_head <;> assumption)
      | (apply safe_list_tail <;> assumption)
      | apply tight_curr_type
      | apply tight_curr_token
      | apply tight_curr_ptr
      | apply tight_read_token
      | apply tight_consume_token
      | apply tight_unconsume_token
      | apply tight_onyx_message_add
      | apply tight_make_node
      | apply tight_read_node
      | apply tight_modify_node
      | apply tight_expect_token
      | apply tight_token_toggle_end
      | apply tight_bind
      | apply tight_ite
      | apply tight_pure
      | apply tight_raise
      | intro _
      | split

theorem tight_parse_type_loop (b : Nat) : ∀ fuel root slot, Safe.safe b root → Safe.safe b slot →
    Tight b (parse_type_loop fuel root slot) := by
  intro fuel
  induction fuel with
  | zero => intro _ _ _ _; exact tight_raise b _
  | succ n ih =>
    intro root slot hroot hslot
    rw [parse_type_loop]
    cases slot with
    | root =>
      repeat' first
          | assumption
          | exact trivial
          | exact safe_ptr_null _
          | exact safe_ptr_error _
          | exact safe_ptr_basic _ _
          | exact safe_list_nil _
          | (apply safe_list_cons <;> assumption)
          | (apply safe_list_head <;> assumption)
          | (apply safe_list_tail <;> assumption)
          | apply tight_curr_type
          | apply tight_curr_token
          | apply tight_curr_ptr
          | apply tight_read_token
          | apply tight_consume_token
          | apply tight_unconsume_token
          | apply tight_onyx_message_add
          | apply tight_make_node
          | apply tight_read_node
          | apply tight_modify_node
          | apply tight_expect_token
          | apply tight_token_toggle_end
          | apply ih
          | apply tight_bind
          | apply tight_ite
          | apply tight_pure
          | apply tight_raise
          | intro _
          | split
    | elem p =>
      have hp : safe_ptr b p := hslot
      repeat' first
          | assumption
          | exact trivial
          | exact safe_ptr_null _
          | exact safe_ptr_error _
          | exact safe_ptr_basic _ _
          | exact safe_list_nil _
          | (apply safe_list_cons <;> assumption)
          | (apply safe_list_head <;> assumption)
          | (apply safe_list_tail <;> assumption)
          | apply tight_curr_type
          | apply tight_curr_token
          | apply tight_curr_ptr
          | apply tight_read_token
          | apply tight_consume_token
          | apply tight_unconsume_token
          | apply tight_onyx_message_add
          | apply tight_make_node
          | apply tight_read_node
          | apply tight_modify_node
          | apply tight_expect_token
          | apply tight_token_toggle_end
          | apply ih
          | apply tight_bind
          | apply tight_ite
          | apply tight_pure
          | apply tight_raise
          | intro _
          | split

theorem tight_parse_type (b : Nat) (fuel : Nat) : Tight b (parse_type fuel) :=
  tight_parse_type_loop b fuel _ _ (safe_ptr_null b) (safe_ptr_null b)

theorem tight_parse_factor_casts (b : Nat) : ∀ fuel retval, Safe.safe b retval →
    Tight b (parse_factor_casts fuel retval) := by
  intro fuel
  induction fuel with
  | zero => intro _ _; exact tight_raise b _
  | succ n ih =>
    intro retval hret
    rw [parse_factor_casts]
    repeat' first
        | assumption
        | exact trivial
        | exact safe_ptr_null _
        | exact safe_ptr_error _
        | exact safe_ptr_basic _ _
        | exact safe_list_nil _
        | (apply safe_list_cons <;> assumption)
        | (apply safe_list_head <;> assumption)
        | (apply safe_list_tail <;> assumption)
        | apply tight_curr_type
        | apply tight_curr_token
        | apply tight_curr_ptr
        | apply tight_read_token
        | apply tight_consume_token
        | apply tight_unconsume_token
        | apply tight_onyx_message_add
        | apply tight_make_node
        | apply tight_read_node
        | apply tight_modify_node
        | apply tight_expect_token
        | apply tight_token_toggle_end
        | apply tight_parse_type
        | apply ih
        | apply tight_bind
        | apply tight_ite
        | apply tight_pure
        | apply tight_raise
        | intro _
        | split

theorem tight_pop_tree_stack (b : Nat) (op : BinaryOp) : ∀ st : List NodePtr, Safe.safe b st →
    Tight b (pop_tree_stack op st) := by
  intro st
  induction st with
  | nil => intro _; exact tight_pure b _ (safe_list_nil b)
  | cons top rest ih =>
    intro hst
    rw [pop_tree_stack]
    have hrest := safe_list_tail b top rest hst
    repeat' first
        | assumption
        | exact trivial
        | exact safe_ptr_null _
        | exact safe_ptr_error _
        | exact safe_ptr_basic _ _
        | exact safe_list_nil _
        | (apply safe_list_cons <;> assumption)
        | (apply safe_list_head <;> assumption)
        | (apply safe_list_tail <;> assumption)
        | apply tight_curr_type
        | apply tight_curr_token
        | apply tight_curr_ptr
        | apply tight_read_token
        | apply tight_consume_token
        | apply tight_unconsume_token
        | apply tight_onyx_message_add
        | apply tight_make_node
        | apply tight_read_node
        | apply tight_modify_node
        | apply tight_expect_token
        | apply tight_token_toggle_end
        | apply ih
        | apply tight_bind
        | apply tight_ite
        | apply tight_pure
        | apply tight_raise
        | intro _
        | split

/-- The strict frame condition of the four mutually recursive expression functions. -/
theorem tight_expression_level (fuel : Nat) :
    (∀ b, Tight b (parse_factor fuel)) ∧
    (∀ b slot, Safe.safe b slot → Tight b (parse_call_arguments fuel slot)) ∧
    (∀ b, Tight b (parse_expression fuel)) ∧
    (∀ b left root st, Safe.safe b root → Safe.safe b st →
      Tight b (parse_expression_loop fuel left root st)) := by
  induction fuel with
  | zero =>
    refine ⟨fun b => ?_, fun b _ _ => ?_, fun b => ?_, fun b _ _ _ _ _ => ?_⟩
    · rw [parse_factor]; exact tight_raise b _
    · rw [parse_call_arguments]; exact tight_raise b _
    · rw [parse_expression]; exact tight_raise b _
    · rw [parse_expression_loop]; exact tight_raise b _
  | succ n ih =>
    obtain ⟨ihf, iha, ihe, ihl⟩ := ih
    refine ⟨fun b => ?_, fun b slot hslot => ?_, fun b => ?_, fun b left root st hroot hst => ?_⟩
    · rw [parse_factor]
      repeat' first
          | assumption
          | exact trivial
          | exact safe_ptr_null _
          | exact safe_ptr_error _
          | exact safe_ptr_basic _ _
          | exact safe_list_nil _
          | (apply safe_list_cons <;> assumption)
          | (apply safe_list_head <;> assumption)
          | (apply safe_list_tail <;> assumption)
          | apply tight_curr_type
          | apply tight_curr_token
          | apply tight_curr_ptr
          | apply tight_read_token
          | apply tight_consume_token
          | apply tight_unconsume_token
          | apply tight_onyx_message_add
          | apply tight_make_node
          | apply tight_read_node
          | apply tight_modify_node
          | apply tight_expect_token
          | apply tight_token_toggle_end
          | apply tight_parse_type
          | apply tight_parse_factor_casts
          | apply tight_pop_tree_stack
          | apply tight_parse_numeric_literal
          | apply tight_write_slot
          | apply ihf
          | apply iha
          | apply ihe
          | apply ihl
          | apply tight_bind
          | apply tight_ite
          | apply tight_pure
          | apply tight_raise
          | intro _
          | split
    · rw [parse_call_arguments]
      repeat' first
          | assumption
          | exact trivial
          | exact safe_ptr_null _
          | exact safe_ptr_error _
          | exact safe_ptr_basic _ _
          | exact safe_list_nil _
          | (apply safe_list_cons <;> assumption)
          | (apply safe_list_head <;> assumption)
          | (apply safe_list_tail <;> assumption)
          | apply tight_curr_type
          | apply tight_curr_token
          | apply tight_curr_ptr
          | apply tight_read_token
          | apply tight_consume_token
          | apply tight_unconsume_token
          | apply tight_onyx_message_add
          | apply tight_make_node
          | apply tight_read_node
          | apply tight_modify_node
          | apply tight_expect_token
          | apply tight_token_toggle_end
          | apply tight_parse_type
          | apply tight_parse_factor_casts
          | apply tight_pop_tree_stack
          | apply tight_parse_numeric_literal
          | apply tight_write_slot
          | apply ihf
          | apply iha
          | apply ihe
          | apply ihl
          | apply tight_bind
          | apply tight_ite
          | apply tight_pure
          | apply tight_raise
          | intro _
          | split
    · rw [parse_expression]
      repeat' first
          | assumption
          | exact trivial
          | exact safe_ptr_null _
          | exact safe_ptr_error _
          | exact safe_ptr_basic _ _
          | exact safe_list_nil _
          | (apply safe_list_cons <;> assumption)
          | (apply safe_list_head <;> assumption)
          | (apply safe_list_tail <;> assumption)
          | apply tight_curr_type
          | apply tight_curr_token
          | apply tight_curr_ptr
          | apply tight_read_token
          | apply tight_consume_token
          | apply tight_unconsume_token
          | apply tight_onyx_message_add
          | apply tight_make_node
          | apply tight_read_node
          | apply tight_modify_node
          | apply tight_expect_token
          | apply tight_token_toggle_end
          | apply tight_parse_type
          | apply tight_parse_factor_casts
          | apply tight_pop_tree_stack
          | apply tight_parse_numeric_literal
          | apply tight_write_slot
          | apply ihf
          | apply iha
          | apply ihe
          | apply ihl
          | apply tight_bind
          | apply tight_ite
          | apply tight_pure
          | apply tight_raise
          | intro _
          | split
    · rw [parse_expression_loop]
      repeat' first
          | assumption
          | exact trivial
          | exact safe_ptr_null _
          | exact safe_ptr_error _
          | exact safe_ptr_basic _ _
          | exact safe_list_nil _
          | (apply safe_list_cons <;> assumption)
          | (apply safe_list_head <;> assumption)
          | (apply safe_list_tail <;> assumption)
          | apply tight_curr_type
          | apply tight_curr_token
          | apply tight_curr_ptr
          | apply tight_read_token
          | apply tight_consume_token
          | apply tight_unconsume_token
          | apply tight_onyx_message_add
          | apply tight_make_node
          | apply tight_read_node
          | apply tight_modify_node
          | apply tight_expect_token
          | apply tight_token_toggle_end
          | apply tight_parse_type
          | apply tight_parse_factor_casts
          | apply tight_pop_tree_stack
          | apply tight_parse_numeric_literal
          | apply tight_write_slot
          | apply ihf
          | apply iha
          | apply ihe
          | apply ihl
          | apply tight_bind
          | apply tight_ite
          | apply tight_pure
          | apply tight_raise
          | intro _
          | split

theorem tight_parse_expression (b fuel : Nat) :
    Tight b (parse_expression fuel) :=
  (tight_expression_level fuel).2.2.1 b

theorem tight_parse_symbol_statement (b fuel : Nat) (ret : NodePtr)
    (hret : Safe.safe b ret) : Tight b (parse_symbol_statement fuel ret) := by
  unfold parse_symbol_statement
  repeat' first
      | assumption
      | exact trivial
      | exact safe_ptr_null _
      | exact safe_ptr_error _
      | exact safe_ptr_basic _ _
      | exact safe_list_nil _
      | (apply safe_list_cons <;> assumption)
      | (apply safe_list_head <;> assumption)
      | (apply safe_list_tail <;> assumption)
      | apply tight_curr_type
      | apply tight_curr_token
      | apply tight_curr_ptr
      | apply tight_read_token
      | apply tight_consume_token
      | apply tight_unconsume_token
      | apply tight_onyx_message_add
      | apply tight_make_node
      | apply tight_read_node
      | apply tight_modify_node
      | apply tight_expect_token
      | apply tight_token_toggle_end
      | apply tight_parse_type
      | apply tight_parse_factor_casts
      | apply tight_pop_tree_stack
      | apply tight_parse_numeric_literal
      | apply tight_write_slot
      | apply tight_parse_expression
      | apply tight_bind
      | apply tight_ite
      | apply tight_pure
      | apply tight_raise
      | intro _
      | split

theorem tight_parse_return_statement (b fuel : Nat) :
    Tight b (parse_return_statement fuel) := by
  unfold parse_return_statement
  repeat' first
      | assumption
      | exact trivial
      | exact safe_ptr_null _
      | exact safe_ptr_error _
      | exact safe_ptr_basic _ _
      | exact safe_list_nil _
      | (apply safe_list_cons <;> assumption)
      | (apply safe_list_head <;> assumption)
      | (apply safe_list_tail <;> assumption)
      | apply tight_curr_type
      | apply tight_curr_token
      | apply tight_curr_ptr
      | apply tight_read_token
      | apply tight_consume_token
      | apply tight_unconsume_token
      | apply tight_onyx_message_add
      | apply tight_make_node
      | apply tight_read_node
      | apply tight_modify_node
      | apply tight_expect_token
      | apply tight_token_toggle_end
      | apply tight_parse_type
      | apply tight_parse_factor_casts
      | apply tight_pop_tree_stack
      | apply tight_parse_numeric_literal
      | apply tight_write_slot
      | apply tight_parse_expression
      | apply tight_bind
      | apply tight_ite
      | apply tight_pure
      | apply tight_raise
      | intro _
      | split

theorem tight_parse_statement_semicolon (b fuel : Nat)
    (needs_semicolon : Bool) : Tight b (parse_statement_semicolon fuel needs_semicolon) := by
  unfold parse_statement_semicolon
  repeat' first
      | assumption
      | exact trivial
      | exact safe_ptr_null _
      | exact safe_ptr_error _
      | exact safe_ptr_basic _ _
      | exact safe_list_nil _
      | (apply safe_list_cons <;> assumption)
      | (apply safe_list_head <;> assumption)
      | (apply safe_list_tail <;> assumption)
      | apply tight_curr_type
      | apply tight_curr_token
      | apply tight_curr_ptr
      | apply tight_read_token
      | apply tight_consume_token
      | apply tight_unconsume_token
      | apply tight_onyx_message_add
      | apply tight_make_node
      | apply tight_read_node
      | apply tight_modify_node
      | apply tight_expect_token
      | apply tight_token_toggle_end
      | apply tight_parse_type
      | apply tight_parse_factor_casts
      | apply tight_pop_tree_stack
      | apply tight_parse_numeric_literal
      | apply tight_write_slot
      | apply tight_find_token
      | apply tight_bind
      | apply tight_ite
      | apply tight_pure
      | apply tight_raise
      | intro _
      | split

set_option maxHeartbeats 4000000 in
/-- The strict frame condition of the mutually recursive statement functions: from a state
closed above `b`, nothing below the address `b` changes. -/
theorem tight_statement_level (fuel : Nat) :
    (∀ b, Tight b (parse_if_stmt fuel)) ∧
    (∀ b if_node, Safe.safe b if_node → Tight b (parse_if_elseifs fuel if_node)) ∧
    (∀ b, Tight b (parse_while_stmt fuel)) ∧
    (∀ b, Tight b (parse_statement_switch fuel)) ∧
    (∀ b, Tight b (parse_statement fuel)) ∧
    (∀ b, Tight b (parse_block fuel)) ∧
    (∀ b next, Safe.safe b next → Tight b (parse_block_loop fuel next)) := by
  induction fuel with
  | zero =>
    refine ⟨fun b => ?_, fun b _ _ => ?_, fun b => ?_, fun b => ?_, fun b => ?_, fun b => ?_,
      fun b _ _ => ?_⟩
    · rw [parse_if_stmt]; exact tight_raise b _
    · rw [parse_if_elseifs]; exact tight_raise b _
    · rw [parse_while_stmt]; exact tight_raise b _
    · rw [parse_statement_switch]; exact tight_raise b _
    · rw [parse_statement]; exact tight_raise b _
    · rw [parse_block]; exact tight_raise b _
    · rw [parse_block_loop]; exact tight_raise b _
  | succ n ih =>
    obtain ⟨ihif, ihelse, ihwhile, ihswitch, ihstmt, ihblock, ihloop⟩ := ih
    refine ⟨fun b => ?_, fun b if_node hif => ?_, fun b => ?_, fun b => ?_, fun b => ?_,
      fun b => ?_, fun b next hnext => ?_⟩
    · rw [parse_if_stmt]
      repeat' first
          | assumption
          | exact trivial
          | exact safe_ptr_null _
          | exact safe_ptr_error _
          | exact safe_ptr_basic _ _
          | exact safe_list_nil _
          | (apply safe_list_cons <;> assumption)
          | (apply safe_list_head <;> assumption)
          | (apply safe_list_tail <;> assumption)
          | apply tight_curr_type
          | apply tight_curr_token
          | apply tight_curr_ptr
          | apply tight_read_token
          | apply tight_consume_token
          | apply tight_unconsume_token
          | apply tight_onyx_message_add
          | apply tight_make_node
          | apply tight_read_node
          | apply tight_modify_node
          | apply tight_expect_token
          | apply tight_token_toggle_end
          | apply tight_parse_type
          | apply tight_parse_factor_casts
          | apply tight_pop_tree_stack
          | apply tight_parse_numeric_literal
          | apply tight_write_slot
          | apply tight_parse_expression
          | apply tight_find_token
          | apply tight_last_in_chain_bind
          | apply tight_parse_symbol_statement
          | apply tight_parse_return_statement
          | apply tight_parse_statement_semicolon
          | apply ihif
          | apply ihelse
          | apply ihwhile
          | apply ihswitch
          | apply ihstmt
          | apply ihblock
          | apply ihloop
          | apply tight_bind
          | apply tight_ite
          | apply tight_pure
          | apply tight_raise
          | intro _
          | split
    · rw [parse_if_elseifs]
      repeat' first
          | assumption
          | exact trivial
          | exact safe_ptr_null _
          | exact safe_ptr_error _
          | exact safe_ptr_basic _ _
          | exact safe_list_nil _
          | (apply safe_list_cons <;> assumption)
          | (apply safe_list_head <;> assumption)
          | (apply safe_list_tail <;> assumption)
          | apply tight_curr_type
          | apply tight_curr_token
          | apply tight_curr_ptr
          | apply tight_read_token
          | apply tight_consume_token
          | apply tight_unconsume_token
          | apply tight_onyx_message_add
          | apply tight_make_node
          | apply tight_read_node
          | apply tight_modify_node
          | apply tight_expect_token
          | apply tight_token_toggle_end
          | apply tight_parse_type
          | apply tight_parse_factor_casts
          | apply tight_pop_tree_stack
          | apply tight_parse_numeric_literal
          | apply tight_write_slot
          | apply tight_parse_expression
          | apply tight_find_token
          | apply tight_last_in_chain_bind
          | apply tight_parse_symbol_statement
          | apply tight_parse_return_statement
          | apply tight_parse_statement_semicolon
          | apply ihif
          | apply ihelse
          | apply ihwhile
          | apply ihswitch
          | apply ihstmt
          | apply ihblock
          | apply ihloop
          | apply tight_bind
          | apply tight_ite
          | apply tight_pure
          | apply tight_raise
          | intro _
          | split
    · rw [parse_while_stmt]
      repeat' first
          | assumption
          | exact trivial
          | exact safe_ptr_null _
          | exact safe_ptr_error _
          | exact safe_ptr_basic _ _
          | exact safe_list_nil _
          | (apply safe_list_cons <;> assumption)
          | (apply safe_list_head <;> assumption)
          | (apply safe_list_tail <;> assumption)
          | apply tight_curr_type
          | apply tight_curr_token
          | apply tight_curr_ptr
          | apply tight_read_token
          | apply tight_consume_token
          | apply tight_unconsume_token
          | apply tight_onyx_message_add
          | apply tight_make_node
          | apply tight_read_node
          | apply tight_modify_node
          | apply tight_expect_token
          | apply tight_token_toggle_end
          | apply tight_parse_type
          | apply tight_parse_factor_casts
          | apply tight_pop_tree_stack
          | apply tight_parse_numeric_literal
          | apply tight_write_slot
          | apply tight_parse_expression
          | apply tight_find_token
          | apply tight_last_in_chain_bind
          | apply tight_parse_symbol_statement
          | apply tight_parse_return_statement
          | apply tight_parse_statement_semicolon
          | apply ihif
          | apply ihelse
          | apply ihwhile
          | apply ihswitch
          | apply ihstmt
          | apply ihblock
          | apply ihloop
          | apply tight_bind
          | apply tight_ite
          | apply tight_pure
          | apply tight_raise
          | intro _
          | split
    · rw [parse_statement_switch]
      repeat' first
          | assumption
          | exact trivial
          | exact safe_ptr_null _
          | exact safe_ptr_error _
          | exact safe_ptr_basic _ _
          | exact safe_list_nil _
          | (apply safe_list_cons <;> assumption)
          | (apply safe_list_head <;> assumption)
          | (apply safe_list_tail <;> assumption)
          | apply tight_curr_type
          | apply tight_curr_token
          | apply tight_curr_ptr
          | apply tight_read_token
          | apply tight_consume_token
          | apply tight_unconsume_token
          | apply tight_onyx_message_add
          | apply tight_make_node
          | apply tight_read_node
          | apply tight_modify_node
          | apply tight_expect_token
          | apply tight_token_toggle_end
          | apply tight_parse_type
          | apply tight_parse_factor_casts
          | apply tight_pop_tree_stack
          | apply tight_parse_numeric_literal
          | apply tight_write_slot
          | apply tight_parse_expression
          | apply tight_find_token
          | apply tight_last_in_chain_bind
          | apply tight_parse_symbol_statement
          | apply tight_parse_return_statement
          | apply tight_parse_statement_semicolon
          | apply ihif
          | apply ihelse
          | apply ihwhile
          | apply ihswitch
          | apply ihstmt
          | apply ihblock
          | apply ihloop
          | apply tight_bind
          | apply tight_ite
          | apply tight_pure
          | apply tight_raise
          | intro _
          | split
    · rw [parse_statement]
      repeat' first
          | assumption
          | exact trivial
          | exact safe_ptr_null _
          | exact safe_ptr_error _
          | exact safe_ptr_basic _ _
          | exact safe_list_nil _
          | (apply safe_list_cons <;> assumption)
          | (apply safe_list_head <;> assumption)
          | (apply safe_list_tail <;> assumption)
          | apply tight_curr_type
          | apply tight_curr_token
          | apply tight_curr_ptr
          | apply tight_read_token
          | apply tight_consume_token
          | apply tight_unconsume_token
          | apply tight_onyx_message_add
          | apply tight_make_node
          | apply tight_read_node
          | apply tight_modify_node
          | apply tight_expect_token
          | apply tight_token_toggle_end
          | apply tight_parse_type
          | apply tight_parse_factor_casts
          | apply tight_pop_tree_stack
          | apply tight_parse_numeric_literal
          | apply tight_write_slot
          | apply tight_parse_expression
          | apply tight_find_token
          | apply tight_last_in_chain_bind
          | apply tight_parse_symbol_statement
          | apply tight_parse_return_statement
          | apply tight_parse_statement_semicolon
          | apply ihif
          | apply ihelse
          | apply ihwhile
          | apply ihswitch
          | apply ihstmt
          | apply ihblock
          | apply ihloop
          | apply tight_bind
          | apply tight_ite
          | apply tight_pure
          | apply tight_raise
          | intro _
          | split
    · rw [parse_block]
      repeat' first
          | assumption
          | exact trivial
          | exact safe_ptr_null _
          | exact safe_ptr_error _
          | exact safe_ptr_basic _ _
          | exact safe_list_nil _
          | (apply safe_list_cons <;> assumption)
          | (apply safe_list_head <;> assumption)
          | (apply safe_list_tail <;> assumption)
          | apply tight_curr_type
          | apply tight_curr_token
          | apply tight_curr_ptr
          | apply tight_read_token
          | apply tight_consume_token
          | apply tight_unconsume_token
          | apply tight_onyx_message_add
          | apply tight_make_node
          | apply tight_read_node
          | apply tight_modify_node
          | apply tight_expect_token
          | apply tight_token_toggle_end
          | apply tight_parse_type
          | apply tight_parse_factor_casts
          | apply tight_pop_tree_stack
          | apply tight_parse_numeric_literal
          | apply tight_write_slot
          | apply tight_parse_expression
          | apply tight_find_token
          | apply tight_last_in_chain_bind
          | apply tight_parse_symbol_statement
          | apply tight_parse_return_statement
          | apply tight_parse_statement_semicolon
          | apply ihif
          | apply ihelse
          | apply ihwhile
          | apply ihswitch
          | apply ihstmt
          | apply ihblock
          | apply ihloop
          | apply tight_bind
          | apply tight_ite
          | apply tight_pure
          | apply tight_raise
          | intro _
          | split
    · rw [parse_block_loop]
      repeat' first
          | assumption
          | exact trivial
          | exact safe_ptr_null _
          | exact safe_ptr_error _
          | exact safe_ptr_basic _ _
          | exact safe_list_nil _
          | (apply safe_list_cons <;> assumption)
          | (apply safe_list_head <;> assumption)
          | (apply safe_list_tail <;> assumption)
          | apply tight_curr_type
          | apply tight_curr_token
          | apply tight_curr_ptr
          | apply tight_read_token
          | apply tight_consume_token
          | apply tight_unconsume_token
          | apply tight_onyx_message_add
          | apply tight_make_node
          | apply tight_read_node
          | apply tight_modify_node
          | apply tight_expect_token
          | apply tight_token_toggle_end
          | apply tight_parse_type
          | apply tight_parse_factor_casts
          | apply tight_pop_tree_stack
          | apply tight_parse_numeric_literal
          | apply tight_write_slot
          | apply tight_parse_expression
          | apply tight_find_token
          | apply tight_last_in_chain_bind
          | apply tight_parse_symbol_statement
          | apply tight_parse_return_statement
          | apply tight_parse_statement_semicolon
          | apply ihif
          | apply ihelse
          | apply ihwhile
          | apply ihswitch
          | apply ihstmt
          | apply ihblock
          | apply ihloop
          | apply tight_bind
          | apply tight_ite
          | apply tight_pure
          | apply tight_raise
          | intro _
          | split

theorem tight_parse_block (b fuel : Nat) : Tight b (parse_block fuel) :=
  (tight_statement_level fuel).2.2.2.2.2.1 b

theorem tight_parse_if_elseifs (b fuel : Nat) (if_node : NodePtr) (h : Safe.safe b if_node) :
    Tight b (parse_if_elseifs fuel if_node) :=
  (tight_statement_level fuel).2.1 b if_node h

end Onyx
namespace Onyx

open TokenType AstKind BinaryOp UnaryOp BasicKind OnyxMessageType

/-! ## The static error node across `parse_type` -/

theorem keeps_pure {α : Type} (a : α) : Keeps (pure a : P α) := by
  constructor
  intro s r s' hrun
  simp only [pure_run, Res.ok.injEq] at hrun
  rw [hrun.2]

theorem keeps_raise {α : Type} (f : Fault) : Keeps (raise f : P α) :=
  ⟨fun _ _ _ hrun => Res.noConfusion hrun⟩

theorem keeps_bind {α β : Type} (m : P α) (f : α → P β) (hm : Keeps m)
    (hf : ∀ a, Keeps (f a)) : Keeps (m >>= f) := by
  constructor
  intro s r s' hrun
  obtain ⟨a, s1, h1, h2⟩ := bind_ok.1 hrun
  rw [(hf a).run s1 r s' h2, hm.run s a s1 h1]

theorem keeps_ite {α : Type} (c : Prop) [Decidable c] (m1 m2 : P α) (h1 : Keeps m1)
    (h2 : Keeps m2) : Keeps (if c then m1 else m2) := by
  split_ifs
  · exact h1
  · exact h2

theorem keeps_curr_type : Keeps curr_type := by
  constructor
  intro s r s' h
  obtain ⟨rfl, _⟩ := curr_type_ok h
  rfl

theorem keeps_curr_token : Keeps curr_token := by
  constructor
  intro s r s' h
  unfold curr_token at h
  split at h
  · injection h with _ h; subst h; rfl
  · exact Res.noConfusion h

theorem keeps_curr_ptr : Keeps curr_ptr := by
  constructor
  intro s r s' h
  injection h with _ h; subst h; rfl

theorem keeps_read_token (t : Option Nat) : Keeps (read_token t) := by
  constructor
  intro s r s' h
  unfold read_token at h
  split at h
  · exact Res.noConfusion h
  · split at h
    · injection h with _ h; subst h; rfl
    · exact Res.noConfusion h

theorem keeps_consume_token : Keeps consume_token := by
  constructor
  intro s r s' h
  unfold consume_token at h
  split at h
  · injection h with _ h; subst h; rfl
  · exact Res.noConfusion h

theorem keeps_onyx_message_add (ty : OnyxMessageType) (pos : OnyxFilePos) (args : List MsgArg) :
    Keeps (onyx_message_add ty pos args) := by
  constructor
  intro s r s' h
  injection h with _ h; subst h; rfl

theorem keeps_token_toggle_end (t : Option Nat) : Keeps (token_toggle_end t) := by
  unfold token_toggle_end
  exact keeps_bind _ _ (keeps_read_token t) (fun _ => keeps_pure _)

theorem keeps_expect_token (ty : TokenType) : Keeps (expect_token ty) := by
  unfold expect_token
  repeat' first
    | apply keeps_curr_type
    | apply keeps_curr_token
    | apply keeps_curr_ptr
    | apply keeps_read_token
    | apply keeps_consume_token
    | apply keeps_onyx_message_add
    | apply keeps_token_toggle_end
    | apply keeps_bind
    | apply keeps_ite
    | apply keeps_pure
    | apply keeps_raise
    | intro _
    | split

/-- A write through a pointer into the arena. -/
theorem keeps_modify_node (j : Nat) (f : AstNode → AstNode) :
    Keeps (modify_node (NodePtr.node j) f) := by
  constructor
  intro s r s' h
  unfold modify_node at h
  simp only at h
  split at h
  · injection h with _ h; subst h; rfl
  · exact Res.noConfusion h

/-- An allocation, followed by anything that keeps the error node. -/
theorem keeps_make_node_bind {β : Type} (k : AstKind) (f : NodePtr → P β)
    (hf : ∀ j, Keeps (f (NodePtr.node j))) : Keeps (make_node k >>= f) := by
  constructor
  intro s r s' hrun
  obtain ⟨a, s1, h1, h2⟩ := bind_ok.1 hrun
  rw [make_node_run] at h1
  injection h1 with h0 h1
  subst h0 h1
  exact (hf _).run _ r s' h2 ▸ rfl

theorem keeps_parse_type_loop : ∀ fuel root slot, (∀ p, slot = TypeSlot.elem p → ∃ j, p = NodePtr.node j) →
    Keeps (parse_type_loop fuel root slot) := by
  intro fuel
  induction fuel with
  | zero => intro _ _ _; exact keeps_raise _
  | succ n ih =>
    intro root slot hslot
    rw [parse_type_loop]
    cases slot with
    | root =>
      repeat' first
        | apply keeps_curr_type
        | apply keeps_curr_token
        | apply keeps_curr_ptr
        | apply keeps_read_token
        | apply keeps_consume_token
        | apply keeps_onyx_message_add
        | apply keeps_token_toggle_end
        | apply keeps_expect_token
        | apply keeps_modify_node
        | apply keeps_make_node_bind
        | (apply ih; intro p hp; injection hp with hp; exact ⟨_, hp.symm⟩)
        | (apply ih; intro p hp; exact TypeSlot.noConfusion hp)
        | apply keeps_bind
        | apply keeps_ite
        | apply keeps_pure
        | apply keeps_raise
        | intro _
        | split
    | elem p =>
      obtain ⟨i, rfl⟩ := hslot p rfl
      repeat' first
        | apply keeps_curr_type
        | apply keeps_curr_token
        | apply keeps_curr_ptr
        | apply keeps_read_token
        | apply keeps_consume_token
        | apply keeps_onyx_message_add
        | apply keeps_token_toggle_end
        | apply keeps_expect_token
        | apply keeps_modify_node
        | apply keeps_make_node_bind
        | (apply ih; intro p hp; injection hp with hp; exact ⟨_, hp.symm⟩)
        | (apply ih; intro p hp; exact TypeSlot.noConfusion hp)
        | apply keeps_bind
        | apply keeps_ite
        | apply keeps_pure
        | apply keeps_raise
        | intro _
        | split

/-- The function `parse_type` does not write to the static error node. -/
theorem parse_type_error_node (fuel : Nat) (s s' : OnyxParser) (r : NodePtr)
    (h : parse_type fuel s = Res.ok r s') : s'.error_node = s.error_node :=
  (keeps_parse_type_loop fuel _ _ (fun _ hp => TypeSlot.noConfusion hp)).run s r s' h

end Onyx
namespace Onyx

open TokenType AstKind BinaryOp UnaryOp BasicKind OnyxMessageType

/-! ## Claims on parameter lists -/

/-- What `parse_type` leaves in place: the arena below its entry length and the tokens. -/
theorem parse_type_frame (fuel : Nat) (s s' : OnyxParser) (r : NodePtr)
    (h : parse_type fuel s = Res.ok r s') :
    s.heap.length ≤ s'.heap.length ∧ (∀ i, i < s.heap.length → s'.heap[i]? = s.heap[i]?) ∧
      s'.tokens = s.tokens ∧ safe_ptr s.heap.length r := by
  obtain ⟨h1, h2, h3, h4⟩ := (good_parse_type id s.heap.length fuel).run s r s' (le_refl _) h
  refine ⟨h1, fun i hi => ?_, h3, h4⟩
  have := h2 i hi
  simpa using this

theorem parse_type_fuel {n m : Nat} (hnm : n ≤ m) {s s' : OnyxParser} {r : NodePtr}
    (h : parse_type n s = Res.ok r s') : parse_type m s = Res.ok r s' :=
  (mono_le parse_type mono_parse_type n m hnm).run s r s' h

/-- One iteration of the loop of `parse_function_params`, given the run of `parse_type`. -/
theorem params_step (F : Nat) (first tr : NodePtr) (L stop : OnyxParser) (comma : Bool)
    (name : Nat) (ty : NodePtr) (t0 tn tc t2 : OnyxToken)
    (ht0 : L.tokens[L.curr]? = some t0)
    (ht0ty : t0.type = if comma then ascii ',' else Token_Type_Symbol)
    (hname : name = L.curr + (if comma then 1 else 0))
    (htn : L.tokens[name]? = some tn) (htnty : tn.type = Token_Type_Symbol)
    (htc : L.tokens[name + 1]? = some tc) (htcty : tc.type = ascii ':')
    (ht2 : L.tokens[name + 2]? = some t2) (ht2c : t2.type ≠ Token_Type_Comment)
    (hpt : parse_type F
      { L with curr := name + 2, prev := some ((name + 1 : Nat) : Int),
               heap := L.heap ++ [param_cell name] }
      = Res.ok ty stop)
    (htr : tr = NodePtr.null ∨ ∃ m, tr = NodePtr.node m ∧ m < L.heap.length) :
    parse_function_params_loop (F + 1) first tr L
      = parse_function_params_loop F
          (if first = NodePtr.null then NodePtr.node L.heap.length else first)
          (NodePtr.node L.heap.length)
          { stop with heap :=
              (link_trailer
                (update_node stop.heap L.heap.length
                  (fun n => { n with type_node := ty, next := NodePtr.null }))
                tr L.heap.length) } := by
  obtain ⟨hlen, hfr, -, -⟩ := parse_type_frame F _ _ _ hpt
  simp only [List.length_append, List.length_singleton] at hlen hfr
  have hz : stop.heap[L.heap.length]? = some (param_cell name) := by
    rw [hfr _ (Nat.lt_succ_self _)]
    exact List.getElem?_concat_length _ _
  have hzlt : L.heap.length < stop.heap.length := by omega
  have hcolon : tc.type ≠ Token_Type_Comment := by rw [htcty]; decide
  have hsym : tn.type ≠ Token_Type_Comment := by rw [htnty]; decide
  have hne : t0.type ≠ ascii ')' := by
    rw [ht0ty]; cases comma <;> decide
  rw [parse_function_params_loop]
  obtain ⟨toks, cur, prev, msgs, H, en, res⟩ := L
  simp only [param_cell] at ht0 hname htn htc ht2 hpt hz hzlt hfr hlen htr
  have e3 := expect_token_next
    ({ tokens := toks, curr := name + 1, prev := some ((name : Nat) : Int), msgs := msgs,
       heap := H, error_node := en, results := res } : OnyxParser) tc t2 (ascii ':')
    htc htcty ht2 ht2c
  cases comma with
  | false =>
    simp only [Bool.false_eq_true, if_false, Nat.add_zero] at hname ht0ty
    subst hname
    have e2 := expect_token_next
      ({ tokens := toks, curr := name, prev := prev, msgs := msgs,
         heap := H, error_node := en, results := res } : OnyxParser) tn tc Token_Type_Symbol
      htn htnty htc hcolon
    have hcomma : ¬ (t0.type = ascii ',') := by rw [ht0ty]; decide
    rcases htr with rfl | ⟨m, rfl, hm⟩
    · simp only [bind_run, curr_type, ht0, hne, hcomma, ne_eq, not_false_eq_true, if_true, if_false,
        e2, e3, make_node_run, modify_node, List.getElem?_concat_length, List.set_append,
        Nat.lt_irrefl, Nat.sub_self, List.set_cons_zero, Nat.add_assoc, Nat.reduceAdd,
        pure_run, hpt, hz, link_trailer, update_node, List.getElem?_set_self hzlt, List.set_set,
        not_true_eq_false]
    · obtain ⟨x, hx⟩ : ∃ x, stop.heap[m]? = some x :=
        ⟨_, List.getElem?_eq_getElem (by omega)⟩
      have hx1 : ∀ q, (stop.heap.set H.length q)[m]? = some x := by
        intro q
        rw [List.getElem?_set_ne (by omega)]
        exact hx
      simp only [bind_run, curr_type, ht0, hne, hcomma, ne_eq, not_false_eq_true, if_true, if_false,
        e2, e3, make_node_run, modify_node, List.getElem?_concat_length, List.set_append,
        Nat.lt_irrefl, Nat.sub_self, List.set_cons_zero, Nat.add_assoc, Nat.reduceAdd,
        pure_run, hpt, hz, link_trailer, update_node, List.getElem?_set_self hzlt, List.set_set,
        not_true_eq_false, hx1, reduceCtorEq]
  | true =>
    simp only [if_true] at hname ht0ty
    subst hname
    have e1 := consume_token_next
      ({ tokens := toks, curr := cur, prev := prev, msgs := msgs,
         heap := H, error_node := en, results := res } : OnyxParser) tn htn hsym
    have e2 := expect_token_next
      ({ tokens := toks, curr := cur + 1, prev := some (cur : Int), msgs := msgs,
         heap := H, error_node := en, results := res } : OnyxParser) tn tc Token_Type_Symbol
      htn htnty htc hcolon
    have hcomma : t0.type = ascii ',' := ht0ty
    have hcp : ¬ (ascii ',' = ascii ')') := by decide
    rcases htr with rfl | ⟨m, rfl, hm⟩
    · simp only [bind_run, curr_type, ht0, hne, hcomma, ne_eq, not_false_eq_true, if_true, if_false,
        e1, e2, e3, hcp, make_node_run, modify_node, List.getElem?_concat_length, List.set_append,
        Nat.lt_irrefl, Nat.sub_self, List.set_cons_zero, Nat.add_assoc, Nat.reduceAdd,
        pure_run, hpt, hz, link_trailer, update_node, List.getElem?_set_self hzlt, List.set_set,
        not_true_eq_false]
    · obtain ⟨x, hx⟩ : ∃ x, stop.heap[m]? = some x :=
        ⟨_, List.getElem?_eq_getElem (by omega)⟩
      have hx1 : ∀ q, (stop.heap.set H.length q)[m]? = some x := by
        intro q
        rw [List.getElem?_set_ne (by omega)]
        exact hx
      simp only [bind_run, curr_type, ht0, hne, hcomma, ne_eq, not_false_eq_true, if_true, if_false,
        e1, e2, e3, hcp, make_node_run, modify_node, List.getElem?_concat_length, List.set_append,
        Nat.lt_irrefl, Nat.sub_self, List.set_cons_zero, Nat.add_assoc, Nat.reduceAdd,
        pure_run, hpt, hz, link_trailer, update_node, List.getElem?_set_self hzlt, List.set_set,
        not_true_eq_false, hx1, reduceCtorEq]

theorem map_type_some {l : List OnyxToken} {i : Nat} {ty : TokenType}
    (h : (l[i]?).map (fun t => t.type) = some ty) : ∃ t, l[i]? = some t ∧ t.type = ty := by
  cases ht : l[i]? with
  | none => rw [ht] at h; exact Option.noConfusion h
  | some t =>
    rw [ht] at h
    simp only [Option.map_some', Option.some.injEq] at h
    exact ⟨t, rfl, h⟩

theorem update_node_length (H : List AstNode) (i : Nat) (f : AstNode → AstNode) :
    (update_node H i f).length = H.length := by
  unfold update_node
  split
  · exact List.length_set _ _ _
  · rfl

theorem link_trailer_length (H : List AstNode) (tr : NodePtr) (a : Nat) :
    (link_trailer H tr a).length = H.length := by
  unfold link_trailer
  split
  · exact update_node_length _ _ _
  · rfl

theorem linked_length (p : ParamUse) (L : OnyxParser) (tr : NodePtr) :
    (p.linked L tr).heap.length = p.stop.heap.length := by
  show (link_trailer _ _ _).length = _
  rw [link_trailer_length, update_node_length]

/-- The loop of `parse_function_params` on a sequence of parameters: it returns the first
Param node in the state `param_exit`. -/
theorem params_loop (fuel : Nat) (ps : List ParamUse) :
    ∀ (first tr : NodePtr) (L : OnyxParser),
      (tr = NodePtr.null ∨ ∃ m, tr = NodePtr.node m ∧ m < L.heap.length) →
      param_uses fuel tr L ps →
      ((param_exit tr L ps).tokens[(param_exit tr L ps).curr]?).map (fun t => t.type)
        = some (ascii ')') →
      parse_function_params_loop (fuel + ps.length + 1) first tr L
        = Res.ok (if first = NodePtr.null then first_param L ps else first)
            (param_exit tr L ps) := by
  induction ps with
  | nil =>
    intro first tr L _ _ hexit
    obtain ⟨t, ht, hty⟩ := map_type_some hexit
    simp only [param_exit] at ht
    simp only [List.length_nil, Nat.add_zero, parse_function_params_loop, bind_run, curr_type, ht,
      hty, ne_eq, not_true_eq_false, if_false, pure_run, param_exit, first_param]
    split
    · rename_i h; rw [h]
    · rfl
  | cons p ps ih =>
    intro first tr L htr huses hexit
    obtain ⟨h0, hname, h1, h2, ⟨t2, ht2, ht2c⟩, hpt, hrest⟩ := huses
    obtain ⟨t0, ht0, ht0ty⟩ := map_type_some h0
    obtain ⟨tn, htn, htnty⟩ := map_type_some h1
    obtain ⟨tc, htc, htcty⟩ := map_type_some h2
    have hpt1 : parse_type (fuel + ps.length + 1) (p.start L) = Res.ok p.type_node p.stop :=
      parse_type_fuel (by omega) hpt
    have e : fuel + (p :: ps).length + 1 = (fuel + ps.length + 1) + 1 := by
      simp only [List.length_cons]; omega
    obtain ⟨hlen, -, -, -⟩ := parse_type_frame _ _ _ _ hpt
    have hlen1 : L.heap.length < p.stop.heap.length := by
      have : (p.start L).heap.length = L.heap.length + 1 := by
        simp [ParamUse.start]
      omega
    rw [e, params_step (fuel + ps.length + 1) first tr L p.stop p.comma p.name p.type_node
      t0 tn tc t2 ht0 ht0ty hname htn htnty htc htcty ht2 ht2c hpt1 htr]
    have hih := ih (if first = NodePtr.null then NodePtr.node L.heap.length else first)
      (NodePtr.node L.heap.length) (p.linked L tr)
      (Or.inr ⟨_, rfl, by rw [linked_length]; exact hlen1⟩) hrest hexit
    have hne : (if first = NodePtr.null then NodePtr.node L.heap.length else first)
        ≠ NodePtr.null := by
      split
      · exact fun h => NodePtr.noConfusion h
      · assumption
    rw [if_neg hne] at hih
    exact hih

theorem update_node_self {H : List AstNode} {i : Nat} {n : AstNode} (f : AstNode → AstNode)
    (h : H[i]? = some n) : (update_node H i f)[i]? = some (f n) := by
  rw [update_node_eq f h, List.getElem?_set_self (getElem?_lt_length h)]

theorem update_node_ne (H : List AstNode) {i j : Nat} (f : AstNode → AstNode) (h : i ≠ j) :
    (update_node H i f)[j]? = H[j]? := by
  unfold update_node
  split
  · exact List.getElem?_set_ne h
  · rfl

/-- The arena at a loop head of `parse_function_params` after one parameter. -/
theorem linked_cells (fuel : Nat) (p : ParamUse) (L : OnyxParser) (tr : NodePtr)
    (hpt : parse_type fuel (p.start L) = Res.ok p.type_node p.stop)
    (htr : tr = NodePtr.null ∨ ∃ m, tr = NodePtr.node m ∧ m < L.heap.length) :
    (p.linked L tr).heap[L.heap.length]?
      = some { param_cell p.name with type_node := p.type_node, next := NodePtr.null } ∧
    (∀ m x, tr = NodePtr.node m → L.heap[m]? = some x →
      (p.linked L tr).heap[m]? = some { x with next := NodePtr.node L.heap.length }) ∧
    (∀ i, i < L.heap.length → tr ≠ NodePtr.node i → (p.linked L tr).heap[i]? = L.heap[i]?) ∧
    (p.linked L tr).tokens = L.tokens ∧ (p.linked L tr).error_node = L.error_node ∧
    L.heap.length < (p.linked L tr).heap.length := by
  obtain ⟨hlen, hfr, htok, -⟩ := parse_type_frame _ _ _ _ hpt
  have herr := parse_type_error_node _ _ _ _ hpt
  have hstart : (p.start L).heap = L.heap ++ [param_cell p.name] := rfl
  rw [hstart] at hlen hfr
  simp only [List.length_append, List.length_singleton] at hlen hfr
  have hz : p.stop.heap[L.heap.length]? = some (param_cell p.name) := by
    rw [hfr _ (Nat.lt_succ_self _)]
    exact List.getElem?_concat_length _ _
  have hlow : ∀ i, i < L.heap.length → p.stop.heap[i]? = L.heap[i]? := by
    intro i hi
    rw [hfr i (by omega), List.getElem?_append_left hi]
  have hheap : (p.linked L tr).heap = link_trailer
      (update_node p.stop.heap L.heap.length
        (fun n => { n with type_node := p.type_node, next := NodePtr.null })) tr L.heap.length :=
    rfl
  refine ⟨?_, ?_, ?_, htok, herr, by rw [linked_length]; omega⟩
  · rw [hheap]
    rcases htr with rfl | ⟨m, rfl, hm⟩
    · exact update_node_self _ hz
    · show (update_node _ m _)[L.heap.length]? = _
      rw [update_node_ne _ _ (by omega)]
      exact update_node_self _ hz
  · intro m x hm hx
    subst hm
    have hmlt := getElem?_lt_length hx
    rw [hheap]
    show (update_node _ m _)[m]? = _
    have h1 : (update_node p.stop.heap L.heap.length
        (fun n => { n with type_node := p.type_node, next := NodePtr.null }))[m]? = some x := by
      rw [update_node_ne _ _ (by omega), hlow m hmlt, hx]
    exact update_node_self _ h1
  · intro i hi hne
    rw [hheap]
    have h1 : (update_node p.stop.heap L.heap.length
        (fun n => { n with type_node := p.type_node, next := NodePtr.null }))[i]? = L.heap[i]? := by
      rw [update_node_ne _ _ (by omega), hlow i hi]
    cases tr with
    | node m =>
      show (update_node _ m _)[i]? = _
      rw [update_node_ne _ _ (fun h => hne (by rw [h])), h1]
    | null => exact h1
    | error_node => exact h1
    | basic k => exact h1

theorem chained_congr (H H' : List AstNode) :
    ∀ (l : List (Nat × ParamView)) (p : NodePtr), chained H p l →
      (∀ a ∈ l.map Prod.fst, H'[a]? = H[a]?) → chained H' p l := by
  intro l
  induction l with
  | nil => intro p h _; exact h
  | cons c rest ih =>
    intro p h hsame
    obtain ⟨a, v⟩ := c
    obtain ⟨hp, n, hn, hk, ht, hty, hrest⟩ := h
    refine ⟨hp, n, ?_, hk, ht, hty, ih _ hrest (fun b hb => hsame b (by simp [hb]))⟩
    rw [hsame a (by simp)]
    exact hn

/-- The state at the head of the parameter loop after the parameters `ps`: the arena has
grown, what was there is the same except the `next` field of the trailer, and the Param
nodes of `ps` form a chain from the first of them. -/
theorem param_exit_facts (fuel : Nat) (ps : List ParamUse) :
    ∀ (tr : NodePtr) (L : OnyxParser),
      (tr = NodePtr.null ∨ ∃ m, tr = NodePtr.node m ∧ m < L.heap.length) →
      param_uses fuel tr L ps →
      L.heap.length ≤ (param_exit tr L ps).heap.length ∧
      (param_exit tr L ps).tokens = L.tokens ∧
      (param_exit tr L ps).error_node = L.error_node ∧
      (∀ i, i < L.heap.length → tr ≠ NodePtr.node i →
        (param_exit tr L ps).heap[i]? = L.heap[i]?) ∧
      (∀ m x, tr = NodePtr.node m → L.heap[m]? = some x →
        (param_exit tr L ps).heap[m]?
          = some { x with next := match ps with
                                  | [] => x.next
                                  | _ :: _ => NodePtr.node L.heap.length }) ∧
      ∃ addrs : List Nat, addrs.length = ps.length ∧
        (∀ a ∈ addrs, L.heap.length ≤ a ∧ a < (param_exit tr L ps).heap.length) ∧
        chained (param_exit tr L ps).heap (first_param L ps)
          (addrs.zip (ps.map ParamUse.view)) := by
  induction ps with
  | nil =>
    intro tr L _ _
    refine ⟨le_refl _, rfl, rfl, fun _ _ _ => rfl, fun m x _ hx => hx, [], rfl, ?_, rfl⟩
    intro a ha
    simp at ha
  | cons p ps ih =>
    intro tr L htr huses
    obtain ⟨-, -, -, -, -, hpt, hrest⟩ := huses
    obtain ⟨hcell, htrail, hsame, htok, herr, hlt⟩ := linked_cells fuel p L tr hpt htr
    obtain ⟨h1, h2, h3, h4, h5, addrs, h6, h7, h8⟩ := ih (NodePtr.node L.heap.length)
      (p.linked L tr) (Or.inr ⟨_, rfl, hlt⟩) hrest
    have hE : param_exit tr L (p :: ps)
        = param_exit (NodePtr.node L.heap.length) (p.linked L tr) ps := rfl
    rw [hE]
    have hcellE := h5 _ _ rfl hcell
    refine ⟨by omega, h2.trans htok, h3.trans herr, ?_, ?_, L.heap.length :: addrs, ?_, ?_, ?_⟩
    · intro i hi hne
      rw [h4 i (by omega) (fun h => by injection h with h; omega), hsame i hi hne]
    · intro m x hm hx
      have hmlt := getElem?_lt_length hx
      rw [h4 m (by omega) (fun h => by injection h with h; omega)]
      exact htrail m x hm hx
    · simp only [List.length_cons, h6]
    · intro a ha
      simp only [List.mem_cons] at ha
      rcases ha with rfl | ha
      · exact ⟨le_refl _, by omega⟩
      · have := h7 a ha
        omega
    · show chained _ (NodePtr.node L.heap.length)
        ((L.heap.length, p.view) :: addrs.zip (ps.map ParamUse.view))
      refine ⟨rfl, _, hcellE, rfl, rfl, rfl, ?_⟩
      cases ps with
      | nil => exact h8
      | cons q qs => exact h8

theorem param_uses_fuel {n m : Nat} (hnm : n ≤ m) (ps : List ParamUse) :
    ∀ (tr : NodePtr) (L : OnyxParser), param_uses n tr L ps → param_uses m tr L ps := by
  induction ps with
  | nil => intro _ _ _; trivial
  | cons p ps ih =>
    intro tr L h
    obtain ⟨h0, h1, h2, h3, h4, hpt, hrest⟩ := h
    exact ⟨h0, h1, h2, h3, h4, parse_type_fuel hnm hpt, ih _ _ hrest⟩

/-- The function `parse_function_params` on a parenthesized sequence of parameters. -/
theorem params_run (fuel F : Nat) (s : OnyxParser) (ps : List ParamUse)
    (hF : fuel + ps.length + 1 ≤ F)
    (hopen : (s.tokens[s.curr]?).map (fun t => t.type) = some (ascii '('))
    (hps : param_uses fuel NodePtr.null (paren_state s) ps)
    (hclose : ((param_exit NodePtr.null (paren_state s) ps).tokens[
        (param_exit NodePtr.null (paren_state s) ps).curr]?).map (fun t => t.type)
      = some (ascii ')'))
    (hafter : ∃ t, (param_exit NodePtr.null (paren_state s) ps).tokens[
        (param_exit NodePtr.null (paren_state s) ps).curr + 1]? = some t
      ∧ t.type ≠ Token_Type_Comment) :
    parse_function_params F s
      = Res.ok (first_param (paren_state s) ps)
          (paren_state (param_exit NodePtr.null (paren_state s) ps)) := by
  obtain ⟨t, ht, hty⟩ := map_type_some hopen
  obtain ⟨tc, htc, htcty⟩ := map_type_some hclose
  obtain ⟨ta, hta, htac⟩ := hafter
  have hcc : tc.type ≠ Token_Type_Comment := by rw [htcty]; decide
  have hpar : ¬ (ascii '(' ≠ ascii '(') := by simp
  cases ps with
  | nil =>
    simp only [param_exit] at htc hta
    have htc0 : s.tokens[s.curr + 1]? = some tc := htc
    have e1 := expect_token_next s t tc (ascii '(') ht hty htc0 hcc
    have e2 := consume_token_next (paren_state s) ta hta htac
    have e0 := curr_type_run (paren_state s) tc htc
    simp only [paren_state] at e0 e2
    simp only [parse_function_params, bind_run, curr_type_run s t ht, hty, hpar, if_false, e1, e0,
      htcty, if_true, e2, pure_run, first_param, param_exit, paren_state]
  | cons p ps =>
    have h0 := hps.1
    obtain ⟨t1, ht1, ht1ty⟩ := map_type_some h0
    have ht10 : s.tokens[s.curr + 1]? = some t1 := ht1
    have ht1c : t1.type ≠ Token_Type_Comment := by
      rw [ht1ty]; cases p.comma <;> decide
    have ht1p : ¬ (t1.type = ascii ')') := by
      rw [ht1ty]; cases p.comma <;> decide
    have e1 := expect_token_next s t t1 (ascii '(') ht hty ht10 ht1c
    have e0 := curr_type_run (paren_state s) t1 ht1
    obtain ⟨k, hk⟩ : ∃ k, F = k + (p :: ps).length + 1 := ⟨F - (p :: ps).length - 1, by omega⟩
    have hloop := params_loop k (p :: ps) NodePtr.null NodePtr.null (paren_state s) (Or.inl rfl)
      (param_uses_fuel (by omega) _ _ _ hps) hclose
    rw [← hk] at hloop
    have e2 := consume_token_next (param_exit NodePtr.null (paren_state s) (p :: ps)) ta hta htac
    simp only [paren_state] at e0 hloop e2
    simp only [parse_function_params, bind_run, curr_type_run s t ht, hty, hpar, if_false, e1, e0,
      ht1p, hloop, if_true, e2, pure_run, paren_state]

theorem read_params_of_chained (H : List AstNode) :
    ∀ (l : List (Nat × ParamView)) (p : NodePtr) (F : Nat), chained H p l → l.length < F →
      read_params F H p = some (l.map Prod.snd) := by
  intro l
  induction l with
  | nil =>
    intro p F h hF
    obtain ⟨k, rfl⟩ : ∃ k, F = k + 1 := ⟨F - 1, by omega⟩
    have hp : p = NodePtr.null := h
    subst hp
    rfl
  | cons c rest ih =>
    intro p F h hF
    obtain ⟨a, v⟩ := c
    obtain ⟨hp, n, hn, hk, ht, hty, hrest⟩ := h
    simp only [List.length_cons] at hF
    obtain ⟨k, rfl⟩ : ∃ k, F = k + 1 := ⟨F - 1, by omega⟩
    subst hp
    simp only [read_params, hn, ih _ k hrest (by omega), Option.map_some', List.map_cons, hk,
      ht, hty]

theorem collect_of_chained (s : OnyxParser) :
    ∀ (l : List (Nat × ParamView)) (p : NodePtr) (F : Nat), chained s.heap p l → l.length < F →
      collect_param_types F p s = Res.ok (l.map (fun c => c.2.type_node)) s := by
  intro l
  induction l with
  | nil =>
    intro p F h hF
    obtain ⟨k, rfl⟩ : ∃ k, F = k + 1 := ⟨F - 1, by omega⟩
    have hp : p = NodePtr.null := h
    subst hp
    rfl
  | cons c rest ih =>
    intro p F h hF
    obtain ⟨a, v⟩ := c
    obtain ⟨hp, n, hn, hk, ht, hty, hrest⟩ := h
    simp only [List.length_cons] at hF
    obtain ⟨k, rfl⟩ : ∃ k, F = k + 1 := ⟨F - 1, by omega⟩
    subst hp
    simp only [collect_param_types, reduceCtorEq, if_false, bind_run, read_node, hn,
      ih _ k hrest (by omega), pure_run, List.map_cons, hty]

theorem modify_node_update (s : OnyxParser) (f : Nat) (g : AstNode → AstNode)
    (hf : f < s.heap.length) :
    modify_node (NodePtr.node f) g s = Res.ok () { s with heap := update_node s.heap f g } := by
  have h := List.getElem?_eq_getElem hf
  simp only [modify_node, update_node, h]

/-- The statements that give `return_type` its value: what they leave in place, and the
value in the two cases. -/
theorem return_type_facts (F : Nat) (s R : OnyxParser) (rt : NodePtr)
    (h : parse_return_type F s = Res.ok rt R) :
    s.heap.length ≤ R.heap.length ∧ (∀ i, i < s.heap.length → R.heap[i]? = s.heap[i]?) ∧
    R.error_node = s.error_node ∧
    ((s.tokens[s.curr]?).map (fun t => t.type) ≠ some Token_Type_Right_Arrow →
      rt = NodePtr.basic Basic_Kind_Void) ∧
    ((s.tokens[s.curr]?).map (fun t => t.type) = some Token_Type_Right_Arrow →
      ∃ tok mid, expect_token Token_Type_Right_Arrow s = Res.ok tok mid ∧
        parse_type F mid = Res.ok rt R) := by
  unfold parse_return_type at h
  obtain ⟨ty, s1, h1, h2⟩ := bind_ok.1 h
  obtain ⟨rfl, t, ht, hty⟩ := curr_type_ok h1
  rw [ite_run] at h2
  split_ifs at h2 with harrow
  · obtain ⟨tok, mid, h3, h4⟩ := bind_ok.1 h2
    obtain ⟨hl1, hfr1, -, -⟩ := (good_expect_token id s1.heap.length _).run s1 tok mid
      (le_refl _) h3
    have he1 := (keeps_expect_token _).run s1 tok mid h3
    obtain ⟨hl2, hfr2, -, -⟩ := parse_type_frame _ _ _ _ h4
    have he2 := parse_type_error_node _ _ _ _ h4
    refine ⟨by omega, fun i hi => ?_, he2.trans he1, ?_, fun _ => ⟨tok, mid, h3, h4⟩⟩
    · rw [hfr2 i (by omega)]
      have := hfr1 i hi
      simpa using this
    · intro hne
      exact absurd (by rw [ht, Option.map_some', hty, harrow]) hne
  · simp only [pure_run, Res.ok.injEq] at h2
    obtain ⟨rfl, rfl⟩ := h2
    refine ⟨le_refl _, fun _ _ => rfl, rfl, fun _ => rfl, fun heq => ?_⟩
    rw [ht, Option.map_some', hty] at heq
    injection heq with heq
    exact absurd heq harrow

end Onyx
namespace Onyx

open TokenType AstKind BinaryOp UnaryOp BasicKind OnyxMessageType

theorem map_snd_zip_views (addrs : List Nat) (vs : List ParamView)
    (h : addrs.length = vs.length) : (addrs.zip vs).map Prod.snd = vs := by
  induction addrs generalizing vs with
  | nil =>
    cases vs with
    | nil => rfl
    | cons v vs => simp at h
  | cons a addrs ih =>
    cases vs with
    | nil => simp at h
    | cons v vs =>
      simp only [List.length_cons, Nat.add_right_cancel_iff] at h
      simp only [List.zip_cons_cons, List.map_cons, ih vs h]

theorem map_fst_zip_views (addrs : List Nat) (vs : List ParamView)
    (h : addrs.length = vs.length) : (addrs.zip vs).map Prod.fst = addrs := by
  induction addrs generalizing vs with
  | nil => rfl
  | cons a addrs ih =>
    cases vs with
    | nil => simp at h
    | cons v vs =>
      simp only [List.length_cons, Nat.add_right_cancel_iff] at h
      simp only [List.zip_cons_cons, List.map_cons, ih vs h]

/-- The statements of `parse_function_definition` after the directive loop, on a
parenthesized sequence of parameters: in the state in which they end, the Param nodes are
chained from `params` and the FunctionType holds their type nodes and the return type. -/
theorem function_rest_facts (fuel F f : Nat) (s S : OnyxParser) (ps : List ParamUse)
    (hF : fuel + ps.length + 1 ≤ F) (hf : f < s.heap.length)
    (hopen : (s.tokens[s.curr]?).map (fun t => t.type) = some (ascii '('))
    (hps : param_uses fuel NodePtr.null (paren_state s) ps)
    (hclose : ((param_exit NodePtr.null (paren_state s) ps).tokens[
        (param_exit NodePtr.null (paren_state s) ps).curr]?).map (fun t => t.type)
      = some (ascii ')'))
    (hafter : ∃ t, (param_exit NodePtr.null (paren_state s) ps).tokens[
        (param_exit NodePtr.null (paren_state s) ps).curr + 1]? = some t
      ∧ t.type ≠ Token_Type_Comment)
    (herr : s.error_node.next = NodePtr.null)
    (hrest : parse_function_rest F (NodePtr.node f) s = Res.ok () S) :
    ∃ (nf ft : AstNode) (a : Nat) (R : OnyxParser),
      S.heap[f]? = some nf ∧ nf.params = first_param (paren_state s) ps ∧
      read_params (ps.length + 1) S.heap nf.params = some (ps.map ParamUse.view) ∧
      nf.type_node = NodePtr.node a ∧ S.heap[a]? = some ft ∧
      ft.kind = Ast_Kind_Function_Type ∧ ft.param_count = ps.length ∧
      ft.type_params = ps.map (fun p => p.type_node) ∧
      parse_return_type F
        (with_params (paren_state (param_exit NodePtr.null (paren_state s) ps)) f
          (first_param (paren_state s) ps))
        = Res.ok ft.return_type R := by
  obtain ⟨hE1, -, hE3, hE4, -, addrs, hA1, hA2, hA3⟩ :=
    param_exit_facts fuel ps NodePtr.null (paren_state s) (Or.inl rfl) hps
  have hL : (paren_state s).heap = s.heap := rfl
  have hLe : (paren_state s).error_node = s.error_node := rfl
  rw [hL] at hE1 hE4 hA2
  rw [hLe] at hE3
  generalize hEdef : param_exit NodePtr.null (paren_state s) ps = E at *
  generalize hfirst : first_param (paren_state s) ps = first at *
  have hprun := params_run fuel F s ps hF hopen hps (hEdef ▸ hclose) (hEdef ▸ hafter)
  rw [hEdef, hfirst] at hprun
  unfold parse_function_rest at hrest
  obtain ⟨params, P1, h1, hrest⟩ := bind_ok.1 hrest
  rw [hprun] at h1
  injection h1 with h1a h1b
  subst h1a h1b
  obtain ⟨u, P2, h2, hrest⟩ := bind_ok.1 hrest
  have hfE : f < E.heap.length := by omega
  rw [modify_node_update _ f _ (by exact hfE)] at h2
  injection h2 with _ h2
  have hP2 : P2 = with_params (paren_state E) f first := h2.symm
  obtain ⟨ty, P2', h3, hrest⟩ := bind_ok.1 hrest
  obtain ⟨rt, R, h4, hrest⟩ := bind_ok.1 hrest
  have hret : parse_return_type F P2 = Res.ok rt R := by
    simp only [parse_return_type, bind_run, h3, h4]
  obtain ⟨hR1, hR2, hR3, -, -⟩ := return_type_facts F P2 R rt hret
  have hP2len : P2.heap.length = E.heap.length := by
    rw [hP2]; exact update_node_length _ _ _
  have hP2ne : ∀ i, i ≠ f → P2.heap[i]? = E.heap[i]? := by
    intro i hi
    rw [hP2]
    exact update_node_ne _ _ (Ne.symm hi)
  have hP2err : P2.error_node = s.error_node := by rw [hP2]; exact hE3
  obtain ⟨x, hx⟩ : ∃ x, P2.heap[f]? = some x := ⟨_, List.getElem?_eq_getElem (by omega)⟩
  have hxp : x.params = first := by
    have h0 := List.getElem?_eq_getElem hfE
    have : P2.heap[f]? = some { E.heap[f] with params := first } := by
      rw [hP2]
      exact update_node_self _ h0
    rw [hx] at this
    injection this with this
    rw [this]
  have hRx : R.heap[f]? = some x := by rw [hR2 f (by omega), hx]
  -- the chain in the state R
  have hzip := map_fst_zip_views addrs (ps.map ParamUse.view) (by rw [hA1, List.length_map])
  have hchainR : chained R.heap first (addrs.zip (ps.map ParamUse.view)) := by
    apply chained_congr E.heap R.heap _ _ hA3
    intro a ha
    rw [hzip] at ha
    have := hA2 a ha
    rw [hR2 a (by omega), hP2ne a (by omega)]
  have hziplen : (addrs.zip (ps.map ParamUse.view)).length = ps.length := by
    rw [List.length_zip, hA1, List.length_map, Nat.min_self]
  obtain ⟨pts, R1, h5, hrest⟩ := bind_ok.1 hrest
  rw [collect_of_chained R _ first F hchainR (by rw [hziplen]; omega)] at h5
  injection h5 with h5a h5b
  subst h5a h5b
  obtain ⟨tn, R2, h6, hrest⟩ := bind_ok.1 hrest
  simp only [make_function_type, Res.ok.injEq] at h6
  obtain ⟨h6a, h6b⟩ := h6
  obtain ⟨u1, B0, h7, hrest⟩ := bind_ok.1 hrest
  have hR2len : R2.heap.length = R.heap.length + 1 := by
    rw [← h6b]; simp
  have hfR2 : f < R2.heap.length := by omega
  rw [← h6a, modify_node_update _ f _ hfR2] at h7
  injection h7 with _ h7
  obtain ⟨body, B1, h8, h9⟩ := bind_ok.1 hrest
  have hB0len : B0.heap.length = R.heap.length + 1 := by
    rw [← h7]; simp only [update_node_length, hR2len]
  have hB0err : B0.error_node.next = NodePtr.null := by
    rw [← h7, ← h6b]
    show R.error_node.next = _
    rw [hR3, hP2err, herr]
  have hclosed : Closed B0.heap.length B0 := by
    refine ⟨fun j n hn hj => ?_, ?_⟩
    · have := getElem?_lt_length hn
      omega
    · rw [hB0err]; exact safe_ptr_null _
  obtain ⟨hB1, hB2, -, -⟩ := (tight_parse_block B0.heap.length F).run B0 body B1 (le_refl _)
    hclosed h8
  have hfB1 : f < B1.heap.length := by omega
  rw [modify_node_update _ f _ hfB1] at h9
  injection h9 with _ h9
  -- the arena of the final state
  have hB0ne : ∀ i, i ≠ f → B0.heap[i]? = R2.heap[i]? := by
    intro i hi
    rw [← h7]
    exact update_node_ne _ _ (Ne.symm hi)
  have hSne : ∀ i, i ≠ f → i < R.heap.length + 1 → S.heap[i]? = R2.heap[i]? := by
    intro i hi hlt
    rw [← h9]
    show (update_node B1.heap f _)[i]? = _
    rw [update_node_ne _ _ (Ne.symm hi), hB2 i (by omega), hB0ne i hi]
  have hR2low : ∀ i, i < R.heap.length → R2.heap[i]? = R.heap[i]? := by
    intro i hi
    rw [← h6b]
    exact List.getElem?_append_left hi
  have hR2f : R2.heap[f]? = some x := by rw [hR2low f (by omega), hRx]
  have hB0f : B0.heap[f]? = some { x with type_node := NodePtr.node R.heap.length } := by
    rw [← h7]
    exact update_node_self _ hR2f
  have hB1f : B1.heap[f]? = some { x with type_node := NodePtr.node R.heap.length } := by
    rw [hB2 f (by omega), hB0f]
  have hSf : S.heap[f]?
      = some { x with type_node := NodePtr.node R.heap.length, body := body } := by
    rw [← h9]
    exact update_node_self _ hB1f
  have hSft : S.heap[R.heap.length]? = some (function_type_cell
      (List.map (fun c => c.2.type_node) (addrs.zip (ps.map ParamUse.view))) rt) := by
    rw [hSne _ (by omega) (by omega), ← h6b]
    exact List.getElem?_concat_length _ _
  have hchainS : chained S.heap first (addrs.zip (ps.map ParamUse.view)) := by
    apply chained_congr R.heap S.heap _ _ hchainR
    intro a ha
    rw [hzip] at ha
    have := hA2 a ha
    rw [hSne a (by omega) (by omega), hR2low a (by omega)]
  have hpts : List.map (fun c => c.2.type_node) (addrs.zip (ps.map ParamUse.view))
      = ps.map (fun p => p.type_node) := by
    have h0 : List.map (fun c => c.2.type_node) (addrs.zip (ps.map ParamUse.view))
        = ((addrs.zip (ps.map ParamUse.view)).map Prod.snd).map (fun v => v.type_node) := by
      rw [List.map_map]; rfl
    rw [h0, map_snd_zip_views _ _ (by rw [hA1, List.length_map]), List.map_map]
    rfl
  refine ⟨_, _, R.heap.length, R, hSf, hxp, ?_, rfl, hSft, rfl, ?_, hpts, ?_⟩
  · show read_params (ps.length + 1) S.heap x.params = _
    rw [hxp, read_params_of_chained S.heap _ first _ hchainS (by rw [hziplen]; omega),
      map_snd_zip_views _ _ (by rw [hA1, List.length_map])]
  · show (List.map _ _).length = _
    rw [hpts, List.length_map]
  · rw [← hP2]
    exact hret

theorem bind_eq_of_run {α β : Type} {m : P α} {f : α → P β} {s s1 : OnyxParser} {a : α}
    (h : m s = Res.ok a s1) : (m >>= f) s = f a s1 := by
  simp only [bind_run, h]

theorem parse_return_type_fuel {n m : Nat} (hnm : n ≤ m) {s s' : OnyxParser} {r : NodePtr}
    (h : parse_return_type n s = Res.ok r s') : parse_return_type m s = Res.ok r s' := by
  unfold parse_return_type at h ⊢
  obtain ⟨ty, s1, h1, h2⟩ := bind_ok.1 h
  rw [bind_eq_of_run h1]
  rw [ite_run] at h2 ⊢
  split_ifs at h2 ⊢
  · obtain ⟨tok, mid, h3, h4⟩ := bind_ok.1 h2
    rw [bind_eq_of_run h3]
    exact parse_type_fuel hnm h4
  · exact h2

/-- The parameter chain in the state in which the return type has been read. -/
theorem chain_at_return (fuel F f : Nat) (s R : OnyxParser) (ps : List ParamUse) (rt : NodePtr)
    (hf : f < s.heap.length)
    (hps : param_uses fuel NodePtr.null (paren_state s) ps)
    (hret : parse_return_type F
      (with_params (paren_state (param_exit NodePtr.null (paren_state s) ps)) f
        (first_param (paren_state s) ps)) = Res.ok rt R) :
    ∃ l : List (Nat × ParamView), l.length = ps.length ∧
      l.map (fun c => c.2.type_node) = ps.map (fun p => p.type_node) ∧
      chained R.heap (first_param (paren_state s) ps) l := by
  obtain ⟨hE1, -, -, -, -, addrs, hA1, hA2, hA3⟩ :=
    param_exit_facts fuel ps NodePtr.null (paren_state s) (Or.inl rfl) hps
  have hL : (paren_state s).heap = s.heap := rfl
  rw [hL] at hE1 hA2
  obtain ⟨-, hR2, -, -, -⟩ := return_type_facts F _ R rt hret
  have hzip := map_fst_zip_views addrs (ps.map ParamUse.view) (by rw [hA1, List.length_map])
  refine ⟨addrs.zip (ps.map ParamUse.view), ?_, ?_, ?_⟩
  · rw [List.length_zip, hA1, List.length_map, Nat.min_self]
  · have h0 : List.map (fun c => c.2.type_node) (addrs.zip (ps.map ParamUse.view))
        = ((addrs.zip (ps.map ParamUse.view)).map Prod.snd).map (fun v => v.type_node) := by
      rw [List.map_map]; rfl
    rw [h0, map_snd_zip_views _ _ (by rw [hA1, List.length_map]), List.map_map]
    rfl
  · apply chained_congr _ R.heap _ _ hA3
    intro a ha
    rw [hzip] at ha
    have := hA2 a ha
    have hlen : (with_params (paren_state (param_exit NodePtr.null (paren_state s) ps)) f
        (first_param (paren_state s) ps)).heap.length
          = (param_exit NodePtr.null (paren_state s) ps).heap.length :=
      update_node_length _ _ _
    rw [hR2 a (by rw [hlen]; omega)]
    exact update_node_ne _ _ (by omega)

/-- The statements of `parse_function_definition` after the directive loop, on a
parenthesized sequence of parameters, given the runs of the sub-parsers. -/
theorem function_rest_run (fuel F f : Nat) (s R B : OnyxParser) (ps : List ParamUse)
    (rt body : NodePtr)
    (hF : fuel + ps.length + 1 ≤ F) (hf : f < s.heap.length)
    (hopen : (s.tokens[s.curr]?).map (fun t => t.type) = some (ascii '('))
    (hps : param_uses fuel NodePtr.null (paren_state s) ps)
    (hclose : ((param_exit NodePtr.null (paren_state s) ps).tokens[
        (param_exit NodePtr.null (paren_state s) ps).curr]?).map (fun t => t.type)
      = some (ascii ')'))
    (hafter : ∃ t, (param_exit NodePtr.null (paren_state s) ps).tokens[
        (param_exit NodePtr.null (paren_state s) ps).curr + 1]? = some t
      ∧ t.type ≠ Token_Type_Comment)
    (hret : parse_return_type fuel
      (with_params (paren_state (param_exit NodePtr.null (paren_state s) ps)) f
        (first_param (paren_state s) ps)) = Res.ok rt R)
    (hbody : parse_block fuel (function_typed R f (ps.map (fun p => p.type_node)) rt)
      = Res.ok body B) :
    parse_function_rest F (NodePtr.node f) s = Res.ok () (with_body B f body) := by
  have hret1 := parse_return_type_fuel (show fuel ≤ F by omega) hret
  obtain ⟨l, hl1, hl2, hl3⟩ := chain_at_return fuel F f s R ps rt hf hps hret1
  obtain ⟨hE1, -, -, -, -, -⟩ :=
    param_exit_facts fuel ps NodePtr.null (paren_state s) (Or.inl rfl) hps
  have hL : (paren_state s).heap = s.heap := rfl
  rw [hL] at hE1
  obtain ⟨hR1, -, -, -, -⟩ := return_type_facts F _ R rt hret1
  have hP2len : (with_params (paren_state (param_exit NodePtr.null (paren_state s) ps)) f
      (first_param (paren_state s) ps)).heap.length
        = (param_exit NodePtr.null (paren_state s) ps).heap.length :=
    update_node_length _ _ _
  rw [hP2len] at hR1
  obtain ⟨hB1, -, -, -⟩ := (good_parse_block 0 fuel).run _ body B (Nat.zero_le _) hbody
  have hBlen : (function_typed R f (ps.map (fun p => p.type_node)) rt).heap.length
      = R.heap.length + 1 := by
    show (update_node _ _ _).length = _
    rw [update_node_length]; simp
  rw [hBlen] at hB1
  have hprun := params_run fuel F s ps hF hopen hps hclose hafter
  have hmod1 : modify_node (NodePtr.node f)
      (fun n => { n with params := first_param (paren_state s) ps })
      (paren_state (param_exit NodePtr.null (paren_state s) ps))
      = Res.ok () (with_params (paren_state (param_exit NodePtr.null (paren_state s) ps)) f
          (first_param (paren_state s) ps)) :=
    modify_node_update (paren_state (param_exit NodePtr.null (paren_state s) ps)) f
      (fun n => { n with params := first_param (paren_state s) ps })
      (show f < (param_exit NodePtr.null (paren_state s) ps).heap.length by omega)
  have hcollect := collect_of_chained R l (first_param (paren_state s) ps) F hl3
    (by rw [hl1]; omega)
  rw [hl2] at hcollect
  have hmk : make_function_type (ps.map (fun p => p.type_node)) rt R
      = Res.ok (NodePtr.node R.heap.length)
          { R with heap := R.heap ++ [function_type_cell (ps.map (fun p => p.type_node)) rt] } :=
    rfl
  have hmod2 : modify_node (NodePtr.node f)
      (fun n => { n with type_node := NodePtr.node R.heap.length })
      ({ R with heap := R.heap ++ [function_type_cell (ps.map (fun p => p.type_node)) rt] } :
        OnyxParser)
      = Res.ok () (function_typed R f (ps.map (fun p => p.type_node)) rt) :=
    modify_node_update
      ({ R with heap := R.heap ++ [function_type_cell (ps.map (fun p => p.type_node)) rt] } :
        OnyxParser) f
      (fun n => { n with type_node := NodePtr.node R.heap.length })
      (by simp only [List.length_append, List.length_singleton]; omega)
  have hbody1 := parse_block_fuel (show fuel ≤ F by omega) hbody
  have hmod3 : modify_node (NodePtr.node f) (fun n => { n with body := body }) B
      = Res.ok () (with_body B f body) :=
    modify_node_update B f (fun n => { n with body := body }) (by omega)
  unfold parse_return_type at hret1
  obtain ⟨ty, P2', h3, h4⟩ := bind_ok.1 hret1
  unfold parse_function_rest
  rw [bind_eq_of_run hprun, bind_eq_of_run hmod1, bind_eq_of_run h3, bind_eq_of_run h4,
    bind_eq_of_run hcollect, bind_eq_of_run hmk, bind_eq_of_run hmod2, bind_eq_of_run hbody1]
  exact hmod3

/-- The cursor and the static error node in the state after a directive loop. -/
theorem after_directives_cursor (s : OnyxParser) (f : Nat) (ds : List DirectiveUse)
    (n : AstNode) :
    (after_directives s f ds n).curr = s.curr + (directive_tokens ds).length
    ∧ (after_directives s f ds n).error_node = s.error_node := by
  cases ds with
  | nil => exact ⟨rfl, rfl⟩
  | cons d ds => exact ⟨rfl, rfl⟩

/-- C11: `parse_function_definition` on `proc`, recognized directives and a parenthesized
parameter list `(p1: T1, ..., pn: Tn)`, given the runs of `parse_type` on the parameter types
and on the return type and the run of `parse_block` on the body, returns the Function node
in a state in which: walking `next` from `params` meets exactly the `n` Param nodes in
declaration order, each with its name token and the type node that `parse_type` returned
for it; the Function's type node is a FunctionType with `param_count = n` and with the
parameters' type nodes, in order, as `params[]`; its return type is `&basic_type_void`
when the token behind `)` is not `->`, and the result of `parse_type` behind the `->`
otherwise.  The tokens of a parameter follow each other without comments, and the static
error node is not linked into a chain on entry (its `next` is `NULL`, as initialised). -/
theorem function_params_and_type (fuel : Nat) (s R B : OnyxParser) (kw t : OnyxToken)
    (ds : List DirectiveUse) (post : List OnyxToken) (ps : List ParamUse) (rt body : NodePtr)
    (htoks : s.tokens.drop s.curr = kw :: (directive_tokens ds ++ t :: post))
    (hkw : kw.type = Token_Type_Keyword_Proc)
    (hds : ∀ d ∈ ds, d.of_function = true)
    (hopen : t.type = ascii '(')
    (hps : param_uses fuel NodePtr.null (params_start s ds) ps)
    (hclose : ((param_exit NodePtr.null (params_start s ds) ps).tokens[
        (param_exit NodePtr.null (params_start s ds) ps).curr]?).map (fun t => t.type)
      = some (ascii ')'))
    (hafter : ∃ t, (param_exit NodePtr.null (params_start s ds) ps).tokens[
        (param_exit NodePtr.null (params_start s ds) ps).curr + 1]? = some t
      ∧ t.type ≠ Token_Type_Comment)
    (herr : s.error_node.next = NodePtr.null)
    (hret : parse_return_type fuel (params_stop s ds ps) = Res.ok rt R)
    (hbody : parse_block fuel
      (function_typed R s.heap.length (ps.map (fun p => p.type_node)) rt) = Res.ok body B) :
    parse_function_definition (fuel + ps.length + ds.length + 1) s
      = Res.ok (NodePtr.node s.heap.length) (with_body B s.heap.length body)
    ∧ ∃ (nf ft : AstNode) (a : Nat),
      (with_body B s.heap.length body).heap[s.heap.length]? = some nf
      ∧ read_params (ps.length + 1) (with_body B s.heap.length body).heap nf.params
          = some (ps.map ParamUse.view)
      ∧ nf.type_node = NodePtr.node a
      ∧ (with_body B s.heap.length body).heap[a]? = some ft
      ∧ ft.kind = Ast_Kind_Function_Type
      ∧ ft.param_count = ps.length
      ∧ ft.type_params = ps.map (fun p => p.type_node)
      ∧ ft.return_type = rt
      ∧ (((params_stop s ds ps).tokens[(params_stop s ds ps).curr]?).map (fun t => t.type)
            ≠ some Token_Type_Right_Arrow → rt = NodePtr.basic Basic_Kind_Void)
      ∧ (((params_stop s ds ps).tokens[(params_stop s ds ps).curr]?).map (fun t => t.type)
            = some Token_Type_Right_Arrow →
          ∃ tok mid, expect_token Token_Type_Right_Arrow (params_stop s ds ps) = Res.ok tok mid
            ∧ parse_type fuel mid = Res.ok rt R) := by
  have ht1 : t.type ≠ ascii '#' := by rw [hopen]; decide
  have ht2 : t.type ≠ Token_Type_Comment := by rw [hopen]; decide
  have ht3 : t.type ≠ Token_Type_Literal_String := by rw [hopen]; decide
  have hcell : (keyword_state s Ast_Kind_Function).heap[s.heap.length]?
      = some { kind := Ast_Kind_Function, token := some s.curr } :=
    List.getElem?_concat_length _ _
  obtain ⟨-, hlen, htk, -, -⟩ := after_directives_node
    (keyword_state s Ast_Kind_Function)
    s.heap.length ds { kind := Ast_Kind_Function, token := some s.curr } hcell
  obtain ⟨hcur, herr2⟩ := after_directives_cursor
    (keyword_state s Ast_Kind_Function)
    s.heap.length ds { kind := Ast_Kind_Function, token := some s.curr }
  have hklen : (keyword_state s Ast_Kind_Function).heap.length = s.heap.length + 1 := by
    simp [keyword_state]
  have hf : s.heap.length < (after_directives (keyword_state s Ast_Kind_Function)
      s.heap.length ds { kind := Ast_Kind_Function, token := some s.curr }).heap.length := by
    rw [hlen, hklen]; omega
  have htok : (after_directives (keyword_state s Ast_Kind_Function)
      s.heap.length ds { kind := Ast_Kind_Function, token := some s.curr }).tokens[
      (after_directives (keyword_state s Ast_Kind_Function)
        s.heap.length ds { kind := Ast_Kind_Function, token := some s.curr }).curr]?
      = some t := by
    rw [htk, hcur]
    show s.tokens[s.curr + 1 + (directive_tokens ds).length]? = some t
    have h1 : s.tokens[s.curr + 1 + (directive_tokens ds).length]?
        = (s.tokens.drop s.curr)[1 + (directive_tokens ds).length]? := by
      rw [List.getElem?_drop, Nat.add_assoc]
    rw [h1, htoks, Nat.add_comm 1, List.getElem?_cons_succ,
      List.getElem?_append_right (le_refl _), Nat.sub_self, List.getElem?_cons_zero]
  have hopen1 : ((after_directives (keyword_state s Ast_Kind_Function)
      s.heap.length ds { kind := Ast_Kind_Function, token := some s.curr }).tokens[
      (after_directives (keyword_state s Ast_Kind_Function)
        s.heap.length ds { kind := Ast_Kind_Function, token := some s.curr }).curr]?).map
      (fun t => t.type) = some (ascii '(') := by
    rw [htok, Option.map_some', hopen]
  have herr1 : (after_directives (keyword_state s Ast_Kind_Function)
      s.heap.length ds { kind := Ast_Kind_Function, token := some s.curr }).error_node.next
      = NodePtr.null := by
    rw [herr2]; exact herr
  have hrest := function_rest_run fuel (fuel + ps.length + ds.length + 1) s.heap.length _ R B ps
    rt body (by omega) hf hopen1 hps hclose hafter hret hbody
  have hdef := (function_definition_run (fuel + ps.length) s _ kw t ds post htoks hkw hds
    ht1 ht2 ht3 hrest).1
  obtain ⟨nf, ft, a, R1, h1, -, h3, h4, h5, h6, h7, h8, h9⟩ := function_rest_facts fuel
    (fuel + ps.length + ds.length + 1) s.heap.length _ _ ps (by omega) hf hopen1 hps hclose
    hafter herr1 hrest
  have hret1 : parse_return_type (fuel + ps.length + ds.length + 1) (params_stop s ds ps)
      = Res.ok rt R := parse_return_type_fuel (by omega) hret
  have h9a : parse_return_type (fuel + ps.length + ds.length + 1) (params_stop s ds ps)
      = Res.ok ft.return_type R1 := h9
  rw [hret1] at h9a
  injection h9a with h9b _
  obtain ⟨-, -, -, hvoid, harrow⟩ := return_type_facts fuel _ R rt hret
  exact ⟨hdef, nf, ft, a, h1, h3, h4, h5, h6, h7, h8, h9b.symm, hvoid, harrow⟩

/-- Witness of C11: `add :: proc (a: i32, b: i32) -> i32 { return a + b; }`, from `proc`
on.  The Function node is at address 0, the Param nodes of `a` and `b` at 1 and 3, their
type nodes at 2 and 4, the return type at 5 and the FunctionType at 6. -/
theorem function_params_and_type_witness :
    ∃ (nf ft : AstNode),
      parse_function_definition 11 add_proc_state
        = Res.ok (NodePtr.node 0) (with_body add_body_state 0 (NodePtr.node 7))
      ∧ (with_body add_body_state 0 (NodePtr.node 7)).heap[0]? = some nf
      ∧ read_params 3 (with_body add_body_state 0 (NodePtr.node 7)).heap nf.params
          = some [{ kind := Ast_Kind_Param, token := some 5, type_node := NodePtr.node 2 },
                  { kind := Ast_Kind_Param, token := some 9, type_node := NodePtr.node 4 }]
      ∧ (∃ a, nf.type_node = NodePtr.node a
          ∧ (with_body add_body_state 0 (NodePtr.node 7)).heap[a]? = some ft)
      ∧ ft.kind = Ast_Kind_Function_Type
      ∧ ft.param_count = 2
      ∧ ft.type_params = [NodePtr.node 2, NodePtr.node 4]
      ∧ ft.return_type = NodePtr.node 5 :=
  match function_params_and_type 8 add_proc_state add_return_state add_body_state
      (plain_token Token_Type_Keyword_Proc 8) (plain_token (ascii '(') 13) []
      (add_stream.drop 5) add_params (NodePtr.node 5) (NodePtr.node 7)
      (by decide) (by decide) (by decide) (by decide)
      (show _ ∧ _ ∧ _ ∧ _ ∧ _ ∧ _ ∧ _ ∧ _ ∧ _ ∧ _ ∧ _ ∧ _ ∧ True from
        ⟨by decide!, by decide!, by decide!, by decide!,
          ⟨⟨Token_Type_Symbol, String.toList "i32", ⟨1, 17⟩⟩, by decide!, by decide⟩, by decide!,
          by decide!, by decide!, by decide!, by decide!,
          ⟨⟨Token_Type_Symbol, String.toList "i32", ⟨1, 25⟩⟩, by decide!, by decide⟩, by decide!,
          trivial⟩)
      (by decide!)
      ⟨plain_token Token_Type_Right_Arrow 30, by decide!, by decide⟩
      (by decide) (by decide!) (by decide!) with
  | ⟨h1, nf, ft, a, h2, h3, h4, h5, h6, h7, h8, h9, _, _⟩ =>
    ⟨nf, ft, h1, h2, h3, ⟨a, h4, h5⟩, h6, h7, h8, h9⟩

end Onyx
namespace Onyx

open debug_type_kind_t debug_type_primitive_kind_t debug_type_modifier_kind_t
  debug_sym_loc_kind_t

/-! ## The cursor of the debug value walker -/

@[simp] theorem dbg_bind_ok {α β : Type} (a : α) (f : α → DbgRes β) :
    (DbgRes.ok a >>= f) = f a := rfl

@[simp] theorem dbg_bind_fault {α β : Type} (e : WalkerFault) (f : α → DbgRes β) :
    (DbgRes.fault e >>= f) = DbgRes.fault e := rfl

@[simp] theorem dbg_pure {α : Type} (a : α) : (pure a : DbgRes α) = DbgRes.ok a := rfl

theorem dbg_bind_eq_ok {α β : Type} (m : DbgRes α) (f : α → DbgRes β) (b : β)
    (h : (m >>= f) = DbgRes.ok b) : ∃ a, m = DbgRes.ok a ∧ f a = DbgRes.ok b := by
  cases m with
  | ok a => exact ⟨a, rfl, h⟩
  | fault e => cases h

/-- The subvalue count reads the type table only. -/
theorem get_subvalues_env (fuel : Nat) (b1 b2 : debug_runtime_value_builder_t)
    (h : b1.info_types = b2.info_types) (t : Nat) :
    get_subvalues_for_type fuel b1 t = get_subvalues_for_type fuel b2 t := by
  induction fuel generalizing t with
  | zero => rfl
  | succ fuel ih =>
    simp only [get_subvalues_for_type, h]
    cases b2.info_types[t]? with
    | none => rfl
    | some ty =>
      simp only []
      cases ty.kind <;> simp only [ih]

/-- More fuel does not change a subvalue count. -/
theorem get_subvalues_fuel (fuel : Nat) (b : debug_runtime_value_builder_t) (t n : Nat)
    (h : get_subvalues_for_type fuel b t = DbgRes.ok n) (extra : Nat) :
    get_subvalues_for_type (fuel + extra) b t = DbgRes.ok n := by
  induction fuel generalizing t with
  | zero => cases h
  | succ fuel ih =>
    have e : fuel + 1 + extra = (fuel + extra) + 1 := by omega
    rw [e]
    simp only [get_subvalues_for_type] at h ⊢
    cases hty : b.info_types[t]? with
    | none => rw [hty] at h; cases h
    | some ty =>
      rw [hty] at h
      simp only [] at h ⊢
      cases hk : ty.kind <;> rw [hk] at h <;> simp only [] at h ⊢ <;>
        first
        | exact h
        | exact ih _ h

/-- A subvalue count is defined only for a type of the table. -/
theorem get_subvalues_in_table (fuel : Nat) (b : debug_runtime_value_builder_t) (t n : Nat)
    (h : get_subvalues_for_type fuel b t = DbgRes.ok n) :
    ∃ ty, b.info_types[t]? = some ty := by
  cases fuel with
  | zero => cases h
  | succ fuel =>
    simp only [get_subvalues_for_type] at h
    cases hty : b.info_types[t]? with
    | none => rw [hty] at h; cases h
    | some ty => exact ⟨ty, rfl⟩

/-- The table of subvalue counts, kind by kind. -/
theorem get_subvalues_table (fuel : Nat) (b : debug_runtime_value_builder_t) (t : Nat)
    (ty : debug_type_info_t) (ht : b.info_types[t]? = some ty) :
    (ty.kind = debug_type_kind_primitive ∨ ty.kind = debug_type_kind_function
        ∨ ty.kind = debug_type_kind_array
        ∨ (ty.kind = debug_type_kind_modifier
            ∧ ty.modifier_kind ≠ debug_type_modifier_kind_pointer) →
      get_subvalues_for_type (fuel + 1) b t = DbgRes.ok 0)
    ∧ (ty.kind = debug_type_kind_modifier
        ∧ ty.modifier_kind = debug_type_modifier_kind_pointer →
      get_subvalues_for_type (fuel + 1) b t = DbgRes.ok 1)
    ∧ (ty.kind = debug_type_kind_structure →
      get_subvalues_for_type (fuel + 1) b t = DbgRes.ok ty.member_count)
    ∧ (ty.kind = debug_type_kind_alias →
      get_subvalues_for_type (fuel + 1) b t = get_subvalues_for_type fuel b ty.aliased_type) := by
  simp only [get_subvalues_for_type, ht]
  refine ⟨?_, ?_, ?_, ?_⟩
  · rintro (h | h | h | ⟨h, hm⟩)
    · simp [h]
    · simp [h]
    · simp [h]
    · simp [h, hm]
  · rintro ⟨h, hm⟩; simp [h, hm]
  · intro h; simp [h]
  · intro h; simp [h]

/-- The function `set_location` in terms of the subvalue count of the type. -/
theorem set_location_run (fuel : Nat) (builder : debug_runtime_value_builder_t)
    (loc_kind : debug_sym_loc_kind_t) (loc type : Nat) (name : List Char) (n : Nat)
    (h : get_subvalues_for_type fuel builder type = DbgRes.ok n) :
    debug_runtime_value_build_set_location fuel builder loc_kind loc type name
      = DbgRes.ok (located builder loc_kind loc type name n) := by
  have e := get_subvalues_env fuel
    { builder with base_loc_kind := loc_kind, base_loc := loc, base_type := type } builder rfl type
  simp only [debug_runtime_value_build_set_location, e, h, dbg_bind_ok, dbg_pure, located]

/-- What `set_location` returns is a located builder. -/
theorem set_location_ok (fuel : Nat) (builder : debug_runtime_value_builder_t)
    (loc_kind : debug_sym_loc_kind_t) (loc type : Nat) (name : List Char)
    (b : debug_runtime_value_builder_t)
    (h : debug_runtime_value_build_set_location fuel builder loc_kind loc type name
      = DbgRes.ok b) :
    ∃ n, get_subvalues_for_type fuel builder type = DbgRes.ok n
      ∧ b = located builder loc_kind loc type name n := by
  have e := get_subvalues_env fuel
    { builder with base_loc_kind := loc_kind, base_loc := loc, base_type := type } builder rfl type
  simp only [debug_runtime_value_build_set_location, e] at h
  obtain ⟨n, hn, hb⟩ := dbg_bind_eq_ok _ _ _ h
  refine ⟨n, hn, ?_⟩
  simp only [dbg_pure, DbgRes.ok.injEq] at hb
  rw [← hb]; rfl

/-- C15: for a type `t` of the table, `set_location(kind, loc, t, name)` returns with
base = (kind, loc, t), iteration = (name, kind, loc, t), `it_index = 0`,
`it_has_children` true exactly when `max_index > 0`, and `max_index` 0 for a primitive,
function, array or non-pointer modifier, 1 for a pointer, `member_count` for a structure,
and for an alias the subvalue count `n` of the aliased type, whenever that count is
defined. -/
theorem set_location_cursor (fuel : Nat) (builder : debug_runtime_value_builder_t)
    (loc_kind : debug_sym_loc_kind_t) (loc t : Nat) (name : List Char)
    (ty : debug_type_info_t) (ht : builder.info_types[t]? = some ty) :
    (ty.kind = debug_type_kind_primitive ∨ ty.kind = debug_type_kind_function
        ∨ ty.kind = debug_type_kind_array
        ∨ (ty.kind = debug_type_kind_modifier
            ∧ ty.modifier_kind ≠ debug_type_modifier_kind_pointer) →
      debug_runtime_value_build_set_location (fuel + 1) builder loc_kind loc t name
        = DbgRes.ok { builder with
            base_loc_kind := loc_kind, base_loc := loc, base_type := t,
            max_index := 0, it_index := 0, it_name := name, it_loc := loc, it_type := t,
            it_loc_kind := loc_kind, it_has_children := false })
    ∧ (ty.kind = debug_type_kind_modifier
        ∧ ty.modifier_kind = debug_type_modifier_kind_pointer →
      debug_runtime_value_build_set_location (fuel + 1) builder loc_kind loc t name
        = DbgRes.ok { builder with
            base_loc_kind := loc_kind, base_loc := loc, base_type := t,
            max_index := 1, it_index := 0, it_name := name, it_loc := loc, it_type := t,
            it_loc_kind := loc_kind, it_has_children := true })
    ∧ (ty.kind = debug_type_kind_structure →
      debug_runtime_value_build_set_location (fuel + 1) builder loc_kind loc t name
        = DbgRes.ok { builder with
            base_loc_kind := loc_kind, base_loc := loc, base_type := t,
            max_index := ty.member_count, it_index := 0, it_name := name, it_loc := loc,
            it_type := t, it_loc_kind := loc_kind,
            it_has_children := decide (ty.member_count > 0) })
    ∧ (ty.kind = debug_type_kind_alias →
      ∀ n, get_subvalues_for_type fuel builder ty.aliased_type = DbgRes.ok n →
      ∀ extra, debug_runtime_value_build_set_location (fuel + 1 + extra) builder loc_kind loc t
          name
        = DbgRes.ok { builder with
            base_loc_kind := loc_kind, base_loc := loc, base_type := t,
            max_index := n, it_index := 0, it_name := name, it_loc := loc, it_type := t,
            it_loc_kind := loc_kind, it_has_children := decide (n > 0) }) := by
  obtain ⟨h0, h1, h2, h3⟩ := get_subvalues_table fuel builder t ty ht
  refine ⟨?_, ?_, ?_, ?_⟩
  · intro h
    rw [set_location_run _ _ _ _ _ _ 0 (h0 h)]; rfl
  · intro h
    rw [set_location_run _ _ _ _ _ _ 1 (h1 h)]; rfl
  · intro h
    rw [set_location_run _ _ _ _ _ _ _ (h2 h)]; rfl
  · intro h n hn extra
    have hh : get_subvalues_for_type (fuel + 1) builder t = DbgRes.ok n := by
      rw [h3 h]; exact hn
    rw [set_location_run _ _ _ _ _ _ _ (get_subvalues_fuel _ _ _ _ hh extra)]; rfl

/-- An instance of C15: `T3` is an alias of the structure `T2` of two members. -/
theorem set_location_cursor_witness :
    sample_builder.info_types[3]? = some
        { id := 3, kind := debug_type_kind_alias, size := 8, aliased_type := 2 }
    ∧ debug_runtime_value_build_set_location 2 sample_builder debug_sym_loc_stack 8 3
        "s".toList
      = DbgRes.ok { sample_builder with
          base_loc_kind := debug_sym_loc_stack, base_loc := 8, base_type := 3,
          max_index := 2, it_index := 0, it_name := "s".toList, it_loc := 8, it_type := 3,
          it_loc_kind := debug_sym_loc_stack, it_has_children := true } :=
  ⟨by decide,
   (set_location_cursor 1 sample_builder debug_sym_loc_stack 8 3 "s".toList
      { id := 3, kind := debug_type_kind_alias, size := 8, aliased_type := 2 }
      (by decide)).2.2.2 rfl 2 (by decide) 0⟩

end Onyx
namespace Onyx

open debug_type_kind_t debug_type_primitive_kind_t debug_type_modifier_kind_t
  debug_sym_loc_kind_t

/-! ## Stepping through the subvalues -/

theorem same_base_refl (b : debug_runtime_value_builder_t) : same_base b b :=
  ⟨rfl, rfl, rfl, rfl, rfl, rfl, rfl, rfl, rfl, rfl⟩

theorem same_base_trans (b0 b1 b2 : debug_runtime_value_builder_t)
    (h1 : same_base b0 b1) (h2 : same_base b1 b2) : same_base b0 b2 := by
  obtain ⟨a1, a2, a3, a4, a5, a6, a7, a8, a9, a10⟩ := h1
  obtain ⟨c1, c2, c3, c4, c5, c6, c7, c8, c9, c10⟩ := h2
  exact ⟨c1.trans a1, c2.trans a2, c3.trans a3, c4.trans a4, c5.trans a5, c6.trans a6,
    c7.trans a7, c8.trans a8, c9.trans a9, c10.trans a10⟩

theorem same_base_ite (b0 b b' : debug_runtime_value_builder_t) (c : Prop) [Decidable c]
    (h1 : same_base b0 b) (h2 : same_base b0 b') : same_base b0 (if c then b else b') := by
  split <;> assumption

theorem step_member_location_base (b : debug_runtime_value_builder_t)
    (mem : debug_type_structure_member_t) : same_base b (step_member_location b mem) := by
  unfold step_member_location
  split <;> exact same_base_refl _

theorem step_member_location_index (b : debug_runtime_value_builder_t)
    (mem : debug_type_structure_member_t) :
    (step_member_location b mem).it_index = b.it_index := by
  unfold step_member_location
  split <;> rfl

/-- A call of `step()` at the end of the iteration returns `false` and changes nothing. -/
theorem step_at_end (fuel : Nat) (b : debug_runtime_value_builder_t)
    (h : b.max_index ≤ b.it_index) :
    debug_runtime_value_build_step fuel b = DbgRes.ok (false, b) := by
  simp only [debug_runtime_value_build_step, ge_iff_le, h, if_true, dbg_pure]

/-- What a call of `step()` that returns has done. -/
theorem step_ok (fuel : Nat) (b : debug_runtime_value_builder_t) (r : Bool)
    (b1 : debug_runtime_value_builder_t)
    (h : debug_runtime_value_build_step fuel b = DbgRes.ok (r, b1)) :
    (b.max_index ≤ b.it_index ∧ r = false ∧ b1 = b)
    ∨ (b.it_index < b.max_index ∧ r = true ∧ same_base b b1
        ∧ b1.it_index = (b.it_index + 1) % 2 ^ 32) := by
  by_cases hge : b.max_index ≤ b.it_index
  · left
    rw [step_at_end fuel b hge] at h
    simp only [DbgRes.ok.injEq, Prod.mk.injEq] at h
    exact ⟨hge, h.1.symm, h.2.symm⟩
  · right
    have hlt : b.it_index < b.max_index := by omega
    simp only [debug_runtime_value_build_step, ge_iff_le, hge, if_false] at h
    cases hty : b.info_types[b.base_type]? with
    | none => rw [hty] at h; cases h
    | some ty =>
      rw [hty] at h
      simp only [] at h
      obtain ⟨c1, h1, h⟩ := dbg_bind_eq_ok _ _ _ h
      obtain ⟨c2, h2, h⟩ := dbg_bind_eq_ok _ _ _ h
      simp only [dbg_pure, DbgRes.ok.injEq, Prod.mk.injEq] at h
      obtain ⟨hr, hb⟩ := h
      have f1 : same_base b c1 ∧ c1.it_index = b.it_index := by
        split at h1
        · obtain ⟨n, _, h1⟩ := dbg_bind_eq_ok _ _ _ h1
          simp only [dbg_pure, DbgRes.ok.injEq] at h1
          subst h1
          exact ⟨same_base_refl _, rfl⟩
        · simp only [dbg_pure, DbgRes.ok.injEq] at h1
          subst h1
          exact ⟨same_base_refl _, rfl⟩
      have f2 : same_base c1 c2 ∧ c2.it_index = c1.it_index := by
        split at h2
        · split at h2
          · cases h2
          · obtain ⟨n, _, h2⟩ := dbg_bind_eq_ok _ _ _ h2
            simp only [dbg_pure, DbgRes.ok.injEq] at h2
            subst h2
            exact ⟨step_member_location_base _ _, step_member_location_index _ _⟩
        · simp only [dbg_pure, DbgRes.ok.injEq] at h2
          subst h2
          exact ⟨same_base_refl _, rfl⟩
      refine ⟨hlt, hr.symm, ?_, ?_⟩
      · subst hb
        exact same_base_trans _ _ _ f1.1 f2.1
      · subst hb
        show (c2.it_index + 1) % 2 ^ 32 = _
        rw [f2.2, f1.2]


theorem isOk_iff {α : Type} (m : DbgRes α) : m.isOk = true ↔ ∃ a, m = DbgRes.ok a := by
  cases m with
  | ok a => exact ⟨fun _ => ⟨a, rfl⟩, fun _ => rfl⟩
  | fault e =>
    constructor
    · intro h; cases h
    · rintro ⟨a, h⟩; cases h

/-- What `table_ok` says about one type of the table. -/
theorem table_ok_at (fuel : Nat) (b : debug_runtime_value_builder_t)
    (h : table_ok fuel b = true) (t : Nat) (ty : debug_type_info_t)
    (hty : b.info_types[t]? = some ty) :
    ty.member_count < 2 ^ 32
    ∧ (ty.kind = debug_type_kind_structure →
        ty.member_count ≤ ty.members.length
        ∧ ∀ mem ∈ ty.members, ∃ n, get_subvalues_for_type fuel b mem.type = DbgRes.ok n)
    ∧ (ty.kind = debug_type_kind_modifier →
        ∃ n, get_subvalues_for_type fuel b ty.modified_type = DbgRes.ok n) := by
  have hmem : ty ∈ b.info_types := List.getElem?_mem hty
  unfold table_ok at h
  rw [List.all_eq_true] at h
  have h1 := h ty hmem
  simp only [Bool.and_eq_true, Bool.or_eq_true, Bool.not_eq_true', decide_eq_true_eq,
    decide_eq_false_iff_not, List.all_eq_true, isOk_iff] at h1
  obtain ⟨⟨h2, h3⟩, h4⟩ := h1
  refine ⟨h2, ?_, ?_⟩
  · intro hk
    cases h3 with
    | inl h3 => exact absurd hk h3
    | inr h3 => exact h3
  · intro hk
    cases h4 with
    | inl h4 => exact absurd hk h4
    | inr h4 => exact h4

/-- Whether a table is walkable depends on the table only. -/
theorem table_ok_env (fuel : Nat) (b1 b2 : debug_runtime_value_builder_t)
    (h : b1.info_types = b2.info_types) : table_ok fuel b1 = table_ok fuel b2 := by
  unfold table_ok
  rw [h]
  congr 1
  funext ty
  simp only [get_subvalues_env fuel b1 b2 h]

/-- In a walkable table a subvalue count is a `u32` value. -/
theorem get_subvalues_u32 (fuel : Nat) (b : debug_runtime_value_builder_t)
    (hok : table_ok fuel b = true) (f t n : Nat)
    (h : get_subvalues_for_type f b t = DbgRes.ok n) : n < 2 ^ 32 := by
  induction f generalizing t with
  | zero => cases h
  | succ f ih =>
    simp only [get_subvalues_for_type] at h
    cases hty : b.info_types[t]? with
    | none => rw [hty] at h; cases h
    | some ty =>
      rw [hty] at h
      simp only [] at h
      have hm := (table_ok_at fuel b hok t ty hty).1
      cases hk : ty.kind <;> rw [hk] at h <;> simp only [] at h
      · cases h; decide
      · split at h <;> cases h <;> decide
      · cases h; exact hm
      · cases h; decide
      · exact ih _ h
      · cases h; decide
      · cases h

/-- The subvalue count of a structure is its member count. -/
theorem get_subvalues_structure (f : Nat) (b : debug_runtime_value_builder_t) (t n : Nat)
    (ty : debug_type_info_t) (hty : b.info_types[t]? = some ty)
    (hk : ty.kind = debug_type_kind_structure)
    (h : get_subvalues_for_type f b t = DbgRes.ok n) : n = ty.member_count := by
  cases f with
  | zero => cases h
  | succ f =>
    simp only [get_subvalues_for_type, hty, hk] at h
    cases h; rfl

theorem inv_of_zero (b b1 : debug_runtime_value_builder_t) (f : Nat)
    (h1 : b1.info_types = b.info_types) (hi : b1.it_index = 0)
    (hg : get_subvalues_for_type f b b1.base_type = DbgRes.ok b1.max_index) :
    b1.it_index ≤ b1.max_index
    ∧ ∃ f, get_subvalues_for_type f b1 b1.base_type = DbgRes.ok b1.max_index := by
  refine ⟨by omega, f, ?_⟩
  rw [get_subvalues_env f b1 b h1]; exact hg

/-- What holds in every walker state that `set_location`, `descend` and `step` lead to:
the iteration index does not exceed `max_index`, and `max_index` is the subvalue count of
the base type. -/
theorem reachable_inv (b : debug_runtime_value_builder_t) (h : Reachable b) :
    b.it_index ≤ b.max_index
    ∧ ∃ f, get_subvalues_for_type f b b.base_type = DbgRes.ok b.max_index := by
  induction h with
  | set_location fuel builder loc_kind loc type name b h =>
    obtain ⟨n, hn, rfl⟩ := set_location_ok _ _ _ _ _ _ _ h
    exact inv_of_zero builder _ fuel rfl rfl hn
  | descend fuel builder index b _ h ih =>
    obtain ⟨_, f, hf⟩ := ih
    unfold debug_runtime_value_build_descend at h
    simp only [] at h
    cases hty : builder.info_types[builder.base_type]? with
    | none => rw [hty] at h; cases h
    | some ty =>
      rw [hty] at h
      simp only [] at h
      split at h
      · split at h
        · simp only [dbg_pure, DbgRes.ok.injEq] at h
          subst h
          exact inv_of_zero builder _ f rfl rfl hf
        · obtain ⟨n, hn, h⟩ := dbg_bind_eq_ok _ _ _ h
          have hn1 : get_subvalues_for_type fuel builder ty.modified_type = DbgRes.ok n := by
            rw [← hn]; exact get_subvalues_env fuel builder _ (by rfl) _
          split at h
          · obtain ⟨v, _, h⟩ := dbg_bind_eq_ok _ _ _ h
            simp only [dbg_pure, DbgRes.ok.injEq] at h
            subst h
            exact inv_of_zero builder _ fuel rfl rfl hn1
          · split at h
            · obtain ⟨sp, _, h⟩ := dbg_bind_eq_ok _ _ _ h
              obtain ⟨v, _, h⟩ := dbg_bind_eq_ok _ _ _ h
              simp only [dbg_pure, DbgRes.ok.injEq] at h
              subst h
              exact inv_of_zero builder _ fuel rfl rfl hn1
            · split at h
              · obtain ⟨v, _, h⟩ := dbg_bind_eq_ok _ _ _ h
                simp only [dbg_pure, DbgRes.ok.injEq] at h
                subst h
                exact inv_of_zero builder _ fuel rfl rfl hn1
              · simp only [dbg_pure, DbgRes.ok.injEq] at h
                subst h
                exact inv_of_zero builder _ fuel rfl rfl hn1
      · split at h
        · split at h
          · simp only [dbg_pure, DbgRes.ok.injEq] at h
            subst h
            exact inv_of_zero builder _ f rfl rfl hf
          · split at h
            · cases h
            · rename_i mem hmem
              obtain ⟨n, hn, h⟩ := dbg_bind_eq_ok _ _ _ h
              have hn1 : get_subvalues_for_type fuel builder mem.type = DbgRes.ok n := by
                rw [← hn]; exact get_subvalues_env fuel builder _ (by rfl) _
              split at h
              · simp only [dbg_pure, DbgRes.ok.injEq] at h
                subst h
                exact inv_of_zero builder _ fuel rfl rfl hn1
              · split at h
                · simp only [dbg_pure, DbgRes.ok.injEq] at h
                  subst h
                  exact inv_of_zero builder _ fuel rfl rfl hn1
                · simp only [dbg_pure, DbgRes.ok.injEq] at h
                  subst h
                  exact inv_of_zero builder _ fuel rfl rfl hn1
        · simp only [dbg_pure, DbgRes.ok.injEq] at h
          subst h
          exact inv_of_zero builder _ f rfl rfl hf
  | step fuel builder r b _ h ih =>
    obtain ⟨hle, f, hf⟩ := ih
    rcases step_ok _ _ _ _ h with ⟨_, _, rfl⟩ | ⟨hlt, _, hb, hi⟩
    · exact ⟨hle, f, hf⟩
    · obtain ⟨a1, _, _, _, _, _, _, _, a9, a10⟩ := hb
      refine ⟨?_, f, ?_⟩
      · rw [hi, a10]
        exact Nat.le_trans (Nat.mod_le _ _) hlt
      · rw [a9, a10, get_subvalues_env f b builder a1]; exact hf


/-- In a walkable table a call of `step()` before the end of the iteration returns. -/
theorem step_returns (fuel : Nat) (b : debug_runtime_value_builder_t)
    (hok : table_ok fuel b = true) (f : Nat)
    (hf : get_subvalues_for_type f b b.base_type = DbgRes.ok b.max_index)
    (hlt : b.it_index < b.max_index) :
    ∃ b1, debug_runtime_value_build_step fuel b = DbgRes.ok (true, b1) := by
  obtain ⟨ty, hty⟩ := get_subvalues_in_table f b _ _ hf
  obtain ⟨_, hs, hm⟩ := table_ok_at fuel b hok _ ty hty
  have hge : ¬ b.max_index ≤ b.it_index := by omega
  simp only [debug_runtime_value_build_step, ge_iff_le, hge, if_false, hty]
  by_cases hp : ty.kind = debug_type_kind_modifier
      ∧ ty.modifier_kind = debug_type_modifier_kind_pointer
  · obtain ⟨n, hn⟩ := hm hp.1
    have hns : ty.kind ≠ debug_type_kind_structure := by rw [hp.1]; decide
    have e := get_subvalues_env fuel
      { b with it_loc_kind := b.base_loc_kind, it_loc := b.base_loc,
               it_name := pointer_child_name b.it_name, it_type := ty.modified_type }
      b rfl ty.modified_type
    simp only [hp, and_self, if_true, e, hn, dbg_bind_ok, dbg_pure, hns, if_false]
    exact ⟨_, rfl⟩
  · simp only [hp, if_false, dbg_pure, dbg_bind_ok]
    by_cases hk : ty.kind = debug_type_kind_structure
    · obtain ⟨hlen, hmem⟩ := hs hk
      have hmax := get_subvalues_structure f b _ _ ty hty hk hf
      have hi : b.it_index < ty.members.length := by omega
      have hget : ty.members[b.it_index]? = some (ty.members.get ⟨b.it_index, hi⟩) :=
        List.getElem?_eq_getElem hi
      obtain ⟨n, hn⟩ := hmem _ (List.getElem?_mem hget)
      have e := get_subvalues_env fuel
        { b with it_name := (ty.members.get ⟨b.it_index, hi⟩).name }
        b rfl (ty.members.get ⟨b.it_index, hi⟩).type
      simp only [hk, if_true, hget, e, hn, dbg_bind_ok, dbg_pure]
      exact ⟨_, rfl⟩
    · simp only [hk, if_false, dbg_pure, dbg_bind_ok]
      exact ⟨_, rfl⟩

/-- From an iteration index `i` on, `max_index - i` calls of `step()` return `true` and
lead to the end of the iteration. -/
theorem step_times_to_end (fuel : Nat) (k : Nat) (b : debug_runtime_value_builder_t)
    (hok : table_ok fuel b = true) (f : Nat)
    (hf : get_subvalues_for_type f b b.base_type = DbgRes.ok b.max_index)
    (hk : b.it_index + k = b.max_index) :
    ∃ b1, step_times fuel k b = DbgRes.ok (List.replicate k true, b1)
      ∧ same_base b b1 ∧ b1.it_index = b.max_index := by
  induction k generalizing b with
  | zero => exact ⟨b, rfl, same_base_refl b, by omega⟩
  | succ k ih =>
    have hlt : b.it_index < b.max_index := by omega
    obtain ⟨b1, h1⟩ := step_returns fuel b hok f hf hlt
    have hu := get_subvalues_u32 fuel b hok f _ _ hf
    rcases step_ok _ _ _ _ h1 with ⟨h, _⟩ | ⟨_, _, hb, hi⟩
    · omega
    · have hb0 := hb
      obtain ⟨a1, _, _, _, _, _, _, _, a9, a10⟩ := hb
      have hi1 : b1.it_index = b.it_index + 1 := by
        rw [hi]; exact Nat.mod_eq_of_lt (by omega)
      have hok1 : table_ok fuel b1 = true := by rw [table_ok_env fuel b1 b a1]; exact hok
      have hf1 : get_subvalues_for_type f b1 b1.base_type = DbgRes.ok b1.max_index := by
        rw [a9, a10, get_subvalues_env f b1 b a1]; exact hf
      obtain ⟨b2, h2, hb2, hi2⟩ := ih b1 hok1 hf1 (by omega)
      refine ⟨b2, ?_, same_base_trans _ _ _ hb0 hb2, by rw [hi2, a10]⟩
      simp only [step_times, h1, h2, List.replicate_succ]

/-- C16: in every walker state that calls of `set_location`, `descend` and `step` lead to,
`it_index ≤ max_index`; `step()` returns `false` exactly when `it_index ≥ max_index`, and
then it returns the builder as it was; when it returns `true`, `it_index` is one more than
before and still at most `max_index`, and the base is as before.  In a walkable table
`step()` returns in every such state, and the `max_index - it_index` next calls
(`max_index` calls after a `set_location`) return `true` and the call after them
`false`. -/
theorem step_cursor_invariants (fuel : Nat) (b : debug_runtime_value_builder_t)
    (hreach : Reachable b) (hok : table_ok fuel b = true) :
    b.it_index ≤ b.max_index
    ∧ (b.max_index ≤ b.it_index →
        debug_runtime_value_build_step fuel b = DbgRes.ok (false, b))
    ∧ (b.it_index < b.max_index →
        ∃ b1, debug_runtime_value_build_step fuel b = DbgRes.ok (true, b1)
          ∧ b1.it_index = b.it_index + 1 ∧ b1.it_index ≤ b1.max_index ∧ same_base b b1)
    ∧ (∃ b1, step_times fuel (b.max_index - b.it_index) b
          = DbgRes.ok (List.replicate (b.max_index - b.it_index) true, b1)
        ∧ same_base b b1
        ∧ debug_runtime_value_build_step fuel b1 = DbgRes.ok (false, b1)) := by
  obtain ⟨hle, f, hf⟩ := reachable_inv b hreach
  refine ⟨hle, step_at_end fuel b, ?_, ?_⟩
  · intro hlt
    obtain ⟨b1, h1⟩ := step_returns fuel b hok f hf hlt
    have hu := get_subvalues_u32 fuel b hok f _ _ hf
    rcases step_ok _ _ _ _ h1 with ⟨h, _⟩ | ⟨_, _, hb, hi⟩
    · omega
    · have hi1 : b1.it_index = b.it_index + 1 := by
        rw [hi]; exact Nat.mod_eq_of_lt (by omega)
      have a10 := hb.2.2.2.2.2.2.2.2.2
      exact ⟨b1, h1, hi1, by omega, hb⟩
  · obtain ⟨b1, h1, hb, hi⟩ := step_times_to_end fuel (b.max_index - b.it_index) b hok f hf
      (by omega)
    have a10 := hb.2.2.2.2.2.2.2.2.2
    exact ⟨b1, h1, hb, step_at_end fuel b1 (by omega)⟩

/-- An instance of C16: after `set_location` on the structure `T2` of two members, two
calls of `step()` return `true` and the third returns `false`. -/
theorem step_cursor_invariants_witness :
    Reachable (located sample_builder debug_sym_loc_stack 8 2 "s".toList 2)
    ∧ table_ok 2 (located sample_builder debug_sym_loc_stack 8 2 "s".toList 2) = true
    ∧ ∃ b1, step_times 2 2 (located sample_builder debug_sym_loc_stack 8 2 "s".toList 2)
          = DbgRes.ok ([true, true], b1)
        ∧ same_base (located sample_builder debug_sym_loc_stack 8 2 "s".toList 2) b1
        ∧ debug_runtime_value_build_step 2 b1 = DbgRes.ok (false, b1) :=
  ⟨Reachable.set_location 2 sample_builder debug_sym_loc_stack 8 2 "s".toList _ (by decide),
   by decide,
   (step_cursor_invariants 2 (located sample_builder debug_sym_loc_stack 8 2 "s".toList 2)
      (Reachable.set_location 2 sample_builder debug_sym_loc_stack 8 2 "s".toList _
        (by decide))
      (by decide)).2.2.2⟩

end Onyx
namespace Onyx
open debug_type_kind_t debug_type_primitive_kind_t debug_type_modifier_kind_t
  debug_sym_loc_kind_t

/-- A name of at most 2046 characters fits the buffer with its star. -/
theorem pointer_child_name_short (name : List Char) (h : name.length ≤ 2046) :
    pointer_child_name name = '*' :: name := by
  unfold pointer_child_name
  apply List.take_of_length_le
  simp only [List.length_cons]
  omega

/-- The first `step()` on a pointer base, with the name as the buffers hold it. -/
theorem pointer_step_run (fuel : Nat) (builder : debug_runtime_value_builder_t)
    (loc_kind : debug_sym_loc_kind_t) (loc t : Nat) (name : List Char)
    (ty : debug_type_info_t) (n : Nat)
    (ht : builder.info_types[t]? = some ty)
    (hk : ty.kind = debug_type_kind_modifier)
    (hp : ty.modifier_kind = debug_type_modifier_kind_pointer)
    (hn : get_subvalues_for_type fuel builder ty.modified_type = DbgRes.ok n) :
    debug_runtime_value_build_set_location fuel builder loc_kind loc t name
      = DbgRes.ok (located builder loc_kind loc t name 1)
    ∧ debug_runtime_value_build_step fuel (located builder loc_kind loc t name 1)
      = DbgRes.ok (true, { located builder loc_kind loc t name 1 with
          it_index := 1, it_name := pointer_child_name name, it_loc_kind := loc_kind,
          it_loc := loc, it_type := ty.modified_type, it_has_children := decide (n > 0) })
    ∧ debug_runtime_value_build_step fuel { located builder loc_kind loc t name 1 with
          it_index := 1, it_name := pointer_child_name name, it_loc_kind := loc_kind,
          it_loc := loc, it_type := ty.modified_type, it_has_children := decide (n > 0) }
      = DbgRes.ok (false, { located builder loc_kind loc t name 1 with
          it_index := 1, it_name := pointer_child_name name, it_loc_kind := loc_kind,
          it_loc := loc, it_type := ty.modified_type, it_has_children := decide (n > 0) }) := by
  have hfuel : ∃ f, fuel = f + 1 := by
    cases fuel with
    | zero => cases hn
    | succ f => exact ⟨f, rfl⟩
  obtain ⟨f, rfl⟩ := hfuel
  have h1 := (get_subvalues_table f builder t ty ht).2.1 ⟨hk, hp⟩
  refine ⟨set_location_run _ _ _ _ _ _ _ h1, ?_, step_at_end _ _ (Nat.le_refl 1)⟩
  have hns : ty.kind ≠ debug_type_kind_structure := by rw [hk]; decide
  have e := get_subvalues_env (f + 1)
    { located builder loc_kind loc t name 1 with
        it_loc_kind := loc_kind, it_loc := loc, it_name := pointer_child_name name,
        it_type := ty.modified_type }
    builder rfl ty.modified_type
  have hty : (located builder loc_kind loc t name 1).info_types[
      (located builder loc_kind loc t name 1).base_type]? = some ty := ht
  simp only [debug_runtime_value_build_step, hty]
  simp only [located, ge_iff_le, Nat.le_zero_eq, Nat.succ_ne_zero, if_false, hk, hp, and_self,
    if_true, hns, dbg_pure, dbg_bind_ok] at e ⊢
  simp only [e, hn, dbg_bind_ok]
  rfl

/-- C17 as stated fails for a long name: after `set_location(register, 3, T1, name)` with
a name of 2047 characters the first `step()` returns `true`, and the iteration name is
the star and the first 2046 characters of the name, not the star and the whole name. -/
theorem pointer_step_name_cut :
    debug_runtime_value_build_set_location 2 sample_builder debug_sym_loc_register 3 1 long_name
      = DbgRes.ok (located sample_builder debug_sym_loc_register 3 1 long_name 1)
    ∧ ∃ b, debug_runtime_value_build_step 2
          (located sample_builder debug_sym_loc_register 3 1 long_name 1) = DbgRes.ok (true, b)
        ∧ b.it_name = '*' :: List.replicate 2046 'a'
        ∧ b.it_name ≠ '*' :: long_name := by
  obtain ⟨h1, h2, _⟩ := pointer_step_run 2 sample_builder debug_sym_loc_register 3 1 long_name
    { id := 1, kind := debug_type_kind_modifier, size := 4,
      modifier_kind := debug_type_modifier_kind_pointer, modified_type := 0 } 0
    (by decide) rfl rfl (by decide)
  refine ⟨h1, _, h2, ?_, ?_⟩
  · show pointer_child_name long_name = _
    have e : '*' :: long_name = ('*' :: List.replicate 2046 'a') ++ ['a'] := by
      show '*' :: List.replicate (2046 + 1) 'a' = _
      rw [List.replicate_succ', List.cons_append]
    unfold pointer_child_name
    rw [e]
    exact List.take_left' (by rw [List.length_cons, List.length_replicate])
  · show pointer_child_name long_name ≠ _
    intro h
    have hl := congrArg List.length h
    unfold pointer_child_name long_name at hl
    simp only [List.length_take, List.length_cons, List.length_replicate] at hl
    omega

/-- C17, amended: when the base type `T` is a pointer to `U`, the first `step()` after
`set_location(kind, loc, T, name)` returns `true` and sets the iteration to the first
2047 characters of the star followed by `name`, which is the star followed by `name`
when `name` has at most 2046 characters, with location kind `kind`, location `loc`,
type `U` and has-children = (subvalue count of `U` > 0); the base is as `set_location`
left it, and the second `step()` returns `false`. -/
theorem pointer_step (fuel : Nat) (builder : debug_runtime_value_builder_t)
    (loc_kind : debug_sym_loc_kind_t) (loc t : Nat) (name : List Char)
    (ty : debug_type_info_t) (n : Nat)
    (ht : builder.info_types[t]? = some ty)
    (hk : ty.kind = debug_type_kind_modifier)
    (hp : ty.modifier_kind = debug_type_modifier_kind_pointer)
    (hn : get_subvalues_for_type fuel builder ty.modified_type = DbgRes.ok n) :
    ∃ b1 b2,
      debug_runtime_value_build_set_location fuel builder loc_kind loc t name = DbgRes.ok b1
      ∧ debug_runtime_value_build_step fuel b1 = DbgRes.ok (true, b2)
      ∧ debug_runtime_value_build_step fuel b2 = DbgRes.ok (false, b2)
      ∧ b2 = { builder with
          base_loc_kind := loc_kind, base_loc := loc, base_type := t, max_index := 1,
          it_index := 1, it_name := ('*' :: name).take 2047, it_loc_kind := loc_kind,
          it_loc := loc, it_type := ty.modified_type, it_has_children := decide (n > 0) }
      ∧ same_base b1 b2
      ∧ (name.length ≤ 2046 → b2.it_name = '*' :: name) := by
  obtain ⟨h1, h2, h3⟩ := pointer_step_run fuel builder loc_kind loc t name ty n ht hk hp hn
  refine ⟨_, _, h1, h2, h3, rfl, ⟨rfl, rfl, rfl, rfl, rfl, rfl, rfl, rfl, rfl, rfl⟩, ?_⟩
  intro hlen
  exact pointer_child_name_short name hlen

/-- An instance of C17: after `set_location(register, 3, T1, "p")` the first `step()`
gives the iteration `*p` of type `T0` in register 3. -/
theorem pointer_step_witness :
    ∃ b1 b2,
      debug_runtime_value_build_set_location 2 sample_builder debug_sym_loc_register 3 1
        "p".toList = DbgRes.ok b1
      ∧ debug_runtime_value_build_step 2 b1 = DbgRes.ok (true, b2)
      ∧ debug_runtime_value_build_step 2 b2 = DbgRes.ok (false, b2)
      ∧ b2 = { sample_builder with
          base_loc_kind := debug_sym_loc_register, base_loc := 3, base_type := 1,
          max_index := 1, it_index := 1, it_name := "*p".toList,
          it_loc_kind := debug_sym_loc_register, it_loc := 3, it_type := 0,
          it_has_children := false }
      ∧ same_base b1 b2
      ∧ (("p".toList).length ≤ 2046 → b2.it_name = '*' :: "p".toList) :=
  pointer_step 2 sample_builder debug_sym_loc_register 3 1 "p".toList
    { id := 1, kind := debug_type_kind_modifier, size := 4,
      modifier_kind := debug_type_modifier_kind_pointer, modified_type := 0 } 0
    (by decide) rfl rfl (by decide)

end Onyx
namespace Onyx

open debug_type_kind_t debug_type_primitive_kind_t debug_type_modifier_kind_t
  debug_sym_loc_kind_t

/-! ## Descending -/

/-- C18: when the base type is a pointer to `U` whose subvalue count is `n`, `descend(0)`
sets the base type to `U`, `max_index` to `n`, `it_index` to 0, the base location kind to
global and the base location to the pointer read from the old base location: the `u32`
of the register `base_loc` for a register, the `u32` in the memory at
`stack_ptr + base_loc` for a stack location, the `u32` in the memory at `base_loc` for a
global location. -/
theorem descend_pointer (fuel : Nat) (b : debug_runtime_value_builder_t)
    (ty : debug_type_info_t) (n : Nat)
    (hty : b.info_types[b.base_type]? = some ty)
    (hk : ty.kind = debug_type_kind_modifier)
    (hp : ty.modifier_kind = debug_type_modifier_kind_pointer)
    (hn : get_subvalues_for_type fuel b ty.modified_type = DbgRes.ok n) :
    (b.base_loc_kind = debug_sym_loc_register →
      ∀ value, lookup_register_in_frame b.ovm_state b.ovm_frame b.base_loc = DbgRes.ok value →
      debug_runtime_value_build_descend fuel b 0
        = DbgRes.ok { b with base_type := ty.modified_type, max_index := n, it_index := 0,
                             base_loc_kind := debug_sym_loc_global,
                             base_loc := value % 2 ^ 32 })
    ∧ (b.base_loc_kind = debug_sym_loc_stack →
      ∀ stack_ptr ptr, lookup_stack_pointer b = DbgRes.ok stack_ptr →
      read_memory b.memory ((stack_ptr + b.base_loc) % 2 ^ 32) 4 = DbgRes.ok ptr →
      debug_runtime_value_build_descend fuel b 0
        = DbgRes.ok { b with base_type := ty.modified_type, max_index := n, it_index := 0,
                             base_loc_kind := debug_sym_loc_global, base_loc := ptr })
    ∧ (b.base_loc_kind = debug_sym_loc_global →
      ∀ ptr, read_memory b.memory b.base_loc 4 = DbgRes.ok ptr →
      debug_runtime_value_build_descend fuel b 0
        = DbgRes.ok { b with base_type := ty.modified_type, max_index := n, it_index := 0,
                             base_loc_kind := debug_sym_loc_global, base_loc := ptr }) := by
  have e : ∀ b1 : debug_runtime_value_builder_t, b1.info_types = b.info_types →
      get_subvalues_for_type fuel b1 ty.modified_type = DbgRes.ok n :=
    fun b1 h => (get_subvalues_env fuel b1 b h _).trans hn
  refine ⟨?_, ?_, ?_⟩
  · intro hkind value hv
    simp only [debug_runtime_value_build_descend, hty, hk, hp, and_self, if_true,
      gt_iff_lt, Nat.lt_irrefl, if_false, e, hn, dbg_bind_ok, hkind, hv, dbg_pure]
  · intro hkind stack_ptr ptr hs hm
    have h1 : debug_sym_loc_stack ≠ debug_sym_loc_register := by decide
    have hs1 := hs
    simp only [lookup_stack_pointer] at hs1
    obtain ⟨v, hv, hs1⟩ := dbg_bind_eq_ok _ _ _ hs1
    simp only [dbg_pure, DbgRes.ok.injEq] at hs1
    subst hs1
    simp only [debug_runtime_value_build_descend, hty, hk, hp, and_self, if_true,
      gt_iff_lt, Nat.lt_irrefl, if_false, e, hn, dbg_bind_ok, hkind, h1, hm, dbg_pure,
      lookup_stack_pointer, hv]
  · intro hkind ptr hm
    have h1 : debug_sym_loc_global ≠ debug_sym_loc_register := by decide
    have h2 : debug_sym_loc_global ≠ debug_sym_loc_stack := by decide
    simp only [debug_runtime_value_build_descend, hty, hk, hp, and_self, if_true,
      gt_iff_lt, Nat.lt_irrefl, if_false, e, hn, dbg_bind_ok, hkind, h1, h2, hm, dbg_pure]

/-- An instance of C18: `p` of type `T4 = ^T2` lives on the stack at offset 8; the stack
pointer is 8, and the four bytes at address 16 hold the pointer 20. -/
theorem descend_pointer_witness :
    debug_runtime_value_build_descend 2
        (located sample_builder debug_sym_loc_stack 8 4 "p".toList 1) 0
      = DbgRes.ok { located sample_builder debug_sym_loc_stack 8 4 "p".toList 1 with
          base_type := 2, max_index := 2, it_index := 0,
          base_loc_kind := debug_sym_loc_global, base_loc := 20 } :=
  (descend_pointer 2 (located sample_builder debug_sym_loc_stack 8 4 "p".toList 1)
    { id := 4, kind := debug_type_kind_modifier, size := 4,
      modifier_kind := debug_type_modifier_kind_pointer, modified_type := 2 } 2
    (by decide) rfl rfl (by decide)).2.1 rfl 8 20 (by decide) (by decide)

/-- C19: when the base type is a structure and `index` is below its member count, with
`mem` the member at `index` and `n` the subvalue count of the member type, `descend(index)`
sets the base type to `mem.type`, `max_index` to `n`, `it_index` to 0 and the iteration
name to `mem.name`, keeps the base location kind, and changes the base location to
`base_loc + index` for a register and to `base_loc + mem.offset` for a stack or global
location (sums of `u32` values). -/
theorem descend_structure (fuel : Nat) (b : debug_runtime_value_builder_t)
    (ty : debug_type_info_t) (index : Nat) (mem : debug_type_structure_member_t) (n : Nat)
    (hty : b.info_types[b.base_type]? = some ty)
    (hk : ty.kind = debug_type_kind_structure)
    (hi : index < ty.member_count)
    (hm : ty.members[index]? = some mem)
    (hn : get_subvalues_for_type fuel b mem.type = DbgRes.ok n) :
    (b.base_loc_kind = debug_sym_loc_register →
      debug_runtime_value_build_descend fuel b index
        = DbgRes.ok { b with base_type := mem.type, max_index := n, it_index := 0,
                             it_name := mem.name,
                             base_loc := (b.base_loc + index) % 2 ^ 32 })
    ∧ (b.base_loc_kind = debug_sym_loc_stack ∨ b.base_loc_kind = debug_sym_loc_global →
      debug_runtime_value_build_descend fuel b index
        = DbgRes.ok { b with base_type := mem.type, max_index := n, it_index := 0,
                             it_name := mem.name,
                             base_loc := (b.base_loc + mem.offset) % 2 ^ 32 }) := by
  have e : ∀ b1 : debug_runtime_value_builder_t, b1.info_types = b.info_types →
      get_subvalues_for_type fuel b1 mem.type = DbgRes.ok n :=
    fun b1 h => (get_subvalues_env fuel b1 b h _).trans hn
  have hnm : debug_type_kind_structure ≠ debug_type_kind_modifier := by decide
  have hge : ¬ index ≥ ty.member_count := by omega
  refine ⟨?_, ?_⟩
  · intro hkind
    simp only [debug_runtime_value_build_descend, hty, hk, hnm, false_and, if_false, if_true,
      hge, hm, e, dbg_bind_ok, hkind, dbg_pure]
  · intro hkind
    have hnr : b.base_loc_kind ≠ debug_sym_loc_register := by
      rcases hkind with h | h <;> rw [h] <;> decide
    simp only [debug_runtime_value_build_descend, hty, hk, hnm, false_and, if_false, if_true,
      hge, hm, e, dbg_bind_ok, hkind, hnr, dbg_pure]

/-- An instance of C19: `s` of type `T2` lives on the stack at offset 8; its member 1 is
`y` at byte offset 4. -/
theorem descend_structure_witness :
    debug_runtime_value_build_descend 1
        (located sample_builder debug_sym_loc_stack 8 2 "s".toList 2) 1
      = DbgRes.ok { located sample_builder debug_sym_loc_stack 8 2 "s".toList 2 with
          base_type := 0, max_index := 0, it_index := 0, it_name := "y".toList,
          base_loc := 12 } :=
  (descend_structure 1 (located sample_builder debug_sym_loc_stack 8 2 "s".toList 2)
    { id := 2, kind := debug_type_kind_structure, size := 8, member_count := 2,
      members := [ { name := "x".toList, offset := 0, type := 0 },
                   { name := "y".toList, offset := 4, type := 0 } ] }
    1 { name := "y".toList, offset := 4, type := 0 } 0
    (by decide) rfl (by decide) (by decide) (by decide)).2 (Or.inl rfl)

end Onyx
namespace Onyx

open debug_type_kind_t debug_type_primitive_kind_t debug_type_modifier_kind_t
  debug_sym_loc_kind_t

/-! ## What the renderers depend on -/

theorem same_machine_output (b0 b1 : debug_runtime_value_builder_t) (h : same_machine b0 b1)
    (o0 o1 : List Char) :
    same_machine { b0 with output := o0 } { b1 with output := o1 } := h

theorem sr_ok (b0 b1 : debug_runtime_value_builder_t) :
    same_render b0 b1 (DbgRes.ok b0) (DbgRes.ok b1) :=
  ⟨[], by simp, by simp⟩

theorem sr_fault (b0 b1 : debug_runtime_value_builder_t) (e : WalkerFault) :
    same_render b0 b1 (DbgRes.fault e) (DbgRes.fault e) := rfl

theorem sr_WRITE (b0 b1 : debug_runtime_value_builder_t) (str : List Char) :
    same_render b0 b1 (WRITE b0 str) (WRITE b1 str) :=
  ⟨str, rfl, rfl⟩

theorem sr_WRITE_FORMAT (b0 b1 : debug_runtime_value_builder_t) (text : List Char) :
    same_render b0 b1 (WRITE_FORMAT b0 text) (WRITE_FORMAT b1 text) := by
  unfold WRITE_FORMAT
  split
  · exact ⟨_, rfl, rfl⟩
  · split
    · exact ⟨_, rfl, rfl⟩
    · rfl

theorem sr_bind (b0 b1 : debug_runtime_value_builder_t)
    (m0 m1 : DbgRes debug_runtime_value_builder_t)
    (f0 f1 : debug_runtime_value_builder_t → DbgRes debug_runtime_value_builder_t)
    (hm : same_render b0 b1 m0 m1)
    (hf : ∀ o0 o1, same_render { b0 with output := o0 } { b1 with output := o1 }
      (f0 { b0 with output := o0 }) (f1 { b1 with output := o1 })) :
    same_render b0 b1 (m0 >>= f0) (m1 >>= f1) := by
  cases m0 with
  | fault e0 =>
    cases m1 with
    | fault e1 => exact hm
    | ok c1 => exact hm.elim
  | ok c0 =>
    cases m1 with
    | fault e1 => exact hm.elim
    | ok c1 =>
      obtain ⟨text, rfl, rfl⟩ := hm
      have h := hf (b0.output ++ text) (b1.output ++ text)
      simp only [dbg_bind_ok]
      generalize f0 { b0 with output := b0.output ++ text } = r0 at h ⊢
      generalize f1 { b1 with output := b1.output ++ text } = r1 at h ⊢
      cases r0 with
      | fault e0 =>
        cases r1 with
        | fault e1 => exact h
        | ok d1 => exact h.elim
      | ok d0 =>
        cases r1 with
        | fault e1 => exact h.elim
        | ok d1 =>
          obtain ⟨text2, rfl, rfl⟩ := h
          exact ⟨text ++ text2, by simp, by simp⟩

theorem sr_bind_val {α : Type} (b0 b1 : debug_runtime_value_builder_t) (m : DbgRes α)
    (f0 f1 : α → DbgRes debug_runtime_value_builder_t)
    (hf : ∀ a, same_render b0 b1 (f0 a) (f1 a)) :
    same_render b0 b1 (m >>= f0) (m >>= f1) := by
  cases m with
  | fault e => rfl
  | ok a => exact hf a

theorem sr_ite (b0 b1 : debug_runtime_value_builder_t) (c : Prop) [Decidable c]
    (x0 y0 x1 y1 : DbgRes debug_runtime_value_builder_t)
    (hx : same_render b0 b1 x0 x1) (hy : same_render b0 b1 y0 y1) :
    same_render b0 b1 (if c then x0 else y0) (if c then x1 else y1) := by
  split <;> assumption

set_option maxHeartbeats 4000000 in
/-- The renderers from memory append a text that depends on the type table and the memory
only. -/
theorem sr_from_memory (libc : Libc) (fuel : Nat) :
    (∀ b0 b1 base t, same_machine b0 b1 →
      same_render b0 b1 (append_value_from_memory_with_type libc fuel b0 base t)
        (append_value_from_memory_with_type libc fuel b1 base t))
    ∧ (∀ b0 b1 base ty i, same_machine b0 b1 →
      same_render b0 b1 (append_members_from_memory libc fuel b0 base ty i)
        (append_members_from_memory libc fuel b1 base ty i))
    ∧ (∀ b0 b1 base ty ety i, same_machine b0 b1 →
      same_render b0 b1 (append_elements_from_memory libc fuel b0 base ty ety i)
        (append_elements_from_memory libc fuel b1 base ty ety i)) := by
  induction fuel with
  | zero =>
    refine ⟨?_, ?_, ?_⟩
    · intro b0 b1 base t _
      simp only [append_value_from_memory_with_type]; rfl
    · intro b0 b1 base ty i _
      simp only [append_members_from_memory]; rfl
    · intro b0 b1 base ty ety i _
      simp only [append_elements_from_memory]; rfl
  | succ fuel ih =>
    obtain ⟨ih1, ih2, ih3⟩ := ih
    refine ⟨?_, ?_, ?_⟩
    · intro b0 b1 base t h
      obtain ⟨h1, h2, h3, h4, h5⟩ := h
      have hm : ∀ o0 o1, same_machine { b0 with output := o0 } { b1 with output := o1 } :=
        fun _ _ => ⟨h1, h2, h3, h4, h5⟩
      simp only [append_value_from_memory_with_type, h1, h5]
      repeat' first
        | exact sr_WRITE _ _ _
        | exact sr_WRITE_FORMAT _ _ _
        | exact sr_fault _ _ _
        | exact sr_ok _ _
        | (apply ih1
           exact ⟨by first | rfl | exact h1, h2, h3, h4, by first | rfl | exact h5⟩)
        | (apply ih2
           exact ⟨by first | rfl | exact h1, h2, h3, h4, by first | rfl | exact h5⟩)
        | (apply ih3
           exact ⟨by first | rfl | exact h1, h2, h3, h4, by first | rfl | exact h5⟩)
        | apply sr_bind_val
        | apply sr_bind
        | apply sr_ite
        | intro _
        | simp only [h1, h5]
        | split
    · intro b0 b1 base ty i h
      obtain ⟨h1, h2, h3, h4, h5⟩ := h
      have hm : ∀ o0 o1, same_machine { b0 with output := o0 } { b1 with output := o1 } :=
        fun _ _ => ⟨h1, h2, h3, h4, h5⟩
      simp only [append_members_from_memory]
      repeat' first
        | exact sr_WRITE _ _ _
        | exact sr_WRITE_FORMAT _ _ _
        | exact sr_fault _ _ _
        | exact sr_ok _ _
        | (apply ih1
           exact ⟨by first | rfl | exact h1, h2, h3, h4, by first | rfl | exact h5⟩)
        | (apply ih2
           exact ⟨by first | rfl | exact h1, h2, h3, h4, by first | rfl | exact h5⟩)
        | (apply ih3
           exact ⟨by first | rfl | exact h1, h2, h3, h4, by first | rfl | exact h5⟩)
        | apply sr_bind_val
        | apply sr_bind
        | apply sr_ite
        | intro _
        | simp only [h1, h5]
        | split
    · intro b0 b1 base ty ety i h
      obtain ⟨h1, h2, h3, h4, h5⟩ := h
      have hm : ∀ o0 o1, same_machine { b0 with output := o0 } { b1 with output := o1 } :=
        fun _ _ => ⟨h1, h2, h3, h4, h5⟩
      simp only [append_elements_from_memory]
      repeat' first
        | exact sr_WRITE _ _ _
        | exact sr_WRITE_FORMAT _ _ _
        | exact sr_fault _ _ _
        | exact sr_ok _ _
        | (apply ih1
           exact ⟨by first | rfl | exact h1, h2, h3, h4, by first | rfl | exact h5⟩)
        | (apply ih2
           exact ⟨by first | rfl | exact h1, h2, h3, h4, by first | rfl | exact h5⟩)
        | (apply ih3
           exact ⟨by first | rfl | exact h1, h2, h3, h4, by first | rfl | exact h5⟩)
        | apply sr_bind_val
        | apply sr_bind
        | apply sr_ite
        | intro _
        | simp only [h1, h5]
        | split

set_option maxHeartbeats 4000000 in
/-- The renderer of a register value appends a text that depends on the type table and
the memory only. -/
theorem sr_ovm_value (libc : Libc) (fuel : Nat) :
    ∀ b0 b1 value t, same_machine b0 b1 →
      same_render b0 b1 (append_ovm_value_with_type libc fuel b0 value t)
        (append_ovm_value_with_type libc fuel b1 value t) := by
  induction fuel with
  | zero =>
    intro b0 b1 value t _
    simp only [append_ovm_value_with_type]; rfl
  | succ fuel ih =>
    intro b0 b1 value t h
    obtain ⟨h1, h2, h3, h4, h5⟩ := h
    simp only [append_ovm_value_with_type, h1]
    repeat' first
      | exact sr_WRITE _ _ _
      | exact sr_WRITE_FORMAT _ _ _
      | exact sr_fault _ _ _
      | exact ih _ _ _ _ ⟨h1, h2, h3, h4, h5⟩
      | exact (sr_from_memory libc fuel).1 _ _ _ _ ⟨h1, h2, h3, h4, h5⟩
      | split

/-- The renderer of a stack value appends a text that depends on the machine only. -/
theorem sr_from_stack (libc : Libc) (fuel : Nat) (b0 b1 : debug_runtime_value_builder_t)
    (offset t : Nat) (h : same_machine b0 b1) :
    same_render b0 b1 (append_value_from_stack libc fuel b0 offset t)
      (append_value_from_stack libc fuel b1 offset t) := by
  obtain ⟨h1, h2, h3, h4, h5⟩ := h
  simp only [append_value_from_stack, lookup_stack_pointer, h2, h3, h4]
  apply sr_bind_val
  intro _
  exact (sr_from_memory libc fuel).1 _ _ _ _ ⟨h1, h2, h3, h4, h5⟩

/-- The loop over the members of a structure in registers appends a text that depends on
the machine only. -/
theorem sr_members_from_registers (libc : Libc) (fuel : Nat) :
    ∀ b0 b1 reg ty i, same_machine b0 b1 →
      same_render b0 b1 (append_members_from_registers libc fuel b0 reg ty i)
        (append_members_from_registers libc fuel b1 reg ty i) := by
  induction fuel with
  | zero =>
    intro b0 b1 reg ty i _
    simp only [append_members_from_registers]; rfl
  | succ fuel ih =>
    intro b0 b1 reg ty i h
    obtain ⟨h1, h2, h3, h4, h5⟩ := h
    have hm : ∀ o0 o1, same_machine { b0 with output := o0 } { b1 with output := o1 } :=
      fun _ _ => ⟨h1, h2, h3, h4, h5⟩
    simp only [append_members_from_registers]
    repeat' first
      | exact sr_WRITE _ _ _
      | exact sr_WRITE_FORMAT _ _ _
      | exact sr_fault _ _ _
      | exact sr_ok _ _
      | exact ih _ _ _ _ _ (hm _ _)
      | exact ih _ _ _ _ _ ⟨h1, rfl, rfl, h4, h5⟩
      | exact sr_ovm_value libc fuel _ _ _ _ (hm _ _)
      | exact sr_ovm_value libc fuel _ _ _ _ ⟨h1, rfl, rfl, h4, h5⟩
      | apply sr_bind_val
      | apply sr_bind
      | apply sr_ite
      | intro _
      | simp only [h2, h3]
      | split

/-- The renderer of a register location appends a text that depends on the machine
only. -/
theorem sr_from_register (libc : Libc) (fuel : Nat) (b0 b1 : debug_runtime_value_builder_t)
    (reg t : Nat) (h : same_machine b0 b1) :
    same_render b0 b1 (append_value_from_register libc fuel b0 reg t)
      (append_value_from_register libc fuel b1 reg t) := by
  obtain ⟨h1, h2, h3, h4, h5⟩ := h
  have hm : ∀ o0 o1, same_machine { b0 with output := o0 } { b1 with output := o1 } :=
    fun _ _ => ⟨h1, h2, h3, h4, h5⟩
  simp only [append_value_from_register, h1, h2, h3]
  repeat' first
    | exact sr_WRITE _ _ _
    | exact sr_fault _ _ _
    | exact sr_members_from_registers libc fuel _ _ _ _ _ (hm _ _)
    | exact sr_ovm_value libc fuel _ _ _ _ ⟨h1, h2, h3, h4, h5⟩
    | apply sr_bind_val
    | apply sr_bind
    | intro _
    | split

/-- The function `build_string` appends a text that depends on the machine and on the
iteration (location kind, location, type) only. -/
theorem sr_build_string (libc : Libc) (fuel : Nat) (b0 b1 : debug_runtime_value_builder_t)
    (h : same_machine b0 b1) (hk : b1.it_loc_kind = b0.it_loc_kind)
    (hl : b1.it_loc = b0.it_loc) (ht : b1.it_type = b0.it_type) :
    same_render b0 b1 (debug_runtime_value_build_string libc fuel b0)
      (debug_runtime_value_build_string libc fuel b1) := by
  simp only [debug_runtime_value_build_string, hk, hl, ht]
  repeat' first
    | exact sr_WRITE _ _ _
    | exact sr_from_register libc fuel _ _ _ _ h
    | exact sr_from_stack libc fuel _ _ _ _ h
    | exact (sr_from_memory libc fuel).1 _ _ _ _ h
    | split

end Onyx
namespace Onyx

open debug_type_kind_t debug_type_primitive_kind_t debug_type_modifier_kind_t
  debug_sym_loc_kind_t

/-! ## An invalid descent -/

/-- C20 as stated fails: `x` of type `T0 = u32` is in register 3, which holds 16.
`descend(0)` is an invalid case and sets the base location kind to Unknown, but the next
`build_string()` appends `16`, not `(location unknown)`. -/
theorem descend_invalid_renders_value :
    debug_runtime_value_build_set_location 2 sample_builder debug_sym_loc_register 3 0
        "x".toList
      = DbgRes.ok (located sample_builder debug_sym_loc_register 3 0 "x".toList 0)
    ∧ debug_runtime_value_build_descend 2
        (located sample_builder debug_sym_loc_register 3 0 "x".toList 0) 0
      = DbgRes.ok { located sample_builder debug_sym_loc_register 3 0 "x".toList 0 with
          base_loc_kind := debug_sym_loc_unknown }
    ∧ debug_runtime_value_build_string sample_libc 2
        { located sample_builder debug_sym_loc_register 3 0 "x".toList 0 with
          base_loc_kind := debug_sym_loc_unknown }
      = DbgRes.ok { located sample_builder debug_sym_loc_register 3 0 "x".toList 0 with
          base_loc_kind := debug_sym_loc_unknown, output := "16".toList }
    ∧ "16".toList ≠ "(location unknown)".toList := by
  refine ⟨by decide, by decide, by decide, by decide⟩

/-- C20, amended: when the base type is in the table, `descend(index)` in an invalid case
(base type neither pointer nor structure, pointer base with `index > 0`, structure base
with `index ≥ member_count`) returns with the base location kind Unknown and `it_index`
0 and changes nothing else.  The next `build_string()` goes by the location kind of the
iteration, which is as before: it appends the text that a `build_string()` before the
descend appends (or fails as that does), and it appends exactly `(location unknown)` when
the location kind of the iteration is Unknown. -/
theorem descend_invalid (fuel : Nat) (b : debug_runtime_value_builder_t)
    (ty : debug_type_info_t) (index : Nat)
    (hty : b.info_types[b.base_type]? = some ty)
    (hbad : (ty.kind = debug_type_kind_modifier
          ∧ ty.modifier_kind = debug_type_modifier_kind_pointer ∧ index > 0)
      ∨ (ty.kind = debug_type_kind_structure ∧ index ≥ ty.member_count)
      ∨ (¬ (ty.kind = debug_type_kind_modifier
            ∧ ty.modifier_kind = debug_type_modifier_kind_pointer)
          ∧ ty.kind ≠ debug_type_kind_structure)) :
    debug_runtime_value_build_descend fuel b index
      = DbgRes.ok { b with it_index := 0, base_loc_kind := debug_sym_loc_unknown }
    ∧ (∀ libc f, same_render b { b with it_index := 0, base_loc_kind := debug_sym_loc_unknown }
        (debug_runtime_value_build_string libc f b)
        (debug_runtime_value_build_string libc f
          { b with it_index := 0, base_loc_kind := debug_sym_loc_unknown }))
    ∧ (b.it_loc_kind = debug_sym_loc_unknown →
        ∀ libc f, debug_runtime_value_build_string libc f
            { b with it_index := 0, base_loc_kind := debug_sym_loc_unknown }
          = DbgRes.ok { b with it_index := 0, base_loc_kind := debug_sym_loc_unknown,
                               output := b.output ++ "(location unknown)".toList }) := by
  refine ⟨?_, ?_, ?_⟩
  · rcases hbad with ⟨hk, hp, hi⟩ | ⟨hk, hi⟩ | ⟨hnp, hns⟩
    · simp only [debug_runtime_value_build_descend, hty, hk, hp, and_self, if_true, hi,
        dbg_pure, descend_bad_case]
    · have hnm : debug_type_kind_structure ≠ debug_type_kind_modifier := by decide
      simp only [debug_runtime_value_build_descend, hty, hk, hnm, false_and, if_false,
        if_true, hi, dbg_pure, descend_bad_case]
    · simp only [debug_runtime_value_build_descend, hty, hnp, hns, if_false, dbg_pure,
        descend_bad_case]
  · intro libc f
    exact sr_build_string libc f b _ ⟨rfl, rfl, rfl, rfl, rfl⟩ rfl rfl rfl
  · intro hk libc f
    have h1 : debug_sym_loc_unknown ≠ debug_sym_loc_register := by decide
    have h2 : debug_sym_loc_unknown ≠ debug_sym_loc_stack := by decide
    have h3 : debug_sym_loc_unknown ≠ debug_sym_loc_global := by decide
    simp only [debug_runtime_value_build_string, hk, h1, h2, h3, if_false, WRITE]

/-- An instance of C20: on the structure `T2` of two members, `descend(2)` is out of
range. -/
theorem descend_invalid_witness :
    debug_runtime_value_build_descend 2
        (located sample_builder debug_sym_loc_stack 8 2 "s".toList 2) 2
      = DbgRes.ok { located sample_builder debug_sym_loc_stack 8 2 "s".toList 2 with
          it_index := 0, base_loc_kind := debug_sym_loc_unknown } :=
  (descend_invalid 2 (located sample_builder debug_sym_loc_stack 8 2 "s".toList 2)
    { id := 2, kind := debug_type_kind_structure, size := 8, member_count := 2,
      members := [ { name := "x".toList, offset := 0, type := 0 },
                   { name := "y".toList, offset := 4, type := 0 } ] }
    2 (by decide) (Or.inr (Or.inl ⟨rfl, by decide⟩))).1

end Onyx
namespace Onyx

open debug_type_kind_t debug_type_primitive_kind_t debug_type_modifier_kind_t
  debug_sym_loc_kind_t

/-! ## More fuel gives the same rendering -/

theorem fuel_mono_refl {α : Type} (m : DbgRes α) : fuel_mono m m := ⟨fun _ h => h⟩

theorem fuel_mono_fault {α : Type} (e : WalkerFault) (m : DbgRes α) :
    fuel_mono (DbgRes.fault e) m := ⟨fun _ h => DbgRes.noConfusion h⟩

theorem fuel_mono_bind {α β : Type} (m1 m2 : DbgRes α) (f1 f2 : α → DbgRes β)
    (hm : fuel_mono m1 m2) (hf : ∀ a, fuel_mono (f1 a) (f2 a)) :
    fuel_mono (m1 >>= f1) (m2 >>= f2) := by
  constructor
  intro b h
  cases m1 with
  | fault e => exact DbgRes.noConfusion h
  | ok a =>
    rw [hm.run a rfl]
    exact (hf a).run b h

theorem fuel_mono_ite {α : Type} (c : Prop) [Decidable c] (x1 y1 x2 y2 : DbgRes α)
    (hx : fuel_mono x1 x2) (hy : fuel_mono y1 y2) :
    fuel_mono (if c then x1 else y1) (if c then x2 else y2) := by
  split <;> assumption

set_option maxHeartbeats 4000000 in
/-- The renderers from memory return the same builder with more fuel. -/
theorem memory_fuel_step (libc : Libc) (fuel : Nat) :
    (∀ b base t, fuel_mono (append_value_from_memory_with_type libc fuel b base t)
        (append_value_from_memory_with_type libc (fuel + 1) b base t))
    ∧ (∀ b base ty i, fuel_mono (append_members_from_memory libc fuel b base ty i)
        (append_members_from_memory libc (fuel + 1) b base ty i))
    ∧ (∀ b base ty ety i, fuel_mono (append_elements_from_memory libc fuel b base ty ety i)
        (append_elements_from_memory libc (fuel + 1) b base ty ety i)) := by
  induction fuel with
  | zero =>
    refine ⟨?_, ?_, ?_⟩
    · intro b base t
      simp only [append_value_from_memory_with_type]; exact fuel_mono_fault _ _
    · intro b base ty i
      simp only [append_members_from_memory]; exact fuel_mono_fault _ _
    · intro b base ty ety i
      simp only [append_elements_from_memory]; exact fuel_mono_fault _ _
  | succ fuel ih =>
    obtain ⟨ih1, ih2, ih3⟩ := ih
    refine ⟨?_, ?_, ?_⟩
    · intro b base t
      rw [append_value_from_memory_with_type, append_value_from_memory_with_type]
      repeat' first
        | exact fuel_mono_refl _
        | exact fuel_mono_fault _ _
        | apply ih1
        | apply ih2
        | apply ih3
        | apply fuel_mono_bind
        | apply fuel_mono_ite
        | intro _
        | split
    · intro b base ty i
      rw [append_members_from_memory, append_members_from_memory]
      repeat' first
        | exact fuel_mono_refl _
        | exact fuel_mono_fault _ _
        | apply ih1
        | apply ih2
        | apply ih3
        | apply fuel_mono_bind
        | apply fuel_mono_ite
        | intro _
        | split
    · intro b base ty ety i
      rw [append_elements_from_memory, append_elements_from_memory]
      repeat' first
        | exact fuel_mono_refl _
        | exact fuel_mono_fault _ _
        | apply ih1
        | apply ih2
        | apply ih3
        | apply fuel_mono_bind
        | apply fuel_mono_ite
        | intro _
        | split

theorem memory_fuel (libc : Libc) {n m : Nat} (hnm : n ≤ m) (b c : debug_runtime_value_builder_t)
    (base t : Nat) (h : append_value_from_memory_with_type libc n b base t = DbgRes.ok c) :
    append_value_from_memory_with_type libc m b base t = DbgRes.ok c := by
  induction hnm with
  | refl => exact h
  | step _ ih => exact ((memory_fuel_step libc _).1 b base t).run c ih

theorem same_machine_refl (b : debug_runtime_value_builder_t) (o : List Char) :
    same_machine { b with output := o } b := ⟨rfl, rfl, rfl, rfl, rfl⟩

/-- The text of a rendering from memory is appended to the output of every builder over
the same machine. -/
theorem memory_text_run (libc : Libc) (fuel : Nat) (b b1 : debug_runtime_value_builder_t)
    (base t : Nat) (text : List Char) (h : memory_text libc fuel b base t = some text)
    (hm : same_machine b b1) :
    append_value_from_memory_with_type libc fuel b1 base t
      = DbgRes.ok { b1 with output := b1.output ++ text } := by
  have hsr := (sr_from_memory libc fuel).1 { b with output := [] } b1 base t hm
  unfold memory_text at h
  generalize append_value_from_memory_with_type libc fuel { b with output := [] } base t = r0
    at h hsr
  generalize append_value_from_memory_with_type libc fuel b1 base t = r1 at hsr ⊢
  cases r0 with
  | fault e => exact Option.noConfusion h
  | ok c0 =>
    cases r1 with
    | fault e => exact hsr.elim
    | ok c1 =>
      obtain ⟨text', h0, h1⟩ := hsr
      simp only [Option.some.injEq] at h
      rw [h0] at h
      simp only [List.nil_append] at h
      rw [h1, h]

/-- The text that a run appended is the text of the rendering. -/
theorem memory_text_of_run (libc : Libc) (fuel : Nat) (b : debug_runtime_value_builder_t)
    (base t : Nat) (text : List Char)
    (h : append_value_from_memory_with_type libc fuel b base t
      = DbgRes.ok { b with output := b.output ++ text }) :
    memory_text libc fuel b base t = some text := by
  have hsr := (sr_from_memory libc fuel).1 b { b with output := [] } base t
    ⟨rfl, rfl, rfl, rfl, rfl⟩
  unfold memory_text
  rw [h] at hsr
  generalize append_value_from_memory_with_type libc fuel { b with output := [] } base t = r1
    at hsr ⊢
  cases r1 with
  | fault e => exact hsr.elim
  | ok c1 =>
    obtain ⟨text', h0, h1⟩ := hsr
    have : b.output ++ text = b.output ++ text' := congrArg (fun c => c.output) h0
    have ht := List.append_cancel_left this
    rw [h1, ht]
    simp

theorem memory_text_fuel (libc : Libc) {n m : Nat} (hnm : n ≤ m)
    (b : debug_runtime_value_builder_t) (base t : Nat) (text : List Char)
    (h : memory_text libc n b base t = some text) : memory_text libc m b base t = some text := by
  have h1 := memory_text_run libc n b b base t text h ⟨rfl, rfl, rfl, rfl, rfl⟩
  exact memory_text_of_run libc m b base t text (memory_fuel libc hnm _ _ _ _ h1)

/-! ## Integers -/

theorem format_signed_decimal (bits raw : Nat) :
    format_signed bits raw = decimal (twos_complement bits raw) := by
  unfold format_signed twos_complement
  split
  · rfl
  · rename_i h
    have hlt : raw % 2 ^ bits < 2 ^ bits := Nat.mod_lt _ (Nat.two_pow_pos bits)
    have e : ((raw % 2 ^ bits : Nat) : Int) - ((2 ^ bits : Nat) : Int)
        = Int.negSucc (2 ^ bits - raw % 2 ^ bits - 1) := by
      rw [Int.negSucc_eq]
      omega
    rw [e]
    simp only [decimal]
    congr 2
    omega

theorem format_unsigned_decimal (bits raw : Nat) :
    format_unsigned bits raw = decimal (((raw % 2 ^ bits : Nat) : Int)) := rfl

theorem toDigits_length_le (n : Nat) (h : n < 2 ^ 64) : (Nat.toDigits 10 n).length ≤ 20 :=
  Nat.toDigitsCore_length 10 (by decide) (n + 1) n 20 (lt_of_lt_of_le h (by norm_num))
    (by decide)

theorem pow_le_64 (bits : Nat) (h : bits ≤ 64) : 2 ^ bits ≤ 2 ^ 64 :=
  Nat.pow_le_pow_right (by decide) h

theorem format_signed_length (bits raw : Nat) (h : bits ≤ 64) :
    (format_signed bits raw).length < 4096 := by
  have hlt : raw % 2 ^ bits < 2 ^ bits := Nat.mod_lt _ (Nat.two_pow_pos bits)
  have h64 := pow_le_64 bits h
  have hpos := Nat.two_pow_pos (bits - 1)
  unfold format_signed
  generalize 2 ^ bits = p at hlt h64 ⊢
  generalize raw % p = r at hlt ⊢
  split
  · have := toDigits_length_le r (by omega)
    omega
  · have := toDigits_length_le (p - r) (by omega)
    simp only [List.length_cons]
    omega

theorem format_unsigned_length (bits raw : Nat) (h : bits ≤ 64) :
    (format_unsigned bits raw).length < 4096 := by
  have hlt : raw % 2 ^ bits < 2 ^ bits := Nat.mod_lt _ (Nat.two_pow_pos bits)
  have h64 := pow_le_64 bits h
  have := toDigits_length_le (raw % 2 ^ bits) (by omega)
  unfold format_unsigned
  omega

theorem write_format_short (b : debug_runtime_value_builder_t) (text : List Char)
    (h : text.length < 4096) :
    WRITE_FORMAT b text = DbgRes.ok { b with output := b.output ++ text } := by
  simp only [WRITE_FORMAT, h, if_true]

end Onyx
namespace Onyx

open debug_type_kind_t debug_type_primitive_kind_t debug_type_modifier_kind_t
  debug_sym_loc_kind_t

theorem integer_size_cases (size : Nat) (h : integer_size size = true) :
    size = 1 ∨ size = 2 ∨ size = 4 ∨ size = 8 := by
  simp only [integer_size, Bool.or_eq_true, decide_eq_true_eq] at h
  omega

theorem integer_size_not (size : Nat) (h : integer_size size = false) :
    size ≠ 1 ∧ size ≠ 2 ∧ size ≠ 4 ∧ size ≠ 8 := by
  simp only [integer_size, Bool.or_eq_false_iff, decide_eq_false_iff_not] at h
  omega

theorem integer_text_signed (size raw : Nat) :
    integer_text true size raw = format_signed (8 * size) raw := by
  simp only [integer_text, if_true, format_signed_decimal]

theorem integer_text_unsigned (size raw : Nat) :
    integer_text false size raw = format_unsigned (8 * size) raw := by
  simp only [integer_text, Bool.false_eq_true, if_false, format_unsigned_decimal]

theorem write_signed (b : debug_runtime_value_builder_t) (bits raw : Nat) (h : bits ≤ 64) :
    WRITE_FORMAT b (format_signed bits raw)
      = DbgRes.ok { b with output := b.output ++ format_signed bits raw } :=
  write_format_short _ _ (format_signed_length _ _ h)

theorem write_unsigned (b : debug_runtime_value_builder_t) (bits raw : Nat) (h : bits ≤ 64) :
    WRITE_FORMAT b (format_unsigned bits raw)
      = DbgRes.ok { b with output := b.output ++ format_unsigned bits raw } :=
  write_format_short _ _ (format_unsigned_length _ _ h)

/-- The register renderer on an integer type. -/
theorem ovm_integer (libc : Libc) (fuel : Nat) (b : debug_runtime_value_builder_t) (t : Nat)
    (ty : debug_type_info_t) (signed : Bool) (value : Nat)
    (ht : b.info_types[t]? = some ty) (hk : ty.kind = debug_type_kind_primitive)
    (hp : ty.primitive_kind = if signed then debug_type_primitive_kind_signed_integer
      else debug_type_primitive_kind_unsigned_integer) :
    append_ovm_value_with_type libc (fuel + 1) b value t
      = DbgRes.ok { b with output := b.output ++
          (if integer_size ty.size then integer_text signed ty.size value
           else "(err)".toList) } := by
  cases hs : integer_size ty.size with
  | true =>
    cases signed with
    | true =>
      simp only [if_true] at hp
      rw [integer_text_signed]
      rcases integer_size_cases _ hs with h | h | h | h <;>
        simp only [append_ovm_value_with_type, ht, hk, hp, h, if_true, Nat.reduceEqDiff,
          if_false, OfNat.ofNat_ne_one, Nat.reduceMul, reduceCtorEq,
          write_signed b 8 value (by decide), write_signed b 16 value (by decide),
          write_signed b 32 value (by decide), write_signed b 64 value (by decide)]
    | false =>
      simp only [Bool.false_eq_true, if_false] at hp
      rw [integer_text_unsigned]
      rcases integer_size_cases _ hs with h | h | h | h <;>
        simp only [append_ovm_value_with_type, ht, hk, hp, h, if_true, Nat.reduceEqDiff,
          if_false, OfNat.ofNat_ne_one, Nat.reduceMul, reduceCtorEq,
          write_unsigned b 8 value (by decide), write_unsigned b 16 value (by decide),
          write_unsigned b 32 value (by decide), write_unsigned b 64 value (by decide)]
  | false =>
    obtain ⟨h1, h2, h4, h8⟩ := integer_size_not _ hs
    cases signed with
    | true =>
      simp only [if_true] at hp
      simp only [append_ovm_value_with_type, ht, hk, hp, h1, h2, h4, h8, if_false,
        Bool.false_eq_true, WRITE]
    | false =>
      simp only [Bool.false_eq_true, if_false] at hp
      simp only [append_ovm_value_with_type, ht, hk, hp, h1, h2, h4, h8, if_false,
        Bool.false_eq_true, WRITE]

/-- The memory renderer on an integer type with a size of 1, 2, 4 or 8 bytes. -/
theorem memory_integer (libc : Libc) (fuel : Nat) (b : debug_runtime_value_builder_t) (t : Nat)
    (ty : debug_type_info_t) (signed : Bool) (base v : Nat)
    (ht : b.info_types[t]? = some ty) (hk : ty.kind = debug_type_kind_primitive)
    (hp : ty.primitive_kind = if signed then debug_type_primitive_kind_signed_integer
      else debug_type_primitive_kind_unsigned_integer)
    (hs : integer_size ty.size = true)
    (hread : read_memory b.memory base ty.size = DbgRes.ok v) :
    append_value_from_memory_with_type libc (fuel + 1) b base t
      = DbgRes.ok { b with output := b.output ++ integer_text signed ty.size v } := by
  cases signed with
  | true =>
    simp only [if_true] at hp
    rw [integer_text_signed]
    rcases integer_size_cases _ hs with h | h | h | h <;> rw [h] at hread <;>
      simp only [append_value_from_memory_with_type, ht, hk, hp, h, if_true, Nat.reduceEqDiff,
        if_false, OfNat.ofNat_ne_one, Nat.reduceMul, reduceCtorEq, hread, dbg_bind_ok,
        write_signed b 8 v (by decide), write_signed b 16 v (by decide),
        write_signed b 32 v (by decide), write_signed b 64 v (by decide)]
  | false =>
    simp only [Bool.false_eq_true, if_false] at hp
    rw [integer_text_unsigned]
    rcases integer_size_cases _ hs with h | h | h | h <;> rw [h] at hread <;>
      simp only [append_value_from_memory_with_type, ht, hk, hp, h, if_true, Nat.reduceEqDiff,
        if_false, OfNat.ofNat_ne_one, Nat.reduceMul, reduceCtorEq, hread, dbg_bind_ok,
        write_unsigned b 8 v (by decide), write_unsigned b 16 v (by decide),
        write_unsigned b 32 v (by decide), write_unsigned b 64 v (by decide)]

/-- The memory renderer on an integer type of any other size. -/
theorem memory_integer_err (libc : Libc) (fuel : Nat) (b : debug_runtime_value_builder_t)
    (t : Nat) (ty : debug_type_info_t) (signed : Bool) (base : Nat)
    (ht : b.info_types[t]? = some ty) (hk : ty.kind = debug_type_kind_primitive)
    (hp : ty.primitive_kind = if signed then debug_type_primitive_kind_signed_integer
      else debug_type_primitive_kind_unsigned_integer)
    (hs : integer_size ty.size = false) :
    append_value_from_memory_with_type libc (fuel + 1) b base t
      = DbgRes.ok { b with output := b.output ++ "(err)".toList } := by
  obtain ⟨h1, h2, h4, h8⟩ := integer_size_not _ hs
  cases signed with
  | true =>
    simp only [if_true] at hp
    simp only [append_value_from_memory_with_type, ht, hk, hp, h1, h2, h4, h8, if_false, WRITE]
  | false =>
    simp only [Bool.false_eq_true, if_false] at hp
    simp only [append_value_from_memory_with_type, ht, hk, hp, h1, h2, h4, h8, if_false, WRITE]

/-- C24: for a signed-integer or unsigned-integer primitive type of `size` bytes, the
renderer from memory appends the decimal representation of the `size` bytes stored at the
address, read as a two's-complement number (signed) or as a natural number (unsigned), when
`size` is 1, 2, 4 or 8, and `(err)` for any other size; the renderer of a register value
appends the decimal representation of the low `size` bytes of the value in the same way, and
`(err)` for any other size; `append_value_from_register` does so with the value of the
register. -/
theorem integer_rendering (libc : Libc) (fuel : Nat) (b : debug_runtime_value_builder_t)
    (t : Nat) (ty : debug_type_info_t) (signed : Bool)
    (ht : b.info_types[t]? = some ty) (hk : ty.kind = debug_type_kind_primitive)
    (hp : ty.primitive_kind = if signed then debug_type_primitive_kind_signed_integer
      else debug_type_primitive_kind_unsigned_integer) :
    (∀ base v, integer_size ty.size = true →
      read_memory b.memory base ty.size = DbgRes.ok v →
      append_value_from_memory_with_type libc (fuel + 1) b base t
        = DbgRes.ok { b with output := b.output ++ integer_text signed ty.size v })
    ∧ (∀ base, integer_size ty.size = false →
      append_value_from_memory_with_type libc (fuel + 1) b base t
        = DbgRes.ok { b with output := b.output ++ "(err)".toList })
    ∧ (∀ value, append_ovm_value_with_type libc (fuel + 1) b value t
        = DbgRes.ok { b with output := b.output ++
            (if integer_size ty.size then integer_text signed ty.size value
             else "(err)".toList) })
    ∧ (∀ reg value, lookup_register_in_frame b.ovm_state b.ovm_frame reg = DbgRes.ok value →
      append_value_from_register libc (fuel + 1) b reg t
        = DbgRes.ok { b with output := b.output ++
            (if integer_size ty.size then integer_text signed ty.size value
             else "(err)".toList) }) := by
  refine ⟨fun base v hs hread => memory_integer libc fuel b t ty signed base v ht hk hp hs hread,
    fun base hs => memory_integer_err libc fuel b t ty signed base ht hk hp hs,
    fun value => ovm_integer libc fuel b t ty signed value ht hk hp, ?_⟩
  intro reg value hreg
  have hne : ¬ (ty.kind = debug_type_kind_structure) := by rw [hk]; decide
  simp only [append_value_from_register, ht, hne, if_false, hreg, dbg_bind_ok]
  exact ovm_integer libc fuel b t ty signed value ht hk hp

/-- Witness of C24: over `sample_types` the type 0 is `u32`; the four bytes 12 0 0 0 at the
address 8 render as `12`, the register 3 with the value 16 renders as `16`. -/
theorem integer_rendering_witness :
    append_value_from_memory_with_type sample_libc 1 sample_builder 8 0
      = DbgRes.ok { sample_builder with output := sample_builder.output ++ "12".toList }
    ∧ append_value_from_register sample_libc 1 sample_builder 3 0
      = DbgRes.ok { sample_builder with output := sample_builder.output ++ "16".toList } :=
  ⟨(integer_rendering sample_libc 0 sample_builder 0
      { id := 0, kind := debug_type_kind_primitive, size := 4,
        primitive_kind := debug_type_primitive_kind_unsigned_integer } false
      (by decide) (by decide) (by decide)).1 8 12 (by decide) (by decide),
   (integer_rendering sample_libc 0 sample_builder 0
      { id := 0, kind := debug_type_kind_primitive, size := 4,
        primitive_kind := debug_type_primitive_kind_unsigned_integer } false
      (by decide) (by decide) (by decide)).2.2.2 3 16 (by decide)⟩

end Onyx
namespace Onyx

open debug_type_kind_t debug_type_primitive_kind_t debug_type_modifier_kind_t
  debug_sym_loc_kind_t

/-! ## Structures and arrays -/

theorem intercalate_cons {α : Type} (sep x : List α) (r : List (List α)) :
    List.intercalate sep (x :: r) = x ++ (r.map (fun it => sep ++ it)).flatten := by
  induction r generalizing x with
  | nil => simp [List.intercalate]
  | cons y r ih =>
    have h := ih y
    simp only [List.intercalate, List.intersperse, List.flatten_cons, List.map_cons] at h ⊢
    rw [h]
    simp

/-- The text that a loop over items appends from the index `i` on: a separator stands
before every item but the one of index 0. -/
theorem loop_text_cons {α : Type} (sep x : List α) (r : List (List α)) (i : Nat) :
    (if i ≠ 0 then sep else []) ++ x ++ (r.map (fun it => sep ++ it)).flatten
      = if i = 0 then List.intercalate sep (x :: r)
        else ((x :: r).map (fun it => sep ++ it)).flatten := by
  by_cases h : i = 0
  · simp only [h, ne_eq, not_true_eq_false, if_false, if_true, List.nil_append, intercalate_cons]
  · simp only [h, ne_eq, not_false_eq_true, if_true, if_false, List.map_cons, List.flatten_cons,
      List.append_assoc]

theorem loop_bound_small (count : Nat) (h : count < 2 ^ 31) : loop_bound count = count := by
  have h1 : count % 2 ^ 32 = count := Nat.mod_eq_of_lt (by omega)
  simp only [loop_bound, h1, h, if_true]

theorem same_machine_write (b b1 : debug_runtime_value_builder_t) (h : same_machine b b1)
    (o : List Char) : same_machine b { b1 with output := o } := h

/-- The member loop of the structure case of the memory renderer, from the index `i` on. -/
theorem members_loop (libc : Libc) (fuel : Nat) (b : debug_runtime_value_builder_t)
    (base : Nat) (ty : debug_type_info_t)
    (hc : ty.member_count = ty.members.length) (hb : ty.member_count < 2 ^ 31)
    (hnames : ∀ mem ∈ ty.members, mem.name.length + 1 < 4096) :
    ∀ (mems : List debug_type_structure_member_t) (texts : List (List Char)) (i : Nat)
      (b1 : debug_runtime_value_builder_t),
      ty.members.drop i = mems → texts.length = mems.length → same_machine b b1 →
      (∀ (j : Nat) (mem : debug_type_structure_member_t) (text : List Char),
        mems[j]? = some mem → texts[j]? = some text →
        memory_text libc fuel b (base + mem.offset) mem.type = some text) →
      append_members_from_memory libc (fuel + mems.length + 1) b1 base ty i
        = DbgRes.ok { b1 with output := b1.output ++
            (if i = 0 then
              List.intercalate ", ".toList
                (List.zipWith (fun mem text => mem.name ++ "=".toList ++ text) mems texts)
             else
              ((List.zipWith (fun mem text => mem.name ++ "=".toList ++ text) mems texts).map
                (fun it => ", ".toList ++ it)).flatten) } := by
  intro mems
  induction mems with
  | nil =>
    intro texts i b1 hdrop hlen _ _
    have hi : ty.members.length ≤ i := List.drop_eq_nil_iff_le.1 hdrop
    have hnot : ¬ (i < loop_bound ty.member_count) := by
      rw [loop_bound_small _ hb, hc]; omega
    simp only [List.length_nil, Nat.add_zero, append_members_from_memory, hnot, if_false,
      List.zipWith_nil_left, List.intercalate, List.intersperse, List.flatten_nil, List.map_nil,
      ite_self, List.append_nil]
  | cons mem rest ih =>
    intro texts i b1 hdrop hlen hm htexts
    cases texts with
    | nil => simp at hlen
    | cons text texts =>
      simp only [List.length_cons, Nat.add_right_cancel_iff] at hlen
      have hilt : i < ty.members.length := by
        by_contra hn
        rw [List.drop_eq_nil_iff_le.2 (by omega)] at hdrop
        exact List.noConfusion hdrop
      have hmem : ty.members[i]? = some mem := by
        have := congrArg (fun l => l[0]?) hdrop
        simpa [List.getElem?_drop] using this
      have hrest : ty.members.drop (i + 1) = rest := by
        have := congrArg List.tail hdrop
        simpa [List.tail_drop] using this
      have hcond : i < loop_bound ty.member_count := by
        rw [loop_bound_small _ hb, hc]; exact hilt
      have hname : (mem.name ++ "=".toList).length < 4096 := by
        have := hnames mem (List.getElem?_mem hmem)
        simp only [List.length_append]
        exact this
      have htext := htexts 0 mem text (List.getElem?_cons_zero ..) (List.getElem?_cons_zero ..)
      have e : fuel + (mem :: rest).length + 1 = (fuel + rest.length + 1) + 1 := by
        simp only [List.length_cons]; omega
      rw [e, append_members_from_memory]
      simp only [hcond, if_true, hmem]
      have hstep : ∀ b2 : debug_runtime_value_builder_t, same_machine b b2 →
          (WRITE_FORMAT b2 (mem.name ++ "=".toList) >>= fun b3 =>
            append_value_from_memory_with_type libc (fuel + rest.length + 1) b3
              (base + mem.offset) mem.type >>= fun b4 =>
            append_members_from_memory libc (fuel + rest.length + 1) b4 base ty (i + 1))
          = DbgRes.ok { b2 with output := b2.output ++ (mem.name ++ "=".toList ++ text) ++
              ((List.zipWith (fun mem text => mem.name ++ "=".toList ++ text) rest texts).map
                (fun it => ", ".toList ++ it)).flatten } := by
        intro b2 hm2
        rw [write_format_short _ _ hname, dbg_bind_ok]
        have hrun := memory_text_run libc fuel b
          { b2 with output := b2.output ++ (mem.name ++ "=".toList) }
          (base + mem.offset) mem.type text htext hm2
        rw [memory_fuel libc (by omega) _ _ _ _ hrun, dbg_bind_ok]
        have hih := ih texts (i + 1)
          { b2 with output := b2.output ++ (mem.name ++ "=".toList) ++ text }
          hrest hlen hm2
          (fun j mem1 text1 h1 h2 => htexts (j + 1) mem1 text1 (by simpa using h1)
            (by simpa using h2))
        rw [hih]
        simp only [Nat.add_one_ne_zero, if_false, List.append_assoc]
      by_cases hi0 : i = 0
      · subst hi0
        simp only [ne_eq, not_true_eq_false, if_false, dbg_bind_ok, if_true]
        refine (hstep b1 hm).trans ?_
        rw [List.zipWith_cons_cons, intercalate_cons]
        simp only [List.append_assoc]
      · simp only [ne_eq, hi0, not_false_eq_true, if_true, if_false, WRITE, dbg_bind_ok]
        refine (hstep { b1 with output := b1.output ++ ", ".toList } hm).trans ?_
        rw [List.zipWith_cons_cons]
        simp only [List.map_cons, List.flatten_cons, List.append_assoc]

theorem items_zip (mems : List debug_type_structure_member_t) :
    ∀ texts : List (List Char),
      ((List.zip (mems.map (fun mem => mem.name)) texts).map
          (fun it => it.1 ++ "=".toList ++ it.2))
        = List.zipWith (fun mem text => mem.name ++ "=".toList ++ text) mems texts := by
  induction mems with
  | nil => intro texts; rfl
  | cons mem rest ih =>
    intro texts
    cases texts with
    | nil => rfl
    | cons text texts =>
      simp only [List.map_cons, List.zip_cons_cons, List.zipWith_cons_cons, ih]

/-- The structure case of the memory renderer on a builder over the machine of `b`. -/
theorem memory_structure (libc : Libc) (fuel : Nat) (b : debug_runtime_value_builder_t)
    (A type : Nat) (ty : debug_type_info_t) (texts : List (List Char))
    (hty : b.info_types[type]? = some ty) (hk : ty.kind = debug_type_kind_structure)
    (hc : ty.member_count = ty.members.length) (hb : ty.member_count < 2 ^ 31)
    (hnames : ∀ mem ∈ ty.members, mem.name.length + 1 < 4096)
    (hlen : texts.length = ty.members.length)
    (htexts : ∀ (j : Nat) (mem : debug_type_structure_member_t) (text : List Char),
      ty.members[j]? = some mem → texts[j]? = some text →
      memory_text libc fuel b (A + mem.offset) mem.type = some text)
    (F : Nat) (hF : fuel + ty.members.length + 2 ≤ F)
    (b1 : debug_runtime_value_builder_t) (hm : same_machine b b1) :
    append_value_from_memory_with_type libc F b1 A type
      = DbgRes.ok { b1 with output := (b1.output ++
          structure_text (List.zip (ty.members.map (fun mem => mem.name)) texts)) } := by
  refine memory_fuel libc hF _ _ _ _ ?_
  have hty1 : b1.info_types[type]? = some ty := by rw [hm.1]; exact hty
  have e : fuel + ty.members.length + 2 = (fuel + ty.members.length + 1) + 1 := rfl
  rw [e, append_value_from_memory_with_type]
  simp only [hty1, hk, WRITE, dbg_bind_ok]
  rw [members_loop libc fuel b A ty hc hb hnames ty.members texts 0
    { b1 with output := b1.output ++ "\x7b ".toList } (List.drop_zero _) hlen hm htexts]
  rw [structure_text, items_zip]
  simp only [if_true, dbg_bind_ok, List.append_assoc]

theorem subvalues_structure (fuel : Nat) (b : debug_runtime_value_builder_t) (type : Nat)
    (ty : debug_type_info_t) (hty : b.info_types[type]? = some ty)
    (hk : ty.kind = debug_type_kind_structure) :
    get_subvalues_for_type (fuel + 1) b type = DbgRes.ok ty.member_count := by
  rw [get_subvalues_for_type]
  simp only [hty, hk]

theorem same_machine_located (b : debug_runtime_value_builder_t)
    (loc_kind : debug_sym_loc_kind_t) (loc type : Nat) (name : List Char) (n : Nat) :
    same_machine b (located b loc_kind loc type name n) := ⟨rfl, rfl, rfl, rfl, rfl⟩

/-- C22 (amended): a structure type with fewer than `2 ^ 31` members (`member_count` is
the number of members) whose names have at most 4094 characters, so that every `name=`
fits the format buffer, located in memory at the address `A`: when `texts` are the
renderings of the member types at the addresses `A + offset`, the memory renderer and
`build_string` after
`set_location` at the global address `A`, or at a stack offset `o` with
`stack_ptr + o = A` in `u32` arithmetic, return and append the opening brace and a blank,
the items `name=text` in declaration order separated by a comma and a blank, a blank and the
closing brace. -/
theorem structure_rendering (libc : Libc) (fuel : Nat) (b : debug_runtime_value_builder_t)
    (A type : Nat) (ty : debug_type_info_t) (texts : List (List Char)) (name : List Char)
    (hty : b.info_types[type]? = some ty) (hk : ty.kind = debug_type_kind_structure)
    (hc : ty.member_count = ty.members.length) (hb : ty.member_count < 2 ^ 31)
    (hnames : ∀ mem ∈ ty.members, mem.name.length + 1 < 4096)
    (hlen : texts.length = ty.members.length)
    (htexts : ∀ (j : Nat) (mem : debug_type_structure_member_t) (text : List Char),
      ty.members[j]? = some mem → texts[j]? = some text →
      memory_text libc fuel b (A + mem.offset) mem.type = some text)
    (F : Nat) (hF : fuel + ty.members.length + 2 ≤ F) :
    append_value_from_memory_with_type libc F b A type
      = DbgRes.ok { b with output := (b.output ++
          structure_text (List.zip (ty.members.map (fun mem => mem.name)) texts)) }
    ∧ (debug_runtime_value_build_set_location F b debug_sym_loc_global A type name
          >>= debug_runtime_value_build_string libc F)
      = DbgRes.ok { located b debug_sym_loc_global A type name ty.member_count with
          output := (b.output ++
            structure_text (List.zip (ty.members.map (fun mem => mem.name)) texts)) }
    ∧ ∀ stack_ptr o : Nat, lookup_stack_pointer b = DbgRes.ok stack_ptr →
        (stack_ptr + o) % 2 ^ 32 = A →
        (debug_runtime_value_build_set_location F b debug_sym_loc_stack o type name
            >>= debug_runtime_value_build_string libc F)
          = DbgRes.ok { located b debug_sym_loc_stack o type name ty.member_count with
              output := (b.output ++
                structure_text (List.zip (ty.members.map (fun mem => mem.name)) texts)) } := by
  have hrun := memory_structure libc fuel b A type ty texts hty hk hc hb hnames hlen htexts F hF
  obtain ⟨F1, rfl⟩ : ∃ F1, F = F1 + 1 := ⟨F - 1, by omega⟩
  have hsub := subvalues_structure F1 b type ty hty hk
  refine ⟨hrun b ⟨rfl, rfl, rfl, rfl, rfl⟩, ?_, ?_⟩
  · rw [set_location_run _ _ _ _ _ _ _ hsub, dbg_bind_ok]
    have h := hrun (located b debug_sym_loc_global A type name ty.member_count)
      (same_machine_located ..)
    simp only [debug_runtime_value_build_string, located] at h ⊢
    simp only [reduceCtorEq, if_false, if_true]
    exact h
  · intro stack_ptr o hsp hA
    subst hA
    rw [set_location_run _ _ _ _ _ _ _ hsub, dbg_bind_ok]
    have h := hrun (located b debug_sym_loc_stack o type name ty.member_count)
      (same_machine_located ..)
    have hsp1 : lookup_stack_pointer (located b debug_sym_loc_stack o type name ty.member_count)
        = DbgRes.ok stack_ptr := hsp
    simp only [debug_runtime_value_build_string, append_value_from_stack, hsp1, dbg_bind_ok]
    simp only [located] at h ⊢
    simp only [reduceCtorEq, if_false, if_true]
    exact h

/-- Witness of C22: the scenario of the specification.  Over `render_types` the type 4 is
`T0` with the members `a` (a `u32` at 0) and `b` (a `u32` at 4); the stack pointer is 1024,
the bytes 1 0 0 0 2 0 0 0 stand at the address 1040; after `set_location(stack, 16, T0, p)`
the text of `build_string` is the structure of `a=1` and `b=2`. -/
theorem structure_rendering_witness :
    (debug_runtime_value_build_set_location 5 render_builder debug_sym_loc_stack 16 4 "p".toList
        >>= debug_runtime_value_build_string sample_libc 5)
      = DbgRes.ok { located render_builder debug_sym_loc_stack 16 4 "p".toList 2 with
          output := "\x7b a=1, b=2 \x7d".toList } :=
  (structure_rendering sample_libc 1 render_builder 1040 4
      { id := 4, kind := debug_type_kind_structure, size := 8, member_count := 2,
        members := [ { name := "a".toList, offset := 0, type := 0 },
                     { name := "b".toList, offset := 4, type := 0 } ] }
      ["1".toList, "2".toList] "p".toList (by decide) (by decide) (by decide) (by decide)
      (by decide) (by decide)
      (by
        intro j mem text hj ht
        match j, hj, ht with
        | 0, hj, ht =>
          cases hj; cases ht; decide!
        | 1, hj, ht =>
          cases hj; cases ht; decide!
        | j + 2, hj, _ => cases hj)
      5 (by decide)).2.2 1024 16 (by decide) (by decide)

end Onyx
namespace Onyx

open debug_type_kind_t debug_type_primitive_kind_t debug_type_modifier_kind_t
  debug_sym_loc_kind_t

/-- The element loop of the array case of the memory renderer, from the index `i` on. -/
theorem elements_loop (libc : Libc) (fuel : Nat) (b : debug_runtime_value_builder_t)
    (A : Nat) (ty ety : debug_type_info_t) (texts : List (List Char))
    (hb : ty.array_count < 2 ^ 31) (hlen : texts.length = ty.array_count)
    (htexts : ∀ (i : Nat) (text : List Char), texts[i]? = some text →
      memory_text libc fuel b (A + i * ety.size) ety.id = some text) :
    ∀ (rest : List (List Char)) (i : Nat) (b1 : debug_runtime_value_builder_t),
      texts.drop i = rest → same_machine b b1 →
      append_elements_from_memory libc (fuel + rest.length + 1) b1 A ty ety i
        = DbgRes.ok { b1 with output := b1.output ++
            (if i = 0 then List.intercalate ", ".toList rest
             else (rest.map (fun it => ", ".toList ++ it)).flatten) } := by
  intro rest
  induction rest with
  | nil =>
    intro i b1 hdrop _
    have hi : texts.length ≤ i := List.drop_eq_nil_iff_le.1 hdrop
    have hnot : ¬ (i < loop_bound ty.array_count) := by
      rw [loop_bound_small _ hb, ← hlen]; omega
    simp only [List.length_nil, Nat.add_zero, append_elements_from_memory, hnot, if_false,
      List.intercalate, List.intersperse, List.flatten_nil, List.map_nil,
      ite_self, List.append_nil]
  | cons text rest ih =>
    intro i b1 hdrop hm
    have hilt : i < texts.length := by
      by_contra hn
      rw [List.drop_eq_nil_iff_le.2 (by omega)] at hdrop
      exact List.noConfusion hdrop
    have hget : texts[i]? = some text := by
      have := congrArg (fun l => l[0]?) hdrop
      simpa [List.getElem?_drop] using this
    have hrest : texts.drop (i + 1) = rest := by
      have := congrArg List.tail hdrop
      simpa [List.tail_drop] using this
    have hcond : i < loop_bound ty.array_count := by
      rw [loop_bound_small _ hb, ← hlen]; exact hilt
    have htext := htexts i text hget
    have e : fuel + (text :: rest).length + 1 = (fuel + rest.length + 1) + 1 := by
      simp only [List.length_cons]; omega
    rw [e, append_elements_from_memory]
    simp only [hcond, if_true]
    have hstep : ∀ b2 : debug_runtime_value_builder_t, same_machine b b2 →
        (append_value_from_memory_with_type libc (fuel + rest.length + 1) b2
            (A + i * ety.size) ety.id >>= fun b3 =>
          append_elements_from_memory libc (fuel + rest.length + 1) b3 A ty ety (i + 1))
        = DbgRes.ok { b2 with output := b2.output ++ text ++
            (rest.map (fun it => ", ".toList ++ it)).flatten } := by
      intro b2 hm2
      have hrun := memory_text_run libc fuel b b2 (A + i * ety.size) ety.id text htext hm2
      rw [memory_fuel libc (by omega) _ _ _ _ hrun, dbg_bind_ok]
      have hih := ih (i + 1) { b2 with output := b2.output ++ text } hrest hm2
      rw [hih]
      simp only [Nat.add_one_ne_zero, if_false, List.append_assoc]
    by_cases hi0 : i = 0
    · subst hi0
      simp only [ne_eq, not_true_eq_false, if_false, dbg_bind_ok, if_true]
      refine (hstep b1 hm).trans ?_
      rw [intercalate_cons]
      simp only [List.append_assoc]
    · simp only [ne_eq, hi0, not_false_eq_true, if_true, if_false, WRITE, dbg_bind_ok]
      refine (hstep { b1 with output := b1.output ++ ", ".toList } hm).trans ?_
      simp only [List.map_cons, List.flatten_cons, List.append_assoc]

/-- The array case of the memory renderer on a builder over the machine of `b`. -/
theorem memory_array (libc : Libc) (fuel : Nat) (b : debug_runtime_value_builder_t)
    (A type : Nat) (ty ety : debug_type_info_t) (texts : List (List Char))
    (hty : b.info_types[type]? = some ty) (hk : ty.kind = debug_type_kind_array)
    (hety : b.info_types[ty.array_type]? = some ety)
    (hb : ty.array_count < 2 ^ 31) (hlen : texts.length = ty.array_count)
    (htexts : ∀ (i : Nat) (text : List Char), texts[i]? = some text →
      memory_text libc fuel b (A + i * ety.size) ety.id = some text)
    (F : Nat) (hF : fuel + ty.array_count + 2 ≤ F)
    (b1 : debug_runtime_value_builder_t) (hm : same_machine b b1) :
    append_value_from_memory_with_type libc F b1 A type
      = DbgRes.ok { b1 with output := b1.output ++ array_text texts } := by
  refine memory_fuel libc hF _ _ _ _ ?_
  have hty1 : b1.info_types[type]? = some ty := by rw [hm.1]; exact hty
  have hety1 : b1.info_types[ty.array_type]? = some ety := by rw [hm.1]; exact hety
  have e : fuel + ty.array_count + 2 = (fuel + texts.length + 1) + 1 := by rw [hlen]
  rw [e, append_value_from_memory_with_type]
  simp only [hty1, hk, WRITE, dbg_bind_ok, hety1]
  rw [elements_loop libc fuel b A ty ety texts hb hlen htexts texts 0
    { b1 with output := b1.output ++ "[".toList } (List.drop_zero _) hm]
  simp only [if_true, dbg_bind_ok, array_text, List.append_assoc]

theorem subvalues_array (fuel : Nat) (b : debug_runtime_value_builder_t) (type : Nat)
    (ty : debug_type_info_t) (hty : b.info_types[type]? = some ty)
    (hk : ty.kind = debug_type_kind_array) :
    get_subvalues_for_type (fuel + 1) b type = DbgRes.ok 0 := by
  rw [get_subvalues_for_type]
  simp only [hty, hk]

/-- C23 (amended): an array type with a count below `2 ^ 31`, the bound of the loop
(the element type `ety` stands in the table under its own id), held in a
register with the value `value`, `A` being its low 32 bits: when `texts` are the renderings
of the element type at the addresses `A + i * ety.size`, `build_string` after
`set_location` at the register returns and appends the opening bracket, the texts in order
separated by a comma and a blank, and the closing bracket; `build_string` after
`set_location` at the global address `A` appends the same text. -/
theorem array_rendering (libc : Libc) (fuel : Nat) (b : debug_runtime_value_builder_t)
    (reg value type : Nat) (ty ety : debug_type_info_t) (texts : List (List Char))
    (name : List Char)
    (hty : b.info_types[type]? = some ty) (hk : ty.kind = debug_type_kind_array)
    (hety : b.info_types[ty.array_type]? = some ety) (hid : ety.id = ty.array_type)
    (hb : ty.array_count < 2 ^ 31) (hlen : texts.length = ty.array_count)
    (hreg : lookup_register_in_frame b.ovm_state b.ovm_frame reg = DbgRes.ok value)
    (htexts : ∀ (i : Nat) (text : List Char), texts[i]? = some text →
      memory_text libc fuel b (value % 2 ^ 32 + i * ety.size) ty.array_type = some text)
    (F : Nat) (hF : fuel + ty.array_count + 3 ≤ F) :
    (debug_runtime_value_build_set_location F b debug_sym_loc_register reg type name
        >>= debug_runtime_value_build_string libc F)
      = DbgRes.ok { located b debug_sym_loc_register reg type name 0 with
          output := b.output ++ array_text texts }
    ∧ (debug_runtime_value_build_set_location F b debug_sym_loc_global (value % 2 ^ 32) type name
        >>= debug_runtime_value_build_string libc F)
      = DbgRes.ok { located b debug_sym_loc_global (value % 2 ^ 32) type name 0 with
          output := b.output ++ array_text texts } := by
  obtain ⟨F1, rfl⟩ : ∃ F1, F = F1 + 1 := ⟨F - 1, by omega⟩
  have htexts1 : ∀ (i : Nat) (text : List Char), texts[i]? = some text →
      memory_text libc fuel b (value % 2 ^ 32 + i * ety.size) ety.id = some text := by
    rw [hid]; exact htexts
  have hrun := memory_array libc fuel b (value % 2 ^ 32) type ty ety texts hty hk hety hb hlen
    htexts1
  have hsub := subvalues_array F1 b type ty hty hk
  have hns : ¬ (ty.kind = debug_type_kind_structure) := by rw [hk]; exact fun h => nomatch h
  refine ⟨?_, ?_⟩
  · rw [set_location_run _ _ _ _ _ _ _ hsub, dbg_bind_ok]
    have h := hrun F1 (by omega) (located b debug_sym_loc_register reg type name 0)
      (same_machine_located ..)
    have hty1 : (located b debug_sym_loc_register reg type name 0).info_types[type]? = some ty :=
      hty
    have hreg1 : lookup_register_in_frame
        (located b debug_sym_loc_register reg type name 0).ovm_state
        (located b debug_sym_loc_register reg type name 0).ovm_frame reg = DbgRes.ok value := hreg
    have e1 : (located b debug_sym_loc_register reg type name 0).it_loc_kind
        = debug_sym_loc_register := rfl
    have e2 : (located b debug_sym_loc_register reg type name 0).it_loc = reg := rfl
    have e3 : (located b debug_sym_loc_register reg type name 0).it_type = type := rfl
    rw [debug_runtime_value_build_string, if_pos e1, e2, e3, append_value_from_register]
    simp only [hty1, hns, if_false, hreg1, dbg_bind_ok]
    rw [append_ovm_value_with_type]
    simp only [hty1, hk]
    exact h
  · rw [set_location_run _ _ _ _ _ _ _ hsub, dbg_bind_ok]
    have h := hrun (F1 + 1) (by omega)
      (located b debug_sym_loc_global (value % 2 ^ 32) type name 0) (same_machine_located ..)
    simp only [debug_runtime_value_build_string, located] at h ⊢
    simp only [reduceCtorEq, if_false, if_true]
    exact h

/-- Witness of C23: the scenario of the specification.  Over `render_types` the type 3 is
the array of three `u8`; the register 0 holds 2048 and the bytes 0x41 0x42 0x43 stand at
the address 2048; after `set_location(register, 0, T, s)` the text of `build_string` is the
list of 65, 66 and 67. -/
theorem array_rendering_witness :
    (debug_runtime_value_build_set_location 7 render_builder debug_sym_loc_register 0 3
        "s".toList >>= debug_runtime_value_build_string sample_libc 7)
      = DbgRes.ok { located render_builder debug_sym_loc_register 0 3 "s".toList 0 with
          output := "[65, 66, 67]".toList } :=
  (array_rendering sample_libc 1 render_builder 0 2048 3
      { id := 3, kind := debug_type_kind_array, size := 3, array_type := 2, array_count := 3 }
      { id := 2, kind := debug_type_kind_primitive, size := 1,
        primitive_kind := debug_type_primitive_kind_unsigned_integer }
      ["65".toList, "66".toList, "67".toList] "s".toList
      (by decide) (by decide) (by decide) (by decide) (by decide) (by decide) (by decide)
      (by
        intro i text hi
        match i, hi with
        | 0, hi => cases hi; decide!
        | 1, hi => cases hi; decide!
        | 2, hi => cases hi; decide!
        | i + 3, hi => cases hi)
      7 (by decide)).1

/-! ## Aliases of structures in registers, and function values -/

/-- C21: over `render_types` the type 5 is an alias of the structure `T0` (type 4) of
the members `a` and `b`; the registers 3 and 4 hold 1 and 2.  After
`set_location(register, 3, T0, p)` the text of `build_string` is the structure of `a=1` and
`b=2`; after `set_location(register, 3, alias, p)` it is `1`: the register renderer tests the
kind of the type before it resolves the alias, and the value renderer then shows the first
member only.  From the stack both types give the same text. -/
theorem alias_of_register_structure :
    render_builder.info_types[5]?
      = some { id := 5, kind := debug_type_kind_alias, size := 8, aliased_type := 4 }
    ∧ (debug_runtime_value_build_set_location 8 render_builder debug_sym_loc_register 3 4
          "p".toList >>= debug_runtime_value_build_string sample_libc 8)
      = DbgRes.ok { located render_builder debug_sym_loc_register 3 4 "p".toList 2 with
          output := "\x7b a=1, b=2 \x7d".toList }
    ∧ (debug_runtime_value_build_set_location 8 render_builder debug_sym_loc_register 3 5
          "p".toList >>= debug_runtime_value_build_string sample_libc 8)
      = DbgRes.ok { located render_builder debug_sym_loc_register 3 5 "p".toList 2 with
          output := "1".toList }
    ∧ (debug_runtime_value_build_set_location 8 render_builder debug_sym_loc_stack 16 5
          "p".toList >>= debug_runtime_value_build_string sample_libc 8)
      = DbgRes.ok { located render_builder debug_sym_loc_stack 16 5 "p".toList 2 with
          output := "\x7b a=1, b=2 \x7d".toList } := by
  decide!

/-- C25: over `render_types` the type 1 is a function type; the register 2 holds
`2 ^ 32 - 1` and the four bytes at the address 2051 are 0xff.  The register renderer and the
memory renderer both append `func[-1]`: the conversion `%d` prints the 32 bits as a signed
number; the register 0 with the value 2048 renders as `func[2048]`. -/
theorem function_value_signed :
    render_builder.info_types[1]? = some { id := 1, kind := debug_type_kind_function, size := 4 }
    ∧ lookup_register_in_frame render_builder.ovm_state render_builder.ovm_frame 2
      = DbgRes.ok 4294967295
    ∧ read_memory render_builder.memory 2051 4 = DbgRes.ok 4294967295
    ∧ append_value_from_register sample_libc 1 render_builder 2 1
      = DbgRes.ok { render_builder with output := "func[-1]".toList }
    ∧ append_value_from_memory_with_type sample_libc 1 render_builder 2051 1
      = DbgRes.ok { render_builder with output := "func[-1]".toList }
    ∧ append_value_from_register sample_libc 1 render_builder 0 1
      = DbgRes.ok { render_builder with output := "func[2048]".toList } := by
  decide!

end Onyx
namespace Onyx

open TokenType AstKind BinaryOp UnaryOp BasicKind OnyxMessageType

/-! ## The cursor over comments -/

/-- What `skip_comments` finds from the index `i` on: the first token that is not a
comment, behind comments only. -/
theorem skip_comments_first (tokens : List OnyxToken) :
    ∀ (n i c : Nat), tokens.length - i = n → skip_comments (tokens.drop i) i = some c →
      i ≤ c ∧ (∃ t, tokens[c]? = some t ∧ t.type ≠ Token_Type_Comment)
        ∧ ∀ j, i ≤ j → j < c → ∃ t, tokens[j]? = some t ∧ t.type = Token_Type_Comment := by
  intro n
  induction n with
  | zero =>
    intro i c hn h
    rw [List.drop_eq_nil_iff_le.2 (by omega)] at h
    exact Option.noConfusion h
  | succ n ih =>
    intro i c hn h
    have hlt : i < tokens.length := by omega
    rw [List.drop_eq_getElem_cons hlt] at h
    unfold skip_comments at h
    by_cases hci : tokens[i].type = Token_Type_Comment
    · simp only [hci, if_true] at h
      obtain ⟨h1, h2, h3⟩ := ih (i + 1) c (by omega) h
      refine ⟨by omega, h2, ?_⟩
      intro j hij hjc
      by_cases hji : j = i
      · subst hji
        exact ⟨tokens[j], List.getElem?_eq_getElem hlt, hci⟩
      · exact h3 j (by omega) hjc
    · simp only [hci, if_false, Option.some.injEq] at h
      subst h
      exact ⟨le_refl _, ⟨tokens[i], List.getElem?_eq_getElem hlt, hci⟩,
        fun j hij hjc => absurd hjc (by omega)⟩

/-- The backward scan of `unconsume_token` from `p` over comments stops at the token `h`
that is not a comment. -/
theorem rewind_comments_back (tokens : List OnyxToken) (h : Nat) (th : OnyxToken)
    (hh : tokens[h]? = some th) (hc : th.type ≠ Token_Type_Comment) :
    ∀ p, h ≤ p →
      (∀ j, h < j → j ≤ p → ∃ t, tokens[j]? = some t ∧ t.type = Token_Type_Comment) →
      rewind_comments tokens p = some h := by
  intro p
  induction p with
  | zero =>
    intro hp _
    have : h = 0 := by omega
    subst this
    exact rewind_comments_self tokens 0 th hh hc
  | succ p ih =>
    intro hp hall
    by_cases hhp : h = p + 1
    · subst hhp
      exact rewind_comments_self tokens _ th hh hc
    · obtain ⟨t, ht, htc⟩ := hall (p + 1) (by omega) (le_refl _)
      simp only [rewind_comments, ht, htc, if_true]
      exact ih (by omega) (fun j h1 h2 => hall j h1 (by omega))

theorem unconsume_token_back (s : OnyxParser) (p h : Nat) (th : OnyxToken)
    (hprev : s.prev = some (p : Int)) (hh : s.tokens[h]? = some th)
    (hc : th.type ≠ Token_Type_Comment) (hp : h ≤ p)
    (hall : ∀ j, h < j → j ≤ p → ∃ t, s.tokens[j]? = some t ∧ t.type = Token_Type_Comment) :
    unconsume_token s = Res.ok () { s with curr := h, prev := some ((h : Int) - 1) } := by
  have e : s.prev = some (Int.ofNat p) := hprev
  simp only [unconsume_token, e, rewind_comments_back s.tokens h th hh hc p hp hall]

/-- C30: `parse_possible_directive(d)` in a cursor state whose current token is `t`.
When `t` is not `#` it returns false and the state is unchanged.  When `t` is `#`, followed
behind comments only by a symbol token `sym` at the index `k`, itself followed behind
comments only by the token at the index `c`: if the text of `sym` is `d` it returns true
with the cursor at `c`, the first token behind `sym` that is not a comment; otherwise it
returns false with the cursor on the same `#` again (and `prev` one token before it). -/
theorem possible_directive_contract (dir : List Char) (s : OnyxParser) (t : OnyxToken)
    (h0 : s.tokens[s.curr]? = some t) :
    (t.type ≠ ascii '#' → parse_possible_directive dir s = Res.ok false s)
    ∧ (t.type = ascii '#' → ∀ (sym : OnyxToken) (k c : Nat),
        skip_comments (s.tokens.drop (s.curr + 1)) (s.curr + 1) = some k →
        s.tokens[k]? = some sym → sym.type = Token_Type_Symbol →
        skip_comments (s.tokens.drop (k + 1)) (k + 1) = some c →
        (k < c ∧ (∃ tc, s.tokens[c]? = some tc ∧ tc.type ≠ Token_Type_Comment)
          ∧ ∀ j, k < j → j < c → ∃ tj, s.tokens[j]? = some tj ∧ tj.type = Token_Type_Comment)
        ∧ (sym.text = dir →
            parse_possible_directive dir s
              = Res.ok true { s with curr := c, prev := some (k : Int) })
        ∧ (sym.text ≠ dir →
            parse_possible_directive dir s
              = Res.ok false { s with prev := some ((s.curr : Int) - 1) })) := by
  constructor
  · intro hne
    simp only [parse_possible_directive, bind_run, curr_type, h0, hne, ne_eq,
      not_false_eq_true, if_true, pure_run]
  · intro hh sym k c hk h1 hs hc
    have hsc : sym.type ≠ Token_Type_Comment := by rw [hs]; decide
    have hhc : t.type ≠ Token_Type_Comment := by rw [hh]; decide
    obtain ⟨a1, _, a3⟩ := skip_comments_first s.tokens _ (s.curr + 1) k rfl hk
    obtain ⟨b1, b2, b3⟩ := skip_comments_first s.tokens _ (k + 1) c rfl hc
    refine ⟨⟨by omega, b2, fun j hj hjc => b3 j (by omega) hjc⟩, ?_, ?_⟩
    · intro hd
      obtain ⟨toks, cur, prev, msgs, H, en, res⟩ := s
      simp only at h0 h1 hk hc a1 a3
      have e1 := expect_token_run ⟨toks, cur, prev, msgs, H, en, res⟩ t (ascii '#') k h0 hh hk
      have e2 := expect_token_run ⟨toks, k, some (cur : Int), msgs, H, en, res⟩ sym
        Token_Type_Symbol c h1 hs hc
      simp only [parse_possible_directive, bind_run, curr_type, h0, hh, ne_eq,
        not_true_eq_false, if_false, e1, e2, read_token, h1, hd, decide_True, pure_run,
        Bool.not_true, Bool.false_eq_true]
    · intro hd
      obtain ⟨toks, cur, prev, msgs, H, en, res⟩ := s
      simp only at h0 h1 hk hc a1 a3
      have e1 := expect_token_run ⟨toks, cur, prev, msgs, H, en, res⟩ t (ascii '#') k h0 hh hk
      have e2 := expect_token_run ⟨toks, k, some (cur : Int), msgs, H, en, res⟩ sym
        Token_Type_Symbol c h1 hs hc
      have u1 := unconsume_token_run ⟨toks, c, some (k : Int), msgs, H, en, res⟩ k sym rfl h1 hsc
      have hcast : (k : Int) - 1 = ((k - 1 : Nat) : Int) := by omega
      have u2 := unconsume_token_back ⟨toks, k, some ((k - 1 : Nat) : Int), msgs, H, en, res⟩
        (k - 1) cur t rfl h0 hhc (by omega) (fun j hj hjk => a3 j (by omega) (by omega))
      have hd1 : ¬ dir = sym.text := fun h => hd h.symm
      simp only [hcast] at u1
      simp only [parse_possible_directive, bind_run, curr_type, h0, hh, ne_eq,
        not_true_eq_false, if_false, e1, e2, read_token, h1, hd1, decide_False, pure_run,
        Bool.not_false, if_true, u1, u2, Bool.false_eq_true, not_false_eq_true]

/-- Witness of C30: on `# /* */ e /* */ x` with the cursor on `#`, the directive `e` is
matched with the cursor on `x` at the index 4, and the directive `i` is not matched with
the cursor on `#` at the index 0. -/
theorem possible_directive_contract_witness :
    parse_possible_directive ['e'] (onyx_parser_create commented_directive_stream)
      = Res.ok true
          { onyx_parser_create commented_directive_stream with curr := 4, prev := some 2 }
    ∧ parse_possible_directive ['i'] (onyx_parser_create commented_directive_stream)
      = Res.ok false
          { onyx_parser_create commented_directive_stream with prev := some (-1) } :=
  ⟨((possible_directive_contract ['e'] (onyx_parser_create commented_directive_stream)
      (plain_token (ascii '#') 1) (by decide)).2 (by decide) (symbol_token 'e' 8) 2 4
      (by decide) (by decide) (by decide) (by decide)).2.1 (by decide),
   ((possible_directive_contract ['i'] (onyx_parser_create commented_directive_stream)
      (plain_token (ascii '#') 1) (by decide)).2 (by decide) (symbol_token 'e' 8) 2 4
      (by decide) (by decide) (by decide) (by decide)).2.2 (by decide)⟩

/-- C28: on the stream of a comment followed by end-of-stream, `onyx_parser_create`
leaves the cursor on the comment: the first test of `onyx_parse` and the switch of
`parse_top_level_statement` read the type `Token_Type_Comment` from the current token.  The
statement function passes the comment by its `default` case and returns `NULL`; the parse
ends with empty results. -/
theorem leading_comment_is_exposed :
    curr_type (onyx_parser_create leading_comment_stream)
      = Res.ok Token_Type_Comment (onyx_parser_create leading_comment_stream)
    ∧ parse_top_level_statement 1 (onyx_parser_create leading_comment_stream)
      = Res.ok NodePtr.null
          { onyx_parser_create leading_comment_stream with curr := 1, prev := some 0 }
    ∧ onyx_parse 3 (onyx_parser_create leading_comment_stream)
      = Res.ok {} { onyx_parser_create leading_comment_stream with curr := 1, prev := some 0 } := by
  decide!

end Onyx
namespace Onyx

open TokenType AstKind BinaryOp UnaryOp BasicKind OnyxMessageType

/-! ## The origin of the nodes: the rules -/

set_option linter.unusedTactic false
set_option linter.unreachableTactic false

theorem stamp_pure {α : Type} (b : Nat) (a : α) : Stamp b (pure a : P α) := by
  constructor
  intro s r s' _ hrun
  simp only [pure_run, Res.ok.injEq] at hrun
  obtain ⟨_, rfl⟩ := hrun
  exact ⟨le_refl _, fun _ _ => rfl⟩

theorem stamp_raise {α : Type} (b : Nat) (f : Fault) : Stamp b (raise f : P α) :=
  ⟨fun _ _ _ _ hrun => Res.noConfusion hrun⟩

theorem stamp_bind {α β : Type} (b : Nat) (m : P α) (f : α → P β) (hm : Stamp b m)
    (hf : ∀ a, Stamp b (f a)) : Stamp b (m >>= f) := by
  constructor
  intro s r s' hb hrun
  obtain ⟨a, s1, h1, h2⟩ := bind_ok.1 hrun
  obtain ⟨hl1, hfr1⟩ := hm.run s a s1 hb h1
  obtain ⟨hl2, hfr2⟩ := (hf a).run s1 r s' (le_trans hb hl1) h2
  exact ⟨le_trans hl1 hl2, fun i hi => (hfr2 i hi).trans (hfr1 i hi)⟩

theorem stamp_ite {α : Type} (b : Nat) (c : Prop) [Decidable c] (m1 m2 : P α)
    (h1 : Stamp b m1) (h2 : Stamp b m2) : Stamp b (if c then m1 else m2) := by
  split_ifs
  · exact h1
  · exact h2

/-- A run that leaves the arena as it is. -/
theorem stamp_of_heap_unchanged {α : Type} (b : Nat) (m : P α)
    (h : ∀ s r s', m s = Res.ok r s' → s'.heap = s.heap) : Stamp b m := by
  constructor
  intro s r s' _ hrun
  have h1 := h s r s' hrun
  exact ⟨by rw [h1], fun i _ => by rw [h1]⟩

/-- The frame condition through the identity view gives the one through the origin. -/
theorem stamp_of_good {α : Type} [Safe α] (b : Nat) (m : P α) (h : Good id b m) :
    Stamp b m := by
  constructor
  intro s r s' hb hrun
  obtain ⟨h1, h2, _, _⟩ := h.run s r s' hb hrun
  refine ⟨h1, fun i hi => ?_⟩
  have := h2 i hi
  simp only [Option.map_id_fun, id_eq] at this
  rw [this]

theorem stamp_curr_type (b : Nat) : Stamp b curr_type := stamp_of_good b _ (good_curr_type id b)

theorem stamp_curr_token (b : Nat) : Stamp b curr_token :=
  stamp_of_good b _ (good_curr_token id b)

theorem stamp_curr_ptr (b : Nat) : Stamp b curr_ptr := stamp_of_good b _ (good_curr_ptr id b)

theorem stamp_read_token (b : Nat) (t : Option Nat) : Stamp b (read_token t) :=
  stamp_of_good b _ (good_read_token id b t)

theorem stamp_consume_token (b : Nat) : Stamp b consume_token :=
  stamp_of_good b _ (good_consume_token id b)

theorem stamp_unconsume_token (b : Nat) : Stamp b unconsume_token :=
  stamp_of_good b _ (good_unconsume_token id b)

theorem stamp_onyx_message_add (b : Nat) (ty : OnyxMessageType) (pos : OnyxFilePos)
    (args : List MsgArg) : Stamp b (onyx_message_add ty pos args) :=
  stamp_of_good b _ (good_onyx_message_add id b ty pos args)

theorem stamp_read_node (b : Nat) (p : NodePtr) : Stamp b (read_node p) :=
  stamp_of_good b _ (good_read_node id b p)

theorem stamp_expect_token (b : Nat) (ty : TokenType) : Stamp b (expect_token ty) :=
  stamp_of_good b _ (good_expect_token id b ty)

theorem stamp_token_toggle_end (b : Nat) (t : Option Nat) : Stamp b (token_toggle_end t) :=
  stamp_of_good b _ (good_token_toggle_end id b t)

theorem stamp_find_token (b : Nat) (fuel : Nat) (ty : TokenType) :
    Stamp b (find_token fuel ty) :=
  stamp_of_good b _ (good_find_token id b ty fuel)

theorem stamp_parse_type (b fuel : Nat) : Stamp b (parse_type fuel) :=
  stamp_of_good b _ (good_parse_type id b fuel)

theorem stamp_parse_expression (b fuel : Nat) : Stamp b (parse_expression fuel) :=
  stamp_of_good b _ (good_parse_expression id b fuel)

theorem stamp_parse_symbol_statement (b fuel : Nat) :
    Stamp b (parse_symbol_statement fuel NodePtr.null) :=
  stamp_of_good b _ (good_parse_symbol_statement id b fuel _ (safe_ptr_null b))

theorem stamp_parse_return_statement (b fuel : Nat) : Stamp b (parse_return_statement fuel) :=
  stamp_of_good b _ (good_parse_return_statement id b fuel)

theorem stamp_parse_statement_semicolon (b fuel : Nat) (needs_semicolon : Bool) :
    Stamp b (parse_statement_semicolon fuel needs_semicolon) :=
  stamp_of_good b _ (good_parse_statement_semicolon id b fuel needs_semicolon)

theorem stamp_parse_function_params (b fuel : Nat) : Stamp b (parse_function_params fuel) :=
  stamp_of_good b _ (good_parse_function_params id b fuel)

theorem stamp_parse_possible_directive (b : Nat) (dir : List Char) :
    Stamp b (parse_possible_directive dir) :=
  stamp_of_good b _ (good_parse_possible_directive id b dir)

theorem stamp_make_function_type (b : Nat) (param_types : List NodePtr)
    (return_type : NodePtr) : Stamp b (make_function_type param_types return_type) :=
  stamp_of_good b _ (good_make_function_type id b param_types return_type)

/-- An allocation, followed by anything that keeps the origins below `b`. -/
theorem stamp_make_node_bind {β : Type} (b : Nat) (k : AstKind) (f : NodePtr → P β)
    (hf : ∀ j, b ≤ j → Stamp b (f (NodePtr.node j))) : Stamp b (make_node k >>= f) := by
  constructor
  intro s r s' hb hrun
  obtain ⟨a, s1, h1, h2⟩ := bind_ok.1 hrun
  rw [make_node_run] at h1
  injection h1 with h0 h1
  subst h0 h1
  obtain ⟨hl, hfr⟩ := (hf _ hb).run _ r s' (by simp only [List.length_append]; omega) h2
  simp only [List.length_append, List.length_singleton] at hl
  refine ⟨by omega, fun i hi => ?_⟩
  rw [hfr i hi]
  show ((s.heap ++ _)[i]?).map _ = _
  rw [List.getElem?_append_left (by omega)]

/-- A write through a pointer that does not point below `b`. -/
theorem stamp_modify_node (b j : Nat) (f : AstNode → AstNode) (hj : b ≤ j) :
    Stamp b (modify_node (NodePtr.node j) f) :=
  stamp_of_good b _ (good_modify_node id b _ f (fun i hi => by injection hi with hi; omega))

/-- A write that leaves the kind and the token as they are. -/
theorem stamp_modify_view (b : Nat) (p : NodePtr) (f : AstNode → AstNode)
    (hf : ∀ n, (f n).origin = n.origin) : Stamp b (modify_node p f) := by
  constructor
  intro s r s' hb hrun
  unfold modify_node at hrun
  cases p with
  | null => exact Res.noConfusion hrun
  | node i =>
    simp only at hrun
    split at hrun
    · rename_i n hn
      injection hrun with h1 h2
      subst h2
      refine ⟨by simp, fun j hj => ?_⟩
      show ((s.heap.set i (f n))[j]?).map _ = _
      by_cases hij : i = j
      · subst hij
        have hlt : i < s.heap.length := by
          by_contra hlt
          rw [List.getElem?_eq_none (by omega)] at hn
          exact Option.noConfusion hn
        rw [List.getElem?_set_self hlt, hn]
        simp only [Option.map_some', hf]
      · rw [List.getElem?_set_ne hij]
    · exact Res.noConfusion hrun
  | error_node =>
    injection hrun with h1 h2
    subst h2
    exact ⟨le_refl _, fun _ _ => rfl⟩
  | basic k => exact Res.noConfusion hrun

theorem stamp_write_slot (b : Nat) (slot : NodeSlot) (v : NodePtr) :
    Stamp b (write_slot slot v) := by
  cases slot with
  | arguments q => exact stamp_modify_view b _ _ (fun _ => rfl)
  | body q => exact stamp_modify_view b _ _ (fun _ => rfl)
  | next q => exact stamp_modify_view b _ _ (fun _ => rfl)

theorem last_in_chain_state (fuel : Nat) :
    ∀ (stmt : NodePtr) (s : OnyxParser) (r : NodePtr) (s' : OnyxParser),
      last_in_chain fuel stmt s = Res.ok r s' → s' = s := by
  induction fuel with
  | zero => intro stmt s r s' h; exact Res.noConfusion h
  | succ n ih =>
    intro stmt s r s' h
    rw [last_in_chain] at h
    obtain ⟨m, s1, h1, h2⟩ := bind_ok.1 h
    have hs1 : s1 = s := by
      unfold read_node at h1
      cases stmt with
      | null => exact Res.noConfusion h1
      | node i =>
        simp only at h1
        split at h1
        · injection h1 with _ h1; exact h1.symm
        · exact Res.noConfusion h1
      | error_node => injection h1 with _ h1; exact h1.symm
      | basic k => injection h1 with _ h1; exact h1.symm
    subst hs1
    rw [ite_run] at h2
    split_ifs at h2
    · exact ih _ _ _ _ h2
    · simp only [pure_run, Res.ok.injEq] at h2
      exact h2.2.symm

theorem stamp_last_in_chain (b fuel : Nat) (stmt : NodePtr) :
    Stamp b (last_in_chain fuel stmt) :=
  stamp_of_heap_unchanged b _ (fun s r s' h => by rw [last_in_chain_state fuel stmt s r s' h])

theorem stamp_collect_param_types (b fuel : Nat) (p : NodePtr) :
    Stamp b (collect_param_types fuel p) :=
  stamp_of_heap_unchanged b _
    (fun s r s' h => by rw [collect_param_types_state fuel p s r s' h])

theorem stamp_push_node_to_process (b : Nat) (p : NodePtr) :
    Stamp b (push_node_to_process p) :=
  stamp_of_heap_unchanged b _ (fun s r s' h => by
    injection h with _ h; subst h; rfl)

/-! ## The origin of the nodes: the statement functions -/

set_option maxHeartbeats 4000000 in
/-- The mutually recursive statement functions keep the origin of the nodes that exist
when they are called. -/
theorem stamp_statement_level (fuel : Nat) :
    (∀ b, Stamp b (parse_if_stmt fuel)) ∧
    (∀ b if_node, Stamp b (parse_if_elseifs fuel if_node)) ∧
    (∀ b, Stamp b (parse_while_stmt fuel)) ∧
    (∀ b, Stamp b (parse_statement_switch fuel)) ∧
    (∀ b, Stamp b (parse_statement fuel)) ∧
    (∀ b, Stamp b (parse_block fuel)) ∧
    (∀ b next, Stamp b (parse_block_loop fuel next)) := by
  induction fuel with
  | zero =>
    refine ⟨fun b => ?_, fun b _ => ?_, fun b => ?_, fun b => ?_, fun b => ?_, fun b => ?_,
      fun b _ => ?_⟩
    · rw [parse_if_stmt]; exact stamp_raise b _
    · rw [parse_if_elseifs]; exact stamp_raise b _
    · rw [parse_while_stmt]; exact stamp_raise b _
    · rw [parse_statement_switch]; exact stamp_raise b _
    · rw [parse_statement]; exact stamp_raise b _
    · rw [parse_block]; exact stamp_raise b _
    · rw [parse_block_loop]; exact stamp_raise b _
  | succ n ih =>
    obtain ⟨ihif, ihelse, ihwhile, ihswitch, ihstmt, ihblock, ihloop⟩ := ih
    refine ⟨fun b => ?_, fun b if_node => ?_, fun b => ?_, fun b => ?_, fun b => ?_,
      fun b => ?_, fun b next => ?_⟩
    · rw [parse_if_stmt]
      repeat' first
          | assumption
          | apply stamp_curr_type
          | apply stamp_curr_token
          | apply stamp_curr_ptr
          | apply stamp_read_token
          | apply stamp_consume_token
          | apply stamp_unconsume_token
          | apply stamp_onyx_message_add
          | apply stamp_read_node
          | apply stamp_expect_token
          | apply stamp_token_toggle_end
          | apply stamp_find_token
          | apply stamp_parse_type
          | apply stamp_parse_expression
          | apply stamp_parse_symbol_statement
          | apply stamp_parse_return_statement
          | apply stamp_parse_statement_semicolon
          | apply stamp_last_in_chain
          | apply ihif
          | apply ihelse
          | apply ihwhile
          | apply ihswitch
          | apply ihstmt
          | apply ihblock
          | apply ihloop
          | exact stamp_modify_view _ _ _ (fun _ => rfl)
          | (apply stamp_modify_node; assumption)
          | apply stamp_write_slot
          | apply stamp_make_node_bind
          | apply stamp_bind
          | apply stamp_ite
          | apply stamp_pure
          | apply stamp_raise
          | intro _
          | split
    · rw [parse_if_elseifs]
      repeat' first
          | assumption
          | apply stamp_curr_type
          | apply stamp_curr_token
          | apply stamp_curr_ptr
          | apply stamp_read_token
          | apply stamp_consume_token
          | apply stamp_unconsume_token
          | apply stamp_onyx_message_add
          | apply stamp_read_node
          | apply stamp_expect_token
          | apply stamp_token_toggle_end
          | apply stamp_find_token
          | apply stamp_parse_type
          | apply stamp_parse_expression
          | apply stamp_parse_symbol_statement
          | apply stamp_parse_return_statement
          | apply stamp_parse_statement_semicolon
          | apply stamp_last_in_chain
          | apply ihif
          | apply ihelse
          | apply ihwhile
          | apply ihswitch
          | apply ihstmt
          | apply ihblock
          | apply ihloop
          | exact stamp_modify_view _ _ _ (fun _ => rfl)
          | (apply stamp_modify_node; assumption)
          | apply stamp_write_slot
          | apply stamp_make_node_bind
          | apply stamp_bind
          | apply stamp_ite
          | apply stamp_pure
          | apply stamp_raise
          | intro _
          | split
    · rw [parse_while_stmt]
      repeat' first
          | assumption
          | apply stamp_curr_type
          | apply stamp_curr_token
          | apply stamp_curr_ptr
          | apply stamp_read_token
          | apply stamp_consume_token
          | apply stamp_unconsume_token
          | apply stamp_onyx_message_add
          | apply stamp_read_node
          | apply stamp_expect_token
          | apply stamp_token_toggle_end
          | apply stamp_find_token
          | apply stamp_parse_type
          | apply stamp_parse_expression
          | apply stamp_parse_symbol_statement
          | apply stamp_parse_return_statement
          | apply stamp_parse_statement_semicolon
          | apply stamp_last_in_chain
          | apply ihif
          | apply ihelse
          | apply ihwhile
          | apply ihswitch
          | apply ihstmt
          | apply ihblock
          | apply ihloop
          | exact stamp_modify_view _ _ _ (fun _ => rfl)
          | (apply stamp_modify_node; assumption)
          | apply stamp_write_slot
          | apply stamp_make_node_bind
          | apply stamp_bind
          | apply stamp_ite
          | apply stamp_pure
          | apply stamp_raise
          | intro _
          | split
    · rw [parse_statement_switch]
      repeat' first
          | assumption
          | apply stamp_curr_type
          | apply stamp_curr_token
          | apply stamp_curr_ptr
          | apply stamp_read_token
          | apply stamp_consume_token
          | apply stamp_unconsume_token
          | apply stamp_onyx_message_add
          | apply stamp_read_node
          | apply stamp_expect_token
          | apply stamp_token_toggle_end
          | apply stamp_find_token
          | apply stamp_parse_type
          | apply stamp_parse_expression
          | apply stamp_parse_symbol_statement
          | apply stamp_parse_return_statement
          | apply stamp_parse_statement_semicolon
          | apply stamp_last_in_chain
          | apply ihif
          | apply ihelse
          | apply ihwhile
          | apply ihswitch
          | apply ihstmt
          | apply ihblock
          | apply ihloop
          | exact stamp_modify_view _ _ _ (fun _ => rfl)
          | (apply stamp_modify_node; assumption)
          | apply stamp_write_slot
          | apply stamp_make_node_bind
          | apply stamp_bind
          | apply stamp_ite
          | apply stamp_pure
          | apply stamp_raise
          | intro _
          | split
    · rw [parse_statement]
      repeat' first
          | assumption
          | apply stamp_curr_type
          | apply stamp_curr_token
          | apply stamp_curr_ptr
          | apply stamp_read_token
          | apply stamp_consume_token
          | apply stamp_unconsume_token
          | apply stamp_onyx_message_add
          | apply stamp_read_node
          | apply stamp_expect_token
          | apply stamp_token_toggle_end
          | apply stamp_find_token
          | apply stamp_parse_type
          | apply stamp_parse_expression
          | apply stamp_parse_symbol_statement
          | apply stamp_parse_return_statement
          | apply stamp_parse_statement_semicolon
          | apply stamp_last_in_chain
          | apply ihif
          | apply ihelse
          | apply ihwhile
          | apply ihswitch
          | apply ihstmt
          | apply ihblock
          | apply ihloop
          | exact stamp_modify_view _ _ _ (fun _ => rfl)
          | (apply stamp_modify_node; assumption)
          | apply stamp_write_slot
          | apply stamp_make_node_bind
          | apply stamp_bind
          | apply stamp_ite
          | apply stamp_pure
          | apply stamp_raise
          | intro _
          | split
    · rw [parse_block]
      repeat' first
          | assumption
          | apply stamp_curr_type
          | apply stamp_curr_token
          | apply stamp_curr_ptr
          | apply stamp_read_token
          | apply stamp_consume_token
          | apply stamp_unconsume_token
          | apply stamp_onyx_message_add
          | apply stamp_read_node
          | apply stamp_expect_token
          | apply stamp_token_toggle_end
          | apply stamp_find_token
          | apply stamp_parse_type
          | apply stamp_parse_expression
          | apply stamp_parse_symbol_statement
          | apply stamp_parse_return_statement
          | apply stamp_parse_statement_semicolon
          | apply stamp_last_in_chain
          | apply ihif
          | apply ihelse
          | apply ihwhile
          | apply ihswitch
          | apply ihstmt
          | apply ihblock
          | apply ihloop
          | exact stamp_modify_view _ _ _ (fun _ => rfl)
          | (apply stamp_modify_node; assumption)
          | apply stamp_write_slot
          | apply stamp_make_node_bind
          | apply stamp_bind
          | apply stamp_ite
          | apply stamp_pure
          | apply stamp_raise
          | intro _
          | split
    · rw [parse_block_loop]
      repeat' first
          | assumption
          | apply stamp_curr_type
          | apply stamp_curr_token
          | apply stamp_curr_ptr
          | apply stamp_read_token
          | apply stamp_consume_token
          | apply stamp_unconsume_token
          | apply stamp_onyx_message_add
          | apply stamp_read_node
          | apply stamp_expect_token
          | apply stamp_token_toggle_end
          | apply stamp_find_token
          | apply stamp_parse_type
          | apply stamp_parse_expression
          | apply stamp_parse_symbol_statement
          | apply stamp_parse_return_statement
          | apply stamp_parse_statement_semicolon
          | apply stamp_last_in_chain
          | apply ihif
          | apply ihelse
          | apply ihwhile
          | apply ihswitch
          | apply ihstmt
          | apply ihblock
          | apply ihloop
          | exact stamp_modify_view _ _ _ (fun _ => rfl)
          | (apply stamp_modify_node; assumption)
          | apply stamp_write_slot
          | apply stamp_make_node_bind
          | apply stamp_bind
          | apply stamp_ite
          | apply stamp_pure
          | apply stamp_raise
          | intro _
          | split

theorem stamp_parse_block (b fuel : Nat) : Stamp b (parse_block fuel) :=
  (stamp_statement_level fuel).2.2.2.2.2.1 b

theorem stamp_parse_block_loop (b fuel : Nat) (next : NodeSlot) :
    Stamp b (parse_block_loop fuel next) :=
  (stamp_statement_level fuel).2.2.2.2.2.2 b next

theorem stamp_parse_if_elseifs (b fuel : Nat) (if_node : NodePtr) :
    Stamp b (parse_if_elseifs fuel if_node) :=
  (stamp_statement_level fuel).2.1 b if_node

theorem stamp_parse_statement (b fuel : Nat) : Stamp b (parse_statement fuel) :=
  (stamp_statement_level fuel).2.2.2.2.1 b

/-! ## The origin of the nodes: the top-level functions -/

theorem stamp_parse_function_directives (b : Nat) : ∀ fuel func_def, Stamp b (parse_function_directives fuel func_def) := by
  intro fuel
  induction fuel with
  | zero => intro _; exact stamp_raise b _
  | succ n ih =>
    intro func_def
    rw [parse_function_directives]
    repeat' first
        | assumption
        | apply stamp_curr_type
        | apply stamp_curr_token
        | apply stamp_curr_ptr
        | apply stamp_read_token
        | apply stamp_consume_token
        | apply stamp_unconsume_token
        | apply stamp_onyx_message_add
        | apply stamp_read_node
        | apply stamp_expect_token
        | apply stamp_token_toggle_end
        | apply stamp_find_token
        | apply stamp_parse_type
        | apply stamp_parse_expression
        | apply stamp_parse_symbol_statement
        | apply stamp_parse_return_statement
        | apply stamp_parse_statement_semicolon
        | apply stamp_last_in_chain
        | apply stamp_parse_block
        | apply stamp_parse_function_params
        | apply stamp_parse_possible_directive
        | apply stamp_make_function_type
        | apply stamp_collect_param_types
        | apply stamp_push_node_to_process
        | apply ih
        | exact stamp_modify_view _ _ _ (fun _ => rfl)
        | (apply stamp_modify_node; assumption)
        | apply stamp_write_slot
        | apply stamp_make_node_bind
        | apply stamp_bind
        | apply stamp_ite
        | apply stamp_pure
        | apply stamp_raise
        | intro _
        | split

theorem stamp_parse_global_directives (b : Nat) : ∀ fuel global_node, Stamp b (parse_global_directives fuel global_node) := by
  intro fuel
  induction fuel with
  | zero => intro _; exact stamp_raise b _
  | succ n ih =>
    intro global_node
    rw [parse_global_directives]
    repeat' first
        | assumption
        | apply stamp_curr_type
        | apply stamp_curr_token
        | apply stamp_curr_ptr
        | apply stamp_read_token
        | apply stamp_consume_token
        | apply stamp_unconsume_token
        | apply stamp_onyx_message_add
        | apply stamp_read_node
        | apply stamp_expect_token
        | apply stamp_token_toggle_end
        | apply stamp_find_token
        | apply stamp_parse_type
        | apply stamp_parse_expression
        | apply stamp_parse_symbol_statement
        | apply stamp_parse_return_statement
        | apply stamp_parse_statement_semicolon
        | apply stamp_last_in_chain
        | apply stamp_parse_block
        | apply stamp_parse_function_params
        | apply stamp_parse_possible_directive
        | apply stamp_make_function_type
        | apply stamp_collect_param_types
        | apply stamp_push_node_to_process
        | apply ih
        | exact stamp_modify_view _ _ _ (fun _ => rfl)
        | (apply stamp_modify_node; assumption)
        | apply stamp_write_slot
        | apply stamp_make_node_bind
        | apply stamp_bind
        | apply stamp_ite
        | apply stamp_pure
        | apply stamp_raise
        | intro _
        | split

theorem stamp_parse_function_definition (b fuel : Nat) : Stamp b (parse_function_definition fuel) := by
  unfold parse_function_definition
  repeat' first
      | assumption
      | apply stamp_curr_type
      | apply stamp_curr_token
      | apply stamp_curr_ptr
      | apply stamp_read_token
      | apply stamp_consume_token
      | apply stamp_unconsume_token
      | apply stamp_onyx_message_add
      | apply stamp_read_node
      | apply stamp_expect_token
      | apply stamp_token_toggle_end
      | apply stamp_find_token
      | apply stamp_parse_type
      | apply stamp_parse_expression
      | apply stamp_parse_symbol_statement
      | apply stamp_parse_return_statement
      | apply stamp_parse_statement_semicolon
      | apply stamp_last_in_chain
      | apply stamp_parse_block
      | apply stamp_parse_function_params
      | apply stamp_parse_possible_directive
      | apply stamp_make_function_type
      | apply stamp_collect_param_types
      | apply stamp_push_node_to_process
      | apply stamp_parse_function_directives
      | exact stamp_modify_view _ _ _ (fun _ => rfl)
      | (apply stamp_modify_node; assumption)
      | apply stamp_write_slot
      | apply stamp_make_node_bind
      | apply stamp_bind
      | apply stamp_ite
      | apply stamp_pure
      | apply stamp_raise
      | intro _
      | split

theorem stamp_parse_global_declaration (b fuel : Nat) : Stamp b (parse_global_declaration fuel) := by
  unfold parse_global_declaration
  repeat' first
      | assumption
      | apply stamp_curr_type
      | apply stamp_curr_token
      | apply stamp_curr_ptr
      | apply stamp_read_token
      | apply stamp_consume_token
      | apply stamp_unconsume_token
      | apply stamp_onyx_message_add
      | apply stamp_read_node
      | apply stamp_expect_token
      | apply stamp_token_toggle_end
      | apply stamp_find_token
      | apply stamp_parse_type
      | apply stamp_parse_expression
      | apply stamp_parse_symbol_statement
      | apply stamp_parse_return_statement
      | apply stamp_parse_statement_semicolon
      | apply stamp_last_in_chain
      | apply stamp_parse_block
      | apply stamp_parse_function_params
      | apply stamp_parse_possible_directive
      | apply stamp_make_function_type
      | apply stamp_collect_param_types
      | apply stamp_push_node_to_process
      | apply stamp_parse_global_directives
      | exact stamp_modify_view _ _ _ (fun _ => rfl)
      | (apply stamp_modify_node; assumption)
      | apply stamp_write_slot
      | apply stamp_make_node_bind
      | apply stamp_bind
      | apply stamp_ite
      | apply stamp_pure
      | apply stamp_raise
      | intro _
      | split

theorem stamp_parse_top_level_expression (b fuel : Nat) : Stamp b (parse_top_level_expression fuel) := by
  unfold parse_top_level_expression
  repeat' first
      | assumption
      | apply stamp_curr_type
      | apply stamp_curr_token
      | apply stamp_curr_ptr
      | apply stamp_read_token
      | apply stamp_consume_token
      | apply stamp_unconsume_token
      | apply stamp_onyx_message_add
      | apply stamp_read_node
      | apply stamp_expect_token
      | apply stamp_token_toggle_end
      | apply stamp_find_token
      | apply stamp_parse_type
      | apply stamp_parse_expression
      | apply stamp_parse_symbol_statement
      | apply stamp_parse_return_statement
      | apply stamp_parse_statement_semicolon
      | apply stamp_last_in_chain
      | apply stamp_parse_block
      | apply stamp_parse_function_params
      | apply stamp_parse_possible_directive
      | apply stamp_make_function_type
      | apply stamp_collect_param_types
      | apply stamp_push_node_to_process
      | apply stamp_parse_function_definition
      | apply stamp_parse_global_declaration
      | exact stamp_modify_view _ _ _ (fun _ => rfl)
      | (apply stamp_modify_node; assumption)
      | apply stamp_write_slot
      | apply stamp_make_node_bind
      | apply stamp_bind
      | apply stamp_ite
      | apply stamp_pure
      | apply stamp_raise
      | intro _
      | split

theorem stamp_parse_top_level_statement (b fuel : Nat) : Stamp b (parse_top_level_statement fuel) := by
  unfold parse_top_level_statement
  repeat' first
      | assumption
      | apply stamp_curr_type
      | apply stamp_curr_token
      | apply stamp_curr_ptr
      | apply stamp_read_token
      | apply stamp_consume_token
      | apply stamp_unconsume_token
      | apply stamp_onyx_message_add
      | apply stamp_read_node
      | apply stamp_expect_token
      | apply stamp_token_toggle_end
      | apply stamp_find_token
      | apply stamp_parse_type
      | apply stamp_parse_expression
      | apply stamp_parse_symbol_statement
      | apply stamp_parse_return_statement
      | apply stamp_parse_statement_semicolon
      | apply stamp_last_in_chain
      | apply stamp_parse_block
      | apply stamp_parse_function_params
      | apply stamp_parse_possible_directive
      | apply stamp_make_function_type
      | apply stamp_collect_param_types
      | apply stamp_push_node_to_process
      | apply stamp_parse_top_level_expression
      | exact stamp_modify_view _ _ _ (fun _ => rfl)
      | (apply stamp_modify_node; assumption)
      | apply stamp_write_slot
      | apply stamp_make_node_bind
      | apply stamp_bind
      | apply stamp_ite
      | apply stamp_pure
      | apply stamp_raise
      | intro _
      | split

theorem stamp_file_top_level_nodes (b : Nat) :
    ∀ fuel curr_stmt, Stamp b (file_top_level_nodes fuel curr_stmt) := by
  intro fuel
  induction fuel with
  | zero => intro _; exact stamp_raise b _
  | succ n ih =>
    intro curr_stmt
    rw [file_top_level_nodes]
    repeat' first
      | apply stamp_read_node
      | apply ih
      | (apply stamp_of_heap_unchanged; intro s r s' h; injection h with _ h; subst h; rfl)
      | apply stamp_bind
      | apply stamp_ite
      | apply stamp_pure
      | apply stamp_raise
      | intro _
      | split

theorem stamp_onyx_parse (b : Nat) : ∀ fuel, Stamp b (onyx_parse fuel) := by
  intro fuel
  induction fuel with
  | zero => exact stamp_raise b _
  | succ n ih =>
    rw [onyx_parse]
    repeat' first
      | apply stamp_curr_type
      | apply stamp_parse_top_level_statement
      | apply stamp_file_top_level_nodes
      | apply ih
      | (apply stamp_of_heap_unchanged; intro s r s' h; injection h with _ h; subst h; rfl)
      | apply stamp_bind
      | apply stamp_ite
      | apply stamp_pure
      | apply stamp_raise
      | intro _
      | split

end Onyx
namespace Onyx

open TokenType AstKind BinaryOp UnaryOp BasicKind OnyxMessageType

/-! ## Nodes without an originating token -/

/-- The node that `make_node` allocates keeps its kind and its empty token when what
follows the allocation keeps the origins of the nodes that exist. -/
theorem make_node_origin {β : Type} (k : AstKind) (f : NodePtr → P β)
    (hf : ∀ j, Stamp (j + 1) (f (NodePtr.node j)))
    (s : OnyxParser) (r : β) (s' : OnyxParser) (h : (make_node k >>= f) s = Res.ok r s') :
    (s'.heap[s.heap.length]?).map AstNode.origin = some (k, none)
    ∧ f (NodePtr.node s.heap.length) { s with heap := s.heap ++ [{ kind := k }] }
      = Res.ok r s' := by
  obtain ⟨a, s1, h1, h2⟩ := bind_ok.1 h
  rw [make_node_run] at h1
  injection h1 with h0 h1
  subst h0 h1
  refine ⟨?_, h2⟩
  obtain ⟨_, hfr⟩ := (hf s.heap.length).run _ r s'
    (by simp only [List.length_append, List.length_singleton]; omega) h2
  rw [hfr s.heap.length (by omega)]
  show ((s.heap ++ _)[s.heap.length]?).map _ = _
  rw [List.getElem?_concat_length]
  rfl

theorem yields_pure {α : Type} (Q : α → Prop) (a : α) (h : Q a) : Yields Q (pure a : P α) := by
  constructor
  intro s r s' hrun
  simp only [pure_run, Res.ok.injEq] at hrun
  rw [← hrun.1]
  exact h

theorem yields_raise {α : Type} (Q : α → Prop) (f : Fault) : Yields Q (raise f : P α) :=
  ⟨fun _ _ _ hrun => Res.noConfusion hrun⟩

theorem yields_bind {α β : Type} (Q : β → Prop) (m : P α) (f : α → P β)
    (hf : ∀ a, Yields Q (f a)) : Yields Q (m >>= f) := by
  constructor
  intro s r s' hrun
  obtain ⟨a, s1, _, h2⟩ := bind_ok.1 hrun
  exact (hf a).run s1 r s' h2

theorem yields_ite {α : Type} (Q : α → Prop) (c : Prop) [Decidable c] (m1 m2 : P α)
    (h1 : Yields Q m1) (h2 : Yields Q m2) : Yields Q (if c then m1 else m2) := by
  split_ifs
  · exact h1
  · exact h2

theorem yields_make_node_bind {β : Type} (Q : β → Prop) (k : AstKind) (f : NodePtr → P β)
    (hf : ∀ j, Yields Q (f (NodePtr.node j))) : Yields Q (make_node k >>= f) := by
  constructor
  intro s r s' hrun
  obtain ⟨a, s1, h1, h2⟩ := bind_ok.1 hrun
  rw [make_node_run] at h1
  injection h1 with h0 h1
  subst h0
  exact (hf _).run s1 r s' h2

set_option linter.unusedTactic false in
set_option linter.unreachableTactic false in
/-- The Block node and the Local-group node of `parse_block`. -/
theorem parse_block_origin (fuel : Nat) (s : OnyxParser) (r : NodePtr) (s' : OnyxParser)
    (h : parse_block fuel s = Res.ok r s') :
    r = NodePtr.node s.heap.length
    ∧ (s'.heap[s.heap.length]?).map AstNode.origin = some (Ast_Kind_Block, none)
    ∧ (s'.heap[s.heap.length + 1]?).map AstNode.origin = some (Ast_Kind_Local_Group, none) := by
  cases fuel with
  | zero => exact Res.noConfusion h
  | succ n =>
    rw [parse_block] at h
    obtain ⟨h1, h2⟩ := make_node_origin _ _ (by
      intro j
      repeat' first
        | apply stamp_curr_type
        | apply stamp_expect_token
        | apply stamp_parse_block_loop
        | exact stamp_modify_view _ _ _ (fun _ => rfl)
        | apply stamp_make_node_bind
        | apply stamp_bind
        | apply stamp_ite
        | apply stamp_pure
        | intro _
        | split) s r s' h
    obtain ⟨h3, h4⟩ := make_node_origin _ _ (by
      intro j
      repeat' first
        | apply stamp_curr_type
        | apply stamp_expect_token
        | apply stamp_parse_block_loop
        | exact stamp_modify_view _ _ _ (fun _ => rfl)
        | apply stamp_bind
        | apply stamp_ite
        | apply stamp_pure
        | intro _
        | split) _ r s' h2
    simp only [List.length_append, List.length_singleton] at h3
    refine ⟨?_, h1, h3⟩
    exact @Yields.run _ (fun p => p = NodePtr.node s.heap.length) _ (by
      beta_reduce
      repeat' first
        | exact yields_pure _ _ rfl
        | apply yields_bind
        | apply yields_ite
        | intro _
        | split) _ _ _ h4

set_option linter.unusedTactic false in
set_option linter.unreachableTactic false in
/-- The If node of `parse_if_stmt`. -/
theorem parse_if_stmt_origin (fuel : Nat) (s : OnyxParser) (r : NodePtr) (s' : OnyxParser)
    (h : parse_if_stmt fuel s = Res.ok r s') :
    ∃ j, r = NodePtr.node j ∧ s.heap.length ≤ j
      ∧ (s'.heap[j]?).map AstNode.origin = some (Ast_Kind_If, none) := by
  cases fuel with
  | zero => exact Res.noConfusion h
  | succ n =>
    rw [parse_if_stmt] at h
    obtain ⟨_, s1, g1, h1⟩ := bind_ok.1 h
    obtain ⟨cond, s2, g2, h2⟩ := bind_ok.1 h1
    obtain ⟨tb, s3, g3, h3⟩ := bind_ok.1 h2
    have l1 := ((stamp_expect_token 0 _).run _ _ _ (Nat.zero_le _) g1).1
    have l2 := ((stamp_parse_expression 0 _).run _ _ _ (Nat.zero_le _) g2).1
    have l3 := ((stamp_parse_block 0 _).run _ _ _ (Nat.zero_le _) g3).1
    obtain ⟨h4, h5⟩ := make_node_origin _ _ (by
      intro j
      repeat' first
        | apply stamp_curr_type
        | apply stamp_consume_token
        | apply stamp_parse_block
        | apply stamp_parse_if_elseifs
        | exact stamp_modify_view _ _ _ (fun _ => rfl)
        | apply stamp_bind
        | apply stamp_ite
        | apply stamp_pure
        | intro _
        | split) s3 r s' h3
    refine ⟨s3.heap.length, ?_, by omega, h4⟩
    exact @Yields.run _ (fun p => p = NodePtr.node s3.heap.length) _ (by
      beta_reduce
      repeat' first
        | exact yields_pure _ _ rfl
        | apply yields_bind
        | apply yields_ite
        | intro _
        | split) _ _ _ h5

/-- C27 fails on `f :: proc ( ) { if a { } }`: the stream is parsed without a diagnostic,
and the If node of the arena has no token, where on `f :: proc ( ) { while a { } }` the
While node has the token of its keyword (index 7).  On `x :: - 1 cast T` the negate node
and the cast node have no token, where on `x :: ! 1` the Not node has the token of `!`
(index 3).  The Block nodes, the Local-group nodes and the function type have no token
either; the Function, Symbol, Literal and Binding nodes have one. -/
theorem nodes_without_token :
    parsed_origins 20 if_block_stream
      = [(Ast_Kind_Function, some 3), (Ast_Kind_Function_Type, none), (Ast_Kind_Block, none),
         (Ast_Kind_Local_Group, none), (Ast_Kind_Symbol, some 8), (Ast_Kind_Block, none),
         (Ast_Kind_Local_Group, none), (Ast_Kind_If, none), (Ast_Kind_Binding, some 0)]
    ∧ (onyx_parse 20 (onyx_parser_create if_block_stream)).final.map (fun s => s.msgs)
      = some []
    ∧ parsed_origins 20 while_block_stream
      = [(Ast_Kind_Function, some 3), (Ast_Kind_Function_Type, none), (Ast_Kind_Block, none),
         (Ast_Kind_Local_Group, none), (Ast_Kind_Symbol, some 8), (Ast_Kind_Block, none),
         (Ast_Kind_Local_Group, none), (Ast_Kind_While, some 7), (Ast_Kind_Binding, some 0)]
    ∧ (onyx_parse 20 (onyx_parser_create while_block_stream)).final.map (fun s => s.msgs)
      = some []
    ∧ parsed_origins 20 negate_cast_stream
      = [(Ast_Kind_Literal, some 4), (Ast_Kind_Unary_Op, none), (Ast_Kind_Symbol, some 6),
         (Ast_Kind_Unary_Op, none), (Ast_Kind_Binding, some 0)]
    ∧ (onyx_parse 20 (onyx_parser_create negate_cast_stream)).final.map (fun s => s.msgs)
      = some []
    ∧ parsed_origins 20 not_literal_stream
      = [(Ast_Kind_Unary_Op, some 3), (Ast_Kind_Literal, some 4), (Ast_Kind_Binding, some 0)]
    ∧ (onyx_parse 20 (onyx_parser_create not_literal_stream)).final.map (fun s => s.msgs)
      = some [] := by
  decide!

/-- The nodes that `parse_block` and `parse_if_stmt` leave without a token.  Whenever
`parse_block` returns, its result is a new Block node whose token is null, and the next
cell of the arena is its Local-group node, whose token is null; whenever `parse_if_stmt`
returns, its result is a new If node whose token is null; and `parse_statement`,
`parse_block` and `onyx_parse` change neither the kind nor the token of a node that exists
when they are called. -/
theorem block_and_if_have_no_token (fuel : Nat) (s s' : OnyxParser) :
    (∀ r, parse_block fuel s = Res.ok r s' →
      r = NodePtr.node s.heap.length
      ∧ (s'.heap[s.heap.length]?).map AstNode.origin = some (Ast_Kind_Block, none)
      ∧ (s'.heap[s.heap.length + 1]?).map AstNode.origin = some (Ast_Kind_Local_Group, none))
    ∧ (∀ r, parse_if_stmt fuel s = Res.ok r s' →
      ∃ j, r = NodePtr.node j ∧ s.heap.length ≤ j
        ∧ (s'.heap[j]?).map AstNode.origin = some (Ast_Kind_If, none))
    ∧ (∀ r, parse_statement fuel s = Res.ok r s' ∨ parse_block fuel s = Res.ok r s' →
      ∀ i, i < s.heap.length →
        (s'.heap[i]?).map AstNode.origin = (s.heap[i]?).map AstNode.origin)
    ∧ (∀ r, onyx_parse fuel s = Res.ok r s' →
      ∀ i, i < s.heap.length →
        (s'.heap[i]?).map AstNode.origin = (s.heap[i]?).map AstNode.origin) := by
  refine ⟨fun r h => parse_block_origin fuel s r s' h,
    fun r h => parse_if_stmt_origin fuel s r s' h, ?_, ?_⟩
  · intro r h i hi
    rcases h with h | h
    · exact ((stamp_parse_statement s.heap.length fuel).run s r s' (le_refl _) h).2 i hi
    · exact ((stamp_parse_block s.heap.length fuel).run s r s' (le_refl _) h).2 i hi
  · intro r h i hi
    exact ((stamp_onyx_parse s.heap.length fuel).run s r s' (le_refl _) h).2 i hi

/-- An instance: `parse_block` run at the `{` of the body in
`f :: proc ( ) { if a { } }`, from an empty arena, returns the cell 0; the cells 0 and 1
are the Block node and the Local-group node, both without a token. -/
theorem block_and_if_have_no_token_witness :
    parse_block 8 if_block_start = Res.ok (NodePtr.node 0) if_block_final
    ∧ (if_block_final.heap[0]?).map AstNode.origin = some (Ast_Kind_Block, none)
    ∧ (if_block_final.heap[1]?).map AstNode.origin = some (Ast_Kind_Local_Group, none) :=
  ⟨by decide!,
   ((block_and_if_have_no_token 8 if_block_start if_block_final).1 (NodePtr.node 0)
      (by decide!)).2⟩

end Onyx
namespace Onyx

open TokenType AstKind BinaryOp UnaryOp BasicKind OnyxMessageType

/-! ## The static error node: the rules -/

set_option linter.unusedTactic false
set_option linter.unreachableTactic false

theorem clean_null : Clean NodePtr.null := ⟨fun h => NodePtr.noConfusion h⟩

theorem clean_node (j : Nat) : Clean (NodePtr.node j) := ⟨fun h => NodePtr.noConfusion h⟩

theorem clean_basic (k : BasicKind) : Clean (NodePtr.basic k) := ⟨fun h => NodePtr.noConfusion h⟩

theorem clean_ite (c : Prop) [Decidable c] (x y : NodePtr) (hx : Clean x) (hy : Clean y) :
    Clean (if c then x else y) := by
  split <;> assumption

theorem clean_of_guard (n : AstNode) (p : NodePtr) (h : Guard n p)
    (hk : n.kind ≠ Ast_Kind_Error) : Clean p := h.ne hk

theorem clean_of_guard_kind (n : AstNode) (p : NodePtr) (k : AstKind) (h : Guard n p)
    (hk : n.kind = k) (hne : k ≠ Ast_Kind_Error) : Clean p := h.ne (by rw [hk]; exact hne)

theorem clean_owner_arguments (p : NodePtr) (h : Clean p) :
    Clean (NodeSlot.owner (NodeSlot.arguments p)) := h

theorem clean_owner_body (p : NodePtr) (h : Clean p) :
    Clean (NodeSlot.owner (NodeSlot.body p)) := h

theorem clean_owner_next (p : NodePtr) (h : Clean p) :
    Clean (NodeSlot.owner (NodeSlot.next p)) := h

theorem clean_type_owner (p : NodePtr) (h : Clean p) :
    Clean (TypeSlot.owner (TypeSlot.elem p)) := h

theorem clean_list_nil : CleanList [] := ⟨fun _ h => by simp at h⟩

theorem clean_list_cons (p : NodePtr) (l : List NodePtr) (hp : Clean p) (hl : CleanList l) :
    CleanList (p :: l) := by
  constructor
  intro q hq
  simp only [List.mem_cons] at hq
  rcases hq with rfl | hq
  · exact hp
  · exact hl.all q hq

theorem clean_list_head (p : NodePtr) (l : List NodePtr) (h : CleanList (p :: l)) : Clean p :=
  h.all p (by simp)

theorem clean_list_tail (p : NodePtr) (l : List NodePtr) (h : CleanList (p :: l)) :
    CleanList l := ⟨fun q hq => h.all q (by simp [hq])⟩

theorem sealed_pure {α : Type} (a : α) : Sealed (pure a : P α) := by
  constructor
  intro s r s' hs hrun
  simp only [pure_run, Res.ok.injEq] at hrun
  rw [← hrun.2]
  exact hs

theorem sealed_raise {α : Type} (f : Fault) : Sealed (raise f : P α) :=
  ⟨fun _ _ _ _ hrun => Res.noConfusion hrun⟩

theorem sealed_bind {α β : Type} (m : P α) (f : α → P β) (hm : Sealed m)
    (hf : ∀ a, Sealed (f a)) : Sealed (m >>= f) := by
  constructor
  intro s r s' hs hrun
  obtain ⟨a, s1, h1, h2⟩ := bind_ok.1 hrun
  exact (hf a).run s1 r s' (hm.run s a s1 hs h1) h2

theorem sealed_ite_dep {α : Type} (c : Prop) [Decidable c] (m1 m2 : P α)
    (h1 : c → Sealed m1) (h2 : ¬ c → Sealed m2) : Sealed (if c then m1 else m2) := by
  split_ifs with hc
  · exact h1 hc
  · exact h2 hc

/-- A run that leaves the arena, the error node, the bindings and the uses as they are. -/
theorem sealed_of_unchanged {α : Type} (m : P α)
    (h : ∀ s r s', m s = Res.ok r s' →
      s'.heap = s.heap ∧ s'.error_node = s.error_node
      ∧ s'.results.bindings = s.results.bindings ∧ s'.results.uses = s.results.uses) :
    Sealed m := by
  constructor
  intro s r s' hs hrun
  obtain ⟨h1, h2, h3, h4⟩ := h s r s' hrun
  obtain ⟨e1, e2, e3, e4⟩ := hs
  exact ⟨by rw [h2]; exact e1, by rw [h1]; exact e2, by rw [h3]; exact e3, by rw [h4]; exact e4⟩

theorem sealed_curr_type : Sealed curr_type := by
  apply sealed_of_unchanged
  intro s r s' h
  obtain ⟨rfl, _⟩ := curr_type_ok h
  exact ⟨rfl, rfl, rfl, rfl⟩

theorem sealed_curr_token : Sealed curr_token := by
  apply sealed_of_unchanged
  intro s r s' h
  unfold curr_token at h
  split at h
  · injection h with _ h; subst h; exact ⟨rfl, rfl, rfl, rfl⟩
  · exact Res.noConfusion h

theorem sealed_curr_ptr : Sealed curr_ptr := by
  apply sealed_of_unchanged
  intro s r s' h
  injection h with _ h; subst h; exact ⟨rfl, rfl, rfl, rfl⟩

theorem sealed_read_token (t : Option Nat) : Sealed (read_token t) := by
  apply sealed_of_unchanged
  intro s r s' h
  unfold read_token at h
  split at h
  · exact Res.noConfusion h
  · split at h
    · injection h with _ h; subst h; exact ⟨rfl, rfl, rfl, rfl⟩
    · exact Res.noConfusion h

theorem sealed_consume_token : Sealed consume_token := by
  apply sealed_of_unchanged
  intro s r s' h
  unfold consume_token at h
  split at h
  · injection h with _ h; subst h; exact ⟨rfl, rfl, rfl, rfl⟩
  · exact Res.noConfusion h

theorem sealed_unconsume_token : Sealed unconsume_token := by
  apply sealed_of_unchanged
  intro s r s' h
  unfold unconsume_token at h
  split at h
  · exact Res.noConfusion h
  · exact Res.noConfusion h
  · split at h
    · injection h with _ h; subst h; exact ⟨rfl, rfl, rfl, rfl⟩
    · exact Res.noConfusion h

theorem sealed_onyx_message_add (ty : OnyxMessageType) (pos : OnyxFilePos)
    (args : List MsgArg) : Sealed (onyx_message_add ty pos args) := by
  apply sealed_of_unchanged
  intro s r s' h
  injection h with _ h; subst h; exact ⟨rfl, rfl, rfl, rfl⟩

theorem sealed_push_node_to_process (p : NodePtr) : Sealed (push_node_to_process p) := by
  apply sealed_of_unchanged
  intro s r s' h
  injection h with _ h; subst h; exact ⟨rfl, rfl, rfl, rfl⟩

theorem read_node_state (p : NodePtr) (s : OnyxParser) (n : AstNode) (s' : OnyxParser)
    (h : read_node p s = Res.ok n s') :
    s' = s ∧ (∀ i, p = NodePtr.node i → s.heap[i]? = some n)
      ∧ (p = NodePtr.error_node → n = s.error_node)
      ∧ (∀ k, p = NodePtr.basic k → n = basic_type_node k) ∧ p ≠ NodePtr.null := by
  unfold read_node at h
  cases p with
  | null => exact Res.noConfusion h
  | node i =>
    simp only at h
    split at h
    · rename_i m hm
      injection h with h1 h2
      subst h1 h2
      exact ⟨rfl, fun j hj => by injection hj with hj; subst hj; exact hm,
        fun h => NodePtr.noConfusion h, fun _ h => NodePtr.noConfusion h,
        fun h => NodePtr.noConfusion h⟩
    · exact Res.noConfusion h
  | error_node =>
    injection h with h1 h2
    subst h1 h2
    exact ⟨rfl, fun _ h => NodePtr.noConfusion h, fun _ => rfl,
      fun _ h => NodePtr.noConfusion h, fun h => NodePtr.noConfusion h⟩
  | basic k =>
    injection h with h1 h2
    subst h1 h2
    exact ⟨rfl, fun _ h => NodePtr.noConfusion h, fun h => NodePtr.noConfusion h,
      fun j hj => by injection hj with hj; subst hj; rfl, fun h => NodePtr.noConfusion h⟩

/-- A read through a pointer, followed by anything that keeps the state sound: in a
sound state a node of another kind than `Ast_Kind_Error` is not the error node. -/
theorem sealed_read_node_bind {β : Type} (p : NodePtr) (f : AstNode → P β)
    (hf : ∀ n, Guard n p → Sealed (f n)) : Sealed (read_node p >>= f) := by
  constructor
  intro s r s' hs hrun
  obtain ⟨n, s1, h1, h2⟩ := bind_ok.1 hrun
  obtain ⟨rfl, _, he, _, _⟩ := read_node_state p s n s1 h1
  refine (hf n ⟨fun hk => ⟨fun hp => ?_⟩⟩).run s1 r s' hs h2
  rw [he hp, hs.1] at hk
  exact hk rfl

/-- An allocation, followed by anything that keeps the state sound. -/
theorem sealed_make_node_bind {β : Type} (k : AstKind) (f : NodePtr → P β)
    (hf : ∀ j, Sealed (f (NodePtr.node j))) : Sealed (make_node k >>= f) := by
  constructor
  intro s r s' hs hrun
  obtain ⟨a, s1, h1, h2⟩ := bind_ok.1 hrun
  rw [make_node_run] at h1
  injection h1 with h0 h1
  subst h0 h1
  refine (hf _).run _ r s' ?_ h2
  refine ⟨hs.1, ?_, hs.2.2.1, hs.2.2.2⟩
  intro j n hn
  by_cases hj : j < s.heap.length
  · exact hs.2.1 j n (by
      have e : (s.heap ++ [({ kind := k } : AstNode)])[j]? = s.heap[j]? :=
        List.getElem?_append_left hj
      exact e ▸ hn)
  · have hj1 : (s.heap ++ [({ kind := k } : AstNode)])[j]? = some n := hn
    have hlen : j < (s.heap ++ [({ kind := k } : AstNode)]).length := by
      by_contra hc
      rw [List.getElem?_eq_none (by omega)] at hj1
      exact Option.noConfusion hj1
    simp only [List.length_append, List.length_singleton] at hlen
    have hje : j = s.heap.length := by omega
    subst hje
    rw [List.getElem?_concat_length] at hj1
    injection hj1 with hj1
    subst hj1
    simp [AstNode.links]

theorem sealed_make_function_type (param_types : List NodePtr) (return_type : NodePtr) :
    Sealed (make_function_type param_types return_type) := by
  constructor
  intro s r s' hs hrun
  unfold make_function_type at hrun
  injection hrun with h0 h1
  subst h0 h1
  refine ⟨hs.1, ?_, hs.2.2.1, hs.2.2.2⟩
  intro j n hn
  by_cases hj : j < s.heap.length
  · exact hs.2.1 j n (by
      have e : (s.heap ++ [(function_type_cell param_types return_type : AstNode)])[j]?
          = s.heap[j]? := List.getElem?_append_left hj
      exact e ▸ hn)
  · have hj1 : (s.heap ++ [(function_type_cell param_types return_type : AstNode)])[j]?
        = some n := hn
    have hlen : j < (s.heap ++ [(function_type_cell param_types return_type : AstNode)]).length := by
      by_contra hc
      rw [List.getElem?_eq_none (by omega)] at hj1
      exact Option.noConfusion hj1
    simp only [List.length_append, List.length_singleton] at hlen
    have hje : j = s.heap.length := by omega
    subst hje
    rw [List.getElem?_concat_length] at hj1
    injection hj1 with hj1
    subst hj1
    simp [AstNode.links, function_type_cell]

/-- A write through a pointer that is not the address of the error node. -/
theorem sealed_modify_links (p : NodePtr) (f : AstNode → AstNode) (hp : Clean p)
    (hf : ∀ n, NodePtr.error_node ∉ n.links → NodePtr.error_node ∉ (f n).links) :
    Sealed (modify_node p f) := by
  constructor
  intro s r s' hs hrun
  unfold modify_node at hrun
  cases p with
  | null => exact Res.noConfusion hrun
  | node i =>
    simp only at hrun
    split at hrun
    · rename_i n hn
      injection hrun with h1 h2
      subst h2
      refine ⟨hs.1, ?_, hs.2.2.1, hs.2.2.2⟩
      intro j m hm
      have hm1 : (s.heap.set i (f n))[j]? = some m := hm
      by_cases hij : i = j
      · subst hij
        have hlt : i < s.heap.length := by
          by_contra hlt
          rw [List.getElem?_eq_none (by omega)] at hn
          exact Option.noConfusion hn
        rw [List.getElem?_set_self hlt] at hm1
        injection hm1 with hm1
        subst hm1
        exact hf n (hs.2.1 i n hn)
      · rw [List.getElem?_set_ne hij] at hm1
        exact hs.2.1 j m hm1
    · exact Res.noConfusion hrun
  | error_node => exact absurd rfl hp.ne
  | basic k => exact Res.noConfusion hrun

theorem sealed_modify (p : NodePtr) (f : AstNode → AstNode) (hp : Clean p)
    (hf : ∀ n, (f n).links = n.links) : Sealed (modify_node p f) :=
  sealed_modify_links p f hp (fun n h => by rw [hf n]; exact h)

theorem sealed_modify_next (p v : NodePtr) (hp : Clean p) (hv : Clean v) :
    Sealed (modify_node p (fun n => { n with next := v })) :=
  sealed_modify_links p _ hp (fun n h => by
    simp only [AstNode.links, List.mem_cons, List.mem_singleton, not_or, List.mem_nil_iff,
      or_false] at h ⊢
    exact ⟨fun e => hv.ne e.symm, h.2⟩)

theorem sealed_modify_body (p v : NodePtr) (hp : Clean p) (hv : Clean v) :
    Sealed (modify_node p (fun n => { n with body := v })) :=
  sealed_modify_links p _ hp (fun n h => by
    simp only [AstNode.links, List.mem_cons, List.mem_singleton, not_or, List.mem_nil_iff,
      or_false] at h ⊢
    exact ⟨h.1, fun e => hv.ne e.symm, h.2.2⟩)

theorem sealed_modify_arguments (p v : NodePtr) (hp : Clean p) (hv : Clean v) :
    Sealed (modify_node p (fun n => { n with arguments := v })) :=
  sealed_modify_links p _ hp (fun n h => by
    simp only [AstNode.links, List.mem_cons, List.mem_singleton, not_or, List.mem_nil_iff,
      or_false] at h ⊢
    exact ⟨h.1, h.2.1, fun e => hv.ne e.symm, h.2.2.2⟩)

theorem sealed_modify_params (p v : NodePtr) (hp : Clean p) (hv : Clean v) :
    Sealed (modify_node p (fun n => { n with params := v })) :=
  sealed_modify_links p _ hp (fun n h => by
    simp only [AstNode.links, List.mem_cons, List.mem_singleton, not_or, List.mem_nil_iff,
      or_false] at h ⊢
    exact ⟨h.1, h.2.1, h.2.2.1, fun e => hv.ne e.symm⟩)

theorem sealed_write_slot (slot : NodeSlot) (v : NodePtr) (hs : Clean slot.owner)
    (hv : Clean v) : Sealed (write_slot slot v) := by
  cases slot with
  | arguments q => exact sealed_modify_arguments q v hs hv
  | body q => exact sealed_modify_body q v hs hv
  | next q => exact sealed_modify_next q v hs hv

/-- The walk to the end of a statement chain from a node that is not the error node: in a
sound state it does not reach the error node. -/
theorem last_in_chain_clean (fuel : Nat) :
    ∀ (stmt : NodePtr) (s : OnyxParser) (r : NodePtr) (s' : OnyxParser), Sound s →
      Clean stmt → last_in_chain fuel stmt s = Res.ok r s' → Clean r := by
  induction fuel with
  | zero => intro stmt s r s' _ _ h; exact Res.noConfusion h
  | succ n ih =>
    intro stmt s r s' hs hp h
    rw [last_in_chain] at h
    obtain ⟨m, s1, h1, h2⟩ := bind_ok.1 h
    obtain ⟨rfl, hnode, _, hbasic, _⟩ := read_node_state stmt s m s1 h1
    rw [ite_run] at h2
    split_ifs at h2 with hnext
    · refine ih _ _ _ _ hs ⟨fun he => ?_⟩ h2
      cases stmt with
      | null => exact Res.noConfusion h1
      | node i =>
        have := hs.2.1 i m (hnode i rfl)
        simp only [AstNode.links, List.mem_cons, List.mem_singleton, not_or] at this
        exact this.1 he.symm
      | error_node => exact hp.ne rfl
      | basic k =>
        rw [hbasic k rfl] at he
        exact NodePtr.noConfusion he
    · simp only [pure_run, Res.ok.injEq] at h2
      rw [← h2.1]
      exact hp

theorem sealed_last_in_chain_bind {β : Type} (fuel : Nat) (stmt : NodePtr) (f : NodePtr → P β)
    (hp : Clean stmt) (hf : ∀ a, Clean a → Sealed (f a)) :
    Sealed (last_in_chain fuel stmt >>= f) := by
  constructor
  intro s r s' hs hrun
  obtain ⟨a, s1, h1, h2⟩ := bind_ok.1 hrun
  have hc := last_in_chain_clean fuel stmt s a s1 hs hp h1
  have hs1 := last_in_chain_state fuel stmt s a s1 h1
  subst hs1
  exact (hf a hc).run s1 r s' hs h2

theorem pop_tree_stack_state (op : BinaryOp) :
    ∀ (st : List NodePtr) (s : OnyxParser) (r : List NodePtr) (s' : OnyxParser),
      pop_tree_stack op st s = Res.ok r s' → s' = s ∧ ∀ p ∈ r, p ∈ st := by
  intro st
  induction st with
  | nil =>
    intro s r s' h
    rw [pop_tree_stack] at h
    simp only [pure_run, Res.ok.injEq] at h
    exact ⟨h.2.symm, fun p hp => by rw [← h.1] at hp; exact hp⟩
  | cons top rest ih =>
    intro s r s' h
    rw [pop_tree_stack] at h
    obtain ⟨m, s1, h1, h2⟩ := bind_ok.1 h
    obtain ⟨rfl, _⟩ := read_node_state top s m s1 h1
    rw [ite_run] at h2
    split_ifs at h2
    · obtain ⟨e, hsub⟩ := ih _ _ _ h2
      exact ⟨e, fun p hp => List.mem_cons_of_mem _ (hsub p hp)⟩
    · simp only [pure_run, Res.ok.injEq] at h2
      exact ⟨h2.2.symm, fun p hp => by rw [← h2.1] at hp; exact hp⟩

theorem sealed_pop_tree_stack_bind {β : Type} (op : BinaryOp) (st : List NodePtr)
    (f : List NodePtr → P β) (hst : CleanList st)
    (hf : ∀ st1, CleanList st1 → Sealed (f st1)) : Sealed (pop_tree_stack op st >>= f) := by
  constructor
  intro s r s' hs hrun
  obtain ⟨a, s1, h1, h2⟩ := bind_ok.1 hrun
  obtain ⟨rfl, hsub⟩ := pop_tree_stack_state op st s a s1 h1
  exact (hf a ⟨fun p hp => hst.all p (hsub p hp)⟩).run s1 r s' hs h2

/-- A run whose results are never the error node, followed by anything that keeps the
state sound. -/
theorem sealed_bind_yields {β : Type} (m : P NodePtr) (f : NodePtr → P β)
    (hy : Yields Clean m) (hm : Sealed m) (hf : ∀ a, Clean a → Sealed (f a)) :
    Sealed (m >>= f) := by
  constructor
  intro s r s' hs hrun
  obtain ⟨a, s1, h1, h2⟩ := bind_ok.1 hrun
  exact (hf a (hy.run s a s1 h1)).run s1 r s' (hm.run s a s1 hs h1) h2

theorem sealed_bind_slot {β : Type} (m : P NodeSlot) (f : NodeSlot → P β)
    (hy : Yields (fun slot => Clean slot.owner) m) (hm : Sealed m)
    (hf : ∀ a, Clean a.owner → Sealed (f a)) : Sealed (m >>= f) := by
  constructor
  intro s r s' hs hrun
  obtain ⟨a, s1, h1, h2⟩ := bind_ok.1 hrun
  exact (hf a (hy.run s a s1 h1)).run s1 r s' (hm.run s a s1 hs h1) h2

/-! ## The static error node: results that are never the error node -/

theorem yields_bind_clean {β : Type} (Q : β → Prop) (m : P NodePtr) (f : NodePtr → P β)
    (hy : Yields Clean m) (hf : ∀ a, Clean a → Yields Q (f a)) : Yields Q (m >>= f) := by
  constructor
  intro s r s' hrun
  obtain ⟨a, s1, h1, h2⟩ := bind_ok.1 hrun
  exact (hf a (hy.run s a s1 h1)).run s1 r s' h2

theorem yields_parse_block (fuel : Nat) : Yields Clean (parse_block fuel) := by
  cases fuel with
  | zero => rw [parse_block]; exact yields_raise _ _
  | succ n =>
    have ih : True := trivial
    rw [parse_block]
    repeat' first
        | assumption
        | exact clean_null
        | exact clean_node _
        | apply clean_ite
        | exact yields_pure _ _ (by assumption)
        | exact yields_pure _ _ (clean_node _)
        | exact yields_pure _ _ clean_null
        | exact yields_pure _ _ (clean_owner_next _ (clean_node _))
        | apply ih
        | apply yields_bind_clean _ _ _ (ih _ _ clean_null)
        | apply yields_raise
        | apply yields_make_node_bind
        | apply yields_bind
        | apply yields_ite
        | intro _
        | split

theorem yields_parse_if_elseifs :
    ∀ fuel if_node, Clean if_node → Yields Clean (parse_if_elseifs fuel if_node) := by
  intro fuel
  induction fuel with
  | zero => intro _ _; rw [parse_if_elseifs]; exact yields_raise _ _
  | succ n ih =>
    intro if_node hif
    rw [parse_if_elseifs]
    repeat' first
        | assumption
        | exact clean_null
        | exact clean_node _
        | apply clean_ite
        | exact yields_pure _ _ (by assumption)
        | exact yields_pure _ _ (clean_node _)
        | exact yields_pure _ _ clean_null
        | exact yields_pure _ _ (clean_owner_next _ (clean_node _))
        | apply ih
        | apply yields_bind_clean _ _ _ (ih _ _ clean_null)
        | apply yields_raise
        | apply yields_make_node_bind
        | apply yields_bind
        | apply yields_ite
        | intro _
        | split

theorem yields_parse_function_params_loop :
    ∀ fuel first trailer, Clean first →
      Yields Clean (parse_function_params_loop fuel first trailer) := by
  intro fuel
  induction fuel with
  | zero => intro _ _ _; exact yields_raise _ _
  | succ n ih =>
    intro first trailer hfirst
    rw [parse_function_params_loop]
    repeat' first
        | assumption
        | exact clean_null
        | exact clean_node _
        | apply clean_ite
        | exact yields_pure _ _ (by assumption)
        | exact yields_pure _ _ (clean_node _)
        | exact yields_pure _ _ clean_null
        | exact yields_pure _ _ (clean_owner_next _ (clean_node _))
        | apply ih
        | apply yields_bind_clean _ _ _ (ih _ _ clean_null)
        | apply yields_raise
        | apply yields_make_node_bind
        | apply yields_bind
        | apply yields_ite
        | intro _
        | split

theorem yields_parse_function_params (fuel : Nat) :
    Yields Clean (parse_function_params fuel) := by
  have ih := yields_parse_function_params_loop fuel
  unfold parse_function_params
  repeat' first
      | assumption
      | exact clean_null
      | exact clean_node _
      | apply clean_ite
      | exact yields_pure _ _ (by assumption)
      | exact yields_pure _ _ (clean_node _)
      | exact yields_pure _ _ clean_null
      | exact yields_pure _ _ (clean_owner_next _ (clean_node _))
      | apply ih
      | apply yields_bind_clean _ _ _ (ih _ _ clean_null)
      | apply yields_raise
      | apply yields_make_node_bind
      | apply yields_bind
      | apply yields_ite
      | intro _
      | split

/-- The slot that the argument loop of a call continues with. -/
theorem yields_slot_step (c : Prop) [Decidable c] (prev : NodeSlot) (curr : Nat)
    (hprev : Clean prev.owner) :
    Yields (fun slot => Clean slot.owner)
      (if c then (write_slot prev (NodePtr.node curr) >>= fun _ =>
          (pure (NodeSlot.next (NodePtr.node curr)) : P NodeSlot))
        else pure prev) := by
  have ih : True := trivial
  repeat' first
      | assumption
      | exact clean_null
      | exact clean_node _
      | apply clean_ite
      | exact yields_pure _ _ (by assumption)
      | exact yields_pure _ _ (clean_node _)
      | exact yields_pure _ _ clean_null
      | exact yields_pure _ _ (clean_owner_next _ (clean_node _))
      | apply ih
      | apply yields_bind_clean _ _ _ (ih _ _ clean_null)
      | apply yields_raise
      | apply yields_make_node_bind
      | apply yields_bind
      | apply yields_ite
      | intro _
      | split

/-! ## The static error node: the parsing functions -/

theorem sealed_expect_token (ty : TokenType) : Sealed (expect_token ty) := by
  unfold expect_token
  repeat' first
      | assumption
      | exact clean_null
      | exact clean_node _
      | exact clean_basic _
      | exact clean_list_nil
      | (apply clean_of_guard <;> assumption)
      | (apply clean_of_guard_kind <;> first | assumption | decide)
      | (apply clean_list_head; assumption)
      | (apply clean_list_tail; assumption)
      | apply clean_list_cons
      | apply clean_ite
      | apply clean_owner_arguments
      | apply clean_owner_body
      | apply clean_owner_next
      | apply clean_type_owner
      | apply sealed_curr_type
      | apply sealed_curr_token
      | apply sealed_curr_ptr
      | apply sealed_read_token
      | apply sealed_consume_token
      | apply sealed_unconsume_token
      | apply sealed_onyx_message_add
      | apply sealed_push_node_to_process
      | apply sealed_make_function_type
      | (refine sealed_modify _ _ ?_ (fun _ => rfl))
      | apply sealed_modify_next
      | apply sealed_modify_body
      | apply sealed_modify_params
      | apply sealed_write_slot
      | apply sealed_read_node_bind
      | apply sealed_last_in_chain_bind
      | apply sealed_pop_tree_stack_bind
      | apply sealed_make_node_bind
      | apply sealed_bind
      | apply sealed_ite_dep
      | apply sealed_pure
      | apply sealed_raise
      | intro _
      | split

theorem sealed_token_toggle_end (t : Option Nat) : Sealed (token_toggle_end t) := by
  unfold token_toggle_end
  repeat' first
      | assumption
      | exact clean_null
      | exact clean_node _
      | exact clean_basic _
      | exact clean_list_nil
      | (apply clean_of_guard <;> assumption)
      | (apply clean_of_guard_kind <;> first | assumption | decide)
      | (apply clean_list_head; assumption)
      | (apply clean_list_tail; assumption)
      | apply clean_list_cons
      | apply clean_ite
      | apply clean_owner_arguments
      | apply clean_owner_body
      | apply clean_owner_next
      | apply clean_type_owner
      | apply sealed_curr_type
      | apply sealed_curr_token
      | apply sealed_curr_ptr
      | apply sealed_read_token
      | apply sealed_consume_token
      | apply sealed_unconsume_token
      | apply sealed_onyx_message_add
      | apply sealed_push_node_to_process
      | apply sealed_make_function_type
      | (refine sealed_modify _ _ ?_ (fun _ => rfl))
      | apply sealed_modify_next
      | apply sealed_modify_body
      | apply sealed_modify_params
      | apply sealed_write_slot
      | apply sealed_read_node_bind
      | apply sealed_last_in_chain_bind
      | apply sealed_pop_tree_stack_bind
      | apply sealed_make_node_bind
      | apply sealed_bind
      | apply sealed_ite_dep
      | apply sealed_pure
      | apply sealed_raise
      | intro _
      | split

theorem sealed_find_token (ty : TokenType) : ∀ fuel, Sealed (find_token fuel ty) := by
  intro fuel
  induction fuel with
  | zero => exact sealed_raise _
  | succ n ih =>
    rw [find_token]
    repeat' first
        | assumption
        | exact clean_null
        | exact clean_node _
        | exact clean_basic _
        | exact clean_list_nil
        | (apply clean_of_guard <;> assumption)
        | (apply clean_of_guard_kind <;> first | assumption | decide)
        | (apply clean_list_head; assumption)
        | (apply clean_list_tail; assumption)
        | apply clean_list_cons
        | apply clean_ite
        | apply clean_owner_arguments
        | apply clean_owner_body
        | apply clean_owner_next
        | apply clean_type_owner
        | apply sealed_curr_type
        | apply sealed_curr_token
        | apply sealed_curr_ptr
        | apply sealed_read_token
        | apply sealed_consume_token
        | apply sealed_unconsume_token
        | apply sealed_onyx_message_add
        | apply sealed_push_node_to_process
        | apply sealed_make_function_type
        | apply ih
        | (refine sealed_modify _ _ ?_ (fun _ => rfl))
        | apply sealed_modify_next
        | apply sealed_modify_body
        | apply sealed_modify_params
        | apply sealed_write_slot
        | apply sealed_read_node_bind
        | apply sealed_last_in_chain_bind
        | apply sealed_pop_tree_stack_bind
        | apply sealed_make_node_bind
        | apply sealed_bind
        | apply sealed_ite_dep
        | apply sealed_pure
        | apply sealed_raise
        | intro _
        | split

theorem sealed_parse_possible_directive (dir : List Char) : Sealed (parse_possible_directive dir) := by
  unfold parse_possible_directive
  repeat' first
      | assumption
      | exact clean_null
      | exact clean_node _
      | exact clean_basic _
      | exact clean_list_nil
      | (apply clean_of_guard <;> assumption)
      | (apply clean_of_guard_kind <;> first | assumption | decide)
      | (apply clean_list_head; assumption)
      | (apply clean_list_tail; assumption)
      | apply clean_list_cons
      | apply clean_ite
      | apply clean_owner_arguments
      | apply clean_owner_body
      | apply clean_owner_next
      | apply clean_type_owner
      | apply sealed_curr_type
      | apply sealed_curr_token
      | apply sealed_curr_ptr
      | apply sealed_read_token
      | apply sealed_consume_token
      | apply sealed_unconsume_token
      | apply sealed_onyx_message_add
      | apply sealed_push_node_to_process
      | apply sealed_make_function_type
      | apply sealed_expect_token
      | apply sealed_token_toggle_end
      | apply sealed_find_token
      | (refine sealed_modify _ _ ?_ (fun _ => rfl))
      | apply sealed_modify_next
      | apply sealed_modify_body
      | apply sealed_modify_params
      | apply sealed_write_slot
      | apply sealed_read_node_bind
      | apply sealed_last_in_chain_bind
      | apply sealed_pop_tree_stack_bind
      | apply sealed_make_node_bind
      | apply sealed_bind
      | apply sealed_ite_dep
      | apply sealed_pure
      | apply sealed_raise
      | intro _
      | split

theorem sealed_parse_numeric_literal : Sealed (parse_numeric_literal) := by
  unfold parse_numeric_literal
  repeat' first
      | assumption
      | exact clean_null
      | exact clean_node _
      | exact clean_basic _
      | exact clean_list_nil
      | (apply clean_of_guard <;> assumption)
      | (apply clean_of_guard_kind <;> first | assumption | decide)
      | (apply clean_list_head; assumption)
      | (apply clean_list_tail; assumption)
      | apply clean_list_cons
      | apply clean_ite
      | apply clean_owner_arguments
      | apply clean_owner_body
      | apply clean_owner_next
      | apply clean_type_owner
      | apply sealed_curr_type
      | apply sealed_curr_token
      | apply sealed_curr_ptr
      | apply sealed_read_token
      | apply sealed_consume_token
      | apply sealed_unconsume_token
      | apply sealed_onyx_message_add
      | apply sealed_push_node_to_process
      | apply sealed_make_function_type
      | apply sealed_expect_token
      | apply sealed_token_toggle_end
      | apply sealed_find_token
      | (refine sealed_modify _ _ ?_ (fun _ => rfl))
      | apply sealed_modify_next
      | apply sealed_modify_body
      | apply sealed_modify_params
      | apply sealed_write_slot
      | apply sealed_read_node_bind
      | apply sealed_last_in_chain_bind
      | apply sealed_pop_tree_stack_bind
      | apply sealed_make_node_bind
      | apply sealed_bind
      | apply sealed_ite_dep
      | apply sealed_pure
      | apply sealed_raise
      | intro _
      | split

theorem sealed_parse_type_loop :
    ∀ fuel root slot, Clean (TypeSlot.owner slot) → Sealed (parse_type_loop fuel root slot) := by
  intro fuel
  induction fuel with
  | zero => intro _ _ _; exact sealed_raise _
  | succ n ih =>
    intro root slot hslot
    rw [parse_type_loop]
    cases slot with
    | root =>
      repeat' first
          | assumption
          | exact clean_null
          | exact clean_node _
          | exact clean_basic _
          | exact clean_list_nil
          | (apply clean_of_guard <;> assumption)
          | (apply clean_of_guard_kind <;> first | assumption | decide)
          | (apply clean_list_head; assumption)
          | (apply clean_list_tail; assumption)
          | apply clean_list_cons
          | apply clean_ite
          | apply clean_owner_arguments
          | apply clean_owner_body
          | apply clean_owner_next
          | apply clean_type_owner
          | apply sealed_curr_type
          | apply sealed_curr_token
          | apply sealed_curr_ptr
          | apply sealed_read_token
          | apply sealed_consume_token
          | apply sealed_unconsume_token
          | apply sealed_onyx_message_add
          | apply sealed_push_node_to_process
          | apply sealed_make_function_type
          | apply sealed_expect_token
          | apply sealed_token_toggle_end
          | apply sealed_find_token
          | apply ih
          | (refine sealed_modify _ _ ?_ (fun _ => rfl))
          | apply sealed_modify_next
          | apply sealed_modify_body
          | apply sealed_modify_params
          | apply sealed_write_slot
          | apply sealed_read_node_bind
          | apply sealed_last_in_chain_bind
          | apply sealed_pop_tree_stack_bind
          | apply sealed_make_node_bind
          | apply sealed_bind
          | apply sealed_ite_dep
          | apply sealed_pure
          | apply sealed_raise
          | intro _
          | split
    | elem p =>
      have hp : Clean p := hslot
      repeat' first
          | assumption
          | exact clean_null
          | exact clean_node _
          | exact clean_basic _
          | exact clean_list_nil
          | (apply clean_of_guard <;> assumption)
          | (apply clean_of_guard_kind <;> first | assumption | decide)
          | (apply clean_list_head; assumption)
          | (apply clean_list_tail; assumption)
          | apply clean_list_cons
          | apply clean_ite
          | apply clean_owner_arguments
          | apply clean_owner_body
          | apply clean_owner_next
          | apply clean_type_owner
          | apply sealed_curr_type
          | apply sealed_curr_token
          | apply sealed_curr_ptr
          | apply sealed_read_token
          | apply sealed_consume_token
          | apply sealed_unconsume_token
          | apply sealed_onyx_message_add
          | apply sealed_push_node_to_process
          | apply sealed_make_function_type
          | apply sealed_expect_token
          | apply sealed_token_toggle_end
          | apply sealed_find_token
          | apply ih
          | (refine sealed_modify _ _ ?_ (fun _ => rfl))
          | apply sealed_modify_next
          | apply sealed_modify_body
          | apply sealed_modify_params
          | apply sealed_write_slot
          | apply sealed_read_node_bind
          | apply sealed_last_in_chain_bind
          | apply sealed_pop_tree_stack_bind
          | apply sealed_make_node_bind
          | apply sealed_bind
          | apply sealed_ite_dep
          | apply sealed_pure
          | apply sealed_raise
          | intro _
          | split

theorem sealed_parse_type (fuel : Nat) : Sealed (parse_type fuel) :=
  sealed_parse_type_loop fuel _ _ clean_null

theorem sealed_parse_factor_casts :
    ∀ fuel retval, Sealed (parse_factor_casts fuel retval) := by
  intro fuel
  induction fuel with
  | zero => intro _; exact sealed_raise _
  | succ n ih =>
    intro retval
    rw [parse_factor_casts]
    repeat' first
        | assumption
        | exact clean_null
        | exact clean_node _
        | exact clean_basic _
        | exact clean_list_nil
        | (apply clean_of_guard <;> assumption)
        | (apply clean_of_guard_kind <;> first | assumption | decide)
        | (apply clean_list_head; assumption)
        | (apply clean_list_tail; assumption)
        | apply clean_list_cons
        | apply clean_ite
        | apply clean_owner_arguments
        | apply clean_owner_body
        | apply clean_owner_next
        | apply clean_type_owner
        | apply sealed_curr_type
        | apply sealed_curr_token
        | apply sealed_curr_ptr
        | apply sealed_read_token
        | apply sealed_consume_token
        | apply sealed_unconsume_token
        | apply sealed_onyx_message_add
        | apply sealed_push_node_to_process
        | apply sealed_make_function_type
        | apply sealed_expect_token
        | apply sealed_token_toggle_end
        | apply sealed_find_token
        | apply sealed_parse_type
        | apply sealed_parse_numeric_literal
        | apply ih
        | (refine sealed_modify _ _ ?_ (fun _ => rfl))
        | apply sealed_modify_next
        | apply sealed_modify_body
        | apply sealed_modify_params
        | apply sealed_write_slot
        | apply sealed_read_node_bind
        | apply sealed_last_in_chain_bind
        | apply sealed_pop_tree_stack_bind
        | apply sealed_make_node_bind
        | apply sealed_bind
        | apply sealed_ite_dep
        | apply sealed_pure
        | apply sealed_raise
        | intro _
        | split

set_option maxHeartbeats 4000000 in
/-- The four mutually recursive expression functions keep the state sound. -/
theorem sealed_expression_level (fuel : Nat) :
    Sealed (parse_factor fuel) ∧
    (∀ slot, Clean (NodeSlot.owner slot) → Sealed (parse_call_arguments fuel slot)) ∧
    Sealed (parse_expression fuel) ∧
    (∀ left root st, CleanList st → Sealed (parse_expression_loop fuel left root st)) := by
  induction fuel with
  | zero =>
    refine ⟨?_, fun _ _ => ?_, ?_, fun _ _ _ _ => ?_⟩
    · rw [parse_factor]; exact sealed_raise _
    · rw [parse_call_arguments]; exact sealed_raise _
    · rw [parse_expression]; exact sealed_raise _
    · rw [parse_expression_loop]; exact sealed_raise _
  | succ n ih =>
    obtain ⟨ihf, iha, ihe, ihl⟩ := ih
    refine ⟨?_, fun slot hslot => ?_, ?_, fun left root st hst => ?_⟩
    · rw [parse_factor]
      repeat' first
          | assumption
          | exact clean_null
          | exact clean_node _
          | exact clean_basic _
          | exact clean_list_nil
          | (apply clean_of_guard <;> assumption)
          | (apply clean_of_guard_kind <;> first | assumption | decide)
          | (apply clean_list_head; assumption)
          | (apply clean_list_tail; assumption)
          | apply clean_list_cons
          | apply clean_ite
          | apply clean_owner_arguments
          | apply clean_owner_body
          | apply clean_owner_next
          | apply clean_type_owner
          | apply sealed_bind_slot _ _ (yields_slot_step _ _ _ (by assumption))
          | apply sealed_curr_type
          | apply sealed_curr_token
          | apply sealed_curr_ptr
          | apply sealed_read_token
          | apply sealed_consume_token
          | apply sealed_unconsume_token
          | apply sealed_onyx_message_add
          | apply sealed_push_node_to_process
          | apply sealed_make_function_type
          | apply sealed_expect_token
          | apply sealed_token_toggle_end
          | apply sealed_find_token
          | apply sealed_parse_type
          | apply sealed_parse_numeric_literal
          | apply sealed_parse_factor_casts
          | apply ihf
          | apply iha
          | apply ihe
          | apply ihl
          | (refine sealed_modify _ _ ?_ (fun _ => rfl))
          | apply sealed_modify_next
          | apply sealed_modify_body
          | apply sealed_modify_params
          | apply sealed_write_slot
          | apply sealed_read_node_bind
          | apply sealed_last_in_chain_bind
          | apply sealed_pop_tree_stack_bind
          | apply sealed_make_node_bind
          | apply sealed_bind
          | apply sealed_ite_dep
          | apply sealed_pure
          | apply sealed_raise
          | intro _
          | split
    · rw [parse_call_arguments]
      repeat' first
          | assumption
          | exact clean_null
          | exact clean_node _
          | exact clean_basic _
          | exact clean_list_nil
          | (apply clean_of_guard <;> assumption)
          | (apply clean_of_guard_kind <;> first | assumption | decide)
          | (apply clean_list_head; assumption)
          | (apply clean_list_tail; assumption)
          | apply clean_list_cons
          | apply clean_ite
          | apply clean_owner_arguments
          | apply clean_owner_body
          | apply clean_owner_next
          | apply clean_type_owner
          | apply sealed_bind_slot _ _ (yields_slot_step _ _ _ (by assumption))
          | apply sealed_curr_type
          | apply sealed_curr_token
          | apply sealed_curr_ptr
          | apply sealed_read_token
          | apply sealed_consume_token
          | apply sealed_unconsume_token
          | apply sealed_onyx_message_add
          | apply sealed_push_node_to_process
          | apply sealed_make_function_type
          | apply sealed_expect_token
          | apply sealed_token_toggle_end
          | apply sealed_find_token
          | apply sealed_parse_type
          | apply sealed_parse_numeric_literal
          | apply sealed_parse_factor_casts
          | apply ihf
          | apply iha
          | apply ihe
          | apply ihl
          | (refine sealed_modify _ _ ?_ (fun _ => rfl))
          | apply sealed_modify_next
          | apply sealed_modify_body
          | apply sealed_modify_params
          | apply sealed_write_slot
          | apply sealed_read_node_bind
          | apply sealed_last_in_chain_bind
          | apply sealed_pop_tree_stack_bind
          | apply sealed_make_node_bind
          | apply sealed_bind
          | apply sealed_ite_dep
          | apply sealed_pure
          | apply sealed_raise
          | intro _
          | split
    · rw [parse_expression]
      repeat' first
          | assumption
          | exact clean_null
          | exact clean_node _
          | exact clean_basic _
          | exact clean_list_nil
          | (apply clean_of_guard <;> assumption)
          | (apply clean_of_guard_kind <;> first | assumption | decide)
          | (apply clean_list_head; assumption)
          | (apply clean_list_tail; assumption)
          | apply clean_list_cons
          | apply clean_ite
          | apply clean_owner_arguments
          | apply clean_owner_body
          | apply clean_owner_next
          | apply clean_type_owner
          | apply sealed_bind_slot _ _ (yields_slot_step _ _ _ (by assumption))
          | apply sealed_curr_type
          | apply sealed_curr_token
          | apply sealed_curr_ptr
          | apply sealed_read_token
          | apply sealed_consume_token
          | apply sealed_unconsume_token
          | apply sealed_onyx_message_add
          | apply sealed_push_node_to_process
          | apply sealed_make_function_type
          | apply sealed_expect_token
          | apply sealed_token_toggle_end
          | apply sealed_find_token
          | apply sealed_parse_type
          | apply sealed_parse_numeric_literal
          | apply sealed_parse_factor_casts
          | apply ihf
          | apply iha
          | apply ihe
          | apply ihl
          | (refine sealed_modify _ _ ?_ (fun _ => rfl))
          | apply sealed_modify_next
          | apply sealed_modify_body
          | apply sealed_modify_params
          | apply sealed_write_slot
          | apply sealed_read_node_bind
          | apply sealed_last_in_chain_bind
          | apply sealed_pop_tree_stack_bind
          | apply sealed_make_node_bind
          | apply sealed_bind
          | apply sealed_ite_dep
          | apply sealed_pure
          | apply sealed_raise
          | intro _
          | split
    · rw [parse_expression_loop]
      repeat' first
          | assumption
          | exact clean_null
          | exact clean_node _
          | exact clean_basic _
          | exact clean_list_nil
          | (apply clean_of_guard <;> assumption)
          | (apply clean_of_guard_kind <;> first | assumption | decide)
          | (apply clean_list_head; assumption)
          | (apply clean_list_tail; assumption)
          | apply clean_list_cons
          | apply clean_ite
          | apply clean_owner_arguments
          | apply clean_owner_body
          | apply clean_owner_next
          | apply clean_type_owner
          | apply sealed_bind_slot _ _ (yields_slot_step _ _ _ (by assumption))
          | apply sealed_curr_type
          | apply sealed_curr_token
          | apply sealed_curr_ptr
          | apply sealed_read_token
          | apply sealed_consume_token
          | apply sealed_unconsume_token
          | apply sealed_onyx_message_add
          | apply sealed_push_node_to_process
          | apply sealed_make_function_type
          | apply sealed_expect_token
          | apply sealed_token_toggle_end
          | apply sealed_find_token
          | apply sealed_parse_type
          | apply sealed_parse_numeric_literal
          | apply sealed_parse_factor_casts
          | apply ihf
          | apply iha
          | apply ihe
          | apply ihl
          | (refine sealed_modify _ _ ?_ (fun _ => rfl))
          | apply sealed_modify_next
          | apply sealed_modify_body
          | apply sealed_modify_params
          | apply sealed_write_slot
          | apply sealed_read_node_bind
          | apply sealed_last_in_chain_bind
          | apply sealed_pop_tree_stack_bind
          | apply sealed_make_node_bind
          | apply sealed_bind
          | apply sealed_ite_dep
          | apply sealed_pure
          | apply sealed_raise
          | intro _
          | split

theorem sealed_parse_expression (fuel : Nat) : Sealed (parse_expression fuel) :=
  (sealed_expression_level fuel).2.2.1

theorem sealed_parse_symbol_statement (fuel : Nat) (ret : NodePtr) : Sealed (parse_symbol_statement fuel ret) := by
  unfold parse_symbol_statement
  repeat' first
      | assumption
      | exact clean_null
      | exact clean_node _
      | exact clean_basic _
      | exact clean_list_nil
      | (apply clean_of_guard <;> assumption)
      | (apply clean_of_guard_kind <;> first | assumption | decide)
      | (apply clean_list_head; assumption)
      | (apply clean_list_tail; assumption)
      | apply clean_list_cons
      | apply clean_ite
      | apply clean_owner_arguments
      | apply clean_owner_body
      | apply clean_owner_next
      | apply clean_type_owner
      | apply sealed_curr_type
      | apply sealed_curr_token
      | apply sealed_curr_ptr
      | apply sealed_read_token
      | apply sealed_consume_token
      | apply sealed_unconsume_token
      | apply sealed_onyx_message_add
      | apply sealed_push_node_to_process
      | apply sealed_make_function_type
      | apply sealed_expect_token
      | apply sealed_token_toggle_end
      | apply sealed_find_token
      | apply sealed_parse_type
      | apply sealed_parse_numeric_literal
      | apply sealed_parse_factor_casts
      | apply sealed_parse_expression
      | (refine sealed_modify _ _ ?_ (fun _ => rfl))
      | apply sealed_modify_next
      | apply sealed_modify_body
      | apply sealed_modify_params
      | apply sealed_write_slot
      | apply sealed_read_node_bind
      | apply sealed_last_in_chain_bind
      | apply sealed_pop_tree_stack_bind
      | apply sealed_make_node_bind
      | apply sealed_bind
      | apply sealed_ite_dep
      | apply sealed_pure
      | apply sealed_raise
      | intro _
      | split

theorem sealed_parse_return_statement (fuel : Nat) : Sealed (parse_return_statement fuel) := by
  unfold parse_return_statement
  repeat' first
      | assumption
      | exact clean_null
      | exact clean_node _
      | exact clean_basic _
      | exact clean_list_nil
      | (apply clean_of_guard <;> assumption)
      | (apply clean_of_guard_kind <;> first | assumption | decide)
      | (apply clean_list_head; assumption)
      | (apply clean_list_tail; assumption)
      | apply clean_list_cons
      | apply clean_ite
      | apply clean_owner_arguments
      | apply clean_owner_body
      | apply clean_owner_next
      | apply clean_type_owner
      | apply sealed_curr_type
      | apply sealed_curr_token
      | apply sealed_curr_ptr
      | apply sealed_read_token
      | apply sealed_consume_token
      | apply sealed_unconsume_token
      | apply sealed_onyx_message_add
      | apply sealed_push_node_to_process
      | apply sealed_make_function_type
      | apply sealed_expect_token
      | apply sealed_token_toggle_end
      | apply sealed_find_token
      | apply sealed_parse_type
      | apply sealed_parse_numeric_literal
      | apply sealed_parse_factor_casts
      | apply sealed_parse_expression
      | (refine sealed_modify _ _ ?_ (fun _ => rfl))
      | apply sealed_modify_next
      | apply sealed_modify_body
      | apply sealed_modify_params
      | apply sealed_write_slot
      | apply sealed_read_node_bind
      | apply sealed_last_in_chain_bind
      | apply sealed_pop_tree_stack_bind
      | apply sealed_make_node_bind
      | apply sealed_bind
      | apply sealed_ite_dep
      | apply sealed_pure
      | apply sealed_raise
      | intro _
      | split

theorem sealed_parse_statement_semicolon (fuel : Nat) (needs_semicolon : Bool) : Sealed (parse_statement_semicolon fuel needs_semicolon) := by
  unfold parse_statement_semicolon
  repeat' first
      | assumption
      | exact clean_null
      | exact clean_node _
      | exact clean_basic _
      | exact clean_list_nil
      | (apply clean_of_guard <;> assumption)
      | (apply clean_of_guard_kind <;> first | assumption | decide)
      | (apply clean_list_head; assumption)
      | (apply clean_list_tail; assumption)
      | apply clean_list_cons
      | apply clean_ite
      | apply clean_owner_arguments
      | apply clean_owner_body
      | apply clean_owner_next
      | apply clean_type_owner
      | apply sealed_curr_type
      | apply sealed_curr_token
      | apply sealed_curr_ptr
      | apply sealed_read_token
      | apply sealed_consume_token
      | apply sealed_unconsume_token
      | apply sealed_onyx_message_add
      | apply sealed_push_node_to_process
      | apply sealed_make_function_type
      | apply sealed_expect_token
      | apply sealed_token_toggle_end
      | apply sealed_find_token
      | apply sealed_parse_type
      | apply sealed_parse_numeric_literal
      | apply sealed_parse_factor_casts
      | apply sealed_parse_expression
      | (refine sealed_modify _ _ ?_ (fun _ => rfl))
      | apply sealed_modify_next
      | apply sealed_modify_body
      | apply sealed_modify_params
      | apply sealed_write_slot
      | apply sealed_read_node_bind
      | apply sealed_last_in_chain_bind
      | apply sealed_pop_tree_stack_bind
      | apply sealed_make_node_bind
      | apply sealed_bind
      | apply sealed_ite_dep
      | apply sealed_pure
      | apply sealed_raise
      | intro _
      | split

set_option maxHeartbeats 4000000 in
/-- The mutually recursive statement functions keep the state sound. -/
theorem sealed_statement_level (fuel : Nat) :
    Sealed (parse_if_stmt fuel) ∧
    (∀ if_node, Clean if_node → Sealed (parse_if_elseifs fuel if_node)) ∧
    Sealed (parse_while_stmt fuel) ∧
    Sealed (parse_statement_switch fuel) ∧
    Sealed (parse_statement fuel) ∧
    Sealed (parse_block fuel) ∧
    (∀ next, Clean (NodeSlot.owner next) → Sealed (parse_block_loop fuel next)) := by
  induction fuel with
  | zero =>
    refine ⟨?_, fun _ _ => ?_, ?_, ?_, ?_, ?_, fun _ _ => ?_⟩
    · rw [parse_if_stmt]; exact sealed_raise _
    · rw [parse_if_elseifs]; exact sealed_raise _
    · rw [parse_while_stmt]; exact sealed_raise _
    · rw [parse_statement_switch]; exact sealed_raise _
    · rw [parse_statement]; exact sealed_raise _
    · rw [parse_block]; exact sealed_raise _
    · rw [parse_block_loop]; exact sealed_raise _
  | succ n ih =>
    obtain ⟨ihif, ihelse, ihwhile, ihswitch, ihstmt, ihblock, ihloop⟩ := ih
    refine ⟨?_, fun if_node hif => ?_, ?_, ?_, ?_, ?_, fun next hnext => ?_⟩
    · rw [parse_if_stmt]
      repeat' first
          | assumption
          | exact clean_null
          | exact clean_node _
          | exact clean_basic _
          | exact clean_list_nil
          | (apply clean_of_guard <;> assumption)
          | (apply clean_of_guard_kind <;> first | assumption | decide)
          | (apply clean_list_head; assumption)
          | (apply clean_list_tail; assumption)
          | apply clean_list_cons
          | apply clean_ite
          | apply clean_owner_arguments
          | apply clean_owner_body
          | apply clean_owner_next
          | apply clean_type_owner
          | apply sealed_bind_yields _ _ (yields_parse_block _)
          | apply sealed_bind_yields _ _ (yields_parse_if_elseifs _ _ (clean_node _))
          | apply sealed_curr_type
          | apply sealed_curr_token
          | apply sealed_curr_ptr
          | apply sealed_read_token
          | apply sealed_consume_token
          | apply sealed_unconsume_token
          | apply sealed_onyx_message_add
          | apply sealed_push_node_to_process
          | apply sealed_make_function_type
          | apply sealed_expect_token
          | apply sealed_token_toggle_end
          | apply sealed_find_token
          | apply sealed_parse_type
          | apply sealed_parse_numeric_literal
          | apply sealed_parse_factor_casts
          | apply sealed_parse_expression
          | apply sealed_parse_symbol_statement
          | apply sealed_parse_return_statement
          | apply sealed_parse_statement_semicolon
          | apply ihif
          | apply ihelse
          | apply ihwhile
          | apply ihswitch
          | apply ihstmt
          | apply ihblock
          | apply ihloop
          | (refine sealed_modify _ _ ?_ (fun _ => rfl))
          | apply sealed_modify_next
          | apply sealed_modify_body
          | apply sealed_modify_params
          | apply sealed_write_slot
          | apply sealed_read_node_bind
          | apply sealed_last_in_chain_bind
          | apply sealed_pop_tree_stack_bind
          | apply sealed_make_node_bind
          | apply sealed_bind
          | apply sealed_ite_dep
          | apply sealed_pure
          | apply sealed_raise
          | intro _
          | split
    · rw [parse_if_elseifs]
      repeat' first
          | assumption
          | exact clean_null
          | exact clean_node _
          | exact clean_basic _
          | exact clean_list_nil
          | (apply clean_of_guard <;> assumption)
          | (apply clean_of_guard_kind <;> first | assumption | decide)
          | (apply clean_list_head; assumption)
          | (apply clean_list_tail; assumption)
          | apply clean_list_cons
          | apply clean_ite
          | apply clean_owner_arguments
          | apply clean_owner_body
          | apply clean_owner_next
          | apply clean_type_owner
          | apply sealed_bind_yields _ _ (yields_parse_block _)
          | apply sealed_bind_yields _ _ (yields_parse_if_elseifs _ _ (clean_node _))
          | apply sealed_curr_type
          | apply sealed_curr_token
          | apply sealed_curr_ptr
          | apply sealed_read_token
          | apply sealed_consume_token
          | apply sealed_unconsume_token
          | apply sealed_onyx_message_add
          | apply sealed_push_node_to_process
          | apply sealed_make_function_type
          | apply sealed_expect_token
          | apply sealed_token_toggle_end
          | apply sealed_find_token
          | apply sealed_parse_type
          | apply sealed_parse_numeric_literal
          | apply sealed_parse_factor_casts
          | apply sealed_parse_expression
          | apply sealed_parse_symbol_statement
          | apply sealed_parse_return_statement
          | apply sealed_parse_statement_semicolon
          | apply ihif
          | apply ihelse
          | apply ihwhile
          | apply ihswitch
          | apply ihstmt
          | apply ihblock
          | apply ihloop
          | (refine sealed_modify _ _ ?_ (fun _ => rfl))
          | apply sealed_modify_next
          | apply sealed_modify_body
          | apply sealed_modify_params
          | apply sealed_write_slot
          | apply sealed_read_node_bind
          | apply sealed_last_in_chain_bind
          | apply sealed_pop_tree_stack_bind
          | apply sealed_make_node_bind
          | apply sealed_bind
          | apply sealed_ite_dep
          | apply sealed_pure
          | apply sealed_raise
          | intro _
          | split
    · rw [parse_while_stmt]
      repeat' first
          | assumption
          | exact clean_null
          | exact clean_node _
          | exact clean_basic _
          | exact clean_list_nil
          | (apply clean_of_guard <;> assumption)
          | (apply clean_of_guard_kind <;> first | assumption | decide)
          | (apply clean_list_head; assumption)
          | (apply clean_list_tail; assumption)
          | apply clean_list_cons
          | apply clean_ite
          | apply clean_owner_arguments
          | apply clean_owner_body
          | apply clean_owner_next
          | apply clean_type_owner
          | apply sealed_bind_yields _ _ (yields_parse_block _)
          | apply sealed_bind_yields _ _ (yields_parse_if_elseifs _ _ (clean_node _))
          | apply sealed_curr_type
          | apply sealed_curr_token
          | apply sealed_curr_ptr
          | apply sealed_read_token
          | apply sealed_consume_token
          | apply sealed_unconsume_token
          | apply sealed_onyx_message_add
          | apply sealed_push_node_to_process
          | apply sealed_make_function_type
          | apply sealed_expect_token
          | apply sealed_token_toggle_end
          | apply sealed_find_token
          | apply sealed_parse_type
          | apply sealed_parse_numeric_literal
          | apply sealed_parse_factor_casts
          | apply sealed_parse_expression
          | apply sealed_parse_symbol_statement
          | apply sealed_parse_return_statement
          | apply sealed_parse_statement_semicolon
          | apply ihif
          | apply ihelse
          | apply ihwhile
          | apply ihswitch
          | apply ihstmt
          | apply ihblock
          | apply ihloop
          | (refine sealed_modify _ _ ?_ (fun _ => rfl))
          | apply sealed_modify_next
          | apply sealed_modify_body
          | apply sealed_modify_params
          | apply sealed_write_slot
          | apply sealed_read_node_bind
          | apply sealed_last_in_chain_bind
          | apply sealed_pop_tree_stack_bind
          | apply sealed_make_node_bind
          | apply sealed_bind
          | apply sealed_ite_dep
          | apply sealed_pure
          | apply sealed_raise
          | intro _
          | split
    · rw [parse_statement_switch]
      repeat' first
          | assumption
          | exact clean_null
          | exact clean_node _
          | exact clean_basic _
          | exact clean_list_nil
          | (apply clean_of_guard <;> assumption)
          | (apply clean_of_guard_kind <;> first | assumption | decide)
          | (apply clean_list_head; assumption)
          | (apply clean_list_tail; assumption)
          | apply clean_list_cons
          | apply clean_ite
          | apply clean_owner_arguments
          | apply clean_owner_body
          | apply clean_owner_next
          | apply clean_type_owner
          | apply sealed_bind_yields _ _ (yields_parse_block _)
          | apply sealed_bind_yields _ _ (yields_parse_if_elseifs _ _ (clean_node _))
          | apply sealed_curr_type
          | apply sealed_curr_token
          | apply sealed_curr_ptr
          | apply sealed_read_token
          | apply sealed_consume_token
          | apply sealed_unconsume_token
          | apply sealed_onyx_message_add
          | apply sealed_push_node_to_process
          | apply sealed_make_function_type
          | apply sealed_expect_token
          | apply sealed_token_toggle_end
          | apply sealed_find_token
          | apply sealed_parse_type
          | apply sealed_parse_numeric_literal
          | apply sealed_parse_factor_casts
          | apply sealed_parse_expression
          | apply sealed_parse_symbol_statement
          | apply sealed_parse_return_statement
          | apply sealed_parse_statement_semicolon
          | apply ihif
          | apply ihelse
          | apply ihwhile
          | apply ihswitch
          | apply ihstmt
          | apply ihblock
          | apply ihloop
          | (refine sealed_modify _ _ ?_ (fun _ => rfl))
          | apply sealed_modify_next
          | apply sealed_modify_body
          | apply sealed_modify_params
          | apply sealed_write_slot
          | apply sealed_read_node_bind
          | apply sealed_last_in_chain_bind
          | apply sealed_pop_tree_stack_bind
          | apply sealed_make_node_bind
          | apply sealed_bind
          | apply sealed_ite_dep
          | apply sealed_pure
          | apply sealed_raise
          | intro _
          | split
    · rw [parse_statement]
      repeat' first
          | assumption
          | exact clean_null
          | exact clean_node _
          | exact clean_basic _
          | exact clean_list_nil
          | (apply clean_of_guard <;> assumption)
          | (apply clean_of_guard_kind <;> first | assumption | decide)
          | (apply clean_list_head; assumption)
          | (apply clean_list_tail; assumption)
          | apply clean_list_cons
          | apply clean_ite
          | apply clean_owner_arguments
          | apply clean_owner_body
          | apply clean_owner_next
          | apply clean_type_owner
          | apply sealed_bind_yields _ _ (yields_parse_block _)
          | apply sealed_bind_yields _ _ (yields_parse_if_elseifs _ _ (clean_node _))
          | apply sealed_curr_type
          | apply sealed_curr_token
          | apply sealed_curr_ptr
          | apply sealed_read_token
          | apply sealed_consume_token
          | apply sealed_unconsume_token
          | apply sealed_onyx_message_add
          | apply sealed_push_node_to_process
          | apply sealed_make_function_type
          | apply sealed_expect_token
          | apply sealed_token_toggle_end
          | apply sealed_find_token
          | apply sealed_parse_type
          | apply sealed_parse_numeric_literal
          | apply sealed_parse_factor_casts
          | apply sealed_parse_expression
          | apply sealed_parse_symbol_statement
          | apply sealed_parse_return_statement
          | apply sealed_parse_statement_semicolon
          | apply ihif
          | apply ihelse
          | apply ihwhile
          | apply ihswitch
          | apply ihstmt
          | apply ihblock
          | apply ihloop
          | (refine sealed_modify _ _ ?_ (fun _ => rfl))
          | apply sealed_modify_next
          | apply sealed_modify_body
          | apply sealed_modify_params
          | apply sealed_write_slot
          | apply sealed_read_node_bind
          | apply sealed_last_in_chain_bind
          | apply sealed_pop_tree_stack_bind
          | apply sealed_make_node_bind
          | apply sealed_bind
          | apply sealed_ite_dep
          | apply sealed_pure
          | apply sealed_raise
          | intro _
          | split
    · rw [parse_block]
      repeat' first
          | assumption
          | exact clean_null
          | exact clean_node _
          | exact clean_basic _
          | exact clean_list_nil
          | (apply clean_of_guard <;> assumption)
          | (apply clean_of_guard_kind <;> first | assumption | decide)
          | (apply clean_list_head; assumption)
          | (apply clean_list_tail; assumption)
          | apply clean_list_cons
          | apply clean_ite
          | apply clean_owner_arguments
          | apply clean_owner_body
          | apply clean_owner_next
          | apply clean_type_owner
          | apply sealed_bind_yields _ _ (yields_parse_block _)
          | apply sealed_bind_yields _ _ (yields_parse_if_elseifs _ _ (clean_node _))
          | apply sealed_curr_type
          | apply sealed_curr_token
          | apply sealed_curr_ptr
          | apply sealed_read_token
          | apply sealed_consume_token
          | apply sealed_unconsume_token
          | apply sealed_onyx_message_add
          | apply sealed_push_node_to_process
          | apply sealed_make_function_type
          | apply sealed_expect_token
          | apply sealed_token_toggle_end
          | apply sealed_find_token
          | apply sealed_parse_type
          | apply sealed_parse_numeric_literal
          | apply sealed_parse_factor_casts
          | apply sealed_parse_expression
          | apply sealed_parse_symbol_statement
          | apply sealed_parse_return_statement
          | apply sealed_parse_statement_semicolon
          | apply ihif
          | apply ihelse
          | apply ihwhile
          | apply ihswitch
          | apply ihstmt
          | apply ihblock
          | apply ihloop
          | (refine sealed_modify _ _ ?_ (fun _ => rfl))
          | apply sealed_modify_next
          | apply sealed_modify_body
          | apply sealed_modify_params
          | apply sealed_write_slot
          | apply sealed_read_node_bind
          | apply sealed_last_in_chain_bind
          | apply sealed_pop_tree_stack_bind
          | apply sealed_make_node_bind
          | apply sealed_bind
          | apply sealed_ite_dep
          | apply sealed_pure
          | apply sealed_raise
          | intro _
          | split
    · rw [parse_block_loop]
      repeat' first
          | assumption
          | exact clean_null
          | exact clean_node _
          | exact clean_basic _
          | exact clean_list_nil
          | (apply clean_of_guard <;> assumption)
          | (apply clean_of_guard_kind <;> first | assumption | decide)
          | (apply clean_list_head; assumption)
          | (apply clean_list_tail; assumption)
          | apply clean_list_cons
          | apply clean_ite
          | apply clean_owner_arguments
          | apply clean_owner_body
          | apply clean_owner_next
          | apply clean_type_owner
          | apply sealed_bind_yields _ _ (yields_parse_block _)
          | apply sealed_bind_yields _ _ (yields_parse_if_elseifs _ _ (clean_node _))
          | apply sealed_curr_type
          | apply sealed_curr_token
          | apply sealed_curr_ptr
          | apply sealed_read_token
          | apply sealed_consume_token
          | apply sealed_unconsume_token
          | apply sealed_onyx_message_add
          | apply sealed_push_node_to_process
          | apply sealed_make_function_type
          | apply sealed_expect_token
          | apply sealed_token_toggle_end
          | apply sealed_find_token
          | apply sealed_parse_type
          | apply sealed_parse_numeric_literal
          | apply sealed_parse_factor_casts
          | apply sealed_parse_expression
          | apply sealed_parse_symbol_statement
          | apply sealed_parse_return_statement
          | apply sealed_parse_statement_semicolon
          | apply ihif
          | apply ihelse
          | apply ihwhile
          | apply ihswitch
          | apply ihstmt
          | apply ihblock
          | apply ihloop
          | (refine sealed_modify _ _ ?_ (fun _ => rfl))
          | apply sealed_modify_next
          | apply sealed_modify_body
          | apply sealed_modify_params
          | apply sealed_write_slot
          | apply sealed_read_node_bind
          | apply sealed_last_in_chain_bind
          | apply sealed_pop_tree_stack_bind
          | apply sealed_make_node_bind
          | apply sealed_bind
          | apply sealed_ite_dep
          | apply sealed_pure
          | apply sealed_raise
          | intro _
          | split

theorem sealed_parse_block (fuel : Nat) : Sealed (parse_block fuel) :=
  (sealed_statement_level fuel).2.2.2.2.2.1

theorem sealed_parse_function_params_loop :
    ∀ fuel first trailer, Clean trailer → Sealed (parse_function_params_loop fuel first trailer) := by
  intro fuel
  induction fuel with
  | zero => intro _ _ _; exact sealed_raise _
  | succ n ih =>
    intro first trailer htrailer
    rw [parse_function_params_loop]
    repeat' first
        | assumption
        | exact clean_null
        | exact clean_node _
        | exact clean_basic _
        | exact clean_list_nil
        | (apply clean_of_guard <;> assumption)
        | (apply clean_of_guard_kind <;> first | assumption | decide)
        | (apply clean_list_head; assumption)
        | (apply clean_list_tail; assumption)
        | apply clean_list_cons
        | apply clean_ite
        | apply clean_owner_arguments
        | apply clean_owner_body
        | apply clean_owner_next
        | apply clean_type_owner
        | apply sealed_curr_type
        | apply sealed_curr_token
        | apply sealed_curr_ptr
        | apply sealed_read_token
        | apply sealed_consume_token
        | apply sealed_unconsume_token
        | apply sealed_onyx_message_add
        | apply sealed_push_node_to_process
        | apply sealed_make_function_type
        | apply sealed_expect_token
        | apply sealed_token_toggle_end
        | apply sealed_find_token
        | apply sealed_parse_type
        | apply sealed_parse_numeric_literal
        | apply sealed_parse_factor_casts
        | apply sealed_parse_expression
        | apply sealed_parse_block
        | apply ih
        | (refine sealed_modify _ _ ?_ (fun _ => rfl))
        | apply sealed_modify_next
        | apply sealed_modify_body
        | apply sealed_modify_params
        | apply sealed_write_slot
        | apply sealed_read_node_bind
        | apply sealed_last_in_chain_bind
        | apply sealed_pop_tree_stack_bind
        | apply sealed_make_node_bind
        | apply sealed_bind
        | apply sealed_ite_dep
        | apply sealed_pure
        | apply sealed_raise
        | intro _
        | split

theorem sealed_parse_function_params (fuel : Nat) : Sealed (parse_function_params fuel) := by
  unfold parse_function_params
  repeat' first
      | assumption
      | exact clean_null
      | exact clean_node _
      | exact clean_basic _
      | exact clean_list_nil
      | (apply clean_of_guard <;> assumption)
      | (apply clean_of_guard_kind <;> first | assumption | decide)
      | (apply clean_list_head; assumption)
      | (apply clean_list_tail; assumption)
      | apply clean_list_cons
      | apply clean_ite
      | apply clean_owner_arguments
      | apply clean_owner_body
      | apply clean_owner_next
      | apply clean_type_owner
      | (apply sealed_parse_function_params_loop; exact clean_null)
      | apply sealed_curr_type
      | apply sealed_curr_token
      | apply sealed_curr_ptr
      | apply sealed_read_token
      | apply sealed_consume_token
      | apply sealed_unconsume_token
      | apply sealed_onyx_message_add
      | apply sealed_push_node_to_process
      | apply sealed_make_function_type
      | apply sealed_expect_token
      | apply sealed_token_toggle_end
      | apply sealed_find_token
      | apply sealed_parse_type
      | apply sealed_parse_numeric_literal
      | apply sealed_parse_factor_casts
      | apply sealed_parse_expression
      | apply sealed_parse_block
      | (refine sealed_modify _ _ ?_ (fun _ => rfl))
      | apply sealed_modify_next
      | apply sealed_modify_body
      | apply sealed_modify_params
      | apply sealed_write_slot
      | apply sealed_read_node_bind
      | apply sealed_last_in_chain_bind
      | apply sealed_pop_tree_stack_bind
      | apply sealed_make_node_bind
      | apply sealed_bind
      | apply sealed_ite_dep
      | apply sealed_pure
      | apply sealed_raise
      | intro _
      | split

theorem collect_param_types_sealed (fuel : Nat) (p : NodePtr) :
    Sealed (collect_param_types fuel p) := by
  apply sealed_of_unchanged
  intro s r s' h
  rw [collect_param_types_state fuel p s r s' h]
  exact ⟨rfl, rfl, rfl, rfl⟩

theorem sealed_parse_function_directives :
    ∀ fuel func_def, Clean func_def → Sealed (parse_function_directives fuel func_def) := by
  intro fuel
  induction fuel with
  | zero => intro _ _; exact sealed_raise _
  | succ n ih =>
    intro func_def hfunc
    rw [parse_function_directives]
    repeat' first
        | assumption
        | exact clean_null
        | exact clean_node _
        | exact clean_basic _
        | exact clean_list_nil
        | (apply clean_of_guard <;> assumption)
        | (apply clean_of_guard_kind <;> first | assumption | decide)
        | (apply clean_list_head; assumption)
        | (apply clean_list_tail; assumption)
        | apply clean_list_cons
        | apply clean_ite
        | apply clean_owner_arguments
        | apply clean_owner_body
        | apply clean_owner_next
        | apply clean_type_owner
        | apply sealed_curr_type
        | apply sealed_curr_token
        | apply sealed_curr_ptr
        | apply sealed_read_token
        | apply sealed_consume_token
        | apply sealed_unconsume_token
        | apply sealed_onyx_message_add
        | apply sealed_push_node_to_process
        | apply sealed_make_function_type
        | apply sealed_expect_token
        | apply sealed_token_toggle_end
        | apply sealed_find_token
        | apply sealed_parse_type
        | apply sealed_parse_numeric_literal
        | apply sealed_parse_factor_casts
        | apply sealed_parse_expression
        | apply sealed_parse_block
        | apply sealed_parse_function_params
        | apply collect_param_types_sealed
        | apply sealed_parse_possible_directive
        | apply ih
        | (refine sealed_modify _ _ ?_ (fun _ => rfl))
        | apply sealed_modify_next
        | apply sealed_modify_body
        | apply sealed_modify_params
        | apply sealed_write_slot
        | apply sealed_read_node_bind
        | apply sealed_last_in_chain_bind
        | apply sealed_pop_tree_stack_bind
        | apply sealed_make_node_bind
        | apply sealed_bind
        | apply sealed_ite_dep
        | apply sealed_pure
        | apply sealed_raise
        | intro _
        | split

theorem sealed_parse_global_directives :
    ∀ fuel global_node, Clean global_node → Sealed (parse_global_directives fuel global_node) := by
  intro fuel
  induction fuel with
  | zero => intro _ _; exact sealed_raise _
  | succ n ih =>
    intro global_node hglobal
    rw [parse_global_directives]
    repeat' first
        | assumption
        | exact clean_null
        | exact clean_node _
        | exact clean_basic _
        | exact clean_list_nil
        | (apply clean_of_guard <;> assumption)
        | (apply clean_of_guard_kind <;> first | assumption | decide)
        | (apply clean_list_head; assumption)
        | (apply clean_list_tail; assumption)
        | apply clean_list_cons
        | apply clean_ite
        | apply clean_owner_arguments
        | apply clean_owner_body
        | apply clean_owner_next
        | apply clean_type_owner
        | apply sealed_curr_type
        | apply sealed_curr_token
        | apply sealed_curr_ptr
        | apply sealed_read_token
        | apply sealed_consume_token
        | apply sealed_unconsume_token
        | apply sealed_onyx_message_add
        | apply sealed_push_node_to_process
        | apply sealed_make_function_type
        | apply sealed_expect_token
        | apply sealed_token_toggle_end
        | apply sealed_find_token
        | apply sealed_parse_type
        | apply sealed_parse_numeric_literal
        | apply sealed_parse_factor_casts
        | apply sealed_parse_expression
        | apply sealed_parse_block
        | apply sealed_parse_function_params
        | apply collect_param_types_sealed
        | apply sealed_parse_possible_directive
        | apply ih
        | (refine sealed_modify _ _ ?_ (fun _ => rfl))
        | apply sealed_modify_next
        | apply sealed_modify_body
        | apply sealed_modify_params
        | apply sealed_write_slot
        | apply sealed_read_node_bind
        | apply sealed_last_in_chain_bind
        | apply sealed_pop_tree_stack_bind
        | apply sealed_make_node_bind
        | apply sealed_bind
        | apply sealed_ite_dep
        | apply sealed_pure
        | apply sealed_raise
        | intro _
        | split

theorem sealed_parse_function_definition (fuel : Nat) : Sealed (parse_function_definition fuel) := by
  unfold parse_function_definition
  repeat' first
      | assumption
      | exact clean_null
      | exact clean_node _
      | exact clean_basic _
      | exact clean_list_nil
      | (apply clean_of_guard <;> assumption)
      | (apply clean_of_guard_kind <;> first | assumption | decide)
      | (apply clean_list_head; assumption)
      | (apply clean_list_tail; assumption)
      | apply clean_list_cons
      | apply clean_ite
      | apply clean_owner_arguments
      | apply clean_owner_body
      | apply clean_owner_next
      | apply clean_type_owner
      | apply sealed_bind_yields _ _ (yields_parse_block _)
      | apply sealed_bind_yields _ _ (yields_parse_function_params _)
      | apply sealed_curr_type
      | apply sealed_curr_token
      | apply sealed_curr_ptr
      | apply sealed_read_token
      | apply sealed_consume_token
      | apply sealed_unconsume_token
      | apply sealed_onyx_message_add
      | apply sealed_push_node_to_process
      | apply sealed_make_function_type
      | apply sealed_expect_token
      | apply sealed_token_toggle_end
      | apply sealed_find_token
      | apply sealed_parse_type
      | apply sealed_parse_numeric_literal
      | apply sealed_parse_factor_casts
      | apply sealed_parse_expression
      | apply sealed_parse_block
      | apply sealed_parse_function_params
      | apply collect_param_types_sealed
      | apply sealed_parse_possible_directive
      | apply sealed_parse_function_directives
      | apply sealed_parse_global_directives
      | (refine sealed_modify _ _ ?_ (fun _ => rfl))
      | apply sealed_modify_next
      | apply sealed_modify_body
      | apply sealed_modify_params
      | apply sealed_write_slot
      | apply sealed_read_node_bind
      | apply sealed_last_in_chain_bind
      | apply sealed_pop_tree_stack_bind
      | apply sealed_make_node_bind
      | apply sealed_bind
      | apply sealed_ite_dep
      | apply sealed_pure
      | apply sealed_raise
      | intro _
      | split

theorem sealed_parse_global_declaration (fuel : Nat) : Sealed (parse_global_declaration fuel) := by
  unfold parse_global_declaration
  repeat' first
      | assumption
      | exact clean_null
      | exact clean_node _
      | exact clean_basic _
      | exact clean_list_nil
      | (apply clean_of_guard <;> assumption)
      | (apply clean_of_guard_kind <;> first | assumption | decide)
      | (apply clean_list_head; assumption)
      | (apply clean_list_tail; assumption)
      | apply clean_list_cons
      | apply clean_ite
      | apply clean_owner_arguments
      | apply clean_owner_body
      | apply clean_owner_next
      | apply clean_type_owner
      | apply sealed_bind_yields _ _ (yields_parse_block _)
      | apply sealed_bind_yields _ _ (yields_parse_function_params _)
      | apply sealed_curr_type
      | apply sealed_curr_token
      | apply sealed_curr_ptr
      | apply sealed_read_token
      | apply sealed_consume_token
      | apply sealed_unconsume_token
      | apply sealed_onyx_message_add
      | apply sealed_push_node_to_process
      | apply sealed_make_function_type
      | apply sealed_expect_token
      | apply sealed_token_toggle_end
      | apply sealed_find_token
      | apply sealed_parse_type
      | apply sealed_parse_numeric_literal
      | apply sealed_parse_factor_casts
      | apply sealed_parse_expression
      | apply sealed_parse_block
      | apply sealed_parse_function_params
      | apply collect_param_types_sealed
      | apply sealed_parse_possible_directive
      | apply sealed_parse_function_directives
      | apply sealed_parse_global_directives
      | (refine sealed_modify _ _ ?_ (fun _ => rfl))
      | apply sealed_modify_next
      | apply sealed_modify_body
      | apply sealed_modify_params
      | apply sealed_write_slot
      | apply sealed_read_node_bind
      | apply sealed_last_in_chain_bind
      | apply sealed_pop_tree_stack_bind
      | apply sealed_make_node_bind
      | apply sealed_bind
      | apply sealed_ite_dep
      | apply sealed_pure
      | apply sealed_raise
      | intro _
      | split

theorem sealed_parse_top_level_expression (fuel : Nat) : Sealed (parse_top_level_expression fuel) := by
  unfold parse_top_level_expression
  repeat' first
      | assumption
      | exact clean_null
      | exact clean_node _
      | exact clean_basic _
      | exact clean_list_nil
      | (apply clean_of_guard <;> assumption)
      | (apply clean_of_guard_kind <;> first | assumption | decide)
      | (apply clean_list_head; assumption)
      | (apply clean_list_tail; assumption)
      | apply clean_list_cons
      | apply clean_ite
      | apply clean_owner_arguments
      | apply clean_owner_body
      | apply clean_owner_next
      | apply clean_type_owner
      | apply sealed_curr_type
      | apply sealed_curr_token
      | apply sealed_curr_ptr
      | apply sealed_read_token
      | apply sealed_consume_token
      | apply sealed_unconsume_token
      | apply sealed_onyx_message_add
      | apply sealed_push_node_to_process
      | apply sealed_make_function_type
      | apply sealed_expect_token
      | apply sealed_token_toggle_end
      | apply sealed_find_token
      | apply sealed_parse_type
      | apply sealed_parse_numeric_literal
      | apply sealed_parse_factor_casts
      | apply sealed_parse_expression
      | apply sealed_parse_block
      | apply sealed_parse_function_params
      | apply collect_param_types_sealed
      | apply sealed_parse_possible_directive
      | apply sealed_parse_function_directives
      | apply sealed_parse_global_directives
      | apply sealed_parse_function_definition
      | apply sealed_parse_global_declaration
      | (refine sealed_modify _ _ ?_ (fun _ => rfl))
      | apply sealed_modify_next
      | apply sealed_modify_body
      | apply sealed_modify_params
      | apply sealed_write_slot
      | apply sealed_read_node_bind
      | apply sealed_last_in_chain_bind
      | apply sealed_pop_tree_stack_bind
      | apply sealed_make_node_bind
      | apply sealed_bind
      | apply sealed_ite_dep
      | apply sealed_pure
      | apply sealed_raise
      | intro _
      | split

theorem sealed_parse_top_level_statement (fuel : Nat) : Sealed (parse_top_level_statement fuel) := by
  unfold parse_top_level_statement
  repeat' first
      | assumption
      | exact clean_null
      | exact clean_node _
      | exact clean_basic _
      | exact clean_list_nil
      | (apply clean_of_guard <;> assumption)
      | (apply clean_of_guard_kind <;> first | assumption | decide)
      | (apply clean_list_head; assumption)
      | (apply clean_list_tail; assumption)
      | apply clean_list_cons
      | apply clean_ite
      | apply clean_owner_arguments
      | apply clean_owner_body
      | apply clean_owner_next
      | apply clean_type_owner
      | apply sealed_curr_type
      | apply sealed_curr_token
      | apply sealed_curr_ptr
      | apply sealed_read_token
      | apply sealed_consume_token
      | apply sealed_unconsume_token
      | apply sealed_onyx_message_add
      | apply sealed_push_node_to_process
      | apply sealed_make_function_type
      | apply sealed_expect_token
      | apply sealed_token_toggle_end
      | apply sealed_find_token
      | apply sealed_parse_type
      | apply sealed_parse_numeric_literal
      | apply sealed_parse_factor_casts
      | apply sealed_parse_expression
      | apply sealed_parse_block
      | apply sealed_parse_function_params
      | apply collect_param_types_sealed
      | apply sealed_parse_possible_directive
      | apply sealed_parse_function_directives
      | apply sealed_parse_global_directives
      | apply sealed_parse_function_definition
      | apply sealed_parse_global_declaration
      | apply sealed_parse_top_level_expression
      | (refine sealed_modify _ _ ?_ (fun _ => rfl))
      | apply sealed_modify_next
      | apply sealed_modify_body
      | apply sealed_modify_params
      | apply sealed_write_slot
      | apply sealed_read_node_bind
      | apply sealed_last_in_chain_bind
      | apply sealed_pop_tree_stack_bind
      | apply sealed_make_node_bind
      | apply sealed_bind
      | apply sealed_ite_dep
      | apply sealed_pure
      | apply sealed_raise
      | intro _
      | split

end Onyx
namespace Onyx

open TokenType AstKind BinaryOp UnaryOp BasicKind OnyxMessageType

/-! ## The static error node: the parse -/

theorem sealed_file_top_level_nodes :
    ∀ fuel curr_stmt, Clean curr_stmt → Sealed (file_top_level_nodes fuel curr_stmt) := by
  intro fuel
  induction fuel with
  | zero => intro _ _; exact sealed_raise _
  | succ n ih =>
    intro curr_stmt hp
    constructor
    intro s r s' hs h
    rw [file_top_level_nodes, ite_run] at h
    split_ifs at h with hnull
    · simp only [pure_run, Res.ok.injEq] at h
      rw [← h.2]
      exact hs
    · obtain ⟨m, s1, h1, h2⟩ := bind_ok.1 h
      obtain ⟨rfl, hnode, _, hbasic, _⟩ := read_node_state curr_stmt s m s1 h1
      have hnext : Clean m.next := by
        constructor
        intro he
        cases curr_stmt with
        | null => exact hnull rfl
        | node i =>
          have := hs.2.1 i m (hnode i rfl)
          simp only [AstNode.links, List.mem_cons, List.mem_singleton, not_or] at this
          exact this.1 he.symm
        | error_node => exact hp.ne rfl
        | basic k =>
          rw [hbasic k rfl] at he
          exact NodePtr.noConfusion he
      rw [ite_run] at h2
      split_ifs at h2
      · obtain ⟨_, s2, h3, h4⟩ := bind_ok.1 h2
        refine (ih m.next hnext).run s2 r s' ?_ h4
        injection h3 with _ h3
        subst h3
        refine ⟨hs.1, hs.2.1, hs.2.2.1, ?_⟩
        show NodePtr.error_node ∉ s1.results.uses ++ [curr_stmt]
        simp only [List.mem_append, List.mem_singleton, not_or]
        exact ⟨hs.2.2.2, fun e => hp.ne e.symm⟩
      · obtain ⟨_, s2, h3, h4⟩ := bind_ok.1 h2
        refine (ih m.next hnext).run s2 r s' ?_ h4
        injection h3 with _ h3
        subst h3
        refine ⟨hs.1, hs.2.1, ?_, hs.2.2.2⟩
        show NodePtr.error_node ∉ s1.results.bindings ++ [curr_stmt]
        simp only [List.mem_append, List.mem_singleton, not_or]
        exact ⟨hs.2.2.1, fun e => hp.ne e.symm⟩
      · obtain ⟨_, s2, h3, _⟩ := bind_ok.1 h2
        exact Res.noConfusion h3

set_option linter.unusedTactic false in
set_option linter.unreachableTactic false in
theorem sealed_onyx_parse : ∀ fuel, Sealed (onyx_parse fuel) := by
  intro fuel
  induction fuel with
  | zero => exact sealed_raise _
  | succ n ih =>
    rw [onyx_parse]
    repeat' first
      | apply sealed_curr_type
      | apply sealed_parse_top_level_statement
      | exact ih
      | (apply sealed_file_top_level_nodes; exact ⟨(‹_ ∧ _›).2⟩)
      | (apply sealed_of_unchanged; intro s r s' h; injection h with _ h; subst h;
         exact ⟨rfl, rfl, rfl, rfl⟩)
      | apply sealed_bind
      | apply sealed_ite_dep
      | apply sealed_pure
      | intro _
      | split

/-- The results that `onyx_parse` returns are those of the final state. -/
theorem onyx_parse_results :
    ∀ fuel s r s', onyx_parse fuel s = Res.ok r s' → r = s'.results := by
  intro fuel
  induction fuel with
  | zero => intro s r s' h; exact Res.noConfusion h
  | succ n ih =>
    intro s r s' h
    rw [onyx_parse] at h
    obtain ⟨t, s1, _, h2⟩ := bind_ok.1 h
    rw [ite_run] at h2
    split_ifs at h2
    · obtain ⟨_, s2, _, h3⟩ := bind_ok.1 h2
      rw [ite_run] at h3
      split_ifs at h3
      · obtain ⟨_, s3, _, h4⟩ := bind_ok.1 h3
        exact ih _ _ _ h4
      · obtain ⟨_, s3, _, h4⟩ := bind_ok.1 h3
        exact ih _ _ _ h4
    · injection h2 with h2 h3
      subst h3
      exact h2.symm

theorem sound_onyx_parser_create (tokens : List OnyxToken) : Sound (onyx_parser_create tokens) :=
  ⟨rfl, fun j n h => by simp [onyx_parser_create] at h, by simp [onyx_parser_create],
    by simp [onyx_parser_create]⟩

/-- C26 fails on `x :: 1 + f ( 1 2 )`: the call with the missing comma makes
`parse_factor` return the address of the error node, which `parse_expression` stores as the
right operand of the `+` node (cell 1); the binding that `onyx_parse` returns (cell 6) has
this node as its `node`.  On `x :: f ( 1 2 )` the binding that `onyx_parse` returns (cell
4) has the error node itself as its `node`, and the list `nodes_to_process` of the results
holds the address of the error node.  The contents of the error node are unchanged. -/
theorem error_node_linked_as_operand :
    (onyx_parse 20 (onyx_parser_create error_operand_stream)).value.map (fun r => r.bindings)
      = some [NodePtr.node 6]
    ∧ (onyx_parse 20 (onyx_parser_create error_operand_stream)).final.map
        (fun s => s.heap.map (fun n => (n.kind, n.node, n.right)))
      = some [(Ast_Kind_Literal, NodePtr.null, NodePtr.null),
              (Ast_Kind_Binary_Op, NodePtr.null, NodePtr.error_node),
              (Ast_Kind_Symbol, NodePtr.null, NodePtr.null),
              (Ast_Kind_Call, NodePtr.null, NodePtr.null),
              (Ast_Kind_Argument, NodePtr.null, NodePtr.null),
              (Ast_Kind_Literal, NodePtr.null, NodePtr.null),
              (Ast_Kind_Binding, NodePtr.node 1, NodePtr.null)]
    ∧ (onyx_parse 20 (onyx_parser_create error_operand_stream)).final.map
        (fun s => s.error_node)
      = some { kind := Ast_Kind_Error }
    ∧ (onyx_parse 20 (onyx_parser_create error_binding_stream)).value.map
        (fun r => (r.bindings, r.nodes_to_process))
      = some ([NodePtr.node 4], [NodePtr.error_node])
    ∧ (onyx_parse 20 (onyx_parser_create error_binding_stream)).final.map
        (fun s => s.heap.map (fun n => (n.kind, n.node)))
      = some [(Ast_Kind_Symbol, NodePtr.null), (Ast_Kind_Call, NodePtr.null),
              (Ast_Kind_Argument, NodePtr.null), (Ast_Kind_Literal, NodePtr.null),
              (Ast_Kind_Binding, NodePtr.error_node)]
    ∧ (onyx_parse 20 (onyx_parser_create error_binding_stream)).final.map
        (fun s => s.error_node)
      = some { kind := Ast_Kind_Error } := by
  decide!

/-- What holds of the error node: it is never written, and it is no `next` successor and
no head of a statement, argument or parameter list.  For every token stream on which
`onyx_parse` returns, started from `onyx_parser_create`: the error node has its initial
contents; no node of the arena has the address of the error node as its `next` successor
or in its `body`, `arguments` or `params` field; and the address of the error node is not
among the bindings and the uses returned. -/
theorem error_node_sealed (fuel : Nat) (tokens : List OnyxToken) (r : ParseResults)
    (s' : OnyxParser) (h : onyx_parse fuel (onyx_parser_create tokens) = Res.ok r s') :
    s'.error_node = { kind := Ast_Kind_Error }
    ∧ (∀ (j : Nat) (n : AstNode), s'.heap[j]? = some n →
        n.next ≠ NodePtr.error_node ∧ n.body ≠ NodePtr.error_node
        ∧ n.arguments ≠ NodePtr.error_node ∧ n.params ≠ NodePtr.error_node)
    ∧ NodePtr.error_node ∉ r.bindings ∧ NodePtr.error_node ∉ r.uses := by
  obtain ⟨h1, h2, h3, h4⟩ := (sealed_onyx_parse fuel).run _ r s'
    (sound_onyx_parser_create tokens) h
  have hr := onyx_parse_results fuel _ r s' h
  refine ⟨h1, ?_, by rw [hr]; exact h3, by rw [hr]; exact h4⟩
  intro j n hn
  have := h2 j n hn
  simp only [AstNode.links, List.mem_cons, List.mem_singleton, not_or, List.mem_nil_iff,
    or_false] at this
  exact ⟨fun e => this.1 e.symm, fun e => this.2.1 e.symm, fun e => this.2.2.1 e.symm,
    fun e => this.2.2.2 e.symm⟩

/-- An instance on `x :: 1 + f ( 1 2 )`, where the error node becomes an operand:
the error node has its initial contents, it is no list link of a node of the arena, and it
is not among the bindings and the uses. -/
theorem error_node_sealed_witness :
    onyx_parse 20 (onyx_parser_create error_operand_stream)
      = Res.ok error_operand_final.results error_operand_final
    ∧ error_operand_final.error_node = { kind := Ast_Kind_Error }
    ∧ (∀ (j : Nat) (n : AstNode), error_operand_final.heap[j]? = some n →
        n.next ≠ NodePtr.error_node ∧ n.body ≠ NodePtr.error_node
        ∧ n.arguments ≠ NodePtr.error_node ∧ n.params ≠ NodePtr.error_node)
    ∧ NodePtr.error_node ∉ error_operand_final.results.bindings
    ∧ NodePtr.error_node ∉ error_operand_final.results.uses :=
  ⟨by decide!,
   error_node_sealed 20 error_operand_stream error_operand_final.results error_operand_final
     (by decide!)⟩

end Onyx
namespace Onyx

open debug_type_kind_t debug_type_primitive_kind_t debug_type_modifier_kind_t
  debug_sym_loc_kind_t

/-! ## The pointer child, booleans in registers, aliases of structures -/

/-- C33: over `pointer_types` the type 6 is a pointer to the structure `T0` (type 4); the
register 3 holds the address 1040, where the bytes of `a=1` and `b=2` stand, and the
register 4 holds 7.  After `set_location(register, 3, pointer, p)` and one `step()`,
`build_string()` appends the structure of `a=1040` and `b=7`: it renders the registers 3
and 4 as the members and reads no memory.  After `set_location(global, 1040, T0, p)` it
appends the structure of `a=1` and `b=2`. -/
theorem pointer_child_not_dereferenced :
    pointer_builder.info_types[6]?
      = some { id := 6, kind := debug_type_kind_modifier, size := 4,
               modifier_kind := debug_type_modifier_kind_pointer, modified_type := 4 }
    ∧ lookup_register_in_frame pointer_builder.ovm_state pointer_builder.ovm_frame 3
      = DbgRes.ok 1040
    ∧ step_then_string sample_libc 8 pointer_builder debug_sym_loc_register 3 6 "p".toList
      = some (true, "\x7b a=1040, b=7 \x7d".toList)
    ∧ (debug_runtime_value_build_set_location 8 pointer_builder debug_sym_loc_global 1040 4
          "p".toList >>= debug_runtime_value_build_string sample_libc 8)
      = DbgRes.ok { located pointer_builder debug_sym_loc_global 1040 4 "p".toList 2 with
          output := "\x7b a=1, b=2 \x7d".toList } := by
  decide!

/-- C36: over `pointer_types` the type 7 is the boolean.  The register renderer tests all
64 bits of the value and appends `true` for the value 256; the memory renderer tests the
first byte of the little-endian encoding of 256, which is 0, and appends `false`. -/
theorem boolean_register_and_memory_differ :
    pointer_builder.info_types[7]?
      = some { id := 7, kind := debug_type_kind_primitive, size := 1,
               primitive_kind := debug_type_primitive_kind_boolean }
    ∧ le_bytes 256 = [0, 1, 0, 0, 0, 0, 0, 0]
    ∧ append_ovm_value_with_type sample_libc 1 pointer_builder 256 7
      = DbgRes.ok { pointer_builder with output := "true".toList }
    ∧ append_value_from_memory_with_type sample_libc 1 (with_memory (le_bytes 256)) 0 7
      = DbgRes.ok { with_memory (le_bytes 256) with output := "false".toList } := by
  decide!

/-- C37: over `sample_types` the type 3 is an alias of the structure `T2` of the members
`x` and `y`.  After `set_location(stack, 8, alias, s)` the subvalue count is 2 and the
first `step()` returns `true`, but the iteration is as `set_location` left it (name `s`,
the alias type, location 8) with the index 1: `step()` tests the kind of the base type
without resolving the alias.  With the structure type itself the first `step()` yields the
member `x` of type 0. -/
theorem alias_step_yields_no_member :
    debug_runtime_value_build_set_location 2 sample_builder debug_sym_loc_stack 8 3 "s".toList
      = DbgRes.ok (located sample_builder debug_sym_loc_stack 8 3 "s".toList 2)
    ∧ debug_runtime_value_build_step 2
        (located sample_builder debug_sym_loc_stack 8 3 "s".toList 2)
      = DbgRes.ok (true, { located sample_builder debug_sym_loc_stack 8 3 "s".toList 2 with
          it_index := 1 })
    ∧ debug_runtime_value_build_step 2
        (located sample_builder debug_sym_loc_stack 8 2 "s".toList 2)
      = DbgRes.ok (true, { located sample_builder debug_sym_loc_stack 8 2 "s".toList 2 with
          it_index := 1, it_name := "x".toList, it_type := 0, it_has_children := false }) := by
  decide!

end Onyx
namespace Onyx

open debug_type_kind_t debug_type_primitive_kind_t debug_type_modifier_kind_t
  debug_sym_loc_kind_t

/-! ## Stepping through the members of a structure -/

/-- Before the end of the iteration, `k` calls of `step()` return `true` and advance the
index by `k`. -/
theorem step_times_partial (fuel : Nat) (k : Nat) (b : debug_runtime_value_builder_t)
    (hok : table_ok fuel b = true) (f : Nat)
    (hf : get_subvalues_for_type f b b.base_type = DbgRes.ok b.max_index)
    (hk : b.it_index + k ≤ b.max_index) :
    ∃ b1, step_times fuel k b = DbgRes.ok (List.replicate k true, b1)
      ∧ same_base b b1 ∧ b1.it_index = b.it_index + k := by
  induction k generalizing b with
  | zero => exact ⟨b, rfl, same_base_refl b, rfl⟩
  | succ k ih =>
    have hlt : b.it_index < b.max_index := by omega
    obtain ⟨b1, h1⟩ := step_returns fuel b hok f hf hlt
    have hu := get_subvalues_u32 fuel b hok f _ _ hf
    rcases step_ok _ _ _ _ h1 with ⟨h, _⟩ | ⟨_, _, hb, hi⟩
    · omega
    · have hb0 := hb
      obtain ⟨a1, _, _, _, _, _, _, _, a9, a10⟩ := hb
      have hi1 : b1.it_index = b.it_index + 1 := by
        rw [hi]; exact Nat.mod_eq_of_lt (by omega)
      have hok1 : table_ok fuel b1 = true := by rw [table_ok_env fuel b1 b a1]; exact hok
      have hf1 : get_subvalues_for_type f b1 b1.base_type = DbgRes.ok b1.max_index := by
        rw [a9, a10, get_subvalues_env f b1 b a1]; exact hf
      obtain ⟨b2, h2, hb2, hi2⟩ := ih b1 hok1 hf1 (by omega)
      refine ⟨b2, ?_, same_base_trans _ _ _ hb0 hb2, by omega⟩
      simp only [step_times, h1, h2, List.replicate_succ]

/-- A call of `step()` on a structure base before the end of the iteration. -/
theorem step_member (fuel : Nat) (b : debug_runtime_value_builder_t) (ty : debug_type_info_t)
    (mem : debug_type_structure_member_t) (n : Nat)
    (hty : b.info_types[b.base_type]? = some ty) (hk : ty.kind = debug_type_kind_structure)
    (hlt : b.it_index < b.max_index) (hm : ty.members[b.it_index]? = some mem)
    (hn : get_subvalues_for_type fuel b mem.type = DbgRes.ok n) :
    debug_runtime_value_build_step fuel b
      = DbgRes.ok (true,
          { step_member_location
              { b with it_name := mem.name, it_has_children := decide (n > 0),
                       it_type := mem.type } mem with
            it_index := (b.it_index + 1) % 2 ^ 32 }) := by
  have hge : ¬ b.it_index ≥ b.max_index := by omega
  have hnm : ¬ (ty.kind = debug_type_kind_modifier
      ∧ ty.modifier_kind = debug_type_modifier_kind_pointer) := by
    rw [hk]; exact fun h => nomatch h.1
  unfold debug_runtime_value_build_step
  rw [if_neg hge]
  simp only [hty]
  rw [if_neg hnm]
  simp only [dbg_pure, dbg_bind_ok, if_pos hk, hm]
  rw [get_subvalues_env fuel { b with it_name := mem.name } b rfl mem.type, hn]
  simp only [dbg_bind_ok, step_member_location_index]

/-- C32: on a structure base `ty` with the member `mem` at the index `i`, in a walkable
table: `set_location` returns, the first `i` calls of `step()` return `true`, and the call
after them returns `true` with the iteration name `mem.name`, the type `mem.type`,
has-children = (subvalue count of `mem.type` > 0), and the location that `descend(i)`
from the same base gives to the base: the register `loc + i` for a register base, and
`loc + mem.offset` with the same kind for a stack or global base (sums of `u32` values). -/
theorem structure_step (fuel : Nat) (builder : debug_runtime_value_builder_t)
    (loc_kind : debug_sym_loc_kind_t) (loc t : Nat) (name : List Char)
    (ty : debug_type_info_t) (i : Nat) (mem : debug_type_structure_member_t) (n : Nat)
    (ht : builder.info_types[t]? = some ty) (hk : ty.kind = debug_type_kind_structure)
    (hok : table_ok fuel builder = true) (hi : i < ty.member_count)
    (hm : ty.members[i]? = some mem)
    (hn : get_subvalues_for_type fuel builder mem.type = DbgRes.ok n)
    (hloc : loc_kind = debug_sym_loc_register ∨ loc_kind = debug_sym_loc_stack
      ∨ loc_kind = debug_sym_loc_global) :
    debug_runtime_value_build_set_location fuel builder loc_kind loc t name
      = DbgRes.ok (located builder loc_kind loc t name ty.member_count)
    ∧ ∃ b1 b2 d,
        step_times fuel i (located builder loc_kind loc t name ty.member_count)
          = DbgRes.ok (List.replicate i true, b1)
        ∧ debug_runtime_value_build_step fuel b1 = DbgRes.ok (true, b2)
        ∧ debug_runtime_value_build_descend fuel
            (located builder loc_kind loc t name ty.member_count) i = DbgRes.ok d
        ∧ b2.it_name = mem.name ∧ b2.it_type = mem.type
        ∧ b2.it_has_children = decide (n > 0)
        ∧ b2.it_loc_kind = d.base_loc_kind ∧ b2.it_loc = d.base_loc
        ∧ b2.it_loc_kind = loc_kind
        ∧ (loc_kind = debug_sym_loc_register → b2.it_loc = (loc + i) % 2 ^ 32)
        ∧ (loc_kind = debug_sym_loc_stack ∨ loc_kind = debug_sym_loc_global →
            b2.it_loc = (loc + mem.offset) % 2 ^ 32) := by
  obtain ⟨f, rfl⟩ : ∃ f, fuel = f + 1 := by
    cases fuel with
    | zero => cases hn
    | succ f => exact ⟨f, rfl⟩
  have hsub := (get_subvalues_table f builder t ty ht).2.2.1 hk
  have hset := set_location_run _ _ loc_kind loc t name _ hsub
  refine ⟨hset, ?_⟩
  have hok0 : table_ok (f + 1) (located builder loc_kind loc t name ty.member_count) = true := by
    rw [table_ok_env (f + 1) (located builder loc_kind loc t name ty.member_count) builder rfl]; exact hok
  have hf0 : get_subvalues_for_type (f + 1)
      (located builder loc_kind loc t name ty.member_count)
      (located builder loc_kind loc t name ty.member_count).base_type
      = DbgRes.ok (located builder loc_kind loc t name ty.member_count).max_index :=
    (get_subvalues_env (f + 1) (located builder loc_kind loc t name ty.member_count) builder rfl t).trans hsub
  obtain ⟨b1, h1, hb, hidx⟩ := step_times_partial (f + 1) i _ hok0 (f + 1) hf0
    (by show 0 + i ≤ ty.member_count; omega)
  obtain ⟨a1, a2, a3, a4, a5, a6, a7, a8, a9, a10⟩ := hb
  have hidx1 : b1.it_index = i := by rw [hidx]; show 0 + i = i; omega
  have a7' : b1.base_loc_kind = loc_kind := a7
  have a8' : b1.base_loc = loc := a8
  have a10' : b1.max_index = ty.member_count := a10
  have hty1 : b1.info_types[b1.base_type]? = some ty := by rw [a1, a9]; exact ht
  have hn1 : get_subvalues_for_type (f + 1) b1 mem.type = DbgRes.ok n :=
    (get_subvalues_env (f + 1) b1 builder a1 mem.type).trans hn
  have hstep := step_member (f + 1) b1 ty mem n hty1 hk (by omega) (by rw [hidx1]; exact hm) hn1
  have hd := descend_structure (f + 1) (located builder loc_kind loc t name ty.member_count)
    ty i mem n ht hk hi hm ((get_subvalues_env (f + 1) (located builder loc_kind loc t name ty.member_count) builder rfl mem.type).trans hn)
  rcases hloc with hl | hl | hl
  · subst hl
    refine ⟨b1, _, _, h1, hstep, hd.1 rfl, ?_⟩
    simp [step_member_location, located, a7', a8', hidx1]
  · subst hl
    refine ⟨b1, _, _, h1, hstep, hd.2 (Or.inl rfl), ?_⟩
    simp [step_member_location, located, a7', a8', hidx1]
  · subst hl
    refine ⟨b1, _, _, h1, hstep, hd.2 (Or.inr rfl), ?_⟩
    simp [step_member_location, located, a7', a8', hidx1]

/-- An instance of C32: the structure `T2` on the stack at 8, member 1: the second call of
`step()` yields the member `y` of type `T0` without children at the stack address 12,
the base location after `descend(1)`. -/
theorem structure_step_witness :
    debug_runtime_value_build_set_location 2 sample_builder debug_sym_loc_stack 8 2 "s".toList
      = DbgRes.ok (located sample_builder debug_sym_loc_stack 8 2 "s".toList 2)
    ∧ ∃ b1 b2 d,
        step_times 2 1 (located sample_builder debug_sym_loc_stack 8 2 "s".toList 2)
          = DbgRes.ok ([true], b1)
        ∧ debug_runtime_value_build_step 2 b1 = DbgRes.ok (true, b2)
        ∧ debug_runtime_value_build_descend 2
            (located sample_builder debug_sym_loc_stack 8 2 "s".toList 2) 1 = DbgRes.ok d
        ∧ b2.it_name = "y".toList ∧ b2.it_type = 0
        ∧ b2.it_has_children = false
        ∧ b2.it_loc_kind = d.base_loc_kind ∧ b2.it_loc = d.base_loc
        ∧ b2.it_loc_kind = debug_sym_loc_stack
        ∧ (debug_sym_loc_stack = debug_sym_loc_register → b2.it_loc = 9)
        ∧ (debug_sym_loc_stack = debug_sym_loc_stack
            ∨ debug_sym_loc_stack = debug_sym_loc_global → b2.it_loc = 12) :=
  structure_step 2 sample_builder debug_sym_loc_stack 8 2 "s".toList
    { id := 2, kind := debug_type_kind_structure, size := 8, member_count := 2,
      members := [ { name := "x".toList, offset := 0, type := 0 },
                   { name := "y".toList, offset := 4, type := 0 } ] }
    1 { name := "y".toList, offset := 4, type := 0 } 0
    (by decide) rfl (by decide) (by decide) (by decide) (by decide) (Or.inr (Or.inl rfl))

end Onyx
namespace Onyx

open TokenType AstKind BinaryOp UnaryOp BasicKind OnyxMessageType

/-! ## The Compile-time flag of a unary operator -/

/-- A read through a pointer gives the same node in a state that has the same node behind
the pointer. -/
theorem read_node_frame (p : NodePtr) (s s' : OnyxParser) (f : AstNode)
    (h : read_node p s = Res.ok f s)
    (hheap : ∀ i, p = NodePtr.node i → s'.heap[i]? = s.heap[i]?)
    (herr : p = NodePtr.error_node → s'.error_node = s.error_node) :
    read_node p s' = Res.ok f s' := by
  obtain ⟨_, h1, h2, h3, h4⟩ := read_node_state p s f s h
  cases p with
  | null => exact absurd rfl h4
  | node i =>
    have := h1 i rfl
    simp only [read_node, hheap i rfl, this]
  | error_node =>
    simp only [read_node, herr rfl, h2 rfl]
  | basic k =>
    simp only [read_node, h3 k rfl]

/-- A write to the last node of the arena. -/
theorem modify_node_last (s : OnyxParser) (l : List AstNode) (n : AstNode)
    (g : AstNode → AstNode) (h : s.heap = l ++ [n]) :
    modify_node (NodePtr.node l.length) g s = Res.ok () { s with heap := l ++ [g n] } := by
  simp [modify_node, h]

/-- The cast loop does not write to the static error node. -/
theorem keeps_parse_factor_casts : ∀ fuel retval, Keeps (parse_factor_casts fuel retval) := by
  intro fuel
  induction fuel with
  | zero => intro _; exact keeps_raise _
  | succ n ih =>
    intro retval
    rw [parse_factor_casts]
    refine keeps_bind _ _ keeps_curr_type (fun t => ?_)
    refine keeps_ite _ _ _ ?_ (keeps_pure _)
    refine keeps_bind _ _ keeps_consume_token (fun _ => ?_)
    refine keeps_make_node_bind _ _ (fun j => ?_)
    refine keeps_bind _ _
      (keeps_parse_type_loop n _ _ (fun _ hp => TypeSlot.noConfusion hp)) (fun ty => ?_)
    refine keeps_bind _ _ (keeps_modify_node j _) (fun _ => ?_)
    refine keeps_bind _ _ (keeps_modify_node j _) (fun _ => ?_)
    refine keeps_bind _ _ (keeps_modify_node j _) (fun _ => ?_)
    exact ih _

/-- The cast loop, whatever it wraps: the arena only grows, and the nodes that exist when
it starts, the tokens and the static error node are the same when it returns. -/
theorem parse_factor_casts_frame (fuel : Nat) (retval : NodePtr) (s : OnyxParser)
    (r : NodePtr) (s' : OnyxParser) (h : parse_factor_casts fuel retval s = Res.ok r s') :
    s.heap.length ≤ s'.heap.length ∧ (∀ i, i < s.heap.length → s'.heap[i]? = s.heap[i]?)
      ∧ s'.tokens = s.tokens ∧ s'.error_node = s.error_node := by
  have hk := (keeps_parse_factor_casts fuel retval).run s r s' h
  cases fuel with
  | zero => exact Res.noConfusion h
  | succ n =>
    rw [parse_factor_casts] at h
    obtain ⟨t, s0, h0, h1⟩ := bind_ok.1 h
    obtain ⟨rfl, _⟩ := curr_type_ok h0
    rw [ite_run] at h1
    split at h1
    · obtain ⟨a1, a2, a3, _⟩ := @Good.run id s0.heap.length _ _ _
        (by
          repeat' first
            | assumption
            | exact trivial
            | apply good_consume_token
            | apply good_make_node
            | apply good_modify_node
            | apply good_parse_type
            | apply good_parse_factor_casts
            | apply good_bind
            | intro _) s0 r s' (le_refl _) h1
      exact ⟨a1, fun i hi => by simpa using a2 i hi, a3, hk⟩
    · simp only [pure_run, Res.ok.injEq] at h1
      obtain ⟨_, rfl⟩ := h1
      exact ⟨le_refl _, fun _ _ => rfl, rfl, rfl⟩

/-- The cast loop keeps a UnaryOp node and its operand as they are. -/
theorem unary_made_casts (fuel : Nat) (retval : NodePtr) (s : OnyxParser) (r : NodePtr)
    (s' : OnyxParser) (h : parse_factor_casts fuel retval s = Res.ok r s')
    (at_node : Nat) (op : UnaryOp) (operand : NodePtr) (f : AstNode)
    (hm : unary_made s at_node op operand f) : unary_made s' at_node op operand f := by
  obtain ⟨_, a2, _, a4⟩ := parse_factor_casts_frame fuel retval s r s' h
  obtain ⟨h1, h2⟩ := hm
  obtain ⟨_, g1, _, _, _⟩ := read_node_state operand s f s h1
  refine ⟨read_node_frame operand s s' f h1 (fun i hi => a2 i ?_) (fun _ => a4), ?_⟩
  · have := g1 i hi
    exact (List.getElem?_eq_some.1 this).1
  · have hlt : at_node < s.heap.length := by
      by_contra hn
      rw [List.getElem?_eq_none (by omega)] at h2
      exact Option.noConfusion h2
    rw [a2 at_node hlt]; exact h2

end Onyx
namespace Onyx

open TokenType AstKind BinaryOp UnaryOp BasicKind OnyxMessageType

/-- The cast loop at a token that is not `cast` returns what it was given. -/
theorem parse_factor_casts_none (fuel : Nat) (retval : NodePtr) (s : OnyxParser)
    (t : OnyxToken) (ht : s.tokens[s.curr]? = some t) (hty : t.type ≠ Token_Type_Keyword_Cast) :
    parse_factor_casts (fuel + 1) retval s = Res.ok retval s := by
  rw [parse_factor_casts]
  simp only [bind_run, curr_type_run s t ht, hty, if_false, pure_run]

/-- The branch of `parse_factor` for a unary `-`, up to the cast loop. -/
theorem parse_factor_negate (fuel : Nat) (s : OnyxParser) (t : OnyxToken) (c : Nat)
    (ht : s.tokens[s.curr]? = some t) (hty : t.type = ascii '-')
    (hskip : skip_comments (s.tokens.drop (s.curr + 1)) (s.curr + 1) = some c)
    (operand : NodePtr) (s1 : OnyxParser) (f : AstNode)
    (hop : parse_factor fuel { s with prev := some (s.curr : Int), curr := c }
      = Res.ok operand s1)
    (hf : read_node operand s1 = Res.ok f s1) :
    ∃ s2, parse_factor (fuel + 1) s
        = parse_factor_casts fuel (NodePtr.node s1.heap.length) s2
      ∧ unary_made s2 s1.heap.length Unary_Op_Negate operand f
      ∧ s2.tokens = s1.tokens ∧ s2.curr = s1.curr := by
  have hr : ∀ n : AstNode, read_node operand { s1 with heap := s1.heap ++ [n] }
      = Res.ok f { s1 with heap := s1.heap ++ [n] } := by
    intro n
    refine read_node_frame operand s1 _ f hf (fun i hi => ?_) (fun _ => rfl)
    obtain ⟨_, g1, _, _, _⟩ := read_node_state operand s1 f s1 hf
    have := (List.getElem?_eq_some.1 (g1 i hi)).1
    exact List.getElem?_append_left this
  have h1 : (ascii '-' = ascii '(') = False := by simp
  rw [parse_factor]
  simp only [bind_run, curr_type_run s t ht, hty, h1, if_false, if_true,
    consume_token_run s c hskip, hop, make_node_run]
  rw [modify_node_last _ s1.heap _ _ rfl]
  simp only []
  rw [modify_node_last _ s1.heap _ _ rfl]
  simp only [hr]
  cases hc : f.flags.comptime with
  | false =>
    simp only [Bool.false_eq_true, if_false, pure_run]
    refine ⟨_, rfl, ⟨hr _, ?_⟩, rfl, rfl⟩
    simp [hc]
  | true =>
    simp only [if_true, bind_run]
    rw [modify_node_last _ s1.heap _ _ rfl]
    simp only []
    refine ⟨_, rfl, ⟨hr _, ?_⟩, rfl, rfl⟩
    simp [hc]

end Onyx
namespace Onyx

open TokenType AstKind BinaryOp UnaryOp BasicKind OnyxMessageType

/-- A write to a node of the arena. -/
theorem modify_node_at (s : OnyxParser) (i : Nat) (n : AstNode) (g : AstNode → AstNode)
    (h : s.heap[i]? = some n) :
    modify_node (NodePtr.node i) g s = Res.ok () { s with heap := s.heap.set i (g n) } := by
  simp only [modify_node, h]

/-- A read of a node of the arena. -/
theorem read_node_at (s : OnyxParser) (i : Nat) (n : AstNode) (h : s.heap[i]? = some n) :
    read_node (NodePtr.node i) s = Res.ok n s := by
  simp only [read_node, h]

/-- The branch of `parse_factor` for a unary `!`, up to the cast loop. -/
theorem parse_factor_not (fuel : Nat) (s : OnyxParser) (t : OnyxToken) (c : Nat)
    (ht : s.tokens[s.curr]? = some t) (hty : t.type = ascii '!')
    (hskip : skip_comments (s.tokens.drop (s.curr + 1)) (s.curr + 1) = some c)
    (operand : NodePtr) (s1 : OnyxParser) (f : AstNode)
    (hop : parse_factor fuel
        { s with heap := s.heap ++ [{ kind := Ast_Kind_Unary_Op,
                                      unary_operation := Unary_Op_Not, token := some s.curr }],
                 prev := some (s.curr : Int), curr := c }
      = Res.ok operand s1)
    (hf : read_node operand s1 = Res.ok f s1) :
    ∃ s2, parse_factor (fuel + 1) s
        = parse_factor_casts fuel (NodePtr.node s.heap.length) s2
      ∧ unary_made s2 s.heap.length Unary_Op_Not operand f
      ∧ s2.tokens = s1.tokens ∧ s2.curr = s1.curr := by
  obtain ⟨g1, g2, _, g4⟩ := (good_expression_level fuel).1 id (s.heap.length + 1) |>.run _ _ _
    (by simp) hop
  have hcell : s1.heap[s.heap.length]?
      = some { kind := Ast_Kind_Unary_Op, unary_operation := Unary_Op_Not,
               token := some s.curr } := by
    have := g2 s.heap.length (by omega)
    simpa using this
  have hlt : s.heap.length < s1.heap.length := (List.getElem?_eq_some.1 hcell).1
  have hne : ∀ i, operand = NodePtr.node i → i ≠ s.heap.length := by
    intro i hi
    have := g4 i hi
    omega
  have hr : ∀ n : AstNode, read_node operand { s1 with heap := s1.heap.set s.heap.length n }
      = Res.ok f { s1 with heap := s1.heap.set s.heap.length n } := by
    intro n
    refine read_node_frame operand s1 _ f hf (fun i hi => ?_) (fun _ => rfl)
    exact List.getElem?_set_ne (Ne.symm (hne i hi))
  have h1 : (ascii '!' = ascii '(') = False := by simp
  have h2 : (ascii '!' = ascii '-') = False := by simp
  rw [parse_factor]
  simp only [bind_run, curr_type_run s t ht, hty, h1, h2, if_false, if_true, make_node_run]
  rw [modify_node_last _ s.heap _ _ rfl]
  simp only []
  have e1 := expect_token_run
    { s with heap := s.heap ++ [{ kind := Ast_Kind_Unary_Op, unary_operation := Unary_Op_Not }] }
    t (ascii '!') c ht hty hskip
  rw [e1]
  simp only []
  rw [modify_node_last _ s.heap _ _ rfl]
  simp only []
  rw [hop]
  simp only []
  rw [modify_node_at s1 _ _ _ hcell]
  simp only []
  rw [read_node_at _ s.heap.length _ (List.getElem?_set_self hlt)]
  simp only [hr]
  cases hc : f.flags.comptime with
  | false =>
    simp only [Bool.false_eq_true, if_false, pure_run]
    refine ⟨_, rfl, ⟨hr _, ?_⟩, rfl, rfl⟩
    simp [hc, hlt]
  | true =>
    simp only [if_true, bind_run]
    rw [modify_node_at _ s.heap.length _ _ (List.getElem?_set_self hlt)]
    simp only [List.set_set]
    refine ⟨_, rfl, ⟨hr _, ?_⟩, rfl, rfl⟩
    simp [hc, hlt]

end Onyx
namespace Onyx

open TokenType AstKind BinaryOp UnaryOp BasicKind OnyxMessageType

/-- C31: let the current token be a unary `-` or `!`, and let the operand behind it parse
to the node `f` behind the pointer `operand`, in the state `s1`.  Then `parse_factor`
builds a UnaryOp node, of the operation Negate at the next free address for `-`, of the
operation Not at the address that was free at the start for `!`, with the operand
`operand` and with the Compile-time flag set if and only if `f` has it set, and goes on
with the cast loop on that node; when the token behind the operand is not `cast`,
`parse_factor` returns that node; and whenever `parse_factor` returns, the node and the
operand are still so. -/
theorem unary_comptime_flag (fuel : Nat) (s : OnyxParser) (t : OnyxToken) (c : Nat)
    (operand : NodePtr) (s1 : OnyxParser) (f : AstNode)
    (ht : s.tokens[s.curr]? = some t)
    (hskip : skip_comments (s.tokens.drop (s.curr + 1)) (s.curr + 1) = some c)
    (hf : read_node operand s1 = Res.ok f s1) :
    (t.type = ascii '-' →
      parse_factor fuel { s with prev := some (s.curr : Int), curr := c }
        = Res.ok operand s1 →
      ∃ s2, parse_factor (fuel + 1) s
          = parse_factor_casts fuel (NodePtr.node s1.heap.length) s2
        ∧ unary_made s2 s1.heap.length Unary_Op_Negate operand f
        ∧ (∀ t2, s1.tokens[s1.curr]? = some t2 → t2.type ≠ Token_Type_Keyword_Cast →
            parse_factor (fuel + 1) s = Res.ok (NodePtr.node s1.heap.length) s2)
        ∧ ∀ r s', parse_factor (fuel + 1) s = Res.ok r s' →
            unary_made s' s1.heap.length Unary_Op_Negate operand f)
    ∧ (t.type = ascii '!' →
      parse_factor fuel
          { s with heap := s.heap ++ [{ kind := Ast_Kind_Unary_Op,
                                        unary_operation := Unary_Op_Not,
                                        token := some s.curr }],
                   prev := some (s.curr : Int), curr := c }
        = Res.ok operand s1 →
      ∃ s2, parse_factor (fuel + 1) s
          = parse_factor_casts fuel (NodePtr.node s.heap.length) s2
        ∧ unary_made s2 s.heap.length Unary_Op_Not operand f
        ∧ (∀ t2, s1.tokens[s1.curr]? = some t2 → t2.type ≠ Token_Type_Keyword_Cast →
            parse_factor (fuel + 1) s = Res.ok (NodePtr.node s.heap.length) s2)
        ∧ ∀ r s', parse_factor (fuel + 1) s = Res.ok r s' →
            unary_made s' s.heap.length Unary_Op_Not operand f) := by
  constructor
  · intro hty hop
    obtain ⟨s2, h1, h2, h3, h4⟩ := parse_factor_negate fuel s t c ht hty hskip operand s1 f hop hf
    refine ⟨s2, h1, h2, fun t2 ht2 hc => ?_, fun r s' hrun => ?_⟩
    · cases fuel with
      | zero => exact Res.noConfusion hop
      | succ n =>
        rw [h1]
        exact parse_factor_casts_none n _ s2 t2 (by rw [h3, h4]; exact ht2) hc
    · rw [h1] at hrun
      exact unary_made_casts fuel _ s2 r s' hrun _ _ _ _ h2
  · intro hty hop
    obtain ⟨s2, h1, h2, h3, h4⟩ := parse_factor_not fuel s t c ht hty hskip operand s1 f hop hf
    refine ⟨s2, h1, h2, fun t2 ht2 hc => ?_, fun r s' hrun => ?_⟩
    · cases fuel with
      | zero => exact Res.noConfusion hop
      | succ n =>
        rw [h1]
        exact parse_factor_casts_none n _ s2 t2 (by rw [h3, h4]; exact ht2) hc
    · rw [h1] at hrun
      exact unary_made_casts fuel _ s2 r s' hrun _ _ _ _ h2

/-- An instance of C31 on `- 1 ;` and on `! x ;`: the Negate node over the literal `1`,
which has the Compile-time flag, and the Not node over the symbol `x`, which has not. -/
theorem unary_comptime_flag_witness :
    (∃ s2, parse_factor (2 + 1) (onyx_parser_create negate_literal_stream)
          = parse_factor_casts 2 (NodePtr.node negate_literal_operand.heap.length) s2
        ∧ unary_made s2 negate_literal_operand.heap.length Unary_Op_Negate (NodePtr.node 0)
            { kind := Ast_Kind_Literal, flags := { comptime := true }, token := some 1,
              type_node := NodePtr.basic Basic_Kind_I32, value := NumLitValue.l 1 }
        ∧ (∀ t2, negate_literal_operand.tokens[negate_literal_operand.curr]? = some t2 →
            t2.type ≠ Token_Type_Keyword_Cast →
            parse_factor (2 + 1) (onyx_parser_create negate_literal_stream)
              = Res.ok (NodePtr.node negate_literal_operand.heap.length) s2)
        ∧ ∀ r s', parse_factor (2 + 1) (onyx_parser_create negate_literal_stream)
              = Res.ok r s' →
            unary_made s' negate_literal_operand.heap.length Unary_Op_Negate (NodePtr.node 0)
              { kind := Ast_Kind_Literal, flags := { comptime := true }, token := some 1,
                type_node := NodePtr.basic Basic_Kind_I32, value := NumLitValue.l 1 })
    ∧ (∃ s2, parse_factor (2 + 1) (onyx_parser_create not_symbol_stream)
          = parse_factor_casts 2
              (NodePtr.node (onyx_parser_create not_symbol_stream).heap.length) s2
        ∧ unary_made s2 (onyx_parser_create not_symbol_stream).heap.length Unary_Op_Not
            (NodePtr.node 1) { kind := Ast_Kind_Symbol, token := some 1 }
        ∧ (∀ t2, not_symbol_operand.tokens[not_symbol_operand.curr]? = some t2 →
            t2.type ≠ Token_Type_Keyword_Cast →
            parse_factor (2 + 1) (onyx_parser_create not_symbol_stream)
              = Res.ok (NodePtr.node (onyx_parser_create not_symbol_stream).heap.length) s2)
        ∧ ∀ r s', parse_factor (2 + 1) (onyx_parser_create not_symbol_stream)
              = Res.ok r s' →
            unary_made s' (onyx_parser_create not_symbol_stream).heap.length Unary_Op_Not
              (NodePtr.node 1) { kind := Ast_Kind_Symbol, token := some 1 }) :=
  ⟨(unary_comptime_flag 2 (onyx_parser_create negate_literal_stream) (plain_token (ascii '-') 1)
      1 (NodePtr.node 0) negate_literal_operand
      { kind := Ast_Kind_Literal, flags := { comptime := true }, token := some 1,
        type_node := NodePtr.basic Basic_Kind_I32, value := NumLitValue.l 1 }
      (by decide) (by decide) (by decide!)).1 (by decide) (by decide!),
   (unary_comptime_flag 2 (onyx_parser_create not_symbol_stream) (plain_token (ascii '!') 1)
      1 (NodePtr.node 1) not_symbol_operand { kind := Ast_Kind_Symbol, token := some 1 }
      (by decide) (by decide) (by decide!)).2 (by decide) (by decide!)⟩

end Onyx
namespace Onyx

open TokenType AstKind BinaryOp UnaryOp BasicKind OnyxMessageType

/-! ## The operator stack of `parse_expression` -/

theorem P_pure_bind {α β : Type} (a : α) (f : α → P β) : ((pure a : P α) >>= f) = f a := rfl

theorem P_ite_bind {α β : Type} (c : Prop) [Decidable c] (m1 m2 : P α) (f : α → P β) :
    ((if c then m1 else m2) >>= f) = if c then m1 >>= f else m2 >>= f := by
  split_ifs <;> rfl

/-- An iteration of the operator loop of `parse_expression` is `push_operator` followed by
`parse_operand`. -/
theorem parse_expression_loop_split (fuel : Nat) (left root : NodePtr)
    (tree_stack : List NodePtr) :
    parse_expression_loop (fuel + 1) left root tree_stack = (do
      let r ← push_operator root tree_stack
      match r with
      | none => pure root
      | some p => do
        parse_operand fuel left p.bin_op
        parse_expression_loop fuel left p.root p.tree_stack) := by
  funext s
  rw [parse_expression_loop]
  unfold push_operator parse_operand
  rw [P_bind_assoc, bind_run, bind_run]
  cases curr_type s with
  | fault e => rfl
  | ok t s0 =>
    simp only []
    cases binary_op_of_token t with
    | none => rfl
    | some k =>
      simp only [P_bind_assoc, P_ite_bind, P_pure_bind] <;> rfl

theorem opkept_refl (s : OnyxParser) : OpKept s s := fun _ n h => ⟨n, h, rfl⟩

theorem opkept_trans (s s1 s2 : OnyxParser) (h1 : OpKept s s1) (h2 : OpKept s1 s2) :
    OpKept s s2 := by
  intro j n h
  obtain ⟨n1, g1, e1⟩ := h1 j n h
  obtain ⟨n2, g2, e2⟩ := h2 j n1 g1
  exact ⟨n2, g2, e2.trans e1⟩

theorem opkept_of_same (s s1 : OnyxParser)
    (h : ∀ i, i < s.heap.length → s1.heap[i]? = s.heap[i]?) : OpKept s s1 := by
  intro j n hj
  refine ⟨n, ?_, rfl⟩
  rw [h j (List.getElem?_eq_some.1 hj).1]; exact hj

/-- A run with the frame condition of `Good` keeps the operation of every node. -/
theorem opkept_of_good {α : Type} [Safe α] (m : P α) (s : OnyxParser) (r : α)
    (s1 : OnyxParser) (hg : Good id s.heap.length m) (h : m s = Res.ok r s1) : OpKept s s1 := by
  obtain ⟨_, h2, _, _⟩ := hg.run s r s1 (le_refl _) h
  exact opkept_of_same s s1 (fun i hi => by simpa using h2 i hi)

/-- A write that leaves the operation of the node alone keeps the operation of every node. -/
theorem opkept_modify (p : NodePtr) (g : AstNode → AstNode) (s s1 : OnyxParser)
    (h : modify_node p g s = Res.ok () s1) (hg : ∀ n, (g n).operation = n.operation) :
    OpKept s s1 := by
  unfold modify_node at h
  cases p with
  | null => exact Res.noConfusion h
  | node i =>
    simp only at h
    split at h
    · rename_i n0 hn0
      injection h with _ h
      subst h
      intro j n hj
      by_cases hij : i = j
      · subst hij
        rw [hn0] at hj
        injection hj with hj
        subst hj
        exact ⟨g n0, List.getElem?_set_self (List.getElem?_eq_some.1 hn0).1, hg n0⟩
      · exact ⟨n, by show (s.heap.set i (g n0))[j]? = some n
                     rw [List.getElem?_set_ne hij]; exact hj, rfl⟩
    · exact Res.noConfusion h
  | error_node =>
    injection h with _ h
    subst h
    exact fun j n hj => ⟨n, hj, rfl⟩
  | basic k => exact Res.noConfusion h

theorem node_precedence_kept (s s1 : OnyxParser) (h : OpKept s s1) (p : NodePtr) (x : Int)
    (hp : node_precedence s p = some x) : node_precedence s1 p = some x := by
  cases p with
  | node j =>
    simp only [node_precedence] at hp ⊢
    cases hn : s.heap[j]? with
    | none => rw [hn] at hp; exact Option.noConfusion hp
    | some n =>
      rw [hn] at hp
      obtain ⟨n1, g1, e1⟩ := h j n hn
      rw [g1]
      simp only [Option.map_some', Option.some.injEq] at hp ⊢
      rw [e1]; exact hp
  | null => exact Option.noConfusion hp
  | error_node => exact Option.noConfusion hp
  | basic k => exact Option.noConfusion hp

theorem stack_precedences_cons (s : OnyxParser) (p : NodePtr) (rest : List NodePtr)
    (ps : List Int) (h : stack_precedences s (p :: rest) = some ps) :
    ∃ x xs, ps = x :: xs ∧ node_precedence s p = some x ∧ stack_precedences s rest = some xs := by
  rw [stack_precedences] at h
  cases h1 : node_precedence s p with
  | none => rw [h1] at h; exact Option.noConfusion h
  | some x =>
    cases h2 : stack_precedences s rest with
    | none => rw [h1, h2] at h; exact Option.noConfusion h
    | some xs =>
      rw [h1, h2] at h
      injection h with h
      exact ⟨x, xs, h.symm, rfl, rfl⟩

theorem stack_precedences_mk (s : OnyxParser) (p : NodePtr) (rest : List NodePtr) (x : Int)
    (xs : List Int) (h1 : node_precedence s p = some x)
    (h2 : stack_precedences s rest = some xs) :
    stack_precedences s (p :: rest) = some (x :: xs) := by
  rw [stack_precedences, h1, h2]

theorem stack_precedences_kept (s s1 : OnyxParser) (h : OpKept s s1) :
    ∀ (stack : List NodePtr) (ps : List Int), stack_precedences s stack = some ps →
      stack_precedences s1 stack = some ps := by
  intro stack
  induction stack with
  | nil => intro ps hp; exact hp
  | cons p rest ih =>
    intro ps hp
    obtain ⟨x, xs, rfl, h1, h2⟩ := stack_precedences_cons s p rest ps hp
    exact stack_precedences_mk s1 p rest x xs (node_precedence_kept s s1 h p x h1) (ih xs h2)

/-- The pop loop on a stack whose precedences increase to the top: what is left is a stack
whose precedences increase to the top, and its top has a precedence less than that of the
new operator. -/
theorem pop_tree_stack_precedences (k : BinaryOp) (s : OnyxParser) :
    ∀ (stack : List NodePtr) (ps : List Int), stack_precedences s stack = some ps →
      increasing_to_top ps →
      ∃ stack1 qs, pop_tree_stack k stack s = Res.ok stack1 s
        ∧ stack_precedences s stack1 = some qs ∧ increasing_to_top qs
        ∧ ∀ q, qs.head? = some q → q < get_precedence k := by
  intro stack
  induction stack with
  | nil =>
    intro ps hp hinc
    exact ⟨[], [], rfl, rfl, List.chain'_nil, fun q hq => Option.noConfusion hq⟩
  | cons p rest ih =>
    intro ps hp hinc
    obtain ⟨x, xs, rfl, h1, h2⟩ := stack_precedences_cons s p rest ps hp
    cases p with
    | node j =>
      simp only [node_precedence] at h1
      cases hn : s.heap[j]? with
      | none => rw [hn] at h1; exact Option.noConfusion h1
      | some n =>
        rw [hn] at h1
        simp only [Option.map_some', Option.some.injEq] at h1
        rw [pop_tree_stack]
        simp only [bind_run, read_node_at s j n hn, ite_run]
        by_cases hge : get_precedence n.operation ≥ get_precedence k
        · simp only [hge, if_true]
          exact ih xs h2 (List.Chain'.tail hinc)
        · simp only [hge, if_false, pure_run]
          refine ⟨NodePtr.node j :: rest, x :: xs, rfl, hp, hinc, fun q hq => ?_⟩
          simp only [List.head?_cons, Option.some.injEq] at hq
          omega
    | null => exact Option.noConfusion h1
    | error_node => exact Option.noConfusion h1
    | basic b => exact Option.noConfusion h1

end Onyx
namespace Onyx

open TokenType AstKind BinaryOp UnaryOp BasicKind OnyxMessageType

/-- The second part of an iteration keeps the operation of every node. -/
theorem parse_operand_kept (fuel : Nat) (left bin_op : NodePtr) (s s1 : OnyxParser)
    (hrun : parse_operand fuel left bin_op s = Res.ok () s1) : OpKept s s1 := by
  unfold parse_operand at hrun
  obtain ⟨right, sa, ha, h⟩ := bind_ok.1 hrun
  clear hrun
  obtain ⟨_, sb, hb, h⟩ := bind_ok.1 h
  obtain ⟨l, sc, hc, h⟩ := bind_ok.1 h
  have hsc := (read_node_state left sb l sc hc).1.symm
  subst hsc
  have k1 := opkept_of_good _ s right sa ((good_expression_level fuel).1 id _) ha
  have k2 := opkept_modify _ _ sa sb hb (fun _ => rfl)
  have k12 := opkept_trans _ _ _ k1 k2
  rw [ite_run] at h
  split at h
  · obtain ⟨r, sd, hd, h⟩ := bind_ok.1 h
    have hsd := (read_node_state right _ r sd hd).1.symm
    subst hsd
    rw [ite_run] at h
    split at h
    · exact opkept_trans _ _ _ k12 (opkept_modify _ _ _ s1 h (fun _ => rfl))
    · simp only [pure_run, Res.ok.injEq] at h
      obtain ⟨_, rfl⟩ := h
      exact k12
  · simp only [pure_run, Res.ok.injEq] at h
    obtain ⟨_, rfl⟩ := h
    exact k12

/-- The first part of an iteration on a stack whose precedences increase to the top: after
the push the precedences of the stack increase to the top. -/
theorem push_operator_precedences (root : NodePtr) (tree_stack : List NodePtr)
    (s : OnyxParser) (ps : List Int) (p : PushedOperator) (s1 : OnyxParser)
    (hp : stack_precedences s tree_stack = some ps) (hinc : increasing_to_top ps)
    (hrun : push_operator root tree_stack s = Res.ok (some p) s1) :
    ∃ qs, stack_precedences s1 p.tree_stack = some qs ∧ increasing_to_top qs := by
  unfold push_operator at hrun
  obtain ⟨t, s0, h0, h⟩ := bind_ok.1 hrun
  clear hrun
  obtain ⟨rfl, _⟩ := curr_type_ok h0
  cases hk : binary_op_of_token t with
  | none =>
    simp only [hk, pure_run, Res.ok.injEq] at h
    exact Option.noConfusion h.1
  | some k =>
    simp only [hk] at h
    obtain ⟨tok, sa, ha, h⟩ := bind_ok.1 h
    obtain ⟨_, sb, hb, h⟩ := bind_ok.1 h
    obtain ⟨bin_op, sc, hc, h⟩ := bind_ok.1 h
    rw [make_node_run] at hc
    injection hc with hc1 hc2
    subst hc1 hc2
    obtain ⟨_, sd, hd, h⟩ := bind_ok.1 h
    rw [modify_node_last _ sb.heap _ _ rfl] at hd
    injection hd with _ hd
    subst hd
    obtain ⟨_, se, he, h⟩ := bind_ok.1 h
    rw [modify_node_last _ sb.heap _ _ rfl] at he
    injection he with _ he
    subst he
    simp only [] at h
    have ka := opkept_of_good _ s0 tok sa (good_curr_ptr id _) ha
    have kb := opkept_of_good _ sa () sb (good_consume_token id _) hb
    have ke : OpKept sb { sb with heap := sb.heap ++
        [{ kind := Ast_Kind_Binary_Op, operation := k, token := tok }] } :=
      opkept_of_same _ _ (fun i hi => List.getElem?_append_left hi)
    have kse := opkept_trans _ _ _ (opkept_trans _ _ _ ka kb) ke
    have hpe := stack_precedences_kept _ _ kse tree_stack ps hp
    obtain ⟨stack1, qs, hpop, hq, hqinc, hqtop⟩ :=
      pop_tree_stack_precedences k _ tree_stack ps hpe hinc
    obtain ⟨stack1', sf, hf, h⟩ := bind_ok.1 h
    rw [hpop] at hf
    injection hf with hf1 hf2
    subst hf1 hf2
    obtain ⟨root1, sg, hg, h⟩ := bind_ok.1 h
    simp only [pure_run, Res.ok.injEq, Option.some.injEq] at h
    obtain ⟨rfl, rfl⟩ := h
    have hnew : node_precedence { sb with heap := sb.heap ++
        [{ kind := Ast_Kind_Binary_Op, operation := k, token := tok }] }
        (NodePtr.node sb.heap.length) = some (get_precedence k) := by
      simp [node_precedence]
    have hall := stack_precedences_mk _ _ _ _ _ hnew hq
    have hchain : increasing_to_top (get_precedence k :: qs) := by
      cases qs with
      | nil => exact List.chain'_singleton _
      | cons q qs' => exact List.Chain'.cons (hqtop q rfl) hqinc
    refine ⟨get_precedence k :: qs, ?_, hchain⟩
    refine stack_precedences_kept _ sg ?_ _ _ hall
    cases stack1 with
    | nil =>
      simp only [] at hg
      obtain ⟨_, sh, hh, hg⟩ := bind_ok.1 hg
      simp only [pure_run, Res.ok.injEq] at hg
      obtain ⟨_, rfl⟩ := hg
      exact opkept_modify _ _ _ _ hh (fun _ => rfl)
    | cons top rest =>
      simp only [] at hg
      obtain ⟨tn, sh, hh, hg⟩ := bind_ok.1 hg
      obtain ⟨rfl, _⟩ := read_node_state _ _ _ _ hh
      obtain ⟨_, si, hi, hg⟩ := bind_ok.1 hg
      obtain ⟨_, sj, hj, hg⟩ := bind_ok.1 hg
      simp only [pure_run, Res.ok.injEq] at hg
      obtain ⟨_, rfl⟩ := hg
      exact opkept_trans _ _ _ (opkept_modify _ _ _ _ hi (fun _ => rfl))
        (opkept_modify _ _ _ _ hj (fun _ => rfl))

end Onyx
namespace Onyx

open TokenType AstKind BinaryOp UnaryOp BasicKind OnyxMessageType

/-- Counterexample to C34 as stated, on `a + b * c ;`: after the first factor `a` the
operator loop starts with the empty stack; after the push of `+` the stack holds the
precedence 5, after the push of `*` it holds, top first, the precedences 6 and 5: the lower
entry has the smaller precedence, so the precedences do not decrease from bottom to top. -/
theorem stack_not_decreasing_to_top :
    parse_factor 4 (onyx_parser_create a_plus_b_times_c)
      = Res.ok (NodePtr.node 0) a_plus_b_times_c_head
    ∧ stack_trace 4 (NodePtr.node 0) (NodePtr.node 0) [] a_plus_b_times_c_head
      = [some [5], some [6, 5]]
    ∧ ¬ decreasing_to_top [6, 5] :=
  ⟨by decide!, by decide!, by unfold decreasing_to_top; simp⟩

/-- C34 (amended): let the operator loop of `parse_expression` be entered with a stack of
arena nodes whose precedences increase strictly from bottom to top (the empty stack of
`parse_expression` is one).  Then at every iteration, after the new BinaryOp has been
pushed, the entries of the stack are arena nodes whose precedences increase strictly from
bottom to top: of every two adjacent entries the lower one has a precedence less than that
of the one above it. -/
theorem stack_increases_to_top (fuel : Nat) (left : NodePtr) :
    ∀ (root : NodePtr) (tree_stack : List NodePtr) (s : OnyxParser) (ps : List Int),
      stack_precedences s tree_stack = some ps → increasing_to_top ps →
      ∀ e ∈ stack_trace fuel left root tree_stack s, ∃ qs, e = some qs ∧ increasing_to_top qs := by
  induction fuel with
  | zero =>
    intro root tree_stack s ps _ _ e he
    simp only [stack_trace, List.not_mem_nil] at he
  | succ n ih =>
    intro root tree_stack s ps hp hinc e he
    rw [stack_trace] at he
    cases hpush : push_operator root tree_stack s with
    | fault f =>
      rw [hpush] at he
      simp only [List.not_mem_nil] at he
    | ok r s1 =>
      cases r with
      | none =>
        rw [hpush] at he
        simp only [List.not_mem_nil] at he
      | some p =>
        rw [hpush] at he
        simp only [List.mem_cons] at he
        obtain ⟨qs, hq, hqinc⟩ :=
          push_operator_precedences root tree_stack s ps p s1 hp hinc hpush
        rcases he with he | he
        · exact ⟨qs, he.trans hq, hqinc⟩
        · cases hop : parse_operand n left p.bin_op s1 with
          | fault f =>
            rw [hop] at he
            simp only [List.not_mem_nil] at he
          | ok u s2 =>
            rw [hop] at he
            have hk := parse_operand_kept n left p.bin_op s1 s2 hop
            exact ih p.root p.tree_stack s2 qs
              (stack_precedences_kept s1 s2 hk _ _ hq) hqinc e he

/-- An instance of C34 (amended) on `a + b * c ;`: the loop is entered after the factor `a`
with the empty stack; the stack after the push of `+` and the stack after the push of `*`
are increasing to the top. -/
theorem stack_increases_to_top_witness :
    stack_precedences a_plus_b_times_c_head [] = some [] ∧ increasing_to_top []
    ∧ stack_trace 4 (NodePtr.node 0) (NodePtr.node 0) [] a_plus_b_times_c_head
      = [some [5], some [6, 5]]
    ∧ ∀ e ∈ stack_trace 4 (NodePtr.node 0) (NodePtr.node 0) [] a_plus_b_times_c_head,
        ∃ qs, e = some qs ∧ increasing_to_top qs :=
  ⟨rfl, List.chain'_nil, by decide!,
   stack_increases_to_top 4 (NodePtr.node 0) (NodePtr.node 0) [] a_plus_b_times_c_head []
     rfl List.chain'_nil⟩

end Onyx
namespace Onyx

open TokenType AstKind BinaryOp UnaryOp BasicKind OnyxMessageType

/-! ## Recovery from a missing semicolon at the end of a block -/

/-- C35 fails on `{ x } y ; }`: in the block `{ x }` the statement `x` lacks its
`;` and no `;` stands before the closing brace at index 2.  The statement proper ends on
that brace; `parse_statement` posts the one diagnostic and ends at index 3, behind the
brace; `parse_block` goes on with the statement `y ;` as a second statement of the body
and ends the block at the brace of index 5, with the cursor at index 6, not at index 3. -/
theorem missing_semicolon_consumes_closing_brace :
    unterminated_block_stream[2]?.map (fun t => t.type) = some (ascii '}') ∧
    (parse_statement_switch 9 unterminated_block_statement).final.map (fun s => s.curr)
      = some 2 ∧
    (parse_statement 10 unterminated_block_statement).final.map
        (fun s => (s.curr, s.msgs)) =
      some (3, [{ type := ONYX_MESSAGE_TYPE_EXPECTED_TOKEN, pos := { line := 1, column := 5 },
                  args := [MsgArg.token_name (ascii ';'),
                           MsgArg.token_name (ascii '}')] }]) ∧
    (parse_block 10 (onyx_parser_create unterminated_block_stream)).value
      = some (NodePtr.node 0) ∧
    (parse_block 10 (onyx_parser_create unterminated_block_stream)).final.map
        (fun s => (s.curr, s.heap.map (fun (n : AstNode) => (n.kind, n.token, n.next, n.body))))
      = some (6, [(Ast_Kind_Block, none, NodePtr.null, NodePtr.node 2),
                  (Ast_Kind_Local_Group, none, NodePtr.null, NodePtr.null),
                  (Ast_Kind_Symbol, some 1, NodePtr.node 3, NodePtr.null),
                  (Ast_Kind_Symbol, some 3, NodePtr.null, NodePtr.null)]) := by
  decide!

end Onyx
namespace Onyx

open debug_type_kind_t debug_type_primitive_kind_t debug_type_modifier_kind_t
  debug_sym_loc_kind_t

/-! ## The bounds of the structure and array renderers -/

/-- Counterexample to C22 as stated: over `bound_types` the type 1 is a structure of one
`u32` member whose name has 4095 characters, and the bytes 1 0 0 0 stand at the address
1040, so the member renders as `1`.  The text `name=` has 4096 characters and does not fit
the 4096-byte format buffer together with its NUL: `snprintf` cuts it to the name and the
NUL, and `WRITE_FORMAT` appends the 4096 bytes.  The text of `build_string` has a NUL where
the claim has `=`. -/
theorem structure_name_fills_buffer :
    bound_builder.info_types[1]?
      = some { id := 1, kind := debug_type_kind_structure, size := 4, member_count := 1,
               members := [ { name := buffer_name, offset := 0, type := 0 } ] }
    ∧ buffer_name.length = 4095
    ∧ memory_text sample_libc 1 bound_builder 1040 0 = some "1".toList
    ∧ (debug_runtime_value_build_set_location 4 bound_builder debug_sym_loc_global 1040 1
          "p".toList >>= debug_runtime_value_build_string sample_libc 4)
      = DbgRes.ok { located bound_builder debug_sym_loc_global 1040 1 "p".toList 1 with
          output := "\x7b ".toList ++ buffer_name ++ [Char.ofNat 0] ++ "1 \x7d".toList }
    ∧ "\x7b ".toList ++ buffer_name ++ [Char.ofNat 0] ++ "1 \x7d".toList
      ≠ structure_text [(buffer_name, "1".toList)] := by
  decide!

/-- Counterexample to C23 as stated: over `bound_types` the type 3 is an array of `2 ^ 31`
elements of type `u8`; the register 0 holds 2048, where the bytes 0x41 0x42 0x43 stand, so
the first element renders as `65`.  The loop bound `(i32) count` is negative and the loop
body does not run: the text of `build_string` is `[]`, from the register and from the
global address 2048, and no element is rendered. -/
theorem array_count_beyond_bound :
    bound_builder.info_types[3]?
      = some { id := 3, kind := debug_type_kind_array, size := 2147483648, array_type := 2,
               array_count := 2147483648 }
    ∧ lookup_register_in_frame bound_builder.ovm_state bound_builder.ovm_frame 0
      = DbgRes.ok 2048
    ∧ memory_text sample_libc 1 bound_builder 2048 2 = some "65".toList
    ∧ (debug_runtime_value_build_set_location 4 bound_builder debug_sym_loc_register 0 3
          "s".toList >>= debug_runtime_value_build_string sample_libc 4)
      = DbgRes.ok { located bound_builder debug_sym_loc_register 0 3 "s".toList 0 with
          output := "[]".toList }
    ∧ (debug_runtime_value_build_set_location 4 bound_builder debug_sym_loc_global 2048 3
          "s".toList >>= debug_runtime_value_build_string sample_libc 4)
      = DbgRes.ok { located bound_builder debug_sym_loc_global 2048 3 "s".toList 0 with
          output := "[]".toList } := by
  decide!

end Onyx
namespace Onyx

open debug_type_kind_t debug_type_primitive_kind_t debug_type_modifier_kind_t
  debug_sym_loc_kind_t

/-- A count of `2 ^ 31` or more, as a `u32`, is a negative `(i32)` bound: the loop body
does not run. -/
theorem loop_bound_beyond (count : Nat) (h1 : 2 ^ 31 ≤ count) (h2 : count < 2 ^ 32) :
    loop_bound count = 0 := by
  have h : count % 2 ^ 32 = count := Nat.mod_eq_of_lt h2
  have hn : ¬ count < 2 ^ 31 := by omega
  simp only [loop_bound, h, hn, if_false]

/-- A structure type with a member count of `2 ^ 31` or more: the memory renderer writes
the braces and no item. -/
theorem structure_loop_skipped (libc : Libc) (fuel : Nat)
    (b : debug_runtime_value_builder_t) (A type : Nat) (ty : debug_type_info_t)
    (hty : b.info_types[type]? = some ty) (hk : ty.kind = debug_type_kind_structure)
    (h1 : 2 ^ 31 ≤ ty.member_count) (h2 : ty.member_count < 2 ^ 32) :
    append_value_from_memory_with_type libc (fuel + 2) b A type
      = DbgRes.ok { b with output := b.output ++ "\x7b  \x7d".toList } := by
  have hb := loop_bound_beyond ty.member_count h1 h2
  rw [append_value_from_memory_with_type]
  simp only [hty, hk, WRITE, dbg_bind_ok]
  rw [append_members_from_memory]
  simp only [hb, Nat.lt_irrefl, if_false, dbg_bind_ok, List.append_assoc]
  rfl

/-- An array type with a count of `2 ^ 31` or more: the memory renderer writes the brackets
and no element. -/
theorem array_loop_skipped (libc : Libc) (fuel : Nat)
    (b : debug_runtime_value_builder_t) (A type : Nat) (ty ety : debug_type_info_t)
    (hty : b.info_types[type]? = some ty) (hk : ty.kind = debug_type_kind_array)
    (hety : b.info_types[ty.array_type]? = some ety)
    (h1 : 2 ^ 31 ≤ ty.array_count) (h2 : ty.array_count < 2 ^ 32) :
    append_value_from_memory_with_type libc (fuel + 2) b A type
      = DbgRes.ok { b with output := b.output ++ "[]".toList } := by
  have hb := loop_bound_beyond ty.array_count h1 h2
  have hety1 : ({ b with output := b.output ++ "[".toList } :
      debug_runtime_value_builder_t).info_types[ty.array_type]? = some ety := hety
  rw [append_value_from_memory_with_type]
  simp only [hty, hk, WRITE, dbg_bind_ok, hety1]
  rw [append_elements_from_memory]
  simp only [hb, Nat.lt_irrefl, if_false, dbg_bind_ok, List.append_assoc]
  rfl

end Onyx
